import Mathlib

/-!
# Verification development for `kernel/workqueue.c`

A shallow embedding of the concurrency-managed workqueue implementation.

Conventions of the embedding.

* Pointers are natural numbers (addresses); `0` is `NULL`.  The memory is split by
  structure field: every field of `work_struct`, `pool_workqueue`, `worker_pool`,
  `worker`, `workqueue_struct` and `wq_flusher` is one address-indexed map of the
  machine state, so `pwq->nr_active` is `s.pwq_nr_active pwq`.
* C `int` counters are `Int` (no counter of the model comes near the `int` range);
  `unsigned long` words are `Nat`, reduced modulo `2 ^ 64` where a shift can overflow.
* An intrusive `struct list_head` chain of work items is a `List Nat` kept with the
  list head, together with the map `work_entry` that records the head a work item is
  linked on (`none` is `list_empty(&work->entry)`).
* A region executed with `pool->lock` held is one function on states.  A function
  that releases the lock in the middle (`process_one_work`, `manage_workers`) is
  split at the release point.
-/

namespace Workqueue

/-! ## Constants of the work data word -/

/-- Modelled from the spec: bit number of PENDING, declared in the header
`include/linux/workqueue.h`, which is not part of the source file. -/
abbrev WORK_STRUCT_PENDING_BIT : Nat := 0
/-- Modelled from the spec: bit number of INACTIVE (header constant). -/
abbrev WORK_STRUCT_INACTIVE_BIT : Nat := 1
/-- Modelled from the spec: bit number of the PWQ tag (header constant). -/
abbrev WORK_STRUCT_PWQ_BIT : Nat := 2
/-- Modelled from the spec: bit number of LINKED (header constant). -/
abbrev WORK_STRUCT_LINKED_BIT : Nat := 3
/-- Modelled from the spec: first bit of the colour field (header constant, value
without `CONFIG_DEBUG_OBJECTS_WORK`). -/
abbrev WORK_STRUCT_COLOR_SHIFT : Nat := 4
/-- Modelled from the spec: width of the colour field (header constant). -/
abbrev WORK_STRUCT_COLOR_BITS : Nat := 4
/-- Modelled from the spec: header constant `1 << WORK_STRUCT_PENDING_BIT`. -/
abbrev WORK_STRUCT_PENDING : Nat := 1 <<< WORK_STRUCT_PENDING_BIT
/-- Modelled from the spec: header constant `1 << WORK_STRUCT_INACTIVE_BIT`. -/
abbrev WORK_STRUCT_INACTIVE : Nat := 1 <<< WORK_STRUCT_INACTIVE_BIT
/-- Modelled from the spec: header constant `1 << WORK_STRUCT_PWQ_BIT`. -/
abbrev WORK_STRUCT_PWQ : Nat := 1 <<< WORK_STRUCT_PWQ_BIT
/-- Modelled from the spec: header constant `1 << WORK_STRUCT_LINKED_BIT`. -/
abbrev WORK_STRUCT_LINKED : Nat := 1 <<< WORK_STRUCT_LINKED_BIT
/-- Modelled from the spec: header constant `1 << WORK_STRUCT_COLOR_BITS`. -/
abbrev WORK_NR_COLORS : Nat := 1 <<< WORK_STRUCT_COLOR_BITS
/-- Modelled from the spec: header constant, number of flag bits of a queued word. -/
abbrev WORK_STRUCT_FLAG_BITS : Nat := WORK_STRUCT_COLOR_SHIFT + WORK_STRUCT_COLOR_BITS
/-- Modelled from the spec: header constant, first off-queue flag bit. -/
abbrev WORK_OFFQ_FLAG_BASE : Nat := WORK_STRUCT_COLOR_SHIFT
/-- Modelled from the spec: header constant `1 << WORK_OFFQ_FLAG_BASE`. -/
abbrev WORK_OFFQ_CANCELING : Nat := 1 <<< WORK_OFFQ_FLAG_BASE
/-- Modelled from the spec: header constant, number of off-queue flag bits. -/
abbrev WORK_OFFQ_FLAG_BITS : Nat := 1
/-- Modelled from the spec: header constant, first bit of the pool id. -/
abbrev WORK_OFFQ_POOL_SHIFT : Nat := WORK_OFFQ_FLAG_BASE + WORK_OFFQ_FLAG_BITS
/-- Modelled from the spec: header constant, width of the pool id (64-bit long). -/
abbrev WORK_OFFQ_POOL_BITS : Nat := 31
/-- Modelled from the spec: header constant, the pool id that means no pool. -/
abbrev WORK_OFFQ_POOL_NONE : Nat := (1 <<< WORK_OFFQ_POOL_BITS) - 1
/-- Modelled from the spec: width of `unsigned long` on the modelled machine. -/
abbrev BITS_PER_LONG : Nat := 64
/-- Modelled from the spec: header constant `(1UL << WORK_STRUCT_FLAG_BITS) - 1`. -/
abbrev WORK_STRUCT_FLAG_MASK : Nat := (1 <<< WORK_STRUCT_FLAG_BITS) - 1
/-- Modelled from the spec: header constant, the complement of the flag mask. -/
abbrev WORK_STRUCT_WQ_DATA_MASK : Nat := (2 ^ BITS_PER_LONG - 1) - WORK_STRUCT_FLAG_MASK
/-- Modelled from the spec: header constant, data word of a work with no pool. -/
abbrev WORK_STRUCT_NO_POOL : Nat := WORK_OFFQ_POOL_NONE <<< WORK_OFFQ_POOL_SHIFT

/-- Modelled from the spec: workqueue flag `WQ_UNBOUND` (header constant). -/
abbrev WQ_UNBOUND : Nat := 1 <<< 1
/-- Modelled from the spec: workqueue flag `WQ_FREEZABLE` (header constant). -/
abbrev WQ_FREEZABLE : Nat := 1 <<< 2
/-- Modelled from the spec: workqueue flag `WQ_MEM_RECLAIM` (header constant). -/
abbrev WQ_MEM_RECLAIM : Nat := 1 <<< 3
/-- Modelled from the spec: workqueue flag `WQ_HIGHPRI` (header constant). -/
abbrev WQ_HIGHPRI : Nat := 1 <<< 4
/-- Modelled from the spec: workqueue flag `WQ_CPU_INTENSIVE` (header constant). -/
abbrev WQ_CPU_INTENSIVE : Nat := 1 <<< 5
/-- Modelled from the spec: internal workqueue flag `__WQ_DESTROYING`. -/
abbrev __WQ_DESTROYING : Nat := 1 <<< 15
/-- Modelled from the spec: internal workqueue flag `__WQ_DRAINING`. -/
abbrev __WQ_DRAINING : Nat := 1 <<< 16
/-- Modelled from the spec: internal workqueue flag `__WQ_ORDERED`. -/
abbrev __WQ_ORDERED : Nat := 1 <<< 17

/-- Modelled from the spec: errno value `ENOENT` (header constant). -/
abbrev ENOENT : Int := 2
/-- Modelled from the spec: errno value `EAGAIN` (header constant). -/
abbrev EAGAIN : Int := 11
/-- Modelled from the spec: `INT_MAX` (header constant). -/
abbrev INT_MAX : Int := 2147483647

/-! ## Constants of the enum at the top of the source file -/

abbrev POOL_MANAGER_ACTIVE : Nat := 1 <<< 0
abbrev POOL_DISASSOCIATED : Nat := 1 <<< 2
abbrev WORKER_DIE : Nat := 1 <<< 1
abbrev WORKER_IDLE : Nat := 1 <<< 2
abbrev WORKER_PREP : Nat := 1 <<< 3
abbrev WORKER_CPU_INTENSIVE : Nat := 1 <<< 6
abbrev WORKER_UNBOUND : Nat := 1 <<< 7
abbrev WORKER_REBOUND : Nat := 1 <<< 8
abbrev WORKER_NOT_RUNNING : Nat :=
  WORKER_PREP ||| WORKER_CPU_INTENSIVE ||| WORKER_UNBOUND ||| WORKER_REBOUND
abbrev MAX_IDLE_WORKERS_RATIO : Int := 4

abbrev PWQ_STAT_STARTED : Nat := 0
abbrev PWQ_STAT_COMPLETED : Nat := 1
abbrev PWQ_STAT_CPU_TIME : Nat := 2
abbrev PWQ_STAT_CPU_INTENSIVE : Nat := 3
abbrev PWQ_STAT_CM_WAKEUP : Nat := 4
abbrev PWQ_STAT_REPATRIATED : Nat := 5
abbrev PWQ_STAT_MAYDAY : Nat := 6
abbrev PWQ_STAT_RESCUED : Nat := 7

/-- The address of `wq_barrier_func`, the function of every barrier work item. -/
abbrev wq_barrier_func : Nat := 1

/-! ## Machine words -/

/-- Conversion of an `int` to `unsigned long`. -/
def to_ulong (x : Int) : Nat := (x % 2 ^ BITS_PER_LONG).toNat

/-- Conversion of an `unsigned long` to `int` (keeps the low 32 bits, two's complement). -/
def to_int (x : Nat) : Int :=
  if x % 2 ^ 32 < 2 ^ 31 then ((x % 2 ^ 32 : Nat) : Int) else ((x % 2 ^ 32 : Nat) : Int) - 2 ^ 32

/-- The complement `~x` of an `unsigned long`. -/
def ulong_not (x : Nat) : Nat := (2 ^ BITS_PER_LONG - 1) ^^^ (x % 2 ^ BITS_PER_LONG)

def work_color_to_flags (color : Int) : Nat :=
  (color % 2 ^ 32).toNat <<< WORK_STRUCT_COLOR_SHIFT

def get_work_color (work_data : Nat) : Int :=
  (((work_data >>> WORK_STRUCT_COLOR_SHIFT) &&& ((1 <<< WORK_STRUCT_COLOR_BITS) - 1) : Nat) : Int)

def work_next_color (color : Int) : Int :=
  Int.tmod (color + 1) WORK_NR_COLORS

/-! ## Data model -/

/-- The list heads a work item's `entry` can be linked on. -/
inductive list_head where
  | worklist (pool : Nat)
  | inactive_works (pwq : Nat)
  | scheduled (worker : Nat)
deriving DecidableEq, Repr

/-- A node of a circular list of work items: a list head or the entry of an item. -/
inductive list_node where
  | head (h : list_head)
  | item (work : Nat)
deriving DecidableEq, Repr

/-- The two states of a worker's task that the model distinguishes. -/
inductive task_state where
  | TASK_RUNNING
  | TASK_IDLE
deriving DecidableEq, Repr

/-- What the union of `entry` and `hentry` of a worker is linked on. -/
inductive link_state where
  | unlinked
  | idle_list
  | busy_hash
  | cull_list
deriving DecidableEq, Repr

/-- Fields of `struct workqueue_attrs` read by the modelled functions; `pod_cpumask` is the
field `__pod_cpumask`. -/
structure workqueue_attrs where
  nice : Int
  cpumask : Nat → Bool
  pod_cpumask : Nat → Bool
  affn_strict : Bool
  affn_scope : Int
  ordered : Bool

/-- The names of the fields of the memory, one per structure field and global.

* `work_*`: fields of `struct work_struct`; `dwork_*`: the fields of `struct
  delayed_work` next to the embedded work, the timer reduced to its pending state and
  expiry time.
* `lists`: the work items linked on each list head, in list order.
* `pwq_*`: fields of `struct pool_workqueue`; `pwq_release_work` records that the
  release work is queued on `pwq_release_worker`.
* `worker_*`: fields of `struct worker` as used by the source file;
  `worker_frame_pwq` and `worker_frame_work_data` are the locals `pwq` and `work_data`
  of `process_one_work`, which live across the unlocked call of the work function.
* `pool_*`: fields of `struct worker_pool`; `pool_busy_hash` lists the hashed workers,
  most recently hashed first.
* `flusher_*`: fields of `struct wq_flusher`; `flusher_done` counts the pending
  `complete()` calls.
* `wq_pwqs` .. `wq_cpu_pwq`: fields of `struct workqueue_struct`.
* the remaining fields are the globals and configuration values the functions read;
  `any_and_distribute` stands for `cpumask_any_and_distribute`. -/
inductive Field where
  | work_data
  | work_entry
  | work_func
  | dwork_timer_pending
  | dwork_timer_expires
  | dwork_wq
  | dwork_cpu
  | lists
  | pwq_pool
  | pwq_wq
  | pwq_work_color
  | pwq_flush_color
  | pwq_refcnt
  | pwq_nr_in_flight
  | pwq_nr_active
  | pwq_max_active
  | pwq_stats
  | pwq_release_work
  | worker_link
  | worker_current_work
  | worker_current_func
  | worker_current_pwq
  | worker_current_color
  | worker_sleeping
  | worker_last_func
  | worker_pool
  | worker_last_active
  | worker_flags
  | worker_rescue_wq
  | worker_task_state
  | worker_task_wake_cpu
  | worker_frame_pwq
  | worker_frame_work_data
  | pool_cpu
  | pool_id
  | pool_flags
  | pool_watchdog_ts
  | pool_nr_running
  | pool_nr_workers
  | pool_nr_idle
  | pool_idle_list
  | pool_idle_timer_pending
  | pool_idle_timer_expires
  | pool_busy_hash
  | pool_manager
  | pool_workers
  | pool_dying_workers
  | pool_attrs
  | pool_hashed
  | pool_refcnt
  | flusher_flush_color
  | flusher_done
  | wq_pwqs
  | wq_work_color
  | wq_flush_color
  | wq_nr_pwqs_to_flush
  | wq_first_flusher
  | wq_flusher_queue
  | wq_flusher_overflow
  | wq_maydays
  | wq_rescuer
  | wq_nr_drainers
  | wq_saved_max_active
  | wq_dfl_pwq
  | wq_flags
  | wq_cpu_pwq
  | worker_pool_idr
  | jiffies
  | HZ
  | workqueue_freezing
  | wq_debug_force_rr_cpu
  | wq_unbound_cpumask
  | cpu_online_mask
  | nr_cpu_ids
  | NR_CPUS
  | wq_rr_cpu_last
  | any_and_distribute
deriving DecidableEq

/-- The type of the map kept for a field. -/
@[reducible] def Field.type : Field → Type
  | .work_data => Nat → Nat
  | .work_entry => Nat → Option list_head
  | .work_func => Nat → Nat
  | .dwork_timer_pending => Nat → Bool
  | .dwork_timer_expires => Nat → Nat
  | .dwork_wq => Nat → Nat
  | .dwork_cpu => Nat → Nat
  | .lists => list_head → List Nat
  | .pwq_pool => Nat → Nat
  | .pwq_wq => Nat → Nat
  | .pwq_work_color => Nat → Int
  | .pwq_flush_color => Nat → Int
  | .pwq_refcnt => Nat → Int
  | .pwq_nr_in_flight => Nat → Int → Int
  | .pwq_nr_active => Nat → Int
  | .pwq_max_active => Nat → Int
  | .pwq_stats => Nat → Nat → Nat
  | .pwq_release_work => Nat → Bool
  | .worker_link => Nat → link_state
  | .worker_current_work => Nat → Nat
  | .worker_current_func => Nat → Nat
  | .worker_current_pwq => Nat → Nat
  | .worker_current_color => Nat → Int
  | .worker_sleeping => Nat → Int
  | .worker_last_func => Nat → Nat
  | .worker_pool => Nat → Nat
  | .worker_last_active => Nat → Nat
  | .worker_flags => Nat → Nat
  | .worker_rescue_wq => Nat → Nat
  | .worker_task_state => Nat → task_state
  | .worker_task_wake_cpu => Nat → Nat
  | .worker_frame_pwq => Nat → Nat
  | .worker_frame_work_data => Nat → Nat
  | .pool_cpu => Nat → Int
  | .pool_id => Nat → Int
  | .pool_flags => Nat → Nat
  | .pool_watchdog_ts => Nat → Nat
  | .pool_nr_running => Nat → Int
  | .pool_nr_workers => Nat → Int
  | .pool_nr_idle => Nat → Int
  | .pool_idle_list => Nat → List Nat
  | .pool_idle_timer_pending => Nat → Bool
  | .pool_idle_timer_expires => Nat → Nat
  | .pool_busy_hash => Nat → List Nat
  | .pool_manager => Nat → Nat
  | .pool_workers => Nat → List Nat
  | .pool_dying_workers => Nat → List Nat
  | .pool_attrs => Nat → workqueue_attrs
  | .pool_hashed => Nat → Bool
  | .pool_refcnt => Nat → Int
  | .flusher_flush_color => Nat → Int
  | .flusher_done => Nat → Nat
  | .wq_pwqs => Nat → List Nat
  | .wq_work_color => Nat → Int
  | .wq_flush_color => Nat → Int
  | .wq_nr_pwqs_to_flush => Nat → Int
  | .wq_first_flusher => Nat → Nat
  | .wq_flusher_queue => Nat → List Nat
  | .wq_flusher_overflow => Nat → List Nat
  | .wq_maydays => Nat → List Nat
  | .wq_rescuer => Nat → Nat
  | .wq_nr_drainers => Nat → Int
  | .wq_saved_max_active => Nat → Int
  | .wq_dfl_pwq => Nat → Nat
  | .wq_flags => Nat → Nat
  | .wq_cpu_pwq => Nat → Nat → Nat
  | .worker_pool_idr => Int → Nat
  | .jiffies => Nat
  | .HZ => Nat
  | .workqueue_freezing => Bool
  | .wq_debug_force_rr_cpu => Bool
  | .wq_unbound_cpumask => Nat → Bool
  | .cpu_online_mask => Nat → Bool
  | .nr_cpu_ids => Nat
  | .NR_CPUS => Nat
  | .wq_rr_cpu_last => Nat → Nat
  | .any_and_distribute => (Nat → Bool) → (Nat → Bool) → Nat

/-- The machine state: for every field, its map from object addresses to values (for
a global, its value). -/
def State : Type := (f : Field) → f.type

abbrev State.work_data (s : State) : Nat → Nat := s Field.work_data
abbrev State.work_entry (s : State) : Nat → Option list_head := s Field.work_entry
abbrev State.work_func (s : State) : Nat → Nat := s Field.work_func
abbrev State.dwork_timer_pending (s : State) : Nat → Bool := s Field.dwork_timer_pending
abbrev State.dwork_timer_expires (s : State) : Nat → Nat := s Field.dwork_timer_expires
abbrev State.dwork_wq (s : State) : Nat → Nat := s Field.dwork_wq
abbrev State.dwork_cpu (s : State) : Nat → Nat := s Field.dwork_cpu
abbrev State.lists (s : State) : list_head → List Nat := s Field.lists
abbrev State.pwq_pool (s : State) : Nat → Nat := s Field.pwq_pool
abbrev State.pwq_wq (s : State) : Nat → Nat := s Field.pwq_wq
abbrev State.pwq_work_color (s : State) : Nat → Int := s Field.pwq_work_color
abbrev State.pwq_flush_color (s : State) : Nat → Int := s Field.pwq_flush_color
abbrev State.pwq_refcnt (s : State) : Nat → Int := s Field.pwq_refcnt
abbrev State.pwq_nr_in_flight (s : State) : Nat → Int → Int := s Field.pwq_nr_in_flight
abbrev State.pwq_nr_active (s : State) : Nat → Int := s Field.pwq_nr_active
abbrev State.pwq_max_active (s : State) : Nat → Int := s Field.pwq_max_active
abbrev State.pwq_stats (s : State) : Nat → Nat → Nat := s Field.pwq_stats
abbrev State.pwq_release_work (s : State) : Nat → Bool := s Field.pwq_release_work
abbrev State.worker_link (s : State) : Nat → link_state := s Field.worker_link
abbrev State.worker_current_work (s : State) : Nat → Nat := s Field.worker_current_work
abbrev State.worker_current_func (s : State) : Nat → Nat := s Field.worker_current_func
abbrev State.worker_current_pwq (s : State) : Nat → Nat := s Field.worker_current_pwq
abbrev State.worker_current_color (s : State) : Nat → Int := s Field.worker_current_color
abbrev State.worker_sleeping (s : State) : Nat → Int := s Field.worker_sleeping
abbrev State.worker_last_func (s : State) : Nat → Nat := s Field.worker_last_func
abbrev State.worker_pool (s : State) : Nat → Nat := s Field.worker_pool
abbrev State.worker_last_active (s : State) : Nat → Nat := s Field.worker_last_active
abbrev State.worker_flags (s : State) : Nat → Nat := s Field.worker_flags
abbrev State.worker_rescue_wq (s : State) : Nat → Nat := s Field.worker_rescue_wq
abbrev State.worker_task_state (s : State) : Nat → task_state := s Field.worker_task_state
abbrev State.worker_task_wake_cpu (s : State) : Nat → Nat := s Field.worker_task_wake_cpu
abbrev State.worker_frame_pwq (s : State) : Nat → Nat := s Field.worker_frame_pwq
abbrev State.worker_frame_work_data (s : State) : Nat → Nat := s Field.worker_frame_work_data
abbrev State.pool_cpu (s : State) : Nat → Int := s Field.pool_cpu
abbrev State.pool_id (s : State) : Nat → Int := s Field.pool_id
abbrev State.pool_flags (s : State) : Nat → Nat := s Field.pool_flags
abbrev State.pool_watchdog_ts (s : State) : Nat → Nat := s Field.pool_watchdog_ts
abbrev State.pool_nr_running (s : State) : Nat → Int := s Field.pool_nr_running
abbrev State.pool_nr_workers (s : State) : Nat → Int := s Field.pool_nr_workers
abbrev State.pool_nr_idle (s : State) : Nat → Int := s Field.pool_nr_idle
abbrev State.pool_idle_list (s : State) : Nat → List Nat := s Field.pool_idle_list
abbrev State.pool_idle_timer_pending (s : State) : Nat → Bool := s Field.pool_idle_timer_pending
abbrev State.pool_idle_timer_expires (s : State) : Nat → Nat := s Field.pool_idle_timer_expires
abbrev State.pool_busy_hash (s : State) : Nat → List Nat := s Field.pool_busy_hash
abbrev State.pool_manager (s : State) : Nat → Nat := s Field.pool_manager
abbrev State.pool_workers (s : State) : Nat → List Nat := s Field.pool_workers
abbrev State.pool_dying_workers (s : State) : Nat → List Nat := s Field.pool_dying_workers
abbrev State.pool_attrs (s : State) : Nat → workqueue_attrs := s Field.pool_attrs
abbrev State.pool_hashed (s : State) : Nat → Bool := s Field.pool_hashed
abbrev State.pool_refcnt (s : State) : Nat → Int := s Field.pool_refcnt
abbrev State.flusher_flush_color (s : State) : Nat → Int := s Field.flusher_flush_color
abbrev State.flusher_done (s : State) : Nat → Nat := s Field.flusher_done
abbrev State.wq_pwqs (s : State) : Nat → List Nat := s Field.wq_pwqs
abbrev State.wq_work_color (s : State) : Nat → Int := s Field.wq_work_color
abbrev State.wq_flush_color (s : State) : Nat → Int := s Field.wq_flush_color
abbrev State.wq_nr_pwqs_to_flush (s : State) : Nat → Int := s Field.wq_nr_pwqs_to_flush
abbrev State.wq_first_flusher (s : State) : Nat → Nat := s Field.wq_first_flusher
abbrev State.wq_flusher_queue (s : State) : Nat → List Nat := s Field.wq_flusher_queue
abbrev State.wq_flusher_overflow (s : State) : Nat → List Nat := s Field.wq_flusher_overflow
abbrev State.wq_maydays (s : State) : Nat → List Nat := s Field.wq_maydays
abbrev State.wq_rescuer (s : State) : Nat → Nat := s Field.wq_rescuer
abbrev State.wq_nr_drainers (s : State) : Nat → Int := s Field.wq_nr_drainers
abbrev State.wq_saved_max_active (s : State) : Nat → Int := s Field.wq_saved_max_active
abbrev State.wq_dfl_pwq (s : State) : Nat → Nat := s Field.wq_dfl_pwq
abbrev State.wq_flags (s : State) : Nat → Nat := s Field.wq_flags
abbrev State.wq_cpu_pwq (s : State) : Nat → Nat → Nat := s Field.wq_cpu_pwq
abbrev State.worker_pool_idr (s : State) : Int → Nat := s Field.worker_pool_idr
abbrev State.jiffies (s : State) : Nat := s Field.jiffies
abbrev State.HZ (s : State) : Nat := s Field.HZ
abbrev State.workqueue_freezing (s : State) : Bool := s Field.workqueue_freezing
abbrev State.wq_debug_force_rr_cpu (s : State) : Bool := s Field.wq_debug_force_rr_cpu
abbrev State.wq_unbound_cpumask (s : State) : Nat → Bool := s Field.wq_unbound_cpumask
abbrev State.cpu_online_mask (s : State) : Nat → Bool := s Field.cpu_online_mask
abbrev State.nr_cpu_ids (s : State) : Nat := s Field.nr_cpu_ids
abbrev State.NR_CPUS (s : State) : Nat := s Field.NR_CPUS
abbrev State.wq_rr_cpu_last (s : State) : Nat → Nat := s Field.wq_rr_cpu_last
abbrev State.any_and_distribute (s : State) : (Nat → Bool) → (Nat → Bool) → Nat := s Field.any_and_distribute

/-- The state with the map of the field `f` replaced by `v`. -/
def State.set (s : State) (f : Field) (v : f.type) : State := Function.update s f v

/-- The calling context of a function: the CPU it runs on and the worker it runs as
(`current_wq_worker()`, `NULL` when the caller is not a workqueue worker). -/
structure task_ctx where
  cpu : Nat
  worker : Nat

/-- The value of `*work_data_bits(work)`. -/
def work_data_bits (s : State) (work : Nat) : Nat := s.work_data work

/-- The macro `work_pending(work)`. -/
def work_pending (s : State) (work : Nat) : Bool :=
  decide (work_data_bits s work &&& WORK_STRUCT_PENDING ≠ 0)

/-! ## List primitives -/

/-- The call `list_empty(&work->entry)`. -/
def list_empty_entry (s : State) (work : Nat) : Bool := (s.work_entry work).isNone

/-- The call `list_empty(head)` for a list head of work items. -/
def list_empty (s : State) (h : list_head) : Bool := (s.lists h).isEmpty

/-- The segment of the list `l` that starts at the item `w`. -/
def list_from (w : Nat) (l : List Nat) : List Nat := l.dropWhile (fun x => x != w)

/-- The part of the list `l` before the item `w`. -/
def list_before (w : Nat) (l : List Nat) : List Nat := l.takeWhile (fun x => x != w)

/-- The node `work->entry.next`: the entry after `work` on its list, or the list head
when `work` is the last entry.  An unlinked entry points to itself. -/
def entry_next (s : State) (work : Nat) : list_node :=
  match s.work_entry work with
  | none => list_node.item work
  | some h =>
    match (list_from work (s.lists h)).drop 1 with
    | [] => list_node.head h
    | n :: _ => list_node.item n

/-- The node `head->next` of a list head. -/
def head_next (s : State) (h : list_head) : list_node :=
  match s.lists h with
  | [] => list_node.head h
  | n :: _ => list_node.item n

/-- Insertion of `w` right before the entry `x` of the list `l`. -/
def insert_before (x w : Nat) : List Nat → List Nat
  | [] => []
  | y :: l => if y = x then w :: y :: l else y :: insert_before x w l

/-- The call `list_del_init(&work->entry)` (also `__list_del_entry`): the entry leaves
the list it is linked on and points to itself. -/
def list_del_init (s : State) (work : Nat) : State :=
  (s.set .lists
      (match s.work_entry work with
        | none => s.lists
        | some h => Function.update s.lists h ((s.lists h).erase work))).set
    .work_entry (Function.update s.work_entry work none)

/-- The list heads after `list_add_tail(&work->entry, node)`. -/
def list_add_tail_lists (s : State) (work : Nat) (node : list_node) : list_head → List Nat :=
  match node with
  | list_node.head h => Function.update s.lists h (s.lists h ++ [work])
  | list_node.item x =>
    match s.work_entry x with
    | none => s.lists
    | some h => Function.update s.lists h (insert_before x work (s.lists h))

/-- The list head an entry is on after it is added before `node`. -/
def list_add_tail_entry (s : State) (work : Nat) (node : list_node) : Option list_head :=
  match node with
  | list_node.head h => some h
  | list_node.item x =>
    match s.work_entry x with
    | none => s.work_entry work
    | some h => some h

/-- The call `list_add_tail(&work->entry, node)` for an unlinked `work`: the entry is
inserted right before `node`, which for a list head is the tail of that list.  A
`node` that is itself an unlinked entry is not a call the source makes; the lists are
then left as they are. -/
def list_add_tail (s : State) (work : Nat) (node : list_node) : State :=
  (s.set .lists (list_add_tail_lists s work node)).set
    .work_entry (Function.update s.work_entry work (list_add_tail_entry s work node))

/-- The call `list_move_tail(&work->entry, head)`. -/
def list_move_tail (s : State) (work : Nat) (h : list_head) : State :=
  list_add_tail (list_del_init s work) work (list_node.head h)

/-! ## The work data word -/

/-- The call `test_and_set_bit(WORK_STRUCT_PENDING_BIT, work_data_bits(work))`: the old
value of the bit and the state with the bit set. -/
def test_and_set_bit_pending (s : State) (work : Nat) : Bool × State :=
  (Nat.testBit (work_data_bits s work) WORK_STRUCT_PENDING_BIT,
   (s.set .work_data (Function.update s.work_data work
       (work_data_bits s work ||| (1 <<< WORK_STRUCT_PENDING_BIT)))))

/-- The call `__set_bit(nr, work_data_bits(work))`. -/
def __set_bit (s : State) (nr : Nat) (work : Nat) : State :=
  (s.set .work_data (Function.update s.work_data work (work_data_bits s work ||| (1 <<< nr))))

/-- The call `__clear_bit(nr, work_data_bits(work))`. -/
def __clear_bit (s : State) (nr : Nat) (work : Nat) : State :=
  (s.set .work_data (Function.update s.work_data work
      (work_data_bits s work &&& ulong_not (1 <<< nr))))

/-- The function `set_work_data`; `work_static(work)` is `0` without
`CONFIG_DEBUG_OBJECTS_WORK`. -/
def set_work_data (s : State) (work : Nat) (data flags : Nat) : State :=
  (s.set .work_data (Function.update s.work_data work (data ||| flags)))

def set_work_pwq (s : State) (work pwq : Nat) (extra_flags : Nat) : State :=
  set_work_data s work pwq (WORK_STRUCT_PENDING ||| WORK_STRUCT_PWQ ||| extra_flags)

def set_work_pool_and_keep_pending (s : State) (work : Nat) (pool_id : Int) : State :=
  set_work_data s work ((to_ulong pool_id <<< WORK_OFFQ_POOL_SHIFT) % 2 ^ BITS_PER_LONG)
    WORK_STRUCT_PENDING

def set_work_pool_and_clear_pending (s : State) (work : Nat) (pool_id : Int) : State :=
  set_work_data s work ((to_ulong pool_id <<< WORK_OFFQ_POOL_SHIFT) % 2 ^ BITS_PER_LONG) 0

def clear_work_data (s : State) (work : Nat) : State :=
  set_work_data s work WORK_STRUCT_NO_POOL 0

def work_struct_pwq (data : Nat) : Nat := data &&& WORK_STRUCT_WQ_DATA_MASK

def get_work_pwq (s : State) (work : Nat) : Nat :=
  if work_data_bits s work &&& WORK_STRUCT_PWQ ≠ 0 then work_struct_pwq (work_data_bits s work)
  else 0

/-- The function `get_work_pool`; `idr_find` is the lookup in `worker_pool_idr`. -/
def get_work_pool (s : State) (work : Nat) : Nat :=
  if work_data_bits s work &&& WORK_STRUCT_PWQ ≠ 0 then
    s.pwq_pool (work_struct_pwq (work_data_bits s work))
  else if to_int (work_data_bits s work >>> WORK_OFFQ_POOL_SHIFT) = (WORK_OFFQ_POOL_NONE : Int) then 0
  else s.worker_pool_idr (to_int (work_data_bits s work >>> WORK_OFFQ_POOL_SHIFT))

def get_work_pool_id (s : State) (work : Nat) : Int :=
  if work_data_bits s work &&& WORK_STRUCT_PWQ ≠ 0 then
    s.pool_id (s.pwq_pool (work_struct_pwq (work_data_bits s work)))
  else to_int (work_data_bits s work >>> WORK_OFFQ_POOL_SHIFT)

def mark_work_canceling (s : State) (work : Nat) : State :=
  set_work_data s work
    (((to_ulong (get_work_pool_id s work) <<< WORK_OFFQ_POOL_SHIFT) % 2 ^ BITS_PER_LONG) |||
      WORK_OFFQ_CANCELING)
    WORK_STRUCT_PENDING

def work_is_canceling (s : State) (work : Nat) : Bool :=
  decide (work_data_bits s work &&& WORK_STRUCT_PWQ = 0 ∧
    work_data_bits s work &&& WORK_OFFQ_CANCELING ≠ 0)

/-! ## Pool policy functions -/

def need_more_worker (s : State) (pool : Nat) : Bool :=
  !list_empty s (list_head.worklist pool) && decide (s.pool_nr_running pool = 0)

def may_start_working (s : State) (pool : Nat) : Bool :=
  decide (s.pool_nr_idle pool ≠ 0)

def keep_working (s : State) (pool : Nat) : Bool :=
  !list_empty s (list_head.worklist pool) && decide (s.pool_nr_running pool ≤ 1)

def need_to_create_worker (s : State) (pool : Nat) : Bool :=
  need_more_worker s pool && !may_start_working s pool

/-- The local `nr_idle` of `too_many_workers`: the manager is considered idle. -/
def too_many_workers_nr_idle (s : State) (pool : Nat) : Int :=
  s.pool_nr_idle pool + (if s.pool_flags pool &&& POOL_MANAGER_ACTIVE ≠ 0 then 1 else 0)

def too_many_workers (s : State) (pool : Nat) : Bool :=
  decide (too_many_workers_nr_idle s pool > 2 ∧
    (too_many_workers_nr_idle s pool - 2) * MAX_IDLE_WORKERS_RATIO ≥
      s.pool_nr_workers pool - too_many_workers_nr_idle s pool)

def worker_set_flags (s : State) (worker : Nat) (flags : Nat) : State :=
  let pool := s.worker_pool worker
  let s1 :=
    if flags &&& WORKER_NOT_RUNNING ≠ 0 ∧ s.worker_flags worker &&& WORKER_NOT_RUNNING = 0 then
      (s.set .pool_nr_running (Function.update s.pool_nr_running pool (s.pool_nr_running pool - 1)))
    else s
  (s1.set .worker_flags (Function.update s1.worker_flags worker (s1.worker_flags worker ||| flags)))

def worker_clr_flags (s : State) (worker : Nat) (flags : Nat) : State :=
  let pool := s.worker_pool worker
  let oflags := s.worker_flags worker
  let s1 := (s.set .worker_flags (Function.update s.worker_flags worker (oflags &&& ulong_not flags)))
  if flags &&& WORKER_NOT_RUNNING ≠ 0 ∧ oflags &&& WORKER_NOT_RUNNING ≠ 0 ∧
      s1.worker_flags worker &&& WORKER_NOT_RUNNING = 0 then
    (s1.set .pool_nr_running (Function.update s1.pool_nr_running pool (s1.pool_nr_running pool + 1)))
  else s1

/-- The function `first_idle_worker`; `NULL` when the idle list is empty. -/
def first_idle_worker (s : State) (pool : Nat) : Nat :=
  (s.pool_idle_list pool).headD 0

/-- The function `find_worker_executing_work`.  The bucket of `busy_hash` for the key
`work` holds, in the order of `busy_hash`, the hashed workers whose key falls in the
bucket, among them every worker whose `current_work` is `work`; the first match of the
bucket walk is therefore the first match in `busy_hash`. -/
def find_worker_executing_work (s : State) (pool work : Nat) : Nat :=
  ((s.pool_busy_hash pool).find?
      (fun k => decide (s.worker_current_work k = work ∧
        s.worker_current_func k = s.work_func work))).getD 0

/-! ## Waking workers -/

/-- The call `wake_up_process(worker->task)`, reduced to the task state. -/
def wake_up_process (s : State) (worker : Nat) : State :=
  (s.set .worker_task_state (Function.update s.worker_task_state worker task_state.TASK_RUNNING))

/-- The part of `kick_pool` under `CONFIG_SMP`: an idle worker outside the affinity scope
of a pool with non-strict affinity is repatriated. -/
def kick_pool_repatriate (s : State) (pool worker : Nat) : State :=
  if (s.pool_attrs pool).affn_strict = false ∧
      (s.pool_attrs pool).pod_cpumask (s.worker_task_wake_cpu worker) = false then
    let work := (s.lists (list_head.worklist pool)).headD 0
    let wake_cpu := s.any_and_distribute (s.pool_attrs pool).pod_cpumask s.cpu_online_mask
    if wake_cpu < s.nr_cpu_ids then
      (s
        |>.set .worker_task_wake_cpu (Function.update s.worker_task_wake_cpu worker wake_cpu)
        |>.set .pwq_stats (Function.update s.pwq_stats (get_work_pwq s work)
            (Function.update (s.pwq_stats (get_work_pwq s work)) PWQ_STAT_REPATRIATED
            (s.pwq_stats (get_work_pwq s work) PWQ_STAT_REPATRIATED + 1))))
    else s
  else s

/-- The function `kick_pool`: the return value and the state. -/
def kick_pool (s : State) (pool : Nat) : Bool × State :=
  if need_more_worker s pool = false ∨ first_idle_worker s pool = 0 then (false, s)
  else (true, wake_up_process (kick_pool_repatriate s pool (first_idle_worker s pool))
    (first_idle_worker s pool))

/-! ## References on a pool_workqueue -/

def get_pwq (s : State) (pwq : Nat) : State :=
  (s.set .pwq_refcnt (Function.update s.pwq_refcnt pwq (s.pwq_refcnt pwq + 1)))

/-- The function `put_pwq`; `kthread_queue_work(pwq_release_worker, ...)` sets
`pwq_release_work`. -/
def put_pwq (s : State) (pwq : Nat) : State :=
  if s.pwq_refcnt pwq - 1 ≠ 0 then
    (s.set .pwq_refcnt (Function.update s.pwq_refcnt pwq (s.pwq_refcnt pwq - 1)))
  else
    (s
      |>.set .pwq_refcnt (Function.update s.pwq_refcnt pwq (s.pwq_refcnt pwq - 1))
      |>.set .pwq_release_work (Function.update s.pwq_release_work pwq true))

/-! ## Moving and assigning work items -/

/-- The loop of `move_linked_works`, at most `fuel` iterations: `n` is read before the
body moves `work`, and the walk stops after the first entry without LINKED.  The loop
of the source has no other exit; on reaching a list head (which the comment in the
source rules out) the walk of the model stops. -/
def move_linked_works_loop : Nat → State → Nat → list_head → State × list_node
  | 0, s, work, _ => (s, list_node.item work)
  | fuel + 1, s, work, head =>
    if work_data_bits (list_move_tail s work head) work &&& WORK_STRUCT_LINKED = 0 then
      (list_move_tail s work head, entry_next s work)
    else
      match entry_next s work with
      | list_node.head h => (list_move_tail s work head, list_node.head h)
      | list_node.item w => move_linked_works_loop fuel (list_move_tail s work head) w head

/-- The function `move_linked_works`; the second component is the value stored through
`nextp`.  The number of iterations is bounded by the length of the list `work` is on. -/
def move_linked_works (s : State) (work : Nat) (head : list_head) : State × list_node :=
  match s.work_entry work with
  | none => move_linked_works_loop 1 s work head
  | some h => move_linked_works_loop (s.lists h).length s work head

/-- The function `assign_work`: the return value, the state and the value stored
through `nextp`. -/
def assign_work (s : State) (work worker : Nat) : Bool × State × list_node :=
  if find_worker_executing_work s (s.worker_pool worker) work ≠ 0 then
    (false, move_linked_works s work
      (list_head.scheduled (find_worker_executing_work s (s.worker_pool worker) work)))
  else
    (true, move_linked_works s work (list_head.scheduled worker))

def insert_work (s : State) (pwq work : Nat) (head : list_node) (extra_flags : Nat) : State :=
  get_pwq (list_add_tail (set_work_pwq s work pwq extra_flags) work head) pwq

/-! ## Activation and in-flight accounting -/

/-- The statement `if (list_empty(&pool->worklist)) pool->watchdog_ts = jiffies;`. -/
def touch_watchdog_if_empty (s : State) (pool : Nat) : State :=
  if list_empty s (list_head.worklist pool) = true then
    (s.set .pool_watchdog_ts (Function.update s.pool_watchdog_ts pool s.jiffies))
  else s

def pwq_activate_inactive_work (s : State) (work : Nat) : State :=
  let pwq := get_work_pwq s work
  let s2 := (move_linked_works (touch_watchdog_if_empty s (s.pwq_pool pwq)) work
    (list_head.worklist (s.pwq_pool pwq))).1
  let s3 := __clear_bit s2 WORK_STRUCT_INACTIVE_BIT work
  (s3.set .pwq_nr_active (Function.update s3.pwq_nr_active pwq (s3.pwq_nr_active pwq + 1)))

/-- The function `pwq_activate_first_inactive`; its callers test that `inactive_works`
is not empty, on an empty list the model leaves the state as it is. -/
def pwq_activate_first_inactive (s : State) (pwq : Nat) : State :=
  if s.lists (list_head.inactive_works pwq) = [] then s
  else pwq_activate_inactive_work s ((s.lists (list_head.inactive_works pwq)).headD 0)

/-- The call `complete(&flusher->done)`. -/
def complete_flusher (s : State) (f : Nat) : State :=
  (s.set .flusher_done (Function.update s.flusher_done f (s.flusher_done f + 1)))

/-- The first block of `pwq_dec_nr_in_flight`: an item that was not INACTIVE gives up its
`nr_active` slot, which goes to the first inactive item if `max_active` allows. -/
def pwq_dec_nr_active (s : State) (pwq : Nat) (work_data : Nat) : State :=
  if work_data &&& WORK_STRUCT_INACTIVE = 0 then
    let s2 := (s.set .pwq_nr_active (Function.update s.pwq_nr_active pwq (s.pwq_nr_active pwq - 1)))
    if list_empty s2 (list_head.inactive_works pwq) = false ∧
        s2.pwq_nr_active pwq < s2.pwq_max_active pwq then
      pwq_activate_first_inactive s2 pwq
    else s2
  else s

/-- The part of `pwq_dec_nr_in_flight` from the comment "is flush in progress and are we
at the flushing tip?" to the label `out_put`. -/
def pwq_flush_tip (s : State) (pwq : Nat) (color : Int) : State :=
  if s.pwq_flush_color pwq ≠ color then s
  else if s.pwq_nr_in_flight pwq color ≠ 0 then s
  else
    let s5 := (s.set .pwq_flush_color (Function.update s.pwq_flush_color pwq (-1)))
    let wq := s5.pwq_wq pwq
    let s6 := (s5.set .wq_nr_pwqs_to_flush (Function.update s5.wq_nr_pwqs_to_flush wq (s5.wq_nr_pwqs_to_flush wq - 1)))
    if s6.wq_nr_pwqs_to_flush wq = 0 then complete_flusher s6 (s6.wq_first_flusher wq)
    else s6

def pwq_dec_nr_in_flight (s : State) (pwq : Nat) (work_data : Nat) : State :=
  let color := get_work_color work_data
  let s1 := pwq_dec_nr_active s pwq work_data
  let s3 := (s1.set .pwq_nr_in_flight (Function.update s1.pwq_nr_in_flight pwq
      (Function.update (s1.pwq_nr_in_flight pwq) color (s1.pwq_nr_in_flight pwq color - 1))))
  put_pwq (pwq_flush_tip s3 pwq color) pwq

/-! ## Stealing a pending work item -/

/-- The state after a successful `del_timer(&dwork->timer)`. -/
def del_timer (s : State) (dwork : Nat) : State :=
  (s.set .dwork_timer_pending (Function.update s.dwork_timer_pending dwork false))

/-- The block of `try_to_grab_pending` that steals a work item queued on `pwq`, run with
the lock of `pool` held. -/
def try_to_grab_pending_steal (s : State) (work pool pwq : Nat) : State :=
  let s2 :=
    if work_data_bits s work &&& WORK_STRUCT_INACTIVE ≠ 0 then pwq_activate_inactive_work s work
    else s
  let s3 := list_del_init s2 work
  let s4 := pwq_dec_nr_in_flight s3 pwq (work_data_bits s3 work)
  set_work_pool_and_keep_pending s4 work (s4.pool_id pool)

/-- The function `try_to_grab_pending`: the return value and the state.  The call
`del_timer(&dwork->timer)` succeeds exactly when the timer is pending. -/
def try_to_grab_pending (s : State) (work : Nat) (is_dwork : Bool) : Int × State :=
  if is_dwork = true ∧ s.dwork_timer_pending work = true then (1, del_timer s work)
  else if (test_and_set_bit_pending s work).1 = false then (0, (test_and_set_bit_pending s work).2)
  else
    let s1 := (test_and_set_bit_pending s work).2
    if get_work_pool s1 work ≠ 0 ∧ get_work_pwq s1 work ≠ 0 ∧
        s1.pwq_pool (get_work_pwq s1 work) = get_work_pool s1 work then
      (1, try_to_grab_pending_steal s1 work (get_work_pool s1 work) (get_work_pwq s1 work))
    else if work_is_canceling s1 work = true then (-ENOENT, s1)
    else (-EAGAIN, s1)

/-! ## Queueing -/

def is_chained_work (s : State) (t : task_ctx) (wq : Nat) : Bool :=
  decide (t.worker ≠ 0 ∧ s.pwq_wq (s.worker_current_pwq t.worker) = wq)

/-- The call `cpumask_next_and(n, src1, src2)`: the next CPU after `n` set in both
masks, `nr_cpu_ids` when there is none. -/
def cpumask_next_and (s : State) (n : Nat) (src1 src2 : Nat → Bool) : Nat :=
  ((List.range s.nr_cpu_ids).find? (fun c => decide (n < c) && src1 c && src2 c)).getD s.nr_cpu_ids

/-- The call `cpumask_first_and(src1, src2)`. -/
def cpumask_first_and (s : State) (src1 src2 : Nat → Bool) : Nat :=
  ((List.range s.nr_cpu_ids).find? (fun c => src1 c && src2 c)).getD s.nr_cpu_ids

/-- The function `wq_select_unbound_cpu`, called on the CPU `cpu`: the selected CPU
and the state (the per-CPU variable `wq_rr_cpu_last` may be written). -/
def wq_select_unbound_cpu (s : State) (cpu : Nat) : Nat × State :=
  if s.wq_debug_force_rr_cpu = false ∧ s.wq_unbound_cpumask cpu = true then (cpu, s)
  else if cpumask_next_and s (s.wq_rr_cpu_last cpu) s.wq_unbound_cpumask s.cpu_online_mask
      ≥ s.nr_cpu_ids then
    if cpumask_first_and s s.wq_unbound_cpumask s.cpu_online_mask ≥ s.nr_cpu_ids then (cpu, s)
    else
      (cpumask_first_and s s.wq_unbound_cpumask s.cpu_online_mask,
       (s.set .wq_rr_cpu_last (Function.update s.wq_rr_cpu_last cpu
           (cpumask_first_and s s.wq_unbound_cpumask s.cpu_online_mask))))
  else
    (cpumask_next_and s (s.wq_rr_cpu_last cpu) s.wq_unbound_cpumask s.cpu_online_mask,
     (s.set .wq_rr_cpu_last (Function.update s.wq_rr_cpu_last cpu
         (cpumask_next_and s (s.wq_rr_cpu_last cpu) s.wq_unbound_cpumask s.cpu_online_mask))))

/-- The CPU chosen at the label `retry` of `__queue_work`, and the state. -/
def __queue_work_cpu (s : State) (t : task_ctx) (req_cpu wq : Nat) : Nat × State :=
  if req_cpu = s.NR_CPUS then
    if s.wq_flags wq &&& WQ_UNBOUND ≠ 0 then wq_select_unbound_cpu s t.cpu
    else (t.cpu, s)
  else (req_cpu, s)

/-- The pool_workqueue `__queue_work` decides on for the CPU `cpu`: the one installed
for the CPU, unless the work is still executing on its last pool for this workqueue. -/
def __queue_work_pwq (s : State) (cpu wq work : Nat) : Nat :=
  let pwq := s.wq_cpu_pwq wq cpu
  let last_pool := get_work_pool s work
  if last_pool ≠ 0 ∧ last_pool ≠ s.pwq_pool pwq then
    let worker := find_worker_executing_work s last_pool work
    if worker ≠ 0 ∧ s.pwq_wq (s.worker_current_pwq worker) = wq then s.worker_current_pwq worker
    else pwq
  else pwq

/-- The pool_workqueue `__queue_work` decides on in the first round of its retry loop. -/
def __queue_work_target (s : State) (t : task_ctx) (cpu wq work : Nat) : Nat :=
  __queue_work_pwq (__queue_work_cpu s t cpu wq).2 (__queue_work_cpu s t cpu wq).1 wq work

/-- The part of `__queue_work` after the comment "pwq determined, queue". -/
def __queue_work_insert (s : State) (pwq work : Nat) : State :=
  if list_empty_entry s work = false then s
  else
    let color := s.pwq_work_color pwq
    let s1 := (s.set .pwq_nr_in_flight (Function.update s.pwq_nr_in_flight pwq
        (Function.update (s.pwq_nr_in_flight pwq) color (s.pwq_nr_in_flight pwq color + 1))))
    if s1.pwq_nr_active pwq < s1.pwq_max_active pwq then
      let s2 := touch_watchdog_if_empty s1 (s1.pwq_pool pwq)
      let s3 := (s2.set .pwq_nr_active (Function.update s2.pwq_nr_active pwq (s2.pwq_nr_active pwq + 1)))
      (kick_pool
        (insert_work s3 pwq work (list_node.head (list_head.worklist (s.pwq_pool pwq)))
          (work_color_to_flags color))
        (s.pwq_pool pwq)).2
    else
      insert_work s1 pwq work (list_node.head (list_head.inactive_works pwq))
        (work_color_to_flags color ||| WORK_STRUCT_INACTIVE)

/-- The loop of `__queue_work` around the label `retry`, at most `fuel` rounds; `none`
when the rounds are used up. -/
def __queue_work_retry : Nat → State → task_ctx → Nat → Nat → Nat → Option State
  | 0, _, _, _, _, _ => none
  | fuel + 1, s, t, req_cpu, wq, work =>
    if (__queue_work_cpu s t req_cpu wq).2.pwq_refcnt (__queue_work_target s t req_cpu wq work) = 0 ∧
        s.wq_flags wq &&& WQ_UNBOUND ≠ 0 then
      __queue_work_retry fuel (__queue_work_cpu s t req_cpu wq).2 t req_cpu wq work
    else
      some (__queue_work_insert (__queue_work_cpu s t req_cpu wq).2
        (__queue_work_target s t req_cpu wq work) work)

/-- The function `__queue_work`, its retry loop bounded by `fuel`. -/
def __queue_work (fuel : Nat) (s : State) (t : task_ctx) (cpu wq work : Nat) : Option State :=
  if s.wq_flags wq &&& (__WQ_DESTROYING ||| __WQ_DRAINING) ≠ 0 ∧ is_chained_work s t wq = false then
    some s
  else __queue_work_retry fuel s t cpu wq work

/-- The function `queue_work_on`: the return value and the state; `none` when the
retry loop of `__queue_work` uses up `fuel`. -/
def queue_work_on (fuel : Nat) (s : State) (t : task_ctx) (cpu wq work : Nat) :
    Option (Bool × State) :=
  if (test_and_set_bit_pending s work).1 = false then
    (__queue_work fuel (test_and_set_bit_pending s work).2 t cpu wq work).map (fun s1 => (true, s1))
  else some (false, (test_and_set_bit_pending s work).2)

/-! ## Executing a work item -/

/-- The function `process_one_work` from its entry to the release of `pool->lock` just
before the work function is called. -/
def process_one_work_begin (s : State) (worker work : Nat) : State :=
  let pwq := get_work_pwq s work
  let pool := s.worker_pool worker
  let work_data := work_data_bits s work
  let s2 := (s
    |>.set .pool_busy_hash (Function.update s.pool_busy_hash pool (worker :: s.pool_busy_hash pool))
    |>.set .worker_link (Function.update s.worker_link worker link_state.busy_hash)
    |>.set .worker_current_work (Function.update s.worker_current_work worker work)
    |>.set .worker_current_func (Function.update s.worker_current_func worker (s.work_func work))
    |>.set .worker_current_pwq (Function.update s.worker_current_pwq worker pwq)
    |>.set .worker_current_color (Function.update s.worker_current_color worker (get_work_color work_data))
    |>.set .worker_frame_pwq (Function.update s.worker_frame_pwq worker pwq)
    |>.set .worker_frame_work_data (Function.update s.worker_frame_work_data worker work_data))
  let s3 := list_del_init s2 work
  let s4 :=
    if s3.wq_flags (s3.pwq_wq pwq) &&& WQ_CPU_INTENSIVE ≠ 0 then
      worker_set_flags s3 worker WORKER_CPU_INTENSIVE
    else s3
  let s5 := (kick_pool s4 pool).2
  let s6 := set_work_pool_and_clear_pending s5 work (s5.pool_id pool)
  (s6.set .pwq_stats (Function.update s6.pwq_stats pwq
      (Function.update (s6.pwq_stats pwq) PWQ_STAT_STARTED (s6.pwq_stats pwq PWQ_STAT_STARTED + 1))))

/-- The function `process_one_work` from the return of the work function to its end. -/
def process_one_work_end (s : State) (worker : Nat) : State :=
  let pwq := s.worker_frame_pwq worker
  let work_data := s.worker_frame_work_data worker
  let pool := s.worker_pool worker
  let s0 := (s.set .pwq_stats (Function.update s.pwq_stats pwq
      (Function.update (s.pwq_stats pwq) PWQ_STAT_COMPLETED (s.pwq_stats pwq PWQ_STAT_COMPLETED + 1))))
  let s1 := worker_clr_flags s0 worker WORKER_CPU_INTENSIVE
  let s3 := (s1
    |>.set .worker_last_func (Function.update s1.worker_last_func worker (s1.worker_current_func worker))
    |>.set .pool_busy_hash (Function.update s1.pool_busy_hash pool ((s1.pool_busy_hash pool).erase worker))
    |>.set .worker_link (Function.update s1.worker_link worker link_state.unlinked)
    |>.set .worker_current_work (Function.update s1.worker_current_work worker 0)
    |>.set .worker_current_func (Function.update s1.worker_current_func worker 0)
    |>.set .worker_current_pwq (Function.update s1.worker_current_pwq worker 0)
    |>.set .worker_current_color (Function.update s1.worker_current_color worker INT_MAX))
  pwq_dec_nr_in_flight s3 pwq work_data

/-! ## Barriers -/

/-- The macro `INIT_WORK_ONSTACK(&barr->work, wq_barrier_func)`. -/
def INIT_WORK_ONSTACK (s : State) (work func : Nat) : State :=
  (s
    |>.set .work_data (Function.update s.work_data work WORK_STRUCT_NO_POOL)
    |>.set .work_entry (Function.update s.work_entry work none)
    |>.set .work_func (Function.update s.work_func work func))

def insert_wq_barrier (s : State) (pwq barr target worker : Nat) : State :=
  let s2 := __set_bit (INIT_WORK_ONSTACK s barr wq_barrier_func) WORK_STRUCT_PENDING_BIT barr
  if worker ≠ 0 then
    let work_color := s2.worker_current_color worker
    let s3 := (s2.set .pwq_nr_in_flight (Function.update s2.pwq_nr_in_flight pwq
        (Function.update (s2.pwq_nr_in_flight pwq) work_color (s2.pwq_nr_in_flight pwq work_color + 1))))
    insert_work s3 pwq barr (head_next s2 (list_head.scheduled worker))
      (WORK_STRUCT_INACTIVE ||| work_color_to_flags work_color)
  else
    let bits := work_data_bits s2 target
    let work_color := get_work_color bits
    let s3 := __set_bit s2 WORK_STRUCT_LINKED_BIT target
    let s4 := (s3.set .pwq_nr_in_flight (Function.update s3.pwq_nr_in_flight pwq
        (Function.update (s3.pwq_nr_in_flight pwq) work_color (s3.pwq_nr_in_flight pwq work_color + 1))))
    insert_work s4 pwq barr (entry_next s2 target)
      (WORK_STRUCT_INACTIVE ||| (bits &&& WORK_STRUCT_LINKED) ||| work_color_to_flags work_color)

/-- The function `start_flush_work` for the barrier at address `barr`: the return value
and the state. -/
def start_flush_work (s : State) (work barr : Nat) : Bool × State :=
  if get_work_pool s work = 0 then (false, s)
  else if get_work_pwq s work ≠ 0 then
    if s.pwq_pool (get_work_pwq s work) ≠ get_work_pool s work then (false, s)
    else (true, insert_wq_barrier s (get_work_pwq s work) barr work 0)
  else if find_worker_executing_work s (get_work_pool s work) work = 0 then (false, s)
  else
    (true, insert_wq_barrier s
      (s.worker_current_pwq (find_worker_executing_work s (get_work_pool s work) work)) barr work
      (find_worker_executing_work s (get_work_pool s work) work))

/-! ## Adjusting max_active -/

/-- The loop of `pwq_adjust_max_active`, at most `fuel` iterations. -/
def pwq_adjust_max_active_loop : Nat → State → Nat → State
  | 0, s, _ => s
  | fuel + 1, s, pwq =>
    if list_empty s (list_head.inactive_works pwq) = false ∧
        s.pwq_nr_active pwq < s.pwq_max_active pwq then
      pwq_adjust_max_active_loop fuel (pwq_activate_first_inactive s pwq) pwq
    else s

/-- The function `pwq_adjust_max_active`.  Every iteration of its loop unlinks the
first entry of `inactive_works`, so the length of that list bounds the iterations. -/
def pwq_adjust_max_active (s : State) (pwq : Nat) : State :=
  let wq := s.pwq_wq pwq
  if s.wq_flags wq &&& WQ_FREEZABLE = 0 ∧ s.pwq_max_active pwq = s.wq_saved_max_active wq then s
  else if s.wq_flags wq &&& WQ_FREEZABLE = 0 ∨ s.workqueue_freezing = false then
    let s1 := (s.set .pwq_max_active (Function.update s.pwq_max_active pwq (s.wq_saved_max_active wq)))
    let s2 := pwq_adjust_max_active_loop (s1.lists (list_head.inactive_works pwq)).length s1 pwq
    (kick_pool s2 (s2.pwq_pool pwq)).2
  else (s.set .pwq_max_active (Function.update s.pwq_max_active pwq 0))

/-! ## Series of linked work items -/

/-- The series of work items that `move_linked_works` schedules from the list segment
`l`: the first item and every consecutive item whose predecessor has LINKED set. -/
def linked_run (data : Nat → Nat) : List Nat → List Nat
  | [] => []
  | x :: l => if data x &&& WORK_STRUCT_LINKED = 0 then [x] else x :: linked_run data l

/-! ## Example states -/

/-- A machine on which nothing was ever queued: every work item is idle with no pool,
all lists are empty and all counters are zero. -/
def State.boot : State := fun f =>
  match f with
  | .work_data => fun _ => WORK_STRUCT_NO_POOL
  | .work_entry => fun _ => none
  | .work_func => fun _ => 0
  | .dwork_timer_pending => fun _ => false
  | .dwork_timer_expires => fun _ => 0
  | .dwork_wq => fun _ => 0
  | .dwork_cpu => fun _ => 0
  | .lists => fun _ => []
  | .pwq_pool => fun _ => 0
  | .pwq_wq => fun _ => 0
  | .pwq_work_color => fun _ => 0
  | .pwq_flush_color => fun _ => -1
  | .pwq_refcnt => fun _ => 0
  | .pwq_nr_in_flight => fun _ _ => 0
  | .pwq_nr_active => fun _ => 0
  | .pwq_max_active => fun _ => 0
  | .pwq_stats => fun _ _ => 0
  | .pwq_release_work => fun _ => false
  | .worker_link => fun _ => link_state.unlinked
  | .worker_current_work => fun _ => 0
  | .worker_current_func => fun _ => 0
  | .worker_current_pwq => fun _ => 0
  | .worker_current_color => fun _ => INT_MAX
  | .worker_sleeping => fun _ => 0
  | .worker_last_func => fun _ => 0
  | .worker_pool => fun _ => 0
  | .worker_last_active => fun _ => 0
  | .worker_flags => fun _ => WORKER_PREP
  | .worker_rescue_wq => fun _ => 0
  | .worker_task_state => fun _ => task_state.TASK_IDLE
  | .worker_task_wake_cpu => fun _ => 0
  | .worker_frame_pwq => fun _ => 0
  | .worker_frame_work_data => fun _ => 0
  | .pool_cpu => fun _ => 0
  | .pool_id => fun _ => 0
  | .pool_flags => fun _ => 0
  | .pool_watchdog_ts => fun _ => 0
  | .pool_nr_running => fun _ => 0
  | .pool_nr_workers => fun _ => 0
  | .pool_nr_idle => fun _ => 0
  | .pool_idle_list => fun _ => []
  | .pool_idle_timer_pending => fun _ => false
  | .pool_idle_timer_expires => fun _ => 0
  | .pool_busy_hash => fun _ => []
  | .pool_manager => fun _ => 0
  | .pool_workers => fun _ => []
  | .pool_dying_workers => fun _ => []
  | .pool_attrs => fun _ =>
    { nice := 0, cpumask := fun _ => true, pod_cpumask := fun _ => true, affn_strict := false, affn_scope := 0, ordered := false }
  | .pool_hashed => fun _ => false
  | .pool_refcnt => fun _ => 0
  | .flusher_flush_color => fun _ => 0
  | .flusher_done => fun _ => 0
  | .wq_pwqs => fun _ => []
  | .wq_work_color => fun _ => 0
  | .wq_flush_color => fun _ => 0
  | .wq_nr_pwqs_to_flush => fun _ => 0
  | .wq_first_flusher => fun _ => 0
  | .wq_flusher_queue => fun _ => []
  | .wq_flusher_overflow => fun _ => []
  | .wq_maydays => fun _ => []
  | .wq_rescuer => fun _ => 0
  | .wq_nr_drainers => fun _ => 0
  | .wq_saved_max_active => fun _ => 0
  | .wq_dfl_pwq => fun _ => 0
  | .wq_flags => fun _ => 0
  | .wq_cpu_pwq => fun _ _ => 0
  | .worker_pool_idr => fun _ => 0
  | .jiffies => 0
  | .HZ => 250
  | .workqueue_freezing => false
  | .wq_debug_force_rr_cpu => false
  | .wq_unbound_cpumask => fun _ => true
  | .cpu_online_mask => fun _ => true
  | .nr_cpu_ids => 4
  | .NR_CPUS => 4
  | .wq_rr_cpu_last => fun _ => 0
  | .any_and_distribute => fun _ _ => 0

/-- A workqueue at address 32 whose CPUs all map to the pool_workqueue at address 256
(pool 64, `max_active` 1, one reference), nothing queued. -/
def ex_one_pwq : State :=
  State.boot
    |>.set .wq_cpu_pwq (fun _ _ => 256)
    |>.set .pwq_pool (Function.update State.boot.pwq_pool 256 64)
    |>.set .pwq_wq (Function.update State.boot.pwq_wq 256 32)
    |>.set .pwq_refcnt (Function.update State.boot.pwq_refcnt 256 1)
    |>.set .pwq_max_active (Function.update State.boot.pwq_max_active 256 1)

/-- The context of a caller that runs on CPU 0 and is not a workqueue worker. -/
def ex_task : task_ctx := { cpu := 0, worker := 0 }

/-- The workqueue of `ex_one_pwq` while it is being drained. -/
def ex_draining : State :=
  ex_one_pwq.set .wq_flags (Function.update ex_one_pwq.wq_flags 32 __WQ_DRAINING)

/-- The condition under which a worker is executing `work`: it runs the work at this
address with the function the work has now. -/
def worker_executing (s : State) (k work : Nat) : Prop :=
  s.worker_current_work k = work ∧ s.worker_current_func k = s.work_func work

instance (s : State) (k work : Nat) : Decidable (worker_executing s k work) := by
  unfold worker_executing
  exact inferInstance

/-- The workqueue of `ex_one_pwq` with a second pool_workqueue at address 512 on the pool
128 (pool id 3), on which the worker 16 is executing the work item 1000; the data word of
the work names pool 3 as its last pool. -/
def ex_running_elsewhere : State :=
  ex_one_pwq
    |>.set .pwq_pool (Function.update ex_one_pwq.pwq_pool 512 128)
    |>.set .pwq_wq (Function.update ex_one_pwq.pwq_wq 512 32)
    |>.set .pwq_refcnt (Function.update ex_one_pwq.pwq_refcnt 512 2)
    |>.set .pwq_nr_active (Function.update ex_one_pwq.pwq_nr_active 512 1)
    |>.set .pwq_nr_in_flight (Function.update ex_one_pwq.pwq_nr_in_flight 512 (fun c => if c = 0 then 1 else 0))
    |>.set .pwq_max_active (Function.update ex_one_pwq.pwq_max_active 512 1)
    |>.set .pool_id (Function.update ex_one_pwq.pool_id 128 3)
    |>.set .worker_pool_idr (Function.update ex_one_pwq.worker_pool_idr 3 128)
    |>.set .pool_busy_hash (Function.update ex_one_pwq.pool_busy_hash 128 [16])
    |>.set .pool_nr_workers (Function.update ex_one_pwq.pool_nr_workers 128 1)
    |>.set .worker_pool (Function.update ex_one_pwq.worker_pool 16 128)
    |>.set .worker_link (Function.update ex_one_pwq.worker_link 16 link_state.busy_hash)
    |>.set .worker_flags (Function.update ex_one_pwq.worker_flags 16 0)
    |>.set .worker_current_work (Function.update ex_one_pwq.worker_current_work 16 1000)
    |>.set .worker_current_func (Function.update ex_one_pwq.worker_current_func 16 7)
    |>.set .worker_current_pwq (Function.update ex_one_pwq.worker_current_pwq 16 512)
    |>.set .worker_current_color (Function.update ex_one_pwq.worker_current_color 16 0)
    |>.set .worker_frame_pwq (Function.update ex_one_pwq.worker_frame_pwq 16 512)
    |>.set .worker_frame_work_data (Function.update ex_one_pwq.worker_frame_work_data 16 (512 ||| 5))
    |>.set .work_func (Function.update ex_one_pwq.work_func 1000 7)
    |>.set .work_data (Function.update ex_one_pwq.work_data 1000 (3 <<< WORK_OFFQ_POOL_SHIFT))

/-- The workqueue of `ex_one_pwq` allocated with `WQ_FREEZABLE` and `max_active` 1. -/
def ex_freezable : State :=
  ex_one_pwq
    |>.set .wq_flags (Function.update ex_one_pwq.wq_flags 32 WQ_FREEZABLE)
    |>.set .wq_saved_max_active (Function.update ex_one_pwq.wq_saved_max_active 32 1)

/-- The state that a call of `queue_work_on` leaves, `s` when the call does not return. -/
def state_after (r : Option (Bool × State)) (s : State) : State :=
  match r with
  | some (_, s1) => s1
  | none => s

/-- The state of `ex_freezable` after the work items 1000 and 1001 were queued from CPU 0:
the first is active on the worklist of pool 64, the second waits on `inactive_works`. -/
def ex_backlog : State :=
  state_after (queue_work_on 1
    (state_after (queue_work_on 1 ex_freezable ex_task 0 32 1000) ex_freezable)
    ex_task 0 32 1001) ex_freezable

/-- The state of `ex_backlog` after `freeze_workqueues_begin` set `workqueue_freezing` and
called `pwq_adjust_max_active` on the pool_workqueue 256: `max_active` is 0. -/
def ex_frozen : State :=
  pwq_adjust_max_active (ex_backlog.set .workqueue_freezing true) 256

/-- The state of `ex_frozen` after the work item 1000 was unlinked from the worklist, as
`process_one_work` and `try_to_grab_pending` do before they call `pwq_dec_nr_in_flight`. -/
def ex_frozen_leaving : State := list_del_init ex_frozen 1000

/-- The state of `ex_backlog` after the work item 1000 was unlinked from the worklist. -/
def ex_backlog_leaving : State := list_del_init ex_backlog 1000

/-! ## The accounting view of the state -/

/-- The part of the state that the queueing invariants speak about, with the data word of
every work item decoded: `pwq_of` is `work_struct_pwq` of the word, `has_pwq`, `pending`,
`inact` and `linked` are its PWQ, PENDING, INACTIVE and LINKED bits, `frame_inact` is the
INACTIVE bit of the local `work_data` of `process_one_work`. -/
@[ext] structure Core where
  lists : list_head → List Nat
  entry : Nat → Option list_head
  pwq_of : Nat → Nat
  has_pwq : Nat → Bool
  pending : Nat → Bool
  inact : Nat → Bool
  linked : Nat → Bool
  func : Nat → Nat
  nr_active : Nat → Int
  nr_in_flight : Nat → Int → Int
  max_active : Nat → Int
  busy : Nat → List Nat
  cur_work : Nat → Nat
  cur_func : Nat → Nat
  cur_pwq : Nat → Nat
  cur_color : Nat → Int
  frame_pwq : Nat → Nat
  frame_inact : Nat → Bool
  wpool : Nat → Nat
  ppool : Nat → Nat
  cpu_pwq : Nat → Nat → Nat
  work_color : Nat → Int

/-- The accounting view of a state. -/
def core (s : State) : Core where
  lists := s.lists
  entry := s.work_entry
  pwq_of := fun x => work_struct_pwq (s.work_data x)
  has_pwq := fun x => decide (s.work_data x &&& WORK_STRUCT_PWQ ≠ 0)
  pending := fun x => decide (s.work_data x &&& WORK_STRUCT_PENDING ≠ 0)
  inact := fun x => decide (s.work_data x &&& WORK_STRUCT_INACTIVE ≠ 0)
  linked := fun x => decide (s.work_data x &&& WORK_STRUCT_LINKED ≠ 0)
  func := s.work_func
  nr_active := s.pwq_nr_active
  nr_in_flight := s.pwq_nr_in_flight
  max_active := s.pwq_max_active
  busy := s.pool_busy_hash
  cur_work := s.worker_current_work
  cur_func := s.worker_current_func
  cur_pwq := s.worker_current_pwq
  cur_color := s.worker_current_color
  frame_pwq := s.worker_frame_pwq
  frame_inact := fun k => decide (s.worker_frame_work_data k &&& WORK_STRUCT_INACTIVE ≠ 0)
  wpool := s.worker_pool
  ppool := s.pwq_pool
  cpu_pwq := s.wq_cpu_pwq
  work_color := s.pwq_work_color

/-- Fields outside the accounting view. -/
def Field.external : Field → Bool
  | .work_data | .work_entry | .work_func | .lists | .pwq_pool | .pwq_work_color
  | .pwq_nr_in_flight | .pwq_nr_active | .pwq_max_active | .worker_current_work
  | .worker_current_func | .worker_current_pwq | .worker_current_color | .worker_pool
  | .worker_frame_pwq | .worker_frame_work_data | .pool_busy_hash | .wq_cpu_pwq => false
  | _ => true

/-- A pool_workqueue address that fits the pointer part of a work data word: aligned to
`1 << WORK_STRUCT_FLAG_BITS` and below `2 ^ BITS_PER_LONG`. -/
def aligned_pwq (p : Nat) : Prop := p &&& WORK_STRUCT_FLAG_MASK = 0 ∧ p < 2 ^ 64

instance (p : Nat) : Decidable (aligned_pwq p) := by
  unfold aligned_pwq
  exact inferInstance

/-- The sum of `nr_in_flight[c]` of a pool_workqueue over all colours. -/
def Core.in_flight_sum (c : Core) (p : Nat) : Int :=
  ∑ i in Finset.range WORK_NR_COLORS, c.nr_in_flight p (i : Int)

/-- The number of work items on `inactive_works` that are not barriers. -/
def Core.inactive_count (c : Core) (p : Nat) : Nat :=
  (c.lists (list_head.inactive_works p)).countP (fun x => decide (c.func x ≠ wq_barrier_func))

/-- A barrier that is linked on a list for the pool_workqueue `p`. -/
def Core.queued_barrier (c : Core) (p x : Nat) : Bool :=
  decide (c.entry x ≠ none ∧ c.pwq_of x = p ∧ c.func x = wq_barrier_func)

/-- A worker that is executing a barrier of the pool_workqueue `p`. -/
def Core.running_barrier (c : Core) (p k : Nat) : Bool :=
  decide (c.cur_work k ≠ 0 ∧ c.frame_pwq k = p ∧ c.cur_func k = wq_barrier_func)

/-- The number of barriers of the pool_workqueue `p`, counted in the set `D` of work items
and the set `K` of workers. -/
def Core.barrier_count (c : Core) (p : Nat) (D K : Finset Nat) : Nat :=
  (D.filter (fun x => c.queued_barrier p x = true)).card +
    (K.filter (fun k => c.running_barrier p k = true)).card

/-! ## Chains of linked work items -/

/-- The series of work items that `move_linked_works` schedules from the list segment `l`,
in terms of the decoded LINKED bit. -/
def run_of (lk : Nat → Bool) : List Nat → List Nat
  | [] => []
  | x :: l => if lk x = false then [x] else x :: run_of lk l

/-- On a list of work items every item with LINKED is followed by a barrier, and the last
item does not have LINKED. -/
def chain_ok (lk : Nat → Bool) (br : Nat → Prop) (l : List Nat) : Prop :=
  l.Chain' (fun x y => lk x = true → br y) ∧ ∀ x, l.getLast? = some x → lk x = false

/-- On `inactive_works` every barrier follows an item with LINKED, and the first item is
not a barrier. -/
def ichain_ok (lk : Nat → Bool) (br : Nat → Prop) (l : List Nat) : Prop :=
  l.Chain' (fun x y => br y → lk x = true) ∧ ∀ x, l.head? = some x → ¬ br x

/-- The invariant of the lists and data words: every list is duplicate free and agrees
with the entries; linked items carry PWQ and PENDING; items on `inactive_works` belong to
that pool_workqueue and are INACTIVE, items on a worklist or a `scheduled` list belong to
the pool and, unless they are barriers, are not INACTIVE; barriers are INACTIVE. -/
structure InvL (c : Core) : Prop where
  nodup : ∀ h, (c.lists h).Nodup
  mem_entry : ∀ h x, x ∈ c.lists h ↔ c.entry x = some h
  nonzero : c.entry 0 = none
  has_pwq : ∀ x, c.has_pwq x = true ↔ c.entry x ≠ none
  pending : ∀ x, c.entry x ≠ none → c.pending x = true
  typ_inactive : ∀ p x, c.entry x = some (list_head.inactive_works p) →
    c.pwq_of x = p ∧ c.inact x = true
  typ_worklist : ∀ P x, c.entry x = some (list_head.worklist P) →
    c.ppool (c.pwq_of x) = P ∧ (c.func x ≠ wq_barrier_func → c.inact x = false)
  typ_scheduled : ∀ k x, c.entry x = some (list_head.scheduled k) →
    c.ppool (c.pwq_of x) = c.wpool k ∧ (c.func x ≠ wq_barrier_func → c.inact x = false)
  barrier_inact : ∀ x, c.entry x ≠ none → c.func x = wq_barrier_func → c.inact x = true
  chain : ∀ h, chain_ok c.linked (fun x => c.func x = wq_barrier_func) (c.lists h)
  ichain : ∀ p, ichain_ok c.linked (fun x => c.func x = wq_barrier_func)
    (c.lists (list_head.inactive_works p))

/-- The invariant of the executing workers: `busy_hash` of a pool holds exactly the
workers of the pool that execute a work item, and the frame of `process_one_work` agrees
with the `current_*` fields. -/
structure InvE (c : Core) : Prop where
  busy_nodup : ∀ P, (c.busy P).Nodup
  busy_mem : ∀ P k, k ∈ c.busy P ↔ (c.cur_work k ≠ 0 ∧ c.wpool k = P)
  idle0 : c.cur_work 0 = 0
  exec_pwq : ∀ k, c.cur_work k ≠ 0 →
    c.frame_pwq k = c.cur_pwq k ∧ c.ppool (c.cur_pwq k) = c.wpool k ∧ aligned_pwq (c.cur_pwq k)
  exec_color : ∀ k, c.cur_work k ≠ 0 → 0 ≤ c.cur_color k ∧ c.cur_color k < 16
  exec_inact : ∀ k, c.cur_work k ≠ 0 → (c.frame_inact k = true ↔ c.cur_func k = wq_barrier_func)
  cpu_pwq_ok : ∀ wq cpu, aligned_pwq (c.cpu_pwq wq cpu)
  color_ok : ∀ p, 0 ≤ c.work_color p ∧ c.work_color p < 16

/-- The invariant of non-reentrancy: an item on the `scheduled` list of a worker is not
executed by another worker of the pool, a linked barrier is not executed, and no two
workers of a pool execute the same work item with the same function. -/
structure InvX (c : Core) : Prop where
  sched_excl : ∀ k x, c.entry x = some (list_head.scheduled k) → ∀ k2, k2 ≠ k →
    c.wpool k2 = c.wpool k → ¬ (c.cur_work k2 = x ∧ c.cur_func k2 = c.func x)
  barrier_idle : ∀ x, c.entry x ≠ none → c.func x = wq_barrier_func → ∀ k, c.cur_work k ≠ x
  uniq : ∀ k1 k2, c.cur_work k1 ≠ 0 → c.cur_work k1 = c.cur_work k2 →
    c.cur_func k1 = c.cur_func k2 → c.wpool k1 = c.wpool k2 → k1 = k2

/-- The in-flight equation of every pool_workqueue, for sets `D` and `K` that contain all
linked work items and all executing workers. -/
def InvF (c : Core) : Prop :=
  ∀ p (D K : Finset Nat), (∀ x, c.entry x ≠ none → x ∈ D) → (∀ k, c.cur_work k ≠ 0 → k ∈ K) →
    c.in_flight_sum p = c.nr_active p + (c.inactive_count p : Int) + (c.barrier_count p D K : Int)

/-- The invariant of the accounting view. -/
structure InvC (c : Core) : Prop where
  l : InvL c
  e : InvE c
  x : InvX c
  f : InvF c

/-! ## Operations on the accounting view -/

/-- The data word of the work item `x` is rewritten. -/
def Core.set_word (c : Core) (x q : Nat) (hp pd ia lk : Bool) : Core :=
  { c with
    pwq_of := Function.update c.pwq_of x q
    has_pwq := Function.update c.has_pwq x hp
    pending := Function.update c.pending x pd
    inact := Function.update c.inact x ia
    linked := Function.update c.linked x lk }

/-- The list `h` becomes `l` and the entry of `x` is linked on `h`. -/
def Core.link (c : Core) (x : Nat) (h : list_head) (l : List Nat) : Core :=
  { c with
    lists := Function.update c.lists h l
    entry := Function.update c.entry x (some h) }

/-- The counter `nr_in_flight[col]` of `q` changes by `d`. -/
def Core.add_in_flight (c : Core) (q : Nat) (col : Int) (d : Int) : Core :=
  { c with
    nr_in_flight := Function.update c.nr_in_flight q
      (Function.update (c.nr_in_flight q) col (c.nr_in_flight q col + d)) }

/-- The counter `nr_active` of `q` changes by `d`. -/
def Core.add_active (c : Core) (q : Nat) (d : Int) : Core :=
  { c with nr_active := Function.update c.nr_active q (c.nr_active q + d) }

/-- The view after `__queue_work` linked `x` for `q`: on the pool worklist when `active`,
else on `inactive_works` with INACTIVE. -/
def Core.queue (c : Core) (x q : Nat) (col : Int) (active : Bool) : Core :=
  if active = true then
    (((c.set_word x q true true false false).link x (list_head.worklist (c.ppool q))
      (c.lists (list_head.worklist (c.ppool q)) ++ [x])).add_in_flight q col 1).add_active q 1
  else
    ((c.set_word x q true true true false).link x (list_head.inactive_works q)
      (c.lists (list_head.inactive_works q) ++ [x])).add_in_flight q col 1

/-- The view after `insert_wq_barrier` linked the barrier `b` right after the work item
`t` on the list `H`, which was `pre ++ t :: post`. -/
def Core.barrier_after (c : Core) (b t q : Nat) (col : Int) (H : list_head)
    (pre post : List Nat) : Core :=
  { c with
    lists := Function.update c.lists H (pre ++ t :: b :: post)
    entry := Function.update c.entry b (some H)
    pwq_of := Function.update c.pwq_of b q
    has_pwq := Function.update c.has_pwq b true
    pending := Function.update c.pending b true
    inact := Function.update c.inact b true
    linked := Function.update (Function.update c.linked t true) b (c.linked t)
    func := Function.update c.func b wq_barrier_func
    nr_in_flight := Function.update c.nr_in_flight q
      (Function.update (c.nr_in_flight q) col (c.nr_in_flight q col + 1)) }

/-- The view after `insert_wq_barrier` linked the barrier `b` at the front of the
`scheduled` list of the worker `k` that executes the flushed work item. -/
def Core.barrier_front (c : Core) (b k q : Nat) (col : Int) : Core :=
  { c with
    lists := Function.update c.lists (list_head.scheduled k) (b :: c.lists (list_head.scheduled k))
    entry := Function.update c.entry b (some (list_head.scheduled k))
    pwq_of := Function.update c.pwq_of b q
    has_pwq := Function.update c.has_pwq b true
    pending := Function.update c.pending b true
    inact := Function.update c.inact b true
    linked := Function.update c.linked b false
    func := Function.update c.func b wq_barrier_func
    nr_in_flight := Function.update c.nr_in_flight q
      (Function.update (c.nr_in_flight q) col (c.nr_in_flight q col + 1)) }

/-- The segment `run` of the list `h0`, which was `pre ++ run ++ rest`, is moved to the
tail of the list `hd`. -/
def Core.move_run (c : Core) (h0 hd : list_head) (pre run rest : List Nat) : Core :=
  { c with
    lists := Function.update (Function.update c.lists h0 (pre ++ rest)) hd (c.lists hd ++ run)
    entry := fun x => if x ∈ run then some hd else c.entry x }

/-- The view after `pwq_activate_inactive_work` on the work item `w`, the first item of
the segment `run` of `inactive_works`. -/
def Core.activate (c : Core) (w : Nat) (pre run rest : List Nat) : Core :=
  { c.move_run (list_head.inactive_works (c.pwq_of w))
      (list_head.worklist (c.ppool (c.pwq_of w))) pre run rest with
    inact := Function.update c.inact w false
    nr_active := Function.update c.nr_active (c.pwq_of w) (c.nr_active (c.pwq_of w) + 1) }

/-- The view after `try_to_grab_pending` unlinked the active work item `x` from the list
`H`, which was `pre ++ x :: post`, released its `nr_active` slot and its in-flight count,
and rewrote its data word to an off-queue word. -/
def Core.leave (c : Core) (x : Nat) (H : list_head) (pre post : List Nat) (q2 : Nat)
    (pd ia lk : Bool) (col : Int) : Core :=
  { c with
    lists := Function.update c.lists H (pre ++ post)
    entry := Function.update c.entry x none
    pwq_of := Function.update c.pwq_of x q2
    has_pwq := Function.update c.has_pwq x false
    pending := Function.update c.pending x pd
    inact := Function.update c.inact x ia
    linked := Function.update c.linked x lk
    nr_in_flight := Function.update c.nr_in_flight (c.pwq_of x)
      (Function.update (c.nr_in_flight (c.pwq_of x)) col (c.nr_in_flight (c.pwq_of x) col - 1))
    nr_active := Function.update c.nr_active (c.pwq_of x) (c.nr_active (c.pwq_of x) - 1) }

/-- The view after `process_one_work` claimed the first item `w` of the `scheduled` list
of the worker `k`, up to the release of the pool lock. -/
def Core.start (c : Core) (k w : Nat) (rest : List Nat) (q2 : Nat) (pd ia lk : Bool)
    (col : Int) : Core :=
  { c with
    lists := Function.update c.lists (list_head.scheduled k) rest
    entry := Function.update c.entry w none
    pwq_of := Function.update c.pwq_of w q2
    has_pwq := Function.update c.has_pwq w false
    pending := Function.update c.pending w pd
    inact := Function.update c.inact w ia
    linked := Function.update c.linked w lk
    busy := Function.update c.busy (c.wpool k) (k :: c.busy (c.wpool k))
    cur_work := Function.update c.cur_work k w
    cur_func := Function.update c.cur_func k (c.func w)
    cur_pwq := Function.update c.cur_pwq k (c.pwq_of w)
    cur_color := Function.update c.cur_color k col
    frame_pwq := Function.update c.frame_pwq k (c.pwq_of w)
    frame_inact := Function.update c.frame_inact k (c.inact w) }

/-- The view after `process_one_work` released the executed work item of the worker `k`
and gave up its in-flight count, before a first inactive item is activated. -/
def Core.finish (c : Core) (k : Nat) (col : Int) : Core :=
  { c with
    busy := Function.update c.busy (c.wpool k) ((c.busy (c.wpool k)).erase k)
    cur_work := Function.update c.cur_work k 0
    cur_func := Function.update c.cur_func k 0
    cur_pwq := Function.update c.cur_pwq k 0
    cur_color := Function.update c.cur_color k INT_MAX
    nr_in_flight := Function.update c.nr_in_flight (c.frame_pwq k)
      (Function.update (c.nr_in_flight (c.frame_pwq k)) col
        (c.nr_in_flight (c.frame_pwq k) col - 1))
    nr_active := Function.update c.nr_active (c.frame_pwq k)
      (c.nr_active (c.frame_pwq k) - if c.frame_inact k = true then 0 else 1) }

/-- The counters of `p` after an item with the colour `col` left it: `nr_in_flight[col]`
drops by one, and `nr_active` drops by one unless the item was INACTIVE (`ia`). -/
def Core.dec (c : Core) (p : Nat) (col : Int) (ia : Bool) : Core :=
  { c with
    nr_in_flight := Function.update c.nr_in_flight p
      (Function.update (c.nr_in_flight p) col (c.nr_in_flight p col - 1))
    nr_active := Function.update c.nr_active p
      (c.nr_active p - if ia = true then 0 else 1) }

/-! ## The transition system of queueing and execution -/

/-- The initial states: no work item is linked or carries the PWQ tag, no worker executes
a work item, all counters are zero, and the installed pool_workqueues and work colours are
well formed. -/
def Init (s : State) : Prop :=
  (∀ h, s.lists h = []) ∧ (∀ x, s.work_entry x = none) ∧
  (∀ x, s.work_data x &&& WORK_STRUCT_PWQ = 0) ∧
  (∀ p c, s.pwq_nr_in_flight p c = 0) ∧ (∀ p, s.pwq_nr_active p = 0) ∧
  (∀ P, s.pool_busy_hash P = []) ∧ (∀ k, s.worker_current_work k = 0) ∧
  (∀ wq cpu, aligned_pwq (s.wq_cpu_pwq wq cpu)) ∧
  (∀ p, 0 ≤ s.pwq_work_color p ∧ s.pwq_work_color p < 16)

/-! ## Further regions of the source that write the accounting view -/

/-- The function `worker_attach_to_pool`; the CPU binding of the task is outside the
model. -/
def worker_attach_to_pool (s : State) (worker pool : Nat) : State :=
  let s1 :=
    if s.pool_flags pool &&& POOL_DISASSOCIATED ≠ 0 then
      (s.set .worker_flags (Function.update s.worker_flags worker
        (s.worker_flags worker ||| WORKER_UNBOUND)))
    else s
  (s1
    |>.set .pool_workers (Function.update s1.pool_workers pool (s1.pool_workers pool ++ [worker]))
    |>.set .worker_pool (Function.update s1.worker_pool worker pool))

/-- The function `worker_detach_from_pool`: the node of the worker is on `workers` or on
`dying_workers` of its pool; the completion of the detach is outside the model. -/
def worker_detach_from_pool (s : State) (worker : Nat) : State :=
  let pool := s.worker_pool worker
  (s
    |>.set .pool_workers (Function.update s.pool_workers pool ((s.pool_workers pool).erase worker))
    |>.set .pool_dying_workers (Function.update s.pool_dying_workers pool
        ((s.pool_dying_workers pool).erase worker))
    |>.set .worker_pool (Function.update s.worker_pool worker 0)
    |>.set .worker_flags (Function.update s.worker_flags worker
        (s.worker_flags worker &&& ulong_not (WORKER_UNBOUND ||| WORKER_REBOUND))))

/-- The body of the loop of `flush_workqueue_prep_pwqs` for the pool_workqueue `pwq`, run with
the lock of its pool held: the new value of `wait` and the state. -/
def flush_workqueue_prep_pwq (s : State) (wq pwq : Nat) (flush_color work_color : Int)
    (wait : Bool) : Bool × State :=
  let r1 : Bool × State :=
    if flush_color ≥ 0 ∧ s.pwq_nr_in_flight pwq flush_color ≠ 0 then
      (true, (s
        |>.set .pwq_flush_color (Function.update s.pwq_flush_color pwq flush_color)
        |>.set .wq_nr_pwqs_to_flush (Function.update s.wq_nr_pwqs_to_flush wq
            (s.wq_nr_pwqs_to_flush wq + 1))))
    else (wait, s)
  if work_color ≥ 0 then
    (r1.1, (r1.2.set .pwq_work_color (Function.update r1.2.pwq_work_color pwq work_color)))
  else r1

/-- The assignment `pwq->work_color = wq->work_color` of `link_pwq`, made with the mutex of
the workqueue held and no pool lock. -/
def link_pwq_color (s : State) (pwq : Nat) : State :=
  s.set .pwq_work_color (Function.update s.pwq_work_color pwq (s.wq_work_color (s.pwq_wq pwq)))

/-- The assignment `rcu_assign_pointer(*per_cpu_ptr(wq->cpu_pwq, cpu), pwq)` of
`install_unbound_pwq`. -/
def rcu_assign_cpu_pwq (s : State) (wq cpu pwq : Nat) : State :=
  s.set .wq_cpu_pwq (Function.update s.wq_cpu_pwq wq (Function.update (s.wq_cpu_pwq wq) cpu pwq))

/-- The steps of the system, each one a region of the source that runs atomically with
respect to the others (under the pool lock or as one atomic bit operation):

* `claim`: `test_and_set_bit(WORK_STRUCT_PENDING_BIT, ...)` of `queue_work_on`;
* `queue`: `__queue_work` by the owner of PENDING, for a work item that is not a barrier;
* `flush`: `start_flush_work` with a barrier that is fresh (on the stack of the flusher);
* `grab`: `try_to_grab_pending` on a work item that is not a barrier;
* `release_clear`, `release_pool`, `canceling`: the owner of PENDING rewrites the data
  word of an unlinked work item;
* `assign`: `assign_work` by a worker that is not executing, on an item of the worklist
  of its pool that is not linked behind its predecessor;
* `start`, `finish`: the two locked regions of `process_one_work` on the first item of
  the worker's `scheduled` list;
* `adjust`: `pwq_adjust_max_active`;
* `prep`: one round of the loop of `flush_workqueue_prep_pwqs`, which writes
  `pwq->work_color`; the callers pass `-1` or `wq->work_color`, which is below
  `WORK_NR_COLORS` (16);
* `link_color`: the assignment `pwq->work_color = wq->work_color` of `link_pwq`, the
  other two statements of `link_pwq` being an `adjust` step and an `env` step;
* `install`: the assignment to `wq->cpu_pwq` of `install_unbound_pwq`, for a
  pool_workqueue that passed the alignment test of `init_pwq`, or for `NULL`;
* `attach`, `detach`: `worker_attach_to_pool` and `worker_detach_from_pool` for a worker
  that executes nothing and has an empty `scheduled` list, as a new worker and a rescuer
  between two pools are;
* `env`: any write to a field outside the accounting view.

The initialisation of a new object (`init_pwq`, `alloc_worker`, `init_worker_pool`) writes
memory that no work item, worker or list refers to yet, and is not a step: the
pool_workqueues, workers and pools are present from the initial state on with the values
their initialisation gives them (`Init` leaves `pwq->pool`, `pwq->max_active` and
`wq->cpu_pwq` free). -/
inductive Step : State → State → Prop
  | claim (s : State) (work : Nat) : Step s (test_and_set_bit_pending s work).2
  | queue (s : State) (fuel : Nat) (t : task_ctx) (cpu wq work : Nat) (s2 : State) :
      work ≠ 0 → s.work_func work ≠ wq_barrier_func → work_pending s work = true →
      s.work_entry work = none → __queue_work fuel s t cpu wq work = some s2 → Step s s2
  | flush (s : State) (work barr : Nat) :
      barr ≠ 0 → s.work_entry barr = none → (∀ k, s.worker_current_work k ≠ barr) →
      (start_flush_work s work barr).1 = true → Step s (start_flush_work s work barr).2
  | grab (s : State) (work : Nat) (is_dwork : Bool) :
      s.work_func work ≠ wq_barrier_func → Step s (try_to_grab_pending s work is_dwork).2
  | release_clear (s : State) (work : Nat) :
      s.work_entry work = none → Step s (clear_work_data s work)
  | release_pool (s : State) (work : Nat) :
      s.work_entry work = none →
      Step s (set_work_pool_and_clear_pending s work (get_work_pool_id s work))
  | canceling (s : State) (work : Nat) :
      s.work_entry work = none → Step s (mark_work_canceling s work)
  | assign (s : State) (k work : Nat) :
      k ≠ 0 → s.worker_current_work k = 0 →
      s.work_entry work = some (list_head.worklist (s.worker_pool k)) →
      (∀ y, (list_before work (s.lists (list_head.worklist (s.worker_pool k)))).getLast? = some y →
        s.work_data y &&& WORK_STRUCT_LINKED = 0) →
      Step s (assign_work s work k).2.1
  | start (s : State) (k work : Nat) :
      k ≠ 0 → s.worker_current_work k = 0 →
      (s.lists (list_head.scheduled k)).head? = some work →
      Step s (process_one_work_begin s k work)
  | finish (s : State) (k : Nat) :
      s.worker_current_work k ≠ 0 → Step s (process_one_work_end s k)
  | adjust (s : State) (pwq : Nat) : Step s (pwq_adjust_max_active s pwq)
  | prep (s : State) (wq pwq : Nat) (flush_color work_color : Int) (wait : Bool) :
      work_color < 16 →
      Step s (flush_workqueue_prep_pwq s wq pwq flush_color work_color wait).2
  | link_color (s : State) (pwq : Nat) :
      0 ≤ s.wq_work_color (s.pwq_wq pwq) → s.wq_work_color (s.pwq_wq pwq) < 16 →
      Step s (link_pwq_color s pwq)
  | install (s : State) (wq cpu pwq : Nat) :
      aligned_pwq pwq → Step s (rcu_assign_cpu_pwq s wq cpu pwq)
  | attach (s : State) (worker pool : Nat) :
      s.worker_current_work worker = 0 → s.lists (list_head.scheduled worker) = [] →
      Step s (worker_attach_to_pool s worker pool)
  | detach (s : State) (worker : Nat) :
      s.worker_current_work worker = 0 → s.lists (list_head.scheduled worker) = [] →
      Step s (worker_detach_from_pool s worker)
  | env (s : State) (f : Field) (v : f.type) : Field.external f = true → Step s (s.set f v)

/-- The states reachable from an initial state. -/
def Reachable (s : State) : Prop := ∃ s0, Init s0 ∧ Relation.ReflTransGen Step s0 s

/-! ## Properties of reachable states and further example states -/

/-- Every queued work item that is not a barrier carries INACTIVE exactly when it is linked
on `inactive_works` of its pool_workqueue. -/
def inactive_flag_ok (s : State) : Prop :=
  ∀ x, s.work_entry x ≠ none → s.work_func x ≠ wq_barrier_func →
    (s.work_data x &&& WORK_STRUCT_INACTIVE ≠ 0 ↔
      x ∈ s.lists (list_head.inactive_works (get_work_pwq s x)))

/-- From the state `s` to the state `s2` no `nr_active` grows beyond `max_active`: every
`nr_active` of `s2` is at most its value in `s` or at most `max_active` in `s2`. -/
def nr_active_bounded (s s2 : State) : Prop :=
  ∀ p, s2.pwq_nr_active p ≤ max (s.pwq_nr_active p) (s2.pwq_max_active p)

/-- The state of `ex_backlog` after `flush_work` on the inactive work item 1001 inserted the
barrier at address 2000. -/
def ex_flushed : State := (start_flush_work ex_backlog 1001 2000).2

/-- The state of `ex_freezable` with the worker 16 attached to the pool 64. -/
def ex_pool_worker : State :=
  ex_freezable.set .worker_pool (Function.update ex_freezable.worker_pool 16 64)

/-- The state of `ex_pool_worker` after the work item 1000 was queued: it is on the
worklist of the pool 64. -/
def ex_assignable : State :=
  state_after (queue_work_on 1 ex_pool_worker ex_task 0 32 1000) ex_pool_worker

/-! ## Managing the workers of a pool -/

/-- The timeout `IDLE_WORKER_TIMEOUT` of the enum at the top of the source file. -/
def IDLE_WORKER_TIMEOUT (s : State) : Nat := 300 * s.HZ

/-- The function `worker_enter_idle`.  The second sanity check reads the union of `entry`
and `hentry`: it fires exactly when the worker is still linked on a list or hashed. -/
def worker_enter_idle (s : State) (worker : Nat) : State :=
  let pool := s.worker_pool worker
  if s.worker_flags worker &&& WORKER_IDLE ≠ 0 ∨ s.worker_link worker ≠ link_state.unlinked then s
  else
    let s1 := (s
      |>.set .worker_flags (Function.update s.worker_flags worker
          (s.worker_flags worker ||| WORKER_IDLE))
      |>.set .pool_nr_idle (Function.update s.pool_nr_idle pool (s.pool_nr_idle pool + 1))
      |>.set .worker_last_active (Function.update s.worker_last_active worker s.jiffies)
      |>.set .pool_idle_list (Function.update s.pool_idle_list pool
          (worker :: s.pool_idle_list pool))
      |>.set .worker_link (Function.update s.worker_link worker link_state.idle_list))
    if too_many_workers s1 pool = true ∧ s1.pool_idle_timer_pending pool = false then
      (s1
        |>.set .pool_idle_timer_pending (Function.update s1.pool_idle_timer_pending pool true)
        |>.set .pool_idle_timer_expires (Function.update s1.pool_idle_timer_expires pool
            (s1.jiffies + IDLE_WORKER_TIMEOUT s1)))
    else s1

/-- The function `worker_leave_idle`. -/
def worker_leave_idle (s : State) (worker : Nat) : State :=
  let pool := s.worker_pool worker
  if s.worker_flags worker &&& WORKER_IDLE = 0 then s
  else
    let s1 := worker_clr_flags s worker WORKER_IDLE
    (s1
      |>.set .pool_nr_idle (Function.update s1.pool_nr_idle pool (s1.pool_nr_idle pool - 1))
      |>.set .pool_idle_list (Function.update s1.pool_idle_list pool
          ((s1.pool_idle_list pool).erase worker))
      |>.set .worker_link (Function.update s1.worker_link worker link_state.unlinked))

/-- The function `alloc_worker` for the address `worker` that `kzalloc_node` returned:
the memory is zeroed, the list heads are initialised and the flags are `WORKER_PREP`. -/
def alloc_worker (s : State) (worker : Nat) : State :=
  (s
    |>.set .worker_current_work (Function.update s.worker_current_work worker 0)
    |>.set .worker_current_func (Function.update s.worker_current_func worker 0)
    |>.set .worker_current_pwq (Function.update s.worker_current_pwq worker 0)
    |>.set .worker_current_color (Function.update s.worker_current_color worker 0)
    |>.set .worker_sleeping (Function.update s.worker_sleeping worker 0)
    |>.set .worker_last_func (Function.update s.worker_last_func worker 0)
    |>.set .worker_last_active (Function.update s.worker_last_active worker 0)
    |>.set .worker_pool (Function.update s.worker_pool worker 0)
    |>.set .worker_rescue_wq (Function.update s.worker_rescue_wq worker 0)
    |>.set .worker_link (Function.update s.worker_link worker link_state.unlinked)
    |>.set .lists (Function.update s.lists (list_head.scheduled worker) [])
    |>.set .worker_flags (Function.update s.worker_flags worker WORKER_PREP))

/-- The function `create_worker` on its successful path, `worker` being the address that
`alloc_worker` returned. -/
def create_worker (s : State) (pool worker : Nat) : State :=
  let s1 := worker_attach_to_pool (alloc_worker s worker) worker pool
  let s2 := (s1.set .pool_nr_workers (Function.update s1.pool_nr_workers (s1.worker_pool worker)
      (s1.pool_nr_workers (s1.worker_pool worker) + 1)))
  wake_up_process (kick_pool (worker_enter_idle s2 worker) pool).2 worker

/-- The function `set_worker_dying`; `list` is the cull list of the caller. -/
def set_worker_dying (s : State) (worker : Nat) : State :=
  let pool := s.worker_pool worker
  if s.worker_current_work worker ≠ 0 ∨ s.lists (list_head.scheduled worker) ≠ [] ∨
      s.worker_flags worker &&& WORKER_IDLE = 0 then s
  else
    (s
      |>.set .pool_nr_workers (Function.update s.pool_nr_workers pool (s.pool_nr_workers pool - 1))
      |>.set .pool_nr_idle (Function.update s.pool_nr_idle pool (s.pool_nr_idle pool - 1))
      |>.set .worker_flags (Function.update s.worker_flags worker
          (s.worker_flags worker ||| WORKER_DIE))
      |>.set .pool_idle_list (Function.update s.pool_idle_list pool
          ((s.pool_idle_list pool).erase worker))
      |>.set .worker_link (Function.update s.worker_link worker link_state.cull_list)
      |>.set .pool_workers (Function.update s.pool_workers pool
          ((s.pool_workers pool).erase worker))
      |>.set .pool_dying_workers (Function.update s.pool_dying_workers pool
          (worker :: s.pool_dying_workers pool)))

/-- The function `manage_workers` up to the point where `maybe_create_worker` releases
`pool->lock`: the return value is false when the pool already has a manager. -/
def manage_workers_begin (s : State) (worker : Nat) : Bool × State :=
  let pool := s.worker_pool worker
  if s.pool_flags pool &&& POOL_MANAGER_ACTIVE ≠ 0 then (false, s)
  else
    (true, (s
      |>.set .pool_flags (Function.update s.pool_flags pool
          (s.pool_flags pool ||| POOL_MANAGER_ACTIVE))
      |>.set .pool_manager (Function.update s.pool_manager pool worker)))

/-- The function `manage_workers` after `maybe_create_worker` returned with `pool->lock`
held. -/
def manage_workers_end (s : State) (worker : Nat) : State :=
  let pool := s.worker_pool worker
  (s
    |>.set .pool_manager (Function.update s.pool_manager pool 0)
    |>.set .pool_flags (Function.update s.pool_flags pool
        (s.pool_flags pool &&& ulong_not POOL_MANAGER_ACTIVE)))

/-- The loop `while ((worker = first_idle_worker(pool))) set_worker_dying(worker, ...)` of
`put_unbound_pool`, at most `fuel` iterations. -/
def put_unbound_pool_loop : Nat → State → Nat → State
  | 0, s, _ => s
  | fuel + 1, s, pool =>
    if first_idle_worker s pool = 0 then s
    else put_unbound_pool_loop fuel (set_worker_dying s (first_idle_worker s pool)) pool

/-- The region of `put_unbound_pool` that runs with `pool->lock` held, entered when
`POOL_MANAGER_ACTIVE` is clear.  Every iteration of the loop takes a worker off the idle
list, so the length of that list bounds the iterations. -/
def put_unbound_pool_locked (s : State) (pool : Nat) : State :=
  put_unbound_pool_loop (s.pool_idle_list pool).length
    (s.set .pool_flags (Function.update s.pool_flags pool
      (s.pool_flags pool ||| POOL_MANAGER_ACTIVE))) pool

/-! ## The view of the worker accounting -/

/-- The fields of the state that the accounting of the workers of a pool reads, the
flag words decoded. -/
@[ext] structure PoolView where
  nr_workers : Nat → Int
  nr_idle : Nat → Int
  busy : Nat → List Nat
  mgr_active : Nat → Bool
  manager : Nat → Nat
  idle : Nat → Bool
  die : Nat → Bool
  wpool : Nat → Nat
  rescuer : Nat → Bool
  link : Nat → link_state

def pview (s : State) : PoolView where
  nr_workers := s.pool_nr_workers
  nr_idle := s.pool_nr_idle
  busy := s.pool_busy_hash
  mgr_active := fun P => decide (s.pool_flags P &&& POOL_MANAGER_ACTIVE ≠ 0)
  manager := s.pool_manager
  idle := fun k => decide (s.worker_flags k &&& WORKER_IDLE ≠ 0)
  die := fun k => decide (s.worker_flags k &&& WORKER_DIE ≠ 0)
  wpool := s.worker_pool
  rescuer := fun k => decide (s.worker_rescue_wq k ≠ 0)
  link := s.worker_link

/-- The number of workers hashed in `busy_hash` of the pool `P` that are not rescuers. -/
def PoolView.busy_count (v : PoolView) (P : Nat) : Nat :=
  (v.busy P).countP (fun k => !v.rescuer k)

/-- The balance of the pool `P`: `nr_idle`, plus the number of hashed workers that are not
rescuers, plus one for the manager, minus `nr_workers`. -/
def PoolView.balance (v : PoolView) (P : Nat) : Int :=
  v.nr_idle P + (v.busy_count P : Int) + (if v.manager P ≠ 0 then 1 else 0) - v.nr_workers P

/-- The invariant of the states of the workers: hashed workers are not idle, a worker is
hashed once and on its own pool; the manager of a pool is a worker of the pool that is
neither idle, hashed nor a rescuer, and the pool then has `POOL_MANAGER_ACTIVE`; dying
workers keep `WORKER_IDLE`, rescuers are never idle. -/
structure InvQ (v : PoolView) : Prop where
  busy_not_idle : ∀ P k, k ∈ v.busy P → v.idle k = false
  busy_nodup : ∀ P, (v.busy P).Nodup
  busy_pool : ∀ P k, k ∈ v.busy P → v.wpool k = P
  mgr : ∀ P, v.manager P ≠ 0 → v.mgr_active P = true ∧ v.idle (v.manager P) = false ∧
    v.rescuer (v.manager P) = false ∧ v.link (v.manager P) = link_state.unlinked ∧
    v.manager P ∉ v.busy P ∧ v.wpool (v.manager P) = P
  die_idle : ∀ k, v.die k = true → v.idle k = true
  resc_not_idle : ∀ k, v.rescuer k = true → v.idle k = false

/-- The invariant of the worker accounting: the states of the workers are consistent and
`nr_workers` is the sum of `nr_idle`, the number of hashed workers that are not rescuers
and one for the manager. -/
structure InvP (v : PoolView) : Prop where
  q : InvQ v
  bal : ∀ P, v.nr_workers P = v.nr_idle P + (v.busy_count P : Int) +
    (if v.manager P ≠ 0 then 1 else 0)

/-! ### Operations on the view -/

/-- The view after `worker_leave_idle` on an idle worker. -/
def PoolView.leave (v : PoolView) (k : Nat) : PoolView :=
  { v with
    idle := Function.update v.idle k false
    nr_idle := Function.update v.nr_idle (v.wpool k) (v.nr_idle (v.wpool k) - 1)
    link := Function.update v.link k link_state.unlinked }

/-- The view after `worker_enter_idle` on a worker that passes the sanity checks. -/
def PoolView.enter (v : PoolView) (k : Nat) : PoolView :=
  { v with
    idle := Function.update v.idle k true
    nr_idle := Function.update v.nr_idle (v.wpool k) (v.nr_idle (v.wpool k) + 1)
    link := Function.update v.link k link_state.idle_list }

/-- The view after `process_one_work` hashed the worker. -/
def PoolView.start (v : PoolView) (k : Nat) : PoolView :=
  { v with
    busy := Function.update v.busy (v.wpool k) (k :: v.busy (v.wpool k))
    link := Function.update v.link k link_state.busy_hash }

/-- The view after `process_one_work` unhashed the worker. -/
def PoolView.finish (v : PoolView) (k : Nat) : PoolView :=
  { v with
    busy := Function.update v.busy (v.wpool k) ((v.busy (v.wpool k)).erase k)
    link := Function.update v.link k link_state.unlinked }

/-- The view after `manage_workers` made the worker the manager. -/
def PoolView.manage_begin (v : PoolView) (k : Nat) : PoolView :=
  { v with
    mgr_active := Function.update v.mgr_active (v.wpool k) true
    manager := Function.update v.manager (v.wpool k) k }

/-- The view after `manage_workers` gave up the manager role. -/
def PoolView.manage_end (v : PoolView) (k : Nat) : PoolView :=
  { v with
    manager := Function.update v.manager (v.wpool k) 0
    mgr_active := Function.update v.mgr_active (v.wpool k) false }

/-- The view after `alloc_worker`. -/
def PoolView.alloc (v : PoolView) (k : Nat) : PoolView :=
  { v with
    idle := Function.update v.idle k false
    die := Function.update v.die k false
    rescuer := Function.update v.rescuer k false
    link := Function.update v.link k link_state.unlinked
    wpool := Function.update v.wpool k 0 }

/-- The view after the worker was attached to the pool `P`. -/
def PoolView.attach (v : PoolView) (k P : Nat) : PoolView :=
  { v with wpool := Function.update v.wpool k P }

/-- The view after `nr_workers` of the pool `P` was incremented. -/
def PoolView.count (v : PoolView) (P : Nat) : PoolView :=
  { v with nr_workers := Function.update v.nr_workers P (v.nr_workers P + 1) }

/-- The view after `set_worker_dying` on a worker that passes the sanity checks. -/
def PoolView.dying (v : PoolView) (k : Nat) : PoolView :=
  { v with
    nr_workers := Function.update v.nr_workers (v.wpool k) (v.nr_workers (v.wpool k) - 1)
    nr_idle := Function.update v.nr_idle (v.wpool k) (v.nr_idle (v.wpool k) - 1)
    die := Function.update v.die k true
    link := Function.update v.link k link_state.cull_list }

/-- The view after `POOL_MANAGER_ACTIVE` of the pool `P` was set. -/
def PoolView.mark (v : PoolView) (P : Nat) : PoolView :=
  { v with mgr_active := Function.update v.mgr_active P true }

/-- The equation of the worker accounting as the specification words it, with all of
`busy_hash` and the flag `POOL_MANAGER_ACTIVE`. -/
def pool_balanced (s : State) (P : Nat) : Prop :=
  s.pool_nr_workers P = s.pool_nr_idle P + ((s.pool_busy_hash P).length : Int) +
    (if s.pool_flags P &&& POOL_MANAGER_ACTIVE ≠ 0 then 1 else 0)

instance (s : State) (P : Nat) : Decidable (pool_balanced s P) := by
  unfold pool_balanced
  exact inferInstance

/-- The initial states of the worker accounting: no pool has a worker, and no worker is
idle or dying. -/
def PoolInit (s : State) : Prop :=
  (∀ P, s.pool_nr_workers P = 0) ∧ (∀ P, s.pool_nr_idle P = 0) ∧
  (∀ P, s.pool_busy_hash P = []) ∧ (∀ P, s.pool_manager P = 0) ∧
  (∀ k, s.worker_flags k &&& WORKER_IDLE = 0) ∧ (∀ k, s.worker_flags k &&& WORKER_DIE = 0)

/-- The steps of the worker accounting.  Every step is a region of the source that
starts where `pool->lock` is taken and ends where it is released, so the states between
the steps are the points where the lock is released.  Inside a region the code that does
not touch the fields of the view (the policy checks and the handling of work items) is
left open: it leads from a state to any state `u` with the same view.

* `other`: a region that leaves the view as it is;
* `create`: `create_worker` for a fresh worker, which no pool knows;
* `attach`, `detach`: a rescuer that is not executing attaches to a pool or detaches, and
  a dying worker detaches on its way out of `worker_thread`;
* `wake_sleep`, `wake_exec`, `wake_manage`: `worker_thread` from `woke_up` for an idle worker
  that is not dying, up to the next sleep, the first work item or the release of the lock
  in `maybe_create_worker`;
* `manage_sleep`, `manage_exec`: the manager from the return of `maybe_create_worker` with
  the lock held up to the next sleep or work item;
* `exec_exec`, `exec_sleep`: a hashed worker from the return of the work function up to
  the next work item or, in `worker_thread`, the next sleep;
* `rescue_begin`, `rescue_end`: `rescuer_thread` starts its first work item on the pool
  and finishes its last one;
* `dying`: `set_worker_dying` in `idle_cull_fn`;
* `put_unbound`: the locked region of `put_unbound_pool`. -/
inductive PoolStep : State → State → Prop
  | other (s u : State) : pview u = pview s → PoolStep s u
  | create (s : State) (pool worker : Nat) :
      worker ≠ 0 → (∀ P, worker ∉ s.pool_busy_hash P) → (∀ P, s.pool_manager P ≠ worker) →
      PoolStep s (create_worker s pool worker)
  | attach (s : State) (worker pool : Nat) :
      s.worker_rescue_wq worker ≠ 0 → worker ∉ s.pool_busy_hash (s.worker_pool worker) →
      PoolStep s (worker_attach_to_pool s worker pool)
  | detach (s : State) (worker : Nat) :
      (s.worker_rescue_wq worker ≠ 0 ∧ worker ∉ s.pool_busy_hash (s.worker_pool worker)) ∨
        s.worker_flags worker &&& WORKER_DIE ≠ 0 →
      PoolStep s (worker_detach_from_pool s worker)
  | wake_sleep (s u : State) (worker : Nat) :
      s.worker_rescue_wq worker = 0 → s.worker_flags worker &&& WORKER_IDLE ≠ 0 →
      s.worker_flags worker &&& WORKER_DIE = 0 →
      pview u = pview (worker_leave_idle s worker) → PoolStep s (worker_enter_idle u worker)
  | wake_exec (s u : State) (worker work : Nat) :
      s.worker_rescue_wq worker = 0 → s.worker_flags worker &&& WORKER_IDLE ≠ 0 →
      s.worker_flags worker &&& WORKER_DIE = 0 →
      pview u = pview (worker_leave_idle s worker) →
      PoolStep s (process_one_work_begin u worker work)
  | wake_manage (s u : State) (worker : Nat) :
      worker ≠ 0 → s.worker_rescue_wq worker = 0 → s.worker_flags worker &&& WORKER_IDLE ≠ 0 →
      s.worker_flags worker &&& WORKER_DIE = 0 →
      pview u = pview (worker_leave_idle s worker) → (manage_workers_begin u worker).1 = true →
      PoolStep s (manage_workers_begin u worker).2
  | manage_sleep (s u : State) (worker : Nat) :
      worker ≠ 0 → s.pool_manager (s.worker_pool worker) = worker →
      pview u = pview (manage_workers_end s worker) → PoolStep s (worker_enter_idle u worker)
  | manage_exec (s u : State) (worker work : Nat) :
      worker ≠ 0 → s.pool_manager (s.worker_pool worker) = worker →
      pview u = pview (manage_workers_end s worker) →
      PoolStep s (process_one_work_begin u worker work)
  | exec_exec (s u : State) (worker work : Nat) :
      worker ∈ s.pool_busy_hash (s.worker_pool worker) →
      pview u = pview (process_one_work_end s worker) →
      PoolStep s (process_one_work_begin u worker work)
  | exec_sleep (s u : State) (worker : Nat) :
      s.worker_rescue_wq worker = 0 → worker ∈ s.pool_busy_hash (s.worker_pool worker) →
      pview u = pview (process_one_work_end s worker) → PoolStep s (worker_enter_idle u worker)
  | rescue_begin (s : State) (worker work : Nat) :
      s.worker_rescue_wq worker ≠ 0 → worker ∉ s.pool_busy_hash (s.worker_pool worker) →
      PoolStep s (process_one_work_begin s worker work)
  | rescue_end (s : State) (worker : Nat) :
      s.worker_rescue_wq worker ≠ 0 → worker ∈ s.pool_busy_hash (s.worker_pool worker) →
      PoolStep s (process_one_work_end s worker)
  | dying (s : State) (worker : Nat) : PoolStep s (set_worker_dying s worker)
  | put_unbound (s : State) (pool : Nat) :
      s.pool_flags pool &&& POOL_MANAGER_ACTIVE = 0 → PoolStep s (put_unbound_pool_locked s pool)

/-- The states the worker accounting reaches from an initial state. -/
def PoolReachable (s : State) : Prop :=
  ∃ s0, PoolInit s0 ∧ Relation.ReflTransGen PoolStep s0 s

/-- Example: the boot state with the rescuer 1 of the workqueue 1. -/
def ex_rescuer : State :=
  State.boot.set .worker_rescue_wq (Function.update State.boot.worker_rescue_wq 1 1)

/-! ## Flushing a workqueue -/

/-- The loop `for_each_pwq(pwq, wq)` of `flush_workqueue_prep_pwqs` over the
pool_workqueues that are still to be visited. -/
def flush_workqueue_prep_pwqs_loop : List Nat → State → Nat → Int → Int → Bool → Bool × State
  | [], s, _, _, _, wait => (wait, s)
  | pwq :: l, s, wq, flush_color, work_color, wait =>
    flush_workqueue_prep_pwqs_loop l
      (flush_workqueue_prep_pwq s wq pwq flush_color work_color wait).2 wq flush_color work_color
      (flush_workqueue_prep_pwq s wq pwq flush_color work_color wait).1

/-- The function `flush_workqueue_prep_pwqs`: the return value and the state. -/
def flush_workqueue_prep_pwqs (s : State) (wq : Nat) (flush_color work_color : Int) :
    Bool × State :=
  let s1 :=
    if flush_color ≥ 0 then
      (s.set .wq_nr_pwqs_to_flush (Function.update s.wq_nr_pwqs_to_flush wq 1))
    else s
  let r := flush_workqueue_prep_pwqs_loop (s1.wq_pwqs wq) s1 wq flush_color work_color false
  if flush_color ≥ 0 then
    let s3 := (r.2.set .wq_nr_pwqs_to_flush (Function.update r.2.wq_nr_pwqs_to_flush wq
      (r.2.wq_nr_pwqs_to_flush wq - 1)))
    if s3.wq_nr_pwqs_to_flush wq = 0 then (r.1, complete_flusher s3 (s3.wq_first_flusher wq))
    else (r.1, s3)
  else r

/-- The initializer of `this_flusher` on the stack of `__flush_workqueue`: the list node
is empty, `flush_color` is -1 and the completion is not done. -/
def init_flusher (s : State) (flusher : Nat) : State :=
  (s
    |>.set .flusher_flush_color (Function.update s.flusher_flush_color flusher (-1))
    |>.set .flusher_done (Function.update s.flusher_done flusher 0))

/-- The start-to-wait phase of `__flush_workqueue` for the flusher at the address
`flusher`, from `mutex_lock(&wq->mutex)` to `mutex_unlock(&wq->mutex)`, reached when
`wq_online` is set.  The first component is false when the function leaves through
`out_unlock` and returns, and true when it goes on to `wait_for_completion`. -/
def __flush_workqueue_start (s : State) (wq flusher : Nat) : Bool × State :=
  let s0 := init_flusher s flusher
  let next_color := work_next_color (s0.wq_work_color wq)
  if next_color ≠ s0.wq_flush_color wq then
    let s1 := (s0
      |>.set .flusher_flush_color (Function.update s0.flusher_flush_color flusher
          (s0.wq_work_color wq))
      |>.set .wq_work_color (Function.update s0.wq_work_color wq next_color))
    if s1.wq_first_flusher wq = 0 then
      let s2 := (s1.set .wq_first_flusher (Function.update s1.wq_first_flusher wq flusher))
      let r := flush_workqueue_prep_pwqs s2 wq (s2.wq_flush_color wq) (s2.wq_work_color wq)
      if r.1 = false then
        (false, (r.2
          |>.set .wq_flush_color (Function.update r.2.wq_flush_color wq next_color)
          |>.set .wq_first_flusher (Function.update r.2.wq_first_flusher wq 0)))
      else (true, r.2)
    else
      let s2 := (s1.set .wq_flusher_queue (Function.update s1.wq_flusher_queue wq
        (s1.wq_flusher_queue wq ++ [flusher])))
      (true, (flush_workqueue_prep_pwqs s2 wq (-1) (s2.wq_work_color wq)).2)
  else
    (true, (s0.set .wq_flusher_overflow (Function.update s0.wq_flusher_overflow wq
      (s0.wq_flusher_overflow wq ++ [flusher]))))

/-- The states after `n` successive calls of `__flush_workqueue` that do not have to wait,
with flushers at the addresses `fl 0`, `fl 1`, ...: `none` when one of the calls goes on
to `wait_for_completion`. -/
def flush_repeatedly (wq : Nat) (fl : Nat → Nat) : Nat → State → Option State
  | 0, s => some s
  | n + 1, s =>
    match flush_repeatedly wq fl n s with
    | none => none
    | some s1 =>
      if (__flush_workqueue_start s1 wq (fl n)).1 = false then
        some (__flush_workqueue_start s1 wq (fl n)).2
      else none

/-- The state of `ex_backlog` with the pool_workqueue 256 on the list `pwqs` of the
workqueue 32: two work items of colour 0 are in flight on it. -/
def ex_flushable : State :=
  ex_backlog.set .wq_pwqs (Function.update ex_backlog.wq_pwqs 32 [256])

/-- The state of `ex_one_pwq` with the pool_workqueue 256 on the list `pwqs` of the
workqueue 32: nothing is in flight. -/
def ex_empty_wq : State :=
  ex_one_pwq.set .wq_pwqs (Function.update ex_one_pwq.wq_pwqs 32 [256])

/-- A workqueue on which no flush is in progress and nothing is in flight: there is no
first flusher, both flusher lists are empty, `flush_color` equals `work_color`, which is a
valid colour, and every `nr_in_flight` of its pool_workqueues is zero. -/
def flush_idle (s : State) (wq : Nat) : Prop :=
  s.wq_first_flusher wq = 0 ∧ s.wq_flusher_queue wq = [] ∧ s.wq_flusher_overflow wq = [] ∧
  s.wq_flush_color wq = s.wq_work_color wq ∧ 0 ≤ s.wq_work_color wq ∧
  ∀ p ∈ s.wq_pwqs wq, ∀ c, s.pwq_nr_in_flight p c = 0

/-! ## Delayed work -/

/-- The function `__queue_delayed_work`; `add_timer` and `add_timer_on` make the timer
pending, the CPU whose timer wheel holds it is outside the model. -/
def __queue_delayed_work (fuel : Nat) (s : State) (t : task_ctx) (cpu wq dwork delay : Nat) :
    Option State :=
  if delay = 0 then __queue_work fuel s t cpu wq dwork
  else
    some (s
      |>.set .dwork_wq (Function.update s.dwork_wq dwork wq)
      |>.set .dwork_cpu (Function.update s.dwork_cpu dwork cpu)
      |>.set .dwork_timer_expires (Function.update s.dwork_timer_expires dwork
          ((s.jiffies + delay) % 2 ^ BITS_PER_LONG))
      |>.set .dwork_timer_pending (Function.update s.dwork_timer_pending dwork true))

/-- The function `queue_delayed_work_on`: the return value and the state. -/
def queue_delayed_work_on (fuel : Nat) (s : State) (t : task_ctx) (cpu wq dwork delay : Nat) :
    Option (Bool × State) :=
  if (test_and_set_bit_pending s dwork).1 = false then
    (__queue_delayed_work fuel (test_and_set_bit_pending s dwork).2 t cpu wq dwork delay).map
      (fun s1 => (true, s1))
  else some (false, (test_and_set_bit_pending s dwork).2)

/-- The function `mod_delayed_work_on`: the return value (the `int` returned as `bool`)
and the state.  While `try_to_grab_pending` returns `-EAGAIN` the loop calls it again; no
other task changes the state of the model, so the loop does not end then and the result
is `none`. -/
def mod_delayed_work_on (fuel : Nat) (s : State) (t : task_ctx) (cpu wq dwork delay : Nat) :
    Option (Bool × State) :=
  if (try_to_grab_pending s dwork true).1 = -EAGAIN then none
  else if (try_to_grab_pending s dwork true).1 ≥ 0 then
    (__queue_delayed_work fuel (try_to_grab_pending s dwork true).2 t cpu wq dwork delay).map
      (fun s1 => (decide ((try_to_grab_pending s dwork true).1 ≠ 0), s1))
  else some (decide ((try_to_grab_pending s dwork true).1 ≠ 0), (try_to_grab_pending s dwork true).2)

/-! ## Cancelling a work item and waiting for it -/

/-- The function `__flush_work` up to `wait_for_completion(&barr.done)`, `barr` being the
address of the barrier on its stack and `wq_online` the value of the global flag: the
first component is true when the function goes on to wait for the barrier, false when it
returns false. -/
def __flush_work_start (s : State) (work barr : Nat) (wq_online : Bool) : Bool × State :=
  if wq_online = false then (false, s)
  else if s.work_func work = 0 then (false, s)
  else start_flush_work s work barr

/-- The function `__cancel_work_timer`: the return value and the state, `none` when the
function has to wait for another task: when `try_to_grab_pending` returns a negative
value (the loop retries, after sleeping on `cancel_waitq` for `-ENOENT`) and when
`__flush_work` waits for its barrier.  The wakeup of `cancel_waitq` is outside the
model. -/
def __cancel_work_timer (s : State) (work : Nat) (is_dwork : Bool) (wq_online : Bool)
    (barr : Nat) : Option (Bool × State) :=
  if (try_to_grab_pending s work is_dwork).1 < 0 then none
  else
    let s1 := mark_work_canceling (try_to_grab_pending s work is_dwork).2 work
    let f : Bool × State :=
      if wq_online = true then __flush_work_start s1 work barr wq_online else (false, s1)
    if f.1 = true then none
    else some (decide ((try_to_grab_pending s work is_dwork).1 ≠ 0), clear_work_data f.2 work)

def cancel_work_sync (s : State) (work : Nat) (wq_online : Bool) (barr : Nat) :
    Option (Bool × State) :=
  __cancel_work_timer s work false wq_online barr

def cancel_delayed_work_sync (s : State) (dwork : Nat) (wq_online : Bool) (barr : Nat) :
    Option (Bool × State) :=
  __cancel_work_timer s dwork true wq_online barr

/-- The delayed work item 1000 of `ex_one_pwq` while another task cancels it: that task
owns PENDING and has marked the data word with CANCELING. -/
def ex_canceling : State :=
  mark_work_canceling (test_and_set_bit_pending ex_one_pwq 1000).2 1000

/-- The delayed work item 1000 of `ex_one_pwq` waiting on its timer: PENDING is set and the
timer is pending. -/
def ex_on_timer : State :=
  state_after (queue_delayed_work_on 1 ex_one_pwq ex_task 0 32 1000 10) ex_one_pwq

/-- The stable states of a work item for the caller of `__cancel_work_timer`: it waits on
its timer and is linked nowhere, or it is idle (PENDING is clear), or it is queued on a
pool_workqueue of its pool. -/
def stable_work (s : State) (work : Nat) (is_dwork : Bool) : Prop :=
  (is_dwork = true ∧ s.dwork_timer_pending work = true ∧ s.work_entry work = none) ∨
  (¬ (is_dwork = true ∧ s.dwork_timer_pending work = true) ∧ work_pending s work = false) ∨
  (¬ (is_dwork = true ∧ s.dwork_timer_pending work = true) ∧ work_pending s work = true ∧
    get_work_pool s work ≠ 0 ∧ get_work_pwq s work ≠ 0 ∧
    s.pwq_pool (get_work_pwq s work) = get_work_pool s work)

/-- The work item is idle with no pool: it is linked on no list and its data word is
`WORK_STRUCT_NO_POOL`, so PENDING, CANCELING and the PWQ tag are clear and the word names
no pool. -/
def work_cancelled (s : State) (work : Nat) : Prop :=
  s.work_entry work = none ∧ (∀ h, work ∉ s.lists h) ∧
  s.work_data work = WORK_STRUCT_NO_POOL ∧ work_pending s work = false ∧
  work_is_canceling s work = false ∧ s.work_data work &&& WORK_STRUCT_PWQ = 0 ∧
  get_work_pool s work = 0

/-- What `queue_work_on` does with the work item in the state `s`: whenever it returns it
returns true with PENDING set; and when `__queue_work` passes its draining test and the
pool_workqueue it decides on has a positive reference count, the call returns true with
the work item linked exactly once, on the pool worklist or on `inactive_works` of the
pool_workqueue installed for the chosen CPU. -/
def requeue_ok (s : State) (work : Nat) : Prop :=
  ∀ (fuel : Nat) (t : task_ctx) (cpu wq : Nat),
    (∀ r, queue_work_on fuel s t cpu wq work = some r →
      r.1 = true ∧ work_pending r.2 work = true) ∧
    (¬ (s.wq_flags wq &&& (__WQ_DESTROYING ||| __WQ_DRAINING) ≠ 0 ∧
        is_chained_work s t wq = false) →
      0 < s.pwq_refcnt (__queue_work_target (test_and_set_bit_pending s work).2 t cpu wq work) →
      ∃ s2 H, queue_work_on (fuel + 1) s t cpu wq work = some (true, s2) ∧
        work_pending s2 work = true ∧ s2.work_entry work = some H ∧
        (s2.lists H).count work = 1 ∧ (∀ h, h ≠ H → work ∉ s2.lists h) ∧
        (∃ c, H = list_head.worklist (s.pwq_pool (s.wq_cpu_pwq wq c)) ∨
          H = list_head.inactive_works (s.wq_cpu_pwq wq c)))

/-- The state of `ex_draining` after `cancel_work_sync` on the idle work item 1000, with
`wq_online` set and the barrier of `__flush_work` at the address 2000. -/
def ex_cancelled : State :=
  state_after (cancel_work_sync ex_draining 1000 true 2000) ex_draining

/-- The state of `ex_cancelled` after the task `ex_task` called `queue_work_on` for the work
item 1000 on the draining workqueue 32. -/
def ex_cancelled_requeued : State :=
  state_after (queue_work_on 1 ex_cancelled ex_task 0 32 1000) ex_cancelled

/-! ## The ledger of queued work items and executing workers -/

/-- What the accounting records of a linked work item: the pool_workqueue and the colour
in its data word, its INACTIVE bit, and whether its function is `wq_barrier_func`. -/
structure Item where
  pwq : Nat
  color : Int
  inact : Bool
  barrier : Bool

/-- What the accounting records of a worker that executes a work item: the work item, the
locals `pwq` and `work_data` of `process_one_work` (the colour and the INACTIVE bit of the
latter), and `current_pwq` and `current_color`. -/
structure Run where
  work : Nat
  pwq : Nat
  color : Int
  inact : Bool
  cur_pwq : Nat
  cur_color : Int

/-- The fields of the flush protocol. -/
@[ext] structure FlushView where
  pwq_flush_color : Nat → Int
  nr_pwqs_to_flush : Nat → Int
  done : Nat → Nat
  flusher_color : Nat → Int
  wq_work_color : Nat → Int
  wq_flush_color : Nat → Int
  first_flusher : Nat → Nat
  queue : Nat → List Nat
  overflow : Nat → List Nat
  pwqs : Nat → List Nat
  pwq_wq : Nat → Nat

/-- The ledger: the `inactive_works` lists, the linked work items, the executing workers,
the counters of the pool_workqueues and the fields of the flush protocol. -/
@[ext] structure Acc where
  inactive : Nat → List Nat
  item : Nat → Option Item
  run : Nat → Option Run
  nr_active : Nat → Int
  nr_in_flight : Nat → Int → Int
  max_active : Nat → Int
  work_color : Nat → Int
  fv : FlushView

/-- The fields of the flush protocol in a state. -/
def fview (s : State) : FlushView where
  pwq_flush_color := s.pwq_flush_color
  nr_pwqs_to_flush := s.wq_nr_pwqs_to_flush
  done := s.flusher_done
  flusher_color := s.flusher_flush_color
  wq_work_color := s.wq_work_color
  wq_flush_color := s.wq_flush_color
  first_flusher := s.wq_first_flusher
  queue := s.wq_flusher_queue
  overflow := s.wq_flusher_overflow
  pwqs := s.wq_pwqs
  pwq_wq := s.pwq_wq

/-- The ledger of an accounting view, given the colours of the data words, the colours of
the `work_data` locals and the flush fields. -/
def Acc.of (c : Core) (col fcol : Nat → Int) (fv : FlushView) : Acc where
  inactive := fun p => c.lists (list_head.inactive_works p)
  item := fun x =>
    if c.entry x = none then none
    else some ⟨c.pwq_of x, col x, c.inact x, decide (c.func x = wq_barrier_func)⟩
  run := fun k =>
    if c.cur_work k = 0 then none
    else some ⟨c.cur_work k, c.frame_pwq k, fcol k, c.frame_inact k, c.cur_pwq k, c.cur_color k⟩
  nr_active := c.nr_active
  nr_in_flight := c.nr_in_flight
  max_active := c.max_active
  work_color := c.work_color
  fv := fv

/-- The record of a work item with the entry `e`, the data word `d` and the function `f`. -/
def item_of (e : Option list_head) (d f : Nat) : Option Item :=
  if e = none then none
  else some ⟨work_struct_pwq d, get_work_color d, decide (d &&& WORK_STRUCT_INACTIVE ≠ 0),
    decide (f = wq_barrier_func)⟩

/-- The record of a worker with the given `current_work`, locals `pwq` and `work_data`,
`current_pwq` and `current_color`. -/
def run_of_worker (w p d cp : Nat) (cc : Int) : Option Run :=
  if w = 0 then none
  else some ⟨w, p, get_work_color d, decide (d &&& WORK_STRUCT_INACTIVE ≠ 0), cp, cc⟩

/-- The fields of the state that the ledger reads. -/
def Field.ledger : Field → Bool
  | .work_data | .work_entry | .work_func | .lists | .pwq_work_color
  | .pwq_nr_in_flight | .pwq_nr_active | .pwq_max_active | .worker_current_work
  | .worker_current_pwq | .worker_current_color | .worker_frame_pwq | .worker_frame_work_data
  | .pwq_flush_color | .wq_nr_pwqs_to_flush | .flusher_done | .flusher_flush_color
  | .wq_work_color | .wq_flush_color | .wq_first_flusher | .wq_flusher_queue
  | .wq_flusher_overflow | .wq_pwqs | .pwq_wq => true
  | _ => false

/-- The colour in the data word of a work item. -/
def colr (s : State) (x : Nat) : Int := get_work_color (s.work_data x)

/-- The colour in the local `work_data` of `process_one_work` of a worker. -/
def fcol (s : State) (k : Nat) : Int := get_work_color (s.worker_frame_work_data k)

/-- The ledger of a state. -/
def acc (s : State) : Acc := Acc.of (core s) (colr s) (fcol s) (fview s)

/-- Whether a work item is a linked barrier. -/
def Acc.is_barrier (a : Acc) (x : Nat) : Bool :=
  match a.item x with
  | some it => it.barrier
  | none => false

/-- The flush fields after `pwq_dec_nr_in_flight` reached its flushing tip test for the
pool_workqueue `p` and the colour `c`, with `n` the value of `nr_in_flight[c]`. -/
def FlushView.tip (v : FlushView) (p : Nat) (c : Int) (n : Int) : FlushView :=
  if v.pwq_flush_color p ≠ c then v
  else if n ≠ 0 then v
  else if v.nr_pwqs_to_flush (v.pwq_wq p) - 1 = 0 then
    { v with
      pwq_flush_color := Function.update v.pwq_flush_color p (-1)
      nr_pwqs_to_flush := Function.update v.nr_pwqs_to_flush (v.pwq_wq p)
        (v.nr_pwqs_to_flush (v.pwq_wq p) - 1)
      done := Function.update v.done (v.first_flusher (v.pwq_wq p))
        (v.done (v.first_flusher (v.pwq_wq p)) + 1) }
  else
    { v with
      pwq_flush_color := Function.update v.pwq_flush_color p (-1)
      nr_pwqs_to_flush := Function.update v.nr_pwqs_to_flush (v.pwq_wq p)
        (v.nr_pwqs_to_flush (v.pwq_wq p) - 1) }

/-- The counter `nr_in_flight[c]` of `p` changes by `d`. -/
def Acc.add_nif (a : Acc) (p : Nat) (c : Int) (d : Int) : Acc :=
  { a with
    nr_in_flight := Function.update a.nr_in_flight p
      (Function.update (a.nr_in_flight p) c (a.nr_in_flight p c + d)) }

/-- The flushing tip test of `pwq_dec_nr_in_flight`. -/
def Acc.tip (a : Acc) (p : Nat) (c : Int) : Acc :=
  { a with fv := a.fv.tip p c (a.nr_in_flight p c) }

/-- The ledger after `pwq_activate_inactive_work` on the work item `w` of `inactive_works`
of `p`: it and the barriers linked behind it leave the list, it loses INACTIVE and takes an
`nr_active` slot. -/
def Acc.activate (a : Acc) (w p : Nat) : Acc :=
  { a with
    inactive := Function.update a.inactive p
      (list_before w (a.inactive p) ++
        ((list_from w (a.inactive p)).drop 1).dropWhile a.is_barrier)
    item := Function.update a.item w ((a.item w).map (fun it => { it with inact := false }))
    nr_active := Function.update a.nr_active p (a.nr_active p + 1) }

/-- The test and the activation of `pwq_dec_nr_in_flight` and of one round of
`pwq_adjust_max_active`: the first item of `inactive_works` is activated if there is one and
`nr_active` is below `max_active`. -/
def Acc.settle (a : Acc) (p : Nat) : Acc :=
  if a.inactive p ≠ [] ∧ a.nr_active p < a.max_active p then
    a.activate ((a.inactive p).headD 0) p
  else a

/-- The ledger after `pwq_dec_nr_in_flight` for an item of the colour `c` that was INACTIVE
or not (`ia`). -/
def Acc.dec (a : Acc) (p : Nat) (c : Int) (ia : Bool) : Acc :=
  if ia = true then (a.add_nif p c (-1)).tip p c
  else
    ((({ a with nr_active := Function.update a.nr_active p (a.nr_active p - 1) }).settle
      p).add_nif p c (-1)).tip p c

/-- The ledger after `__queue_work` linked the work item `x` for `q`. -/
def Acc.enqueue (a : Acc) (x q : Nat) : Acc :=
  if a.nr_active q < a.max_active q then
    { a.add_nif q (a.work_color q) 1 with
      item := Function.update a.item x (some ⟨q, a.work_color q, false, false⟩)
      nr_active := Function.update a.nr_active q (a.nr_active q + 1) }
  else
    { a.add_nif q (a.work_color q) 1 with
      inactive := Function.update a.inactive q (a.inactive q ++ [x])
      item := Function.update a.item x (some ⟨q, a.work_color q, true, false⟩) }

/-- The ledger after `insert_wq_barrier` linked the barrier `b` for `q` with the colour `c`
right after the work item `t`. -/
def Acc.add_barrier (a : Acc) (b t q : Nat) (c : Int) : Acc :=
  { a.add_nif q c 1 with
    inactive := fun p =>
      if t ∈ a.inactive p then
        list_before t (a.inactive p) ++ t :: b :: (list_from t (a.inactive p)).drop 1
      else a.inactive p
    item := Function.update a.item b (some ⟨q, c, true, true⟩) }

/-- The ledger after `insert_wq_barrier` linked the barrier `b` for `q` with the colour `c`
at the front of the `scheduled` list of a worker. -/
def Acc.add_barrier_front (a : Acc) (b q : Nat) (c : Int) : Acc :=
  { a.add_nif q c 1 with item := Function.update a.item b (some ⟨q, c, true, true⟩) }

/-- The ledger after the worker `k` claimed the work item `w`, whose record was `it`. -/
def Acc.start (a : Acc) (k w : Nat) (it : Item) : Acc :=
  { a with
    item := Function.update a.item w none
    run := Function.update a.run k (some ⟨w, it.pwq, it.color, it.inact, it.pwq, it.color⟩) }

/-- The ledger after the worker `k`, whose record was `r`, finished its work item. -/
def Acc.finish (a : Acc) (k : Nat) (r : Run) : Acc :=
  ({ a with run := Function.update a.run k none }).dec r.pwq r.color r.inact

/-- The ledger after `try_to_grab_pending` stole the queued work item `w`, whose record
was `it`: an inactive item is activated first, then the item is unlinked and its in-flight
count given up. -/
def Acc.steal (a : Acc) (w : Nat) (it : Item) : Acc :=
  ({ (if it.inact = true then a.activate w it.pwq else a) with
    item := Function.update (if it.inact = true then a.activate w it.pwq else a).item w
      none }).dec it.pwq it.color false

/-- The ledger after `pwq_adjust_max_active` set `max_active` of `p` to `m` and ran `n`
rounds of its activation loop. -/
def Acc.adjust (a : Acc) (p : Nat) (m : Int) : Nat → Acc
  | 0 => { a with max_active := Function.update a.max_active p m }
  | n + 1 => (a.adjust p m n).settle p

/-- The steps of the ledger. -/
inductive AStep : Acc → Acc → Prop
  | quiet (a : Acc) : AStep a a
  | env (a : Acc) (v : FlushView) : AStep a { a with fv := v }
  | color (a : Acc) (m : Nat → Int) (v : FlushView) :
      (∀ p, 0 ≤ m p ∧ m p < 16) → AStep a { a with work_color := m, fv := v }
  | queue (a : Acc) (x q : Nat) :
      x ≠ 0 → a.item x = none → AStep a (a.enqueue x q)
  | barrier_after (a : Acc) (b t : Nat) (it : Item) :
      b ≠ 0 → a.item b = none → a.item t = some it →
      AStep a (a.add_barrier b t it.pwq it.color)
  | barrier_front (a : Acc) (b k : Nat) (r : Run) :
      b ≠ 0 → a.item b = none → a.run k = some r →
      AStep a (a.add_barrier_front b r.cur_pwq r.cur_color)
  | start (a : Acc) (k w : Nat) (it : Item) :
      k ≠ 0 → a.run k = none → a.item w = some it → (∀ p, w ∉ a.inactive p) →
      AStep a (a.start k w it)
  | finish (a : Acc) (k : Nat) (r : Run) : a.run k = some r → AStep a (a.finish k r)
  | steal (a : Acc) (w : Nat) (it : Item) :
      a.item w = some it → it.barrier = false → AStep a (a.steal w it)
  | adjust (a : Acc) (p : Nat) (m : Int) (n : Nat) : AStep a (a.adjust p m n)

/-- What the activation of an item needs of the list `inactive_works` of `p`: the list is
duplicate free, its items are linked on it for `p`, and the LINKED bits and the barriers on
it form chains. -/
structure InactiveOk (u : State) (p : Nat) : Prop where
  nodup : (u.lists (list_head.inactive_works p)).Nodup
  entry : ∀ y ∈ u.lists (list_head.inactive_works p),
    u.work_entry y = some (list_head.inactive_works p)
  pwq : ∀ y ∈ u.lists (list_head.inactive_works p),
    u.work_data y &&& WORK_STRUCT_PWQ ≠ 0 ∧ work_struct_pwq (u.work_data y) = p
  chain : chain_ok (fun y => decide (u.work_data y &&& WORK_STRUCT_LINKED ≠ 0))
    (fun y => u.work_func y = wq_barrier_func) (u.lists (list_head.inactive_works p))
  ichain : ichain_ok (fun y => decide (u.work_data y &&& WORK_STRUCT_LINKED ≠ 0))
    (fun y => u.work_func y = wq_barrier_func) (u.lists (list_head.inactive_works p))

/-- What the invariant of the accounting view says about the ledger. -/
structure Typed (a : Acc) : Prop where
  nodup : ∀ p, (a.inactive p).Nodup
  on_inactive : ∀ p x, x ∈ a.inactive p → ∃ it, a.item x = some it ∧ it.pwq = p ∧ it.inact = true
  inactive_on : ∀ x it, a.item x = some it → it.inact = true → it.barrier = false →
    x ∈ a.inactive it.pwq
  barrier_inact : ∀ x it, a.item x = some it → it.barrier = true → it.inact = true
  head : ∀ p x l, a.inactive p = x :: l → a.is_barrier x = false
  item_zero : a.item 0 = none
  run_zero : a.run 0 = none
  item_color : ∀ x it, a.item x = some it → 0 ≤ it.color ∧ it.color < 16
  work_color : ∀ p, 0 ≤ a.work_color p ∧ a.work_color p < 16
  run_pwq : ∀ k r, a.run k = some r → r.cur_pwq = r.pwq
  run_cur_color : ∀ k r, a.run k = some r → 0 ≤ r.cur_color ∧ r.cur_color < 16

/-! ## The order of execution on a pool_workqueue with `max_active` 1 -/

/-- A work item that is not a barrier and is queued for the pool_workqueue `p`. -/
def waiting (s : State) (p x : Nat) : Bool :=
  decide (s.work_entry x ≠ none ∧ get_work_pwq s x = p ∧ s.work_func x ≠ wq_barrier_func)

/-- A linked work item of the ledger that is not a barrier and belongs to `p`. -/
def Acc.waits (a : Acc) (p x : Nat) : Bool :=
  match a.item x with
  | some it => decide (it.pwq = p) && !it.barrier
  | none => false

/-- The work items on `inactive_works` of `p` that are not barriers, in list order. -/
def Acc.fifo (a : Acc) (p : Nat) : List Nat :=
  (a.inactive p).filter (fun x => !a.is_barrier x)

/-- The runs of the system in which `max_active` of the pool_workqueue `p` is 1 in every
state, each with the list of the enqueues on `p` that are still queued, in the order in
which they were made: a step after which a work item is newly queued for `p` appends it,
any other step drops the work items that are no longer queued for `p`. -/
inductive FifoRun (p : Nat) : State → List Nat → Prop
  | init (s : State) : Init s → s.pwq_max_active p = 1 → FifoRun p s []
  | enqueue (s s2 : State) (q : List Nat) (work : Nat) :
      FifoRun p s q → Step s s2 → s2.pwq_max_active p = 1 →
      waiting s p work = false → waiting s2 p work = true → FifoRun p s2 (q ++ [work])
  | other (s s2 : State) (q : List Nat) :
      FifoRun p s q → Step s s2 → s2.pwq_max_active p = 1 →
      (∀ x, waiting s2 p x = true → waiting s p x = true) →
      FifoRun p s2 (q.filter (waiting s2 p))

/-- A linked work item of `p` that is not INACTIVE: it holds an `nr_active` slot. -/
def Acc.active_item (a : Acc) (p y : Nat) : Prop :=
  ∃ it, a.item y = some it ∧ it.pwq = p ∧ it.inact = false

/-- A worker that executes a work item of `p` that was not INACTIVE: the work item still
holds an `nr_active` slot. -/
def Acc.active_run (a : Acc) (p k : Nat) : Prop :=
  ∃ r, a.run k = some r ∧ r.pwq = p ∧ r.inact = false

/-- The invariant of the order in the ledger: `front` is the one item of `p` that is
queued and active, `runner` the one worker that executes an active item of `p`; together
they account for `nr_active`, which is at most 1 and is 1 while `inactive_works` is not
empty; the list `q` is the active queued item followed by the inactive items. -/
structure FInv (a : Acc) (p : Nat) (q : List Nat) (front runner : Option Nat) : Prop where
  max : a.max_active p = 1
  front_iff : ∀ y, a.active_item p y ↔ front = some y
  runner_iff : ∀ k, a.active_run p k ↔ runner = some k
  count : a.nr_active p = (front.toList.length : Int) + (runner.toList.length : Int)
  le_one : a.nr_active p ≤ 1
  backlog : a.inactive p ≠ [] → a.nr_active p = 1
  order : q = front.toList ++ a.fifo p

/-- Two ledgers that agree in what the order on `p` depends on. -/
structure AtP (a a2 : Acc) (p : Nat) : Prop where
  max : a2.max_active p = a.max_active p
  nr : a2.nr_active p = a.nr_active p
  empty : a2.inactive p = [] ↔ a.inactive p = []
  fifo : a2.fifo p = a.fifo p
  item : ∀ y, a2.active_item p y ↔ a.active_item p y
  run : ∀ k, a2.active_run p k ↔ a.active_run p k

/-- The items on the `inactive_works` lists belong to the pool_workqueue of the list. -/
def ListsTyped (b : Acc) : Prop :=
  ∀ p y, y ∈ b.inactive p → ∀ it, b.item y = some it → it.pwq = p

/-- A queued work item of the pool_workqueue `p` that is not INACTIVE: it holds an
`nr_active` slot of `p`. -/
def active_queued (s : State) (p x : Nat) : Prop :=
  s.work_entry x ≠ none ∧ get_work_pwq s x = p ∧ s.work_data x &&& WORK_STRUCT_INACTIVE = 0

/-- A worker in `process_one_work` on a work item of the pool_workqueue `p` whose data word
was not INACTIVE when the worker read it: the work item holds an `nr_active` slot of `p`
until the worker calls `pwq_dec_nr_in_flight`. -/
def active_running (s : State) (p k : Nat) : Prop :=
  s.worker_current_work k ≠ 0 ∧ s.worker_frame_pwq k = p ∧
    s.worker_frame_work_data k &&& WORK_STRUCT_INACTIVE = 0

/-- The state of `ex_backlog` after `try_to_grab_pending` stole the work item 1000 from the
worklist. -/
def ex_backlog_stolen : State := (try_to_grab_pending ex_backlog 1000 false).2

/-- The first statement of the loop body of `worker_thread`: the worker takes the first
entry of the worklist of its pool and calls `assign_work` on it.  The loop is entered with a
worklist that is not empty. -/
def worker_thread_assign (s : State) (worker : Nat) : Bool × State × list_node :=
  assign_work s ((s.lists (list_head.worklist (s.worker_pool worker))).headD 0) worker

/-- The state of `ex_freezable` after the work item 1000 was queued. -/
def ex_first_queued : State :=
  state_after (queue_work_on 1 ex_freezable ex_task 0 32 1000) ex_freezable

/-! ## Example states for the management of idle workers -/

/-- The boot state with seven workers in pool 0, three of them idle and no manager. -/
def ex_idle_boundary : State :=
  State.boot
    |>.set .pool_nr_workers (Function.update State.boot.pool_nr_workers 0 7)
    |>.set .pool_nr_idle (Function.update State.boot.pool_nr_idle 0 3)

/-! ## The scheduler hooks of concurrency management -/

/-- The function `wq_worker_running` for the worker of the task that returns from
`schedule()`; the timestamp `current_at` is outside the model. -/
def wq_worker_running (s : State) (worker : Nat) : State :=
  if s.worker_sleeping worker = 0 then s
  else
    let s1 :=
      if s.worker_flags worker &&& WORKER_NOT_RUNNING = 0 then
        (s.set .pool_nr_running (Function.update s.pool_nr_running (s.worker_pool worker)
          (s.pool_nr_running (s.worker_pool worker) + 1)))
      else s
    (s1.set .worker_sleeping (Function.update s1.worker_sleeping worker 0))

/-- The function `wq_worker_sleeping` for the worker of the task that is going to sleep.
The model runs the function without interruption, so the test of `WORKER_NOT_RUNNING` that
is repeated with `pool->lock` held reads the flags of the first test. -/
def wq_worker_sleeping (s : State) (worker : Nat) : State :=
  if s.worker_flags worker &&& WORKER_NOT_RUNNING ≠ 0 then s
  else
    let pool := s.worker_pool worker
    if s.worker_sleeping worker ≠ 0 then s
    else
      let s1 := (s.set .worker_sleeping (Function.update s.worker_sleeping worker 1))
      if s1.worker_flags worker &&& WORKER_NOT_RUNNING ≠ 0 then s1
      else
        let s2 := (s1.set .pool_nr_running (Function.update s1.pool_nr_running pool
          (s1.pool_nr_running pool - 1)))
        if (kick_pool s2 pool).1 = true then
          ((kick_pool s2 pool).2.set .pwq_stats
            (Function.update (kick_pool s2 pool).2.pwq_stats
              ((kick_pool s2 pool).2.worker_current_pwq worker)
              (Function.update
                ((kick_pool s2 pool).2.pwq_stats ((kick_pool s2 pool).2.worker_current_pwq worker))
                PWQ_STAT_CM_WAKEUP
                ((kick_pool s2 pool).2.pwq_stats ((kick_pool s2 pool).2.worker_current_pwq worker)
                  PWQ_STAT_CM_WAKEUP + 1))))
        else (kick_pool s2 pool).2

/-- A pool with the work item 1000 of the pool_workqueue 256 on its worklist, no running
worker and the idle worker 16, whose task last ran on CPU 0, outside the pod `{1}` of the
pool; the affinity of the pool is not strict. -/
def ex_repatriate : State :=
  State.boot
    |>.set .lists (Function.update State.boot.lists (list_head.worklist 64) [1000])
    |>.set .work_entry (Function.update State.boot.work_entry 1000 (some (list_head.worklist 64)))
    |>.set .work_data (Function.update State.boot.work_data 1000
        (256 ||| WORK_STRUCT_PENDING ||| WORK_STRUCT_PWQ))
    |>.set .pwq_pool (Function.update State.boot.pwq_pool 256 64)
    |>.set .pool_idle_list (Function.update State.boot.pool_idle_list 64 [16])
    |>.set .pool_nr_idle (Function.update State.boot.pool_nr_idle 64 1)
    |>.set .pool_nr_workers (Function.update State.boot.pool_nr_workers 64 2)
    |>.set .worker_pool (fun _ => 64)
    |>.set .worker_flags (Function.update (Function.update State.boot.worker_flags 16 WORKER_IDLE)
        17 0)
    |>.set .pool_attrs (Function.update State.boot.pool_attrs 64
        { nice := 0, cpumask := fun _ => true, pod_cpumask := fun c => decide (c = 1),
          affn_strict := false, affn_scope := 0, ordered := false })
    |>.set .any_and_distribute (fun _ _ => 1)
    |>.set .pool_nr_running (Function.update State.boot.pool_nr_running 64 1)

/-! ## Culling idle workers -/

/-- Modelled from the spec: the macro `time_before(a, b)` of `include/linux/jiffies.h`,
which is not part of the source file: the difference `a - b` of the two `unsigned long`
values, read as a `long`, is negative. -/
def time_before (a b : Nat) : Bool :=
  decide (2 ^ 63 ≤ (a % 2 ^ 64 + 2 ^ 64 - b % 2 ^ 64) % 2 ^ 64)

/-- The function `wake_dying_workers`: every worker of the cull list is taken off the list
and woken; `unbind_worker` is outside the model. -/
def wake_dying_workers (s : State) (cull_list : List Nat) : State :=
  cull_list.foldl (fun u worker =>
    wake_up_process (u.set .worker_link
      (Function.update u.worker_link worker link_state.unlinked)) worker) s

/-- The loop of `idle_cull_fn`, at most `fuel` rounds, with the cull list of the caller:
the state and the cull list at the end of the loop, `none` when the rounds are used up.
`set_worker_dying` moves the worker to the front of the cull list unless one of its sanity
checks fires. -/
def idle_cull_fn_loop : Nat → State → Nat → List Nat → Option (State × List Nat)
  | 0, _, _, _ => none
  | fuel + 1, s, pool, cull_list =>
    if too_many_workers s pool = true then
      if time_before s.jiffies
          (s.worker_last_active ((s.pool_idle_list pool).getLastD 0) + IDLE_WORKER_TIMEOUT s)
          = true then
        some ((s
          |>.set .pool_idle_timer_pending (Function.update s.pool_idle_timer_pending pool true)
          |>.set .pool_idle_timer_expires (Function.update s.pool_idle_timer_expires pool
              (s.worker_last_active ((s.pool_idle_list pool).getLastD 0) +
                IDLE_WORKER_TIMEOUT s))), cull_list)
      else
        idle_cull_fn_loop fuel (set_worker_dying s ((s.pool_idle_list pool).getLastD 0)) pool
          (if s.worker_current_work ((s.pool_idle_list pool).getLastD 0) ≠ 0 ∨
              s.lists (list_head.scheduled ((s.pool_idle_list pool).getLastD 0)) ≠ [] ∨
              s.worker_flags ((s.pool_idle_list pool).getLastD 0) &&& WORKER_IDLE = 0 then
            cull_list
          else (s.pool_idle_list pool).getLastD 0 :: cull_list)
    else some (s, cull_list)

/-- The function `idle_cull_fn` for the pool of the cull work, its loop bounded by `fuel`:
the state at the end and the workers that were culled, the last one first. -/
def idle_cull_fn (fuel : Nat) (s : State) (pool : Nat) : Option (State × List Nat) :=
  match idle_cull_fn_loop fuel s pool [] with
  | some r => some (wake_dying_workers r.1 r.2, r.2)
  | none => none

/-- A pool with the idle workers 16, 17, 18, 19 and 20, the first the one that went idle
last, and no other worker; the workers 19 and 20 went idle at time 0, the others at the
times 30000, 20000 and 10000, and the time is 80000 with 250 ticks per second. -/
def ex_idle_pool : State :=
  State.boot
    |>.set .pool_idle_list (Function.update State.boot.pool_idle_list 64 [16, 17, 18, 19, 20])
    |>.set .pool_workers (Function.update State.boot.pool_workers 64 [16, 17, 18, 19, 20])
    |>.set .pool_nr_idle (Function.update State.boot.pool_nr_idle 64 5)
    |>.set .pool_nr_workers (Function.update State.boot.pool_nr_workers 64 5)
    |>.set .worker_pool (fun _ => 64)
    |>.set .worker_flags (fun _ => WORKER_IDLE)
    |>.set .worker_link (fun _ => link_state.idle_list)
    |>.set .worker_last_active (fun w =>
        if w = 16 then 30000 else if w = 17 then 20000 else if w = 18 then 10000 else 0)
    |>.set .jiffies 80000

/-! ## CPU hotplug -/

/-- The body of the loop of `unbind_workers` for one pool of the CPU, up to the release of
`pool->lock`; the calls of `unbind_worker` that follow are outside the model. -/
def unbind_workers_pool (s : State) (pool : Nat) : State :=
  let s1 := (s.pool_workers pool).foldl (fun u worker =>
    (u.set .worker_flags (Function.update u.worker_flags worker
      (u.worker_flags worker ||| WORKER_UNBOUND)))) s
  let s2 := (s1.set .pool_flags (Function.update s1.pool_flags pool
    (s1.pool_flags pool ||| POOL_DISASSOCIATED)))
  let s3 := (s2.set .pool_nr_running (Function.update s2.pool_nr_running pool 0))
  (kick_pool s3 pool).2

/-- The function `unbind_workers` for a CPU whose pools, the entries of the per-CPU array
`cpu_worker_pools` that `for_each_cpu_worker_pool` visits, are `cpu_worker_pools`. -/
def unbind_workers (s : State) (cpu_worker_pools : List Nat) : State :=
  cpu_worker_pools.foldl unbind_workers_pool s

/-- The function `rebind_workers`; the CPU affinity of the tasks is outside the model. -/
def rebind_workers (s : State) (pool : Nat) : State :=
  let s1 := (s.set .pool_flags (Function.update s.pool_flags pool
    (s.pool_flags pool &&& ulong_not POOL_DISASSOCIATED)))
  (s1.pool_workers pool).foldl (fun u worker =>
    (u.set .worker_flags (Function.update u.worker_flags worker
      ((u.worker_flags worker ||| WORKER_REBOUND) &&& ulong_not WORKER_UNBOUND)))) s1

/-- A per-CPU pool 64 with the attached workers 16, which is idle, and 17, which is
running a work item and counted in `nr_running`. -/
def ex_online_pool : State :=
  State.boot
    |>.set .pool_workers (Function.update State.boot.pool_workers 64 [16, 17])
    |>.set .pool_idle_list (Function.update State.boot.pool_idle_list 64 [16])
    |>.set .pool_nr_idle (Function.update State.boot.pool_nr_idle 64 1)
    |>.set .pool_nr_workers (Function.update State.boot.pool_nr_workers 64 2)
    |>.set .pool_nr_running (Function.update State.boot.pool_nr_running 64 1)
    |>.set .worker_pool (fun _ => 64)
    |>.set .worker_flags (Function.update (Function.update State.boot.worker_flags 16 WORKER_IDLE)
        17 0)

/-! ## The manager of a pool -/

/-- The function `maybe_create_worker`, called with `pool->lock` held by the manager and
run without interference from other contexts.  Every element of `attempts` is the outcome
of one call of `create_worker`: the address of the new worker, or `none` when the call
failed, which leaves the state as it is.  The result is `none` when the outcomes are used
up before the function returns.  Without interference the two tests of
`need_to_create_worker` after a failed call read the same state, so both lead to the next
call of `create_worker`; the timers are outside the model. -/
def maybe_create_worker : List (Option Nat) → State → Nat → Option State
  | [], _, _ => none
  | none :: attempts, s, pool =>
    if need_to_create_worker s pool = false then some s
    else maybe_create_worker attempts s pool
  | some worker :: attempts, s, pool =>
    if need_to_create_worker (create_worker s pool worker) pool = true then
      maybe_create_worker attempts (create_worker s pool worker) pool
    else some (create_worker s pool worker)

/-- The function `manage_workers`: the return value and the state, `none` when
`maybe_create_worker` does not return with the given outcomes of `create_worker`. -/
def manage_workers (attempts : List (Option Nat)) (s : State) (worker : Nat) :
    Option (Bool × State) :=
  if (manage_workers_begin s worker).1 = false then some (false, s)
  else
    match maybe_create_worker attempts (manage_workers_begin s worker).2 (s.worker_pool worker) with
    | some s2 => some (true, manage_workers_end s2 worker)
    | none => none

/-- A pool 64 whose only worker 17 is busy; nothing is queued and no worker is idle. -/
def ex_no_idle : State :=
  State.boot
    |>.set .pool_workers (Function.update State.boot.pool_workers 64 [17])
    |>.set .pool_nr_workers (Function.update State.boot.pool_nr_workers 64 1)
    |>.set .worker_pool (fun _ => 64)
    |>.set .worker_flags (fun _ => 0)

/-- The idle list of the pool holds idle workers of the pool, each once, and `nr_idle`
counts them. -/
structure IdleOk (s : State) (pool : Nat) : Prop where
  nodup : (s.pool_idle_list pool).Nodup
  idle : ∀ w ∈ s.pool_idle_list pool, s.worker_pool w = pool ∧
    s.worker_flags w &&& WORKER_IDLE ≠ 0 ∧ s.worker_current_work w = 0 ∧
    s.lists (list_head.scheduled w) = []
  count : s.pool_nr_idle pool = ((s.pool_idle_list pool).length : Int)

/-- The state `s2` at the end of the loop of `idle_cull_fn` entered in `s`: the idle list was
`keep ++ culled`, the workers of `culled` were marked and taken off, and the loop stopped
with `keep`. -/
structure Culled (s : State) (pool : Nat) (keep culled : List Nat) (s2 : State) : Prop where
  split : s.pool_idle_list pool = keep ++ culled
  list : s2.pool_idle_list pool = keep
  nr_idle : s2.pool_nr_idle pool = s.pool_nr_idle pool - (culled.length : Int)
  nr_workers : s2.pool_nr_workers pool = s.pool_nr_workers pool - (culled.length : Int)
  flags : ∀ w, s2.worker_flags w =
    if w ∈ culled then s.worker_flags w ||| WORKER_DIE else s.worker_flags w
  expired : ∀ w ∈ culled,
    time_before s.jiffies (s.worker_last_active w + IDLE_WORKER_TIMEOUT s) = false
  many : ∀ i : Nat, i < culled.length →
    too_many_workers_nr_idle s pool - (i : Int) > 2 ∧
    s.pool_nr_workers pool - too_many_workers_nr_idle s pool ≤
      (too_many_workers_nr_idle s pool - (i : Int) - 2) * 4
  stop : too_many_workers s2 pool = false ∨
    ∃ w, keep.getLast? = some w ∧
      time_before s.jiffies (s.worker_last_active w + IDLE_WORKER_TIMEOUT s) = true ∧
      s2.pool_idle_timer_pending pool = true ∧
      s2.pool_idle_timer_expires pool = s.worker_last_active w + IDLE_WORKER_TIMEOUT s
  pool_flags : s2.pool_flags = s.pool_flags
  jiffies : s2.jiffies = s.jiffies
  hz : s2.HZ = s.HZ
  last_active : s2.worker_last_active = s.worker_last_active
  others : ∀ p, p ≠ pool → s2.pool_idle_list p = s.pool_idle_list p ∧
    s2.pool_nr_idle p = s.pool_nr_idle p ∧ s2.pool_nr_workers p = s.pool_nr_workers p

/-! ## References held by in-flight items -/

/-- The sum of the counters `pwq->nr_in_flight[c]` over the `WORK_NR_COLORS` colours. -/
def nr_in_flight_sum (s : State) (pwq : Nat) : Int :=
  ((List.range 16).map (fun c => s.pwq_nr_in_flight pwq (c : Int))).sum

/-- The references on `pwq` that no in-flight item accounts for: `refcnt` minus the sum of
the `nr_in_flight` counters. -/
def pwq_slack (s : State) (pwq : Nat) : Int :=
  s.pwq_refcnt pwq - nr_in_flight_sum s pwq

/-- A pool_workqueue 256 with the base reference and two in-flight items of the colours 0
and 3, the worker 16 executing the item of colour 3 for it. -/
def ex_pinned : State :=
  State.boot
    |>.set .pwq_refcnt (Function.update State.boot.pwq_refcnt 256 3)
    |>.set .pwq_nr_in_flight (Function.update State.boot.pwq_nr_in_flight 256
        (fun c => if c = 0 ∨ c = 3 then 1 else 0))
    |>.set .worker_current_color (Function.update State.boot.worker_current_color 16 3)

/-! ## Inactive items and the capacity of a pool_workqueue -/

/-- A linked work item of the ledger that holds an `nr_active` slot of `p`: its record
belongs to `p` and is not INACTIVE. -/
def Acc.holds_item (a : Acc) (p x : Nat) : Bool :=
  match a.item x with
  | some it => decide (it.pwq = p) && !it.inact
  | none => false

/-- A worker of the ledger whose work item holds an `nr_active` slot of `p`. -/
def Acc.holds_run (a : Acc) (p k : Nat) : Bool :=
  match a.run k with
  | some r => decide (r.pwq = p) && !r.inact
  | none => false

/-- The number of `nr_active` slots of `p` that the work items of `D` and the workers of `K`
hold. -/
def Acc.slots (a : Acc) (p : Nat) (D K : Finset Nat) : Nat :=
  (D.filter (fun x => a.holds_item p x = true)).card +
    (K.filter (fun k => a.holds_run p k = true)).card

/-- Every `nr_active` covers the slots that are held. -/
def SlotsCounted (a : Acc) : Prop :=
  ∀ p D K, (a.slots p D K : Int) ≤ a.nr_active p

/-- A pool_workqueue of the ledger with a work item on `inactive_works` has no room:
`nr_active` is not below `max_active`. -/
def Acc.backlog_full (a : Acc) : Prop :=
  ∀ p, a.inactive p ≠ [] → a.max_active p ≤ a.nr_active p

/-- A pool_workqueue with a work item on `inactive_works` has no room: `nr_active` is not
below `max_active`. -/
def backlog_full (s : State) : Prop :=
  ∀ p, s.lists (list_head.inactive_works p) ≠ [] → s.pwq_max_active p ≤ s.pwq_nr_active p

/-! ## Unbound pools -/

/-- Modelled from the spec: the value `NUMA_NO_NODE` (header constant). -/
abbrev NUMA_NO_NODE : Int := -1
/-- Modelled from the spec: errno value `ENOMEM` (header constant). -/
abbrev ENOMEM : Int := 12
/-- Modelled from the spec: errno value `EINVAL` (header constant). -/
abbrev EINVAL : Int := 22
/-- Modelled from the spec: affinity scope `WQ_AFFN_DFL` (header constant). -/
abbrev WQ_AFFN_DFL : Int := 0
/-- Modelled from the spec: affinity scope `WQ_AFFN_NUMA` (header constant). -/
abbrev WQ_AFFN_NUMA : Int := 4
/-- Modelled from the spec: the number `WQ_AFFN_NR_TYPES` of affinity scopes (header
constant). -/
abbrev WQ_AFFN_NR_TYPES : Int := 6

/-- Modelled from the spec: the hash functions that key `unbound_pool_hash`, which are not
part of the source file: `jhash_1word a initval`, `jhash key initval` for a key given as its
unsigned longs, and `hash_min`, which maps a hash value to the bucket of the table. -/
structure hash_lib where
  jhash_1word : Nat → Nat → Nat
  jhash : List Nat → Nat → Nat
  hash_min : Nat → Nat

/-- The state that the management of the unbound pools and of the pool_workqueues of an
unbound workqueue works on: the state `s` of the pools, workers and pool_workqueues, and

* `unbound_pool_hash`: the buckets of the hash table, each the pools on it, first entry
  first;
* `pool_node`: the field `node` of `struct worker_pool`;
* `nr_cpumask_bits`, `wq_online`, `cpu_possible_mask`, `wq_affn_dfl`: the globals;
* `pod_nr_pods`, `pod_cpus`, `pod_node`, `cpu_pod`: the fields of `wq_pod_types[scope]`;
* `wq_unbound_attrs`: the field `unbound_attrs` of `struct workqueue_struct`;
* `ordered_wq_attrs`, `unbound_std_wq_attrs`: the global arrays of attributes. -/
structure UnboundState where
  s : State
  unbound_pool_hash : Nat → List Nat
  pool_node : Nat → Int
  nr_cpumask_bits : Nat
  wq_online : Bool
  cpu_possible_mask : Nat → Bool
  wq_affn_dfl : Int
  pod_nr_pods : Int → Nat
  pod_cpus : Int → Nat → Nat → Bool
  pod_node : Int → Nat → Int
  cpu_pod : Int → Nat → Nat
  wq_unbound_attrs : Nat → workqueue_attrs
  ordered_wq_attrs : Nat → workqueue_attrs
  unbound_std_wq_attrs : Nat → workqueue_attrs

/-- The macro `BITS_TO_LONGS`. -/
def BITS_TO_LONGS (n : Nat) : Nat := (n + 63) / 64

/-- The unsigned long at index `i` of the bitmap of a cpumask. -/
def cpumask_word (m : Nat → Bool) (i : Nat) : Nat :=
  (List.range 64).foldl (fun acc j => acc + (if m (64 * i + j) = true then 2 ^ j else 0)) 0

/-- The key `cpumask_bits(mask)` of `BITS_TO_LONGS(nr_cpumask_bits)` unsigned longs that
`wqattrs_hash` passes to `jhash`. -/
def cpumask_bits (n : Nat) (m : Nat → Bool) : List Nat :=
  (List.range (BITS_TO_LONGS n)).map (cpumask_word m)

/-- The call `cpumask_equal(a, b)`: the masks agree on the bits below `nr_cpumask_bits`. -/
def cpumask_equal (n : Nat) (a b : Nat → Bool) : Bool :=
  (List.range n).all (fun c => a c == b c)

/-- The call `cpumask_subset(a, b)`. -/
def cpumask_subset (n : Nat) (a b : Nat → Bool) : Bool :=
  (List.range n).all (fun c => !a c || b c)

/-- The call `cpumask_empty(a)`. -/
def cpumask_empty (n : Nat) (a : Nat → Bool) : Bool :=
  (List.range n).all (fun c => !a c)

/-- The result of `cpumask_and(dst, a, b)`: the bits at and above `nr_cpumask_bits` are
clear. -/
def cpumask_and (n : Nat) (a b : Nat → Bool) : Nat → Bool :=
  fun c => decide (c < n) && a c && b c

/-- The function `copy_workqueue_attrs`: the new value of `to`. -/
def copy_workqueue_attrs (src : workqueue_attrs) : workqueue_attrs :=
  { nice := src.nice, cpumask := src.cpumask, pod_cpumask := src.pod_cpumask,
    affn_strict := src.affn_strict, affn_scope := src.affn_scope, ordered := src.ordered }

/-- The function `wqattrs_clear_for_pool`. -/
def wqattrs_clear_for_pool (attrs : workqueue_attrs) : workqueue_attrs :=
  { attrs with affn_scope := WQ_AFFN_NR_TYPES, ordered := false }

/-- The function `wqattrs_hash`; `attrs->nice` and `attrs->affn_strict` are converted to
`u32`. -/
def wqattrs_hash (H : hash_lib) (n : Nat) (attrs : workqueue_attrs) : Nat :=
  H.jhash_1word (if attrs.affn_strict = true then 1 else 0)
    (H.jhash (cpumask_bits n attrs.pod_cpumask)
      (H.jhash (cpumask_bits n attrs.cpumask)
        (H.jhash_1word (attrs.nice % 2 ^ 32).toNat 0)))

def wqattrs_equal (n : Nat) (a b : workqueue_attrs) : Bool :=
  if a.nice ≠ b.nice then false
  else if cpumask_equal n a.cpumask b.cpumask = false then false
  else if cpumask_equal n a.pod_cpumask b.pod_cpumask = false then false
  else if a.affn_strict ≠ b.affn_strict then false
  else true

/-- The function `wqattrs_actualize_cpumask`. -/
def wqattrs_actualize_cpumask (n : Nat) (attrs : workqueue_attrs)
    (unbound_cpumask : Nat → Bool) : workqueue_attrs :=
  if cpumask_empty n (cpumask_and n attrs.cpumask unbound_cpumask) = true then
    { attrs with cpumask := unbound_cpumask }
  else { attrs with cpumask := cpumask_and n attrs.cpumask unbound_cpumask }

/-- The memory of a `struct worker_pool` as `kzalloc_node` returns it: the fields are
zero. -/
def kzalloc_worker_pool (s : State) (pool : Nat) : State :=
  (s
    |>.set .pool_cpu (Function.update s.pool_cpu pool 0)
    |>.set .pool_id (Function.update s.pool_id pool 0)
    |>.set .pool_flags (Function.update s.pool_flags pool 0)
    |>.set .pool_watchdog_ts (Function.update s.pool_watchdog_ts pool 0)
    |>.set .pool_nr_running (Function.update s.pool_nr_running pool 0)
    |>.set .pool_nr_workers (Function.update s.pool_nr_workers pool 0)
    |>.set .pool_nr_idle (Function.update s.pool_nr_idle pool 0)
    |>.set .pool_idle_timer_pending (Function.update s.pool_idle_timer_pending pool false)
    |>.set .pool_idle_timer_expires (Function.update s.pool_idle_timer_expires pool 0)
    |>.set .pool_manager (Function.update s.pool_manager pool 0)
    |>.set .pool_refcnt (Function.update s.pool_refcnt pool 0))

/-- The function `init_worker_pool`: the return value and the state; `attrs_ok` tells
whether `alloc_workqueue_attrs` succeeds, in which case the attributes of the pool are the
fresh ones after `wqattrs_clear_for_pool`. -/
def init_worker_pool (u : UnboundState) (pool : Nat) (attrs_ok : Bool) : Int × UnboundState :=
  let s := u.s
  let s1 := (s
    |>.set .pool_id (Function.update s.pool_id pool (-1))
    |>.set .pool_cpu (Function.update s.pool_cpu pool (-1))
    |>.set .pool_flags (Function.update s.pool_flags pool (s.pool_flags pool ||| POOL_DISASSOCIATED))
    |>.set .pool_watchdog_ts (Function.update s.pool_watchdog_ts pool s.jiffies)
    |>.set .lists (Function.update s.lists (list_head.worklist pool) [])
    |>.set .pool_idle_list (Function.update s.pool_idle_list pool [])
    |>.set .pool_busy_hash (Function.update s.pool_busy_hash pool [])
    |>.set .pool_idle_timer_pending (Function.update s.pool_idle_timer_pending pool false)
    |>.set .pool_workers (Function.update s.pool_workers pool [])
    |>.set .pool_dying_workers (Function.update s.pool_dying_workers pool [])
    |>.set .pool_hashed (Function.update s.pool_hashed pool false)
    |>.set .pool_refcnt (Function.update s.pool_refcnt pool 1))
  if attrs_ok = false then
    (-ENOMEM, { u with s := s1, pool_node := Function.update u.pool_node pool NUMA_NO_NODE })
  else
    (0, { u with
      s := (s1.set .pool_attrs (Function.update s1.pool_attrs pool
        (wqattrs_clear_for_pool
          { nice := 0, cpumask := u.cpu_possible_mask, pod_cpumask := fun _ => false,
            affn_strict := false, affn_scope := WQ_AFFN_DFL, ordered := false })))
      pool_node := Function.update u.pool_node pool NUMA_NO_NODE })

/-- The function `worker_pool_assign_id`: the return value and the state; `ret` is the
value that `idr_alloc` returns. -/
def worker_pool_assign_id (s : State) (pool : Nat) (ret : Int) : Int × State :=
  if ret ≥ 0 then
    (0, (s
      |>.set .worker_pool_idr (Function.update s.worker_pool_idr ret pool)
      |>.set .pool_id (Function.update s.pool_id pool ret)))
  else (ret, s)

/-- The cull list of `put_unbound_pool` after its loop, which ran from the state `s0` to the
state `s`: the workers that `set_worker_dying` took off the idle list, the last one first. -/
def put_unbound_pool_cull_list (s0 s : State) (pool : Nat) : List Nat :=
  ((s0.pool_idle_list pool).filter
    (fun w => decide (s.worker_link w = link_state.cull_list))).reverse

/-- The function `put_unbound_pool`.  The result is `none` where the function waits for
another context: for the manager of the pool to finish, or for the workers of the pool to
detach.  The release of the memory after the grace period is outside the model. -/
def put_unbound_pool (u : UnboundState) (pool : Nat) : Option UnboundState :=
  let s1 := (u.s.set .pool_refcnt (Function.update u.s.pool_refcnt pool (u.s.pool_refcnt pool - 1)))
  if s1.pool_refcnt pool ≠ 0 then some { u with s := s1 }
  else if ¬ (s1.pool_cpu pool < 0) ∨ s1.lists (list_head.worklist pool) ≠ [] then
    some { u with s := s1 }
  else
    let s2 :=
      if s1.pool_id pool ≥ 0 then
        (s1.set .worker_pool_idr (Function.update s1.worker_pool_idr (s1.pool_id pool) 0))
      else s1
    let s3 := (s2.set .pool_hashed (Function.update s2.pool_hashed pool false))
    if s3.pool_flags pool &&& POOL_MANAGER_ACTIVE ≠ 0 then none
    else
      let s4 := put_unbound_pool_locked s3 pool
      let s5 := wake_dying_workers s4 (put_unbound_pool_cull_list s3 s4 pool)
      if s5.pool_workers pool ≠ [] ∨ s5.pool_dying_workers pool ≠ [] then none
      else
        some { u with
          s := (s5.set .pool_idle_timer_pending
            (Function.update s5.pool_idle_timer_pending pool false))
          unbound_pool_hash := fun b => (u.unbound_pool_hash b).erase pool }

/-- The outcomes of the allocations of one call of `get_unbound_pool`: the address that
`kzalloc_node` returns, 0 when it fails; whether `alloc_workqueue_attrs` succeeds in
`init_worker_pool`; the value that `idr_alloc` returns; the worker that `create_worker`
allocates, 0 when it fails. -/
structure pool_alloc where
  pool : Nat
  attrs_ok : Bool
  id : Int
  worker : Nat

/-- The node that `get_unbound_pool` finds for `attrs`: the node of the first NUMA pod that
contains `__pod_cpumask`, `NUMA_NO_NODE` when there is none. -/
def get_unbound_pool_node (u : UnboundState) (attrs : workqueue_attrs) : Int :=
  match (List.range (u.pod_nr_pods WQ_AFFN_NUMA)).find?
      (fun pod => cpumask_subset u.nr_cpumask_bits attrs.pod_cpumask
        (u.pod_cpus WQ_AFFN_NUMA pod)) with
  | some pod => u.pod_node WQ_AFFN_NUMA pod
  | none => NUMA_NO_NODE

/-- The function `get_unbound_pool`: the pool that is returned, 0 for `NULL`, and the
state; `none` where `put_unbound_pool` waits on the failure path. -/
def get_unbound_pool (H : hash_lib) (u : UnboundState) (attrs : workqueue_attrs)
    (a : pool_alloc) : Option (Nat × UnboundState) :=
  match (u.unbound_pool_hash (H.hash_min (wqattrs_hash H u.nr_cpumask_bits attrs))).find?
      (fun p => wqattrs_equal u.nr_cpumask_bits (u.s.pool_attrs p) attrs) with
  | some pool =>
    some (pool, { u with
      s := (u.s.set .pool_refcnt (Function.update u.s.pool_refcnt pool (u.s.pool_refcnt pool + 1))) })
  | none =>
    if a.pool = 0 then some (0, u)
    else
      let r := init_worker_pool { u with s := kzalloc_worker_pool u.s a.pool } a.pool a.attrs_ok
      if r.1 < 0 then (put_unbound_pool r.2 a.pool).map (fun u2 => (0, u2))
      else
        let s1 := (r.2.s.set .pool_attrs (Function.update r.2.s.pool_attrs a.pool
          (wqattrs_clear_for_pool (copy_workqueue_attrs attrs))))
        let u1 : UnboundState :=
          { r.2 with
            s := s1
            pool_node := Function.update r.2.pool_node a.pool (get_unbound_pool_node u attrs) }
        let r2 := worker_pool_assign_id u1.s a.pool a.id
        if r2.1 < 0 then (put_unbound_pool { u1 with s := r2.2 } a.pool).map (fun u2 => (0, u2))
        else if u.wq_online = true ∧ a.worker = 0 then
          (put_unbound_pool { u1 with s := r2.2 } a.pool).map (fun u2 => (0, u2))
        else
          let s3 := if u.wq_online = true then create_worker r2.2 a.pool a.worker else r2.2
          some (a.pool, { u1 with
            s := (s3.set .pool_hashed (Function.update s3.pool_hashed a.pool true))
            unbound_pool_hash := Function.update u.unbound_pool_hash
              (H.hash_min (wqattrs_hash H u.nr_cpumask_bits attrs))
              (a.pool :: u.unbound_pool_hash
                (H.hash_min (wqattrs_hash H u.nr_cpumask_bits attrs))) })

/-- The cpumask has no bit at or above `nr_cpumask_bits`: the bits of its last unsigned
long that no CPU uses are clear. -/
def cpumask_tail_clear (n : Nat) (m : Nat → Bool) : Prop := ∀ c, n ≤ c → m c = false

/-- Both cpumasks of the attributes have their unused bits clear. -/
def attrs_tail_clear (n : Nat) (a : workqueue_attrs) : Prop :=
  cpumask_tail_clear n a.cpumask ∧ cpumask_tail_clear n a.pod_cpumask

/-- The pools on the hash table. -/
def UnboundState.hashed (u : UnboundState) (p : Nat) : Prop := ∃ b, p ∈ u.unbound_pool_hash b

/-- The hash table is well formed: every pool is on the bucket of the hash of its
attributes and on no bucket twice, the cpumasks of its attributes have their unused bits
clear, and no two pools on the table have equal attributes. -/
structure TableOk (H : hash_lib) (u : UnboundState) : Prop where
  bucket : ∀ b p, p ∈ u.unbound_pool_hash b →
    b = H.hash_min (wqattrs_hash H u.nr_cpumask_bits (u.s.pool_attrs p))
  nodup : ∀ b, (u.unbound_pool_hash b).Nodup
  tail : ∀ p, u.hashed p → attrs_tail_clear u.nr_cpumask_bits (u.s.pool_attrs p)
  distinct : ∀ p q, u.hashed p → u.hashed q →
    wqattrs_equal u.nr_cpumask_bits (u.s.pool_attrs p) (u.s.pool_attrs q) = true → p = q

/-- The states of the unbound pools that are reached from an empty hash table by calls of
`get_unbound_pool` (each for attributes with clear unused bits, `kzalloc_node` returning
memory that is not a pool of the table), by calls of `put_unbound_pool`, and by steps of
other code, which leave the table, `nr_cpumask_bits` and the attributes of the pools of the
table alone. -/
inductive UnboundReach (H : hash_lib) : UnboundState → Prop
  | init (u : UnboundState) : (∀ b, u.unbound_pool_hash b = []) → UnboundReach H u
  | get (u : UnboundState) (attrs : workqueue_attrs) (a : pool_alloc) (r : Nat × UnboundState) :
      UnboundReach H u → attrs_tail_clear u.nr_cpumask_bits attrs → ¬ u.hashed a.pool →
      get_unbound_pool H u attrs a = some r → UnboundReach H r.2
  | put (u : UnboundState) (pool : Nat) (u2 : UnboundState) :
      UnboundReach H u → put_unbound_pool u pool = some u2 → UnboundReach H u2
  | other (u v : UnboundState) :
      UnboundReach H u → v.unbound_pool_hash = u.unbound_pool_hash →
      v.nr_cpumask_bits = u.nr_cpumask_bits →
      (∀ p, u.hashed p → v.s.pool_attrs p = u.s.pool_attrs p) → UnboundReach H v

/-- Hash functions for the examples. -/
def ex_hash : hash_lib where
  jhash_1word := fun a initval => (a + 31 * initval) % 2 ^ 32
  jhash := fun key initval => (key.foldl (fun x y => x + y) 0 + 31 * initval) % 2 ^ 32
  hash_min := fun h => h % 64

/-- Attributes with nice level 0 for the CPUs 0 to 3. -/
def ex_attrs : workqueue_attrs :=
  { nice := 0, cpumask := fun c => decide (c < 4), pod_cpumask := fun c => decide (c < 4),
    affn_strict := false, affn_scope := WQ_AFFN_DFL, ordered := false }

/-- A system with four CPUs in one pod and no unbound pool. -/
def ex_no_pool : UnboundState where
  s := State.boot
  unbound_pool_hash := fun _ => []
  pool_node := fun _ => NUMA_NO_NODE
  nr_cpumask_bits := 4
  wq_online := true
  cpu_possible_mask := fun c => decide (c < 4)
  wq_affn_dfl := 3
  pod_nr_pods := fun _ => 1
  pod_cpus := fun _ _ c => decide (c < 4)
  pod_node := fun _ _ => 0
  cpu_pod := fun _ _ => 0
  wq_unbound_attrs := fun _ => ex_attrs
  ordered_wq_attrs := fun _ => { ex_attrs with ordered := true }
  unbound_std_wq_attrs := fun _ => ex_attrs

/-- The allocations of the examples: the pool 64 with the id 1 and the worker 16. -/
def ex_pool_alloc : pool_alloc := { pool := 64, attrs_ok := true, id := 1, worker := 16 }

/-- The state of `ex_no_pool` after `get_unbound_pool` created the pool 64 for `ex_attrs`. -/
def ex_one_pool : UnboundState :=
  match get_unbound_pool ex_hash ex_no_pool ex_attrs ex_pool_alloc with
  | some r => r.2
  | none => ex_no_pool

/-! ## The pool_workqueues of an unbound workqueue -/

/-- Modelled from the spec: affinity scope `WQ_AFFN_SYSTEM` (header constant). -/
abbrev WQ_AFFN_SYSTEM : Int := 5
/-- Modelled from the spec: workqueue flag `WQ_POWER_EFFICIENT` (header constant). -/
abbrev WQ_POWER_EFFICIENT : Nat := 1 <<< 7
/-- Modelled from the spec: internal workqueue flag `__WQ_ORDERED_EXPLICIT`. -/
abbrev __WQ_ORDERED_EXPLICIT : Nat := 1 <<< 19

/-- The CPUs that `for_each_possible_cpu` visits, in order. -/
def possible_cpus (u : UnboundState) : List Nat :=
  (List.range u.s.nr_cpu_ids).filter u.cpu_possible_mask

/-- The function `put_pwq_unlocked`. -/
def put_pwq_unlocked (s : State) (pwq : Nat) : State :=
  if pwq ≠ 0 then put_pwq s pwq else s

/-- The function `init_pwq` on the memory at `pwq`; `none` when `BUG_ON` fires. -/
def init_pwq (s : State) (pwq wq pool : Nat) : Option State :=
  if pwq &&& WORK_STRUCT_FLAG_MASK ≠ 0 then none
  else
    some (s
      |>.set .pwq_work_color (Function.update s.pwq_work_color pwq 0)
      |>.set .pwq_nr_in_flight (Function.update s.pwq_nr_in_flight pwq (fun _ => 0))
      |>.set .pwq_nr_active (Function.update s.pwq_nr_active pwq 0)
      |>.set .pwq_max_active (Function.update s.pwq_max_active pwq 0)
      |>.set .pwq_stats (Function.update s.pwq_stats pwq (fun _ => 0))
      |>.set .pwq_release_work (Function.update s.pwq_release_work pwq false)
      |>.set .pwq_pool (Function.update s.pwq_pool pwq pool)
      |>.set .pwq_wq (Function.update s.pwq_wq pwq wq)
      |>.set .pwq_flush_color (Function.update s.pwq_flush_color pwq (-1))
      |>.set .pwq_refcnt (Function.update s.pwq_refcnt pwq 1)
      |>.set .lists (Function.update s.lists (list_head.inactive_works pwq) []))

/-- The outcomes of the allocations of one call of `alloc_unbound_pwq`: those of
`get_unbound_pool`, and the address that `kmem_cache_alloc_node` returns, 0 when it
fails. -/
structure pwq_alloc where
  pool : pool_alloc
  pwq : Nat

/-- The function `alloc_unbound_pwq`: the pool_workqueue that is returned, 0 for `NULL`, and
the state. -/
def alloc_unbound_pwq (H : hash_lib) (u : UnboundState) (wq : Nat) (attrs : workqueue_attrs)
    (a : pwq_alloc) : Option (Nat × UnboundState) :=
  match get_unbound_pool H u attrs a.pool with
  | none => none
  | some r =>
    if r.1 = 0 then some (0, r.2)
    else if a.pwq = 0 then (put_unbound_pool r.2 r.1).map (fun u2 => (0, u2))
    else (init_pwq r.2.s a.pwq wq r.1).map (fun s2 => (a.pwq, { r.2 with s := s2 }))

/-- The function `wqattrs_pod_type`: the scope whose entry of `wq_pod_types` is returned,
`none` when `BUG_ON` fires. -/
def wqattrs_pod_type (u : UnboundState) (attrs : workqueue_attrs) : Option Int :=
  let scope := if attrs.affn_scope = WQ_AFFN_DFL then u.wq_affn_dfl else attrs.affn_scope
  if attrs.affn_scope ≠ WQ_AFFN_NR_TYPES ∧ u.pod_nr_pods scope ≠ 0 then some scope
  else if u.pod_nr_pods WQ_AFFN_SYSTEM = 0 then none
  else some WQ_AFFN_SYSTEM

/-- The function `wq_calc_pod_cpumask`: the new value of `attrs`. -/
def wq_calc_pod_cpumask (u : UnboundState) (attrs : workqueue_attrs) (cpu : Nat)
    (cpu_going_down : Int) : Option workqueue_attrs :=
  match wqattrs_pod_type u attrs with
  | none => none
  | some pt =>
    let m1 := cpumask_and u.nr_cpumask_bits
      (cpumask_and u.nr_cpumask_bits (u.pod_cpus pt (u.cpu_pod pt cpu)) attrs.cpumask)
      u.s.cpu_online_mask
    let m2 : Nat → Bool :=
      if cpu_going_down ≥ 0 then fun c => m1 c && decide ((c : Int) ≠ cpu_going_down) else m1
    if cpumask_empty u.nr_cpumask_bits m2 = true then
      some { attrs with pod_cpumask := attrs.cpumask }
    else
      some { attrs with
        pod_cpumask := cpumask_and u.nr_cpumask_bits attrs.cpumask
          (u.pod_cpus pt (u.cpu_pod pt cpu)) }

/-- The fields of `struct apply_wqattrs_ctx`. -/
structure apply_wqattrs_ctx where
  wq : Nat
  attrs : workqueue_attrs
  dfl_pwq : Nat
  pwq_tbl : Nat → Nat

/-- The loop of `apply_wqattrs_prepare` over the CPUs `cpus`; `allocs cpu` gives the outcomes
of the allocations for `cpu`.  The result is whether the loop ran to its end (false: it left
to `out_free`), the state, `new_attrs` and the context. -/
def apply_wqattrs_prepare_loop (H : hash_lib) (allocs : Nat → pwq_alloc) :
    List Nat → UnboundState → workqueue_attrs → apply_wqattrs_ctx →
    Option (Bool × UnboundState × workqueue_attrs × apply_wqattrs_ctx)
  | [], u, new_attrs, ctx => some (true, u, new_attrs, ctx)
  | cpu :: cpus, u, new_attrs, ctx =>
    if new_attrs.ordered = true then
      apply_wqattrs_prepare_loop H allocs cpus
        { u with
          s := (u.s.set .pwq_refcnt
            (Function.update u.s.pwq_refcnt ctx.dfl_pwq (u.s.pwq_refcnt ctx.dfl_pwq + 1))) }
        new_attrs { ctx with pwq_tbl := Function.update ctx.pwq_tbl cpu ctx.dfl_pwq }
    else
      match wq_calc_pod_cpumask u new_attrs cpu (-1) with
      | none => none
      | some attrs2 =>
        match alloc_unbound_pwq H u ctx.wq attrs2 (allocs cpu) with
        | none => none
        | some r =>
          if r.1 = 0 then
            some (false, r.2, attrs2, { ctx with pwq_tbl := Function.update ctx.pwq_tbl cpu 0 })
          else
            apply_wqattrs_prepare_loop H allocs cpus r.2 attrs2
              { ctx with pwq_tbl := Function.update ctx.pwq_tbl cpu r.1 }

/-- The function `apply_wqattrs_cleanup` for a context that is not `NULL`; the release of
the memory is outside the model. -/
def apply_wqattrs_cleanup (u : UnboundState) (ctx : apply_wqattrs_ctx) : UnboundState :=
  { u with
    s := put_pwq_unlocked
      ((possible_cpus u).foldl (fun s cpu => put_pwq_unlocked s (ctx.pwq_tbl cpu)) u.s)
      ctx.dfl_pwq }

/-- The attributes `new_attrs` of `apply_wqattrs_prepare` when it allocates the default
pool_workqueue: the copy of `attrs` after `wqattrs_actualize_cpumask`, with `__pod_cpumask`
the copy of `cpumask`. -/
def apply_wqattrs_dfl_attrs (u : UnboundState) (attrs : workqueue_attrs)
    (unbound_cpumask : Nat → Bool) : workqueue_attrs :=
  { wqattrs_actualize_cpumask u.nr_cpumask_bits (copy_workqueue_attrs attrs) unbound_cpumask with
    pod_cpumask :=
      (wqattrs_actualize_cpumask u.nr_cpumask_bits (copy_workqueue_attrs attrs)
        unbound_cpumask).cpumask }

/-- The function `apply_wqattrs_prepare`: the error, 0 when a context is returned, the
context and the state.  `ctx_ok` and `attrs_ok` tell whether `kzalloc` and
`alloc_workqueue_attrs` succeed, `dfl` and `allocs` give the outcomes of the allocations of
the calls of `alloc_unbound_pwq`. -/
def apply_wqattrs_prepare (H : hash_lib) (u : UnboundState) (wq : Nat) (attrs : workqueue_attrs)
    (unbound_cpumask : Nat → Bool) (ctx_ok attrs_ok : Bool) (dfl : pwq_alloc)
    (allocs : Nat → pwq_alloc) : Option (Int × apply_wqattrs_ctx × UnboundState) :=
  let ctx0 : apply_wqattrs_ctx := { wq := 0, attrs := attrs, dfl_pwq := 0, pwq_tbl := fun _ => 0 }
  if attrs.affn_scope < 0 ∨ attrs.affn_scope ≥ WQ_AFFN_NR_TYPES then some (-EINVAL, ctx0, u)
  else if ctx_ok = false ∨ attrs_ok = false then some (-ENOMEM, ctx0, u)
  else
    let new_attrs := apply_wqattrs_dfl_attrs u attrs unbound_cpumask
    match alloc_unbound_pwq H u wq new_attrs dfl with
    | none => none
    | some r =>
      if r.1 = 0 then some (-ENOMEM, ctx0, apply_wqattrs_cleanup r.2 ctx0)
      else
        match apply_wqattrs_prepare_loop H allocs (possible_cpus u) r.2 new_attrs
            { ctx0 with dfl_pwq := r.1 } with
        | none => none
        | some (false, u2, _, ctx) => some (-ENOMEM, ctx, apply_wqattrs_cleanup u2 ctx)
        | some (true, u2, _, ctx) =>
          some (0,
            { ctx with
              attrs :=
                { copy_workqueue_attrs attrs with
                  cpumask := cpumask_and u.nr_cpumask_bits attrs.cpumask u.cpu_possible_mask
                  pod_cpumask := cpumask_and u.nr_cpumask_bits attrs.cpumask u.cpu_possible_mask }
              wq := wq }, u2)

/-- The function `link_pwq`; the node `pwqs_node` is linked exactly when the
pool_workqueue is on the list `pwqs` of its workqueue. -/
def link_pwq (s : State) (pwq : Nat) : State :=
  let wq := s.pwq_wq pwq
  if pwq ∈ s.wq_pwqs wq then s
  else
    let s1 := (s.set .pwq_work_color (Function.update s.pwq_work_color pwq (s.wq_work_color wq)))
    let s2 := pwq_adjust_max_active s1 pwq
    (s2.set .wq_pwqs (Function.update s2.wq_pwqs wq (pwq :: s2.wq_pwqs wq)))

/-- The pool_workqueue `p` of the workqueue `wq` is the only one that may be linked. -/
def only_linked (s : State) (wq p : Nat) : Prop :=
  s.pwq_wq p = wq ∧ (s.wq_pwqs wq = [] ∨ s.wq_pwqs wq = [p])

/-- The function `install_unbound_pwq`: the old pool_workqueue and the state. -/
def install_unbound_pwq (s : State) (wq cpu pwq : Nat) : Nat × State :=
  let s1 := link_pwq s pwq
  (s1.wq_cpu_pwq wq cpu,
    (s1.set .wq_cpu_pwq (Function.update s1.wq_cpu_pwq wq
      (Function.update (s1.wq_cpu_pwq wq) cpu pwq))))

/-- The function `apply_wqattrs_commit`: the state and the context, which holds the old
pool_workqueues. -/
def apply_wqattrs_commit (u : UnboundState) (ctx : apply_wqattrs_ctx) :
    UnboundState × apply_wqattrs_ctx :=
  let r := (possible_cpus u).foldl
    (fun (r : State × (Nat → Nat)) cpu =>
      ((install_unbound_pwq r.1 ctx.wq cpu (ctx.pwq_tbl cpu)).2,
        Function.update r.2 cpu (install_unbound_pwq r.1 ctx.wq cpu (ctx.pwq_tbl cpu)).1))
    (u.s, ctx.pwq_tbl)
  let s2 := link_pwq r.1 ctx.dfl_pwq
  ({ u with
      s := (s2.set .wq_dfl_pwq (Function.update s2.wq_dfl_pwq ctx.wq ctx.dfl_pwq))
      wq_unbound_attrs := Function.update u.wq_unbound_attrs ctx.wq
        (copy_workqueue_attrs ctx.attrs) },
    { ctx with pwq_tbl := r.2, dfl_pwq := s2.wq_dfl_pwq ctx.wq })

/-- The function `apply_workqueue_attrs_locked`: the return value and the state. -/
def apply_workqueue_attrs_locked (H : hash_lib) (u : UnboundState) (wq : Nat)
    (attrs : workqueue_attrs) (ctx_ok attrs_ok : Bool) (dfl : pwq_alloc)
    (allocs : Nat → pwq_alloc) : Option (Int × UnboundState) :=
  if u.s.wq_flags wq &&& WQ_UNBOUND = 0 then some (-EINVAL, u)
  else if u.s.wq_pwqs wq ≠ [] ∧ u.s.wq_flags wq &&& __WQ_ORDERED_EXPLICIT ≠ 0 then
    some (-EINVAL, u)
  else
    let u1 : UnboundState :=
      if u.s.wq_pwqs wq ≠ [] then
        { u with
          s := (u.s.set .wq_flags (Function.update u.s.wq_flags wq
            (u.s.wq_flags wq &&& ulong_not __WQ_ORDERED))) }
      else u
    match apply_wqattrs_prepare H u1 wq attrs u1.s.wq_unbound_cpumask ctx_ok attrs_ok dfl
        allocs with
    | none => none
    | some (err, ctx, u2) =>
      if err ≠ 0 then some (err, u2)
      else
        some (0, apply_wqattrs_cleanup (apply_wqattrs_commit u2 ctx).1
          (apply_wqattrs_commit u2 ctx).2)

/-- The first two statements of `alloc_workqueue`: the flags of the new workqueue. -/
def alloc_workqueue_flags (flags : Nat) (max_active : Int) (wq_power_efficient : Bool) : Nat :=
  let flags1 := if flags &&& WQ_UNBOUND ≠ 0 ∧ max_active = 1 then flags ||| __WQ_ORDERED else flags
  if flags1 &&& WQ_POWER_EFFICIENT ≠ 0 ∧ wq_power_efficient = true then flags1 ||| WQ_UNBOUND
  else flags1

/-- The attributes that `alloc_and_link_pwqs` applies to an unbound workqueue. -/
def alloc_and_link_pwqs_attrs (u : UnboundState) (wq : Nat) : workqueue_attrs :=
  if u.s.wq_flags wq &&& __WQ_ORDERED ≠ 0 then
    u.ordered_wq_attrs (if u.s.wq_flags wq &&& WQ_HIGHPRI ≠ 0 then 1 else 0)
  else u.unbound_std_wq_attrs (if u.s.wq_flags wq &&& WQ_HIGHPRI ≠ 0 then 1 else 0)

/-- The part of `alloc_and_link_pwqs` for an unbound workqueue, after `alloc_percpu`
succeeded: the return value and the state. -/
def alloc_and_link_pwqs_unbound (H : hash_lib) (u : UnboundState) (wq : Nat)
    (ctx_ok attrs_ok : Bool) (dfl : pwq_alloc) (allocs : Nat → pwq_alloc) :
    Option (Int × UnboundState) :=
  apply_workqueue_attrs_locked H u wq (alloc_and_link_pwqs_attrs u wq) ctx_ok attrs_ok dfl allocs

/-- The system `ex_no_pool` with the four CPUs possible and online and an ordered unbound
workqueue 32 that `alloc_workqueue` is setting up. -/
def ex_ordered_wq : UnboundState :=
  { ex_no_pool with
    s := (State.boot
      |>.set .nr_cpu_ids 4
      |>.set .cpu_online_mask (fun c => decide (c < 4))
      |>.set .wq_unbound_cpumask (fun c => decide (c < 4))
      |>.set .wq_flags (Function.update State.boot.wq_flags 32
          (alloc_workqueue_flags WQ_UNBOUND 1 false))
      |>.set .wq_saved_max_active (Function.update State.boot.wq_saved_max_active 32 1)) }

/-- The allocations of the example: the pool 64 and the pool_workqueue 256. -/
def ex_pwq_alloc : pwq_alloc := { pool := ex_pool_alloc, pwq := 256 }

/-- The state of `ex_ordered_wq` after `apply_wqattrs_prepare` allocated the default
pool_workqueue 256 on the new pool 64. -/
def ex_dfl_allocated : UnboundState :=
  match alloc_unbound_pwq ex_hash ex_ordered_wq 32
      (apply_wqattrs_dfl_attrs ex_ordered_wq (alloc_and_link_pwqs_attrs ex_ordered_wq 32)
        ex_ordered_wq.s.wq_unbound_cpumask) ex_pwq_alloc with
  | some r => r.2
  | none => ex_ordered_wq

/-! ## The flush protocol as a transition system -/

/-- The call site of `flush_workqueue_prep_pwqs` in `__flush_workqueue` to which the call
returns: the two calls of the start-to-wait phase, the call that follows the splice of the
overflow list, with the cursor `next` of the loop over `flusher_queue` (`none` when the
loop ran off the list), and the call that arms the pool_workqueues for the next first
flusher. -/
inductive prep_cont where
  | start_first (next_color : Int)
  | start_queued
  | overflow (next : Option Nat)
  | arm

/-- Where the holder of `wq->mutex` stands in `__flush_workqueue`: `idle` when no flusher
holds the mutex, otherwise in the loop of `flush_workqueue_prep_pwqs` with its arguments,
the pool_workqueues that are still to be visited, the local `wait` and the call site.  The
pool lock is released between two rounds of the loop; there the other steps run. -/
inductive flush_pc where
  | idle
  | prep (this : Nat) (flush_color work_color : Int) (rest : List Nat) (wait : Bool)
      (cont : prep_cont)

/-- Where a call of `__flush_workqueue` with the flusher at a given address stands: there
is no call, the call is in its start-to-wait phase, it sleeps in `wait_for_completion`, it
woke up as the first flusher and has not taken the mutex, or it is in its
wake-up-and-cascade phase. -/
inductive flusher_phase where
  | free
  | starting (wq : Nat)
  | waiting (wq : Nat)
  | woken (wq : Nat)
  | cascading (wq : Nat)

/-- The return of `wait_for_completion(&this_flusher.done)`, which takes the completion,
and the test `READ_ONCE(wq->first_flusher) != &this_flusher`: a flusher that is not the
first flusher returns. -/
def __flush_workqueue_wake (s : State) (wq flusher : Nat) : State × flusher_phase :=
  ((s.set .flusher_done (Function.update s.flusher_done flusher (s.flusher_done flusher - 1))),
    if s.wq_first_flusher wq ≠ flusher then flusher_phase.free else flusher_phase.woken wq)

/-- The statement `list_add_rcu(&pwq->pwqs_node, &wq->pwqs)` of `link_pwq`. -/
def link_pwq_add (s : State) (pwq : Nat) : State :=
  s.set .wq_pwqs
    (Function.update s.wq_pwqs (s.pwq_wq pwq) (pwq :: s.wq_pwqs (s.pwq_wq pwq)))

/-- What the flush protocol reads and writes: the counters `nr_in_flight`, the work and
flush colours of the pool_workqueues, the fields of the workqueues and of the flushers,
and, of every linked work item and every executing worker, the pool_workqueue and the
colour under which it is counted in `nr_in_flight`. -/
@[ext] structure LData where
  nif : Nat → Int → Int
  pwc : Nat → Int
  pfc : Nat → Int
  pwq_wq : Nat → Nat
  pwqs : Nat → List Nat
  n : Nat → Int
  wc : Nat → Int
  fc : Nat → Int
  ff : Nat → Nat
  queue : Nat → List Nat
  overflow : Nat → List Nat
  col : Nat → Int
  done : Nat → Nat
  ikey : Nat → Option (Nat × Int)
  rkey : Nat → Option (Nat × Nat × Int)

/-- The data of the flush protocol in a ledger. -/
def Acc.ldata (a : Acc) : LData where
  nif := a.nr_in_flight
  pwc := a.work_color
  pfc := a.fv.pwq_flush_color
  pwq_wq := a.fv.pwq_wq
  pwqs := a.fv.pwqs
  n := a.fv.nr_pwqs_to_flush
  wc := a.fv.wq_work_color
  fc := a.fv.wq_flush_color
  ff := a.fv.first_flusher
  queue := a.fv.queue
  overflow := a.fv.overflow
  col := a.fv.flusher_color
  done := a.fv.done
  ikey := fun x => (a.item x).map (fun it => (it.pwq, it.color))
  rkey := fun k => (a.run k).map (fun r => (r.work, r.pwq, r.color))

/-- The data of the flush protocol in a state. -/
def ldata (s : State) : LData := (acc s).ldata

/-- The pool_workqueue and the colour of an executing worker. -/
def LData.rk (l : LData) (k : Nat) : Option (Nat × Int) := (l.rkey k).map Prod.snd

/-- The counter `nr_in_flight[c]` of `p` changes by `d`. -/
def LData.add (l : LData) (p : Nat) (c : Int) (d : Int) : LData :=
  { l with nif := Function.update l.nif p (Function.update (l.nif p) c (l.nif p c + d)) }

/-- The flushing tip test of `pwq_dec_nr_in_flight`. -/
def LData.tip (l : LData) (p : Nat) (c : Int) : LData :=
  if l.pfc p ≠ c then l
  else if l.nif p c ≠ 0 then l
  else if l.n (l.pwq_wq p) - 1 = 0 then
    { l with
      pfc := Function.update l.pfc p (-1)
      n := Function.update l.n (l.pwq_wq p) (l.n (l.pwq_wq p) - 1)
      done := Function.update l.done (l.ff (l.pwq_wq p)) (l.done (l.ff (l.pwq_wq p)) + 1) }
  else
    { l with
      pfc := Function.update l.pfc p (-1)
      n := Function.update l.n (l.pwq_wq p) (l.n (l.pwq_wq p) - 1) }

def LData.prep_begin (l : LData) (wq : Nat) (flush_color : Int) : LData :=
  if flush_color ≥ 0 then { l with n := Function.update l.n wq 1 } else l

def LData.enter (l : LData) (wq flusher : Nat) : LData × flush_pc × flusher_phase :=
  let l0 : LData := { l with
    col := Function.update l.col flusher (-1)
    done := Function.update l.done flusher 0 }
  if work_next_color (l.wc wq) ≠ l.fc wq then
    let l1 : LData := { l0 with
      col := Function.update l0.col flusher (l.wc wq)
      wc := Function.update l.wc wq (work_next_color (l.wc wq)) }
    if l.ff wq = 0 then
      (({ l1 with ff := Function.update l.ff wq flusher } : LData).prep_begin wq (l.fc wq),
        flush_pc.prep flusher (l.fc wq) (work_next_color (l.wc wq)) (l.pwqs wq) false
          (prep_cont.start_first (work_next_color (l.wc wq))),
        flusher_phase.starting wq)
    else
      ({ l1 with queue := Function.update l.queue wq (l.queue wq ++ [flusher]) },
        flush_pc.prep flusher (-1) (work_next_color (l.wc wq)) (l.pwqs wq) false
          prep_cont.start_queued,
        flusher_phase.starting wq)
  else
    ({ l0 with overflow := Function.update l.overflow wq (l.overflow wq ++ [flusher]) },
      flush_pc.idle, flusher_phase.waiting wq)

def LData.wake (l : LData) (wq flusher : Nat) : LData × flusher_phase :=
  ({ l with done := Function.update l.done flusher (l.done flusher - 1) },
    if l.ff wq ≠ flusher then flusher_phase.free else flusher_phase.woken wq)

/-- The data of the flush protocol after the assignment `pwq->work_color = wq->work_color`
of `link_pwq`. -/
def LData.link_color (l : LData) (p : Nat) : LData :=
  { l with pwc := Function.update l.pwc p (l.wc (l.pwq_wq p)) }

/-- The data of the flush protocol after `list_add_rcu(&pwq->pwqs_node, &wq->pwqs)`. -/
def LData.link_add (l : LData) (p : Nat) : LData :=
  { l with pwqs := Function.update l.pwqs (l.pwq_wq p) (p :: l.pwqs (l.pwq_wq p)) }

/-- The distance of the colour `c` from the flush colour `fc`, in the cyclic order of the
colours. -/
def cdist (fc c : Int) : Int := (c - fc) % 16

/-- The pool_workqueues that the loop of `flush_workqueue_prep_pwqs` has still to visit. -/
def flush_pc.rest : flush_pc → List Nat
  | flush_pc.idle => []
  | flush_pc.prep _ _ _ rest _ _ => rest

/-- Whether the holder of the mutex is in a call of `flush_workqueue_prep_pwqs` that arms
the pool_workqueues. -/
def flush_pc.arming : flush_pc → Bool
  | flush_pc.idle => false
  | flush_pc.prep _ flush_color _ _ _ _ => decide (flush_color ≥ 0)

/-- The reference that `flush_workqueue_prep_pwqs` holds on `nr_pwqs_to_flush` while it
arms the pool_workqueues. -/
def flush_pc.bias (pc : flush_pc) : Int := if pc.arming = true then 1 else 0

/-- The per-colour accounting: `nr_in_flight[c]` of `p` is the number of linked work items
and executing workers that are counted for `p` with the colour `c`, and their colours are
valid. -/
structure InvK (l : LData) : Prop where
  cover : ∃ D K : Finset Nat, (∀ x, l.ikey x ≠ none → x ∈ D) ∧ (∀ k, l.rk k ≠ none → k ∈ K) ∧
    ∀ p c, l.nif p c = ((D.filter (fun x => l.ikey x = some (p, c))).card : Int) +
      ((K.filter (fun k => l.rk k = some (p, c))).card : Int)
  icol : ∀ x p c, l.ikey x = some (p, c) → 0 ≤ c ∧ c < 16
  rcol : ∀ k p c, l.rk k = some (p, c) → 0 ≤ c ∧ c < 16

/-- The local `wait` of the call of `flush_workqueue_prep_pwqs` in progress. -/
def flush_pc.wait : flush_pc → Bool
  | flush_pc.idle => true
  | flush_pc.prep _ _ _ _ wait _ => wait

/-- The state `s2` differs from `s` only in fields outside the accounting view and in the
work colours of the pool_workqueues. -/
def FlushFrame (s s2 : State) : Prop :=
  ∀ g, Field.external g = false → g ≠ .pwq_work_color → s2 g = s g

/-- The attributes `ex_attrs` with a stray bit in the cpumask: bit 5, which is not below
`nr_cpumask_bits` (4) and lies in the first unsigned long of the bitmap. -/
def ex_attrs_stray : workqueue_attrs :=
  { ex_attrs with cpumask := fun c => decide (c < 4 ∨ c = 5) }

/-- The allocations of a second call of `get_unbound_pool`: the pool 128 with the id 2 and
the worker 17. -/
def ex_pool_alloc2 : pool_alloc := { pool := 128, attrs_ok := true, id := 2, worker := 17 }

/-- The state of `ex_pool_worker` after a second worker 17 was attached to the pool 64 and
`max_active` of the pool_workqueue 256 was raised to 2 (`wq->saved_max_active` is 2 and
`pwq_adjust_max_active` ran). -/
def ex_two_workers : State :=
  pwq_adjust_max_active
    ((worker_attach_to_pool ex_pool_worker 17 64).set .wq_saved_max_active
      (Function.update (worker_attach_to_pool ex_pool_worker 17 64).wq_saved_max_active 32 2))
    256

/-- The state of `ex_two_workers` after the work item 1000 was queued, assigned to the
worker 16 and started by it. -/
def ex_running : State :=
  process_one_work_begin
    (assign_work (state_after (queue_work_on 1 ex_two_workers ex_task 0 32 1000) ex_two_workers)
      1000 16).2.1 16 1000

/-- The state of `ex_running` after the work item 1000 was queued again while the worker 16
executes it: it is on the worklist of the pool 64 again. -/
def ex_requeued_running : State :=
  state_after (queue_work_on 1 ex_running ex_task 0 32 1000) ex_running

/-- The state of `ex_backlog` after a flusher of the workqueue 32 ran the round of
`flush_workqueue_prep_pwqs` for the pool_workqueue 256 with the flush colour 0 and the work
colour 1: the work items 1000 and 1001 have the colour 0, new work items get the colour 1. -/
def ex_recolored : State := (flush_workqueue_prep_pwq ex_backlog 32 256 0 1 false).2

/-! ## The tasks around a sleeping canceller -/

/-- The steps of the tasks other than the task that owns PENDING of the work item `work`
and sleeps in `__flush_work`, called from `__cancel_work_timer`: the steps of `Step`, except
that the steps which only the owner of PENDING of a work item makes (`queue`,
`release_clear`, `release_pool`, `canceling`) are for other work items, that the barrier of
another flusher is not at the address of `work`, and that no timer is started for `work`
(`add_timer` is called by the owner of PENDING).  The other tasks may call
`test_and_set_bit(PENDING)` and `try_to_grab_pending` on `work`. -/
inductive OtherStep (work : Nat) : State → State → Prop
  | claim (s : State) (w : Nat) : OtherStep work s (test_and_set_bit_pending s w).2
  | queue (s : State) (fuel : Nat) (t : task_ctx) (cpu wq w : Nat) (s2 : State) :
      w ≠ work → w ≠ 0 → s.work_func w ≠ wq_barrier_func → work_pending s w = true →
      s.work_entry w = none → __queue_work fuel s t cpu wq w = some s2 → OtherStep work s s2
  | flush (s : State) (w barr : Nat) :
      barr ≠ work → barr ≠ 0 → s.work_entry barr = none →
      (∀ k, s.worker_current_work k ≠ barr) →
      (start_flush_work s w barr).1 = true → OtherStep work s (start_flush_work s w barr).2
  | grab (s : State) (w : Nat) (is_dwork : Bool) :
      s.work_func w ≠ wq_barrier_func → OtherStep work s (try_to_grab_pending s w is_dwork).2
  | release_clear (s : State) (w : Nat) :
      w ≠ work → s.work_entry w = none → OtherStep work s (clear_work_data s w)
  | release_pool (s : State) (w : Nat) :
      w ≠ work → s.work_entry w = none →
      OtherStep work s (set_work_pool_and_clear_pending s w (get_work_pool_id s w))
  | canceling (s : State) (w : Nat) :
      w ≠ work → s.work_entry w = none → OtherStep work s (mark_work_canceling s w)
  | assign (s : State) (k w : Nat) :
      k ≠ 0 → s.worker_current_work k = 0 →
      s.work_entry w = some (list_head.worklist (s.worker_pool k)) →
      (∀ y, (list_before w (s.lists (list_head.worklist (s.worker_pool k)))).getLast? = some y →
        s.work_data y &&& WORK_STRUCT_LINKED = 0) →
      OtherStep work s (assign_work s w k).2.1
  | start (s : State) (k w : Nat) :
      k ≠ 0 → s.worker_current_work k = 0 →
      (s.lists (list_head.scheduled k)).head? = some w →
      OtherStep work s (process_one_work_begin s k w)
  | finish (s : State) (k : Nat) :
      s.worker_current_work k ≠ 0 → OtherStep work s (process_one_work_end s k)
  | adjust (s : State) (pwq : Nat) : OtherStep work s (pwq_adjust_max_active s pwq)
  | prep (s : State) (wq pwq : Nat) (flush_color work_color : Int) (wait : Bool) :
      work_color < 16 →
      OtherStep work s (flush_workqueue_prep_pwq s wq pwq flush_color work_color wait).2
  | link_color (s : State) (pwq : Nat) :
      0 ≤ s.wq_work_color (s.pwq_wq pwq) → s.wq_work_color (s.pwq_wq pwq) < 16 →
      OtherStep work s (link_pwq_color s pwq)
  | install (s : State) (wq cpu pwq : Nat) :
      aligned_pwq pwq → OtherStep work s (rcu_assign_cpu_pwq s wq cpu pwq)
  | attach (s : State) (worker pool : Nat) :
      s.worker_current_work worker = 0 → s.lists (list_head.scheduled worker) = [] →
      OtherStep work s (worker_attach_to_pool s worker pool)
  | detach (s : State) (worker : Nat) :
      s.worker_current_work worker = 0 → s.lists (list_head.scheduled worker) = [] →
      OtherStep work s (worker_detach_from_pool s worker)
  | env (s : State) (f : Field) (v : f.type) :
      Field.external f = true →
      (s.set f v).dwork_timer_pending work = s.dwork_timer_pending work →
      OtherStep work s (s.set f v)

/-- The returns of a call of `__cancel_work_timer` in the state `s`, with the return value
and the state at the return.  The call returns at once, as `__cancel_work_timer` computes;
or `__flush_work` has inserted its barrier and sleeps in `wait_for_completion`, the other
tasks make steps, and at a later state `u` the call goes on with `clear_work_data` and
returns `ret`.  The states `u` are all the later states: the wake-up by the barrier, whose
completion is outside the model, is in one of them. -/
inductive cancel_returns (s : State) (work : Nat) (is_dwork wq_online : Bool) (barr : Nat) :
    Bool × State → Prop
  | at_once (r : Bool × State) :
      __cancel_work_timer s work is_dwork wq_online barr = some r →
      cancel_returns s work is_dwork wq_online barr r
  | waited (u : State) :
      ¬ (try_to_grab_pending s work is_dwork).1 < 0 → wq_online = true →
      (__flush_work_start (mark_work_canceling (try_to_grab_pending s work is_dwork).2 work)
        work barr wq_online).1 = true →
      Relation.ReflTransGen (OtherStep work)
        (__flush_work_start (mark_work_canceling (try_to_grab_pending s work is_dwork).2 work)
          work barr wq_online).2 u →
      cancel_returns s work is_dwork wq_online barr
        (decide ((try_to_grab_pending s work is_dwork).1 ≠ 0), clear_work_data u work)

/-- The state of `ex_pool_worker` with the id 1 for the pool 64 and the function 7 for the
work item 1000: an initial state. -/
def ex_pool_worker_id : State :=
  ex_pool_worker
    |>.set .pool_id (Function.update ex_pool_worker.pool_id 64 1)
    |>.set .worker_pool_idr (Function.update ex_pool_worker.worker_pool_idr 1 64)
    |>.set .work_func (Function.update ex_pool_worker.work_func 1000 7)

/-- The state of `ex_pool_worker_id` after the work item 1000 was queued, assigned to the
worker 16 and started by it: the worker executes it, PENDING is clear and the data word
names the pool 64 by its id. -/
def ex_executing : State :=
  process_one_work_begin
    (assign_work
      (state_after (queue_work_on 1 ex_pool_worker_id ex_task 0 32 1000) ex_pool_worker_id)
      1000 16).2.1 16 1000

/-- The state in which `cancel_work_sync` on the work item 1000 sleeps after it was called in
`ex_executing`: PENDING and CANCELING are set and the barrier 2000 is on the `scheduled` list
of the worker 16. -/
def ex_cancel_waiting : State :=
  (__flush_work_start (mark_work_canceling (try_to_grab_pending ex_executing 1000 false).2 1000)
    1000 2000 true).2

/-- The state of `ex_cancel_waiting` after the worker 16 finished the work item 1000. -/
def ex_cancel_woken : State := process_one_work_end ex_cancel_waiting 16

/-! # Lemmas and theorems -/

/-! ## Reading a field of an updated state -/

@[simp] theorem State.set_same (s : State) (f : Field) (v : f.type) : (s.set f v) f = v := by
  simp [State.set]

@[simp] theorem State.set_other (s : State) (f g : Field) (v : f.type) (h : g ≠ f) :
    (s.set f v) g = s g := by
  simp [State.set, h]

theorem State.set_self (s : State) (f : Field) : s.set f (s f) = s := by
  simp [State.set]

/-! ## Bits of machine words -/

theorem and_bit_eq_zero (x i : Nat) : x &&& (1 <<< i) = 0 ↔ x.testBit i = false := by
  rw [Nat.one_shiftLeft, Nat.and_two_pow]
  cases h : x.testBit i <;> simp

theorem and_bit_ne_zero (x i : Nat) : x &&& (1 <<< i) ≠ 0 ↔ x.testBit i = true := by
  rw [Ne, and_bit_eq_zero]; simp

theorem testBit_one_shl (n m : Nat) : Nat.testBit (1 <<< n) m = decide (n = m) := by
  rw [Nat.one_shiftLeft, Nat.testBit_two_pow]

theorem or_bit_of_testBit (x i : Nat) (h : x.testBit i = true) : x ||| (1 <<< i) = x := by
  apply Nat.eq_of_testBit_eq; intro j
  rw [Nat.testBit_or, testBit_one_shl]
  by_cases hj : i = j
  · subst hj; simp [h]
  · simp [hj]

theorem testBit_lt (p n : Nat) (h : p < 2 ^ n) (i : Nat) (hi : n ≤ i) : p.testBit i = false := by
  apply Nat.testBit_lt_two_pow
  calc p < 2 ^ n := h
    _ ≤ 2 ^ i := Nat.pow_le_pow_right (by decide) hi

theorem testBit_ulong_not (x i : Nat) :
    (ulong_not x).testBit i = (decide (i < 64) && !x.testBit i) := by
  unfold ulong_not
  rw [Nat.testBit_xor, Nat.testBit_two_pow_sub_one, Nat.testBit_mod_two_pow]
  by_cases h : i < 64 <;> simp [h]

theorem get_work_color_eq (d : Nat) : get_work_color d = (((d >>> 4) &&& 15 : Nat) : Int) := rfl

theorem color_nat_or (a b : Nat) : ((a ||| b) >>> 4) &&& 15 = ((a >>> 4) &&& 15) ||| ((b >>> 4) &&& 15) := by
  apply Nat.eq_of_testBit_eq; intro i
  simp [Bool.and_or_distrib_right]

theorem get_work_color_lt (d : Nat) : 0 ≤ get_work_color d ∧ get_work_color d < 16 := by
  rw [get_work_color_eq]
  have : (d >>> 4) &&& 15 < 16 := by
    have h := Nat.and_pow_two_sub_one_eq_mod (d >>> 4) 4
    have h2 : (2 ^ 4 - 1 : Nat) = 15 := by decide
    rw [h2] at h; rw [h]; exact Nat.mod_lt _ (by decide)
  omega

theorem aligned_testBit (p : Nat) (h : p &&& WORK_STRUCT_FLAG_MASK = 0) (i : Nat) (hi : i < 8) :
    p.testBit i = false := by
  have := congrArg (fun x => Nat.testBit x i) h
  simp only [Nat.testBit_and, Nat.zero_testBit] at this
  have h2 : Nat.testBit WORK_STRUCT_FLAG_MASK i = true := by
    have : WORK_STRUCT_FLAG_MASK = 2 ^ 8 - 1 := by decide
    rw [this, Nat.testBit_two_pow_sub_one]; simpa using hi
  rw [h2] at this; simpa using this

theorem data_mask_eq : WORK_STRUCT_WQ_DATA_MASK = (2 ^ 56 - 1) <<< 8 := by decide

theorem testBit_data_mask (i : Nat) :
    Nat.testBit WORK_STRUCT_WQ_DATA_MASK i = decide (8 ≤ i ∧ i < 64) := by
  rw [data_mask_eq, Nat.testBit_shiftLeft, Nat.testBit_two_pow_sub_one]
  by_cases h : 8 ≤ i <;> simp [h] <;> omega

theorem work_struct_pwq_or (p f : Nat) (hp : p &&& WORK_STRUCT_FLAG_MASK = 0) (hp2 : p < 2 ^ 64)
    (hf : f < 2 ^ 8) : work_struct_pwq (p ||| f) = p := by
  unfold work_struct_pwq
  apply Nat.eq_of_testBit_eq; intro i
  rw [Nat.testBit_and, Nat.testBit_or, testBit_data_mask]
  by_cases h : i < 8
  · simp [aligned_testBit p hp i h]; omega
  · by_cases h2 : i < 64
    · have h3 : 8 ≤ i := by omega
      simp [testBit_lt f 8 hf i (by omega), h2, h3]
    · simp [testBit_lt f 8 hf i (by omega), testBit_lt p 64 hp2 i (by omega)]

theorem work_color_to_flags_eq (c : Int) (h0 : 0 ≤ c) (h1 : c < 16) :
    work_color_to_flags c = c.toNat <<< 4 ∧ c.toNat < 16 := by
  unfold work_color_to_flags
  have : c % 2 ^ 32 = c := Int.emod_eq_of_lt h0 (by omega)
  rw [this]
  exact ⟨rfl, by omega⟩

theorem color_nat_shl (c : Nat) (h : c < 16) : ((c <<< 4) >>> 4) &&& 15 = c := by
  rw [Nat.shiftLeft_shiftRight]
  have h1 := Nat.and_pow_two_sub_one_eq_mod c 4
  have h2 : (2 ^ 4 - 1 : Nat) = 15 := by decide
  rw [h2] at h1; rw [h1]; exact Nat.mod_eq_of_lt h

theorem color_nat_aligned (p : Nat) (hp : p &&& WORK_STRUCT_FLAG_MASK = 0) : (p >>> 4) &&& 15 = 0 := by
  apply Nat.eq_of_testBit_eq; intro i
  rw [Nat.testBit_and, Nat.testBit_shiftRight, Nat.zero_testBit]
  by_cases h : i < 4
  · rw [aligned_testBit p hp (4 + i) (by omega)]; simp
  · have : Nat.testBit 15 i = false := testBit_lt 15 4 (by decide) i (by omega)
    rw [this]; simp

theorem work_pending_iff (s : State) (w : Nat) :
    work_pending s w = true ↔ (work_data_bits s w).testBit 0 = true := by
  unfold work_pending
  rw [decide_eq_true_iff]
  exact and_bit_ne_zero _ 0

theorem test_and_set_bit_pending_of_set (s : State) (w : Nat)
    (h : (work_data_bits s w).testBit 0 = true) : (test_and_set_bit_pending s w).2 = s := by
  unfold test_and_set_bit_pending
  simp only []
  rw [or_bit_of_testBit _ _ h]
  show s.set .work_data (Function.update s.work_data w (s.work_data w)) = s
  rw [Function.update_eq_self]
  exact State.set_self s _

theorem work_pending_set_work_data (s : State) (w d : Nat) :
    work_pending (set_work_data s w d WORK_STRUCT_PENDING) w = true := by
  rw [work_pending_iff]
  simp [work_data_bits, set_work_data, testBit_one_shl]

/-- C10: `try_to_grab_pending` returns 0 exactly when the work was idle (no pending timer,
PENDING clear) and then PENDING is set; 1 exactly when the timer of the delayed work was
deleted or the work was pending and queued on a pool_workqueue of its pool, and then the
caller owns PENDING; `-ENOENT` exactly when PENDING could not be taken and the data word
carries CANCELING without the PWQ tag; `-EAGAIN` in every remaining case.  On a negative
return the whole state is unchanged. -/
theorem try_to_grab_pending_contract (s : State) (work : Nat) (is_dwork : Bool) :
    let r := try_to_grab_pending s work is_dwork
    let timer := is_dwork = true ∧ s.dwork_timer_pending work = true
    let pend := work_pending s work = true
    let queued := get_work_pool s work ≠ 0 ∧ get_work_pwq s work ≠ 0 ∧
        s.pwq_pool (get_work_pwq s work) = get_work_pool s work
    (r.1 = 0 ↔ ¬ timer ∧ ¬ pend) ∧
    (r.1 = 0 → work_pending r.2 work = true) ∧
    (r.1 = 1 ↔ timer ∨ (pend ∧ queued)) ∧
    (r.1 = 1 → (timer → pend) → work_pending r.2 work = true) ∧
    (r.1 = 1 → timer → r.2.dwork_timer_pending work = false) ∧
    (r.1 = -ENOENT ↔ ¬ timer ∧ pend ∧ ¬ queued ∧ work_is_canceling s work = true) ∧
    (r.1 = -EAGAIN ↔ ¬ timer ∧ pend ∧ ¬ queued ∧ work_is_canceling s work = false) ∧
    (r.1 < 0 → r.2 = s) := by
  simp only []
  by_cases ht : is_dwork = true ∧ s.dwork_timer_pending work = true
  · have hr : try_to_grab_pending s work is_dwork = (1, del_timer s work) := by
      unfold try_to_grab_pending
      rw [if_pos ht]
    rw [hr]
    refine ⟨?_, ?_, ?_, ?_, ?_, ?_, ?_, ?_⟩
    · simp [ht]
    · simp
    · simp [ht]
    · intro _ h; exact h ht
    · intro _ _; simp [del_timer]
    · simp [ht, ENOENT]
    · simp [ht, EAGAIN]
    · simp
  · by_cases hp : work_pending s work = true
    · have hbit : (work_data_bits s work).testBit 0 = true := (work_pending_iff s work).1 hp
      have hs1 : (test_and_set_bit_pending s work).2 = s := test_and_set_bit_pending_of_set s work hbit
      have hold : (test_and_set_bit_pending s work).1 = true := hbit
      by_cases hq : get_work_pool s work ≠ 0 ∧ get_work_pwq s work ≠ 0 ∧
          s.pwq_pool (get_work_pwq s work) = get_work_pool s work
      · have hr1 : (try_to_grab_pending s work is_dwork).1 = 1 := by
          unfold try_to_grab_pending
          rw [if_neg ht, if_neg (by simp [hold])]
          simp only [hs1]
          rw [if_pos hq]
        have hr2 : work_pending (try_to_grab_pending s work is_dwork).2 work = true := by
          unfold try_to_grab_pending
          rw [if_neg ht, if_neg (by simp [hold])]
          simp only [hs1]
          rw [if_pos hq]
          exact work_pending_set_work_data _ _ _
        rw [hr1]
        refine ⟨?_, ?_, ?_, ?_, ?_, ?_, ?_, ?_⟩
        · simp [hp]
        · simp
        · simp [hp, hq]
        · intro _ _; exact hr2
        · intro _ h; exact absurd h ht
        · simp [hq, ENOENT]
        · simp [hq, EAGAIN]
        · simp
      · have hr : try_to_grab_pending s work is_dwork =
            if work_is_canceling s work = true then (-ENOENT, s) else (-EAGAIN, s) := by
          unfold try_to_grab_pending
          rw [if_neg ht, if_neg (by simp [hold])]
          simp only [hs1]
          rw [if_neg hq]
        rw [hr]
        by_cases hc : work_is_canceling s work = true
        · rw [if_pos hc]
          refine ⟨?_, ?_, ?_, ?_, ?_, ?_, ?_, ?_⟩ <;> simp [hp, hq, ht, hc, ENOENT, EAGAIN]
        · rw [if_neg hc]
          refine ⟨?_, ?_, ?_, ?_, ?_, ?_, ?_, ?_⟩ <;> simp [hp, hq, ht, hc, ENOENT, EAGAIN]
    · have hbit : (work_data_bits s work).testBit 0 = false := by
        have := (work_pending_iff s work).not.1 hp
        simpa using this
      have hold : (test_and_set_bit_pending s work).1 = false := hbit
      have hr : try_to_grab_pending s work is_dwork = (0, (test_and_set_bit_pending s work).2) := by
        unfold try_to_grab_pending
        rw [if_neg ht, if_pos hold]
      have hr2 : work_pending (test_and_set_bit_pending s work).2 work = true := by
        rw [work_pending_iff]
        simp [test_and_set_bit_pending, work_data_bits, testBit_one_shl]
      rw [hr]
      refine ⟨?_, ?_, ?_, ?_, ?_, ?_, ?_, ?_⟩
      · simp [hp, ht]
      · intro _; exact hr2
      · simp [hp, ht]
      · simp
      · simp
      · simp [hp, ENOENT]
      · simp [hp, EAGAIN]
      · simp

/-! ## Frame lemmas: the fields a function leaves alone -/

@[simp] theorem wake_up_process_frame (s : State) (k : Nat) (g : Field)
    (h : g ≠ .worker_task_state) : wake_up_process s k g = s g := by
  simp [wake_up_process, h]

@[simp] theorem kick_pool_repatriate_frame (s : State) (p k : Nat) (g : Field)
    (h1 : g ≠ .worker_task_wake_cpu) (h2 : g ≠ .pwq_stats) :
    kick_pool_repatriate s p k g = s g := by
  unfold kick_pool_repatriate
  dsimp only
  split_ifs <;> simp [h1, h2]

@[simp] theorem kick_pool_frame (s : State) (p : Nat) (g : Field)
    (h0 : g ≠ .worker_task_state) (h1 : g ≠ .worker_task_wake_cpu) (h2 : g ≠ .pwq_stats) :
    (kick_pool s p).2 g = s g := by
  unfold kick_pool
  split_ifs <;> simp [h0, h1, h2]

@[simp] theorem touch_watchdog_if_empty_frame (s : State) (p : Nat) (g : Field)
    (h : g ≠ .pool_watchdog_ts) : touch_watchdog_if_empty s p g = s g := by
  unfold touch_watchdog_if_empty
  split_ifs <;> simp [h]

@[simp] theorem get_pwq_frame (s : State) (p : Nat) (g : Field) (h : g ≠ .pwq_refcnt) :
    get_pwq s p g = s g := by
  simp [get_pwq, h]

@[simp] theorem put_pwq_frame (s : State) (p : Nat) (g : Field) (h : g ≠ .pwq_refcnt)
    (h2 : g ≠ .pwq_release_work) : put_pwq s p g = s g := by
  unfold put_pwq
  split_ifs <;> simp [h, h2]

@[simp] theorem set_work_data_frame (s : State) (w d f : Nat) (g : Field) (h : g ≠ .work_data) :
    set_work_data s w d f g = s g := by
  simp [set_work_data, h]

@[simp] theorem set_work_pwq_frame (s : State) (w p f : Nat) (g : Field) (h : g ≠ .work_data) :
    set_work_pwq s w p f g = s g := by
  simp [set_work_pwq, h]

@[simp] theorem set_work_pool_and_keep_pending_frame (s : State) (w : Nat) (i : Int) (g : Field)
    (h : g ≠ .work_data) : set_work_pool_and_keep_pending s w i g = s g := by
  simp [set_work_pool_and_keep_pending, h]

@[simp] theorem set_work_pool_and_clear_pending_frame (s : State) (w : Nat) (i : Int) (g : Field)
    (h : g ≠ .work_data) : set_work_pool_and_clear_pending s w i g = s g := by
  simp [set_work_pool_and_clear_pending, h]

@[simp] theorem __set_bit_frame (s : State) (n w : Nat) (g : Field) (h : g ≠ .work_data) :
    __set_bit s n w g = s g := by
  simp [__set_bit, h]

@[simp] theorem __clear_bit_frame (s : State) (n w : Nat) (g : Field) (h : g ≠ .work_data) :
    __clear_bit s n w g = s g := by
  simp [__clear_bit, h]

@[simp] theorem test_and_set_bit_pending_frame (s : State) (w : Nat) (g : Field)
    (h : g ≠ .work_data) : (test_and_set_bit_pending s w).2 g = s g := by
  simp [test_and_set_bit_pending, h]

@[simp] theorem list_del_init_frame (s : State) (w : Nat) (g : Field) (h : g ≠ .lists)
    (h2 : g ≠ .work_entry) : list_del_init s w g = s g := by
  simp [list_del_init, h, h2]

@[simp] theorem list_add_tail_frame (s : State) (w : Nat) (n : list_node) (g : Field)
    (h : g ≠ .lists) (h2 : g ≠ .work_entry) : list_add_tail s w n g = s g := by
  simp [list_add_tail, h, h2]

@[simp] theorem list_move_tail_frame (s : State) (w : Nat) (hd : list_head) (g : Field)
    (h : g ≠ .lists) (h2 : g ≠ .work_entry) : list_move_tail s w hd g = s g := by
  simp [list_move_tail, h, h2]

@[simp] theorem move_linked_works_loop_frame (fuel : Nat) (s : State) (w : Nat) (hd : list_head)
    (g : Field) (h : g ≠ .lists) (h2 : g ≠ .work_entry) :
    (move_linked_works_loop fuel s w hd).1 g = s g := by
  induction fuel generalizing s w with
  | zero => simp [move_linked_works_loop]
  | succ n ih =>
    unfold move_linked_works_loop
    split
    · simp [h, h2]
    · split
      · simp [h, h2]
      · rw [ih]; simp [h, h2]

@[simp] theorem move_linked_works_frame (s : State) (w : Nat) (hd : list_head)
    (g : Field) (h : g ≠ .lists) (h2 : g ≠ .work_entry) :
    (move_linked_works s w hd).1 g = s g := by
  unfold move_linked_works
  split <;> simp [h, h2]

@[simp] theorem insert_work_frame (s : State) (p w : Nat) (n : list_node) (f : Nat) (g : Field)
    (h : g ≠ .lists) (h2 : g ≠ .work_entry) (h3 : g ≠ .work_data) (h4 : g ≠ .pwq_refcnt) :
    insert_work s p w n f g = s g := by
  simp [insert_work, h, h2, h3, h4]

@[simp] theorem pwq_activate_inactive_work_frame (s : State) (w : Nat) (g : Field)
    (h1 : g ≠ .pool_watchdog_ts) (h2 : g ≠ .lists) (h3 : g ≠ .work_entry) (h4 : g ≠ .work_data)
    (h5 : g ≠ .pwq_nr_active) : pwq_activate_inactive_work s w g = s g := by
  simp [pwq_activate_inactive_work, h1, h2, h3, h4, h5]

@[simp] theorem pwq_activate_first_inactive_frame (s : State) (p : Nat) (g : Field)
    (h1 : g ≠ .pool_watchdog_ts) (h2 : g ≠ .lists) (h3 : g ≠ .work_entry) (h4 : g ≠ .work_data)
    (h5 : g ≠ .pwq_nr_active) : pwq_activate_first_inactive s p g = s g := by
  unfold pwq_activate_first_inactive
  split_ifs <;> simp [h1, h2, h3, h4, h5]

@[simp] theorem complete_flusher_frame (s : State) (f : Nat) (g : Field) (h : g ≠ .flusher_done) :
    complete_flusher s f g = s g := by
  simp [complete_flusher, h]

@[simp] theorem pwq_dec_nr_active_frame (s : State) (p d : Nat) (g : Field)
    (h1 : g ≠ .pool_watchdog_ts) (h2 : g ≠ .lists) (h3 : g ≠ .work_entry) (h4 : g ≠ .work_data)
    (h5 : g ≠ .pwq_nr_active) : pwq_dec_nr_active s p d g = s g := by
  unfold pwq_dec_nr_active
  dsimp only
  split_ifs <;> simp [h1, h2, h3, h4, h5]

@[simp] theorem pwq_flush_tip_frame (s : State) (p : Nat) (c : Int) (g : Field)
    (h1 : g ≠ .pwq_flush_color) (h2 : g ≠ .wq_nr_pwqs_to_flush) (h3 : g ≠ .flusher_done) :
    pwq_flush_tip s p c g = s g := by
  unfold pwq_flush_tip
  dsimp only
  split_ifs <;> simp [h1, h2, h3]

@[simp] theorem pwq_dec_nr_in_flight_frame (s : State) (p d : Nat) (g : Field)
    (h1 : g ≠ .pool_watchdog_ts) (h2 : g ≠ .lists) (h3 : g ≠ .work_entry) (h4 : g ≠ .work_data)
    (h5 : g ≠ .pwq_nr_active) (h6 : g ≠ .pwq_nr_in_flight) (h7 : g ≠ .pwq_flush_color)
    (h8 : g ≠ .wq_nr_pwqs_to_flush) (h9 : g ≠ .flusher_done) (h10 : g ≠ .pwq_refcnt)
    (h11 : g ≠ .pwq_release_work) : pwq_dec_nr_in_flight s p d g = s g := by
  simp [pwq_dec_nr_in_flight, h1, h2, h3, h4, h5, h6, h7, h8, h9, h10, h11]

@[simp] theorem del_timer_frame (s : State) (w : Nat) (g : Field) (h : g ≠ .dwork_timer_pending) :
    del_timer s w g = s g := by
  simp [del_timer, h]

@[simp] theorem try_to_grab_pending_steal_frame (s : State) (w pool p : Nat) (g : Field)
    (h1 : g ≠ .pool_watchdog_ts) (h2 : g ≠ .lists) (h3 : g ≠ .work_entry) (h4 : g ≠ .work_data)
    (h5 : g ≠ .pwq_nr_active) (h6 : g ≠ .pwq_nr_in_flight) (h7 : g ≠ .pwq_flush_color)
    (h8 : g ≠ .wq_nr_pwqs_to_flush) (h9 : g ≠ .flusher_done) (h10 : g ≠ .pwq_refcnt)
    (h11 : g ≠ .pwq_release_work) : try_to_grab_pending_steal s w pool p g = s g := by
  unfold try_to_grab_pending_steal
  split_ifs <;> simp [h1, h2, h3, h4, h5, h6, h7, h8, h9, h10, h11]

@[simp] theorem wq_select_unbound_cpu_frame (s : State) (c : Nat) (g : Field)
    (h : g ≠ .wq_rr_cpu_last) : (wq_select_unbound_cpu s c).2 g = s g := by
  unfold wq_select_unbound_cpu
  split_ifs <;> simp [h]

@[simp] theorem __queue_work_cpu_frame (s : State) (t : task_ctx) (c wq : Nat) (g : Field)
    (h : g ≠ .wq_rr_cpu_last) : (__queue_work_cpu s t c wq).2 g = s g := by
  unfold __queue_work_cpu
  split_ifs <;> simp [h]

@[simp] theorem __queue_work_insert_frame (s : State) (p w : Nat) (g : Field)
    (h1 : g ≠ .pool_watchdog_ts) (h2 : g ≠ .lists) (h3 : g ≠ .work_entry) (h4 : g ≠ .work_data)
    (h5 : g ≠ .pwq_nr_active) (h6 : g ≠ .pwq_nr_in_flight) (h7 : g ≠ .pwq_refcnt)
    (h8 : g ≠ .worker_task_state) (h9 : g ≠ .worker_task_wake_cpu) (h10 : g ≠ .pwq_stats) :
    __queue_work_insert s p w g = s g := by
  unfold __queue_work_insert
  dsimp only
  split_ifs <;> simp [h1, h2, h3, h4, h5, h6, h7, h8, h9, h10]

@[simp] theorem worker_set_flags_frame (s : State) (k f : Nat) (g : Field)
    (h1 : g ≠ .pool_nr_running) (h2 : g ≠ .worker_flags) : worker_set_flags s k f g = s g := by
  unfold worker_set_flags
  split_ifs <;> simp [h1, h2]

@[simp] theorem worker_clr_flags_frame (s : State) (k f : Nat) (g : Field)
    (h1 : g ≠ .pool_nr_running) (h2 : g ≠ .worker_flags) : worker_clr_flags s k f g = s g := by
  unfold worker_clr_flags
  split_ifs <;> simp [h1, h2]

@[simp] theorem INIT_WORK_ONSTACK_frame (s : State) (w f : Nat) (g : Field)
    (h1 : g ≠ .work_data) (h2 : g ≠ .work_entry) (h3 : g ≠ .work_func) :
    INIT_WORK_ONSTACK s w f g = s g := by
  simp [INIT_WORK_ONSTACK, h1, h2, h3]

@[simp] theorem insert_wq_barrier_frame (s : State) (p b t k : Nat) (g : Field)
    (h1 : g ≠ .work_data) (h2 : g ≠ .work_entry) (h3 : g ≠ .work_func) (h4 : g ≠ .lists)
    (h5 : g ≠ .pwq_nr_in_flight) (h6 : g ≠ .pwq_refcnt) : insert_wq_barrier s p b t k g = s g := by
  unfold insert_wq_barrier
  dsimp only
  split_ifs <;> simp [h1, h2, h3, h4, h5, h6]

@[simp] theorem process_one_work_begin_frame (s : State) (k w : Nat) (g : Field)
    (h1 : g ≠ .pool_busy_hash) (h2 : g ≠ .worker_link) (h3 : g ≠ .worker_current_work)
    (h4 : g ≠ .worker_current_func) (h5 : g ≠ .worker_current_pwq) (h6 : g ≠ .worker_current_color)
    (h7 : g ≠ .worker_frame_pwq) (h8 : g ≠ .worker_frame_work_data) (h9 : g ≠ .lists)
    (h10 : g ≠ .work_entry) (h11 : g ≠ .pool_nr_running) (h12 : g ≠ .worker_flags)
    (h13 : g ≠ .worker_task_state) (h14 : g ≠ .worker_task_wake_cpu) (h15 : g ≠ .pwq_stats)
    (h16 : g ≠ .work_data) : process_one_work_begin s k w g = s g := by
  unfold process_one_work_begin
  split_ifs <;> simp [h1, h2, h3, h4, h5, h6, h7, h8, h9, h10, h11, h12, h13, h14, h15, h16]

@[simp] theorem process_one_work_end_frame (s : State) (k : Nat) (g : Field)
    (h1 : g ≠ .pool_busy_hash) (h2 : g ≠ .worker_link) (h3 : g ≠ .worker_current_work)
    (h4 : g ≠ .worker_current_func) (h5 : g ≠ .worker_current_pwq) (h6 : g ≠ .worker_current_color)
    (h7 : g ≠ .worker_last_func) (h8 : g ≠ .pwq_stats) (h9 : g ≠ .pool_nr_running)
    (h10 : g ≠ .worker_flags)
    (i1 : g ≠ .pool_watchdog_ts) (i2 : g ≠ .lists) (i3 : g ≠ .work_entry) (i4 : g ≠ .work_data)
    (i5 : g ≠ .pwq_nr_active) (i6 : g ≠ .pwq_nr_in_flight) (i7 : g ≠ .pwq_flush_color)
    (i8 : g ≠ .wq_nr_pwqs_to_flush) (i9 : g ≠ .flusher_done) (i10 : g ≠ .pwq_refcnt)
    (i11 : g ≠ .pwq_release_work) : process_one_work_end s k g = s g := by
  unfold process_one_work_end
  simp [h1, h2, h3, h4, h5, h6, h7, h8, h9, h10, i1, i2, i3, i4, i5, i6, i7, i8, i9, i10, i11]

@[simp] theorem pwq_adjust_max_active_loop_frame (fuel : Nat) (s : State) (p : Nat) (g : Field)
    (h1 : g ≠ .pool_watchdog_ts) (h2 : g ≠ .lists) (h3 : g ≠ .work_entry) (h4 : g ≠ .work_data)
    (h5 : g ≠ .pwq_nr_active) : pwq_adjust_max_active_loop fuel s p g = s g := by
  induction fuel generalizing s with
  | zero => simp [pwq_adjust_max_active_loop]
  | succ n ih =>
    unfold pwq_adjust_max_active_loop
    split_ifs
    · rw [ih]; simp [h1, h2, h3, h4, h5]
    · rfl

@[simp] theorem pwq_adjust_max_active_frame (s : State) (p : Nat) (g : Field)
    (h1 : g ≠ .pool_watchdog_ts) (h2 : g ≠ .lists) (h3 : g ≠ .work_entry) (h4 : g ≠ .work_data)
    (h5 : g ≠ .pwq_nr_active) (h6 : g ≠ .pwq_max_active)
    (h8 : g ≠ .worker_task_state) (h9 : g ≠ .worker_task_wake_cpu) (h10 : g ≠ .pwq_stats) :
    pwq_adjust_max_active s p g = s g := by
  unfold pwq_adjust_max_active
  dsimp only
  split_ifs <;> simp [h1, h2, h3, h4, h5, h6, h8, h9, h10]

/-! ## Views of a queued data word -/

theorem or_lt_256 (a b : Nat) (ha : a < 2 ^ 8) (hb : b < 2 ^ 8) : a ||| b < 2 ^ 8 :=
  Nat.or_lt_two_pow ha hb

theorem shl4_lt (c : Nat) (h : c < 16) : c <<< 4 < 2 ^ 8 := by
  rw [Nat.shiftLeft_eq]; omega

theorem aligned_or_testBit (p x i : Nat) (hp : p &&& WORK_STRUCT_FLAG_MASK = 0) (hi : i < 8) :
    (p ||| x).testBit i = x.testBit i := by
  rw [Nat.testBit_or, aligned_testBit p hp i hi]; simp

theorem aligned_or_color (p x : Nat) (hp : p &&& WORK_STRUCT_FLAG_MASK = 0) :
    get_work_color (p ||| x) = get_work_color x := by
  rw [get_work_color_eq, get_work_color_eq, color_nat_or, color_nat_aligned p hp]; simp

theorem color_nat_lt16 (x : Nat) (h : x < 16) : (x >>> 4) &&& 15 = 0 := by
  have : x >>> 4 = 0 := by rw [Nat.shiftRight_eq_div_pow]; omega
  rw [this]; simp

theorem and_bit_testBit (x i : Nat) : x &&& (1 <<< i) = if x.testBit i then 1 <<< i else 0 := by
  rw [Nat.one_shiftLeft, Nat.and_two_pow]
  cases x.testBit i <;> simp

/-- The flag byte written by `set_work_pwq` for the colour `c` and the low flags `g`. -/
theorem get_work_color_flags (g : Nat) (c : Int) (hg : g < 16) (hc0 : 0 ≤ c) (hc1 : c < 16) :
    get_work_color (g ||| work_color_to_flags c) = c := by
  obtain ⟨h1, h2⟩ := work_color_to_flags_eq c hc0 hc1
  rw [get_work_color_eq, h1, color_nat_or, color_nat_shl _ h2, color_nat_lt16 g hg]
  simp; omega

theorem work_color_to_flags_testBit (c : Int) (hc0 : 0 ≤ c) (hc1 : c < 16) (i : Nat) (hi : i < 4) :
    (work_color_to_flags c).testBit i = false := by
  obtain ⟨h1, _⟩ := work_color_to_flags_eq c hc0 hc1
  rw [h1, Nat.testBit_shiftLeft]
  simp; omega

theorem work_color_to_flags_lt (c : Int) (hc0 : 0 ≤ c) (hc1 : c < 16) :
    work_color_to_flags c < 2 ^ 8 := by
  obtain ⟨h1, h2⟩ := work_color_to_flags_eq c hc0 hc1
  rw [h1]; exact shl4_lt _ h2

/-- Reading back a data word written by `set_work_pwq`. -/
theorem queued_word_views (p f : Nat) (hp : p &&& WORK_STRUCT_FLAG_MASK = 0) (hp2 : p < 2 ^ 64)
    (hf : f < 2 ^ 8) :
    work_struct_pwq (p ||| (WORK_STRUCT_PENDING ||| WORK_STRUCT_PWQ ||| f)) = p ∧
    (p ||| (WORK_STRUCT_PENDING ||| WORK_STRUCT_PWQ ||| f)) &&& WORK_STRUCT_PWQ ≠ 0 ∧
    (p ||| (WORK_STRUCT_PENDING ||| WORK_STRUCT_PWQ ||| f)) &&& WORK_STRUCT_PENDING ≠ 0 ∧
    ((p ||| (WORK_STRUCT_PENDING ||| WORK_STRUCT_PWQ ||| f)) &&& WORK_STRUCT_INACTIVE = 0 ↔
      f.testBit 1 = false) ∧
    ((p ||| (WORK_STRUCT_PENDING ||| WORK_STRUCT_PWQ ||| f)) &&& WORK_STRUCT_LINKED = 0 ↔
      f.testBit 3 = false) ∧
    get_work_color (p ||| (WORK_STRUCT_PENDING ||| WORK_STRUCT_PWQ ||| f)) = get_work_color f := by
  refine ⟨?_, ?_, ?_, ?_, ?_, ?_⟩
  · apply work_struct_pwq_or p _ hp hp2
    exact or_lt_256 _ _ (or_lt_256 _ _ (by decide) (by decide)) hf
  · rw [and_bit_ne_zero, aligned_or_testBit p _ _ hp (by decide)]
    simp +decide
  · rw [and_bit_ne_zero, aligned_or_testBit p _ _ hp (by decide)]
    simp +decide
  · rw [and_bit_eq_zero, aligned_or_testBit p _ _ hp (by decide)]
    simp +decide
  · rw [and_bit_eq_zero, aligned_or_testBit p _ _ hp (by decide)]
    simp +decide
  · rw [aligned_or_color p _ hp, get_work_color_eq, get_work_color_eq, color_nat_or]
    have : ((WORK_STRUCT_PENDING ||| WORK_STRUCT_PWQ) >>> 4) &&& 15 = 0 := by decide
    rw [this]; simp

/-! ## Field-wise effect of the primitives -/

theorem insert_work_head_lists (s : State) (p w : Nat) (h : list_head) (f : Nat) :
    (insert_work s p w (list_node.head h) f).lists = Function.update s.lists h (s.lists h ++ [w]) := by
  simp [insert_work, list_add_tail, list_add_tail_lists]

theorem insert_work_head_entry (s : State) (p w : Nat) (h : list_head) (f : Nat) :
    (insert_work s p w (list_node.head h) f).work_entry = Function.update s.work_entry w (some h) := by
  simp [insert_work, list_add_tail, list_add_tail_entry]

theorem insert_work_data (s : State) (p w : Nat) (n : list_node) (f : Nat) :
    (insert_work s p w n f).work_data =
      Function.update s.work_data w (p ||| (WORK_STRUCT_PENDING ||| WORK_STRUCT_PWQ ||| f)) := by
  simp [insert_work, list_add_tail, set_work_pwq, set_work_data]

theorem insert_work_refcnt (s : State) (p w : Nat) (n : list_node) (f : Nat) :
    (insert_work s p w n f).pwq_refcnt = Function.update s.pwq_refcnt p (s.pwq_refcnt p + 1) := by
  simp [insert_work, list_add_tail, set_work_pwq, set_work_data, get_pwq]

/-- Effect of the queueing part of `__queue_work` on an unlinked work item. -/
theorem __queue_work_insert_spec (s : State) (pwq work : Nat) (hentry : s.work_entry work = none) :
    (__queue_work_insert s pwq work).pwq_nr_in_flight = Function.update s.pwq_nr_in_flight pwq
      (Function.update (s.pwq_nr_in_flight pwq) (s.pwq_work_color pwq)
        (s.pwq_nr_in_flight pwq (s.pwq_work_color pwq) + 1)) ∧
    (__queue_work_insert s pwq work).pwq_refcnt =
      Function.update s.pwq_refcnt pwq (s.pwq_refcnt pwq + 1) ∧
    (s.pwq_nr_active pwq < s.pwq_max_active pwq →
      (__queue_work_insert s pwq work).pwq_nr_active =
        Function.update s.pwq_nr_active pwq (s.pwq_nr_active pwq + 1) ∧
      (__queue_work_insert s pwq work).lists = Function.update s.lists
        (list_head.worklist (s.pwq_pool pwq)) (s.lists (list_head.worklist (s.pwq_pool pwq)) ++ [work]) ∧
      (__queue_work_insert s pwq work).work_entry =
        Function.update s.work_entry work (some (list_head.worklist (s.pwq_pool pwq))) ∧
      (__queue_work_insert s pwq work).work_data = Function.update s.work_data work
        (pwq ||| (WORK_STRUCT_PENDING ||| WORK_STRUCT_PWQ ||| work_color_to_flags (s.pwq_work_color pwq)))) ∧
    (¬ s.pwq_nr_active pwq < s.pwq_max_active pwq →
      (__queue_work_insert s pwq work).pwq_nr_active = s.pwq_nr_active ∧
      (__queue_work_insert s pwq work).lists = Function.update s.lists
        (list_head.inactive_works pwq) (s.lists (list_head.inactive_works pwq) ++ [work]) ∧
      (__queue_work_insert s pwq work).work_entry =
        Function.update s.work_entry work (some (list_head.inactive_works pwq)) ∧
      (__queue_work_insert s pwq work).work_data = Function.update s.work_data work
        (pwq ||| (WORK_STRUCT_PENDING ||| WORK_STRUCT_PWQ |||
          (work_color_to_flags (s.pwq_work_color pwq) ||| WORK_STRUCT_INACTIVE)))) := by
  unfold __queue_work_insert
  simp only [list_empty_entry, hentry, Option.isNone_none]
  by_cases hact : s.pwq_nr_active pwq < s.pwq_max_active pwq
  · simp [hact, insert_work_head_lists, insert_work_head_entry, insert_work_data, insert_work_refcnt]
  · simp [hact, insert_work_head_lists, insert_work_head_entry, insert_work_data, insert_work_refcnt]

/-! ## Queueing a work item -/

theorem __queue_work_target_eq (s : State) (t : task_ctx) (cpu wq work : Nat) :
    __queue_work_target s t cpu wq work =
      __queue_work_pwq s (__queue_work_cpu s t cpu wq).1 wq work := by
  simp [__queue_work_target, __queue_work_pwq, get_work_pool, find_worker_executing_work,
    work_data_bits]

/-- A call of `__queue_work` that passes the draining test and finds a live
pool_workqueue queues on the first round. -/
theorem __queue_work_first_round (fuel : Nat) (s : State) (t : task_ctx) (cpu wq work : Nat)
    (hguard : ¬ (s.wq_flags wq &&& (__WQ_DESTROYING ||| __WQ_DRAINING) ≠ 0 ∧
      is_chained_work s t wq = false))
    (href : s.pwq_refcnt (__queue_work_target s t cpu wq work) ≠ 0) :
    __queue_work (fuel + 1) s t cpu wq work =
      some (__queue_work_insert (__queue_work_cpu s t cpu wq).2
        (__queue_work_target s t cpu wq work) work) := by
  unfold __queue_work
  rw [if_neg hguard]
  unfold __queue_work_retry
  rw [if_neg]
  have : (__queue_work_cpu s t cpu wq).2.pwq_refcnt (__queue_work_target s t cpu wq work) =
      s.pwq_refcnt (__queue_work_target s t cpu wq work) := by simp
  rw [this]
  exact fun h => href h.1

/-- What the queueing part of `__queue_work` leaves behind for an unlinked work item and
an aligned pool_workqueue whose colour is in range. -/
theorem __queue_work_insert_views (s0 s : State) (pwq work : Nat)
    (hs : ∀ g : Field, g ≠ .wq_rr_cpu_last → g ≠ .work_data → s g = s0 g)
    (hentry : s0.work_entry work = none)
    (hal : pwq &&& WORK_STRUCT_FLAG_MASK = 0) (hlt : pwq < 2 ^ 64)
    (hc0 : 0 ≤ s0.pwq_work_color pwq) (hc1 : s0.pwq_work_color pwq < 16) :
    (∀ c, (__queue_work_insert s pwq work).pwq_nr_in_flight pwq c =
      s0.pwq_nr_in_flight pwq c + if c = s0.pwq_work_color pwq then 1 else 0) ∧
    (__queue_work_insert s pwq work).pwq_refcnt pwq = s0.pwq_refcnt pwq + 1 ∧
    get_work_color (work_data_bits (__queue_work_insert s pwq work) work) = s0.pwq_work_color pwq ∧
    get_work_pwq (__queue_work_insert s pwq work) work = pwq ∧
    work_pending (__queue_work_insert s pwq work) work = true ∧
    (s0.pwq_nr_active pwq < s0.pwq_max_active pwq →
      (__queue_work_insert s pwq work).lists (list_head.worklist (s0.pwq_pool pwq)) =
        s0.lists (list_head.worklist (s0.pwq_pool pwq)) ++ [work] ∧
      (__queue_work_insert s pwq work).work_entry work = some (list_head.worklist (s0.pwq_pool pwq)) ∧
      work_data_bits (__queue_work_insert s pwq work) work &&& WORK_STRUCT_INACTIVE = 0 ∧
      (__queue_work_insert s pwq work).pwq_nr_active pwq = s0.pwq_nr_active pwq + 1 ∧
      (__queue_work_insert s pwq work).lists (list_head.inactive_works pwq) =
        s0.lists (list_head.inactive_works pwq)) ∧
    (¬ s0.pwq_nr_active pwq < s0.pwq_max_active pwq →
      (__queue_work_insert s pwq work).lists (list_head.inactive_works pwq) =
        s0.lists (list_head.inactive_works pwq) ++ [work] ∧
      (__queue_work_insert s pwq work).work_entry work = some (list_head.inactive_works pwq) ∧
      work_data_bits (__queue_work_insert s pwq work) work &&& WORK_STRUCT_INACTIVE ≠ 0 ∧
      (__queue_work_insert s pwq work).pwq_nr_active pwq = s0.pwq_nr_active pwq ∧
      (__queue_work_insert s pwq work).lists (list_head.worklist (s0.pwq_pool pwq)) =
        s0.lists (list_head.worklist (s0.pwq_pool pwq))) := by
  have e1 : s.work_entry = s0.work_entry := hs _ (by decide) (by decide)
  have e2 : s.pwq_work_color = s0.pwq_work_color := hs _ (by decide) (by decide)
  have e3 : s.pwq_nr_in_flight = s0.pwq_nr_in_flight := hs _ (by decide) (by decide)
  have e4 : s.pwq_nr_active = s0.pwq_nr_active := hs _ (by decide) (by decide)
  have e5 : s.pwq_max_active = s0.pwq_max_active := hs _ (by decide) (by decide)
  have e6 : s.lists = s0.lists := hs _ (by decide) (by decide)
  have e7 : s.pwq_pool = s0.pwq_pool := hs _ (by decide) (by decide)
  have e8 : s.pwq_refcnt = s0.pwq_refcnt := hs _ (by decide) (by decide)
  rw [← e1] at hentry
  rw [← e2] at hc0 hc1
  rw [← e2, ← e3, ← e4, ← e5, ← e6, ← e7, ← e8]
  have hflt := work_color_to_flags_lt _ hc0 hc1
  have hftb := work_color_to_flags_testBit _ hc0 hc1
  have hcol : get_work_color (work_color_to_flags (s.pwq_work_color pwq)) = s.pwq_work_color pwq := by
    have := get_work_color_flags 0 _ (by decide) hc0 hc1
    simpa using this
  obtain ⟨h1, h2, h3, h4⟩ := __queue_work_insert_spec s pwq work hentry
  have hnif : ∀ c, (__queue_work_insert s pwq work).pwq_nr_in_flight pwq c =
      s.pwq_nr_in_flight pwq c + if c = s.pwq_work_color pwq then 1 else 0 := by
    intro c
    rw [h1]
    by_cases hc : c = s.pwq_work_color pwq
    · subst hc; simp
    · simp [hc]
  have href : (__queue_work_insert s pwq work).pwq_refcnt pwq = s.pwq_refcnt pwq + 1 := by
    rw [h2]; simp
  by_cases hact : s.pwq_nr_active pwq < s.pwq_max_active pwq
  · obtain ⟨a1, a2, a3, a4⟩ := h3 hact
    obtain ⟨v1, v2, v3, v4, _, v6⟩ := queued_word_views pwq _ hal hlt hflt
    have hd : work_data_bits (__queue_work_insert s pwq work) work =
        pwq ||| (WORK_STRUCT_PENDING ||| WORK_STRUCT_PWQ ||| work_color_to_flags (s.pwq_work_color pwq)) := by
      unfold work_data_bits
      rw [a4]; simp
    refine ⟨hnif, href, ?_, ?_, ?_, ?_, ?_⟩
    · rw [hd, v6, hcol]
    · unfold get_work_pwq
      rw [hd, if_pos v2, v1]
    · unfold work_pending
      rw [hd]; exact decide_eq_true v3
    · intro _
      refine ⟨?_, ?_, ?_, ?_, ?_⟩
      · rw [a2]; simp
      · rw [a3]; simp
      · rw [hd, v4]; exact hftb 1 (by decide)
      · rw [a1]; simp
      · rw [a2]; simp
    · intro h; exact absurd hact h
  · obtain ⟨a1, a2, a3, a4⟩ := h4 hact
    have hflt2 : work_color_to_flags (s.pwq_work_color pwq) ||| WORK_STRUCT_INACTIVE < 2 ^ 8 :=
      or_lt_256 _ _ hflt (by decide)
    obtain ⟨v1, v2, v3, v4, _, v6⟩ := queued_word_views pwq _ hal hlt hflt2
    have hd : work_data_bits (__queue_work_insert s pwq work) work =
        pwq ||| (WORK_STRUCT_PENDING ||| WORK_STRUCT_PWQ |||
          (work_color_to_flags (s.pwq_work_color pwq) ||| WORK_STRUCT_INACTIVE)) := by
      unfold work_data_bits
      rw [a4]; simp
    have hcol2 : get_work_color (work_color_to_flags (s.pwq_work_color pwq) ||| WORK_STRUCT_INACTIVE) =
        s.pwq_work_color pwq := by
      rw [Nat.or_comm]
      exact get_work_color_flags _ _ (by decide) hc0 hc1
    refine ⟨hnif, href, ?_, ?_, ?_, ?_, ?_⟩
    · rw [hd, v6, hcol2]
    · unfold get_work_pwq
      rw [hd, if_pos v2, v1]
    · unfold work_pending
      rw [hd]; exact decide_eq_true v3
    · intro h; exact absurd h hact
    · intro _
      refine ⟨?_, ?_, ?_, ?_, ?_⟩
      · rw [a2]; simp
      · rw [a3]; simp
      · rw [hd]
        intro h0
        have := v4.1 h0
        simp +decide at this
      · rw [a1]
      · rw [a2]; simp

/-- C2: when `__queue_work` passes the draining test and decides on a pool_workqueue
`pwq` with a positive reference count, for a work item whose entry is unlinked, it
returns having incremented `nr_in_flight[pwq->work_color]` by exactly one and stamped that
colour and `pwq` on the work; if `nr_active < max_active` held on entry the work is
appended to the tail of the pool worklist without INACTIVE and `nr_active` grows by one,
otherwise the work is marked INACTIVE and appended to the tail of `pwq->inactive_works`
and `nr_active` is unchanged. -/
theorem __queue_work_accounting (fuel : Nat) (s : State) (t : task_ctx) (cpu wq work pwq : Nat)
    (hpwq : pwq = __queue_work_target s t cpu wq work)
    (hguard : ¬ (s.wq_flags wq &&& (__WQ_DESTROYING ||| __WQ_DRAINING) ≠ 0 ∧
      is_chained_work s t wq = false))
    (href : 0 < s.pwq_refcnt pwq)
    (hentry : s.work_entry work = none)
    (hal : pwq &&& WORK_STRUCT_FLAG_MASK = 0) (hlt : pwq < 2 ^ 64)
    (hc0 : 0 ≤ s.pwq_work_color pwq) (hc1 : s.pwq_work_color pwq < 16) :
    ∃ s', __queue_work (fuel + 1) s t cpu wq work = some s' ∧
      (∀ c, s'.pwq_nr_in_flight pwq c =
        s.pwq_nr_in_flight pwq c + if c = s.pwq_work_color pwq then 1 else 0) ∧
      get_work_color (work_data_bits s' work) = s.pwq_work_color pwq ∧
      get_work_pwq s' work = pwq ∧
      (s.pwq_nr_active pwq < s.pwq_max_active pwq →
        s'.lists (list_head.worklist (s.pwq_pool pwq)) =
          s.lists (list_head.worklist (s.pwq_pool pwq)) ++ [work] ∧
        s'.work_entry work = some (list_head.worklist (s.pwq_pool pwq)) ∧
        work_data_bits s' work &&& WORK_STRUCT_INACTIVE = 0 ∧
        s'.pwq_nr_active pwq = s.pwq_nr_active pwq + 1 ∧
        s'.lists (list_head.inactive_works pwq) = s.lists (list_head.inactive_works pwq)) ∧
      (¬ s.pwq_nr_active pwq < s.pwq_max_active pwq →
        s'.lists (list_head.inactive_works pwq) =
          s.lists (list_head.inactive_works pwq) ++ [work] ∧
        s'.work_entry work = some (list_head.inactive_works pwq) ∧
        work_data_bits s' work &&& WORK_STRUCT_INACTIVE ≠ 0 ∧
        s'.pwq_nr_active pwq = s.pwq_nr_active pwq ∧
        s'.lists (list_head.worklist (s.pwq_pool pwq)) =
          s.lists (list_head.worklist (s.pwq_pool pwq))) := by
  subst hpwq
  refine ⟨_, __queue_work_first_round fuel s t cpu wq work hguard (by omega), ?_⟩
  obtain ⟨h1, _, h3, h4, _, h6, h7⟩ := __queue_work_insert_views s (__queue_work_cpu s t cpu wq).2
    (__queue_work_target s t cpu wq work) work (fun g hg _ => by simp [hg]) hentry hal hlt hc0 hc1
  exact ⟨h1, h3, h4, h6, h7⟩

theorem __queue_work_accounting_witness :
    ∃ s', __queue_work 1 ex_one_pwq ex_task 0 32 1000 = some s' ∧
      (∀ c, s'.pwq_nr_in_flight 256 c =
        ex_one_pwq.pwq_nr_in_flight 256 c + if c = ex_one_pwq.pwq_work_color 256 then 1 else 0) ∧
      get_work_color (work_data_bits s' 1000) = ex_one_pwq.pwq_work_color 256 ∧
      get_work_pwq s' 1000 = 256 ∧
      (ex_one_pwq.pwq_nr_active 256 < ex_one_pwq.pwq_max_active 256 →
        s'.lists (list_head.worklist (ex_one_pwq.pwq_pool 256)) =
          ex_one_pwq.lists (list_head.worklist (ex_one_pwq.pwq_pool 256)) ++ [1000] ∧
        s'.work_entry 1000 = some (list_head.worklist (ex_one_pwq.pwq_pool 256)) ∧
        work_data_bits s' 1000 &&& WORK_STRUCT_INACTIVE = 0 ∧
        s'.pwq_nr_active 256 = ex_one_pwq.pwq_nr_active 256 + 1 ∧
        s'.lists (list_head.inactive_works 256) = ex_one_pwq.lists (list_head.inactive_works 256)) ∧
      (¬ ex_one_pwq.pwq_nr_active 256 < ex_one_pwq.pwq_max_active 256 →
        s'.lists (list_head.inactive_works 256) =
          ex_one_pwq.lists (list_head.inactive_works 256) ++ [1000] ∧
        s'.work_entry 1000 = some (list_head.inactive_works 256) ∧
        work_data_bits s' 1000 &&& WORK_STRUCT_INACTIVE ≠ 0 ∧
        s'.pwq_nr_active 256 = ex_one_pwq.pwq_nr_active 256 ∧
        s'.lists (list_head.worklist (ex_one_pwq.pwq_pool 256)) =
          ex_one_pwq.lists (list_head.worklist (ex_one_pwq.pwq_pool 256))) :=
  __queue_work_accounting 0 ex_one_pwq ex_task 0 32 1000 256 (by decide) (by decide) (by decide)
    (by decide) (by decide) (by decide) (by decide) (by decide)

/-! ## The return value of queue_work_on -/

theorem work_pending_false_iff (s : State) (w : Nat) :
    work_pending s w = false ↔ (work_data_bits s w).testBit 0 = false := by
  have := work_pending_iff s w
  constructor
  · intro h
    cases hb : (work_data_bits s w).testBit 0
    · rfl
    · rw [this.2 hb] at h; exact absurd h (by decide)
  · intro h
    cases hb : work_pending s w
    · rfl
    · rw [this.1 hb] at h; exact absurd h (by decide)

theorem work_pending_test_and_set (s : State) (w : Nat) :
    work_pending (test_and_set_bit_pending s w).2 w = true := by
  rw [work_pending_iff]
  simp [test_and_set_bit_pending, work_data_bits, testBit_one_shl]

/-- The queueing part of `__queue_work` leaves the work item pending. -/
theorem work_pending___queue_work_insert (s : State) (pwq work : Nat)
    (h : work_pending s work = true) : work_pending (__queue_work_insert s pwq work) work = true := by
  cases he : s.work_entry work with
  | some hd =>
    have : __queue_work_insert s pwq work = s := by
      unfold __queue_work_insert
      simp [list_empty_entry, he]
    rw [this]; exact h
  | none =>
    obtain ⟨_, _, h3, h4⟩ := __queue_work_insert_spec s pwq work he
    rw [work_pending_iff]
    unfold work_data_bits
    by_cases hact : s.pwq_nr_active pwq < s.pwq_max_active pwq
    · rw [(h3 hact).2.2.2]
      simp +decide
    · rw [(h4 hact).2.2.2]
      simp +decide

theorem work_pending___queue_work_retry (fuel : Nat) (s : State) (t : task_ctx) (cpu wq work : Nat)
    (h : work_pending s work = true) (s' : State)
    (hr : __queue_work_retry fuel s t cpu wq work = some s') : work_pending s' work = true := by
  induction fuel generalizing s with
  | zero => simp [__queue_work_retry] at hr
  | succ n ih =>
    have hcpu : work_pending (__queue_work_cpu s t cpu wq).2 work = true := by
      rw [work_pending_iff] at h ⊢
      simpa [work_data_bits] using h
    unfold __queue_work_retry at hr
    split_ifs at hr
    · exact ih _ hcpu hr
    · simp only [Option.some.injEq] at hr
      rw [← hr]
      exact work_pending___queue_work_insert _ _ _ hcpu


theorem work_pending___queue_work (fuel : Nat) (s : State) (t : task_ctx) (cpu wq work : Nat)
    (h : work_pending s work = true) (s' : State)
    (hr : __queue_work fuel s t cpu wq work = some s') : work_pending s' work = true := by
  unfold __queue_work at hr
  split_ifs at hr
  · simp only [Option.some.injEq] at hr
    rw [← hr]; exact h
  · exact work_pending___queue_work_retry fuel s t cpu wq work h s' hr

/-- C1 (as amended): `queue_work_on` returns false exactly when PENDING was already set
on entry, and then changes nothing; whenever it returns with PENDING found clear it returns
true and leaves PENDING set.  If moreover `__queue_work` passes its draining test (the
workqueue is neither draining nor being destroyed, or the caller is a worker executing a
work item of it), the pool_workqueue decided on has a positive reference count and the
entry of the work is unlinked, the call returns true with the work linked on the pool
worklist or on `inactive_works` of that pool_workqueue, which belongs to the workqueue. -/
theorem queue_work_on_contract (fuel : Nat) (s : State) (t : task_ctx) (cpu wq work : Nat) :
    (work_pending s work = true → queue_work_on fuel s t cpu wq work = some (false, s)) ∧
    (work_pending s work = false → ∀ r, queue_work_on fuel s t cpu wq work = some r →
      r.1 = true ∧ work_pending r.2 work = true) ∧
    (work_pending s work = false →
      ¬ (s.wq_flags wq &&& (__WQ_DESTROYING ||| __WQ_DRAINING) ≠ 0 ∧ is_chained_work s t wq = false) →
      ∀ pwq, pwq = __queue_work_target (test_and_set_bit_pending s work).2 t cpu wq work →
      0 < s.pwq_refcnt pwq → s.work_entry work = none →
      pwq &&& WORK_STRUCT_FLAG_MASK = 0 → pwq < 2 ^ 64 →
      0 ≤ s.pwq_work_color pwq → s.pwq_work_color pwq < 16 →
      ∃ s', queue_work_on (fuel + 1) s t cpu wq work = some (true, s') ∧
        work_pending s' work = true ∧ get_work_pwq s' work = pwq ∧
        (s.pwq_wq pwq = wq ∨ ∃ c, pwq = s.wq_cpu_pwq wq c) ∧
        ((s'.work_entry work = some (list_head.worklist (s.pwq_pool pwq)) ∧
            work ∈ s'.lists (list_head.worklist (s.pwq_pool pwq))) ∨
          (s'.work_entry work = some (list_head.inactive_works pwq) ∧
            work ∈ s'.lists (list_head.inactive_works pwq)))) := by
  refine ⟨?_, ?_, ?_⟩
  · intro hp
    have hbit := (work_pending_iff s work).1 hp
    unfold queue_work_on
    have h1 : (test_and_set_bit_pending s work).1 = true := hbit
    rw [if_neg (by simp [h1]), test_and_set_bit_pending_of_set s work hbit]
  · intro hp r hr
    have hbit := (work_pending_false_iff s work).1 hp
    unfold queue_work_on at hr
    have h1 : (test_and_set_bit_pending s work).1 = false := hbit
    rw [if_pos h1] at hr
    cases hq : __queue_work fuel (test_and_set_bit_pending s work).2 t cpu wq work with
    | none => rw [hq] at hr; simp at hr
    | some s1 =>
      rw [hq] at hr
      simp only [Option.map_some', Option.some.injEq] at hr
      rw [← hr]
      exact ⟨rfl, work_pending___queue_work fuel _ t cpu wq work (work_pending_test_and_set s work) s1 hq⟩
  · intro hp hguard pwq hpwq href hentry hal hlt hc0 hc1
    have hbit := (work_pending_false_iff s work).1 hp
    have h1 : (test_and_set_bit_pending s work).1 = false := hbit
    have hguard1 : ¬ ((test_and_set_bit_pending s work).2.wq_flags wq &&&
        (__WQ_DESTROYING ||| __WQ_DRAINING) ≠ 0 ∧
        is_chained_work (test_and_set_bit_pending s work).2 t wq = false) := by
      simpa [is_chained_work] using hguard
    have href1 : (test_and_set_bit_pending s work).2.pwq_refcnt pwq ≠ 0 := by
      have : (test_and_set_bit_pending s work).2.pwq_refcnt pwq = s.pwq_refcnt pwq := by simp
      rw [this]; omega
    subst hpwq
    have hq := __queue_work_first_round fuel _ t cpu wq work hguard1 href1
    obtain ⟨_, _, _, v4, v5, v6, v7⟩ := __queue_work_insert_views s
      (__queue_work_cpu (test_and_set_bit_pending s work).2 t cpu wq).2
      (__queue_work_target (test_and_set_bit_pending s work).2 t cpu wq work) work
      (fun g hg hg2 => by simp [hg, hg2]) hentry hal hlt hc0 hc1
    refine ⟨_, ?_, v5, v4, ?_, ?_⟩
    · unfold queue_work_on
      rw [if_pos h1, hq]; rfl
    · rw [__queue_work_target_eq]
      unfold __queue_work_pwq
      dsimp only
      split_ifs with h2 h3
      · left
        have : s.pwq_wq = (test_and_set_bit_pending s work).2.pwq_wq := by simp
        rw [this]; exact h3.2
      · right
        exact ⟨(__queue_work_cpu (test_and_set_bit_pending s work).2 t cpu wq).1, by simp⟩
      · right
        exact ⟨(__queue_work_cpu (test_and_set_bit_pending s work).2 t cpu wq).1, by simp⟩
    · by_cases hact : s.pwq_nr_active (__queue_work_target (test_and_set_bit_pending s work).2 t cpu wq work) <
          s.pwq_max_active (__queue_work_target (test_and_set_bit_pending s work).2 t cpu wq work)
      · left
        obtain ⟨a1, a2, _⟩ := v6 hact
        exact ⟨a2, by rw [a1]; simp⟩
      · right
        obtain ⟨a1, a2, _⟩ := v7 hact
        exact ⟨a2, by rw [a1]; simp⟩


/-- Counterexample to C1 as stated: on a draining workqueue a caller that is not one of
its workers gets `true` from `queue_work_on` although the work is linked on no list. -/
theorem queue_work_on_draining_not_scheduled :
    work_pending ex_draining 1000 = false ∧
    ∃ s', queue_work_on 1 ex_draining ex_task 0 32 1000 = some (true, s') ∧
      s'.work_entry 1000 = none ∧ ∀ h, s'.lists h = [] := by
  refine ⟨by decide, (test_and_set_bit_pending ex_draining 1000).2, by rfl, by decide, ?_⟩
  intro h
  rfl

theorem queue_work_on_contract_witness :
    ∃ s', queue_work_on 1 ex_one_pwq ex_task 0 32 1000 = some (true, s') ∧
      work_pending s' 1000 = true ∧ get_work_pwq s' 1000 = 256 ∧
      (ex_one_pwq.pwq_wq 256 = 32 ∨ ∃ c, 256 = ex_one_pwq.wq_cpu_pwq 32 c) ∧
      ((s'.work_entry 1000 = some (list_head.worklist (ex_one_pwq.pwq_pool 256)) ∧
          1000 ∈ s'.lists (list_head.worklist (ex_one_pwq.pwq_pool 256))) ∨
        (s'.work_entry 1000 = some (list_head.inactive_works 256) ∧
          1000 ∈ s'.lists (list_head.inactive_works 256))) :=
  (queue_work_on_contract 0 ex_one_pwq ex_task 0 32 1000).2.2 (by decide) (by decide) 256
    (by decide) (by decide) (by decide) (by decide) (by decide) (by decide) (by decide)

/-! ## The pool_workqueue chosen by __queue_work -/

theorem find_worker_executing_work_spec (s : State) (pool work : Nat)
    (hnull : 0 ∉ s.pool_busy_hash pool) :
    (find_worker_executing_work s pool work ≠ 0 ↔
      ∃ k ∈ s.pool_busy_hash pool, worker_executing s k work) ∧
    (find_worker_executing_work s pool work ≠ 0 →
      find_worker_executing_work s pool work ∈ s.pool_busy_hash pool ∧
      worker_executing s (find_worker_executing_work s pool work) work) := by
  unfold find_worker_executing_work
  cases hf : (s.pool_busy_hash pool).find?
      (fun k => decide (s.worker_current_work k = work ∧ s.worker_current_func k = s.work_func work)) with
  | none =>
    rw [List.find?_eq_none] at hf
    constructor
    · constructor
      · intro h; exact absurd rfl h
      · rintro ⟨k, hk, hex⟩
        have := hf k hk
        simp only [decide_eq_true_eq] at this
        exact absurd hex this
    · intro h; exact absurd rfl h
  | some k =>
    have hmem := List.mem_of_find?_eq_some hf
    have hp := List.find?_some hf
    simp only [decide_eq_true_eq] at hp
    simp only [Option.getD_some]
    have hk0 : k ≠ 0 := fun h => hnull (h ▸ hmem)
    exact ⟨⟨fun _ => ⟨k, hmem, hp⟩, fun _ => hk0⟩, fun _ => ⟨hmem, hp⟩⟩


/-- C8: `__queue_work` queues on the current pool_workqueue of the worker that is
executing the work (same address, same function) in the busy hash of the work's last
pool, when that pool differs from the pool of the pool_workqueue selected for the CPU
and the worker runs it for the same workqueue; the work then stays on its last pool.  In
every other case it queues on the selected pool_workqueue.  Queueing on a pool_workqueue
means: when the call passes the draining test and the reference count of the
pool_workqueue is not zero, the call returns, the data word of the work names the
pool_workqueue, and the work is linked at the tail of the worklist of its pool when
`nr_active < max_active` and at the tail of its `inactive_works` otherwise. -/
theorem __queue_work_pwq_choice (fuel : Nat) (s : State) (t : task_ctx) (cpu wq work : Nat)
    (hnull : 0 ∉ s.pool_busy_hash (get_work_pool s work))
    (huniq : ∀ k1 ∈ s.pool_busy_hash (get_work_pool s work),
      ∀ k2 ∈ s.pool_busy_hash (get_work_pool s work),
        worker_executing s k1 work → worker_executing s k2 work → k1 = k2)
    (hpool : ∀ k ∈ s.pool_busy_hash (get_work_pool s work),
      s.pwq_pool (s.worker_current_pwq k) = get_work_pool s work) :
    ((get_work_pool s work ≠ 0 ∧
        get_work_pool s work ≠ s.pwq_pool (s.wq_cpu_pwq wq (__queue_work_cpu s t cpu wq).1) ∧
        ∃ k ∈ s.pool_busy_hash (get_work_pool s work),
          worker_executing s k work ∧ s.pwq_wq (s.worker_current_pwq k) = wq) →
      ∃ k ∈ s.pool_busy_hash (get_work_pool s work), worker_executing s k work ∧
        __queue_work_target s t cpu wq work = s.worker_current_pwq k ∧
        s.pwq_pool (__queue_work_target s t cpu wq work) = get_work_pool s work) ∧
    (¬ (get_work_pool s work ≠ 0 ∧
        get_work_pool s work ≠ s.pwq_pool (s.wq_cpu_pwq wq (__queue_work_cpu s t cpu wq).1) ∧
        ∃ k ∈ s.pool_busy_hash (get_work_pool s work),
          worker_executing s k work ∧ s.pwq_wq (s.worker_current_pwq k) = wq) →
      __queue_work_target s t cpu wq work = s.wq_cpu_pwq wq (__queue_work_cpu s t cpu wq).1) ∧
    (¬ (s.wq_flags wq &&& (__WQ_DESTROYING ||| __WQ_DRAINING) ≠ 0 ∧ is_chained_work s t wq = false) →
      s.pwq_refcnt (__queue_work_target s t cpu wq work) ≠ 0 →
      s.work_entry work = none →
      __queue_work_target s t cpu wq work &&& WORK_STRUCT_FLAG_MASK = 0 →
      __queue_work_target s t cpu wq work < 2 ^ 64 →
      0 ≤ s.pwq_work_color (__queue_work_target s t cpu wq work) →
      s.pwq_work_color (__queue_work_target s t cpu wq work) < 16 →
      ∃ s2, __queue_work (fuel + 1) s t cpu wq work = some s2 ∧
        s2 = __queue_work_insert (__queue_work_cpu s t cpu wq).2
          (__queue_work_target s t cpu wq work) work ∧
        get_work_pwq s2 work = __queue_work_target s t cpu wq work ∧
        (s.pwq_nr_active (__queue_work_target s t cpu wq work) <
            s.pwq_max_active (__queue_work_target s t cpu wq work) →
          s2.work_entry work = some (list_head.worklist
            (s.pwq_pool (__queue_work_target s t cpu wq work))) ∧
          s2.lists (list_head.worklist (s.pwq_pool (__queue_work_target s t cpu wq work))) =
            s.lists (list_head.worklist (s.pwq_pool (__queue_work_target s t cpu wq work))) ++
              [work]) ∧
        (¬ s.pwq_nr_active (__queue_work_target s t cpu wq work) <
            s.pwq_max_active (__queue_work_target s t cpu wq work) →
          s2.work_entry work = some (list_head.inactive_works
            (__queue_work_target s t cpu wq work)) ∧
          s2.lists (list_head.inactive_works (__queue_work_target s t cpu wq work)) =
            s.lists (list_head.inactive_works (__queue_work_target s t cpu wq work)) ++
              [work])) := by
  obtain ⟨hf1, hf2⟩ := find_worker_executing_work_spec s (get_work_pool s work) work hnull
  refine ⟨?_, ?_, ?_⟩
  · rintro ⟨h0, h1, k, hk, hex, hwq⟩
    have hne : find_worker_executing_work s (get_work_pool s work) work ≠ 0 := hf1.2 ⟨k, hk, hex⟩
    obtain ⟨hm, hfe⟩ := hf2 hne
    have hkk : find_worker_executing_work s (get_work_pool s work) work = k := huniq _ hm _ hk hfe hex
    have htarget : __queue_work_target s t cpu wq work = s.worker_current_pwq k := by
      rw [__queue_work_target_eq]
      unfold __queue_work_pwq
      dsimp only
      rw [if_pos ⟨h0, h1⟩, hkk, if_pos ⟨hkk ▸ hne, hwq⟩]
    exact ⟨k, hk, hex, htarget, by rw [htarget]; exact hpool k hk⟩
  · intro hn
    rw [__queue_work_target_eq]
    unfold __queue_work_pwq
    dsimp only
    by_cases h01 : get_work_pool s work ≠ 0 ∧
        get_work_pool s work ≠ s.pwq_pool (s.wq_cpu_pwq wq (__queue_work_cpu s t cpu wq).1)
    · rw [if_pos h01]
      by_cases hne : find_worker_executing_work s (get_work_pool s work) work ≠ 0 ∧
          s.pwq_wq (s.worker_current_pwq
            (find_worker_executing_work s (get_work_pool s work) work)) = wq
      · exact absurd ⟨h01.1, h01.2, _, (hf2 hne.1).1, (hf2 hne.1).2, hne.2⟩ hn
      · rw [if_neg hne]
    · rw [if_neg h01]
  · intro hg hr hentry hal hlt hc0 hc1
    refine ⟨_, __queue_work_first_round fuel s t cpu wq work hg hr, rfl, ?_⟩
    obtain ⟨_, _, _, h4, _, h6, h7⟩ := __queue_work_insert_views s
      (__queue_work_cpu s t cpu wq).2 (__queue_work_target s t cpu wq work) work
      (fun g hg _ => by simp [hg]) hentry hal hlt hc0 hc1
    exact ⟨h4, fun c => ⟨(h6 c).2.1, (h6 c).1⟩, fun c => ⟨(h7 c).2.1, (h7 c).1⟩⟩

theorem __queue_work_pwq_choice_witness :
    (∃ k ∈ ex_running_elsewhere.pool_busy_hash (get_work_pool ex_running_elsewhere 1000),
      worker_executing ex_running_elsewhere k 1000 ∧
      __queue_work_target ex_running_elsewhere ex_task 0 32 1000 =
        ex_running_elsewhere.worker_current_pwq k ∧
      ex_running_elsewhere.pwq_pool (__queue_work_target ex_running_elsewhere ex_task 0 32 1000) =
        get_work_pool ex_running_elsewhere 1000) ∧
    __queue_work_target ex_running_elsewhere ex_task 0 32 1000 = 512 ∧
    get_work_pool ex_running_elsewhere 1000 = 128 ∧
    ∃ s2, __queue_work 1 ex_running_elsewhere ex_task 0 32 1000 = some s2 ∧
      get_work_pwq s2 1000 = 512 ∧
      s2.work_entry 1000 = some (list_head.inactive_works 512) ∧
      s2.lists (list_head.inactive_works 512) = [1000] := by
  have h := __queue_work_pwq_choice 0 ex_running_elsewhere ex_task 0 32 1000 (by decide)
    (by decide) (by decide)
  have ht : __queue_work_target ex_running_elsewhere ex_task 0 32 1000 = 512 := by decide
  refine ⟨h.1 (by decide), ht, by decide, ?_⟩
  obtain ⟨s2, e1, _, e2, _, e3⟩ := h.2.2 (by decide) (by decide) (by decide) (by decide)
    (by decide) (by decide) (by decide)
  rw [ht] at e2 e3
  exact ⟨s2, e1, e2, (e3 (by decide)).1, (e3 (by decide)).2⟩

/-! ## Moving a series of linked work items -/

theorem list_from_append (w : Nat) (pre post : List Nat) (h : w ∉ pre) :
    list_from w (pre ++ w :: post) = w :: post := by
  unfold list_from
  induction pre with
  | nil => simp [List.dropWhile]
  | cons a l ih =>
    have ha : a ≠ w := fun e => h (e ▸ List.mem_cons_self _ _)
    have hl : w ∉ l := fun e => h (List.mem_cons_of_mem _ e)
    have hb : (a != w) = true := by simpa using ha
    rw [List.cons_append, List.dropWhile_cons, hb]
    exact ih hl

theorem list_before_append (w : Nat) (pre post : List Nat) (h : w ∉ pre) :
    list_before w (pre ++ w :: post) = pre := by
  unfold list_before
  induction pre with
  | nil => simp [List.takeWhile]
  | cons a l ih =>
    have ha : a ≠ w := fun e => h (e ▸ List.mem_cons_self _ _)
    have hl : w ∉ l := fun e => h (List.mem_cons_of_mem _ e)
    have hb : (a != w) = true := by simpa using ha
    rw [List.cons_append, List.takeWhile_cons, hb]
    simp only [if_true]
    rw [ih hl]

theorem list_before_from (w : Nat) (l : List Nat) : list_before w l ++ list_from w l = l := by
  unfold list_before list_from
  exact List.takeWhile_append_dropWhile _ _

theorem erase_append_cons (w : Nat) (pre post : List Nat) (h : w ∉ pre) :
    (pre ++ w :: post).erase w = pre ++ post := by
  rw [List.erase_append_right _ h]
  simp

theorem list_move_tail_lists (s : State) (w : Nat) (h0 hd : list_head)
    (he : s.work_entry w = some h0) (hne : h0 ≠ hd) (h : list_head) :
    (list_move_tail s w hd).lists h =
      if h = hd then s.lists hd ++ [w] else if h = h0 then (s.lists h0).erase w else s.lists h := by
  simp only [list_move_tail, list_add_tail, list_add_tail_lists, list_del_init, he, State.lists,
    State.set_same, State.set_other, ne_eq, reduceCtorEq, not_false_eq_true, Function.update_apply]
  by_cases h1 : h = hd
  · subst h1
    simp [Ne.symm hne]
  · simp [h1]

theorem list_move_tail_entry (s : State) (w : Nat) (hd : list_head) (x : Nat) :
    (list_move_tail s w hd).work_entry x = if x = w then some hd else s.work_entry x := by
  simp only [list_move_tail, list_add_tail, list_add_tail_entry, list_del_init, State.work_entry,
    State.set_same, State.set_other, ne_eq, reduceCtorEq, not_false_eq_true, Function.update_apply]
  by_cases h1 : x = w <;> simp [h1]

theorem linked_run_length_pos (data : Nat → Nat) (w : Nat) (l : List Nat) :
    0 < (linked_run data (w :: l)).length := by
  unfold linked_run
  split <;> simp

theorem linked_run_prefix (data : Nat → Nat) (l : List Nat) :
    linked_run data l ++ l.drop (linked_run data l).length = l := by
  induction l with
  | nil => simp [linked_run]
  | cons a l ih =>
    unfold linked_run
    split
    · simp
    · simp [ih]

theorem linked_run_subset (data : Nat → Nat) (l : List Nat) (x : Nat)
    (h : x ∈ linked_run data l) : x ∈ l := by
  have := linked_run_prefix data l
  rw [← this]
  exact List.mem_append_left _ h

/-- The loop of `move_linked_works` moves exactly the linked series that starts at `w`
from the list `h0` to the tail of the list `hd`. -/
theorem move_linked_works_loop_spec (fuel : Nat) (s : State) (w : Nat) (h0 hd : list_head)
    (pre post : List Nat) (hne : h0 ≠ hd) (hL : s.lists h0 = pre ++ w :: post)
    (hnd : (pre ++ w :: post).Nodup) (hent : ∀ x ∈ w :: post, s.work_entry x = some h0)
    (hfuel : post.length < fuel) :
    (∀ h, (move_linked_works_loop fuel s w hd).1.lists h =
      if h = hd then s.lists hd ++ linked_run s.work_data (w :: post)
      else if h = h0 then pre ++ (w :: post).drop (linked_run s.work_data (w :: post)).length
      else s.lists h) ∧
    (∀ x, (move_linked_works_loop fuel s w hd).1.work_entry x =
      if x ∈ linked_run s.work_data (w :: post) then some hd else s.work_entry x) := by
  induction fuel generalizing s w post with
  | zero => omega
  | succ n ih =>
    have hw : w ∉ pre := by
      intro hm
      have := List.nodup_append.1 hnd
      exact this.2.2 hm (List.mem_cons_self _ _) 
    have hew : s.work_entry w = some h0 := hent w (List.mem_cons_self _ _)
    have hdata : (list_move_tail s w hd).work_data = s.work_data := by simp
    have hl1 := list_move_tail_lists s w h0 hd hew hne
    have he1 := list_move_tail_entry s w hd
    have hnext : entry_next s w = match post with
        | [] => list_node.head h0
        | n :: _ => list_node.item n := by
      unfold entry_next
      rw [hew]
      simp only [hL, list_from_append w pre post hw, List.drop_one, List.tail_cons]
      cases post <;> rfl
    unfold move_linked_works_loop
    by_cases hlink : s.work_data w &&& WORK_STRUCT_LINKED = 0
    · have hrun : linked_run s.work_data (w :: post) = [w] := by
        unfold linked_run; rw [if_pos hlink]
      have hc : work_data_bits (list_move_tail s w hd) w &&& WORK_STRUCT_LINKED = 0 := by
        unfold work_data_bits; rw [hdata]; exact hlink
      rw [if_pos hc, hrun]
      constructor
      · intro h
        rw [hl1, hL, erase_append_cons w pre post hw]
        simp
      · intro x
        rw [he1]
        simp
    · have hc : ¬ work_data_bits (list_move_tail s w hd) w &&& WORK_STRUCT_LINKED = 0 := by
        unfold work_data_bits; rw [hdata]; exact hlink
      rw [if_neg hc, hnext]
      cases post with
      | nil =>
        have hrun : linked_run s.work_data [w] = [w] := by
          unfold linked_run; rw [if_neg hlink]; simp [linked_run]
        rw [hrun]
        constructor
        · intro h
          rw [hl1, hL, erase_append_cons w pre [] hw]
          simp
        · intro x
          rw [he1]
          simp
      | cons a post' =>
        have hrun : linked_run s.work_data (w :: a :: post') =
            w :: linked_run s.work_data (a :: post') := by
          rw [linked_run, if_neg hlink]
        have haw : a ≠ w := by
          intro e
          have := (List.nodup_append.1 hnd).2.1
          rw [e] at this
          simp at this
        have hL1 : (list_move_tail s w hd).lists h0 = pre ++ a :: post' := by
          rw [hl1, if_neg hne, if_pos rfl, hL, erase_append_cons w pre _ hw]
        have hnd1 : (pre ++ a :: post').Nodup := by
          have : (pre ++ a :: post') = (pre ++ w :: a :: post').erase w := by
            rw [erase_append_cons w pre _ hw]
          rw [this]
          exact hnd.erase w
        have hent1 : ∀ x ∈ a :: post', (list_move_tail s w hd).work_entry x = some h0 := by
          intro x hx
          rw [he1]
          have hxw : x ≠ w := by
            intro e
            have := (List.nodup_append.1 hnd).2.1
            rw [e] at hx
            simp at this
            simp at hx
            rcases hx with hx | hx
            · exact this.1.1 hx
            · exact this.1.2 hx
          rw [if_neg hxw]
          exact hent x (List.mem_cons_of_mem _ hx)
        have hf1 : post'.length < n := by simp at hfuel; omega
        obtain ⟨ih1, ih2⟩ := ih (list_move_tail s w hd) a post' hL1 hnd1 hent1 hf1
        simp only []
        rw [hdata] at ih1 ih2
        constructor
        · intro h
          rw [ih1, hrun]
          by_cases h1 : h = hd
          · subst h1
            simp [hl1]
          · by_cases h2 : h = h0
            · subst h2
              simp [h1]
            · simp [h1, h2, hl1]
        · intro x
          rw [ih2, hrun, he1]
          by_cases hx : x ∈ linked_run s.work_data (a :: post')
          · simp [hx]
          · by_cases hxw : x = w
            · simp [hxw]
            · simp [hx, hxw]

theorem nodup_split (w : Nat) (l : List Nat) (hm : w ∈ l) :
    l = list_before w l ++ w :: (list_from w l).drop 1 ∧ w ∉ list_before w l ∧
    list_from w l = w :: (list_from w l).drop 1 := by
  induction l with
  | nil => simp at hm
  | cons a l ih =>
    by_cases ha : a = w
    · subst ha
      simp [list_before, list_from, List.takeWhile, List.dropWhile]
    · have hb : (a != w) = true := by simpa using ha
      have hm' : w ∈ l := by
        rcases List.mem_cons.1 hm with h | h
        · exact absurd h.symm ha
        · exact h
      obtain ⟨i1, i2, i3⟩ := ih hm'
      simp only [list_before, list_from] at i1 i2 i3 ⊢
      rw [List.takeWhile_cons, List.dropWhile_cons, hb]
      simp only [if_true]
      refine ⟨?_, ?_, i3⟩
      · rw [List.cons_append, ← i1]
      · intro hh
        rcases List.mem_cons.1 hh with h | h
        · exact ha h.symm
        · exact i2 h

/-- The function `move_linked_works` moves the linked series that starts at `work` from
the list the work is on to the tail of the list `hd`. -/
theorem move_linked_works_spec (s : State) (w : Nat) (h0 hd : list_head)
    (he : s.work_entry w = some h0) (hne : h0 ≠ hd) (hm : w ∈ s.lists h0)
    (hnd : (s.lists h0).Nodup) (hent : ∀ x ∈ s.lists h0, s.work_entry x = some h0) :
    (∀ h, (move_linked_works s w hd).1.lists h =
      if h = hd then s.lists hd ++ linked_run s.work_data (list_from w (s.lists h0))
      else if h = h0 then list_before w (s.lists h0) ++
        (list_from w (s.lists h0)).drop (linked_run s.work_data (list_from w (s.lists h0))).length
      else s.lists h) ∧
    (∀ x, (move_linked_works s w hd).1.work_entry x =
      if x ∈ linked_run s.work_data (list_from w (s.lists h0)) then some hd
      else s.work_entry x) ∧
    (move_linked_works s w hd).1.work_data = s.work_data := by
  obtain ⟨h1, h2, h3⟩ := nodup_split w (s.lists h0) hm
  have hnd' : (list_before w (s.lists h0) ++ w :: (list_from w (s.lists h0)).drop 1).Nodup := by
    rw [← h1]; exact hnd
  have hent' : ∀ x ∈ w :: (list_from w (s.lists h0)).drop 1, s.work_entry x = some h0 := by
    intro x hx
    apply hent
    rw [h1]
    exact List.mem_append_right _ hx
  have hlen : ((list_from w (s.lists h0)).drop 1).length < (s.lists h0).length := by
    conv => rhs; rw [h1]
    simp
    omega
  have := move_linked_works_loop_spec (s.lists h0).length s w h0 hd _ _ hne h1 hnd' hent' hlen
  rw [← h3] at this
  unfold move_linked_works
  rw [he]
  exact ⟨this.1, this.2, by simp⟩

theorem clear_inactive_views (d : Nat) :
    (d &&& ulong_not (1 <<< WORK_STRUCT_INACTIVE_BIT)) &&& WORK_STRUCT_INACTIVE = 0 ∧
    ((d &&& ulong_not (1 <<< WORK_STRUCT_INACTIVE_BIT)) &&& WORK_STRUCT_PWQ = d &&& WORK_STRUCT_PWQ) ∧
    ((d &&& ulong_not (1 <<< WORK_STRUCT_INACTIVE_BIT)) &&& WORK_STRUCT_LINKED = d &&& WORK_STRUCT_LINKED) ∧
    ((d &&& ulong_not (1 <<< WORK_STRUCT_INACTIVE_BIT)) &&& WORK_STRUCT_PENDING =
      d &&& WORK_STRUCT_PENDING) ∧
    (d < 2 ^ 64 → work_struct_pwq (d &&& ulong_not (1 <<< WORK_STRUCT_INACTIVE_BIT)) = work_struct_pwq d) ∧
    get_work_color (d &&& ulong_not (1 <<< WORK_STRUCT_INACTIVE_BIT)) = get_work_color d := by
  have hb : ∀ i, (d &&& ulong_not (1 <<< WORK_STRUCT_INACTIVE_BIT)).testBit i =
      (d.testBit i && (decide (i < 64) && !decide (1 = i))) := by
    intro i
    rw [Nat.testBit_and, testBit_ulong_not, testBit_one_shl]
  refine ⟨?_, ?_, ?_, ?_, ?_, ?_⟩
  · rw [and_bit_eq_zero, hb]; simp
  · rw [and_bit_testBit, and_bit_testBit, hb]; simp +decide
  · rw [and_bit_testBit, and_bit_testBit, hb]; simp +decide
  · rw [and_bit_testBit, and_bit_testBit, hb]; simp +decide
  · intro hd
    unfold work_struct_pwq
    apply Nat.eq_of_testBit_eq; intro i
    rw [Nat.testBit_and, hb, Nat.testBit_and, testBit_data_mask]
    by_cases h8 : 8 ≤ i
    · by_cases h64 : i < 64
      · have : ¬ (1 = i) := by omega
        simp [h8, h64, this]
      · simp [h64]
    · simp [h8]
  · rw [get_work_color_eq, get_work_color_eq]
    congr 1
    apply Nat.eq_of_testBit_eq; intro i
    rw [Nat.testBit_and, Nat.testBit_and, Nat.testBit_shiftRight, Nat.testBit_shiftRight, hb]
    by_cases h4 : i < 4
    · have h1 : ¬ (1 = 4 + i) := by omega
      have h2 : 4 + i < 64 := by omega
      simp [h1, h2]
    · have : Nat.testBit 15 i = false := testBit_lt 15 4 (by decide) i (by omega)
      simp [this]

theorem get_work_pwq_congr (s r : State) (w : Nat) (h : r.work_data w = s.work_data w) :
    get_work_pwq r w = get_work_pwq s w := by
  simp [get_work_pwq, work_data_bits, h]

/-- The effect of `pwq_activate_inactive_work` on a work item that is linked on the list
`h0`: the linked series starting at the work moves to the tail of the pool worklist, the
work loses INACTIVE and `nr_active` of its pool_workqueue grows by one. -/
theorem pwq_activate_inactive_work_spec (s : State) (w : Nat) (h0 : list_head)
    (he : s.work_entry w = some h0)
    (hne : h0 ≠ list_head.worklist (s.pwq_pool (get_work_pwq s w))) (hm : w ∈ s.lists h0)
    (hnd : (s.lists h0).Nodup) (hent : ∀ x ∈ s.lists h0, s.work_entry x = some h0) :
    (∀ h, (pwq_activate_inactive_work s w).lists h =
      if h = list_head.worklist (s.pwq_pool (get_work_pwq s w)) then
        s.lists h ++ linked_run s.work_data (list_from w (s.lists h0))
      else if h = h0 then list_before w (s.lists h0) ++
        (list_from w (s.lists h0)).drop (linked_run s.work_data (list_from w (s.lists h0))).length
      else s.lists h) ∧
    (∀ x, (pwq_activate_inactive_work s w).work_entry x =
      if x ∈ linked_run s.work_data (list_from w (s.lists h0)) then
        some (list_head.worklist (s.pwq_pool (get_work_pwq s w)))
      else s.work_entry x) ∧
    (pwq_activate_inactive_work s w).work_data = Function.update s.work_data w
      (s.work_data w &&& ulong_not (1 <<< WORK_STRUCT_INACTIVE_BIT)) ∧
    (pwq_activate_inactive_work s w).pwq_nr_active = Function.update s.pwq_nr_active
      (get_work_pwq s w) (s.pwq_nr_active (get_work_pwq s w) + 1) := by
  have hs := move_linked_works_spec (touch_watchdog_if_empty s (s.pwq_pool (get_work_pwq s w))) w h0
    (list_head.worklist (s.pwq_pool (get_work_pwq s w)))
    (by simpa using he) hne (by simpa using hm) (by simpa using hnd) (by simpa using hent)
  simp only [State.lists, State.work_entry, State.work_data, touch_watchdog_if_empty_frame,
    ne_eq, not_false_eq_true, reduceCtorEq] at hs
  obtain ⟨h1, h2, h3⟩ := hs
  refine ⟨?_, ?_, ?_, ?_⟩
  · intro h
    have e : (pwq_activate_inactive_work s w).lists h =
        (move_linked_works (touch_watchdog_if_empty s (s.pwq_pool (get_work_pwq s w))) w
          (list_head.worklist (s.pwq_pool (get_work_pwq s w)))).1 Field.lists h := by
      simp [pwq_activate_inactive_work, __clear_bit, State.lists]
    rw [e, h1 h]
    by_cases c : h = list_head.worklist (s.pwq_pool (get_work_pwq s w))
    · rw [if_pos c, if_pos c, c]
    · rw [if_neg c, if_neg c]
  · intro x
    rw [← h2 x]
    simp [pwq_activate_inactive_work, __clear_bit, State.work_entry]
  · simp [pwq_activate_inactive_work, __clear_bit, State.work_data, work_data_bits, h3]
  · simp [pwq_activate_inactive_work, __clear_bit, State.pwq_nr_active]

theorem list_from_head (x : Nat) (l : List Nat) : list_from x (x :: l) = x :: l := by
  simp [list_from, List.dropWhile]

theorem list_before_head (x : Nat) (l : List Nat) : list_before x (x :: l) = [] := by
  simp [list_before, List.takeWhile]

theorem linked_run_head_mem (data : Nat → Nat) (x : Nat) (l : List Nat) :
    x ∈ linked_run data (x :: l) := by
  unfold linked_run
  split <;> simp

theorem pwq_dec_nr_active_idle (s : State) (pwq d : Nat) (h : d &&& WORK_STRUCT_INACTIVE ≠ 0) :
    pwq_dec_nr_active s pwq d = s := by
  unfold pwq_dec_nr_active
  rw [if_neg h]

theorem pwq_dec_nr_active_keep (s : State) (pwq d : Nat) (h : d &&& WORK_STRUCT_INACTIVE = 0)
    (hc : ¬ (s.lists (list_head.inactive_works pwq) ≠ [] ∧
      s.pwq_nr_active pwq - 1 < s.pwq_max_active pwq)) :
    pwq_dec_nr_active s pwq d =
      s.set .pwq_nr_active (Function.update s.pwq_nr_active pwq (s.pwq_nr_active pwq - 1)) := by
  unfold pwq_dec_nr_active
  rw [if_pos h]
  simp only []
  rw [if_neg]
  intro hh
  apply hc
  simpa [list_empty, State.lists, State.pwq_nr_active, State.pwq_max_active] using hh

theorem pwq_dec_nr_active_promote (s : State) (pwq d x : Nat) (l : List Nat)
    (h : d &&& WORK_STRUCT_INACTIVE = 0)
    (hl : s.lists (list_head.inactive_works pwq) = x :: l)
    (hc : s.pwq_nr_active pwq - 1 < s.pwq_max_active pwq) :
    pwq_dec_nr_active s pwq d = pwq_activate_inactive_work
      (s.set .pwq_nr_active (Function.update s.pwq_nr_active pwq (s.pwq_nr_active pwq - 1))) x := by
  unfold pwq_dec_nr_active
  rw [if_pos h]
  simp only []
  rw [if_pos]
  · unfold pwq_activate_first_inactive
    have : (s.set .pwq_nr_active (Function.update s.pwq_nr_active pwq (s.pwq_nr_active pwq - 1))).lists
        (list_head.inactive_works pwq) = x :: l := by
      simpa [State.lists] using hl
    rw [this]
    simp
  · simp [list_empty, State.lists, State.pwq_nr_active, State.pwq_max_active] at hl hc ⊢
    simp [hl, hc]

theorem pwq_dec_nr_in_flight_views (s : State) (pwq d : Nat) :
    (pwq_dec_nr_in_flight s pwq d).lists = (pwq_dec_nr_active s pwq d).lists ∧
    (pwq_dec_nr_in_flight s pwq d).work_entry = (pwq_dec_nr_active s pwq d).work_entry ∧
    (pwq_dec_nr_in_flight s pwq d).work_data = (pwq_dec_nr_active s pwq d).work_data ∧
    (pwq_dec_nr_in_flight s pwq d).pwq_nr_active = (pwq_dec_nr_active s pwq d).pwq_nr_active ∧
    (pwq_dec_nr_in_flight s pwq d).pwq_nr_in_flight = Function.update s.pwq_nr_in_flight pwq
      (Function.update (s.pwq_nr_in_flight pwq) (get_work_color d)
        (s.pwq_nr_in_flight pwq (get_work_color d) - 1)) := by
  simp [pwq_dec_nr_in_flight, State.lists, State.work_entry, State.work_data, State.pwq_nr_active,
    State.pwq_nr_in_flight]

/-- C3 (amended): `pwq_dec_nr_in_flight` decrements `nr_in_flight[colour of work_data]` by
one.  If `work_data` carries INACTIVE nothing else of the accounting changes.  If it does
not, `nr_active` is decremented by one, and exactly when `inactive_works` is non-empty and
the decremented `nr_active` is below `max_active` the head of `inactive_works`, together
with the items linked after it, is moved to the tail of the pool worklist, loses INACTIVE
and takes the `nr_active` slot back; otherwise all lists stay as they are. -/
theorem pwq_dec_nr_in_flight_contract (s : State) (pwq work_data : Nat)
    (hnd : (s.lists (list_head.inactive_works pwq)).Nodup)
    (hent : ∀ x ∈ s.lists (list_head.inactive_works pwq),
      s.work_entry x = some (list_head.inactive_works pwq))
    (hpwq : ∀ x ∈ s.lists (list_head.inactive_works pwq), get_work_pwq s x = pwq) :
    (∀ c, (pwq_dec_nr_in_flight s pwq work_data).pwq_nr_in_flight pwq c =
      s.pwq_nr_in_flight pwq c - if c = get_work_color work_data then 1 else 0) ∧
    (work_data &&& WORK_STRUCT_INACTIVE ≠ 0 →
      (pwq_dec_nr_in_flight s pwq work_data).pwq_nr_active pwq = s.pwq_nr_active pwq ∧
      (pwq_dec_nr_in_flight s pwq work_data).lists = s.lists ∧
      (pwq_dec_nr_in_flight s pwq work_data).work_data = s.work_data) ∧
    (work_data &&& WORK_STRUCT_INACTIVE = 0 →
      ¬ (s.lists (list_head.inactive_works pwq) ≠ [] ∧
        s.pwq_nr_active pwq - 1 < s.pwq_max_active pwq) →
      (pwq_dec_nr_in_flight s pwq work_data).pwq_nr_active pwq = s.pwq_nr_active pwq - 1 ∧
      (pwq_dec_nr_in_flight s pwq work_data).lists = s.lists ∧
      (pwq_dec_nr_in_flight s pwq work_data).work_data = s.work_data) ∧
    (work_data &&& WORK_STRUCT_INACTIVE = 0 →
      s.pwq_nr_active pwq - 1 < s.pwq_max_active pwq →
      ∀ x l, s.lists (list_head.inactive_works pwq) = x :: l →
        (pwq_dec_nr_in_flight s pwq work_data).pwq_nr_active pwq = s.pwq_nr_active pwq ∧
        (pwq_dec_nr_in_flight s pwq work_data).lists (list_head.worklist (s.pwq_pool pwq)) =
          s.lists (list_head.worklist (s.pwq_pool pwq)) ++ linked_run s.work_data (x :: l) ∧
        (pwq_dec_nr_in_flight s pwq work_data).lists (list_head.inactive_works pwq) =
          (x :: l).drop (linked_run s.work_data (x :: l)).length ∧
        (∀ h, h ≠ list_head.worklist (s.pwq_pool pwq) → h ≠ list_head.inactive_works pwq →
          (pwq_dec_nr_in_flight s pwq work_data).lists h = s.lists h) ∧
        (pwq_dec_nr_in_flight s pwq work_data).work_entry x =
          some (list_head.worklist (s.pwq_pool pwq)) ∧
        work_data_bits (pwq_dec_nr_in_flight s pwq work_data) x &&& WORK_STRUCT_INACTIVE = 0 ∧
        ∀ y, y ≠ x → (pwq_dec_nr_in_flight s pwq work_data).work_data y = s.work_data y) := by
  obtain ⟨v1, v2, v3, v4, v5⟩ := pwq_dec_nr_in_flight_views s pwq work_data
  refine ⟨?_, ?_, ?_, ?_⟩
  · intro c
    rw [v5]
    by_cases hc : c = get_work_color work_data
    · subst hc; simp
    · simp [hc]
  · intro hi
    rw [v1, v3, v4, pwq_dec_nr_active_idle s pwq work_data hi]
    exact ⟨rfl, rfl, rfl⟩
  · intro hi hc
    rw [v1, v3, v4, pwq_dec_nr_active_keep s pwq work_data hi hc]
    simp [State.lists, State.work_data, State.pwq_nr_active]
  · intro hi hc x l hl
    rw [v1, v2, v3, v4]
    unfold work_data_bits
    rw [v3, pwq_dec_nr_active_promote s pwq work_data x l hi hl hc]
    have hx : x ∈ s.lists (list_head.inactive_works pwq) := by rw [hl]; simp
    have hp : get_work_pwq (s.set .pwq_nr_active
        (Function.update s.pwq_nr_active pwq (s.pwq_nr_active pwq - 1))) x = pwq := by
      rw [get_work_pwq_congr s _ x (by simp [State.work_data])]
      exact hpwq x hx
    obtain ⟨a1, a2, a3, a4⟩ := pwq_activate_inactive_work_spec
      (s.set .pwq_nr_active (Function.update s.pwq_nr_active pwq (s.pwq_nr_active pwq - 1))) x
      (list_head.inactive_works pwq) (by simpa [State.work_entry] using hent x hx)
      (by simp) (by simpa [State.lists] using hx) (by simpa [State.lists] using hnd)
      (by simpa [State.lists, State.work_entry] using hent)
    rw [hp] at a1 a2 a4
    have hl2 : (s.set .pwq_nr_active (Function.update s.pwq_nr_active pwq
        (s.pwq_nr_active pwq - 1))).lists (list_head.inactive_works pwq) = x :: l := by
      simpa [State.lists] using hl
    rw [hl2, list_from_head, list_before_head] at a1
    rw [hl2, list_from_head] at a2
    have e1 : (s.set .pwq_nr_active (Function.update s.pwq_nr_active pwq
        (s.pwq_nr_active pwq - 1))).work_data = s.work_data := by simp [State.work_data]
    have e2 : (s.set .pwq_nr_active (Function.update s.pwq_nr_active pwq
        (s.pwq_nr_active pwq - 1))).pwq_pool = s.pwq_pool := by simp [State.pwq_pool]
    have e3 : (s.set .pwq_nr_active (Function.update s.pwq_nr_active pwq
        (s.pwq_nr_active pwq - 1))).lists = s.lists := by simp [State.lists]
    rw [e1, e2, e3] at a1
    rw [e1, e2] at a2
    rw [e1] at a3
    refine ⟨?_, ?_, ?_, ?_, ?_, ?_, ?_⟩
    · rw [a4]; simp [State.pwq_nr_active]
    · rw [a1]; simp
    · rw [a1]; simp
    · intro h n1 n2
      rw [a1, if_neg n1, if_neg n2]
    · rw [a2, if_pos (linked_run_head_mem s.work_data x l)]
    · rw [a3]
      simp only [Function.update_same]
      exact (clear_inactive_views (s.work_data x)).1
    · intro y hy
      rw [a3]
      simp [hy]

/-- Counterexample to C3 as stated: while the workqueue is frozen (`max_active` is 0) the
active work item 1000 leaves the pool_workqueue 256 whose `inactive_works` holds the item
1001; `nr_active` drops to 0 and nothing is promoted. -/
theorem pwq_dec_nr_in_flight_frozen_no_promotion :
    work_data_bits ex_frozen 1000 &&& WORK_STRUCT_INACTIVE = 0 ∧
    ex_frozen_leaving.lists (list_head.inactive_works 256) = [1001] ∧
    (pwq_dec_nr_in_flight ex_frozen_leaving 256 (work_data_bits ex_frozen 1000)).pwq_nr_active 256
      = 0 ∧
    (pwq_dec_nr_in_flight ex_frozen_leaving 256 (work_data_bits ex_frozen 1000)).lists
      (list_head.inactive_works 256) = [1001] ∧
    (pwq_dec_nr_in_flight ex_frozen_leaving 256 (work_data_bits ex_frozen 1000)).lists
      (list_head.worklist 64) = [] ∧
    work_data_bits (pwq_dec_nr_in_flight ex_frozen_leaving 256 (work_data_bits ex_frozen 1000))
      1001 &&& WORK_STRUCT_INACTIVE ≠ 0 := by
  decide

theorem pwq_dec_nr_in_flight_contract_witness :
    (work_data_bits ex_backlog 1000 &&& WORK_STRUCT_INACTIVE = 0 ∧
      ex_backlog_leaving.lists (list_head.inactive_works 256) = [1001] ∧
      ex_backlog_leaving.pwq_nr_active 256 - 1 < ex_backlog_leaving.pwq_max_active 256) ∧
    (pwq_dec_nr_in_flight ex_backlog_leaving 256 (work_data_bits ex_backlog 1000)).lists
      (list_head.worklist (ex_backlog_leaving.pwq_pool 256)) =
        ex_backlog_leaving.lists (list_head.worklist (ex_backlog_leaving.pwq_pool 256)) ++
          linked_run ex_backlog_leaving.work_data [1001] ∧
    work_data_bits (pwq_dec_nr_in_flight ex_backlog_leaving 256 (work_data_bits ex_backlog 1000))
      1001 &&& WORK_STRUCT_INACTIVE = 0 :=
  ⟨by decide,
    ((pwq_dec_nr_in_flight_contract ex_backlog_leaving 256 (work_data_bits ex_backlog 1000)
      (by decide) (by decide) (by decide)).2.2.2 (by decide) (by decide) 1001 [] (by decide)).2.1,
    ((pwq_dec_nr_in_flight_contract ex_backlog_leaving 256 (work_data_bits ex_backlog 1000)
      (by decide) (by decide) (by decide)).2.2.2 (by decide) (by decide) 1001 []
        (by decide)).2.2.2.2.2.1⟩

theorem linked_run_eq_run_of (data : Nat → Nat) (l : List Nat) :
    linked_run data l = run_of (fun x => decide (data x &&& WORK_STRUCT_LINKED ≠ 0)) l := by
  induction l with
  | nil => rfl
  | cons a l ih =>
    unfold linked_run run_of
    by_cases h : data a &&& WORK_STRUCT_LINKED = 0
    · simp [h]
    · simp [h, ih]

theorem run_of_prefix (lk : Nat → Bool) (l : List Nat) :
    run_of lk l ++ l.drop (run_of lk l).length = l := by
  induction l with
  | nil => simp [run_of]
  | cons a l ih =>
    unfold run_of
    split
    · simp
    · simp [ih]

theorem run_of_ne_nil (lk : Nat → Bool) (x : Nat) (l : List Nat) : run_of lk (x :: l) ≠ [] := by
  unfold run_of
  split <;> simp

theorem run_of_head (lk : Nat → Bool) (x : Nat) (l : List Nat) :
    ∃ t, run_of lk (x :: l) = x :: t := by
  unfold run_of
  split
  · exact ⟨[], rfl⟩
  · exact ⟨_, rfl⟩

/-- The last item of the run is not LINKED when the last item of the list is not. -/
theorem run_of_last (lk : Nat → Bool) (l : List Nat)
    (hl : ∀ y, l.getLast? = some y → lk y = false) :
    ∀ z, (run_of lk l).getLast? = some z → lk z = false := by
  induction l with
  | nil => intro z hz; simp [run_of] at hz
  | cons a l ih =>
    intro z hz
    unfold run_of at hz
    by_cases h : lk a = false
    · simp [h] at hz
      rw [← hz]; exact h
    · rw [if_neg h] at hz
      cases l with
      | nil =>
        simp [run_of] at hz
        rw [← hz]
        exact hl a (by simp)
      | cons b l' =>
        obtain ⟨t, ht⟩ := run_of_head lk b l'
        rw [ht, List.getLast?_cons_cons, ← ht] at hz
        apply ih _ z hz
        intro y hy
        apply hl
        rw [List.getLast?_cons_cons]
        exact hy

/-- The items of the run after its first item are barriers. -/
theorem run_of_tail_barrier (lk : Nat → Bool) (br : Nat → Prop) (l : List Nat)
    (hc : l.Chain' (fun x y => lk x = true → br y)) :
    ∀ y ∈ (run_of lk l).tail, br y := by
  induction l with
  | nil => intro y hy; simp [run_of] at hy
  | cons a l ih =>
    intro y hy
    unfold run_of at hy
    by_cases h : lk a = false
    · simp [h] at hy
    · rw [if_neg h, List.tail_cons] at hy
      cases l with
      | nil => simp [run_of] at hy
      | cons b l' =>
        obtain ⟨t, ht⟩ := run_of_head lk b l'
        rw [ht] at hy
        rcases List.mem_cons.1 hy with e | e
        · rw [e]
          exact (List.chain'_cons.1 hc).1 (by simpa using h)
        · apply ih (List.chain'_cons.1 hc).2
          rw [ht]
          exact e

theorem chain_ok_congr (lk lk2 : Nat → Bool) (br br2 : Nat → Prop) (l : List Nat)
    (h1 : ∀ y ∈ l, lk2 y = lk y) (h2 : ∀ y ∈ l, (br2 y ↔ br y)) (h : chain_ok lk br l) :
    chain_ok lk2 br2 l := by
  constructor
  · rw [List.Chain'.iff_mem]
    refine (List.Chain'.iff_mem.1 h.1).imp ?_
    intro a b ⟨ha, hb, hr⟩
    refine ⟨ha, hb, ?_⟩
    intro hl
    rw [h1 a ha] at hl
    exact (h2 b hb).2 (hr hl)
  · intro x hx
    rw [h1 x (List.mem_of_mem_getLast? hx)]
    exact h.2 x hx

theorem ichain_ok_congr (lk lk2 : Nat → Bool) (br br2 : Nat → Prop) (l : List Nat)
    (h1 : ∀ y ∈ l, lk2 y = lk y) (h2 : ∀ y ∈ l, (br2 y ↔ br y)) (h : ichain_ok lk br l) :
    ichain_ok lk2 br2 l := by
  constructor
  · rw [List.Chain'.iff_mem]
    refine (List.Chain'.iff_mem.1 h.1).imp ?_
    intro a b ⟨ha, hb, hr⟩
    refine ⟨ha, hb, ?_⟩
    intro hl
    rw [h1 a ha]
    exact hr ((h2 b hb).1 hl)
  · intro x hx hb
    exact h.2 x hx ((h2 x (List.mem_of_mem_head? hx)).1 hb)

theorem chain_ok_nil (lk : Nat → Bool) (br : Nat → Prop) : chain_ok lk br [] :=
  ⟨List.chain'_nil, by simp⟩

theorem ichain_ok_nil (lk : Nat → Bool) (br : Nat → Prop) : ichain_ok lk br [] :=
  ⟨List.chain'_nil, by simp⟩

/-- Appending an item without LINKED at the tail. -/
theorem chain_ok_append_one (lk : Nat → Bool) (br : Nat → Prop) (l : List Nat) (x : Nat)
    (h : chain_ok lk br l) (hx : lk x = false) : chain_ok lk br (l ++ [x]) := by
  constructor
  · apply List.Chain'.append h.1 (List.chain'_singleton x)
    intro a ha b _ hl
    rw [h.2 a ha] at hl
    exact absurd hl (by simp)
  · intro y hy
    simp at hy
    rw [← hy]; exact hx

theorem ichain_ok_append_one (lk : Nat → Bool) (br : Nat → Prop) (l : List Nat) (x : Nat)
    (h : ichain_ok lk br l) (hx : ¬ br x) : ichain_ok lk br (l ++ [x]) := by
  constructor
  · apply List.Chain'.append h.1 (List.chain'_singleton x)
    intro a _ b hb hbr
    simp at hb
    rw [← hb] at hbr
    exact absurd hbr hx
  · intro y hy
    cases l with
    | nil => simp at hy; rw [← hy]; exact hx
    | cons a l => exact h.2 y (by simpa using hy)


theorem getLast?_append_cons (l : List Nat) (a : Nat) (m : List Nat) :
    (l ++ a :: m).getLast? = (a :: m).getLast? := by
  induction l with
  | nil => rfl
  | cons b l ih =>
    cases l with
    | nil => simp [List.getLast?_cons_cons]
    | cons c l2 =>
      rw [List.cons_append, List.cons_append, List.getLast?_cons_cons, ← List.cons_append]
      exact ih

theorem chain_congr_mem (R S : Nat → Nat → Prop) (l : List Nat)
    (h : ∀ x ∈ l, ∀ y ∈ l, R x y → S x y) (hc : l.Chain' R) : l.Chain' S := by
  rw [List.Chain'.iff_mem]
  refine (List.Chain'.iff_mem.1 hc).imp ?_
  intro a b ⟨ha, hb, hr⟩
  exact ⟨ha, hb, h a ha b hb hr⟩

/-- Linking a barrier right after the item `t`, which gets LINKED while the barrier
inherits the LINKED bit `t` had. -/
theorem chain_ok_insert_after (lk lk2 : Nat → Bool) (br br2 : Nat → Prop)
    (pre post : List Nat) (t b : Nat)
    (h : chain_ok lk br (pre ++ t :: post))
    (hb : b ∉ pre ++ t :: post) (hnd : (pre ++ t :: post).Nodup)
    (hlk : ∀ y, y ≠ t → y ≠ b → lk2 y = lk y) (hlb : lk2 b = lk t)
    (hbr : ∀ y, y ≠ b → (br2 y ↔ br y)) (hbb : br2 b) :
    chain_ok lk2 br2 (pre ++ t :: b :: post) := by
  have hbt : b ≠ t := by
    intro e; apply hb; simp [e]
  have hpre : ∀ y ∈ pre, y ≠ t ∧ y ≠ b := by
    intro y hy
    constructor
    · intro e
      rw [e] at hy
      exact (List.nodup_append.1 hnd).2.2 hy (by simp)
    · intro e
      apply hb; rw [← e]; simp [hy]
  have hpost : ∀ y ∈ post, y ≠ t ∧ y ≠ b := by
    intro y hy
    constructor
    · intro e
      rw [e] at hy
      have := (List.nodup_append.1 hnd).2.1
      rw [List.nodup_cons] at this
      exact this.1 hy
    · intro e
      apply hb; rw [← e]; simp [hy]
  obtain ⟨hc, hlast⟩ := h
  rw [List.chain'_append] at hc
  obtain ⟨hc1, hc2, hc3⟩ := hc
  rw [List.chain'_cons'] at hc2
  constructor
  · rw [List.chain'_append]
    refine ⟨?_, ?_, ?_⟩
    · apply chain_congr_mem _ _ _ _ hc1
      intro x hx y hy hr hl
      rw [hlk x (hpre x hx).1 (hpre x hx).2] at hl
      exact (hbr y (hpre y hy).2).2 (hr hl)
    · rw [List.chain'_cons]
      refine ⟨fun _ => hbb, ?_⟩
      rw [List.chain'_cons']
      constructor
      · intro y hy hl
        rw [hlb] at hl
        exact (hbr y (hpost y (List.mem_of_mem_head? hy)).2).2 (hc2.1 y hy hl)
      · apply chain_congr_mem _ _ _ _ hc2.2
        intro x hx y hy hr hl
        rw [hlk x (hpost x hx).1 (hpost x hx).2] at hl
        exact (hbr y (hpost y hy).2).2 (hr hl)
    · intro x hx y hy hl
      simp at hy
      rw [← hy]
      have hxm := List.mem_of_mem_getLast? hx
      rw [hlk x (hpre x hxm).1 (hpre x hxm).2] at hl
      exact (hbr t hbt.symm).2 (hc3 x hx t (by simp) hl)
  · intro y hy
    cases post with
    | nil =>
      simp at hy
      rw [← hy, hlb]
      exact hlast t (by simp)
    | cons c post2 =>
      have e : (pre ++ t :: b :: c :: post2).getLast? = (pre ++ t :: c :: post2).getLast? := by
        rw [getLast?_append_cons, getLast?_append_cons, List.getLast?_cons_cons,
          List.getLast?_cons_cons, List.getLast?_cons_cons]
      rw [e] at hy
      have hym := List.mem_of_mem_getLast? hy
      have hyp : y ∈ c :: post2 := by
        have : (pre ++ t :: c :: post2).getLast? = (c :: post2).getLast? := by
          rw [getLast?_append_cons, List.getLast?_cons_cons]
        rw [this] at hy
        exact List.mem_of_mem_getLast? hy
      rw [hlk y (hpost y hyp).1 (hpost y hyp).2]
      exact hlast y hy

theorem ichain_ok_insert_after (lk lk2 : Nat → Bool) (br br2 : Nat → Prop)
    (pre post : List Nat) (t b : Nat)
    (h : ichain_ok lk br (pre ++ t :: post))
    (hb : b ∉ pre ++ t :: post) (hnd : (pre ++ t :: post).Nodup)
    (hlk : ∀ y, y ≠ t → y ≠ b → lk2 y = lk y) (hlb : lk2 b = lk t) (hlt : lk2 t = true)
    (hbr : ∀ y, y ≠ b → (br2 y ↔ br y)) :
    ichain_ok lk2 br2 (pre ++ t :: b :: post) := by
  have hbt : b ≠ t := by
    intro e; apply hb; simp [e]
  have hpre : ∀ y ∈ pre, y ≠ t ∧ y ≠ b := by
    intro y hy
    constructor
    · intro e
      rw [e] at hy
      exact (List.nodup_append.1 hnd).2.2 hy (by simp)
    · intro e
      apply hb; rw [← e]; simp [hy]
  have hpost : ∀ y ∈ post, y ≠ t ∧ y ≠ b := by
    intro y hy
    constructor
    · intro e
      rw [e] at hy
      have := (List.nodup_append.1 hnd).2.1
      rw [List.nodup_cons] at this
      exact this.1 hy
    · intro e
      apply hb; rw [← e]; simp [hy]
  obtain ⟨hc, hhead⟩ := h
  rw [List.chain'_append] at hc
  obtain ⟨hc1, hc2, hc3⟩ := hc
  rw [List.chain'_cons'] at hc2
  constructor
  · rw [List.chain'_append]
    refine ⟨?_, ?_, ?_⟩
    · apply chain_congr_mem _ _ _ _ hc1
      intro x hx y hy hr hl
      rw [hlk x (hpre x hx).1 (hpre x hx).2]
      exact hr ((hbr y (hpre y hy).2).1 hl)
    · rw [List.chain'_cons]
      refine ⟨fun _ => hlt, ?_⟩
      rw [List.chain'_cons']
      constructor
      · intro y hy hl
        rw [hlb]
        exact hc2.1 y hy ((hbr y (hpost y (List.mem_of_mem_head? hy)).2).1 hl)
      · apply chain_congr_mem _ _ _ _ hc2.2
        intro x hx y hy hr hl
        rw [hlk x (hpost x hx).1 (hpost x hx).2]
        exact hr ((hbr y (hpost y hy).2).1 hl)
    · intro x hx y hy hl
      simp at hy
      rw [← hy] at hl
      have hxm := List.mem_of_mem_getLast? hx
      rw [hlk x (hpre x hxm).1 (hpre x hxm).2]
      exact hc3 x hx t (by simp) ((hbr t hbt.symm).1 hl)
  · intro y hy hby
    have e : (pre ++ t :: b :: post).head? = (pre ++ t :: post).head? := by
      cases pre <;> simp
    rw [e] at hy
    have hym := List.mem_of_mem_head? hy
    have hyb : y ≠ b := by
      intro e2; apply hb; rw [← e2]; exact hym
    exact hhead y hy ((hbr y hyb).1 hby)


/-- Linking an item without LINKED at the front. -/
theorem chain_ok_cons (lk : Nat → Bool) (br : Nat → Prop) (l : List Nat) (b : Nat)
    (h : chain_ok lk br l) (hb : lk b = false) : chain_ok lk br (b :: l) := by
  constructor
  · rw [List.chain'_cons']
    refine ⟨?_, h.1⟩
    intro y _ hl
    rw [hb] at hl
    exact absurd hl (by simp)
  · intro y hy
    cases l with
    | nil => simp at hy; rw [← hy]; exact hb
    | cons c l2 =>
      rw [List.getLast?_cons_cons] at hy
      exact h.2 y hy

/-- Unlinking the first item. -/
theorem chain_ok_tail (lk : Nat → Bool) (br : Nat → Prop) (l : List Nat) (x : Nat)
    (h : chain_ok lk br (x :: l)) : chain_ok lk br l := by
  constructor
  · exact (List.chain'_cons'.1 h.1).2
  · intro y hy
    cases l with
    | nil => simp at hy
    | cons c l2 =>
      apply h.2
      rw [List.getLast?_cons_cons]
      exact hy

/-- Unlinking a segment whose last item is not LINKED and whose predecessor is not LINKED. -/
theorem chain_ok_remove (lk : Nat → Bool) (br : Nat → Prop) (pre run rest : List Nat)
    (h : chain_ok lk br (pre ++ run ++ rest))
    (hA : ∀ a, pre.getLast? = some a → lk a = false) :
    chain_ok lk br (pre ++ rest) := by
  obtain ⟨hc, hlast⟩ := h
  constructor
  · rw [List.append_assoc] at hc
    apply List.Chain'.append hc.left_of_append hc.right_of_append.right_of_append
    intro a ha y _ hl
    rw [hA a ha] at hl
    exact absurd hl (by simp)
  · intro y hy
    cases rest with
    | nil =>
      rw [List.append_nil] at hy
      exact hA y hy
    | cons c rest2 =>
      apply hlast
      rw [getLast?_append_cons] at hy ⊢
      exact hy

theorem ichain_ok_remove (lk : Nat → Bool) (br : Nat → Prop) (pre run rest : List Nat)
    (h : ichain_ok lk br (pre ++ run ++ rest)) (hne : run ≠ [])
    (hA : ∀ a, pre.getLast? = some a → lk a = false)
    (hB : ∀ z, run.getLast? = some z → lk z = false) :
    ichain_ok lk br (pre ++ rest) := by
  obtain ⟨hc, hhead⟩ := h
  have hrest : ∀ y, rest.head? = some y → ¬ br y := by
    intro y hy hby
    have h2 := hc.right_of_append
    rw [List.chain'_append] at hc
    obtain ⟨hc1, _, hc3⟩ := hc
    obtain ⟨z, hz⟩ : ∃ z, (pre ++ run).getLast? = some z := by
      cases hr : (pre ++ run).getLast? with
      | none => simp at hr; exact absurd hr.1 hne
      | some z => exact ⟨z, rfl⟩
    have hz2 : run.getLast? = some z := by
      cases run with
      | nil => exact absurd rfl hne
      | cons r rs => rw [getLast?_append_cons] at hz; exact hz
    have := hc3 z hz y hy hby
    rw [hB z hz2] at this
    exact absurd this (by simp)
  constructor
  · rw [List.append_assoc] at hc
    apply List.Chain'.append hc.left_of_append hc.right_of_append.right_of_append
    intro a _ y hy hby
    exact absurd hby (hrest y hy)
  · intro y hy
    cases pre with
    | nil =>
      rw [List.nil_append] at hy
      exact hrest y hy
    | cons p pre2 =>
      apply hhead
      simpa using hy

/-- Appending a segment of a chain at the tail. -/
theorem chain_ok_append (lk : Nat → Bool) (br : Nat → Prop) (l run : List Nat)
    (h : chain_ok lk br l) (hr : run.Chain' (fun x y => lk x = true → br y))
    (hB : ∀ z, run.getLast? = some z → lk z = false) :
    chain_ok lk br (l ++ run) := by
  constructor
  · apply List.Chain'.append h.1 hr
    intro a ha y _ hl
    rw [h.2 a ha] at hl
    exact absurd hl (by simp)
  · intro y hy
    cases run with
    | nil => rw [List.append_nil] at hy; exact h.2 y hy
    | cons r rs =>
      rw [getLast?_append_cons] at hy
      exact hB y hy

/-- Unlinking an item that is not a barrier. -/
theorem chain_ok_erase (lk : Nat → Bool) (br : Nat → Prop) (pre post : List Nat) (x : Nat)
    (h : chain_ok lk br (pre ++ x :: post)) (hx : ¬ br x) :
    chain_ok lk br (pre ++ post) := by
  have hA : ∀ a, pre.getLast? = some a → lk a = false := by
    intro a ha
    have := (List.chain'_append.1 h.1).2.2 a ha x (by simp)
    cases hl : lk a with
    | false => rfl
    | true => exact absurd (this hl) hx
  have := chain_ok_remove lk br pre [x] post (by simpa using h) hA
  exact this

theorem segment_chain (R : Nat → Nat → Prop) (pre run rest : List Nat)
    (h : (pre ++ run ++ rest).Chain' R) : run.Chain' R :=
  h.left_of_append.right_of_append

/-! ## Counting the items that are not barriers -/

theorem countP_run (p : Nat → Bool) (w : Nat) (t : List Nat) (hw : p w = true)
    (ht : ∀ y ∈ t, p y = false) : (w :: t).countP p = 1 := by
  rw [List.countP_cons_of_pos _ _ hw]
  have : t.countP p = 0 := by
    rw [List.countP_eq_zero]
    intro a ha
    simp [ht a ha]
  omega

theorem countP_congr_mem (p q : Nat → Bool) (l : List Nat) (h : ∀ x ∈ l, p x = q x) :
    l.countP p = l.countP q := by
  induction l with
  | nil => rfl
  | cons a l ih =>
    have ha := h a (by simp)
    have ih2 := ih (fun x hx => h x (List.mem_cons_of_mem _ hx))
    by_cases hp : p a = true
    · rw [List.countP_cons_of_pos _ _ hp, List.countP_cons_of_pos _ _ (ha ▸ hp), ih2]
    · rw [List.countP_cons_of_neg _ _ hp, List.countP_cons_of_neg _ _ (ha ▸ hp), ih2]

/-! ## Counters -/

theorem sum_update_range (f : Int → Int) (n : Nat) (col : Int) (h0 : 0 ≤ col) (h1 : col < n)
    (v : Int) :
    ∑ i in Finset.range n, Function.update f col v (i : Int) =
      ∑ i in Finset.range n, f (i : Int) + (v - f col) := by
  lift col to Nat using h0
  have hj : col ∈ Finset.range n := by
    rw [Finset.mem_range]; exact_mod_cast h1
  have e : ∀ i ∈ Finset.range n, Function.update f (col : Int) v (i : Int) =
      f (i : Int) + if i = col then v - f (col : Int) else 0 := by
    intro i _
    by_cases hi : i = col
    · subst hi; simp
    · have : (i : Int) ≠ (col : Int) := by exact_mod_cast hi
      simp [Function.update_noteq this, hi]
  rw [Finset.sum_congr rfl e, Finset.sum_add_distrib, Finset.sum_ite_eq' (Finset.range n) col]
  simp [hj]

theorem in_flight_sum_add (c : Core) (q : Nat) (col d : Int) (h0 : 0 ≤ col) (h1 : col < 16)
    (p : Nat) :
    (c.add_in_flight q col d).in_flight_sum p = c.in_flight_sum p + if p = q then d else 0 := by
  unfold Core.in_flight_sum Core.add_in_flight
  by_cases hp : p = q
  · subst hp
    simp only [Function.update_same, if_true]
    rw [sum_update_range _ _ _ h0 (by simpa using h1)]
    ring
  · simp [Function.update_noteq hp, hp]

theorem card_filter_congr (D : Finset Nat) (P Q : Nat → Bool) (h : ∀ x ∈ D, P x = Q x) :
    (D.filter (fun x => P x = true)).card = (D.filter (fun x => Q x = true)).card := by
  congr 1
  apply Finset.filter_congr
  intro x hx
  rw [h x hx]

/-- Changing the predicate at one point of the set changes the count accordingly. -/
theorem card_filter_point (D : Finset Nat) (P Q : Nat → Bool) (x0 : Nat) (hx : x0 ∈ D)
    (h : ∀ x ∈ D, x ≠ x0 → P x = Q x) :
    ((D.filter (fun x => Q x = true)).card : Int) + (if P x0 = true then 1 else 0) =
      (D.filter (fun x => P x = true)).card + (if Q x0 = true then 1 else 0) := by
  have e : ∀ R : Nat → Bool, ((D.filter (fun x => R x = true)).card : Int) =
      ((D.erase x0).filter (fun x => R x = true)).card + (if R x0 = true then 1 else 0) := by
    intro R
    have hD : D = insert x0 (D.erase x0) := (Finset.insert_erase hx).symm
    conv => lhs; rw [hD]
    rw [Finset.filter_insert]
    by_cases hr : R x0 = true
    · rw [if_pos hr, if_pos hr, Finset.card_insert_of_not_mem]
      · push_cast; ring
      · simp
    · rw [if_neg hr, if_neg hr]; simp
  rw [e P, e Q]
  have : ((D.erase x0).filter (fun x => P x = true)).card =
      ((D.erase x0).filter (fun x => Q x = true)).card := by
    apply card_filter_congr
    intro x hx2
    exact h x (Finset.mem_of_mem_erase hx2) (Finset.ne_of_mem_erase hx2)
  rw [this]
  ring

/-- The count of a predicate does not depend on the covering set. -/
theorem card_filter_cover (D D2 : Finset Nat) (P : Nat → Bool) (h1 : ∀ x, P x = true → x ∈ D)
    (h2 : ∀ x, P x = true → x ∈ D2) :
    (D.filter (fun x => P x = true)).card = (D2.filter (fun x => P x = true)).card := by
  congr 1
  ext x
  simp only [Finset.mem_filter]
  constructor
  · intro ⟨_, hp⟩; exact ⟨h2 x hp, hp⟩
  · intro ⟨_, hp⟩; exact ⟨h1 x hp, hp⟩

/-! ## Dependencies of the invariants -/

theorem InvE_congr (c c2 : Core) (hi : InvE c) (h1 : c2.busy = c.busy) (h2 : c2.cur_work = c.cur_work)
    (h3 : c2.cur_func = c.cur_func) (h4 : c2.cur_pwq = c.cur_pwq)
    (h5 : c2.cur_color = c.cur_color) (h6 : c2.frame_pwq = c.frame_pwq)
    (h7 : c2.frame_inact = c.frame_inact) (h8 : c2.wpool = c.wpool) (h9 : c2.ppool = c.ppool)
    (h10 : c2.cpu_pwq = c.cpu_pwq) (h11 : c2.work_color = c.work_color) :
    InvE c2 := by
  obtain ⟨a1, a2, a3, a4, a5, a6, a7, a8⟩ := hi
  constructor <;> simp only [h1, h2, h3, h4, h5, h6, h7, h8, h9, h10, h11] <;> assumption

theorem InvX_congr (c c2 : Core) (hi : InvX c) (h1 : c2.entry = c.entry) (h2 : c2.func = c.func)
    (h3 : c2.cur_work = c.cur_work) (h4 : c2.cur_func = c.cur_func) (h5 : c2.wpool = c.wpool)
    : InvX c2 := by
  obtain ⟨a1, a2, a3⟩ := hi
  constructor <;> simp only [h1, h2, h3, h4, h5] <;> assumption

theorem InvL_congr (c c2 : Core) (hi : InvL c) (h1 : c2.lists = c.lists) (h2 : c2.entry = c.entry)
    (h3 : c2.pwq_of = c.pwq_of) (h4 : c2.has_pwq = c.has_pwq) (h5 : c2.pending = c.pending)
    (h6 : c2.inact = c.inact) (h7 : c2.linked = c.linked) (h8 : c2.func = c.func)
    (h9 : c2.ppool = c.ppool) (h10 : c2.wpool = c.wpool) : InvL c2 := by
  obtain ⟨a1, a2, a3, a4, a5, a6, a7, a8, a9, a10, a11⟩ := hi
  constructor <;> simp only [h1, h2, h3, h4, h5, h6, h7, h8, h9, h10] <;> assumption

theorem InvF_congr (c c2 : Core) (hi : InvF c) (h1 : c2.lists = c.lists) (h2 : c2.entry = c.entry)
    (h3 : c2.pwq_of = c.pwq_of) (h4 : c2.func = c.func) (h5 : c2.nr_active = c.nr_active)
    (h6 : c2.nr_in_flight = c.nr_in_flight) (h7 : c2.cur_work = c.cur_work)
    (h8 : c2.cur_func = c.cur_func) (h9 : c2.frame_pwq = c.frame_pwq) :
    InvF c2 := by
  intro p D K hD hK
  have := hi p D K (by simpa only [h2] using hD) (by simpa only [h7] using hK)
  simpa only [Core.in_flight_sum, Core.inactive_count, Core.barrier_count, Core.queued_barrier,
    Core.running_barrier, h1, h2, h3, h4, h5, h6, h7, h8, h9] using this

/-- An unlinked work item is on no list. -/
theorem InvL.not_mem {c : Core} (hi : InvL c) (x : Nat) (hx : c.entry x = none) (h : list_head) :
    x ∉ c.lists h := by
  intro hm
  rw [hi.mem_entry, hx] at hm
  exact absurd hm (by simp)

/-! ## Linking a work item preserves the list invariant -/

/-- A work item `b` that was unlinked is linked on the list `H`, which becomes `L2`; its
data word is written, and LINKED may change on items of `L2`. -/
theorem InvL_link (c c2 : Core) (hi : InvL c) (b q : Nat) (ia : Bool) (H : list_head)
    (L2 : List Nat) (hb : c.entry b = none) (hb0 : b ≠ 0)
    (e_lists : c2.lists = Function.update c.lists H L2)
    (e_entry : c2.entry = Function.update c.entry b (some H))
    (e_pwq : c2.pwq_of = Function.update c.pwq_of b q)
    (e_has : c2.has_pwq = Function.update c.has_pwq b true)
    (e_pend : c2.pending = Function.update c.pending b true)
    (e_inact : c2.inact = Function.update c.inact b ia)
    (e_linked : ∀ y, y ∉ L2 → c2.linked y = c.linked y)
    (e_func : ∀ y, y ≠ b → c2.func y = c.func y)
    (e_ppool : c2.ppool = c.ppool) (e_wpool : c2.wpool = c.wpool)
    (hnd : L2.Nodup) (hmem : ∀ y, y ∈ L2 ↔ y = b ∨ y ∈ c.lists H)
    (ht1 : ∀ p, H = list_head.inactive_works p → q = p ∧ ia = true)
    (ht2 : ∀ P, H = list_head.worklist P →
      c.ppool q = P ∧ (c2.func b ≠ wq_barrier_func → ia = false))
    (ht3 : ∀ k, H = list_head.scheduled k →
      c.ppool q = c.wpool k ∧ (c2.func b ≠ wq_barrier_func → ia = false))
    (hbar : c2.func b = wq_barrier_func → ia = true)
    (hchain : chain_ok c2.linked (fun x => c2.func x = wq_barrier_func) L2)
    (hichain : ∀ p, H = list_head.inactive_works p →
      ichain_ok c2.linked (fun x => c2.func x = wq_barrier_func) L2) : InvL c2 := by
  have hnm := hi.not_mem b hb
  have hother : ∀ h, h ≠ H → ∀ y ∈ c.lists h, y ∉ L2 ∧ y ≠ b := by
    intro h hh y hy
    have hyb : y ≠ b := fun e => hnm h (e ▸ hy)
    refine ⟨?_, hyb⟩
    intro hm
    rcases (hmem y).1 hm with e | e
    · exact hyb e
    · rw [hi.mem_entry] at hy e
      rw [hy] at e
      exact hh (Option.some.inj e)
  constructor
  · intro h
    rw [e_lists]
    by_cases hh : h = H
    · subst hh
      simp only [Function.update_same]
      exact hnd
    · simp only [Function.update_noteq hh]
      exact hi.nodup h
  · intro h y
    rw [e_lists, e_entry]
    by_cases hh : h = H
    · subst hh
      simp only [Function.update_same]
      rw [hmem]
      by_cases hy : y = b
      · subst hy; simp
      · simp [hy, hi.mem_entry]
    · by_cases hy : y = b
      · subst hy
        simp only [Function.update_noteq hh, Function.update_same]
        constructor
        · intro hm; exact absurd hm (hnm h)
        · intro e; exact absurd (Option.some.inj e).symm hh
      · simp [hh, hy, hi.mem_entry]
  · rw [e_entry, Function.update_noteq (Ne.symm hb0)]
    exact hi.nonzero
  · intro y
    rw [e_has, e_entry]
    by_cases hy : y = b
    · subst hy; simp
    · simp only [Function.update_noteq hy]
      exact hi.has_pwq y
  · intro y
    rw [e_pend, e_entry]
    by_cases hy : y = b
    · subst hy; simp
    · simp only [Function.update_noteq hy]
      exact hi.pending y
  · intro p y
    rw [e_entry, e_pwq, e_inact]
    by_cases hy : y = b
    · subst hy
      simp only [Function.update_same]
      intro e
      exact ht1 p (Option.some.inj e)
    · simp only [Function.update_noteq hy]
      exact hi.typ_inactive p y
  · intro P y
    rw [e_entry, e_pwq, e_inact, e_ppool]
    by_cases hy : y = b
    · subst hy
      simp only [Function.update_same]
      intro e
      exact ht2 P (Option.some.inj e)
    · simp only [Function.update_noteq hy]
      rw [e_func y hy]
      exact hi.typ_worklist P y
  · intro k y
    rw [e_entry, e_pwq, e_inact, e_ppool, e_wpool]
    by_cases hy : y = b
    · subst hy
      simp only [Function.update_same]
      intro e
      exact ht3 k (Option.some.inj e)
    · simp only [Function.update_noteq hy]
      rw [e_func y hy]
      exact hi.typ_scheduled k y
  · intro y
    rw [e_entry, e_inact]
    by_cases hy : y = b
    · subst hy
      intro _ hb2
      simp only [Function.update_same]
      exact hbar hb2
    · simp only [Function.update_noteq hy]
      rw [e_func y hy]
      exact hi.barrier_inact y
  · intro h
    rw [e_lists]
    by_cases hh : h = H
    · subst hh
      simp only [Function.update_same]
      exact hchain
    · simp only [Function.update_noteq hh]
      apply chain_ok_congr _ _ _ _ _ _ _ (hi.chain h)
      · intro y hy
        exact e_linked y (hother h hh y hy).1
      · intro y hy
        rw [e_func y (hother h hh y hy).2]
  · intro p
    rw [e_lists]
    by_cases hh : list_head.inactive_works p = H
    · rw [← hh]
      simp only [Function.update_same]
      exact hichain p hh.symm
    · simp only [Function.update_noteq hh]
      apply ichain_ok_congr _ _ _ _ _ _ _ (hi.ichain p)
      · intro y hy
        exact e_linked y (hother _ hh y hy).1
      · intro y hy
        rw [e_func y (hother _ hh y hy).2]

/-! ## Queueing a work item preserves the invariants -/

theorem InvL_queue (c : Core) (hi : InvL c) (x q : Nat) (ia : Bool) (H : list_head)
    (hx : c.entry x = none) (hx0 : x ≠ 0) (hnb : c.func x ≠ wq_barrier_func)
    (hH : (H = list_head.worklist (c.ppool q) ∧ ia = false) ∨
      (H = list_head.inactive_works q ∧ ia = true)) :
    InvL ((c.set_word x q true true ia false).link x H (c.lists H ++ [x])) := by
  have hnm := hi.not_mem x hx
  constructor
  · intro h
    simp only [Core.link, Core.set_word]
    by_cases hh : h = H
    · subst hh
      simp only [Function.update_same]
      exact List.Nodup.append (hi.nodup h) (List.nodup_singleton x)
        (by simpa using hnm h)
    · simp only [Function.update_noteq hh]
      exact hi.nodup h
  · intro h y
    simp only [Core.link, Core.set_word]
    by_cases hh : h = H
    · subst hh
      by_cases hy : y = x
      · subst hy; simp
      · simp [hy, hi.mem_entry]
    · by_cases hy : y = x
      · subst hy
        simp only [Function.update_noteq hh, Function.update_same]
        constructor
        · intro hm; exact absurd hm (hnm h)
        · intro e; exact absurd (Option.some.inj e).symm hh
      · simp [hh, hy, hi.mem_entry]
  · simp only [Core.link, Core.set_word]
    rw [Function.update_noteq (Ne.symm hx0)]
    exact hi.nonzero
  · intro y
    simp only [Core.link, Core.set_word]
    by_cases hy : y = x
    · subst hy; simp
    · simp only [Function.update_noteq hy]
      exact hi.has_pwq y
  · intro y
    simp only [Core.link, Core.set_word]
    by_cases hy : y = x
    · subst hy; simp
    · simp only [Function.update_noteq hy]
      exact hi.pending y
  · intro p y
    simp only [Core.link, Core.set_word]
    by_cases hy : y = x
    · subst hy
      simp only [Function.update_same]
      intro e
      rcases hH with ⟨h1, _⟩ | ⟨h1, h2⟩
      · rw [h1] at e; simp at e
      · rw [h1] at e
        simp at e
        exact ⟨e, h2⟩
    · simp only [Function.update_noteq hy]
      exact hi.typ_inactive p y
  · intro P y
    simp only [Core.link, Core.set_word]
    by_cases hy : y = x
    · subst hy
      simp only [Function.update_same]
      intro e
      rcases hH with ⟨h1, h2⟩ | ⟨h1, _⟩
      · rw [h1] at e
        simp at e
        exact ⟨e, fun _ => h2⟩
      · rw [h1] at e; simp at e
    · simp only [Function.update_noteq hy]
      exact hi.typ_worklist P y
  · intro k y
    simp only [Core.link, Core.set_word]
    by_cases hy : y = x
    · subst hy
      simp only [Function.update_same]
      intro e
      rcases hH with ⟨h1, _⟩ | ⟨h1, _⟩ <;> (rw [h1] at e; simp at e)
    · simp only [Function.update_noteq hy]
      exact hi.typ_scheduled k y
  · intro y
    simp only [Core.link, Core.set_word]
    by_cases hy : y = x
    · subst hy
      intro _ hb
      exact absurd hb hnb
    · simp only [Function.update_noteq hy]
      exact hi.barrier_inact y
  · intro h
    simp only [Core.link, Core.set_word]
    by_cases hh : h = H
    · subst hh
      simp only [Function.update_same]
      apply chain_ok_append_one
      · apply chain_ok_congr _ _ _ _ _ _ _ (hi.chain h)
        · intro y hy
          have : y ≠ x := fun e => hnm h (e ▸ hy)
          simp [this]
        · intro y _; rfl
      · simp
    · simp only [Function.update_noteq hh]
      apply chain_ok_congr _ _ _ _ _ _ _ (hi.chain h)
      · intro y hy
        have : y ≠ x := fun e => hnm h (e ▸ hy)
        simp [this]
      · intro y _; rfl
  · intro p
    simp only [Core.link, Core.set_word]
    by_cases hh : list_head.inactive_works p = H
    · rw [← hh]
      simp only [Function.update_same]
      apply ichain_ok_append_one
      · apply ichain_ok_congr _ _ _ _ _ _ _ (hi.ichain p)
        · intro y hy
          have : y ≠ x := fun e => hnm _ (e ▸ hy)
          simp [this]
        · intro y _; rfl
      · exact hnb
    · simp only [Function.update_noteq hh]
      apply ichain_ok_congr _ _ _ _ _ _ _ (hi.ichain p)
      · intro y hy
        have : y ≠ x := fun e => hnm _ (e ▸ hy)
        simp [this]
      · intro y _; rfl


/-- Linking an item that no worker of a conflicting kind executes preserves `InvX`. -/
theorem InvX_link (c c2 : Core) (hi : InvX c) (x : Nat) (H : list_head)
    (he : c2.entry = Function.update c.entry x (some H))
    (hf : ∀ y, y ≠ x → c2.func y = c.func y)
    (h3 : c2.cur_work = c.cur_work) (h4 : c2.cur_func = c.cur_func) (h5 : c2.wpool = c.wpool)
    (hs : ∀ k, H = list_head.scheduled k → ∀ k2, k2 ≠ k → c.wpool k2 = c.wpool k →
      ¬ (c.cur_work k2 = x ∧ c.cur_func k2 = c2.func x))
    (hb : c2.func x = wq_barrier_func → ∀ k, c.cur_work k ≠ x) : InvX c2 := by
  constructor
  · intro k y
    rw [he, h3, h4, h5]
    by_cases hy : y = x
    · subst hy
      simp only [Function.update_same]
      intro e
      exact hs k (Option.some.inj e)
    · simp only [Function.update_noteq hy]
      rw [hf y hy]
      exact hi.sched_excl k y
  · intro y
    rw [he, h3]
    by_cases hy : y = x
    · subst hy
      intro _ hbar
      exact hb hbar
    · simp only [Function.update_noteq hy]
      rw [hf y hy]
      exact hi.barrier_idle y
  · rw [h3, h4, h5]
    exact hi.uniq

theorem queued_barrier_eq_of (c c2 : Core) (p y : Nat)
    (h1 : (c2.entry y ≠ none ↔ c.entry y ≠ none)) (h2 : c2.pwq_of y = c.pwq_of y)
    (h3 : c2.func y = c.func y) : c2.queued_barrier p y = c.queued_barrier p y := by
  unfold Core.queued_barrier
  rw [h2, h3]
  simp only [h1]

theorem InvF_queue (c : Core) (hi : InvF c) (x q : Nat) (col : Int) (active : Bool)
    (hx : c.entry x = none) (hnb : c.func x ≠ wq_barrier_func) (h0 : 0 ≤ col) (h1 : col < 16) :
    InvF (c.queue x q col active) := by
  intro p D K hD hK
  have hD2 : ∀ y, c.entry y ≠ none → y ∈ D := by
    intro y hy
    apply hD
    have : y ≠ x := fun e => hy (e ▸ hx)
    unfold Core.queue
    split <;> simpa [Core.link, Core.set_word, Core.add_in_flight, Core.add_active, this] using hy
  have hK2 : ∀ k, c.cur_work k ≠ 0 → k ∈ K := by
    intro k hk
    apply hK
    unfold Core.queue
    split <;> simpa [Core.link, Core.set_word, Core.add_in_flight, Core.add_active] using hk
  have ih := hi p D K hD2 hK2
  have hb : (c.queue x q col active).barrier_count p D K = c.barrier_count p D K := by
    unfold Core.barrier_count
    congr 1
    · apply card_filter_congr
      intro y _
      unfold Core.queued_barrier Core.queue
      by_cases hy : y = x
      · subst hy
        split <;> simp [Core.link, Core.set_word, Core.add_in_flight, Core.add_active, hnb]
      · split <;> simp [Core.link, Core.set_word, Core.add_in_flight, Core.add_active, hy]
    · apply card_filter_congr
      intro k _
      unfold Core.running_barrier Core.queue
      split <;> simp [Core.link, Core.set_word, Core.add_in_flight, Core.add_active]
  rw [hb]
  cases active with
  | true =>
    have e1 : (c.queue x q col true).in_flight_sum p =
        c.in_flight_sum p + if p = q then 1 else 0 := by
      have := in_flight_sum_add ((c.set_word x q true true false false).link x
        (list_head.worklist (c.ppool q)) (c.lists (list_head.worklist (c.ppool q)) ++ [x]))
        q col 1 h0 h1 p
      simpa [Core.queue, Core.in_flight_sum, Core.add_active, Core.add_in_flight, Core.link,
        Core.set_word] using this
    have e2 : (c.queue x q col true).nr_active p = c.nr_active p + if p = q then 1 else 0 := by
      by_cases hp : p = q
      · subst hp; simp [Core.queue, Core.add_active, Core.add_in_flight, Core.link, Core.set_word]
      · simp [Core.queue, Core.add_active, Core.add_in_flight, Core.link, Core.set_word, hp]
    have e3 : (c.queue x q col true).inactive_count p = c.inactive_count p := by
      simp [Core.queue, Core.inactive_count, Core.add_active, Core.add_in_flight, Core.link,
        Core.set_word]
    rw [e1, e2, e3, ih]
    ring
  | false =>
    have e1 : (c.queue x q col false).in_flight_sum p =
        c.in_flight_sum p + if p = q then 1 else 0 := by
      have := in_flight_sum_add ((c.set_word x q true true true false).link x
        (list_head.inactive_works q) (c.lists (list_head.inactive_works q) ++ [x]))
        q col 1 h0 h1 p
      simpa [Core.queue, Core.in_flight_sum, Core.add_active, Core.add_in_flight, Core.link,
        Core.set_word] using this
    have e2 : (c.queue x q col false).nr_active p = c.nr_active p := by
      simp [Core.queue, Core.add_active, Core.add_in_flight, Core.link, Core.set_word]
    have e3 : ((c.queue x q col false).inactive_count p : Int) =
        c.inactive_count p + if p = q then 1 else 0 := by
      by_cases hp : p = q
      · subst hp
        simp [Core.queue, Core.inactive_count, Core.add_active, Core.add_in_flight, Core.link,
          Core.set_word, List.countP_append, hnb]
      · have : list_head.inactive_works p ≠ list_head.inactive_works q := by
          intro e; exact hp (list_head.inactive_works.inj e)
        simp [Core.queue, Core.inactive_count, Core.add_active, Core.add_in_flight, Core.link,
          Core.set_word, hp, Function.update_noteq this]
    rw [e1, e2, e3, ih]
    ring

/-- Queueing a work item that is not a barrier preserves the invariant. -/
theorem InvC_queue (c : Core) (hi : InvC c) (x q : Nat) (col : Int) (active : Bool)
    (hx : c.entry x = none) (hx0 : x ≠ 0) (hnb : c.func x ≠ wq_barrier_func)
    (h0 : 0 ≤ col) (h1 : col < 16) : InvC (c.queue x q col active) := by
  refine ⟨?_, ?_, ?_, InvF_queue c hi.f x q col active hx hnb h0 h1⟩
  · cases active with
    | true =>
      have := InvL_queue c hi.l x q false (list_head.worklist (c.ppool q)) hx hx0 hnb
        (Or.inl ⟨rfl, rfl⟩)
      exact InvL_congr _ _ this rfl rfl rfl rfl rfl rfl rfl rfl rfl rfl
    | false =>
      have := InvL_queue c hi.l x q true (list_head.inactive_works q) hx hx0 hnb
        (Or.inr ⟨rfl, rfl⟩)
      exact InvL_congr _ _ this rfl rfl rfl rfl rfl rfl rfl rfl rfl rfl
  · cases active <;> exact InvE_congr c _ hi.e rfl rfl rfl rfl rfl rfl rfl rfl rfl rfl rfl
  · cases active with
    | true =>
      exact InvX_link c _ hi.x x (list_head.worklist (c.ppool q)) rfl (fun _ _ => rfl) rfl rfl rfl
        (by intro k e; simp at e) (fun h => absurd h hnb)
    | false =>
      exact InvX_link c _ hi.x x (list_head.inactive_works q) rfl (fun _ _ => rfl) rfl rfl rfl
        (by intro k e; simp at e) (fun h => absurd h hnb)

/-! ## Inserting a barrier preserves the invariants -/

theorem nodup_insert_mid (pre post : List Nat) (t b : Nat) (h : (pre ++ t :: post).Nodup)
    (hb : b ∉ pre ++ t :: post) : (pre ++ t :: b :: post).Nodup := by
  rw [List.nodup_append] at h ⊢
  obtain ⟨h1, h2, h3⟩ := h
  rw [List.nodup_cons] at h2
  simp only [List.mem_append, List.mem_cons, not_or] at hb
  refine ⟨h1, ?_, ?_⟩
  · rw [List.nodup_cons, List.nodup_cons]
    refine ⟨?_, ?_, h2.2⟩
    · simp only [List.mem_cons, not_or]
      exact ⟨fun e => hb.2.1 e.symm, h2.1⟩
    · exact hb.2.2
  · intro a ha1 ha2
    rcases List.mem_cons.1 ha2 with e | e
    · exact h3 ha1 (e ▸ List.mem_cons_self _ _)
    · rcases List.mem_cons.1 e with e2 | e2
      · exact hb.1 (e2 ▸ ha1)
      · exact h3 ha1 (List.mem_cons_of_mem _ e2)

/-- The in-flight equation after a fresh barrier `b` was linked for `q`. -/
theorem InvF_barrier (c c2 : Core) (hi : InvF c) (b q : Nat) (col : Int) (H : list_head)
    (hb : c.entry b = none) (h0 : 0 ≤ col) (h1 : col < 16)
    (e_entry : c2.entry = Function.update c.entry b (some H))
    (e_pwq : c2.pwq_of = Function.update c.pwq_of b q)
    (e_func : c2.func = Function.update c.func b wq_barrier_func)
    (e_nif : c2.nr_in_flight = Function.update c.nr_in_flight q
      (Function.update (c.nr_in_flight q) col (c.nr_in_flight q col + 1)))
    (e_act : c2.nr_active = c.nr_active) (e_cw : c2.cur_work = c.cur_work)
    (e_cf : c2.cur_func = c.cur_func) (e_fp : c2.frame_pwq = c.frame_pwq)
    (e_cnt : ∀ p, c2.inactive_count p = c.inactive_count p) :
    InvF c2 := by
  intro p D K hD hK
  have hbD : b ∈ D := hD b (by rw [e_entry]; simp)
  have hD2 : ∀ y, c.entry y ≠ none → y ∈ D := by
    intro y hy
    apply hD
    have : y ≠ b := fun e => hy (e ▸ hb)
    rw [e_entry, Function.update_noteq this]
    exact hy
  have ih := hi p D K hD2 (by rw [← e_cw]; exact hK)
  have e1 : c2.in_flight_sum p = c.in_flight_sum p + if p = q then 1 else 0 := by
    have := in_flight_sum_add c q col 1 h0 h1 p
    unfold Core.in_flight_sum at this ⊢
    rw [e_nif]
    exact this
  have e4 := card_filter_point D (c.queued_barrier p) (c2.queued_barrier p) b hbD (by
    intro y _ hy
    unfold Core.queued_barrier
    rw [e_entry, e_pwq, e_func]
    simp only [Function.update_noteq hy])
  have e5 : c.queued_barrier p b = false := by
    unfold Core.queued_barrier
    simp [hb]
  have e6 : c2.queued_barrier p b = decide (q = p) := by
    unfold Core.queued_barrier
    rw [e_entry, e_pwq, e_func]
    simp
  have e7 : (K.filter (fun k => c2.running_barrier p k = true)).card =
      (K.filter (fun k => c.running_barrier p k = true)).card := by
    apply card_filter_congr
    intro k _
    unfold Core.running_barrier
    rw [e_cw, e_cf, e_fp]
  rw [e5, e6] at e4
  unfold Core.barrier_count at ih ⊢
  rw [e1, e_cnt p, e_act, e7, ih]
  push_cast
  by_cases hp : p = q
  · subst hp
    simp only [decide_True, if_true] at e4 ⊢
    simp only [Bool.false_eq_true, if_false] at e4
    omega
  · have hp2 : ¬ q = p := fun e => hp e.symm
    simp only [hp, hp2, decide_False, if_false, Bool.false_eq_true] at e4 ⊢
    omega

/-- Linking a fresh barrier right after a linked work item preserves the invariant. -/
theorem InvC_barrier_after (c : Core) (hi : InvC c) (b t : Nat) (col : Int) (H : list_head)
    (pre post : List Nat) (hb : c.entry b = none) (hb0 : b ≠ 0)
    (hL : c.lists H = pre ++ t :: post) (hfresh : ∀ k, c.cur_work k ≠ b)
    (h0 : 0 ≤ col) (h1 : col < 16) :
    InvC (c.barrier_after b t (c.pwq_of t) col H pre post) := by
  have hnm := hi.l.not_mem b hb
  have hbL : b ∉ pre ++ t :: post := by rw [← hL]; exact hnm H
  have hbt : b ≠ t := by
    intro e; apply hbL; simp [e]
  have htH : c.entry t = some H := by
    rw [← hi.l.mem_entry, hL]; simp
  have hnd : (pre ++ t :: post).Nodup := by rw [← hL]; exact hi.l.nodup H
  have hlk : ∀ y, y ≠ t → y ≠ b →
      (c.barrier_after b t (c.pwq_of t) col H pre post).linked y = c.linked y := by
    intro y h1 h2
    simp [Core.barrier_after, h1, h2]
  have hlb : (c.barrier_after b t (c.pwq_of t) col H pre post).linked b = c.linked t := by
    simp [Core.barrier_after]
  have hlt : (c.barrier_after b t (c.pwq_of t) col H pre post).linked t = true := by
    simp [Core.barrier_after, Function.update_noteq hbt.symm]
  have hbr : ∀ y, y ≠ b →
      ((c.barrier_after b t (c.pwq_of t) col H pre post).func y = wq_barrier_func ↔
        c.func y = wq_barrier_func) := by
    intro y h2
    simp [Core.barrier_after, h2]
  have hbb : (c.barrier_after b t (c.pwq_of t) col H pre post).func b = wq_barrier_func := by
    simp [Core.barrier_after]
  refine ⟨?_, ?_, ?_, ?_⟩
  · apply InvL_link c (c.barrier_after b t (c.pwq_of t) col H pre post) hi.l b (c.pwq_of t) true H (pre ++ t :: b :: post) hb hb0 rfl rfl rfl rfl
      rfl rfl
    · intro y hy
      simp only [List.mem_append, List.mem_cons, not_or] at hy
      exact hlk y hy.2.1 hy.2.2.1
    · intro y hy
      simp [Core.barrier_after, hy]
    · rfl
    · rfl
    · exact nodup_insert_mid pre post t b hnd hbL
    · intro y
      rw [hL]
      simp only [List.mem_append, List.mem_cons]
      tauto
    · intro p hp
      subst hp
      exact ⟨(hi.l.typ_inactive p t htH).1, rfl⟩
    · intro P hp
      subst hp
      exact ⟨(hi.l.typ_worklist P t htH).1, fun h => absurd hbb h⟩
    · intro k hp
      subst hp
      exact ⟨(hi.l.typ_scheduled k t htH).1, fun h => absurd hbb h⟩
    · intro _; rfl
    · exact chain_ok_insert_after c.linked _ (fun x => c.func x = wq_barrier_func) _ pre post t b
        (hL ▸ hi.l.chain H) hbL hnd hlk hlb hbr hbb
    · intro p hp
      subst hp
      exact ichain_ok_insert_after c.linked _ (fun x => c.func x = wq_barrier_func) _ pre post t b
        (hL ▸ hi.l.ichain p) hbL hnd hlk hlb hlt hbr
  · exact InvE_congr c _ hi.e rfl rfl rfl rfl rfl rfl rfl rfl rfl rfl rfl
  · apply InvX_link c (c.barrier_after b t (c.pwq_of t) col H pre post) hi.x b H rfl _ rfl rfl rfl
    · intro k _ k2 _ _ hh
      exact hfresh k2 hh.1
    · intro _; exact hfresh
    · intro y hy
      simp [Core.barrier_after, hy]
  · apply InvF_barrier c (c.barrier_after b t (c.pwq_of t) col H pre post) hi.f b (c.pwq_of t) col H hb h0 h1 rfl rfl rfl rfl rfl rfl rfl rfl
    intro p
    unfold Core.inactive_count
    by_cases hp : list_head.inactive_works p = H
    · subst hp
      have e1 : (c.barrier_after b t (c.pwq_of t) col (list_head.inactive_works p) pre post).lists
          (list_head.inactive_works p) = pre ++ t :: b :: post := by
        simp [Core.barrier_after]
      rw [e1, hL]
      have e2 : ∀ l : List Nat, b ∉ l → l.countP (fun x => decide
          ((c.barrier_after b t (c.pwq_of t) col (list_head.inactive_works p) pre post).func x ≠
            wq_barrier_func)) = l.countP (fun x => decide (c.func x ≠ wq_barrier_func)) := by
        intro l hl
        apply countP_congr_mem
        intro y hy
        have : y ≠ b := fun e => hl (e ▸ hy)
        simp [Core.barrier_after, this]
      simp only [List.mem_append, List.mem_cons, not_or] at hbL
      rw [List.countP_append, List.countP_cons, List.countP_cons, List.countP_append,
        List.countP_cons, e2 pre hbL.1, e2 post hbL.2.2]
      simp [Core.barrier_after, hbt.symm]
    · have e1 : (c.barrier_after b t (c.pwq_of t) col H pre post).lists
          (list_head.inactive_works p) = c.lists (list_head.inactive_works p) := by
        simp [Core.barrier_after, Function.update_noteq hp]
      rw [e1]
      apply countP_congr_mem
      intro y hy
      have : y ≠ b := fun e => hnm _ (e ▸ hy)
      simp [Core.barrier_after, this]

/-- Linking a fresh barrier at the front of the `scheduled` list of an executing worker
preserves the invariant. -/
theorem InvC_barrier_front (c : Core) (hi : InvC c) (b k : Nat) (hb : c.entry b = none)
    (hb0 : b ≠ 0) (hk : c.cur_work k ≠ 0) (hfresh : ∀ k, c.cur_work k ≠ b) :
    InvC (c.barrier_front b k (c.cur_pwq k) (c.cur_color k)) := by
  have hnm := hi.l.not_mem b hb
  have hbb : (c.barrier_front b k (c.cur_pwq k) (c.cur_color k)).func b = wq_barrier_func := by
    simp [Core.barrier_front]
  refine ⟨?_, ?_, ?_, ?_⟩
  · apply InvL_link c (c.barrier_front b k (c.cur_pwq k) (c.cur_color k)) hi.l b (c.cur_pwq k) true
      (list_head.scheduled k)
      (b :: c.lists (list_head.scheduled k)) hb hb0 rfl rfl rfl rfl rfl rfl
    · intro y hy
      simp only [List.mem_cons, not_or] at hy
      simp [Core.barrier_front, hy.1]
    · intro y hy
      simp [Core.barrier_front, hy]
    · rfl
    · rfl
    · exact List.nodup_cons.2 ⟨hnm _, hi.l.nodup _⟩
    · intro y; simp
    · intro p hp; simp at hp
    · intro P hp; simp at hp
    · intro k2 hp
      have := list_head.scheduled.inj hp
      subst this
      exact ⟨(hi.e.exec_pwq k hk).2.1, fun h => absurd hbb h⟩
    · intro _; rfl
    · apply chain_ok_cons
      · apply chain_ok_congr _ _ _ _ _ _ _ (hi.l.chain (list_head.scheduled k))
        · intro y hy
          have : y ≠ b := fun e => hnm _ (e ▸ hy)
          simp [Core.barrier_front, this]
        · intro y hy
          have : y ≠ b := fun e => hnm _ (e ▸ hy)
          simp [Core.barrier_front, this]
      · simp [Core.barrier_front]
    · intro p hp; simp at hp
  · exact InvE_congr c _ hi.e rfl rfl rfl rfl rfl rfl rfl rfl rfl rfl rfl
  · apply InvX_link c (c.barrier_front b k (c.cur_pwq k) (c.cur_color k)) hi.x b (list_head.scheduled k) rfl _ rfl rfl rfl
    · intro k _ k2 _ _ hh
      exact hfresh k2 hh.1
    · intro _; exact hfresh
    · intro y hy
      simp [Core.barrier_front, hy]
  · apply InvF_barrier c (c.barrier_front b k (c.cur_pwq k) (c.cur_color k)) hi.f b (c.cur_pwq k) (c.cur_color k)
      (list_head.scheduled k) hb
      (hi.e.exec_color k hk).1 (hi.e.exec_color k hk).2 rfl rfl rfl rfl rfl rfl rfl rfl
    intro p
    unfold Core.inactive_count
    have e1 : (c.barrier_front b k (c.cur_pwq k) (c.cur_color k)).lists
        (list_head.inactive_works p) = c.lists (list_head.inactive_works p) := by
      simp [Core.barrier_front]
    rw [e1]
    apply countP_congr_mem
    intro y hy
    have : y ≠ b := fun e => hnm _ (e ▸ hy)
    simp [Core.barrier_front, this]

/-! ## Moving a series of linked work items preserves the invariants -/

/-- The segment `run` of the list `h0` is moved to the tail of the list `hd`; INACTIVE may
change on the items of the segment. -/
theorem InvL_move (c c2 : Core) (hi : InvL c) (h0 hd : list_head) (pre run rest : List Nat)
    (e_lists : c2.lists = Function.update (Function.update c.lists h0 (pre ++ rest)) hd
      (c.lists hd ++ run))
    (e_entry : c2.entry = fun x => if x ∈ run then some hd else c.entry x)
    (e_pwq : c2.pwq_of = c.pwq_of) (e_has : c2.has_pwq = c.has_pwq)
    (e_pend : c2.pending = c.pending)
    (e_inact : ∀ y, y ∉ run → c2.inact y = c.inact y)
    (e_linked : c2.linked = c.linked) (e_func : c2.func = c.func)
    (e_ppool : c2.ppool = c.ppool) (e_wpool : c2.wpool = c.wpool)
    (hL : c.lists h0 = pre ++ run ++ rest) (hne : h0 ≠ hd) (hrun : run ≠ [])
    (hA : ∀ a, pre.getLast? = some a → c.linked a = false)
    (hB : ∀ z, run.getLast? = some z → c.linked z = false)
    (ht1 : ∀ p, hd ≠ list_head.inactive_works p)
    (ht2 : ∀ P, hd = list_head.worklist P → ∀ y ∈ run,
      c.ppool (c.pwq_of y) = P ∧ (c.func y ≠ wq_barrier_func → c2.inact y = false))
    (ht3 : ∀ k, hd = list_head.scheduled k → ∀ y ∈ run,
      c.ppool (c.pwq_of y) = c.wpool k ∧ (c.func y ≠ wq_barrier_func → c2.inact y = false))
    (hbar : ∀ y ∈ run, c.func y = wq_barrier_func → c2.inact y = true) : InvL c2 := by
  have hnd0 : (pre ++ run ++ rest).Nodup := hL ▸ hi.nodup h0
  have hrun0 : ∀ y ∈ run, c.entry y = some h0 := by
    intro y hy
    rw [← hi.mem_entry, hL]
    simp [hy]
  have hrun_pre : ∀ y ∈ run, y ∉ pre ++ rest := by
    intro y hy hm
    rw [List.append_assoc] at hnd0
    have h1 := List.nodup_append.1 hnd0
    have h2 := List.nodup_append.1 h1.2.1
    rcases List.mem_append.1 hm with e | e
    · exact h1.2.2 e (List.mem_append_left _ hy)
    · exact h2.2.2 hy e
  have hrun_d : ∀ y ∈ run, y ∉ c.lists hd := by
    intro y hy hm
    rw [hi.mem_entry, hrun0 y hy] at hm
    exact hne (Option.some.inj hm)
  have hnone : ∀ y, (c2.entry y ≠ none ↔ c.entry y ≠ none) := by
    intro y
    rw [e_entry]
    by_cases hy : y ∈ run
    · simp [hy, hrun0 y hy]
    · simp [hy]
  have hlists : ∀ h, c2.lists h = if h = hd then c.lists hd ++ run
      else if h = h0 then pre ++ rest else c.lists h := by
    intro h
    rw [e_lists]
    by_cases h1 : h = hd
    · subst h1; simp
    · by_cases h2 : h = h0
      · subst h2; simp [h1]
      · simp [h1, h2]
  constructor
  · intro h
    rw [hlists]
    split_ifs with h1 h2
    · apply List.Nodup.append (hi.nodup hd)
      · rw [List.append_assoc] at hnd0
        exact (List.nodup_append.1 (List.nodup_append.1 hnd0).2.1).1
      · intro a ha1 ha2
        exact hrun_d a ha2 ha1
    · rw [List.append_assoc] at hnd0
      have h3 := List.nodup_append.1 hnd0
      have h4 := List.nodup_append.1 h3.2.1
      apply List.Nodup.append h3.1 h4.2.1
      intro a ha1 ha2
      exact h3.2.2 ha1 (List.mem_append_right _ ha2)
    · exact hi.nodup h
  · intro h y
    rw [hlists, e_entry]
    by_cases hy : y ∈ run
    · simp only [hy, if_true]
      split_ifs with h1 h2
      · subst h1; simp [hy]
      · constructor
        · intro hm; exact absurd hm (hrun_pre y hy)
        · intro e; exact absurd (Option.some.inj e).symm h1
      · constructor
        · intro hm
          rw [hi.mem_entry, hrun0 y hy] at hm
          exact absurd (Option.some.inj hm).symm h2
        · intro e; exact absurd (Option.some.inj e).symm h1
    · simp only [hy, if_false]
      split_ifs with h1 h2
      · subst h1
        rw [← hi.mem_entry]
        simp [hy]
      · subst h2
        rw [← hi.mem_entry, hL]
        simp [hy]
      · exact hi.mem_entry h y
  · have : c2.entry 0 = none := by
      by_contra hc
      exact ((hnone 0).1 hc) hi.nonzero
    exact this
  · intro y
    rw [e_has, hnone]
    exact hi.has_pwq y
  · intro y
    rw [e_pend, hnone]
    exact hi.pending y
  · intro p y
    rw [e_entry, e_pwq]
    by_cases hy : y ∈ run
    · simp only [hy, if_true]
      intro e
      exact absurd (Option.some.inj e) (ht1 p)
    · simp only [hy, if_false]
      rw [e_inact y hy]
      exact hi.typ_inactive p y
  · intro P y
    rw [e_entry, e_pwq, e_ppool, e_func]
    by_cases hy : y ∈ run
    · simp only [hy, if_true]
      intro e
      exact ht2 P (Option.some.inj e) y hy
    · simp only [hy, if_false]
      rw [e_inact y hy]
      exact hi.typ_worklist P y
  · intro k y
    rw [e_entry, e_pwq, e_ppool, e_func, e_wpool]
    by_cases hy : y ∈ run
    · simp only [hy, if_true]
      intro e
      exact ht3 k (Option.some.inj e) y hy
    · simp only [hy, if_false]
      rw [e_inact y hy]
      exact hi.typ_scheduled k y
  · intro y
    rw [hnone, e_func]
    by_cases hy : y ∈ run
    · intro _ hb
      exact hbar y hy hb
    · rw [e_inact y hy]
      exact hi.barrier_inact y
  · intro h
    rw [hlists, e_linked, e_func]
    split_ifs with h1 h2
    · apply chain_ok_append _ _ _ _ (hi.chain hd) _ hB
      exact segment_chain _ pre run rest (hL ▸ (hi.chain h0).1)
    · exact chain_ok_remove _ _ pre run rest (hL ▸ hi.chain h0) hA
    · exact hi.chain h
  · intro p
    rw [hlists, e_linked, e_func]
    split_ifs with h1 h2
    · exact absurd h1.symm (ht1 p)
    · rw [← h2] at hL
      exact ichain_ok_remove _ _ pre run rest (hL ▸ hi.ichain p) hrun hA hB
    · exact hi.ichain p

theorem InvX_move (c c2 : Core) (hi : InvX c) (hd : list_head) (run : List Nat)
    (e_entry : c2.entry = fun x => if x ∈ run then some hd else c.entry x)
    (e_func : c2.func = c.func) (e_cw : c2.cur_work = c.cur_work)
    (e_cf : c2.cur_func = c.cur_func) (e_wpool : c2.wpool = c.wpool)
    (hrun : ∀ y ∈ run, c.entry y ≠ none)
    (hs : ∀ k, hd = list_head.scheduled k → ∀ y ∈ run, ∀ k2, k2 ≠ k →
      c.wpool k2 = c.wpool k → ¬ (c.cur_work k2 = y ∧ c.cur_func k2 = c.func y)) :
    InvX c2 := by
  constructor
  · intro k y
    rw [e_entry, e_func, e_cw, e_cf, e_wpool]
    by_cases hy : y ∈ run
    · simp only [hy, if_true]
      intro e
      exact hs k (Option.some.inj e) y hy
    · simp only [hy, if_false]
      exact hi.sched_excl k y
  · intro y
    rw [e_entry, e_func, e_cw]
    by_cases hy : y ∈ run
    · intro _
      exact hi.barrier_idle y (hrun y hy)
    · simp only [hy, if_false]
      exact hi.barrier_idle y
  · rw [e_cw, e_cf, e_wpool]
    exact hi.uniq

/-- The in-flight equation is kept when the barrier predicates and the in-flight counters
are kept and `nr_active` grows by what the count of inactive items shrinks. -/
theorem InvF_same (c c2 : Core) (hi : InvF c)
    (h_entry : ∀ y, (c2.entry y ≠ none ↔ c.entry y ≠ none))
    (h_qb : ∀ p y, c2.queued_barrier p y = c.queued_barrier p y)
    (h_rb : ∀ p k, c2.running_barrier p k = c.running_barrier p k)
    (h_cw : c2.cur_work = c.cur_work)
    (h_nif : c2.nr_in_flight = c.nr_in_flight)
    (h_sum : ∀ p, c2.nr_active p + (c2.inactive_count p : Int) =
      c.nr_active p + (c.inactive_count p : Int)) : InvF c2 := by
  intro p D K hD hK
  have ih := hi p D K (fun y hy => hD y ((h_entry y).2 hy)) (by rw [← h_cw]; exact hK)
  have e1 : c2.in_flight_sum p = c.in_flight_sum p := by
    unfold Core.in_flight_sum
    rw [h_nif]
  have e2 : c2.barrier_count p D K = c.barrier_count p D K := by
    unfold Core.barrier_count
    congr 1
    · apply card_filter_congr
      intro y _
      exact h_qb p y
    · apply card_filter_congr
      intro k _
      exact h_rb p k
  rw [e1, e2, ih]
  have := h_sum p
  omega

/-- Activating a work item that is not a barrier, with the barriers linked after it,
preserves the invariant. -/
theorem InvC_activate (c : Core) (hi : InvC c) (w : Nat) (pre bs rest : List Nat)
    (hL : c.lists (list_head.inactive_works (c.pwq_of w)) = pre ++ (w :: bs) ++ rest)
    (hw : c.func w ≠ wq_barrier_func)
    (hA : ∀ a, pre.getLast? = some a → c.linked a = false)
    (hB : ∀ z, (w :: bs).getLast? = some z → c.linked z = false)
    (hbs : ∀ y ∈ bs, c.func y = wq_barrier_func) :
    InvC (c.activate w pre (w :: bs) rest) := by
  have hrun0 : ∀ y ∈ w :: bs, c.entry y = some (list_head.inactive_works (c.pwq_of w)) := by
    intro y hy
    rw [← hi.l.mem_entry, hL]
    simp only [List.mem_append]
    exact Or.inl (Or.inr hy)
  have hwb : ∀ y ∈ w :: bs, c.func y = wq_barrier_func → y ≠ w := by
    intro y _ hb e
    rw [e] at hb
    exact hw hb
  refine ⟨?_, ?_, ?_, ?_⟩
  · apply InvL_move c (c.activate w pre (w :: bs) rest) hi.l
      (list_head.inactive_works (c.pwq_of w)) (list_head.worklist (c.ppool (c.pwq_of w)))
      pre (w :: bs) rest rfl rfl rfl rfl rfl _ rfl rfl rfl rfl hL (by simp) (by simp) hA hB
    · intro p; simp
    · intro P hP y hy
      have hP2 := list_head.worklist.inj hP
      constructor
      · rw [(hi.l.typ_inactive _ y (hrun0 y hy)).1]
        exact hP2
      · intro hnb
        rcases List.mem_cons.1 hy with e | e
        · subst e; simp [Core.activate]
        · exact absurd (hbs y e) hnb
    · intro k hk; simp at hk
    · intro y hy hb
      have : y ≠ w := hwb y hy hb
      simp only [Core.activate, Function.update_noteq this]
      exact (hi.l.typ_inactive _ y (hrun0 y hy)).2
    · intro y hy
      have : y ≠ w := by
        intro e; apply hy; simp [e]
      simp [Core.activate, this]
  · exact InvE_congr c _ hi.e rfl rfl rfl rfl rfl rfl rfl rfl rfl rfl rfl
  · apply InvX_move c (c.activate w pre (w :: bs) rest) hi.x
      (list_head.worklist (c.ppool (c.pwq_of w))) (w :: bs) rfl rfl rfl rfl rfl
    · intro y hy
      rw [hrun0 y hy]; simp
    · intro k hk; simp at hk
  · have hent : ∀ y, ((c.activate w pre (w :: bs) rest).entry y ≠ none ↔ c.entry y ≠ none) := by
      intro y
      by_cases hy : y ∈ w :: bs
      · have h2 : (c.activate w pre (w :: bs) rest).entry y =
            some (list_head.worklist (c.ppool (c.pwq_of w))) := by
          simp only [Core.activate, Core.move_run, hy, if_true]
        rw [h2, hrun0 y hy]
        simp
      · simp only [Core.activate, Core.move_run, hy, if_false]
    apply InvF_same c (c.activate w pre (w :: bs) rest) hi.f hent
    · intro p y
      unfold Core.queued_barrier
      simp only [hent y]
      rfl
    · intro p k; rfl
    · rfl
    · rfl
    · intro p
      unfold Core.inactive_count
      by_cases hp : p = c.pwq_of w
      · subst hp
        have e1 : (c.activate w pre (w :: bs) rest).lists (list_head.inactive_works (c.pwq_of w))
            = pre ++ rest := by
          simp [Core.activate, Core.move_run]
        have e2 : (w :: bs).countP (fun x => decide (c.func x ≠ wq_barrier_func)) = 1 := by
          apply countP_run
          · simpa using hw
          · intro y hy
            simp [hbs y hy]
        have ef : (c.activate w pre (w :: bs) rest).func = c.func := rfl
        have ena : (c.activate w pre (w :: bs) rest).nr_active (c.pwq_of w) =
            c.nr_active (c.pwq_of w) + 1 := by
          simp [Core.activate]
        rw [e1, hL, ef, ena]
        rw [List.countP_append, List.countP_append, List.countP_append, e2]
        push_cast
        ring
      · have e1 : (c.activate w pre (w :: bs) rest).lists (list_head.inactive_works p)
            = c.lists (list_head.inactive_works p) := by
          have : list_head.inactive_works p ≠ list_head.inactive_works (c.pwq_of w) := by
            intro e; exact hp (list_head.inactive_works.inj e)
          simp [Core.activate, Core.move_run, this]
        have ef : (c.activate w pre (w :: bs) rest).func = c.func := rfl
        have ena : (c.activate w pre (w :: bs) rest).nr_active p = c.nr_active p := by
          simp [Core.activate, Function.update_noteq hp]
        rw [e1, ef, ena]

/-- Assigning a series of linked work items from the pool worklist to a worker of the pool
preserves the invariant when no other worker of the pool executes the first item. -/
theorem InvC_assign (c : Core) (hi : InvC c) (P k : Nat) (w : Nat) (pre bs rest : List Nat)
    (hL : c.lists (list_head.worklist P) = pre ++ (w :: bs) ++ rest)
    (hA : ∀ a, pre.getLast? = some a → c.linked a = false)
    (hB : ∀ z, (w :: bs).getLast? = some z → c.linked z = false)
    (hbs : ∀ y ∈ bs, c.func y = wq_barrier_func)
    (hk : c.wpool k = P)
    (hex : ∀ k2, k2 ≠ k → c.wpool k2 = c.wpool k →
      ¬ (c.cur_work k2 = w ∧ c.cur_func k2 = c.func w)) :
    InvC (c.move_run (list_head.worklist P) (list_head.scheduled k) pre (w :: bs) rest) := by
  have hrun0 : ∀ y ∈ w :: bs, c.entry y = some (list_head.worklist P) := by
    intro y hy
    rw [← hi.l.mem_entry, hL]
    simp only [List.mem_append]
    exact Or.inl (Or.inr hy)
  refine ⟨?_, ?_, ?_, ?_⟩
  · apply InvL_move c (c.move_run (list_head.worklist P) (list_head.scheduled k) pre (w :: bs) rest) hi.l
      (list_head.worklist P) (list_head.scheduled k)
      pre (w :: bs) rest rfl rfl rfl rfl rfl _ rfl rfl rfl rfl hL (by simp) (by simp) hA hB
    · intro p; simp
    · intro P2 hP; simp at hP
    · intro k2 hk2 y hy
      have := list_head.scheduled.inj hk2
      subst this
      rw [hk]
      exact hi.l.typ_worklist P y (hrun0 y hy)
    · intro y hy hb
      exact hi.l.barrier_inact y (by rw [hrun0 y hy]; simp) hb
    · intro y _; rfl
  · exact InvE_congr c _ hi.e rfl rfl rfl rfl rfl rfl rfl rfl rfl rfl rfl
  · apply InvX_move c (c.move_run (list_head.worklist P) (list_head.scheduled k) pre (w :: bs) rest) hi.x
      (list_head.scheduled k) (w :: bs) rfl rfl rfl rfl rfl
    · intro y hy
      rw [hrun0 y hy]; simp
    · intro k2 hk2 y hy k3 hk3 hp
      have := list_head.scheduled.inj hk2
      subst this
      rcases List.mem_cons.1 hy with e | e
      · subst e
        exact hex k3 hk3 hp
      · intro hh
        exact hi.x.barrier_idle y (by rw [hrun0 y hy]; simp) (hbs y e) k3 hh.1
  · have hent : ∀ y, ((c.move_run (list_head.worklist P) (list_head.scheduled k) pre (w :: bs)
        rest).entry y ≠ none ↔ c.entry y ≠ none) := by
      intro y
      by_cases hy : y ∈ w :: bs
      · have h2 : (c.move_run (list_head.worklist P) (list_head.scheduled k) pre (w :: bs)
            rest).entry y = some (list_head.scheduled k) := by
          simp only [Core.move_run, hy, if_true]
        rw [h2, hrun0 y hy]
        simp
      · simp only [Core.move_run, hy, if_false]
    apply InvF_same c (c.move_run (list_head.worklist P) (list_head.scheduled k) pre (w :: bs) rest) hi.f hent
    · intro p y
      unfold Core.queued_barrier
      simp only [hent y]
      rfl
    · intro p k; rfl
    · rfl
    · rfl
    · intro p
      unfold Core.inactive_count
      have e1 : (c.move_run (list_head.worklist P) (list_head.scheduled k) pre (w :: bs)
          rest).lists (list_head.inactive_works p) = c.lists (list_head.inactive_works p) := by
        simp [Core.move_run]
      rw [e1]
      rfl

/-! ## Unlinking a work item preserves the invariants -/

/-- The work item `x` is unlinked from the list `H`, which is not an `inactive_works`
list; `x` is not a barrier or it is the first item of the list. -/
theorem InvL_unlink (c c2 : Core) (hi : InvL c) (x : Nat) (H : list_head) (pre post : List Nat)
    (e_lists : c2.lists = Function.update c.lists H (pre ++ post))
    (e_entry : c2.entry = Function.update c.entry x none)
    (e_has : c2.has_pwq = Function.update c.has_pwq x false)
    (e_pwq : ∀ y, y ≠ x → c2.pwq_of y = c.pwq_of y)
    (e_pend : ∀ y, y ≠ x → c2.pending y = c.pending y)
    (e_inact : ∀ y, y ≠ x → c2.inact y = c.inact y)
    (e_linked : ∀ y, y ≠ x → c2.linked y = c.linked y)
    (e_func : c2.func = c.func) (e_ppool : c2.ppool = c.ppool) (e_wpool : c2.wpool = c.wpool)
    (hL : c.lists H = pre ++ x :: post)
    (hx : c.func x ≠ wq_barrier_func ∨ pre = [])
    (hH : ∀ p, H ≠ list_head.inactive_works p) : InvL c2 := by
  have hnd : (pre ++ x :: post).Nodup := hL ▸ hi.nodup H
  have hxH : c.entry x = some H := by
    rw [← hi.mem_entry, hL]; simp
  have hxn : x ∉ pre ++ post := by
    intro hm
    have h1 := List.nodup_append.1 hnd
    rcases List.mem_append.1 hm with e | e
    · exact h1.2.2 e (List.mem_cons_self _ _)
    · exact (List.nodup_cons.1 h1.2.1).1 e
  have hother : ∀ h, h ≠ H → ∀ y ∈ c.lists h, y ≠ x := by
    intro h hh y hy e
    rw [e, hi.mem_entry, hxH] at hy
    exact hh (Option.some.inj hy).symm
  constructor
  · intro h
    rw [e_lists]
    by_cases hh : h = H
    · subst hh
      simp only [Function.update_same]
      exact List.Nodup.sublist (by simp) hnd
    · simp only [Function.update_noteq hh]
      exact hi.nodup h
  · intro h y
    rw [e_lists, e_entry]
    by_cases hy : y = x
    · subst hy
      simp only [Function.update_same]
      constructor
      · intro hm
        by_cases hh : h = H
        · subst hh
          simp only [Function.update_same] at hm
          exact absurd hm hxn
        · simp only [Function.update_noteq hh] at hm
          exact absurd rfl (hother h hh y hm)
      · intro e; exact absurd e (by simp)
    · simp only [Function.update_noteq hy]
      by_cases hh : h = H
      · subst hh
        simp only [Function.update_same]
        rw [← hi.mem_entry, hL]
        simp [hy]
      · simp only [Function.update_noteq hh]
        exact hi.mem_entry h y
  · rw [e_entry]
    by_cases h0 : (0 : Nat) = x
    · subst h0; simp
    · rw [Function.update_noteq h0]
      exact hi.nonzero
  · intro y
    rw [e_has, e_entry]
    by_cases hy : y = x
    · subst hy; simp
    · simp only [Function.update_noteq hy]
      exact hi.has_pwq y
  · intro y
    rw [e_entry]
    by_cases hy : y = x
    · subst hy; simp
    · simp only [Function.update_noteq hy]
      rw [e_pend y hy]
      exact hi.pending y
  · intro p y
    rw [e_entry]
    by_cases hy : y = x
    · subst hy; simp
    · simp only [Function.update_noteq hy]
      rw [e_pwq y hy, e_inact y hy]
      exact hi.typ_inactive p y
  · intro P y
    rw [e_entry, e_func, e_ppool]
    by_cases hy : y = x
    · subst hy; simp
    · simp only [Function.update_noteq hy]
      rw [e_pwq y hy, e_inact y hy]
      exact hi.typ_worklist P y
  · intro k y
    rw [e_entry, e_func, e_ppool, e_wpool]
    by_cases hy : y = x
    · subst hy; simp
    · simp only [Function.update_noteq hy]
      rw [e_pwq y hy, e_inact y hy]
      exact hi.typ_scheduled k y
  · intro y
    rw [e_entry, e_func]
    by_cases hy : y = x
    · subst hy; simp
    · simp only [Function.update_noteq hy]
      rw [e_inact y hy]
      exact hi.barrier_inact y
  · intro h
    rw [e_lists, e_func]
    by_cases hh : h = H
    · subst hh
      simp only [Function.update_same]
      have hc : chain_ok c.linked (fun x => c.func x = wq_barrier_func) (pre ++ post) := by
        rcases hx with hx | hx
        · exact chain_ok_erase _ _ pre post x (hL ▸ hi.chain h) hx
        · subst hx
          have hc0 := hi.chain h
          rw [hL, List.nil_append] at hc0
          rw [List.nil_append]
          exact chain_ok_tail _ _ post x hc0
      apply chain_ok_congr _ _ _ _ _ _ _ hc
      · intro y hy
        exact e_linked y (fun e => hxn (e ▸ hy))
      · intro y _; rfl
    · simp only [Function.update_noteq hh]
      apply chain_ok_congr _ _ _ _ _ _ _ (hi.chain h)
      · intro y hy
        exact e_linked y (hother h hh y hy)
      · intro y _; rfl
  · intro p
    rw [e_lists, e_func]
    have hh : list_head.inactive_works p ≠ H := fun e => hH p e.symm
    simp only [Function.update_noteq hh]
    apply ichain_ok_congr _ _ _ _ _ _ _ (hi.ichain p)
    · intro y hy
      exact e_linked y (hother _ hh y hy)
    · intro y _; rfl

/-- Stealing a linked work item that is active and not a barrier preserves the invariant. -/
theorem InvC_leave (c : Core) (hi : InvC c) (x : Nat) (H : list_head) (pre post : List Nat)
    (q2 : Nat) (pd ia lk : Bool) (col : Int) (hL : c.lists H = pre ++ x :: post)
    (hx : c.func x ≠ wq_barrier_func) (hH : ∀ p, H ≠ list_head.inactive_works p)
    (h0 : 0 ≤ col) (h1 : col < 16) :
    InvC (c.leave x H pre post q2 pd ia lk col) := by
  have hxH : c.entry x = some H := by
    rw [← hi.l.mem_entry, hL]; simp
  refine ⟨?_, ?_, ?_, ?_⟩
  · apply InvL_unlink c (c.leave x H pre post q2 pd ia lk col) hi.l x H pre post rfl rfl rfl
      _ _ _ _ rfl rfl rfl hL (Or.inl hx) hH
    all_goals
      intro y hy
      simp [Core.leave, hy]
  · exact InvE_congr c _ hi.e rfl rfl rfl rfl rfl rfl rfl rfl rfl rfl rfl
  · constructor
    · intro k y
      by_cases hy : y = x
      · subst hy; simp [Core.leave]
      · simp only [Core.leave, Function.update_noteq hy]
        exact hi.x.sched_excl k y
    · intro y
      by_cases hy : y = x
      · subst hy; simp [Core.leave]
      · simp only [Core.leave, Function.update_noteq hy]
        exact hi.x.barrier_idle y
    · exact hi.x.uniq
  · intro p D K hD hK
    have hD2 : ∀ y, c.entry y ≠ none → y ∈ insert x D := by
      intro y hy
      by_cases hyx : y = x
      · subst hyx; simp
      · apply Finset.mem_insert_of_mem
        apply hD
        simp only [Core.leave, Function.update_noteq hyx]
        exact hy
    have ih := hi.f p (insert x D) K hD2 hK
    have e1 : (c.leave x H pre post q2 pd ia lk col).in_flight_sum p =
        c.in_flight_sum p + if p = c.pwq_of x then -1 else 0 := by
      have := in_flight_sum_add c (c.pwq_of x) col (-1) h0 h1 p
      unfold Core.in_flight_sum at this ⊢
      exact this
    have e2 : (c.leave x H pre post q2 pd ia lk col).nr_active p =
        c.nr_active p + if p = c.pwq_of x then -1 else 0 := by
      by_cases hp : p = c.pwq_of x
      · rw [hp]; simp [Core.leave]; ring
      · simp [Core.leave, Function.update_noteq hp, hp]
    have e3 : (c.leave x H pre post q2 pd ia lk col).inactive_count p = c.inactive_count p := by
      unfold Core.inactive_count
      have : list_head.inactive_works p ≠ H := fun e => hH p e.symm
      simp only [Core.leave, Function.update_noteq this]
    have e4 : (c.leave x H pre post q2 pd ia lk col).barrier_count p D K =
        c.barrier_count p (insert x D) K := by
      unfold Core.barrier_count
      congr 1
      have hq : ∀ y, (c.leave x H pre post q2 pd ia lk col).queued_barrier p y =
          c.queued_barrier p y := by
        intro y
        unfold Core.queued_barrier
        by_cases hyx : y = x
        · subst hyx
          simp [Core.leave, hx]
        · simp only [Core.leave, Function.update_noteq hyx]
      rw [card_filter_cover D (insert x D) ((c.leave x H pre post q2 pd ia lk col).queued_barrier p)]
      · apply card_filter_congr
        intro y _
        exact hq y
      · intro y hy
        apply hD
        unfold Core.queued_barrier at hy
        simp only [decide_eq_true_eq] at hy
        exact hy.1
      · intro y hy
        apply Finset.mem_insert_of_mem
        apply hD
        unfold Core.queued_barrier at hy
        simp only [decide_eq_true_eq] at hy
        exact hy.1
    rw [e1, e2, e3, e4, ih]
    ring

/-! ## Executing a work item preserves the invariants -/

theorem InvL.entry_ne_zero {c : Core} (hi : InvL c) (y : Nat) (h : c.entry y ≠ none) : y ≠ 0 := by
  intro e
  rw [e] at h
  exact h hi.nonzero

/-- Claiming the first item of a worker's `scheduled` list for execution preserves the
invariant. -/
theorem InvC_start (c : Core) (hi : InvC c) (k w : Nat) (rest : List Nat) (q2 : Nat)
    (pd ia lk : Bool) (col : Int) (hL : c.lists (list_head.scheduled k) = w :: rest)
    (hk : c.cur_work k = 0) (hk0 : k ≠ 0) (h0 : 0 ≤ col) (h1 : col < 16)
    (hal : aligned_pwq (c.pwq_of w)) :
    InvC (c.start k w rest q2 pd ia lk col) := by
  have hwk : c.entry w = some (list_head.scheduled k) := by
    rw [← hi.l.mem_entry, hL]; simp
  have hw0 : w ≠ 0 := hi.l.entry_ne_zero w (by rw [hwk]; simp)
  have hkb : k ∉ c.busy (c.wpool k) := by
    intro hm
    exact ((hi.e.busy_mem _ k).1 hm).1 hk
  have hcw : ∀ k2, (c.start k w rest q2 pd ia lk col).cur_work k2 =
      if k2 = k then w else c.cur_work k2 := by
    intro k2
    by_cases h : k2 = k
    · subst h; simp [Core.start]
    · simp [Core.start, h]
  have hcf : ∀ k2, (c.start k w rest q2 pd ia lk col).cur_func k2 =
      if k2 = k then c.func w else c.cur_func k2 := by
    intro k2
    by_cases h : k2 = k
    · subst h; simp [Core.start]
    · simp [Core.start, h]
  refine ⟨?_, ?_, ?_, ?_⟩
  · apply InvL_unlink c (c.start k w rest q2 pd ia lk col) hi.l w (list_head.scheduled k) [] rest
      rfl rfl rfl _ _ _ _ rfl rfl rfl hL (Or.inr rfl) (by intro p; simp)
    all_goals
      intro y hy
      simp [Core.start, hy]
  · constructor
    · intro P
      by_cases hP : P = c.wpool k
      · subst hP
        simp only [Core.start, Function.update_same]
        exact List.nodup_cons.2 ⟨hkb, hi.e.busy_nodup _⟩
      · simp only [Core.start, Function.update_noteq hP]
        exact hi.e.busy_nodup P
    · intro P k2
      rw [hcw]
      by_cases hP : P = c.wpool k
      · subst hP
        simp only [Core.start, Function.update_same, List.mem_cons]
        by_cases h : k2 = k
        · subst h; simp [hw0]
        · simp only [h, false_or, if_false]
          exact hi.e.busy_mem _ k2
      · simp only [Core.start, Function.update_noteq hP]
        by_cases h : k2 = k
        · subst h
          simp only [if_true]
          constructor
          · intro hm
            exact absurd ((hi.e.busy_mem _ k2).1 hm).1 (by simp [hk])
          · intro hh
            exact absurd hh.2.symm hP
        · simp only [h, if_false]
          exact hi.e.busy_mem P k2
    · rw [hcw, if_neg (Ne.symm hk0)]
      exact hi.e.idle0
    · intro k2
      rw [hcw]
      by_cases h : k2 = k
      · subst h
        intro _
        simp only [Core.start, Function.update_same]
        exact ⟨trivial, (hi.l.typ_scheduled k2 w hwk).1, hal⟩
      · simp only [h, if_false, Core.start, Function.update_noteq h, ne_eq, not_false_eq_true]
        exact hi.e.exec_pwq k2
    · intro k2
      rw [hcw]
      by_cases h : k2 = k
      · subst h
        intro _
        simp only [Core.start, Function.update_same]
        exact ⟨h0, h1⟩
      · simp only [h, if_false, Core.start, Function.update_noteq h, ne_eq, not_false_eq_true]
        exact hi.e.exec_color k2
    · intro k2
      rw [hcw, hcf]
      by_cases h : k2 = k
      · subst h
        intro _
        simp only [Core.start, Function.update_same, if_true]
        constructor
        · intro hia
          by_contra hnb
          rw [(hi.l.typ_scheduled k2 w hwk).2 hnb] at hia
          exact absurd hia (by simp)
        · intro hb
          exact hi.l.barrier_inact w (by rw [hwk]; simp) hb
      · simp only [h, if_false, Core.start, Function.update_noteq h, ne_eq, not_false_eq_true]
        exact hi.e.exec_inact k2
    · exact hi.e.cpu_pwq_ok
    · exact hi.e.color_ok
  · constructor
    · intro k1 y hy k2 hk2 hp
      rw [hcw, hcf]
      have hyw : y ≠ w := by
        intro e
        rw [e] at hy
        simp [Core.start] at hy
      have hy2 : c.entry y = some (list_head.scheduled k1) := by
        simpa [Core.start, hyw] using hy
      by_cases h : k2 = k
      · subst h
        simp only [if_true]
        intro hh
        exact hyw hh.1.symm
      · simp only [h, if_false]
        exact hi.x.sched_excl k1 y hy2 k2 hk2 hp
    · intro y hy hb k2
      rw [hcw]
      have hyw : y ≠ w := by
        intro e
        rw [e] at hy
        simp [Core.start] at hy
      have hy2 : c.entry y ≠ none := by
        simpa [Core.start, hyw] using hy
      by_cases h : k2 = k
      · subst h
        simp only [if_true]
        exact fun e => hyw e.symm
      · simp only [h, if_false]
        exact hi.x.barrier_idle y hy2 hb k2
    · intro k1 k2
      rw [hcw, hcw, hcf, hcf]
      by_cases g1 : k1 = k
      · by_cases g2 : k2 = k
        · intro _ _ _ _; rw [g1, g2]
        · simp only [g1, g2, if_true, if_false]
          intro _ e1 e2 e3
          exfalso
          exact hi.x.sched_excl k w hwk k2 g2 e3.symm ⟨e1.symm, e2.symm⟩
      · by_cases g2 : k2 = k
        · simp only [g1, g2, if_true, if_false]
          intro _ e1 e2 e3
          exfalso
          exact hi.x.sched_excl k w hwk k1 g1 e3 ⟨e1, e2⟩
        · simp only [g1, g2, if_false]
          exact hi.x.uniq k1 k2
  · intro p D K hD hK
    have hkK : k ∈ K := hK k (by rw [hcw]; simp [hw0])
    have hD2 : ∀ y, c.entry y ≠ none → y ∈ insert w D := by
      intro y hy
      by_cases hyw : y = w
      · subst hyw; simp
      · apply Finset.mem_insert_of_mem
        apply hD
        simp only [Core.start, Function.update_noteq hyw]
        exact hy
    have hK2 : ∀ k2, c.cur_work k2 ≠ 0 → k2 ∈ K := by
      intro k2 h2
      apply hK
      rw [hcw]
      by_cases h : k2 = k
      · subst h; exact absurd hk h2
      · simp only [h, if_false]; exact h2
    have ih := hi.f p (insert w D) K hD2 hK2
    have e1 : (c.start k w rest q2 pd ia lk col).in_flight_sum p = c.in_flight_sum p := rfl
    have e2 : (c.start k w rest q2 pd ia lk col).nr_active p = c.nr_active p := rfl
    have e3 : (c.start k w rest q2 pd ia lk col).inactive_count p = c.inactive_count p := by
      unfold Core.inactive_count
      simp [Core.start]
    have e4 : (D.filter (fun y => (c.start k w rest q2 pd ia lk col).queued_barrier p y = true)).card
        = ((insert w D).filter
          (fun y => (c.start k w rest q2 pd ia lk col).queued_barrier p y = true)).card := by
      apply card_filter_cover
      · intro y hy
        apply hD
        unfold Core.queued_barrier at hy
        simp only [decide_eq_true_eq] at hy
        exact hy.1
      · intro y hy
        apply Finset.mem_insert_of_mem
        apply hD
        unfold Core.queued_barrier at hy
        simp only [decide_eq_true_eq] at hy
        exact hy.1
    have e5 := card_filter_point (insert w D) (c.queued_barrier p)
      ((c.start k w rest q2 pd ia lk col).queued_barrier p) w (by simp) (by
        intro y _ hy
        unfold Core.queued_barrier
        simp only [Core.start, Function.update_noteq hy])
    have e6 := card_filter_point K (c.running_barrier p)
      ((c.start k w rest q2 pd ia lk col).running_barrier p) k hkK (by
        intro k2 _ h2
        unfold Core.running_barrier
        simp only [Core.start, Function.update_noteq h2])
    have e7 : (c.start k w rest q2 pd ia lk col).queued_barrier p w = false := by
      simp [Core.queued_barrier, Core.start]
    have e8 : c.running_barrier p k = false := by
      simp [Core.running_barrier, hk]
    have e9 : (c.start k w rest q2 pd ia lk col).running_barrier p k = c.queued_barrier p w := by
      simp [Core.running_barrier, Core.queued_barrier, Core.start, hw0, hwk]
    rw [e7] at e5
    rw [e8, e9] at e6
    unfold Core.barrier_count at ih ⊢
    rw [e1, e2, e3, e4, ih]
    push_cast
    simp only [Bool.false_eq_true, if_false] at e5 e6
    omega

/-- Releasing the executed work item of a worker preserves the invariant. -/
theorem InvC_finish (c : Core) (hi : InvC c) (k : Nat) (col : Int) (hk : c.cur_work k ≠ 0)
    (h0 : 0 ≤ col) (h1 : col < 16) : InvC (c.finish k col) := by
  have hcw : ∀ k2, (c.finish k col).cur_work k2 = if k2 = k then 0 else c.cur_work k2 := by
    intro k2
    by_cases h : k2 = k
    · subst h; simp [Core.finish]
    · simp [Core.finish, h]
  have hcf : ∀ k2, k2 ≠ k → (c.finish k col).cur_func k2 = c.cur_func k2 := by
    intro k2 h
    simp [Core.finish, h]
  refine ⟨?_, ?_, ?_, ?_⟩
  · exact InvL_congr c _ hi.l rfl rfl rfl rfl rfl rfl rfl rfl rfl rfl
  · constructor
    · intro P
      by_cases hP : P = c.wpool k
      · subst hP
        simp only [Core.finish, Function.update_same]
        exact (hi.e.busy_nodup _).erase k
      · simp only [Core.finish, Function.update_noteq hP]
        exact hi.e.busy_nodup P
    · intro P k2
      rw [hcw]
      by_cases hP : P = c.wpool k
      · subst hP
        simp only [Core.finish, Function.update_same]
        rw [(hi.e.busy_nodup _).mem_erase_iff]
        by_cases h : k2 = k
        · subst h; simp
        · simp only [h, if_false, ne_eq, not_false_eq_true, true_and]
          exact hi.e.busy_mem _ k2
      · simp only [Core.finish, Function.update_noteq hP]
        by_cases h : k2 = k
        · subst h
          simp only [if_true]
          constructor
          · intro hm
            exact absurd ((hi.e.busy_mem _ k2).1 hm).2.symm hP
          · intro hh
            exact absurd rfl hh.1
        · simp only [h, if_false]
          exact hi.e.busy_mem P k2
    · rw [hcw]
      split_ifs
      · rfl
      · exact hi.e.idle0
    · intro k2
      rw [hcw]
      by_cases h : k2 = k
      · subst h; simp
      · simp only [h, if_false, Core.finish, Function.update_noteq h, ne_eq, not_false_eq_true]
        exact hi.e.exec_pwq k2
    · intro k2
      rw [hcw]
      by_cases h : k2 = k
      · subst h; simp
      · simp only [h, if_false, Core.finish, Function.update_noteq h, ne_eq, not_false_eq_true]
        exact hi.e.exec_color k2
    · intro k2
      rw [hcw]
      by_cases h : k2 = k
      · subst h; simp
      · simp only [h, if_false, Core.finish, Function.update_noteq h, ne_eq, not_false_eq_true]
        exact hi.e.exec_inact k2
    · exact hi.e.cpu_pwq_ok
    · exact hi.e.color_ok
  · constructor
    · intro k1 y hy k2 hk2 hp
      have hy0 : y ≠ 0 := hi.l.entry_ne_zero y (by
        have : c.entry y = some (list_head.scheduled k1) := hy
        rw [this]; simp)
      rw [hcw]
      by_cases h : k2 = k
      · subst h
        simp only [if_true]
        intro hh
        exact hy0 hh.1.symm
      · simp only [h, if_false]
        rw [hcf k2 h]
        exact hi.x.sched_excl k1 y hy k2 hk2 hp
    · intro y hy hb k2
      have hy0 : y ≠ 0 := hi.l.entry_ne_zero y hy
      rw [hcw]
      by_cases h : k2 = k
      · subst h
        simp only [if_true]
        exact fun e => hy0 e.symm
      · simp only [h, if_false]
        exact hi.x.barrier_idle y hy hb k2
    · intro k1 k2
      rw [hcw, hcw]
      by_cases g1 : k1 = k
      · simp [g1]
      · by_cases g2 : k2 = k
        · simp only [g1, g2, if_true, if_false]
          intro a b
          exact absurd b a
        · simp only [g1, g2, if_false]
          rw [hcf k1 g1, hcf k2 g2]
          exact hi.x.uniq k1 k2
  · intro p D K hD hK
    have hK2 : ∀ k2, c.cur_work k2 ≠ 0 → k2 ∈ insert k K := by
      intro k2 h2
      by_cases h : k2 = k
      · subst h; simp
      · apply Finset.mem_insert_of_mem
        apply hK
        rw [hcw]
        simp only [h, if_false]
        exact h2
    have ih := hi.f p D (insert k K) hD hK2
    have e1 : (c.finish k col).in_flight_sum p =
        c.in_flight_sum p + if p = c.frame_pwq k then -1 else 0 := by
      have := in_flight_sum_add c (c.frame_pwq k) col (-1) h0 h1 p
      unfold Core.in_flight_sum at this ⊢
      exact this
    have e2 : (c.finish k col).nr_active p = c.nr_active p +
        if p = c.frame_pwq k then (if c.frame_inact k = true then 0 else -1) else 0 := by
      by_cases hp : p = c.frame_pwq k
      · rw [hp]
        simp only [Core.finish, Function.update_same, if_true]
        split_ifs <;> ring
      · simp [Core.finish, Function.update_noteq hp, hp]
    have e3 : (c.finish k col).inactive_count p = c.inactive_count p := rfl
    have e4 : (D.filter (fun y => (c.finish k col).queued_barrier p y = true)).card =
        (D.filter (fun y => c.queued_barrier p y = true)).card := rfl
    have e5 : (K.filter (fun y => (c.finish k col).running_barrier p y = true)).card
        = ((insert k K).filter (fun y => (c.finish k col).running_barrier p y = true)).card := by
      apply card_filter_cover
      · intro y hy
        apply hK
        unfold Core.running_barrier at hy
        simp only [decide_eq_true_eq] at hy
        exact hy.1
      · intro y hy
        apply Finset.mem_insert_of_mem
        apply hK
        unfold Core.running_barrier at hy
        simp only [decide_eq_true_eq] at hy
        exact hy.1
    have e6 := card_filter_point (insert k K) (c.running_barrier p)
      ((c.finish k col).running_barrier p) k (by simp) (by
        intro k2 _ h2
        unfold Core.running_barrier
        simp only [Core.finish, Function.update_noteq h2])
    have e7 : (c.finish k col).running_barrier p k = false := by
      simp [Core.running_barrier, Core.finish]
    have e8 : c.running_barrier p k = decide (c.frame_pwq k = p ∧ c.frame_inact k = true) := by
      unfold Core.running_barrier
      have hx := hi.e.exec_inact k hk
      rw [decide_eq_decide]
      constructor
      · rintro ⟨_, a, b⟩
        exact ⟨a, hx.2 b⟩
      · rintro ⟨a, b⟩
        exact ⟨hk, a, hx.1 b⟩
    rw [e7, e8] at e6
    unfold Core.barrier_count at ih ⊢
    rw [e1, e2, e4, e5]
    have e3b : ((c.finish k col).inactive_count p : Int) = c.inactive_count p := by rw [e3]
    rw [e3b, ih]
    push_cast
    simp only [Bool.false_eq_true, if_false] at e6
    by_cases hp : p = c.frame_pwq k
    · have hp2 : c.frame_pwq k = p := hp.symm
      by_cases hia : c.frame_inact k = true
      · rw [if_pos (decide_eq_true ⟨hp2, hia⟩)] at e6
        rw [if_pos hp, if_pos hp, if_pos hia]
        omega
      · have : ¬ (c.frame_pwq k = p ∧ c.frame_inact k = true) := fun h => hia h.2
        rw [if_neg (by simpa using this)] at e6
        rw [if_pos hp, if_pos hp, if_neg hia]
        omega
    · have : ¬ (c.frame_pwq k = p ∧ c.frame_inact k = true) := fun h => hp h.1.symm
      rw [if_neg (by simpa using this)] at e6
      rw [if_neg hp, if_neg hp]
      omega

/-- Rewriting the data word of a work item that is not linked, to a word without the PWQ
bit, preserves the invariant. -/
theorem InvC_set_word (c : Core) (hi : InvC c) (x q : Nat) (pd ia lk : Bool)
    (hx : c.entry x = none) : InvC (c.set_word x q false pd ia lk) := by
  have hne : ∀ y, c.entry y ≠ none → y ≠ x := by
    intro y hy e
    rw [e] at hy
    exact hy hx
  have hnm := hi.l.not_mem x hx
  refine ⟨?_, ?_, ?_, ?_⟩
  · constructor
    · exact hi.l.nodup
    · exact hi.l.mem_entry
    · exact hi.l.nonzero
    · intro y
      by_cases hy : y = x
      · subst hy; simp [Core.set_word, hx]
      · simp only [Core.set_word, Function.update_noteq hy]
        exact hi.l.has_pwq y
    · intro y hy
      simp only [Core.set_word, Function.update_noteq (hne y hy)]
      exact hi.l.pending y hy
    · intro p y hy
      have := hne y (by rw [show c.entry y = _ from hy]; simp)
      simp only [Core.set_word, Function.update_noteq this]
      exact hi.l.typ_inactive p y hy
    · intro P y hy
      have := hne y (by rw [show c.entry y = _ from hy]; simp)
      simp only [Core.set_word, Function.update_noteq this]
      exact hi.l.typ_worklist P y hy
    · intro k y hy
      have := hne y (by rw [show c.entry y = _ from hy]; simp)
      simp only [Core.set_word, Function.update_noteq this]
      exact hi.l.typ_scheduled k y hy
    · intro y hy
      simp only [Core.set_word, Function.update_noteq (hne y hy)]
      exact hi.l.barrier_inact y hy
    · intro h
      apply chain_ok_congr _ _ _ _ _ _ _ (hi.l.chain h)
      · intro y hy
        have : y ≠ x := fun e => hnm h (e ▸ hy)
        simp [Core.set_word, this]
      · intro y _; rfl
    · intro p
      apply ichain_ok_congr _ _ _ _ _ _ _ (hi.l.ichain p)
      · intro y hy
        have : y ≠ x := fun e => hnm _ (e ▸ hy)
        simp [Core.set_word, this]
      · intro y _; rfl
  · exact InvE_congr c _ hi.e rfl rfl rfl rfl rfl rfl rfl rfl rfl rfl rfl
  · exact InvX_congr c _ hi.x rfl rfl rfl rfl rfl
  · apply InvF_same c (c.set_word x q false pd ia lk) hi.f (fun _ => Iff.rfl)
    · intro p y
      unfold Core.queued_barrier
      by_cases hy : y = x
      · subst hy; simp [Core.set_word, hx]
      · simp only [Core.set_word, Function.update_noteq hy]
    · intro p k; rfl
    · rfl
    · rfl
    · intro p; rfl

/-- A change of `max_active` preserves the invariant. -/
theorem InvC_max_active (c : Core) (hi : InvC c) (m : Nat → Int) :
    InvC { c with max_active := m } :=
  ⟨InvL_congr c _ hi.l rfl rfl rfl rfl rfl rfl rfl rfl rfl rfl,
   InvE_congr c _ hi.e rfl rfl rfl rfl rfl rfl rfl rfl rfl rfl rfl,
   InvX_congr c _ hi.x rfl rfl rfl rfl rfl,
   InvF_congr c _ hi.f rfl rfl rfl rfl rfl rfl rfl rfl rfl⟩

/-! ## The accounting view of the primitives -/

theorem pwq_of_update (g : Nat → Nat) (x v : Nat) :
    (fun y => work_struct_pwq (Function.update g x v y)) =
      Function.update (fun y => work_struct_pwq (g y)) x (work_struct_pwq v) := by
  funext y
  by_cases h : y = x
  · subst h; simp
  · simp [h]

theorem bit_update (g : Nat → Nat) (x v m : Nat) :
    (fun y => decide (Function.update g x v y &&& m ≠ 0)) =
      Function.update (fun y => decide (g y &&& m ≠ 0)) x (decide (v &&& m ≠ 0)) := by
  funext y
  by_cases h : y = x
  · subst h; simp
  · simp [h]

/-- The view after the data word of `x` is replaced by `d`. -/
theorem core_set_data (s : State) (x d : Nat) :
    core (s.set .work_data (Function.update s.work_data x d)) =
      (core s).set_word x (work_struct_pwq d) (decide (d &&& WORK_STRUCT_PWQ ≠ 0))
        (decide (d &&& WORK_STRUCT_PENDING ≠ 0)) (decide (d &&& WORK_STRUCT_INACTIVE ≠ 0))
        (decide (d &&& WORK_STRUCT_LINKED ≠ 0)) := by
  apply Core.ext
  case pwq_of => exact pwq_of_update _ _ _
  case has_pwq => exact bit_update _ _ _ _
  case pending => exact bit_update _ _ _ _
  case inact => exact bit_update _ _ _ _
  case linked => exact bit_update _ _ _ _
  all_goals rfl

theorem core_congr (s s2 : State) (h : ∀ g, Field.external g = false → s2 g = s g) :
    core s2 = core s := by
  have h1 := h .work_data rfl
  have h2 := h .work_entry rfl
  have h3 := h .work_func rfl
  have h4 := h .lists rfl
  have h5 := h .pwq_pool rfl
  have h6 := h .pwq_work_color rfl
  have h7 := h .pwq_nr_in_flight rfl
  have h8 := h .pwq_nr_active rfl
  have h9 := h .pwq_max_active rfl
  have h10 := h .worker_current_work rfl
  have h11 := h .worker_current_func rfl
  have h12 := h .worker_current_pwq rfl
  have h13 := h .worker_current_color rfl
  have h14 := h .worker_pool rfl
  have h15 := h .worker_frame_pwq rfl
  have h16 := h .worker_frame_work_data rfl
  have h17 := h .pool_busy_hash rfl
  have h18 := h .wq_cpu_pwq rfl
  unfold core
  simp only [h1, h2, h3, h4, h5, h6, h7, h8, h9, h10, h11, h12, h13, h14, h15, h16, h17, h18]

theorem core_set_external (s : State) (f : Field) (v : f.type) (h : Field.external f = true) :
    core (s.set f v) = core s := by
  apply core_congr
  intro g hg
  have : g ≠ f := by
    intro e
    rw [e, h] at hg
    exact absurd hg (by simp)
  simp [this]

theorem external_ne (g f : Field) (hg : Field.external g = false) (hf : Field.external f = true) :
    g ≠ f := by
  intro e
  rw [e, hf] at hg
  exact absurd hg (by simp)

/-- The decoded data words after the word of `x` is replaced by `d`. -/
theorem decode_fields (s s2 : State) (x d : Nat)
    (h : s2.work_data = Function.update s.work_data x d) :
    (core s2).pwq_of = Function.update (core s).pwq_of x (work_struct_pwq d) ∧
    (core s2).has_pwq = Function.update (core s).has_pwq x (decide (d &&& WORK_STRUCT_PWQ ≠ 0)) ∧
    (core s2).pending = Function.update (core s).pending x
      (decide (d &&& WORK_STRUCT_PENDING ≠ 0)) ∧
    (core s2).inact = Function.update (core s).inact x (decide (d &&& WORK_STRUCT_INACTIVE ≠ 0)) ∧
    (core s2).linked = Function.update (core s).linked x (decide (d &&& WORK_STRUCT_LINKED ≠ 0)) := by
  unfold core
  simp only [h]
  exact ⟨pwq_of_update _ _ _, bit_update _ _ _ _, bit_update _ _ _ _, bit_update _ _ _ _,
    bit_update _ _ _ _⟩

theorem core_kick_pool (s : State) (p : Nat) : core (kick_pool s p).2 = core s :=
  core_congr _ _ (fun g hg => kick_pool_frame s p g (external_ne g _ hg rfl)
    (external_ne g _ hg rfl) (external_ne g _ hg rfl))

theorem core_touch_watchdog (s : State) (p : Nat) : core (touch_watchdog_if_empty s p) = core s :=
  core_congr _ _ (fun g hg => touch_watchdog_if_empty_frame s p g (external_ne g _ hg rfl))

theorem core_put_pwq (s : State) (p : Nat) : core (put_pwq s p) = core s :=
  core_congr _ _ (fun g hg => put_pwq_frame s p g (external_ne g _ hg rfl)
    (external_ne g _ hg rfl))

theorem core_get_pwq (s : State) (p : Nat) : core (get_pwq s p) = core s :=
  core_congr _ _ (fun g hg => get_pwq_frame s p g (external_ne g _ hg rfl))

theorem core_pwq_flush_tip (s : State) (p : Nat) (c : Int) : core (pwq_flush_tip s p c) = core s :=
  core_congr _ _ (fun g hg => pwq_flush_tip_frame s p c g (external_ne g _ hg rfl)
    (external_ne g _ hg rfl) (external_ne g _ hg rfl))

theorem core_worker_set_flags (s : State) (k f : Nat) : core (worker_set_flags s k f) = core s :=
  core_congr _ _ (fun g hg => worker_set_flags_frame s k f g (external_ne g _ hg rfl)
    (external_ne g _ hg rfl))

theorem core_worker_clr_flags (s : State) (k f : Nat) : core (worker_clr_flags s k f) = core s :=
  core_congr _ _ (fun g hg => worker_clr_flags_frame s k f g (external_ne g _ hg rfl)
    (external_ne g _ hg rfl))

theorem core_del_timer (s : State) (w : Nat) : core (del_timer s w) = core s :=
  core_congr _ _ (fun g hg => del_timer_frame s w g (external_ne g _ hg rfl))

theorem core___queue_work_cpu (s : State) (t : task_ctx) (c wq : Nat) :
    core (__queue_work_cpu s t c wq).2 = core s :=
  core_congr _ _ (fun g hg => __queue_work_cpu_frame s t c wq g (external_ne g _ hg rfl))

/-- The view of a state that differs from `s` only in the lists, the entries, the data
words, the work functions, `nr_active` and `nr_in_flight`. -/
theorem core_eq_of_frame (s s2 : State) (c : Core)
    (h1 : s2.lists = c.lists) (h2 : s2.work_entry = c.entry)
    (h3 : (core s2).pwq_of = c.pwq_of) (h4 : (core s2).has_pwq = c.has_pwq)
    (h5 : (core s2).pending = c.pending) (h6 : (core s2).inact = c.inact)
    (h7 : (core s2).linked = c.linked) (h8 : s2.work_func = c.func)
    (h9 : s2.pwq_nr_active = c.nr_active) (h10 : s2.pwq_nr_in_flight = c.nr_in_flight)
    (hfr : ∀ g, Field.external g = false → g ≠ .lists → g ≠ .work_entry → g ≠ .work_data →
      g ≠ .work_func → g ≠ .pwq_nr_active → g ≠ .pwq_nr_in_flight → s2 g = s g)
    (hc : c.max_active = (core s).max_active ∧ c.busy = (core s).busy ∧
      c.cur_work = (core s).cur_work ∧ c.cur_func = (core s).cur_func ∧
      c.cur_pwq = (core s).cur_pwq ∧ c.cur_color = (core s).cur_color ∧
      c.frame_pwq = (core s).frame_pwq ∧ c.frame_inact = (core s).frame_inact ∧
      c.wpool = (core s).wpool ∧ c.ppool = (core s).ppool ∧ c.cpu_pwq = (core s).cpu_pwq ∧
      c.work_color = (core s).work_color) : core s2 = c := by
  obtain ⟨c1, c2, c3, c4, c5, c6, c7, c8, c9, c10, c11, c12⟩ := hc
  have g1 := hfr .pwq_max_active rfl (by simp) (by simp) (by simp) (by simp) (by simp) (by simp)
  have g2 := hfr .pool_busy_hash rfl (by simp) (by simp) (by simp) (by simp) (by simp) (by simp)
  have g3 := hfr .worker_current_work rfl (by simp) (by simp) (by simp) (by simp) (by simp)
    (by simp)
  have g4 := hfr .worker_current_func rfl (by simp) (by simp) (by simp) (by simp) (by simp)
    (by simp)
  have g5 := hfr .worker_current_pwq rfl (by simp) (by simp) (by simp) (by simp) (by simp)
    (by simp)
  have g6 := hfr .worker_current_color rfl (by simp) (by simp) (by simp) (by simp) (by simp)
    (by simp)
  have g7 := hfr .worker_frame_pwq rfl (by simp) (by simp) (by simp) (by simp) (by simp) (by simp)
  have g8 := hfr .worker_frame_work_data rfl (by simp) (by simp) (by simp) (by simp) (by simp)
    (by simp)
  have g9 := hfr .worker_pool rfl (by simp) (by simp) (by simp) (by simp) (by simp) (by simp)
  have g10 := hfr .pwq_pool rfl (by simp) (by simp) (by simp) (by simp) (by simp) (by simp)
  have g11 := hfr .wq_cpu_pwq rfl (by simp) (by simp) (by simp) (by simp) (by simp) (by simp)
  have g12 := hfr .pwq_work_color rfl (by simp) (by simp) (by simp) (by simp) (by simp) (by simp)
  refine Core.ext h1 h2 h3 h4 h5 h6 h7 h8 h9 h10 ?_ ?_ ?_ ?_ ?_ ?_ ?_ ?_ ?_ ?_ ?_ ?_
  · rw [c1]; exact g1
  · rw [c2]; exact g2
  · rw [c3]; exact g3
  · rw [c4]; exact g4
  · rw [c5]; exact g5
  · rw [c6]; exact g6
  · rw [c7]; exact g7
  · rw [c8]
    unfold core
    simp only [State.worker_frame_work_data, g8]
  · rw [c9]; exact g9
  · rw [c10]; exact g10
  · rw [c11]; exact g11
  · rw [c12]; exact g12

/-! ## The accounting view of queueing -/

theorem flags_active_views (c : Int) (hc0 : 0 ≤ c) (hc1 : c < 16) :
    work_color_to_flags c < 2 ^ 8 ∧ (work_color_to_flags c).testBit 1 = false ∧
    (work_color_to_flags c).testBit 3 = false :=
  ⟨work_color_to_flags_lt c hc0 hc1, work_color_to_flags_testBit c hc0 hc1 1 (by decide),
    work_color_to_flags_testBit c hc0 hc1 3 (by decide)⟩

theorem flags_inactive_views (c : Int) (hc0 : 0 ≤ c) (hc1 : c < 16) :
    work_color_to_flags c ||| WORK_STRUCT_INACTIVE < 2 ^ 8 ∧
    (work_color_to_flags c ||| WORK_STRUCT_INACTIVE).testBit 1 = true ∧
    (work_color_to_flags c ||| WORK_STRUCT_INACTIVE).testBit 3 = false := by
  refine ⟨or_lt_256 _ _ (work_color_to_flags_lt c hc0 hc1) (by decide), ?_, ?_⟩
  · rw [Nat.testBit_or]
    simp +decide
  · rw [Nat.testBit_or, work_color_to_flags_testBit c hc0 hc1 3 (by decide)]
    simp +decide

theorem core___queue_work_insert (s : State) (pwq work : Nat)
    (hentry : s.work_entry work = none) (hal : aligned_pwq pwq)
    (hc0 : 0 ≤ s.pwq_work_color pwq) (hc1 : s.pwq_work_color pwq < 16) :
    core (__queue_work_insert s pwq work) = (core s).queue work pwq (s.pwq_work_color pwq)
      (decide (s.pwq_nr_active pwq < s.pwq_max_active pwq)) := by
  obtain ⟨v1, _, v3, v4⟩ := __queue_work_insert_spec s pwq work hentry
  have hfr : ∀ g, Field.external g = false → g ≠ .lists → g ≠ .work_entry → g ≠ .work_data →
      g ≠ .work_func → g ≠ .pwq_nr_active → g ≠ .pwq_nr_in_flight →
      __queue_work_insert s pwq work g = s g := by
    intro g hg h2 h3 h4 _ h5 h6
    exact __queue_work_insert_frame s pwq work g (external_ne g _ hg rfl) h2 h3 h4 h5 h6
      (external_ne g _ hg rfl) (external_ne g _ hg rfl) (external_ne g _ hg rfl)
      (external_ne g _ hg rfl)
  have hf : (__queue_work_insert s pwq work).work_func = s.work_func :=
    __queue_work_insert_frame s pwq work .work_func (by simp) (by simp) (by simp) (by simp)
      (by simp) (by simp) (by simp) (by simp) (by simp) (by simp)
  by_cases hact : s.pwq_nr_active pwq < s.pwq_max_active pwq
  · obtain ⟨a1, a2, a3, a4⟩ := v3 hact
    obtain ⟨f1, f2, f3⟩ := flags_active_views _ hc0 hc1
    obtain ⟨w1, w2, w3, w4, w5, _⟩ := queued_word_views pwq _ hal.1 hal.2 f1
    obtain ⟨d1, d2, d3, d4, d5⟩ := decode_fields s _ work _ a4
    rw [w1] at d1
    rw [decide_eq_true w2] at d2
    rw [decide_eq_true w3] at d3
    rw [decide_eq_false (by rw [not_not]; exact w4.2 f2)] at d4
    rw [decide_eq_false (by rw [not_not]; exact w5.2 f3)] at d5
    rw [decide_eq_true hact]
    exact core_eq_of_frame s _ _ a2 a3 d1 d2 d3 d4 d5 hf a1 v1 hfr
      ⟨rfl, rfl, rfl, rfl, rfl, rfl, rfl, rfl, rfl, rfl, rfl, rfl⟩
  · obtain ⟨a1, a2, a3, a4⟩ := v4 hact
    obtain ⟨f1, f2, f3⟩ := flags_inactive_views _ hc0 hc1
    obtain ⟨w1, w2, w3, w4, w5, _⟩ := queued_word_views pwq _ hal.1 hal.2 f1
    obtain ⟨d1, d2, d3, d4, d5⟩ := decode_fields s _ work _ a4
    rw [w1] at d1
    rw [decide_eq_true w2] at d2
    rw [decide_eq_true w3] at d3
    rw [decide_eq_true (by intro e; rw [w4.1 e] at f2; exact absurd f2 (by simp))] at d4
    rw [decide_eq_false (by rw [not_not]; exact w5.2 f3)] at d5
    rw [decide_eq_false hact]
    exact core_eq_of_frame s _ _ a2 a3 d1 d2 d3 d4 d5 hf a1 v1 hfr
      ⟨rfl, rfl, rfl, rfl, rfl, rfl, rfl, rfl, rfl, rfl, rfl, rfl⟩

/-! ## Data words of unlinked work items -/

theorem core_set_data_same (s : State) (x : Nat) :
    core (s.set .work_data (Function.update s.work_data x (s.work_data x))) = core s := by
  rw [Function.update_eq_self]
  apply core_congr
  intro g _
  by_cases hg : g = .work_data
  · subst hg; simp
  · simp [hg]

theorem InvC_init (s : State) (h : Init s) : InvC (core s) := by
  obtain ⟨h1, h2, h3, h4, h5, h6, h7, h8, h9⟩ := h
  refine ⟨?_, ?_, ?_, ?_⟩
  · constructor
    · intro h; show (s.lists h).Nodup; rw [h1]; exact List.nodup_nil
    · intro h x
      show x ∈ s.lists h ↔ s.work_entry x = some h
      rw [h1, h2]; simp
    · exact h2 0
    · intro x
      show decide (s.work_data x &&& WORK_STRUCT_PWQ ≠ 0) = true ↔ s.work_entry x ≠ none
      rw [h2 x]; simp [h3 x]
    · intro x hx; exact absurd (h2 x) hx
    · intro p x hx
      have : s.work_entry x = _ := hx
      rw [h2] at this; exact absurd this (by simp)
    · intro p x hx
      have : s.work_entry x = _ := hx
      rw [h2] at this; exact absurd this (by simp)
    · intro p x hx
      have : s.work_entry x = _ := hx
      rw [h2] at this; exact absurd this (by simp)
    · intro x hx; exact absurd (h2 x) hx
    · intro h
      show chain_ok _ _ (s.lists h)
      rw [h1]; exact chain_ok_nil _ _
    · intro p
      show ichain_ok _ _ (s.lists _)
      rw [h1]; exact ichain_ok_nil _ _
  · constructor
    · intro P; show (s.pool_busy_hash P).Nodup; rw [h6]; exact List.nodup_nil
    · intro P k
      show k ∈ s.pool_busy_hash P ↔ _
      rw [h6]
      simp only [List.not_mem_nil, false_iff, not_and]
      intro hh
      exact absurd (h7 k) hh
    · exact h7 0
    · intro k hk; exact absurd (h7 k) hk
    · intro k hk; exact absurd (h7 k) hk
    · intro k hk; exact absurd (h7 k) hk
    · exact h8
    · exact h9
  · constructor
    · intro k x hx
      have : s.work_entry x = _ := hx
      rw [h2] at this; exact absurd this (by simp)
    · intro x hx; exact absurd (h2 x) hx
    · intro k1 k2 hk; exact absurd (h7 k1) hk
  · intro p D K _ _
    have e1 : (core s).in_flight_sum p = 0 := by
      unfold Core.in_flight_sum
      apply Finset.sum_eq_zero
      intro i _
      exact h4 p i
    have e2 : (core s).nr_active p = 0 := h5 p
    have e3 : (core s).inactive_count p = 0 := by
      unfold Core.inactive_count
      show List.countP _ (s.lists _) = 0
      rw [h1]; rfl
    have e4 : (core s).barrier_count p D K = 0 := by
      unfold Core.barrier_count
      have a1 : D.filter (fun x => (core s).queued_barrier p x = true) = ∅ := by
        apply Finset.filter_false_of_mem
        intro x _
        unfold Core.queued_barrier
        simp only [decide_eq_true_eq, not_and]
        intro hx
        exact absurd (h2 x) hx
      have a2 : K.filter (fun k => (core s).running_barrier p k = true) = ∅ := by
        apply Finset.filter_false_of_mem
        intro k _
        unfold Core.running_barrier
        simp only [decide_eq_true_eq, not_and]
        intro hk
        exact absurd (h7 k) hk
      rw [a1, a2]; rfl
    rw [e1, e2, e3, e4]
    simp

theorem pwq_bit_or_pending (d : Nat) :
    (d ||| (1 <<< WORK_STRUCT_PENDING_BIT)) &&& WORK_STRUCT_PWQ = d &&& WORK_STRUCT_PWQ := by
  show (d ||| (1 <<< 0)) &&& (1 <<< 2) = d &&& (1 <<< 2)
  rw [and_bit_testBit, and_bit_testBit, Nat.testBit_or, testBit_one_shl]
  simp

/-- The step `claim` preserves the invariant. -/
theorem InvC_claim (s : State) (work : Nat) (hi : InvC (core s)) :
    InvC (core (test_and_set_bit_pending s work).2) := by
  have e : (test_and_set_bit_pending s work).2 = s.set .work_data
      (Function.update s.work_data work (s.work_data work ||| (1 <<< WORK_STRUCT_PENDING_BIT))) :=
    rfl
  rw [e]
  by_cases hl : s.work_entry work = none
  · rw [core_set_data]
    have hp := (hi.l.has_pwq work).not.2 (by simpa using hl)
    have hp2 : s.work_data work &&& WORK_STRUCT_PWQ = 0 := by
      have : decide (s.work_data work &&& WORK_STRUCT_PWQ ≠ 0) ≠ true := hp
      simpa using this
    rw [pwq_bit_or_pending, hp2]
    simp only [ne_eq, not_true_eq_false, decide_False]
    exact InvC_set_word _ hi work _ _ _ _ hl
  · have hp := hi.l.pending work hl
    have hp2 : s.work_data work &&& WORK_STRUCT_PENDING ≠ 0 := by
      have : decide (s.work_data work &&& WORK_STRUCT_PENDING ≠ 0) = true := hp
      simpa using this
    have hp3 : s.work_data work ||| (1 <<< WORK_STRUCT_PENDING_BIT) = s.work_data work :=
      or_bit_of_testBit _ _ ((and_bit_ne_zero _ _).1 hp2)
    rw [hp3, core_set_data_same]
    exact hi

/-- Rewriting the data word of an unlinked item to an off-queue word. -/
theorem InvC_offq (s : State) (work d : Nat) (hi : InvC (core s))
    (hl : s.work_entry work = none) (hd : d &&& WORK_STRUCT_PWQ = 0) :
    InvC (core (s.set .work_data (Function.update s.work_data work d))) := by
  rw [core_set_data, hd]
  simp only [ne_eq, not_true_eq_false, decide_False]
  exact InvC_set_word _ hi work _ _ _ _ hl

/-! ## The step `queue` -/

theorem InvE.not_busy_zero {c : Core} (hi : InvE c) (P : Nat) : 0 ∉ c.busy P := by
  intro h
  exact ((hi.busy_mem P 0).1 h).1 hi.idle0

theorem __queue_work_pwq_aligned (s : State) (hi : InvC (core s)) (cpu wq work : Nat) :
    aligned_pwq (__queue_work_pwq s cpu wq work) := by
  unfold __queue_work_pwq
  simp only []
  split_ifs with h1 h2
  · have hb : 0 ∉ s.pool_busy_hash (get_work_pool s work) := hi.e.not_busy_zero _
    have := (find_worker_executing_work_spec s (get_work_pool s work) work hb).2 h2.1
    have hk := ((hi.e.busy_mem _ _).1 this.1).1
    exact (hi.e.exec_pwq _ hk).2.2
  · exact hi.e.cpu_pwq_ok wq cpu
  · exact hi.e.cpu_pwq_ok wq cpu

theorem __queue_work_retry_core (fuel : Nat) (s : State) (t : task_ctx) (cpu wq work : Nat)
    (s2 : State) (hi : InvC (core s)) (hent : s.work_entry work = none)
    (h : __queue_work_retry fuel s t cpu wq work = some s2) :
    ∃ pwq, aligned_pwq pwq ∧ core s2 = (core s).queue work pwq (s.pwq_work_color pwq)
      (decide (s.pwq_nr_active pwq < s.pwq_max_active pwq)) := by
  induction fuel generalizing s with
  | zero => simp [__queue_work_retry] at h
  | succ n ih =>
    have hc : core (__queue_work_cpu s t cpu wq).2 = core s := core___queue_work_cpu s t cpu wq
    have hi1 : InvC (core (__queue_work_cpu s t cpu wq).2) := by rw [hc]; exact hi
    have hent1 : (__queue_work_cpu s t cpu wq).2.work_entry work = none := by
      have := congrArg Core.entry hc
      exact (congrFun this work).trans hent
    unfold __queue_work_retry at h
    split_ifs at h with hcond
    · obtain ⟨pwq, hp, he⟩ := ih _ hi1 hent1 h
      refine ⟨pwq, hp, ?_⟩
      rw [he, hc]
      have e1 : (__queue_work_cpu s t cpu wq).2.pwq_work_color = s.pwq_work_color :=
        congrArg Core.work_color hc
      have e2 : (__queue_work_cpu s t cpu wq).2.pwq_nr_active = s.pwq_nr_active :=
        congrArg Core.nr_active hc
      have e3 : (__queue_work_cpu s t cpu wq).2.pwq_max_active = s.pwq_max_active :=
        congrArg Core.max_active hc
      rw [e1, e2, e3]
    · have hs2 := Option.some.inj h
      refine ⟨__queue_work_target s t cpu wq work, ?_, ?_⟩
      · exact __queue_work_pwq_aligned _ hi1 _ wq work
      · have e1 : (__queue_work_cpu s t cpu wq).2.pwq_work_color = s.pwq_work_color :=
          congrArg Core.work_color hc
        have e2 : (__queue_work_cpu s t cpu wq).2.pwq_nr_active = s.pwq_nr_active :=
          congrArg Core.nr_active hc
        have e3 : (__queue_work_cpu s t cpu wq).2.pwq_max_active = s.pwq_max_active :=
          congrArg Core.max_active hc
        have hcol := hi.e.color_ok (__queue_work_target s t cpu wq work)
        have := core___queue_work_insert (__queue_work_cpu s t cpu wq).2
          (__queue_work_target s t cpu wq work) work hent1
          (__queue_work_pwq_aligned _ hi1 _ wq work) (by rw [e1]; exact hcol.1)
          (by rw [e1]; exact hcol.2)
        rw [← hs2, this, hc, e1, e2, e3]

/-- The view after `__queue_work`: unchanged when the workqueue refuses the work item,
else the work item is queued for an aligned pool_workqueue. -/
theorem __queue_work_core (fuel : Nat) (s : State) (t : task_ctx) (cpu wq work : Nat)
    (s2 : State) (hi : InvC (core s)) (hent : s.work_entry work = none)
    (h : __queue_work fuel s t cpu wq work = some s2) :
    core s2 = core s ∨ ∃ pwq, aligned_pwq pwq ∧ core s2 = (core s).queue work pwq
      (s.pwq_work_color pwq) (decide (s.pwq_nr_active pwq < s.pwq_max_active pwq)) := by
  unfold __queue_work at h
  split_ifs at h
  · left
    rw [← Option.some.inj h]
  · right
    exact __queue_work_retry_core fuel s t cpu wq work s2 hi hent h

theorem InvC_queue_step (fuel : Nat) (s : State) (t : task_ctx) (cpu wq work : Nat)
    (s2 : State) (hi : InvC (core s)) (h0 : work ≠ 0) (hnb : s.work_func work ≠ wq_barrier_func)
    (hent : s.work_entry work = none) (h : __queue_work fuel s t cpu wq work = some s2) :
    InvC (core s2) := by
  rcases __queue_work_core fuel s t cpu wq work s2 hi hent h with e | ⟨pwq, _, e⟩
  · rw [e]; exact hi
  · rw [e]
    exact InvC_queue _ hi work pwq _ _ hent h0 hnb (hi.e.color_ok pwq).1 (hi.e.color_ok pwq).2

/-! ## The step `flush` -/

theorem or_linked_views (d : Nat) :
    work_struct_pwq (d ||| (1 <<< WORK_STRUCT_LINKED_BIT)) = work_struct_pwq d ∧
    ((d ||| (1 <<< WORK_STRUCT_LINKED_BIT)) &&& WORK_STRUCT_PWQ = d &&& WORK_STRUCT_PWQ) ∧
    ((d ||| (1 <<< WORK_STRUCT_LINKED_BIT)) &&& WORK_STRUCT_PENDING = d &&& WORK_STRUCT_PENDING) ∧
    ((d ||| (1 <<< WORK_STRUCT_LINKED_BIT)) &&& WORK_STRUCT_INACTIVE =
      d &&& WORK_STRUCT_INACTIVE) ∧
    (d ||| (1 <<< WORK_STRUCT_LINKED_BIT)) &&& WORK_STRUCT_LINKED ≠ 0 := by
  have hb : ∀ i, (d ||| (1 <<< WORK_STRUCT_LINKED_BIT)).testBit i =
      (d.testBit i || decide (3 = i)) := by
    intro i
    rw [Nat.testBit_or, testBit_one_shl]
  refine ⟨?_, ?_, ?_, ?_, ?_⟩
  · unfold work_struct_pwq
    apply Nat.eq_of_testBit_eq; intro i
    rw [Nat.testBit_and, Nat.testBit_and, hb, testBit_data_mask]
    by_cases h8 : 8 ≤ i
    · have : ¬ (3 = i) := by omega
      simp [this]
    · simp [h8]
  · rw [and_bit_testBit, and_bit_testBit, hb]; simp +decide
  · rw [and_bit_testBit, and_bit_testBit, hb]; simp +decide
  · rw [and_bit_testBit, and_bit_testBit, hb]; simp +decide
  · rw [and_bit_ne_zero, hb]; simp

theorem barrier_flags_views (bits : Nat) (c : Int) (hc0 : 0 ≤ c) (hc1 : c < 16) :
    WORK_STRUCT_INACTIVE ||| (bits &&& WORK_STRUCT_LINKED) ||| work_color_to_flags c < 2 ^ 8 ∧
    (WORK_STRUCT_INACTIVE ||| (bits &&& WORK_STRUCT_LINKED) ||| work_color_to_flags c).testBit 1
      = true ∧
    (WORK_STRUCT_INACTIVE ||| (bits &&& WORK_STRUCT_LINKED) ||| work_color_to_flags c).testBit 3
      = bits.testBit 3 := by
  have hl : bits &&& WORK_STRUCT_LINKED < 2 ^ 8 :=
    lt_of_le_of_lt Nat.and_le_right (by decide)
  refine ⟨or_lt_256 _ _ (or_lt_256 _ _ (by decide) hl) (work_color_to_flags_lt c hc0 hc1), ?_, ?_⟩
  · rw [Nat.testBit_or, Nat.testBit_or]
    simp +decide
  · rw [Nat.testBit_or, Nat.testBit_or, Nat.testBit_and,
      work_color_to_flags_testBit c hc0 hc1 3 (by decide)]
    simp +decide

theorem barrier_flags_views_front (c : Int) (hc0 : 0 ≤ c) (hc1 : c < 16) :
    WORK_STRUCT_INACTIVE ||| work_color_to_flags c < 2 ^ 8 ∧
    (WORK_STRUCT_INACTIVE ||| work_color_to_flags c).testBit 1 = true ∧
    (WORK_STRUCT_INACTIVE ||| work_color_to_flags c).testBit 3 = false := by
  refine ⟨or_lt_256 _ _ (by decide) (work_color_to_flags_lt c hc0 hc1), ?_, ?_⟩
  · rw [Nat.testBit_or]
    simp +decide
  · rw [Nat.testBit_or, work_color_to_flags_testBit c hc0 hc1 3 (by decide)]
    simp +decide

theorem insert_before_append (n b : Nat) (pre post : List Nat) (h : n ∉ pre) :
    insert_before n b (pre ++ n :: post) = pre ++ b :: n :: post := by
  induction pre with
  | nil => simp [insert_before]
  | cons a l ih =>
    have ha : a ≠ n := fun e => h (e ▸ List.mem_cons_self _ _)
    have hl : n ∉ l := fun e => h (List.mem_cons_of_mem _ e)
    simp [insert_before, ha, ih hl]

/-- A linked work item splits its list. -/
theorem InvL.split {c : Core} (hi : InvL c) (x : Nat) (H : list_head) (hx : c.entry x = some H) :
    c.lists H = list_before x (c.lists H) ++ x :: (list_from x (c.lists H)).drop 1 ∧
    x ∉ list_before x (c.lists H) ∧
    list_from x (c.lists H) = x :: (list_from x (c.lists H)).drop 1 :=
  nodup_split x (c.lists H) ((hi.mem_entry H x).2 hx)

theorem insert_wq_barrier_after_fields (s : State) (pwq barr target : Nat) (H : list_head)
    (hbt : barr ≠ target) (hb : s.work_entry barr = none) (ht : s.work_entry target = some H)
    (hnd : (s.lists H).Nodup) (hmem : ∀ x, x ∈ s.lists H ↔ s.work_entry x = some H) :
    (insert_wq_barrier s pwq barr target 0).work_func =
      Function.update s.work_func barr wq_barrier_func ∧
    (insert_wq_barrier s pwq barr target 0).work_data =
      Function.update (Function.update s.work_data target
        (s.work_data target ||| (1 <<< WORK_STRUCT_LINKED_BIT))) barr
        (pwq ||| (WORK_STRUCT_PENDING ||| WORK_STRUCT_PWQ |||
          (WORK_STRUCT_INACTIVE ||| (s.work_data target &&& WORK_STRUCT_LINKED) |||
            work_color_to_flags (get_work_color (s.work_data target))))) ∧
    (insert_wq_barrier s pwq barr target 0).work_entry =
      Function.update s.work_entry barr (some H) ∧
    (insert_wq_barrier s pwq barr target 0).lists = Function.update s.lists H
      (list_before target (s.lists H) ++ target :: barr :: (list_from target (s.lists H)).drop 1) ∧
    (insert_wq_barrier s pwq barr target 0).pwq_nr_in_flight =
      Function.update s.pwq_nr_in_flight pwq
        (Function.update (s.pwq_nr_in_flight pwq) (get_work_color (s.work_data target))
          (s.pwq_nr_in_flight pwq (get_work_color (s.work_data target)) + 1)) := by
  have htb : target ≠ barr := Ne.symm hbt
  have hbits : work_data_bits (__set_bit (INIT_WORK_ONSTACK s barr wq_barrier_func)
      WORK_STRUCT_PENDING_BIT barr) target = s.work_data target := by
    simp [work_data_bits, __set_bit, INIT_WORK_ONSTACK, State.work_data, htb]
  have hsplit := nodup_split target (s.lists H) ((hmem target).2 ht)
  have hmem := fun x => (hmem x).1
  have hnode : entry_next (__set_bit (INIT_WORK_ONSTACK s barr wq_barrier_func)
      WORK_STRUCT_PENDING_BIT barr) target =
      match (list_from target (s.lists H)).drop 1 with
      | [] => list_node.head H
      | n :: _ => list_node.item n := by
    have e1 : (__set_bit (INIT_WORK_ONSTACK s barr wq_barrier_func)
        WORK_STRUCT_PENDING_BIT barr).work_entry target = some H := by
      simp [__set_bit, INIT_WORK_ONSTACK, State.work_entry, htb]
      exact ht
    have e2 : (__set_bit (INIT_WORK_ONSTACK s barr wq_barrier_func)
        WORK_STRUCT_PENDING_BIT barr).lists = s.lists := by
      simp [__set_bit, INIT_WORK_ONSTACK, State.lists]
    unfold entry_next
    rw [e1, e2]
  refine ⟨?_, ?_, ?_, ?_, ?_⟩
  · simp [insert_wq_barrier, insert_work, State.work_func, INIT_WORK_ONSTACK]
  · unfold insert_wq_barrier
    rw [if_neg (by simp : ¬ (0 : Nat) ≠ 0)]
    rw [insert_work_data, hbits]
    funext x
    by_cases hx : x = barr
    · subst hx; simp
    · by_cases hx2 : x = target
      · subst hx2
        simp [hx, __set_bit, INIT_WORK_ONSTACK, State.work_data, work_data_bits]
      · simp [hx, hx2, __set_bit, INIT_WORK_ONSTACK, State.work_data, work_data_bits]
  · unfold insert_wq_barrier
    rw [if_neg (by simp : ¬ (0 : Nat) ≠ 0)]
    simp only [insert_work, list_add_tail, State.work_entry, get_pwq_frame, ne_eq, reduceCtorEq,
      not_false_eq_true, State.set_same, State.set_other]
    rw [hnode]
    funext x
    by_cases hx : x = barr
    · subst hx
      cases hpost : (list_from target (s.lists H)).drop 1 with
      | nil => simp [list_add_tail_entry]
      | cons n l =>
        have hn : s.work_entry n = some H := hmem n (by rw [hsplit.1, hpost]; simp)
        have hnb : n ≠ x := by
          intro e; rw [e] at hn; rw [hb] at hn; exact absurd hn (by simp)
        simp [list_add_tail_entry, set_work_pwq, set_work_data, __set_bit, INIT_WORK_ONSTACK,
          State.work_entry, hnb, hn]
    · simp [hx, set_work_pwq, set_work_data, __set_bit, INIT_WORK_ONSTACK, State.work_entry]
  · unfold insert_wq_barrier
    rw [if_neg (by simp : ¬ (0 : Nat) ≠ 0)]
    simp only [insert_work, list_add_tail, State.lists, get_pwq_frame, ne_eq, reduceCtorEq,
      not_false_eq_true, State.set_same, State.set_other]
    rw [hnode]
    cases hpost : (list_from target (s.lists H)).drop 1 with
    | nil =>
      have hL : s Field.lists H = list_before target (s.lists H) ++ [target] := by
        have := hsplit.1
        rw [hpost] at this
        exact this
      simp only [list_add_tail_lists, set_work_pwq, set_work_data, __set_bit, INIT_WORK_ONSTACK,
        State.lists, State.set_other, ne_eq, reduceCtorEq, not_false_eq_true]
      conv => lhs; rw [hL]
      simp
    | cons n l =>
      have hL : s Field.lists H = list_before target (s.lists H) ++ target :: n :: l := by
        have := hsplit.1
        rw [hpost] at this
        exact this
      have hn : s.work_entry n = some H := hmem n (by
        show n ∈ s Field.lists H
        rw [hL]; simp)
      have hnb : n ≠ barr := by
        intro e; rw [e] at hn; rw [hb] at hn; exact absurd hn (by simp)
      have hnn : n ∉ list_before target (s.lists H) ++ [target] := by
        have h1 : (s Field.lists H).Nodup := hnd
        rw [hL] at h1
        have h2 : (list_before target (s.lists H) ++ [target] ++ n :: l).Nodup := by
          simpa using h1
        intro hm
        exact (List.nodup_append.1 h2).2.2 hm (List.mem_cons_self _ _)
      simp only [list_add_tail_lists, set_work_pwq, set_work_data, __set_bit, INIT_WORK_ONSTACK,
        State.lists, State.work_entry, State.set_other, State.set_same, ne_eq, reduceCtorEq,
        not_false_eq_true, Function.update_noteq hnb, hn]
      conv => lhs; rw [hL]
      have := insert_before_append n barr (list_before target (s.lists H) ++ [target]) l hnn
      simp only [List.append_assoc, List.singleton_append] at this
      rw [this]
  · unfold insert_wq_barrier
    rw [if_neg (by simp : ¬ (0 : Nat) ≠ 0)]
    rw [hbits]
    simp [insert_work, State.pwq_nr_in_flight, __set_bit, INIT_WORK_ONSTACK]

theorem insert_wq_barrier_front_fields (s : State) (pwq barr k : Nat) (hk : k ≠ 0)
    (hb : s.work_entry barr = none)
    (hmem : ∀ x, x ∈ s.lists (list_head.scheduled k) ↔
      s.work_entry x = some (list_head.scheduled k)) :
    (insert_wq_barrier s pwq barr 0 k).work_func =
      Function.update s.work_func barr wq_barrier_func ∧
    (insert_wq_barrier s pwq barr 0 k).work_data = Function.update s.work_data barr
        (pwq ||| (WORK_STRUCT_PENDING ||| WORK_STRUCT_PWQ |||
          (WORK_STRUCT_INACTIVE ||| work_color_to_flags (s.worker_current_color k)))) ∧
    (insert_wq_barrier s pwq barr 0 k).work_entry =
      Function.update s.work_entry barr (some (list_head.scheduled k)) ∧
    (insert_wq_barrier s pwq barr 0 k).lists = Function.update s.lists (list_head.scheduled k)
      (barr :: s.lists (list_head.scheduled k)) ∧
    (insert_wq_barrier s pwq barr 0 k).pwq_nr_in_flight =
      Function.update s.pwq_nr_in_flight pwq
        (Function.update (s.pwq_nr_in_flight pwq) (s.worker_current_color k)
          (s.pwq_nr_in_flight pwq (s.worker_current_color k) + 1)) := by
  have hmem := fun x => (hmem x).1
  have hnode : head_next (__set_bit (INIT_WORK_ONSTACK s barr wq_barrier_func)
      WORK_STRUCT_PENDING_BIT barr) (list_head.scheduled k) =
      match s.lists (list_head.scheduled k) with
      | [] => list_node.head (list_head.scheduled k)
      | n :: _ => list_node.item n := by
    have e2 : (__set_bit (INIT_WORK_ONSTACK s barr wq_barrier_func)
        WORK_STRUCT_PENDING_BIT barr).lists = s.lists := by
      simp [__set_bit, INIT_WORK_ONSTACK, State.lists]
    unfold head_next
    rw [e2]
  have hcol : (__set_bit (INIT_WORK_ONSTACK s barr wq_barrier_func)
      WORK_STRUCT_PENDING_BIT barr).worker_current_color = s.worker_current_color := by
    simp [__set_bit, INIT_WORK_ONSTACK, State.worker_current_color]
  refine ⟨?_, ?_, ?_, ?_, ?_⟩
  · unfold insert_wq_barrier
    rw [if_pos hk]
    simp [insert_work, State.work_func, INIT_WORK_ONSTACK]
  · unfold insert_wq_barrier
    rw [if_pos hk, insert_work_data, hcol]
    funext x
    by_cases hx : x = barr
    · subst hx; simp
    · simp [hx, __set_bit, INIT_WORK_ONSTACK, State.work_data, work_data_bits]
  · unfold insert_wq_barrier
    rw [if_pos hk]
    simp only [insert_work, list_add_tail, State.work_entry, get_pwq_frame, ne_eq, reduceCtorEq,
      not_false_eq_true, State.set_same, State.set_other]
    rw [hnode]
    funext x
    by_cases hx : x = barr
    · subst hx
      cases hL : s.lists (list_head.scheduled k) with
      | nil => simp [list_add_tail_entry]
      | cons n l =>
        have hn : s.work_entry n = some (list_head.scheduled k) :=
          hmem n (by rw [hL]; simp)
        have hnb : n ≠ x := by
          intro e; rw [e] at hn; rw [hb] at hn; exact absurd hn (by simp)
        simp [list_add_tail_entry, set_work_pwq, set_work_data, __set_bit, INIT_WORK_ONSTACK,
          State.work_entry, hnb, hn]
    · simp [hx, set_work_pwq, set_work_data, __set_bit, INIT_WORK_ONSTACK, State.work_entry]
  · unfold insert_wq_barrier
    rw [if_pos hk]
    simp only [insert_work, list_add_tail, State.lists, get_pwq_frame, ne_eq, reduceCtorEq,
      not_false_eq_true, State.set_same, State.set_other]
    rw [hnode]
    cases hL : s.lists (list_head.scheduled k) with
    | nil =>
      have hL2 : s Field.lists (list_head.scheduled k) = [] := hL
      simp only [list_add_tail_lists, set_work_pwq, set_work_data, __set_bit, INIT_WORK_ONSTACK,
        State.lists, State.set_other, ne_eq, reduceCtorEq, not_false_eq_true]
      rw [hL2]
      rfl
    | cons n l =>
      have hL2 : s Field.lists (list_head.scheduled k) = n :: l := hL
      have hn : s.work_entry n = some (list_head.scheduled k) :=
        hmem n (by rw [hL]; simp)
      have hnb : n ≠ barr := by
        intro e; rw [e] at hn; rw [hb] at hn; exact absurd hn (by simp)
      simp only [list_add_tail_lists, set_work_pwq, set_work_data, __set_bit, INIT_WORK_ONSTACK,
        State.lists, State.work_entry, State.set_other, State.set_same, ne_eq, reduceCtorEq,
        not_false_eq_true, Function.update_noteq hnb, hn]
      rw [hL2]
      simp [insert_before]
  · unfold insert_wq_barrier
    rw [if_pos hk, hcol]
    simp [insert_work, State.pwq_nr_in_flight, __set_bit, INIT_WORK_ONSTACK]

theorem update_update_self {β : Type} (f : Nat → β) (x y : Nat) (v w : β) (h : w = f y) :
    Function.update (Function.update f y w) x v = Function.update f x v := by
  rw [h, Function.update_eq_self]

theorem insert_wq_barrier_hfr (s : State) (pwq barr target k : Nat) :
    ∀ g, Field.external g = false → g ≠ .lists → g ≠ .work_entry → g ≠ .work_data →
      g ≠ .work_func → g ≠ .pwq_nr_active → g ≠ .pwq_nr_in_flight →
      insert_wq_barrier s pwq barr target k g = s g := by
  intro g hg h1 h2 h3 h4 _ h6
  exact insert_wq_barrier_frame s pwq barr target k g h3 h2 h4 h1 h6 (external_ne g _ hg rfl)

/-- The view after a barrier was linked behind the linked work item `target`. -/
theorem core_insert_wq_barrier_after (s : State) (hi : InvC (core s)) (barr target : Nat)
    (H : list_head) (hb : s.work_entry barr = none) (ht : s.work_entry target = some H) :
    core (insert_wq_barrier s (work_struct_pwq (s.work_data target)) barr target 0) =
      (core s).barrier_after barr target (work_struct_pwq (s.work_data target))
        (get_work_color (s.work_data target)) H (list_before target (s.lists H))
        ((list_from target (s.lists H)).drop 1) := by
  have hbt : barr ≠ target := by
    intro e; rw [e] at hb; rw [hb] at ht; exact absurd ht (by simp)
  obtain ⟨v1, v2, v3, v4, v5⟩ := insert_wq_barrier_after_fields s
    (work_struct_pwq (s.work_data target)) barr target H hbt hb ht (hi.l.nodup H)
    (hi.l.mem_entry H)
  obtain ⟨c0, c1⟩ := get_work_color_lt (s.work_data target)
  obtain ⟨f1, f2, f3⟩ := barrier_flags_views (s.work_data target) _ c0 c1
  have hal : aligned_pwq (work_struct_pwq (s.work_data target)) := by
    constructor
    · unfold work_struct_pwq
      apply Nat.eq_of_testBit_eq; intro i
      rw [Nat.testBit_and, Nat.testBit_and, testBit_data_mask]
      by_cases h8 : i < 8
      · have : ¬ 8 ≤ i := by omega
        simp [this]
      · have := testBit_lt WORK_STRUCT_FLAG_MASK 8 (by decide) i (by omega)
        simp [this]
    · unfold work_struct_pwq
      exact lt_of_le_of_lt Nat.and_le_right (by decide)
  obtain ⟨w1, w2, w3, w4, w5, _⟩ := queued_word_views _ _ hal.1 hal.2 f1
  obtain ⟨l1, l2, l3, l4, l5⟩ := or_linked_views (s.work_data target)
  have hsa : (s.set .work_data (Function.update s.work_data target
      (s.work_data target ||| (1 <<< WORK_STRUCT_LINKED_BIT)))).work_data =
      Function.update s.work_data target
        (s.work_data target ||| (1 <<< WORK_STRUCT_LINKED_BIT)) := by
    simp [State.work_data]
  obtain ⟨a1, a2, a3, a4, a5⟩ := decode_fields s _ target _ hsa
  obtain ⟨d1, d2, d3, d4, d5⟩ := decode_fields _ _ barr _ (v2.trans (by rw [hsa]))
  rw [a1] at d1
  rw [a2] at d2
  rw [a3] at d3
  rw [a4] at d4
  rw [a5] at d5
  rw [w1, l1] at d1
  rw [decide_eq_true w2, l2] at d2
  rw [decide_eq_true w3, l3] at d3
  have w4b : (work_struct_pwq (s.work_data target) |||
      (WORK_STRUCT_PENDING ||| WORK_STRUCT_PWQ ||| (WORK_STRUCT_INACTIVE |||
        (s.work_data target &&& WORK_STRUCT_LINKED) |||
          work_color_to_flags (get_work_color (s.work_data target))))) &&&
        WORK_STRUCT_INACTIVE ≠ 0 := by
    intro e; rw [w4.1 e] at f2; exact absurd f2 (by simp)
  rw [decide_eq_true w4b, l4] at d4
  rw [decide_eq_true l5] at d5
  have hlk : decide ((work_struct_pwq (s.work_data target) |||
      (WORK_STRUCT_PENDING ||| WORK_STRUCT_PWQ ||| (WORK_STRUCT_INACTIVE |||
        (s.work_data target &&& WORK_STRUCT_LINKED) |||
          work_color_to_flags (get_work_color (s.work_data target))))) &&&
        WORK_STRUCT_LINKED ≠ 0) = (core s).linked target := by
    show _ = decide (s.work_data target &&& WORK_STRUCT_LINKED ≠ 0)
    rw [decide_eq_decide, not_iff_not, w5, f3]
    exact (and_bit_eq_zero _ 3).symm
  rw [hlk] at d5
  have e1 : Function.update (core s).pwq_of target (work_struct_pwq (s.work_data target)) =
      (core s).pwq_of := Function.update_eq_self target (core s).pwq_of
  have e2 : Function.update (core s).has_pwq target
      (decide (s.work_data target &&& WORK_STRUCT_PWQ ≠ 0)) = (core s).has_pwq :=
    Function.update_eq_self target (core s).has_pwq
  have e3 : Function.update (core s).pending target
      (decide (s.work_data target &&& WORK_STRUCT_PENDING ≠ 0)) = (core s).pending :=
    Function.update_eq_self target (core s).pending
  have e4 : Function.update (core s).inact target
      (decide (s.work_data target &&& WORK_STRUCT_INACTIVE ≠ 0)) = (core s).inact :=
    Function.update_eq_self target (core s).inact
  rw [e1] at d1
  rw [e2] at d2
  rw [e3] at d3
  rw [e4] at d4
  exact core_eq_of_frame s _ _ v4 v3 d1 d2 d3 d4 d5 v1 (by
      exact insert_wq_barrier_frame s _ barr target 0 .pwq_nr_active (by simp) (by simp) (by simp)
        (by simp) (by simp) (by simp)) v5
    (insert_wq_barrier_hfr s _ barr target 0)
    ⟨rfl, rfl, rfl, rfl, rfl, rfl, rfl, rfl, rfl, rfl, rfl, rfl⟩

/-- The view after a barrier was linked at the front of the `scheduled` list of the
executing worker `k`. -/
theorem core_insert_wq_barrier_front (s : State) (hi : InvC (core s)) (barr k : Nat)
    (hk : s.worker_current_work k ≠ 0) (hb : s.work_entry barr = none) :
    core (insert_wq_barrier s (s.worker_current_pwq k) barr 0 k) =
      (core s).barrier_front barr k (s.worker_current_pwq k) (s.worker_current_color k) := by
  have hk0 : k ≠ 0 := by
    intro e; rw [e] at hk; exact hk hi.e.idle0
  obtain ⟨v1, v2, v3, v4, v5⟩ := insert_wq_barrier_front_fields s (s.worker_current_pwq k) barr k
    hk0 hb (hi.l.mem_entry _)
  obtain ⟨c0, c1⟩ := hi.e.exec_color k hk
  obtain ⟨f1, f2, f3⟩ := barrier_flags_views_front (s.worker_current_color k) c0 c1
  have hal : aligned_pwq (s.worker_current_pwq k) := (hi.e.exec_pwq k hk).2.2
  obtain ⟨w1, w2, w3, w4, w5, _⟩ := queued_word_views _ _ hal.1 hal.2 f1
  obtain ⟨d1, d2, d3, d4, d5⟩ := decode_fields _ _ barr _ v2
  have w4b : (s.worker_current_pwq k ||| (WORK_STRUCT_PENDING ||| WORK_STRUCT_PWQ |||
      (WORK_STRUCT_INACTIVE ||| work_color_to_flags (s.worker_current_color k)))) &&&
        WORK_STRUCT_INACTIVE ≠ 0 := by
    intro e; rw [w4.1 e] at f2; exact absurd f2 (by simp)
  have w5b : ¬ (s.worker_current_pwq k ||| (WORK_STRUCT_PENDING ||| WORK_STRUCT_PWQ |||
      (WORK_STRUCT_INACTIVE ||| work_color_to_flags (s.worker_current_color k)))) &&&
        WORK_STRUCT_LINKED ≠ 0 := by
    rw [not_not]; exact w5.2 f3
  rw [w1] at d1
  rw [decide_eq_true w2] at d2
  rw [decide_eq_true w3] at d3
  rw [decide_eq_true w4b] at d4
  rw [decide_eq_false w5b] at d5
  exact core_eq_of_frame s _ _ v4 v3 d1 d2 d3 d4 d5 v1 (by
      exact insert_wq_barrier_frame s _ barr 0 k .pwq_nr_active (by simp) (by simp) (by simp)
        (by simp) (by simp) (by simp)) v5
    (insert_wq_barrier_hfr s _ barr 0 k)
    ⟨rfl, rfl, rfl, rfl, rfl, rfl, rfl, rfl, rfl, rfl, rfl, rfl⟩

theorem get_work_pwq_ne_zero (s : State) (work : Nat) (h : get_work_pwq s work ≠ 0) :
    s.work_data work &&& WORK_STRUCT_PWQ ≠ 0 ∧
    get_work_pwq s work = work_struct_pwq (s.work_data work) := by
  unfold get_work_pwq work_data_bits at h ⊢
  by_cases hp : s.work_data work &&& WORK_STRUCT_PWQ ≠ 0
  · exact ⟨hp, by rw [if_pos hp]⟩
  · rw [if_neg hp] at h
    exact absurd rfl h

/-- A work item with the PWQ tag is linked. -/
theorem linked_of_pwq_bit (s : State) (hi : InvC (core s)) (work : Nat)
    (h : s.work_data work &&& WORK_STRUCT_PWQ ≠ 0) : ∃ H, s.work_entry work = some H := by
  have h1 : (core s).entry work ≠ none := (hi.l.has_pwq work).1 (decide_eq_true h)
  cases he : s.work_entry work with
  | none => exact absurd he h1
  | some H => exact ⟨H, rfl⟩

/-- The step `flush` preserves the invariant. -/
theorem InvC_flush (s : State) (work barr : Nat) (hi : InvC (core s)) (hb0 : barr ≠ 0)
    (hb : s.work_entry barr = none) (hfresh : ∀ k, s.worker_current_work k ≠ barr) :
    InvC (core (start_flush_work s work barr).2) := by
  unfold start_flush_work
  split_ifs with h1 h2 h3 h4
  · exact hi
  · exact hi
  · obtain ⟨hp, he⟩ := get_work_pwq_ne_zero s work h2
    obtain ⟨H, hH⟩ := linked_of_pwq_bit s hi work hp
    show InvC (core (insert_wq_barrier s (get_work_pwq s work) barr work 0))
    rw [he, core_insert_wq_barrier_after s hi barr work H hb hH]
    obtain ⟨c0, c1⟩ := get_work_color_lt (s.work_data work)
    exact InvC_barrier_after _ hi barr work _ H _ _ hb hb0 (hi.l.split work H hH).1 hfresh c0 c1
  · exact hi
  · have hb2 : 0 ∉ s.pool_busy_hash (get_work_pool s work) := hi.e.not_busy_zero _
    have := (find_worker_executing_work_spec s (get_work_pool s work) work hb2).2 h4
    have hk := ((hi.e.busy_mem _ _).1 this.1).1
    show InvC (core (insert_wq_barrier s _ barr work _))
    have hwork : insert_wq_barrier s
        (s.worker_current_pwq (find_worker_executing_work s (get_work_pool s work) work)) barr
        work (find_worker_executing_work s (get_work_pool s work) work) =
        insert_wq_barrier s
        (s.worker_current_pwq (find_worker_executing_work s (get_work_pool s work) work)) barr
        0 (find_worker_executing_work s (get_work_pool s work) work) := by
      unfold insert_wq_barrier
      rw [if_pos h4, if_pos h4]
    rw [hwork, core_insert_wq_barrier_front s hi barr _ hk hb]
    exact InvC_barrier_front _ hi barr _ hb hb0 hk hfresh

/-! ## Activation of an inactive work item -/

theorem clear_inactive_pwq (d : Nat) :
    work_struct_pwq (d &&& ulong_not (1 <<< WORK_STRUCT_INACTIVE_BIT)) = work_struct_pwq d := by
  unfold work_struct_pwq
  apply Nat.eq_of_testBit_eq; intro i
  rw [Nat.testBit_and, Nat.testBit_and, Nat.testBit_and, testBit_ulong_not, testBit_one_shl,
    testBit_data_mask]
  by_cases h8 : 8 ≤ i
  · by_cases h64 : i < 64
    · have : ¬ (1 = i) := by omega
      simp [h8, h64, this]
    · simp [h64]
  · simp [h8]

theorem run_of_congr (lk lk2 : Nat → Bool) (l : List Nat) (h : ∀ y ∈ l, lk2 y = lk y) :
    run_of lk2 l = run_of lk l := by
  induction l with
  | nil => rfl
  | cons a l ih =>
    unfold run_of
    rw [h a (List.mem_cons_self _ _), ih (fun y hy => h y (List.mem_cons_of_mem _ hy))]

/-- The arguments with which the activation of the linked work item `x` on
`inactive_works` satisfies the premises of `InvC_activate`. -/
theorem activate_args (c : Core) (hi : InvL c) (x p : Nat)
    (hx : c.entry x = some (list_head.inactive_works p))
    (hnb : c.func x ≠ wq_barrier_func) :
    ∃ bs, run_of c.linked (list_from x (c.lists (list_head.inactive_works p))) = x :: bs ∧
      c.lists (list_head.inactive_works p) =
        list_before x (c.lists (list_head.inactive_works p)) ++ (x :: bs) ++
          (list_from x (c.lists (list_head.inactive_works p))).drop (x :: bs).length ∧
      (∀ a, (list_before x (c.lists (list_head.inactive_works p))).getLast? = some a →
        c.linked a = false) ∧
      (∀ z, (x :: bs).getLast? = some z → c.linked z = false) ∧
      (∀ y ∈ bs, c.func y = wq_barrier_func) := by
  obtain ⟨h1, _, h3⟩ := hi.split x _ hx
  have hch := hi.chain (list_head.inactive_works p)
  obtain ⟨bs, hbs⟩ := run_of_head c.linked x
    ((list_from x (c.lists (list_head.inactive_works p))).drop 1)
  rw [← h3] at hbs
  have hpre := run_of_prefix c.linked (list_from x (c.lists (list_head.inactive_works p)))
  refine ⟨bs, hbs, ?_, ?_, ?_, ?_⟩
  · rw [← hbs, List.append_assoc, hpre]
    exact (list_before_from x _).symm
  · intro a ha
    have hc := hch.1
    rw [h1, List.chain'_append] at hc
    have := hc.2.2 a ha x (by simp)
    cases hl : c.linked a with
    | false => rfl
    | true => exact absurd (this hl) hnb
  · rw [← hbs]
    apply run_of_last
    intro y hy
    apply hch.2
    rw [h1, getLast?_append_cons, ← h3]
    exact hy
  · intro y hy
    have hc := hch.1
    rw [← list_before_from x (c.lists (list_head.inactive_works p))] at hc
    have := run_of_tail_barrier c.linked (fun z => c.func z = wq_barrier_func) _
      hc.right_of_append y
    apply this
    rw [hbs]
    exact hy

/-- The view after `pwq_activate_inactive_work` on a work item linked on the
`inactive_works` list of its pool_workqueue. -/
theorem core_activate (u : State) (x : Nat)
    (hp : u.work_data x &&& WORK_STRUCT_PWQ ≠ 0)
    (he : u.work_entry x = some (list_head.inactive_works (work_struct_pwq (u.work_data x))))
    (hm : x ∈ u.lists (list_head.inactive_works (work_struct_pwq (u.work_data x))))
    (hnd : (u.lists (list_head.inactive_works (work_struct_pwq (u.work_data x)))).Nodup)
    (hent : ∀ y ∈ u.lists (list_head.inactive_works (work_struct_pwq (u.work_data x))),
      u.work_entry y = some (list_head.inactive_works (work_struct_pwq (u.work_data x)))) :
    core (pwq_activate_inactive_work u x) = (core u).activate x
      (list_before x (u.lists (list_head.inactive_works (work_struct_pwq (u.work_data x)))))
      (run_of (core u).linked
        (list_from x (u.lists (list_head.inactive_works (work_struct_pwq (u.work_data x))))))
      ((list_from x (u.lists (list_head.inactive_works (work_struct_pwq (u.work_data x))))).drop
        (run_of (core u).linked (list_from x
          (u.lists (list_head.inactive_works (work_struct_pwq (u.work_data x)))))).length) := by
  have hpw : get_work_pwq u x = work_struct_pwq (u.work_data x) := by
    unfold get_work_pwq work_data_bits
    rw [if_pos hp]
  obtain ⟨a1, a2, a3, a4⟩ := pwq_activate_inactive_work_spec u x
    (list_head.inactive_works (work_struct_pwq (u.work_data x))) he (by simp) hm hnd hent
  rw [hpw] at a1 a2 a4
  rw [linked_run_eq_run_of] at a1 a2
  obtain ⟨d1, d2, d3, d4, d5⟩ := decode_fields u _ x _ a3
  obtain ⟨w1, w2, w3, w4, _, _⟩ := clear_inactive_views (u.work_data x)
  rw [clear_inactive_pwq] at d1
  rw [w2] at d2
  rw [w4] at d3
  rw [w1] at d4
  rw [w3] at d5
  have e1 : Function.update (core u).pwq_of x (work_struct_pwq (u.work_data x)) =
      (core u).pwq_of := Function.update_eq_self x (core u).pwq_of
  have e2 : Function.update (core u).has_pwq x
      (decide (u.work_data x &&& WORK_STRUCT_PWQ ≠ 0)) = (core u).has_pwq :=
    Function.update_eq_self x (core u).has_pwq
  have e3 : Function.update (core u).pending x
      (decide (u.work_data x &&& WORK_STRUCT_PENDING ≠ 0)) = (core u).pending :=
    Function.update_eq_self x (core u).pending
  have e5 : Function.update (core u).linked x
      (decide (u.work_data x &&& WORK_STRUCT_LINKED ≠ 0)) = (core u).linked :=
    Function.update_eq_self x (core u).linked
  rw [e1] at d1
  rw [e2] at d2
  rw [e3] at d3
  rw [e5] at d5
  have d4b : (core (pwq_activate_inactive_work u x)).inact =
      Function.update (core u).inact x false := by
    rw [d4]; simp
  have hl : (pwq_activate_inactive_work u x).lists = Function.update (Function.update u.lists
      (list_head.inactive_works (work_struct_pwq (u.work_data x)))
      (list_before x (u.lists (list_head.inactive_works (work_struct_pwq (u.work_data x)))) ++
        (list_from x (u.lists (list_head.inactive_works (work_struct_pwq (u.work_data x))))).drop
          (run_of (fun y => decide (u.work_data y &&& WORK_STRUCT_LINKED ≠ 0)) (list_from x
            (u.lists (list_head.inactive_works (work_struct_pwq (u.work_data x)))))).length))
      (list_head.worklist (u.pwq_pool (work_struct_pwq (u.work_data x))))
      (u.lists (list_head.worklist (u.pwq_pool (work_struct_pwq (u.work_data x)))) ++
        run_of (fun y => decide (u.work_data y &&& WORK_STRUCT_LINKED ≠ 0)) (list_from x
          (u.lists (list_head.inactive_works (work_struct_pwq (u.work_data x)))))) := by
    funext h
    rw [a1 h]
    by_cases h1 : h = list_head.worklist (u.pwq_pool (work_struct_pwq (u.work_data x)))
    · rw [if_pos h1, h1, Function.update_same]
    · rw [if_neg h1, Function.update_noteq h1]
      by_cases h2 : h = list_head.inactive_works (work_struct_pwq (u.work_data x))
      · rw [if_pos h2, h2, Function.update_same]
      · rw [if_neg h2, Function.update_noteq h2]
  have hen : (pwq_activate_inactive_work u x).work_entry = fun y =>
      if y ∈ run_of (fun y => decide (u.work_data y &&& WORK_STRUCT_LINKED ≠ 0)) (list_from x
          (u.lists (list_head.inactive_works (work_struct_pwq (u.work_data x))))) then
        some (list_head.worklist (u.pwq_pool (work_struct_pwq (u.work_data x))))
      else u.work_entry y := by
    funext y
    rw [a2 y]
  refine core_eq_of_frame u _ _ hl hen d1 d2 d3 d4b d5 ?_ a4 ?_ ?_
    ⟨rfl, rfl, rfl, rfl, rfl, rfl, rfl, rfl, rfl, rfl, rfl, rfl⟩
  · exact pwq_activate_inactive_work_frame u x .work_func (by simp) (by simp) (by simp) (by simp)
      (by simp)
  · exact pwq_activate_inactive_work_frame u x .pwq_nr_in_flight (by simp) (by simp) (by simp)
      (by simp) (by simp)
  · intro g hg h1 h2 h3 _ h5 _
    exact pwq_activate_inactive_work_frame u x g (external_ne g _ hg rfl) h1 h2 h3 h5

/-- Activation of a linked inactive work item that is not a barrier preserves the
invariant. -/
theorem InvC_activate_state (u : State) (hi : InvC (core u)) (x p : Nat)
    (hx : u.work_entry x = some (list_head.inactive_works p))
    (hnb : u.work_func x ≠ wq_barrier_func) :
    InvC (core (pwq_activate_inactive_work u x)) := by
  have hty := hi.l.typ_inactive p x hx
  have hpw : work_struct_pwq (u.work_data x) = p := hty.1
  have hp : u.work_data x &&& WORK_STRUCT_PWQ ≠ 0 := by
    have := (hi.l.has_pwq x).2 (by rw [show (core u).entry x = _ from hx]; simp)
    exact of_decide_eq_true this
  subst hpw
  rw [core_activate u x hp hx ((hi.l.mem_entry _ x).2 hx) (hi.l.nodup _)
    (fun y hy => (hi.l.mem_entry _ y).1 hy)]
  obtain ⟨bs, b1, b2, b3, b4, b5⟩ := activate_args (core u) hi.l x _ hx hnb
  have b1b : run_of (core u).linked (list_from x
      (u.lists (list_head.inactive_works (work_struct_pwq (u.work_data x))))) = x :: bs := b1
  rw [b1b]
  exact InvC_activate (core u) hi x _ bs _ b2 hnb b3 b4 b5

/-! ## The step `adjust` -/

theorem InvC_activate_first (s : State) (pwq : Nat) (hi : InvC (core s)) :
    InvC (core (pwq_activate_first_inactive s pwq)) := by
  unfold pwq_activate_first_inactive
  split_ifs with h
  · exact hi
  · cases hL : s.lists (list_head.inactive_works pwq) with
    | nil => exact absurd hL h
    | cons x l =>
      simp only [List.headD_cons]
      have hx : s.work_entry x = some (list_head.inactive_works pwq) :=
        (hi.l.mem_entry _ x).1 (by
          show x ∈ s.lists _
          rw [hL]; simp)
      have hnb : s.work_func x ≠ wq_barrier_func :=
        (hi.l.ichain pwq).2 x (by
          show (s.lists _).head? = some x
          rw [hL]; rfl)
      exact InvC_activate_state s hi x pwq hx hnb

theorem InvC_adjust_loop (fuel : Nat) (s : State) (pwq : Nat) (hi : InvC (core s)) :
    InvC (core (pwq_adjust_max_active_loop fuel s pwq)) := by
  induction fuel generalizing s with
  | zero => exact hi
  | succ n ih =>
    unfold pwq_adjust_max_active_loop
    split_ifs
    · exact ih _ (InvC_activate_first s pwq hi)
    · exact hi

theorem core_set_max_active (s : State) (v : Nat → Int) :
    core (s.set .pwq_max_active v) = { core s with max_active := v } := rfl

/-- The step `adjust` preserves the invariant. -/
theorem InvC_adjust (s : State) (pwq : Nat) (hi : InvC (core s)) :
    InvC (core (pwq_adjust_max_active s pwq)) := by
  unfold pwq_adjust_max_active
  simp only []
  split_ifs
  · exact hi
  · rw [core_kick_pool]
    apply InvC_adjust_loop
    rw [core_set_max_active]
    exact InvC_max_active _ hi _
  · rw [core_set_max_active]
    exact InvC_max_active _ hi _

/-! ## The step `assign` -/

/-- The series of linked work items that starts at the linked work item `x`. -/
theorem run_args (c : Core) (hi : InvL c) (x : Nat) (H : list_head) (hx : c.entry x = some H) :
    ∃ bs, run_of c.linked (list_from x (c.lists H)) = x :: bs ∧
      c.lists H = list_before x (c.lists H) ++ (x :: bs) ++
          (list_from x (c.lists H)).drop (x :: bs).length ∧
      (∀ z, (x :: bs).getLast? = some z → c.linked z = false) ∧
      (∀ y ∈ bs, c.func y = wq_barrier_func) := by
  obtain ⟨h1, _, h3⟩ := hi.split x _ hx
  have hch := hi.chain H
  obtain ⟨bs, hbs⟩ := run_of_head c.linked x ((list_from x (c.lists H)).drop 1)
  rw [← h3] at hbs
  have hpre := run_of_prefix c.linked (list_from x (c.lists H))
  refine ⟨bs, hbs, ?_, ?_, ?_⟩
  · rw [← hbs, List.append_assoc, hpre]
    exact (list_before_from x _).symm
  · rw [← hbs]
    apply run_of_last
    intro y hy
    apply hch.2
    rw [h1, getLast?_append_cons, ← h3]
    exact hy
  · intro y hy
    have hc := hch.1
    rw [← list_before_from x (c.lists H)] at hc
    have := run_of_tail_barrier c.linked (fun z => c.func z = wq_barrier_func) _
      hc.right_of_append y
    apply this
    rw [hbs]
    exact hy

/-- The view after `move_linked_works` on a linked work item. -/
theorem core_move_linked_works (s : State) (hi : InvL (core s)) (w : Nat) (h0 hd : list_head)
    (he : s.work_entry w = some h0) (hne : h0 ≠ hd) :
    core (move_linked_works s w hd).1 = (core s).move_run h0 hd (list_before w (s.lists h0))
      (run_of (core s).linked (list_from w (s.lists h0)))
      ((list_from w (s.lists h0)).drop
        (run_of (core s).linked (list_from w (s.lists h0))).length) := by
  obtain ⟨a1, a2, a3⟩ := move_linked_works_spec s w h0 hd he hne ((hi.mem_entry _ w).2 he)
    (hi.nodup h0) (fun y hy => (hi.mem_entry _ y).1 hy)
  rw [linked_run_eq_run_of] at a1 a2
  obtain ⟨d1, d2, d3, d4, d5⟩ := decode_fields s (move_linked_works s w hd).1 w (s.work_data w)
    (by rw [a3, Function.update_eq_self])
  have e1 : Function.update (core s).pwq_of w (work_struct_pwq (s.work_data w)) =
      (core s).pwq_of := Function.update_eq_self w (core s).pwq_of
  have e2 : Function.update (core s).has_pwq w
      (decide (s.work_data w &&& WORK_STRUCT_PWQ ≠ 0)) = (core s).has_pwq :=
    Function.update_eq_self w (core s).has_pwq
  have e3 : Function.update (core s).pending w
      (decide (s.work_data w &&& WORK_STRUCT_PENDING ≠ 0)) = (core s).pending :=
    Function.update_eq_self w (core s).pending
  have e4 : Function.update (core s).inact w
      (decide (s.work_data w &&& WORK_STRUCT_INACTIVE ≠ 0)) = (core s).inact :=
    Function.update_eq_self w (core s).inact
  have e5 : Function.update (core s).linked w
      (decide (s.work_data w &&& WORK_STRUCT_LINKED ≠ 0)) = (core s).linked :=
    Function.update_eq_self w (core s).linked
  rw [e1] at d1
  rw [e2] at d2
  rw [e3] at d3
  rw [e4] at d4
  rw [e5] at d5
  have hl : (move_linked_works s w hd).1.lists = Function.update (Function.update s.lists h0
      (list_before w (s.lists h0) ++ (list_from w (s.lists h0)).drop
          (run_of (fun y => decide (s.work_data y &&& WORK_STRUCT_LINKED ≠ 0))
            (list_from w (s.lists h0))).length))
      hd (s.lists hd ++
        run_of (fun y => decide (s.work_data y &&& WORK_STRUCT_LINKED ≠ 0))
          (list_from w (s.lists h0))) := by
    funext h
    rw [a1 h]
    by_cases h1 : h = hd
    · rw [if_pos h1, h1, Function.update_same]
    · rw [if_neg h1, Function.update_noteq h1]
      by_cases h2 : h = h0
      · rw [if_pos h2, h2, Function.update_same]
      · rw [if_neg h2, Function.update_noteq h2]
  have hen : (move_linked_works s w hd).1.work_entry = fun y =>
      if y ∈ run_of (fun y => decide (s.work_data y &&& WORK_STRUCT_LINKED ≠ 0))
        (list_from w (s.lists h0)) then some hd else s.work_entry y := by
    funext y
    rw [a2 y]
  refine core_eq_of_frame s _ _ hl hen d1 d2 d3 d4 d5 ?_ ?_ ?_ ?_
    ⟨rfl, rfl, rfl, rfl, rfl, rfl, rfl, rfl, rfl, rfl, rfl, rfl⟩
  · exact move_linked_works_frame s w hd .work_func (by simp) (by simp)
  · exact move_linked_works_frame s w hd .pwq_nr_active (by simp) (by simp)
  · exact move_linked_works_frame s w hd .pwq_nr_in_flight (by simp) (by simp)
  · intro g _ h1 h2 _ _ _ _
    exact move_linked_works_frame s w hd g h1 h2

/-- The step `assign` preserves the invariant. -/
theorem InvC_assign_step (s : State) (k work : Nat) (hi : InvC (core s))
    (hw : s.work_entry work = some (list_head.worklist (s.worker_pool k)))
    (hA : ∀ y, (list_before work (s.lists (list_head.worklist (s.worker_pool k)))).getLast? =
      some y → s.work_data y &&& WORK_STRUCT_LINKED = 0) :
    InvC (core (assign_work s work k).2.1) := by
  have hb : 0 ∉ s.pool_busy_hash (s.worker_pool k) := hi.e.not_busy_zero _
  obtain ⟨f1, f2⟩ := find_worker_executing_work_spec s (s.worker_pool k) work hb
  obtain ⟨bs, b1, b2, b4, b5⟩ := run_args (core s) hi.l work _ hw
  have hA2 : ∀ a, (list_before work ((core s).lists (list_head.worklist (s.worker_pool k)))).getLast?
      = some a → (core s).linked a = false := by
    intro a ha
    have := hA a ha
    show decide (s.work_data a &&& WORK_STRUCT_LINKED ≠ 0) = false
    simp [this]
  have b1b : run_of (core s).linked (list_from work
      (s.lists (list_head.worklist (s.worker_pool k)))) = work :: bs := b1
  unfold assign_work
  split_ifs with hc
  · have hk2 := f2 hc
    have hm := (hi.e.busy_mem _ _).1 hk2.1
    show InvC (core (move_linked_works s work _).1)
    rw [core_move_linked_works s hi.l work _ _ hw (by simp), b1b]
    apply InvC_assign (core s) hi (s.worker_pool k) _ work _ bs _ b2 hA2 b4 b5 hm.2
    intro k2 hk2n hp hex
    apply hk2n
    have hw0 : work ≠ 0 := hi.l.entry_ne_zero work (by
      rw [show (core s).entry work = _ from hw]; simp)
    exact hi.x.uniq k2 _ (by rw [show (core s).cur_work k2 = work from hex.1]; exact hw0)
      (hex.1.trans hk2.2.1.symm) (hex.2.trans hk2.2.2.symm) hp
  · show InvC (core (move_linked_works s work _).1)
    rw [core_move_linked_works s hi.l work _ _ hw (by simp), b1b]
    apply InvC_assign (core s) hi (s.worker_pool k) k work _ bs _ b2 hA2 b4 b5 rfl
    intro k2 _ hp hex
    have hw0 : work ≠ 0 := hi.l.entry_ne_zero work (by
      rw [show (core s).entry work = _ from hw]; simp)
    have hk2 : k2 ∈ s.pool_busy_hash (s.worker_pool k) :=
      (hi.e.busy_mem _ k2).2 ⟨by rw [show (core s).cur_work k2 = work from hex.1]; exact hw0, hp⟩
    apply hc
    exact f1.2 ⟨k2, hk2, hex.1, hex.2⟩

/-! ## The steps `start` and `finish` -/

theorem work_struct_pwq_aligned (d : Nat) : aligned_pwq (work_struct_pwq d) := by
  constructor
  · unfold work_struct_pwq
    apply Nat.eq_of_testBit_eq; intro i
    rw [Nat.testBit_and, Nat.testBit_and, testBit_data_mask]
    by_cases h8 : i < 8
    · have : ¬ 8 ≤ i := by omega
      simp [this]
    · have := testBit_lt WORK_STRUCT_FLAG_MASK 8 (by decide) i (by omega)
      simp [this]
  · unfold work_struct_pwq
    exact lt_of_le_of_lt Nat.and_le_right (by decide)

/-- An off-queue data word does not carry the PWQ tag. -/
theorem offq_no_pwq (v f : Nat) (hf : f.testBit 2 = false) :
    ((v <<< WORK_OFFQ_POOL_SHIFT) % 2 ^ BITS_PER_LONG ||| f) &&& WORK_STRUCT_PWQ = 0 := by
  show _ &&& (1 <<< 2) = 0
  rw [and_bit_eq_zero, Nat.testBit_or, hf, Nat.testBit_mod_two_pow, Nat.testBit_shiftLeft]
  simp +decide

theorem process_one_work_begin_fields (s : State) (k w : Nat) (rest : List Nat)
    (hw : s.work_entry w = some (list_head.scheduled k))
    (hL : s.lists (list_head.scheduled k) = w :: rest) :
    (process_one_work_begin s k w).lists = Function.update s.lists (list_head.scheduled k) rest ∧
    (process_one_work_begin s k w).work_entry = Function.update s.work_entry w none ∧
    (process_one_work_begin s k w).work_data = Function.update s.work_data w
      ((to_ulong (s.pool_id (s.worker_pool k)) <<< WORK_OFFQ_POOL_SHIFT) % 2 ^ BITS_PER_LONG ||| 0) ∧
    (process_one_work_begin s k w).pool_busy_hash = Function.update s.pool_busy_hash
      (s.worker_pool k) (k :: s.pool_busy_hash (s.worker_pool k)) ∧
    (process_one_work_begin s k w).worker_current_work =
      Function.update s.worker_current_work k w ∧
    (process_one_work_begin s k w).worker_current_func =
      Function.update s.worker_current_func k (s.work_func w) ∧
    (process_one_work_begin s k w).worker_current_pwq =
      Function.update s.worker_current_pwq k (get_work_pwq s w) ∧
    (process_one_work_begin s k w).worker_current_color =
      Function.update s.worker_current_color k (get_work_color (s.work_data w)) ∧
    (process_one_work_begin s k w).worker_frame_pwq =
      Function.update s.worker_frame_pwq k (get_work_pwq s w) ∧
    (process_one_work_begin s k w).worker_frame_work_data =
      Function.update s.worker_frame_work_data k (s.work_data w) := by
  have hL2 : s Field.lists (list_head.scheduled k) = w :: rest := hL
  have hw2 : s Field.work_entry w = some (list_head.scheduled k) := hw
  refine ⟨?_, ?_, ?_, ?_, ?_, ?_, ?_, ?_, ?_, ?_⟩
  · unfold process_one_work_begin
    simp only []
    split_ifs <;>
      simp [State.lists, list_del_init, State.work_entry, set_work_pool_and_clear_pending,
        hw2, hL2]
  · unfold process_one_work_begin
    simp only []
    split_ifs <;> simp [State.work_entry, list_del_init, set_work_pool_and_clear_pending]
  · unfold process_one_work_begin
    simp only []
    split_ifs <;>
      simp [State.work_data, list_del_init, set_work_pool_and_clear_pending, set_work_data,
        State.pool_id, State.worker_pool]
  · unfold process_one_work_begin
    simp only []
    split_ifs <;>
      simp [State.pool_busy_hash, list_del_init, set_work_pool_and_clear_pending,
        State.worker_pool]
  · unfold process_one_work_begin
    simp only []
    split_ifs <;>
      simp [State.worker_current_work, list_del_init, set_work_pool_and_clear_pending]
  · unfold process_one_work_begin
    simp only []
    split_ifs <;>
      simp [State.worker_current_func, list_del_init, set_work_pool_and_clear_pending,
        State.work_func]
  · unfold process_one_work_begin
    simp only []
    split_ifs <;>
      simp [State.worker_current_pwq, list_del_init, set_work_pool_and_clear_pending]
  · unfold process_one_work_begin
    simp only []
    split_ifs <;>
      simp [State.worker_current_color, list_del_init, set_work_pool_and_clear_pending,
        work_data_bits, State.work_data]
  · unfold process_one_work_begin
    simp only []
    split_ifs <;>
      simp [State.worker_frame_pwq, list_del_init, set_work_pool_and_clear_pending]
  · unfold process_one_work_begin
    simp only []
    split_ifs <;>
      simp [State.worker_frame_work_data, list_del_init, set_work_pool_and_clear_pending,
        work_data_bits, State.work_data]

/-- The step `start` preserves the invariant. -/
theorem InvC_start_step (s : State) (k w : Nat) (hi : InvC (core s)) (hk0 : k ≠ 0)
    (hk : s.worker_current_work k = 0)
    (hh : (s.lists (list_head.scheduled k)).head? = some w) :
    InvC (core (process_one_work_begin s k w)) := by
  obtain ⟨rest, hL⟩ : ∃ rest, s.lists (list_head.scheduled k) = w :: rest := by
    cases hl : s.lists (list_head.scheduled k) with
    | nil => rw [hl] at hh; simp at hh
    | cons a l =>
      rw [hl] at hh
      simp at hh
      exact ⟨l, by rw [hh]⟩
  have hw : s.work_entry w = some (list_head.scheduled k) :=
    (hi.l.mem_entry _ w).1 (by
      show w ∈ s.lists _
      rw [hL]; simp)
  have hp : s.work_data w &&& WORK_STRUCT_PWQ ≠ 0 :=
    of_decide_eq_true ((hi.l.has_pwq w).2 (by rw [show (core s).entry w = _ from hw]; simp))
  have hpw : get_work_pwq s w = work_struct_pwq (s.work_data w) := by
    unfold get_work_pwq work_data_bits
    rw [if_pos hp]
  obtain ⟨v1, v2, v3, v4, v5, v6, v7, v8, v9, v10⟩ := process_one_work_begin_fields s k w rest hw hL
  rw [hpw] at v7 v9
  obtain ⟨d1, d2, d3, d4, d5⟩ := decode_fields s _ w _ v3
  rw [offq_no_pwq _ 0 (by simp)] at d2
  have d2b : (core (process_one_work_begin s k w)).has_pwq =
      Function.update (core s).has_pwq w false := by
    rw [d2]; simp
  have hfr : ∀ g, Field.external g = false → g ≠ .lists → g ≠ .work_entry → g ≠ .work_data →
      g ≠ .pool_busy_hash → g ≠ .worker_current_work → g ≠ .worker_current_func →
      g ≠ .worker_current_pwq → g ≠ .worker_current_color → g ≠ .worker_frame_pwq →
      g ≠ .worker_frame_work_data → process_one_work_begin s k w g = s g := by
    intro g hg h1 h2 h3 h4 h5 h6 h7 h8 h9 h10
    exact process_one_work_begin_frame s k w g h4 (external_ne g _ hg rfl) h5 h6 h7 h8 h9 h10 h1 h2
      (external_ne g _ hg rfl) (external_ne g _ hg rfl) (external_ne g _ hg rfl)
      (external_ne g _ hg rfl) (external_ne g _ hg rfl) h3
  have hfi : (core (process_one_work_begin s k w)).frame_inact =
      Function.update (core s).frame_inact k (decide (s.work_data w &&& WORK_STRUCT_INACTIVE ≠ 0)) := by
    unfold core
    simp only [v10]
    exact bit_update _ _ _ _
  have hc : core (process_one_work_begin s k w) = (core s).start k w rest
      (work_struct_pwq ((to_ulong (s.pool_id (s.worker_pool k)) <<< WORK_OFFQ_POOL_SHIFT) %
        2 ^ BITS_PER_LONG ||| 0))
      (decide (((to_ulong (s.pool_id (s.worker_pool k)) <<< WORK_OFFQ_POOL_SHIFT) %
        2 ^ BITS_PER_LONG ||| 0) &&& WORK_STRUCT_PENDING ≠ 0))
      (decide (((to_ulong (s.pool_id (s.worker_pool k)) <<< WORK_OFFQ_POOL_SHIFT) %
        2 ^ BITS_PER_LONG ||| 0) &&& WORK_STRUCT_INACTIVE ≠ 0))
      (decide (((to_ulong (s.pool_id (s.worker_pool k)) <<< WORK_OFFQ_POOL_SHIFT) %
        2 ^ BITS_PER_LONG ||| 0) &&& WORK_STRUCT_LINKED ≠ 0))
      (get_work_color (s.work_data w)) := by
    refine Core.ext v1 v2 d1 d2b d3 d4 d5 ?_ ?_ ?_ ?_ v4 v5 v6 v7 v8 v9 hfi ?_ ?_ ?_ ?_
    · exact hfr .work_func rfl (by simp) (by simp) (by simp) (by simp) (by simp) (by simp)
        (by simp) (by simp) (by simp) (by simp)
    · exact hfr .pwq_nr_active rfl (by simp) (by simp) (by simp) (by simp) (by simp) (by simp)
        (by simp) (by simp) (by simp) (by simp)
    · exact hfr .pwq_nr_in_flight rfl (by simp) (by simp) (by simp) (by simp) (by simp) (by simp)
        (by simp) (by simp) (by simp) (by simp)
    · exact hfr .pwq_max_active rfl (by simp) (by simp) (by simp) (by simp) (by simp) (by simp)
        (by simp) (by simp) (by simp) (by simp)
    · exact hfr .worker_pool rfl (by simp) (by simp) (by simp) (by simp) (by simp) (by simp)
        (by simp) (by simp) (by simp) (by simp)
    · exact hfr .pwq_pool rfl (by simp) (by simp) (by simp) (by simp) (by simp) (by simp)
        (by simp) (by simp) (by simp) (by simp)
    · exact hfr .wq_cpu_pwq rfl (by simp) (by simp) (by simp) (by simp) (by simp) (by simp)
        (by simp) (by simp) (by simp) (by simp)
    · exact hfr .pwq_work_color rfl (by simp) (by simp) (by simp) (by simp) (by simp) (by simp)
        (by simp) (by simp) (by simp) (by simp)
  rw [hc]
  obtain ⟨c0, c1⟩ := get_work_color_lt (s.work_data w)
  exact InvC_start (core s) hi k w rest _ _ _ _ _ hL hk hk0 c0 c1 (work_struct_pwq_aligned _)

/-! ## Giving up the in-flight count -/

theorem core_set_nr_in_flight (s : State) (v : Nat → Int → Int) :
    core (s.set .pwq_nr_in_flight v) = { core s with nr_in_flight := v } := rfl

theorem core_set_nr_active (s : State) (v : Nat → Int) :
    core (s.set .pwq_nr_active v) = { core s with nr_active := v } := rfl

/-- The view after `pwq_dec_nr_in_flight`: the counters drop, and when the work item was
active, `inactive_works` is not empty and `max_active` allows, the first inactive work
item is activated. -/
theorem core_dec (u : State) (pwq d : Nat)
    (hWF : ∀ x l, u.lists (list_head.inactive_works pwq) = x :: l →
      u.work_data x &&& WORK_STRUCT_PWQ ≠ 0 ∧ work_struct_pwq (u.work_data x) = pwq ∧
      (x :: l).Nodup ∧ ∀ y ∈ x :: l, u.work_entry y = some (list_head.inactive_works pwq)) :
    core (pwq_dec_nr_in_flight u pwq d) = (core u).dec pwq (get_work_color d)
        (decide (d &&& WORK_STRUCT_INACTIVE ≠ 0)) ∨
    (d &&& WORK_STRUCT_INACTIVE = 0 ∧ u.pwq_nr_active pwq - 1 < u.pwq_max_active pwq ∧
      ∃ x l, u.lists (list_head.inactive_works pwq) = x :: l ∧
        core (pwq_dec_nr_in_flight u pwq d) =
          ((core u).dec pwq (get_work_color d) false).activate x []
            (run_of (core u).linked (x :: l))
            ((x :: l).drop (run_of (core u).linked (x :: l)).length)) := by
  have e0 : core (pwq_dec_nr_in_flight u pwq d) =
      { core (pwq_dec_nr_active u pwq d) with
        nr_in_flight := Function.update (pwq_dec_nr_active u pwq d).pwq_nr_in_flight pwq
          (Function.update ((pwq_dec_nr_active u pwq d).pwq_nr_in_flight pwq) (get_work_color d)
            ((pwq_dec_nr_active u pwq d).pwq_nr_in_flight pwq (get_work_color d) - 1)) } := by
    unfold pwq_dec_nr_in_flight
    simp only []
    rw [core_put_pwq, core_pwq_flush_tip, core_set_nr_in_flight]
  have e1 : (pwq_dec_nr_active u pwq d).pwq_nr_in_flight = u.pwq_nr_in_flight :=
    pwq_dec_nr_active_frame u pwq d .pwq_nr_in_flight (by simp) (by simp) (by simp) (by simp)
      (by simp)
  rw [e1] at e0
  by_cases hi : d &&& WORK_STRUCT_INACTIVE = 0
  · by_cases hc : u.lists (list_head.inactive_works pwq) ≠ [] ∧
        u.pwq_nr_active pwq - 1 < u.pwq_max_active pwq
    · right
      refine ⟨hi, hc.2, ?_⟩
      cases hL : u.lists (list_head.inactive_works pwq) with
      | nil => exact absurd hL hc.1
      | cons x l =>
        refine ⟨x, l, rfl, ?_⟩
        obtain ⟨w1, w2, w3, w4⟩ := hWF x l hL
        rw [e0, pwq_dec_nr_active_promote u pwq d x l hi hL hc.2]
        have w2p : work_struct_pwq ((u.set .pwq_nr_active (Function.update u.pwq_nr_active pwq
            (u.pwq_nr_active pwq - 1))).work_data x) = pwq := w2
        have ea := core_activate (u.set .pwq_nr_active (Function.update u.pwq_nr_active pwq
            (u.pwq_nr_active pwq - 1))) x w1
          (by rw [w2p]; exact w4 x (by simp))
          (by rw [w2p]; exact hL ▸ List.mem_cons_self x l)
          (by rw [w2p]; exact hL ▸ w3)
          (by rw [w2p]; intro y hy; exact w4 y (hL ▸ hy))
        rw [w2p] at ea
        have hL2 : (u.set .pwq_nr_active (Function.update u.pwq_nr_active pwq
            (u.pwq_nr_active pwq - 1))).lists (list_head.inactive_works pwq) = x :: l := hL
        rw [hL2, list_from_head, list_before_head, core_set_nr_active] at ea
        rw [ea]
        simp only [hi, ne_eq, not_true_eq_false, decide_False]
        rfl
    · left
      rw [e0, pwq_dec_nr_active_keep u pwq d hi hc, core_set_nr_active]
      simp only [hi, ne_eq, not_true_eq_false, decide_False]
      rfl
  · left
    rw [e0, pwq_dec_nr_active_idle u pwq d hi]
    simp only [hi, ne_eq, not_false_eq_true, decide_True]
    apply Core.ext <;> try rfl
    show u.pwq_nr_active = Function.update u.pwq_nr_active pwq (u.pwq_nr_active pwq - 0)
    rw [sub_zero, Function.update_eq_self]

/-- The counters `nr_active` and `max_active` after `pwq_dec_nr_in_flight`. -/
theorem dec_na (u : State) (pwq d : Nat)
    (hWF : ∀ x l, u.lists (list_head.inactive_works pwq) = x :: l →
      u.work_data x &&& WORK_STRUCT_PWQ ≠ 0 ∧ work_struct_pwq (u.work_data x) = pwq ∧
      (x :: l).Nodup ∧ ∀ y ∈ x :: l, u.work_entry y = some (list_head.inactive_works pwq)) :
    (pwq_dec_nr_in_flight u pwq d).pwq_max_active = u.pwq_max_active ∧
    (∀ p, p ≠ pwq → (pwq_dec_nr_in_flight u pwq d).pwq_nr_active p = u.pwq_nr_active p) ∧
    ((pwq_dec_nr_in_flight u pwq d).pwq_nr_active pwq =
        u.pwq_nr_active pwq - (if d &&& WORK_STRUCT_INACTIVE = 0 then 1 else 0) ∨
      (d &&& WORK_STRUCT_INACTIVE = 0 ∧
        (pwq_dec_nr_in_flight u pwq d).pwq_nr_active pwq = u.pwq_nr_active pwq ∧
        u.pwq_nr_active pwq - 1 < u.pwq_max_active pwq)) := by
  rcases core_dec u pwq d hWF with h | ⟨h1, h2, x, l, hL, h⟩
  · have hm := congrArg Core.max_active h
    have hn := congrArg Core.nr_active h
    have hn2 : (pwq_dec_nr_in_flight u pwq d).pwq_nr_active =
        Function.update u.pwq_nr_active pwq (u.pwq_nr_active pwq -
          if decide (d &&& WORK_STRUCT_INACTIVE ≠ 0) = true then 0 else 1) := hn
    refine ⟨hm, ?_, Or.inl ?_⟩
    · intro p hp
      rw [hn2, Function.update_noteq hp]
    · rw [hn2, Function.update_same]
      by_cases hd : d &&& WORK_STRUCT_INACTIVE = 0 <;> simp [hd]
  · have hm := congrArg Core.max_active h
    have hn := congrArg Core.nr_active h
    have hx : work_struct_pwq (u.work_data x) = pwq := (hWF x l hL).2.1
    have hx2 : ((core u).dec pwq (get_work_color d) false).pwq_of x = pwq := hx
    have hn2 : (pwq_dec_nr_in_flight u pwq d).pwq_nr_active =
        Function.update (Function.update u.pwq_nr_active pwq (u.pwq_nr_active pwq - 1)) pwq
          (Function.update u.pwq_nr_active pwq (u.pwq_nr_active pwq - 1) pwq + 1) := by
      simp only [Core.activate, Core.move_run] at hn
      rw [hx2] at hn
      exact hn
    refine ⟨hm, ?_, Or.inr ⟨h1, ?_, h2⟩⟩
    · intro p hp
      rw [hn2, Function.update_noteq hp, Function.update_noteq hp]
    · rw [hn2, Function.update_same, Function.update_same]
      omega

/-- The activation of the first item of `inactive_works` preserves the invariant. -/
theorem InvC_activate_head (c : Core) (hi : InvC c) (p x : Nat) (l : List Nat)
    (hL : c.lists (list_head.inactive_works p) = x :: l) :
    InvC (c.activate x [] (run_of c.linked (x :: l))
      ((x :: l).drop (run_of c.linked (x :: l)).length)) := by
  have hx : c.entry x = some (list_head.inactive_works p) :=
    (hi.l.mem_entry _ x).1 (by rw [hL]; simp)
  have hnb : c.func x ≠ wq_barrier_func := (hi.l.ichain p).2 x (by rw [hL]; rfl)
  have hp : c.pwq_of x = p := (hi.l.typ_inactive p x hx).1
  obtain ⟨bs, b1, b2, b3, b4, b5⟩ := activate_args c hi.l x p hx hnb
  rw [hL, list_from_head] at b1
  rw [hL, list_from_head, list_before_head] at b2
  rw [b1]
  exact InvC_activate c hi x [] bs _ (by rw [hp, hL]; exact b2) hnb (by simp) b4 b5

/-- The premises of `core_dec` hold under the invariant of the lists. -/
theorem dec_wf (u : State) (hi : InvL (core u)) (pwq : Nat) :
    ∀ x l, u.lists (list_head.inactive_works pwq) = x :: l →
      u.work_data x &&& WORK_STRUCT_PWQ ≠ 0 ∧ work_struct_pwq (u.work_data x) = pwq ∧
      (x :: l).Nodup ∧ ∀ y ∈ x :: l, u.work_entry y = some (list_head.inactive_works pwq) := by
  intro x l hL
  have hm : ∀ y ∈ x :: l, u.work_entry y = some (list_head.inactive_works pwq) := by
    intro y hy
    exact (hi.mem_entry _ y).1 (by show y ∈ u.lists _; rw [hL]; exact hy)
  have hx := hm x (List.mem_cons_self _ _)
  refine ⟨?_, (hi.typ_inactive pwq x hx).1, ?_, hm⟩
  · have := (hi.has_pwq x).2 (by rw [show (core u).entry x = _ from hx]; simp)
    exact of_decide_eq_true this
  · have := hi.nodup (list_head.inactive_works pwq)
    rw [show (core u).lists _ = _ from hL] at this
    exact this

/-- The function `process_one_work_end` gives up the in-flight count in a state that
differs from the entry state in the fields of the worker. -/
theorem process_one_work_end_eq (s : State) (k : Nat) :
    ∃ s3, process_one_work_end s k =
      pwq_dec_nr_in_flight s3 (s.worker_frame_pwq k) (s.worker_frame_work_data k) ∧
      core s3 = { core s with
        busy := Function.update (core s).busy (s.worker_pool k)
          (((core s).busy (s.worker_pool k)).erase k)
        cur_work := Function.update (core s).cur_work k 0
        cur_func := Function.update (core s).cur_func k 0
        cur_pwq := Function.update (core s).cur_pwq k 0
        cur_color := Function.update (core s).cur_color k INT_MAX } := by
  refine ⟨_, rfl, ?_⟩
  have hc1 : core (worker_clr_flags (s.set .pwq_stats (Function.update s.pwq_stats
      (s.worker_frame_pwq k) (Function.update (s.pwq_stats (s.worker_frame_pwq k))
        PWQ_STAT_COMPLETED (s.pwq_stats (s.worker_frame_pwq k) PWQ_STAT_COMPLETED + 1))))
      k WORKER_CPU_INTENSIVE) = core s := by
    rw [core_worker_clr_flags, core_set_external _ .pwq_stats _ rfl]
  rw [← hc1]
  rfl

/-- The step `finish` preserves the invariant. -/
theorem InvC_finish_step (s : State) (k : Nat) (hi : InvC (core s))
    (hk : s.worker_current_work k ≠ 0) : InvC (core (process_one_work_end s k)) := by
  obtain ⟨s3, e3, hc3⟩ := process_one_work_end_eq s k
  rw [e3]
  obtain ⟨c0, c1⟩ := get_work_color_lt (s.worker_frame_work_data k)
  have hfin : ∀ b, (core s).frame_inact k = b →
      (core s3).dec (s.worker_frame_pwq k) (get_work_color (s.worker_frame_work_data k)) b =
        (core s).finish k (get_work_color (s.worker_frame_work_data k)) := by
    intro b hb
    rw [hc3, ← hb]
    rfl
  have hI := InvC_finish (core s) hi k (get_work_color (s.worker_frame_work_data k)) hk c0 c1
  have hl3 : InvL (core s3) := by
    rw [hc3]
    exact InvL_congr (core s) _ hi.l rfl rfl rfl rfl rfl rfl rfl rfl rfl rfl
  rcases core_dec s3 (s.worker_frame_pwq k) (s.worker_frame_work_data k)
    (dec_wf s3 hl3 _) with h | ⟨h1, _, x, l, hL, h⟩
  · rw [h]
    have := hfin (decide (s.worker_frame_work_data k &&& WORK_STRUCT_INACTIVE ≠ 0)) rfl
    rw [this]
    exact hI
  · have hb : (core s).frame_inact k = false := by
      show decide (s.worker_frame_work_data k &&& WORK_STRUCT_INACTIVE ≠ 0) = false
      simp [h1]
    have hlk : (core s3).linked = ((core s).finish k
        (get_work_color (s.worker_frame_work_data k))).linked := by rw [hc3]; rfl
    have hL2 : ((core s).finish k (get_work_color (s.worker_frame_work_data k))).lists
        (list_head.inactive_works (s.worker_frame_pwq k)) = x :: l := by
      rw [← hL]
      show (core s).lists _ = (core s3).lists _
      rw [hc3]
    rw [h, hfin _ hb, hlk]
    exact InvC_activate_head _ hI _ x l hL2

/-- The step `finish` does not let `nr_active` grow beyond `max_active`. -/
theorem finish_bounded (s : State) (k : Nat) (hi : InvC (core s)) :
    nr_active_bounded s (process_one_work_end s k) := by
  obtain ⟨s3, e3, hc3⟩ := process_one_work_end_eq s k
  have hl3 : InvL (core s3) := by
    rw [hc3]
    exact InvL_congr (core s) _ hi.l rfl rfl rfl rfl rfl rfl rfl rfl rfl rfl
  have hna : s3.pwq_nr_active = s.pwq_nr_active := by
    show (core s3).nr_active = _
    rw [hc3]
    rfl
  have hmx : s3.pwq_max_active = s.pwq_max_active := by
    show (core s3).max_active = _
    rw [hc3]
    rfl
  obtain ⟨d1, d2, d3⟩ := dec_na s3 (s.worker_frame_pwq k) (s.worker_frame_work_data k)
    (dec_wf s3 hl3 _)
  rw [hna] at d2 d3
  rw [hmx] at d1 d3
  intro p
  rw [e3, d1]
  by_cases hp : p = s.worker_frame_pwq k
  · subst hp
    rcases d3 with d3 | ⟨_, d3, _⟩
    · rw [d3]
      apply le_max_of_le_left
      split_ifs <;> omega
    · rw [d3]
      exact le_max_left _ _
  · rw [d2 p hp]
    exact le_max_left _ _

/-! ## Stealing a queued work item -/

theorem set_word_activate (c : Core) (x w : Nat) (hxw : x ≠ w) (q : Nat) (hp pd ia lk : Bool)
    (pre run rest : List Nat) :
    (c.activate x pre run rest).set_word w q hp pd ia lk =
      (c.set_word w q hp pd ia lk).activate x pre run rest := by
  unfold Core.activate Core.move_run Core.set_word
  simp only [Function.update_noteq hxw]
  apply Core.ext <;> try rfl
  exact Function.update_comm hxw _ _ _

/-- The premises of `core_dec` hold when the view, up to the data word of an unlinked work
item, satisfies the invariant of the lists. -/
theorem dec_wf2 (u : State) (c : Core) (hi : InvL c) (w : Nat) (hw : c.entry w = none)
    (h1 : c.lists = u.lists) (h2 : c.entry = u.work_entry)
    (h3 : ∀ y, y ≠ w → c.pwq_of y = work_struct_pwq (u.work_data y))
    (h4 : ∀ y, y ≠ w → c.has_pwq y = decide (u.work_data y &&& WORK_STRUCT_PWQ ≠ 0))
    (pwq : Nat) :
    ∀ x l, u.lists (list_head.inactive_works pwq) = x :: l →
      u.work_data x &&& WORK_STRUCT_PWQ ≠ 0 ∧ work_struct_pwq (u.work_data x) = pwq ∧
      (x :: l).Nodup ∧ ∀ y ∈ x :: l, u.work_entry y = some (list_head.inactive_works pwq) := by
  intro x l hL
  have hm : ∀ y ∈ x :: l, c.entry y = some (list_head.inactive_works pwq) := by
    intro y hy
    exact (hi.mem_entry _ y).1 (by rw [h1, hL]; exact hy)
  have hx := hm x (List.mem_cons_self _ _)
  have hxw : x ≠ w := by
    intro e
    rw [e, hw] at hx
    exact absurd hx (by simp)
  refine ⟨?_, ?_, ?_, ?_⟩
  · have := (hi.has_pwq x).2 (by rw [hx]; simp)
    rw [h4 x hxw] at this
    exact of_decide_eq_true this
  · rw [← h3 x hxw]
    exact (hi.typ_inactive pwq x hx).1
  · have := hi.nodup (list_head.inactive_works pwq)
    rw [h1, hL] at this
    exact this
  · intro y hy
    rw [← h2]
    exact hm y hy

/-- The first part of the steal block: an INACTIVE work item is activated, after which
the work item is on a worklist or a `scheduled` list and not INACTIVE. -/
theorem steal_activate (s : State) (work : Nat) (hi : InvC (core s))
    (hnb : s.work_func work ≠ wq_barrier_func)
    (hp : s.work_data work &&& WORK_STRUCT_PWQ ≠ 0) :
    ∃ s2, s2 = (if work_data_bits s work &&& WORK_STRUCT_INACTIVE ≠ 0 then
        pwq_activate_inactive_work s work else s) ∧
      InvC (core s2) ∧ (∃ H, s2.work_entry work = some H ∧ ∀ p, H ≠ list_head.inactive_works p) ∧
      s2.work_data work &&& WORK_STRUCT_INACTIVE = 0 ∧
      work_struct_pwq (s2.work_data work) = work_struct_pwq (s.work_data work) ∧
      s2.work_func work ≠ wq_barrier_func ∧
      s2.pwq_max_active = s.pwq_max_active ∧
      (s2.pwq_nr_active = s.pwq_nr_active ∨
        s2.pwq_nr_active = Function.update s.pwq_nr_active (work_struct_pwq (s.work_data work))
          (s.pwq_nr_active (work_struct_pwq (s.work_data work)) + 1)) := by
  obtain ⟨H, hH⟩ := linked_of_pwq_bit s hi work hp
  by_cases hia : s.work_data work &&& WORK_STRUCT_INACTIVE ≠ 0
  · refine ⟨_, rfl, ?_⟩
    rw [show work_data_bits s work = s.work_data work from rfl, if_pos hia]
    have hin : (core s).inact work = true := decide_eq_true hia
    obtain ⟨p, rfl⟩ : ∃ p, H = list_head.inactive_works p := by
      cases H with
      | worklist P =>
        have := (hi.l.typ_worklist P work hH).2 hnb
        rw [hin] at this
        exact absurd this (by simp)
      | inactive_works p => exact ⟨p, rfl⟩
      | scheduled k =>
        have := (hi.l.typ_scheduled k work hH).2 hnb
        rw [hin] at this
        exact absurd this (by simp)
    have hpw : work_struct_pwq (s.work_data work) = p := (hi.l.typ_inactive p work hH).1
    subst hpw
    have hc := core_activate s work hp hH ((hi.l.mem_entry _ work).2 hH) (hi.l.nodup _)
      (fun y hy => (hi.l.mem_entry _ y).1 hy)
    obtain ⟨bs, b1, _, _, _, _⟩ := activate_args (core s) hi.l work _ hH hnb
    rw [show (core s).lists = s.lists from rfl] at b1
    rw [b1] at hc
    refine ⟨InvC_activate_state s hi work _ hH hnb,
      ⟨list_head.worklist (s.pwq_pool (work_struct_pwq (s.work_data work))), ?_, ?_⟩, ?_, ?_, ?_,
      congrArg Core.max_active hc, Or.inr (congrArg Core.nr_active hc)⟩
    · have := congrArg (fun c => c.entry work) hc
      simp only [Core.activate, Core.move_run, List.mem_cons, true_or, if_true] at this
      exact this
    · intro p
      simp
    · have := congrArg (fun c => c.inact work) hc
      simp only [Core.activate, Core.move_run, Function.update_same] at this
      exact not_not.1 (of_decide_eq_false this)
    · exact congrFun (congrArg Core.pwq_of hc) work
    · have := congrFun (congrArg Core.func hc) work
      rw [show (core (pwq_activate_inactive_work s work)).func work =
        (pwq_activate_inactive_work s work).work_func work from rfl] at this
      rw [this]
      exact hnb
  · refine ⟨_, rfl, ?_⟩
    rw [show work_data_bits s work = s.work_data work from rfl, if_neg hia]
    refine ⟨hi, ⟨H, hH, ?_⟩, not_not.1 hia, rfl, hnb, rfl, Or.inl rfl⟩
    intro p e
    rw [e] at hH
    have := (hi.l.typ_inactive p work hH).2
    exact hia (of_decide_eq_true this)

/-- The second part of the steal block preserves the invariant: the work item is unlinked,
its in-flight count given up and its data word rewritten to an off-queue word. -/
theorem InvC_steal (s2 : State) (work pwq : Nat) (id : Int) (hi : InvC (core s2))
    (H : list_head) (hH : s2.work_entry work = some H)
    (hHi : ∀ p, H ≠ list_head.inactive_works p)
    (hia : s2.work_data work &&& WORK_STRUCT_INACTIVE = 0)
    (hpw : work_struct_pwq (s2.work_data work) = pwq)
    (hnb : s2.work_func work ≠ wq_barrier_func) :
    InvC (core (set_work_pool_and_keep_pending
      (pwq_dec_nr_in_flight (list_del_init s2 work) pwq
        (work_data_bits (list_del_init s2 work) work)) work id)) ∧
    (set_work_pool_and_keep_pending
      (pwq_dec_nr_in_flight (list_del_init s2 work) pwq
        (work_data_bits (list_del_init s2 work) work)) work id).pwq_max_active =
      s2.pwq_max_active ∧
    (∀ p, p ≠ pwq → (set_work_pool_and_keep_pending
      (pwq_dec_nr_in_flight (list_del_init s2 work) pwq
        (work_data_bits (list_del_init s2 work) work)) work id).pwq_nr_active p =
      s2.pwq_nr_active p) ∧
    ((set_work_pool_and_keep_pending
      (pwq_dec_nr_in_flight (list_del_init s2 work) pwq
        (work_data_bits (list_del_init s2 work) work)) work id).pwq_nr_active pwq =
        s2.pwq_nr_active pwq - 1 ∨
      ((set_work_pool_and_keep_pending
        (pwq_dec_nr_in_flight (list_del_init s2 work) pwq
          (work_data_bits (list_del_init s2 work) work)) work id).pwq_nr_active pwq =
          s2.pwq_nr_active pwq ∧
        s2.pwq_nr_active pwq - 1 < s2.pwq_max_active pwq)) := by
  obtain ⟨sp1, sp2, _⟩ := hi.l.split work H hH
  rw [show (core s2).lists = s2.lists from rfl] at sp1 sp2
  have e3 : list_del_init s2 work =
      (s2.set .lists (Function.update s2.lists H
        (list_before work (s2.lists H) ++ (list_from work (s2.lists H)).drop 1))).set
        .work_entry (Function.update s2.work_entry work none) := by
    unfold list_del_init
    rw [hH]
    simp only []
    have : (s2.lists H).erase work =
        list_before work (s2.lists H) ++ (list_from work (s2.lists H)).drop 1 := by
      conv => lhs; rw [sp1]
      exact erase_append_cons work _ _ sp2
    rw [this]
  have ed : work_data_bits (list_del_init s2 work) work = s2.work_data work := rfl
  rw [ed]
  generalize hs3 : list_del_init s2 work = s3 at e3
  have hc3 : core s3 = { core s2 with
      lists := Function.update (core s2).lists H
        (list_before work (s2.lists H) ++ (list_from work (s2.lists H)).drop 1)
      entry := Function.update (core s2).entry work none } := by
    rw [e3]; rfl
  obtain ⟨c0, c1⟩ := get_work_color_lt (s2.work_data work)
  have hoff := offq_no_pwq (to_ulong id) WORK_STRUCT_PENDING (by decide)
  have hI := InvC_leave (core s2) hi work H (list_before work (s2.lists H))
    ((list_from work (s2.lists H)).drop 1)
    (work_struct_pwq ((to_ulong id <<< WORK_OFFQ_POOL_SHIFT) % 2 ^ BITS_PER_LONG |||
      WORK_STRUCT_PENDING))
    (decide (((to_ulong id <<< WORK_OFFQ_POOL_SHIFT) % 2 ^ BITS_PER_LONG |||
      WORK_STRUCT_PENDING) &&& WORK_STRUCT_PENDING ≠ 0))
    (decide (((to_ulong id <<< WORK_OFFQ_POOL_SHIFT) % 2 ^ BITS_PER_LONG |||
      WORK_STRUCT_PENDING) &&& WORK_STRUCT_INACTIVE ≠ 0))
    (decide (((to_ulong id <<< WORK_OFFQ_POOL_SHIFT) % 2 ^ BITS_PER_LONG |||
      WORK_STRUCT_PENDING) &&& WORK_STRUCT_LINKED ≠ 0))
    (get_work_color (s2.work_data work)) sp1 hnb hHi c0 c1
  have hdi : decide (s2.work_data work &&& WORK_STRUCT_INACTIVE ≠ 0) = false := by simp [hia]
  have hset : ∀ u : State, core (set_work_pool_and_keep_pending u work id) =
      (core u).set_word work
        (work_struct_pwq ((to_ulong id <<< WORK_OFFQ_POOL_SHIFT) % 2 ^ BITS_PER_LONG |||
          WORK_STRUCT_PENDING)) false
        (decide (((to_ulong id <<< WORK_OFFQ_POOL_SHIFT) % 2 ^ BITS_PER_LONG |||
          WORK_STRUCT_PENDING) &&& WORK_STRUCT_PENDING ≠ 0))
        (decide (((to_ulong id <<< WORK_OFFQ_POOL_SHIFT) % 2 ^ BITS_PER_LONG |||
          WORK_STRUCT_PENDING) &&& WORK_STRUCT_INACTIVE ≠ 0))
        (decide (((to_ulong id <<< WORK_OFFQ_POOL_SHIFT) % 2 ^ BITS_PER_LONG |||
          WORK_STRUCT_PENDING) &&& WORK_STRUCT_LINKED ≠ 0)) := by
    intro u
    have := core_set_data u work ((to_ulong id <<< WORK_OFFQ_POOL_SHIFT) % 2 ^ BITS_PER_LONG |||
      WORK_STRUCT_PENDING)
    rw [hoff] at this
    exact this
  have hbase : ((core s3).dec pwq (get_work_color (s2.work_data work)) false).set_word work
        (work_struct_pwq ((to_ulong id <<< WORK_OFFQ_POOL_SHIFT) % 2 ^ BITS_PER_LONG |||
          WORK_STRUCT_PENDING)) false
        (decide (((to_ulong id <<< WORK_OFFQ_POOL_SHIFT) % 2 ^ BITS_PER_LONG |||
          WORK_STRUCT_PENDING) &&& WORK_STRUCT_PENDING ≠ 0))
        (decide (((to_ulong id <<< WORK_OFFQ_POOL_SHIFT) % 2 ^ BITS_PER_LONG |||
          WORK_STRUCT_PENDING) &&& WORK_STRUCT_INACTIVE ≠ 0))
        (decide (((to_ulong id <<< WORK_OFFQ_POOL_SHIFT) % 2 ^ BITS_PER_LONG |||
          WORK_STRUCT_PENDING) &&& WORK_STRUCT_LINKED ≠ 0)) =
      (core s2).leave work H (list_before work (s2.lists H))
        ((list_from work (s2.lists H)).drop 1)
        (work_struct_pwq ((to_ulong id <<< WORK_OFFQ_POOL_SHIFT) % 2 ^ BITS_PER_LONG |||
          WORK_STRUCT_PENDING))
        (decide (((to_ulong id <<< WORK_OFFQ_POOL_SHIFT) % 2 ^ BITS_PER_LONG |||
          WORK_STRUCT_PENDING) &&& WORK_STRUCT_PENDING ≠ 0))
        (decide (((to_ulong id <<< WORK_OFFQ_POOL_SHIFT) % 2 ^ BITS_PER_LONG |||
          WORK_STRUCT_PENDING) &&& WORK_STRUCT_INACTIVE ≠ 0))
        (decide (((to_ulong id <<< WORK_OFFQ_POOL_SHIFT) % 2 ^ BITS_PER_LONG |||
          WORK_STRUCT_PENDING) &&& WORK_STRUCT_LINKED ≠ 0))
        (get_work_color (s2.work_data work)) := by
    rw [hc3, ← hpw]
    rfl
  have hwf := dec_wf2 s3 _ hI.l work (by simp [Core.leave])
    (by rw [e3]; rfl) (by rw [e3]; rfl)
    (by intro y hy; rw [e3]; simp only [Core.leave, Function.update_noteq hy]; rfl)
    (by intro y hy; rw [e3]; simp only [Core.leave, Function.update_noteq hy]; rfl) pwq
  have hna : s3.pwq_nr_active = s2.pwq_nr_active := by rw [e3]; rfl
  have hmx : s3.pwq_max_active = s2.pwq_max_active := by rw [e3]; rfl
  obtain ⟨d1, d2, d3⟩ := dec_na s3 pwq (s2.work_data work) hwf
  rw [hna] at d2 d3
  rw [hmx] at d1 d3
  rw [if_pos hia] at d3
  refine ⟨?_, d1, d2, d3.imp (fun h => h) (fun h => h.2)⟩
  rcases core_dec s3 pwq (s2.work_data work) hwf with h | ⟨_, _, x, l, hL, h⟩
  · rw [hset, h, hdi, hbase]
    exact hI
  · have hL2 : ((core s2).leave work H (list_before work (s2.lists H))
        ((list_from work (s2.lists H)).drop 1)
        (work_struct_pwq ((to_ulong id <<< WORK_OFFQ_POOL_SHIFT) % 2 ^ BITS_PER_LONG |||
          WORK_STRUCT_PENDING))
        (decide (((to_ulong id <<< WORK_OFFQ_POOL_SHIFT) % 2 ^ BITS_PER_LONG |||
          WORK_STRUCT_PENDING) &&& WORK_STRUCT_PENDING ≠ 0))
        (decide (((to_ulong id <<< WORK_OFFQ_POOL_SHIFT) % 2 ^ BITS_PER_LONG |||
          WORK_STRUCT_PENDING) &&& WORK_STRUCT_INACTIVE ≠ 0))
        (decide (((to_ulong id <<< WORK_OFFQ_POOL_SHIFT) % 2 ^ BITS_PER_LONG |||
          WORK_STRUCT_PENDING) &&& WORK_STRUCT_LINKED ≠ 0))
        (get_work_color (s2.work_data work))).lists (list_head.inactive_works pwq) = x :: l := by
      rw [← hL, e3]; rfl
    have hnm : ∀ y ∈ x :: l, y ≠ work := by
      intro y hy e
      have := hI.l.not_mem work (by simp [Core.leave]) (list_head.inactive_works pwq)
      rw [hL2] at this
      exact this (e ▸ hy)
    have hrun : run_of (core s3).linked (x :: l) = run_of ((core s2).leave work H
        (list_before work (s2.lists H))
        ((list_from work (s2.lists H)).drop 1)
        (work_struct_pwq ((to_ulong id <<< WORK_OFFQ_POOL_SHIFT) % 2 ^ BITS_PER_LONG |||
          WORK_STRUCT_PENDING))
        (decide (((to_ulong id <<< WORK_OFFQ_POOL_SHIFT) % 2 ^ BITS_PER_LONG |||
          WORK_STRUCT_PENDING) &&& WORK_STRUCT_PENDING ≠ 0))
        (decide (((to_ulong id <<< WORK_OFFQ_POOL_SHIFT) % 2 ^ BITS_PER_LONG |||
          WORK_STRUCT_PENDING) &&& WORK_STRUCT_INACTIVE ≠ 0))
        (decide (((to_ulong id <<< WORK_OFFQ_POOL_SHIFT) % 2 ^ BITS_PER_LONG |||
          WORK_STRUCT_PENDING) &&& WORK_STRUCT_LINKED ≠ 0))
        (get_work_color (s2.work_data work))).linked (x :: l) := by
      apply run_of_congr
      intro y hy
      rw [hc3]
      simp [Core.leave, hnm y hy]
    rw [hset, h, set_word_activate _ x work (hnm x (List.mem_cons_self _ _)), hbase, hrun]
    exact InvC_activate_head _ hI pwq x l hL2

/-! ## The invariant holds in every reachable state -/

/-- The step `grab` preserves the invariant. -/
theorem InvC_grab (s : State) (work : Nat) (is_dwork : Bool) (hi : InvC (core s))
    (hnb : s.work_func work ≠ wq_barrier_func) :
    InvC (core (try_to_grab_pending s work is_dwork).2) := by
  have h1 := InvC_claim s work hi
  have hf : (test_and_set_bit_pending s work).2.work_func work ≠ wq_barrier_func := hnb
  unfold try_to_grab_pending
  by_cases c1 : is_dwork = true ∧ s.dwork_timer_pending work = true
  · rw [if_pos c1, core_del_timer]; exact hi
  rw [if_neg c1]
  by_cases c2 : (test_and_set_bit_pending s work).1 = false
  · rw [if_pos c2]; exact h1
  rw [if_neg c2]
  simp only []
  by_cases c3 : get_work_pool (test_and_set_bit_pending s work).2 work ≠ 0 ∧
      get_work_pwq (test_and_set_bit_pending s work).2 work ≠ 0 ∧
      (test_and_set_bit_pending s work).2.pwq_pool
        (get_work_pwq (test_and_set_bit_pending s work).2 work) =
        get_work_pool (test_and_set_bit_pending s work).2 work
  · rw [if_pos c3]
    obtain ⟨hp, hpw⟩ := get_work_pwq_ne_zero _ work c3.2.1
    obtain ⟨s2, e2, i2, ⟨H, hH, hHi⟩, hia, hq, hb, _, _⟩ :=
      steal_activate (test_and_set_bit_pending s work).2 work h1 hf hp
    unfold try_to_grab_pending_steal
    simp only []
    rw [← e2]
    exact (InvC_steal s2 work _ _ i2 H hH hHi hia (by rw [hq, ← hpw]) hb).1
  · rw [if_neg c3]
    split_ifs <;> exact h1

/-- The steps that rewrite the data word of an unlinked work item to an off-queue word
preserve the invariant. -/
theorem InvC_release_clear (s : State) (work : Nat) (hi : InvC (core s))
    (hl : s.work_entry work = none) : InvC (core (clear_work_data s work)) :=
  InvC_offq s work _ hi hl (by decide)

theorem InvC_release_pool (s : State) (work : Nat) (hi : InvC (core s))
    (hl : s.work_entry work = none) :
    InvC (core (set_work_pool_and_clear_pending s work (get_work_pool_id s work))) :=
  InvC_offq s work _ hi hl (offq_no_pwq _ 0 (by decide))

theorem InvC_canceling (s : State) (work : Nat) (hi : InvC (core s))
    (hl : s.work_entry work = none) : InvC (core (mark_work_canceling s work)) := by
  apply InvC_offq s work _ hi hl
  show _ &&& (1 <<< 2) = 0
  rw [and_bit_eq_zero, Nat.testBit_or, Nat.testBit_or, Nat.testBit_mod_two_pow,
    Nat.testBit_shiftLeft]
  simp +decide

/-! ## Steps that write the work colours, the pools of the workers and the installed
pool_workqueues -/

/-- The invariant is kept when workers that execute nothing and have an empty `scheduled`
list change their pool, the installed pool_workqueues stay aligned and the work colours stay
in range. -/
theorem InvC_config (c : Core) (hi : InvC c) (w : Nat → Nat) (q : Nat → Nat → Nat)
    (m : Nat → Int)
    (hw : ∀ k, w k ≠ c.wpool k → c.cur_work k = 0 ∧ c.lists (list_head.scheduled k) = [])
    (hq : ∀ wq cpu, aligned_pwq (q wq cpu)) (hm : ∀ p, 0 ≤ m p ∧ m p < 16) :
    InvC { c with wpool := w, cpu_pwq := q, work_color := m } := by
  have hexec : ∀ k, c.cur_work k ≠ 0 → w k = c.wpool k := by
    intro k hk
    by_contra hne
    exact hk (hw k hne).1
  have hsched : ∀ k x, c.entry x = some (list_head.scheduled k) → w k = c.wpool k := by
    intro k x hx
    by_contra hne
    have h1 := (hi.l.mem_entry (list_head.scheduled k) x).2 hx
    rw [(hw k hne).2] at h1
    exact List.not_mem_nil _ h1
  obtain ⟨a1, a2, a3, a4, a5, a6, a7, _⟩ := hi.e
  obtain ⟨l1, l2, l3, l4, l5, l6, l7, l8, l9, l10, l11⟩ := hi.l
  obtain ⟨x1, x2, x3⟩ := hi.x
  refine ⟨⟨l1, l2, l3, l4, l5, l6, l7, ?_, l9, l10, l11⟩, ⟨a1, ?_, a3, ?_, a5, a6, hq, hm⟩,
    ⟨?_, x2, ?_⟩, InvF_congr c _ hi.f rfl rfl rfl rfl rfl rfl rfl rfl rfl⟩
  · intro k x hx
    show c.ppool (c.pwq_of x) = w k ∧ _
    rw [hsched k x hx]
    exact l8 k x hx
  · intro P k
    show k ∈ c.busy P ↔ (c.cur_work k ≠ 0 ∧ w k = P)
    rw [a2 P k]
    constructor
    · rintro ⟨h1, h2⟩
      exact ⟨h1, by rw [hexec k h1]; exact h2⟩
    · rintro ⟨h1, h2⟩
      exact ⟨h1, by rw [← hexec k h1]; exact h2⟩
  · intro k hk
    show c.frame_pwq k = c.cur_pwq k ∧ c.ppool (c.cur_pwq k) = w k ∧ _
    rw [hexec k hk]
    exact a4 k hk
  · intro k x hx k2 hk2 hp
    show ¬ (c.cur_work k2 = x ∧ c.cur_func k2 = c.func x)
    rintro ⟨h1, h2⟩
    have hx0 : x ≠ 0 := by
      intro e
      rw [e, l3] at hx
      cases hx
    have hp2 : w k2 = w k := hp
    rw [hsched k x hx, hexec k2 (by rw [h1]; exact hx0)] at hp2
    exact x1 k x hx k2 hk2 hp2 ⟨h1, h2⟩
  · intro k1 k2 h1 h2 h3 h4
    have hp : w k1 = w k2 := h4
    rw [hexec k1 h1, hexec k2 (by rw [← h2]; exact h1)] at hp
    exact x3 k1 k2 h1 h2 h3 hp

/-- The accounting view after a write to the work colours, the pools of the workers and the
installed pool_workqueues. -/
theorem core_config (s s2 : State)
    (h : ∀ g, Field.external g = false → g ≠ .pwq_work_color → g ≠ .worker_pool →
      g ≠ .wq_cpu_pwq → s2 g = s g) :
    core s2 =
      { core s with
        wpool := s2.worker_pool
        cpu_pwq := s2.wq_cpu_pwq
        work_color := s2.pwq_work_color } := by
  have e1 : core (((s2.set .pwq_work_color s.pwq_work_color).set .worker_pool
      s.worker_pool).set .wq_cpu_pwq s.wq_cpu_pwq) = core s := by
    apply core_congr
    intro g hg
    by_cases c3 : g = .wq_cpu_pwq
    · rw [c3]
      exact State.set_same _ _ _
    · rw [State.set_other _ _ _ _ c3]
      by_cases c2 : g = .worker_pool
      · rw [c2]
        exact State.set_same _ _ _
      · rw [State.set_other _ _ _ _ c2]
        by_cases c1 : g = .pwq_work_color
        · rw [c1]
          exact State.set_same _ _ _
        · rw [State.set_other _ _ _ _ c1]
          exact h g hg c1 c2 c3
  rw [← e1]
  rfl

/-- The invariant after a write to the work colours, the pools of idle workers and the
installed pool_workqueues. -/
theorem InvC_of_config (s s2 : State) (hi : InvC (core s))
    (h : ∀ g, Field.external g = false → g ≠ .pwq_work_color → g ≠ .worker_pool →
      g ≠ .wq_cpu_pwq → s2 g = s g)
    (hw : ∀ k, s2.worker_pool k ≠ s.worker_pool k →
      s.worker_current_work k = 0 ∧ s.lists (list_head.scheduled k) = [])
    (hq : ∀ wq cpu, aligned_pwq (s2.wq_cpu_pwq wq cpu))
    (hm : ∀ p, 0 ≤ s2.pwq_work_color p ∧ s2.pwq_work_color p < 16) : InvC (core s2) := by
  rw [core_config s s2 h]
  exact InvC_config (core s) hi _ _ _ hw hq hm

theorem prep_config (s : State) (wq pwq : Nat) (fc wc : Int) (wait : Bool) (g : Field)
    (hg : Field.external g = false) (hc : g ≠ .pwq_work_color) :
    (flush_workqueue_prep_pwq s wq pwq fc wc wait).2 g = s g := by
  have h1 : g ≠ .pwq_flush_color := external_ne g _ hg rfl
  have h2 : g ≠ .wq_nr_pwqs_to_flush := external_ne g _ hg rfl
  unfold flush_workqueue_prep_pwq
  dsimp only
  split_ifs <;> simp only [State.set_other _ _ _ _ hc, State.set_other _ _ _ _ h1,
    State.set_other _ _ _ _ h2]

theorem prep_color (s : State) (wq pwq : Nat) (fc wc : Int) (wait : Bool) :
    (flush_workqueue_prep_pwq s wq pwq fc wc wait).2.pwq_work_color =
      if wc ≥ 0 then Function.update s.pwq_work_color pwq wc else s.pwq_work_color := by
  unfold flush_workqueue_prep_pwq
  dsimp only
  split_ifs <;> simp [State.pwq_work_color]

theorem color_update_ok (m : Nat → Int) (hm : ∀ p, 0 ≤ m p ∧ m p < 16) (p : Nat) (c : Int)
    (h0 : 0 ≤ c) (h1 : c < 16) : ∀ p2, 0 ≤ Function.update m p c p2 ∧
      Function.update m p c p2 < 16 := by
  intro p2
  by_cases e : p2 = p
  · rw [e, Function.update_same]
    exact ⟨h0, h1⟩
  · rw [Function.update_noteq e]
    exact hm p2

theorem prep_color_ok (s : State) (wq pwq : Nat) (fc wc : Int) (wait : Bool) (hwc : wc < 16)
    (hm : ∀ p, 0 ≤ s.pwq_work_color p ∧ s.pwq_work_color p < 16) (p : Nat) :
    0 ≤ (flush_workqueue_prep_pwq s wq pwq fc wc wait).2.pwq_work_color p ∧
      (flush_workqueue_prep_pwq s wq pwq fc wc wait).2.pwq_work_color p < 16 := by
  rw [prep_color]
  split_ifs with c
  · exact color_update_ok _ hm pwq wc c hwc p
  · exact hm p

theorem InvC_prep (s : State) (wq pwq : Nat) (fc wc : Int) (wait : Bool)
    (hi : InvC (core s)) (hwc : wc < 16) :
    InvC (core (flush_workqueue_prep_pwq s wq pwq fc wc wait).2) := by
  apply InvC_of_config s _ hi (fun g hg hc _ _ => prep_config s wq pwq fc wc wait g hg hc)
  · intro k hk
    exact absurd (congrFun (prep_config s wq pwq fc wc wait .worker_pool rfl (by decide)) k) hk
  · intro wq2 cpu
    have e : (flush_workqueue_prep_pwq s wq pwq fc wc wait).2.wq_cpu_pwq = s.wq_cpu_pwq :=
      prep_config s wq pwq fc wc wait .wq_cpu_pwq rfl (by decide)
    rw [e]
    exact hi.e.cpu_pwq_ok wq2 cpu
  · exact prep_color_ok s wq pwq fc wc wait hwc hi.e.color_ok

theorem InvC_link_color (s : State) (pwq : Nat) (hi : InvC (core s))
    (h0 : 0 ≤ s.wq_work_color (s.pwq_wq pwq)) (h1 : s.wq_work_color (s.pwq_wq pwq) < 16) :
    InvC (core (link_pwq_color s pwq)) := by
  apply InvC_of_config s _ hi (fun g _ hc _ _ => State.set_other s _ g _ hc)
  · intro k hk
    exact absurd rfl hk
  · exact hi.e.cpu_pwq_ok
  · exact color_update_ok _ hi.e.color_ok pwq _ h0 h1

theorem InvC_install (s : State) (wq cpu pwq : Nat) (hi : InvC (core s))
    (hp : aligned_pwq pwq) : InvC (core (rcu_assign_cpu_pwq s wq cpu pwq)) := by
  apply InvC_of_config s _ hi (fun g _ _ _ hc => State.set_other s _ g _ hc)
  · intro k hk
    exact absurd rfl hk
  · intro wq2 cpu2
    show aligned_pwq (Function.update s.wq_cpu_pwq wq
      (Function.update (s.wq_cpu_pwq wq) cpu pwq) wq2 cpu2)
    by_cases e : wq2 = wq
    · rw [e, Function.update_same]
      by_cases e2 : cpu2 = cpu
      · rw [e2, Function.update_same]
        exact hp
      · rw [Function.update_noteq e2]
        exact hi.e.cpu_pwq_ok wq cpu2
    · rw [Function.update_noteq e]
      exact hi.e.cpu_pwq_ok wq2 cpu2
  · exact hi.e.color_ok

theorem attach_config (s : State) (worker pool : Nat) (g : Field)
    (hg : Field.external g = false) (hc : g ≠ .worker_pool) :
    worker_attach_to_pool s worker pool g = s g := by
  have h1 : g ≠ .worker_flags := external_ne g _ hg rfl
  have h2 : g ≠ .pool_workers := external_ne g _ hg rfl
  unfold worker_attach_to_pool
  split_ifs <;> simp only [State.set_other _ _ _ _ hc, State.set_other _ _ _ _ h1,
    State.set_other _ _ _ _ h2]

theorem attach_pool (s : State) (worker pool : Nat) :
    (worker_attach_to_pool s worker pool).worker_pool =
      Function.update s.worker_pool worker pool := by
  unfold worker_attach_to_pool
  split_ifs <;> simp [State.worker_pool]

theorem detach_config (s : State) (worker : Nat) (g : Field)
    (hg : Field.external g = false) (hc : g ≠ .worker_pool) :
    worker_detach_from_pool s worker g = s g := by
  have h1 : g ≠ .worker_flags := external_ne g _ hg rfl
  have h2 : g ≠ .pool_workers := external_ne g _ hg rfl
  have h3 : g ≠ .pool_dying_workers := external_ne g _ hg rfl
  unfold worker_detach_from_pool
  simp only [State.set_other _ _ _ _ hc, State.set_other _ _ _ _ h1,
    State.set_other _ _ _ _ h2, State.set_other _ _ _ _ h3]

theorem detach_pool (s : State) (worker : Nat) :
    (worker_detach_from_pool s worker).worker_pool =
      Function.update s.worker_pool worker 0 := by
  unfold worker_detach_from_pool
  simp [State.worker_pool]

theorem InvC_attach (s : State) (worker pool : Nat) (hi : InvC (core s))
    (hk : s.worker_current_work worker = 0) (hl : s.lists (list_head.scheduled worker) = []) :
    InvC (core (worker_attach_to_pool s worker pool)) := by
  apply InvC_of_config s _ hi (fun g hg _ hc _ => attach_config s worker pool g hg hc)
  · intro k hne
    rw [attach_pool] at hne
    by_cases e : k = worker
    · rw [e]
      exact ⟨hk, hl⟩
    · rw [Function.update_noteq e] at hne
      exact absurd rfl hne
  · have e : (worker_attach_to_pool s worker pool).wq_cpu_pwq = s.wq_cpu_pwq :=
      attach_config s worker pool .wq_cpu_pwq rfl (by decide)
    rw [e]
    exact hi.e.cpu_pwq_ok
  · have e : (worker_attach_to_pool s worker pool).pwq_work_color = s.pwq_work_color :=
      attach_config s worker pool .pwq_work_color rfl (by decide)
    rw [e]
    exact hi.e.color_ok

theorem InvC_detach (s : State) (worker : Nat) (hi : InvC (core s))
    (hk : s.worker_current_work worker = 0) (hl : s.lists (list_head.scheduled worker) = []) :
    InvC (core (worker_detach_from_pool s worker)) := by
  apply InvC_of_config s _ hi (fun g hg _ hc _ => detach_config s worker g hg hc)
  · intro k hne
    rw [detach_pool] at hne
    by_cases e : k = worker
    · rw [e]
      exact ⟨hk, hl⟩
    · rw [Function.update_noteq e] at hne
      exact absurd rfl hne
  · have e : (worker_detach_from_pool s worker).wq_cpu_pwq = s.wq_cpu_pwq :=
      detach_config s worker .wq_cpu_pwq rfl (by decide)
    rw [e]
    exact hi.e.cpu_pwq_ok
  · have e : (worker_detach_from_pool s worker).pwq_work_color = s.pwq_work_color :=
      detach_config s worker .pwq_work_color rfl (by decide)
    rw [e]
    exact hi.e.color_ok

/-- Every step preserves the invariant. -/
theorem InvC_step (s s2 : State) (hi : InvC (core s)) (h : Step s s2) : InvC (core s2) := by
  cases h with
  | claim work => exact InvC_claim s work hi
  | queue fuel t cpu wq work _ h0 hnb _ hent h => exact InvC_queue_step fuel s t cpu wq work s2 hi h0 hnb hent h
  | flush work barr hb0 hb hfresh _ => exact InvC_flush s work barr hi hb0 hb hfresh
  | grab work is_dwork hnb => exact InvC_grab s work is_dwork hi hnb
  | release_clear work hl => exact InvC_release_clear s work hi hl
  | release_pool work hl => exact InvC_release_pool s work hi hl
  | canceling work hl => exact InvC_canceling s work hi hl
  | assign k work _ _ hw hA => exact InvC_assign_step s k work hi hw hA
  | start k work hk0 hk hh => exact InvC_start_step s k work hi hk0 hk hh
  | finish k hk => exact InvC_finish_step s k hi hk
  | adjust pwq => exact InvC_adjust s pwq hi
  | prep wq pwq fc wc wait hwc => exact InvC_prep s wq pwq fc wc wait hi hwc
  | link_color pwq h0 h1 => exact InvC_link_color s pwq hi h0 h1
  | install wq cpu pwq hp => exact InvC_install s wq cpu pwq hi hp
  | attach worker pool hk hl => exact InvC_attach s worker pool hi hk hl
  | detach worker hk hl => exact InvC_detach s worker hi hk hl
  | env f v hf => rw [core_set_external s f v hf]; exact hi

theorem InvC_steps (s s2 : State) (hi : InvC (core s)) (h : Relation.ReflTransGen Step s s2) :
    InvC (core s2) := by
  induction h with
  | refl => exact hi
  | tail _ hs ih => exact InvC_step _ _ ih hs

/-- The invariant holds in every reachable state. -/
theorem reachable_inv (s : State) (h : Reachable s) : InvC (core s) := by
  obtain ⟨s0, h0, hs⟩ := h
  exact InvC_steps s0 s (InvC_init s0 h0) hs

/-! ## The bound of `nr_active` -/

theorem bounded_of_eq (s s2 : State) (h : s2.pwq_nr_active = s.pwq_nr_active) :
    nr_active_bounded s s2 := by
  intro p
  rw [h]
  exact le_max_left _ _

theorem queue_bounded (fuel : Nat) (s : State) (t : task_ctx) (cpu wq work : Nat) (s2 : State)
    (hi : InvC (core s)) (hent : s.work_entry work = none)
    (h : __queue_work fuel s t cpu wq work = some s2) : nr_active_bounded s s2 := by
  rcases __queue_work_core fuel s t cpu wq work s2 hi hent h with e | ⟨pwq, _, e⟩
  · exact bounded_of_eq s s2 (congrArg Core.nr_active e)
  · have hm : s2.pwq_max_active = s.pwq_max_active := by
      have := congrArg Core.max_active e
      rw [show (core s2).max_active = s2.pwq_max_active from rfl] at this
      rw [this]
      unfold Core.queue
      split_ifs <;> rfl
    by_cases ha : s.pwq_nr_active pwq < s.pwq_max_active pwq
    · have hn : s2.pwq_nr_active =
          Function.update s.pwq_nr_active pwq (s.pwq_nr_active pwq + 1) := by
        have := congrArg Core.nr_active e
        rw [show (core s2).nr_active = s2.pwq_nr_active from rfl] at this
        rw [this, decide_eq_true ha]
        rfl
      intro p
      rw [hn, hm]
      by_cases hp : p = pwq
      · subst hp
        rw [Function.update_same]
        apply le_max_of_le_right
        omega
      · rw [Function.update_noteq hp]
        exact le_max_left _ _
    · apply bounded_of_eq
      have := congrArg Core.nr_active e
      rw [show (core s2).nr_active = s2.pwq_nr_active from rfl] at this
      rw [this, decide_eq_false ha]
      rfl

theorem flush_bounded (s : State) (work barr : Nat) :
    nr_active_bounded s (start_flush_work s work barr).2 := by
  apply bounded_of_eq
  unfold start_flush_work
  split_ifs
  all_goals
    first
    | rfl
    | (dsimp only; simp [State.pwq_nr_active])

theorem activate_first_na (s : State) (pwq : Nat) (hi : InvC (core s))
    (hl : s.lists (list_head.inactive_works pwq) ≠ []) :
    (pwq_activate_first_inactive s pwq).pwq_max_active = s.pwq_max_active ∧
    (pwq_activate_first_inactive s pwq).pwq_nr_active =
      Function.update s.pwq_nr_active pwq (s.pwq_nr_active pwq + 1) := by
  unfold pwq_activate_first_inactive
  rw [if_neg hl]
  cases hL : s.lists (list_head.inactive_works pwq) with
  | nil => exact absurd hL hl
  | cons x l =>
    simp only [List.headD_cons]
    have hx : s.work_entry x = some (list_head.inactive_works pwq) :=
      (hi.l.mem_entry _ x).1 (by show x ∈ s.lists _; rw [hL]; simp)
    have hpw : work_struct_pwq (s.work_data x) = pwq := (hi.l.typ_inactive pwq x hx).1
    have hp : s.work_data x &&& WORK_STRUCT_PWQ ≠ 0 :=
      of_decide_eq_true ((hi.l.has_pwq x).2 (by
        rw [show (core s).entry x = _ from hx]; simp))
    have hc := core_activate s x hp (by rw [hpw]; exact hx)
      (by rw [hpw]; exact (hi.l.mem_entry _ x).2 hx) (hi.l.nodup _)
      (fun y hy => (hi.l.mem_entry _ y).1 hy)
    refine ⟨congrArg Core.max_active hc, ?_⟩
    have := congrArg Core.nr_active hc
    rw [show (core (pwq_activate_inactive_work s x)).nr_active =
      (pwq_activate_inactive_work s x).pwq_nr_active from rfl] at this
    have hpw2 : (core s).pwq_of x = pwq := hpw
    simp only [Core.activate, Core.move_run] at this
    rw [hpw2] at this
    exact this

theorem adjust_loop_bounded (fuel : Nat) (s : State) (pwq : Nat) (hi : InvC (core s)) :
    (pwq_adjust_max_active_loop fuel s pwq).pwq_max_active = s.pwq_max_active ∧
    ∀ p, (pwq_adjust_max_active_loop fuel s pwq).pwq_nr_active p ≤
      max (s.pwq_nr_active p) (s.pwq_max_active p) := by
  induction fuel generalizing s with
  | zero => exact ⟨rfl, fun p => le_max_left _ _⟩
  | succ n ih =>
    unfold pwq_adjust_max_active_loop
    split_ifs with hc
    · have hl : s.lists (list_head.inactive_works pwq) ≠ [] := by
        have := hc.1
        simpa [list_empty] using this
      obtain ⟨a1, a2⟩ := activate_first_na s pwq hi hl
      obtain ⟨b1, b2⟩ := ih _ (InvC_activate_first s pwq hi)
      refine ⟨b1.trans a1, ?_⟩
      intro p
      refine le_trans (b2 p) ?_
      rw [a1, a2]
      by_cases hp : p = pwq
      · subst hp
        rw [Function.update_same]
        have := hc.2
        apply max_le
        · apply le_max_of_le_right
          omega
        · exact le_max_right _ _
      · rw [Function.update_noteq hp]
    · exact ⟨rfl, fun p => le_max_left _ _⟩

theorem adjust_bounded (s : State) (pwq : Nat) (hi : InvC (core s)) :
    nr_active_bounded s (pwq_adjust_max_active s pwq) := by
  unfold pwq_adjust_max_active
  simp only []
  split_ifs
  · exact bounded_of_eq s s rfl
  · have hi1 : InvC (core (s.set .pwq_max_active (Function.update s.pwq_max_active pwq
        (s.wq_saved_max_active (s.pwq_wq pwq))))) := by
      rw [core_set_max_active]
      exact InvC_max_active _ hi _
    obtain ⟨b1, b2⟩ := adjust_loop_bounded
      ((s.set .pwq_max_active (Function.update s.pwq_max_active pwq
        (s.wq_saved_max_active (s.pwq_wq pwq)))).lists (list_head.inactive_works pwq)).length
      _ pwq hi1
    intro p
    have k1 : ∀ u P, (kick_pool u P).2.pwq_nr_active = u.pwq_nr_active := by
      intro u P; simp [State.pwq_nr_active]
    have k2 : ∀ u P, (kick_pool u P).2.pwq_max_active = u.pwq_max_active := by
      intro u P; simp [State.pwq_max_active]
    rw [k1, k2, b1]
    exact b2 p
  · exact bounded_of_eq _ _ rfl

theorem grab_bounded (s : State) (work : Nat) (is_dwork : Bool) (hi : InvC (core s))
    (hnb : s.work_func work ≠ wq_barrier_func) :
    nr_active_bounded s (try_to_grab_pending s work is_dwork).2 := by
  have h1 := InvC_claim s work hi
  have hf : (test_and_set_bit_pending s work).2.work_func work ≠ wq_barrier_func := hnb
  have hn1 : (test_and_set_bit_pending s work).2.pwq_nr_active = s.pwq_nr_active := rfl
  have hm1 : (test_and_set_bit_pending s work).2.pwq_max_active = s.pwq_max_active := rfl
  unfold try_to_grab_pending
  by_cases c1 : is_dwork = true ∧ s.dwork_timer_pending work = true
  · rw [if_pos c1]
    exact bounded_of_eq _ _ (by simp [State.pwq_nr_active])
  rw [if_neg c1]
  by_cases c2 : (test_and_set_bit_pending s work).1 = false
  · rw [if_pos c2]; exact bounded_of_eq _ _ hn1
  rw [if_neg c2]
  simp only []
  by_cases c3 : get_work_pool (test_and_set_bit_pending s work).2 work ≠ 0 ∧
      get_work_pwq (test_and_set_bit_pending s work).2 work ≠ 0 ∧
      (test_and_set_bit_pending s work).2.pwq_pool
        (get_work_pwq (test_and_set_bit_pending s work).2 work) =
        get_work_pool (test_and_set_bit_pending s work).2 work
  · rw [if_pos c3]
    obtain ⟨hp, hpw⟩ := get_work_pwq_ne_zero _ work c3.2.1
    obtain ⟨s2, e2, i2, ⟨H, hH, hHi⟩, hia, hq, hb, hm2, hn2⟩ :=
      steal_activate (test_and_set_bit_pending s work).2 work h1 hf hp
    unfold try_to_grab_pending_steal
    simp only []
    rw [← e2]
    obtain ⟨_, g1, g2, g3⟩ := InvC_steal s2 work
      (get_work_pwq (test_and_set_bit_pending s work).2 work)
      ((pwq_dec_nr_in_flight (list_del_init s2 work)
        (get_work_pwq (test_and_set_bit_pending s work).2 work)
        (work_data_bits (list_del_init s2 work) work)).pool_id
        (get_work_pool (test_and_set_bit_pending s work).2 work)) i2 H hH hHi hia
      (by rw [hq, ← hpw]) hb
    rw [hm1] at hm2
    rw [hn1, ← hpw] at hn2
    rw [hm2] at g1 g3
    intro p
    show _ ≤ max (s.pwq_nr_active p) _
    rw [g1]
    by_cases hpq : p = get_work_pwq (test_and_set_bit_pending s work).2 work
    · subst hpq
      rcases hn2 with hn2 | hn2
      · rw [hn2] at g3
        rcases g3 with g3 | ⟨g3, _⟩
        · rw [g3]
          apply le_max_of_le_left
          omega
        · rw [g3]
          exact le_max_left _ _
      · rw [hn2, Function.update_same] at g3
        rcases g3 with g3 | ⟨g3, g4⟩
        · rw [g3]
          apply le_max_of_le_left
          omega
        · rw [g3]
          apply le_max_of_le_right
          omega
    · rw [g2 p hpq]
      rcases hn2 with hn2 | hn2
      · rw [hn2]
        exact le_max_left _ _
      · rw [hn2, Function.update_noteq hpq]
        exact le_max_left _ _
  · rw [if_neg c3]
    split_ifs <;> exact bounded_of_eq _ _ hn1

/-- No step lets `nr_active` grow beyond `max_active`. -/
theorem step_bounded (s s2 : State) (hi : InvC (core s)) (h : Step s s2) :
    nr_active_bounded s s2 := by
  cases h with
  | claim work => exact bounded_of_eq _ _ rfl
  | queue fuel t cpu wq work _ h0 hnb _ hent h => exact queue_bounded fuel s t cpu wq work s2 hi hent h
  | flush work barr hb0 hb hfresh _ => exact flush_bounded s work barr
  | grab work is_dwork hnb => exact grab_bounded s work is_dwork hi hnb
  | release_clear work hl => exact bounded_of_eq _ _ rfl
  | release_pool work hl => exact bounded_of_eq _ _ rfl
  | canceling work hl => exact bounded_of_eq _ _ rfl
  | assign k work _ _ hw hA =>
    apply bounded_of_eq
    unfold assign_work
    split_ifs <;> simp [State.pwq_nr_active]
  | start k work hk0 hk hh => exact bounded_of_eq _ _ (by simp [State.pwq_nr_active])
  | finish k hk => exact finish_bounded s k hi
  | adjust pwq => exact adjust_bounded s pwq hi
  | prep wq pwq fc wc wait hwc =>
    exact bounded_of_eq _ _ (prep_config s wq pwq fc wc wait .pwq_nr_active rfl (by decide))
  | link_color pwq h0 h1 => exact bounded_of_eq _ _ rfl
  | install wq cpu pwq hp => exact bounded_of_eq _ _ rfl
  | attach worker pool hk hl =>
    exact bounded_of_eq _ _ (attach_config s worker pool .pwq_nr_active rfl (by decide))
  | detach worker hk hl =>
    exact bounded_of_eq _ _ (detach_config s worker .pwq_nr_active rfl (by decide))
  | env f v hf =>
    exact bounded_of_eq _ _ (congrArg Core.nr_active (core_set_external s f v hf))

/-! ## Reachable example states -/

theorem Init_ex_freezable : Init ex_freezable := by
  refine ⟨fun _ => rfl, fun _ => rfl, fun x => ?_, fun _ _ => rfl, fun _ => rfl,
    fun _ => rfl, fun _ => rfl, fun _ _ => ?_, fun _ => ?_⟩
  · have e : ex_freezable.work_data x = WORK_STRUCT_NO_POOL := by
      simp [ex_freezable, ex_one_pwq, State.work_data]
      rfl
    rw [e]
    decide
  · show aligned_pwq 256
    decide
  · show (0 : Int) ≤ 0 ∧ (0 : Int) < 16
    decide

theorem Reachable.step {s s2 : State} (h : Reachable s) (hs : Step s s2) : Reachable s2 := by
  obtain ⟨s0, h0, h1⟩ := h
  exact ⟨s0, h0, Relation.ReflTransGen.tail h1 hs⟩

/-- A call of `queue_work_on` for a work item that is not a barrier leads from a reachable
state to a reachable state. -/
theorem reachable_queue_work_on (fuel : Nat) (s : State) (t : task_ctx) (cpu wq work : Nat)
    (r : Bool × State) (h : Reachable s) (hw : work ≠ 0)
    (hf : s.work_func work ≠ wq_barrier_func)
    (hr : queue_work_on fuel s t cpu wq work = some r) : Reachable r.2 := by
  unfold queue_work_on at hr
  have h1 : Reachable (test_and_set_bit_pending s work).2 := h.step (Step.claim s work)
  by_cases hc : (test_and_set_bit_pending s work).1 = false
  · rw [if_pos hc] at hr
    cases hq : __queue_work fuel (test_and_set_bit_pending s work).2 t cpu wq work with
    | none => rw [hq] at hr; simp at hr
    | some s2 =>
      rw [hq] at hr
      simp only [Option.map_some', Option.some.injEq] at hr
      rw [← hr]
      have hent : s.work_entry work = none := by
        by_contra hne
        have hp := (reachable_inv s h).l.pending work hne
        have hp2 : work_pending s work = true := hp
        rw [work_pending_iff] at hp2
        have : (test_and_set_bit_pending s work).1 = true := hp2
        rw [hc] at this
        exact absurd this (by simp)
      exact h1.step (Step.queue _ fuel t cpu wq work s2 hw hf (work_pending_test_and_set s work)
        hent hq)
  · rw [if_neg hc] at hr
    simp only [Option.some.injEq] at hr
    rw [← hr]
    exact h1

theorem state_after_some (r : Option (Bool × State)) (s : State) (h : r.isSome = true) :
    r = some ((r.getD (false, s)).1, state_after r s) := by
  cases r with
  | none => simp at h
  | some v => rfl

theorem reachable_state_after (fuel : Nat) (s : State) (t : task_ctx) (cpu wq work : Nat)
    (h : Reachable s) (hw : work ≠ 0) (hf : s.work_func work ≠ wq_barrier_func)
    (hs : (queue_work_on fuel s t cpu wq work).isSome = true) :
    Reachable (state_after (queue_work_on fuel s t cpu wq work) s) :=
  reachable_queue_work_on fuel s t cpu wq work _ h hw hf (state_after_some _ s hs)

theorem Reachable_ex_backlog : Reachable ex_backlog :=
  reachable_state_after 1 _ ex_task 0 32 1001
    (reachable_state_after 1 ex_freezable ex_task 0 32 1000
      ⟨_, Init_ex_freezable, Relation.ReflTransGen.refl⟩ (by decide) (by decide) (by decide))
    (by decide) (by decide) (by decide)

theorem ex_backlog_idle : ∀ k, ex_backlog.worker_current_work k = 0 := fun _ => rfl

theorem ex_backlog_entries : ∀ x, ex_backlog.work_entry x ≠ none → x ∈ ({1000, 1001} : Finset Nat) := by
  intro x hx
  by_contra hne
  simp only [Finset.mem_insert, Finset.mem_singleton, not_or] at hne
  apply hx
  show Function.update (Function.update (fun _ => none) 1000 _) 1001 _ x = none
  simp [hne.1, hne.2]

/-! ## The INACTIVE flag and `inactive_works` -/

theorem inactive_flag_ok_of_inv (s : State) (hi : InvC (core s)) : inactive_flag_ok s := by
  intro x hq hnb
  have hp : s.work_data x &&& WORK_STRUCT_PWQ ≠ 0 :=
    of_decide_eq_true ((hi.l.has_pwq x).2 hq)
  have hg : get_work_pwq s x = work_struct_pwq (s.work_data x) := by
    unfold get_work_pwq work_data_bits
    rw [if_pos hp]
  rw [hg]
  cases hH : s.work_entry x with
  | none => exact absurd hH hq
  | some H =>
    have hm : ∀ h, x ∈ s.lists h ↔ s.work_entry x = some h := fun h => hi.l.mem_entry h x
    cases H with
    | inactive_works p =>
      obtain ⟨t1, t2⟩ := hi.l.typ_inactive p x hH
      have t1b : work_struct_pwq (s.work_data x) = p := t1
      rw [t1b, hm, hH]
      exact ⟨fun _ => rfl, fun _ => of_decide_eq_true t2⟩
    | worklist P =>
      have t := (hi.l.typ_worklist P x hH).2 hnb
      rw [hm, hH]
      constructor
      · intro h
        exact absurd (decide_eq_true h) (by rw [show decide _ = (core s).inact x from rfl, t]; simp)
      · intro h
        simp at h
    | scheduled k =>
      have t := (hi.l.typ_scheduled k x hH).2 hnb
      rw [hm, hH]
      constructor
      · intro h
        exact absurd (decide_eq_true h) (by rw [show decide _ = (core s).inact x from rfl, t]; simp)
      · intro h
        simp at h

/-- C5: in every reachable state, every queued work item that is not a barrier carries
INACTIVE exactly when it is linked on `inactive_works` of its pool_workqueue
(`inactive_flag_ok`), and the property holds again after `queue_work_on`, after the
promotion of an inactive work item by `pwq_activate_inactive_work`, after
`try_to_grab_pending` and after `pwq_adjust_max_active`. -/
theorem inactive_flag_iff_on_inactive_works (s : State) (h : Reachable s) :
    inactive_flag_ok s ∧
    (∀ fuel t cpu wq work r, work ≠ 0 → s.work_func work ≠ wq_barrier_func →
      queue_work_on fuel s t cpu wq work = some r → inactive_flag_ok r.2) ∧
    (∀ w p, s.work_entry w = some (list_head.inactive_works p) →
      s.work_func w ≠ wq_barrier_func → inactive_flag_ok (pwq_activate_inactive_work s w)) ∧
    (∀ work is_dwork, s.work_func work ≠ wq_barrier_func →
      inactive_flag_ok (try_to_grab_pending s work is_dwork).2) ∧
    (∀ pwq, inactive_flag_ok (pwq_adjust_max_active s pwq)) := by
  have hi := reachable_inv s h
  refine ⟨inactive_flag_ok_of_inv s hi, ?_, ?_, ?_, ?_⟩
  · intro fuel t cpu wq work r hw hf hr
    exact inactive_flag_ok_of_inv _
      (reachable_inv _ (reachable_queue_work_on fuel s t cpu wq work r h hw hf hr))
  · intro w p hw hf
    exact inactive_flag_ok_of_inv _ (InvC_activate_state s hi w p hw hf)
  · intro work is_dwork hf
    exact inactive_flag_ok_of_inv _ (InvC_grab s work is_dwork hi hf)
  · intro pwq
    exact inactive_flag_ok_of_inv _ (InvC_adjust s pwq hi)

theorem inactive_flag_iff_on_inactive_works_witness :
    Reachable ex_backlog ∧ inactive_flag_ok ex_backlog ∧
    ex_backlog.work_data 1001 &&& WORK_STRUCT_INACTIVE ≠ 0 ∧
    1001 ∈ ex_backlog.lists (list_head.inactive_works 256) ∧
    ex_backlog.work_data 1000 &&& WORK_STRUCT_INACTIVE = 0 :=
  ⟨Reachable_ex_backlog, (inactive_flag_iff_on_inactive_works ex_backlog Reachable_ex_backlog).1,
    by decide, by decide, by decide⟩

/-! ## Non-reentrancy -/

theorem Init_ex_pool_worker : Init ex_pool_worker := by
  refine ⟨fun _ => rfl, fun _ => rfl, fun x => ?_, fun _ _ => rfl, fun _ => rfl,
    fun _ => rfl, fun _ => rfl, fun _ _ => ?_, fun _ => ?_⟩
  · have e : ex_pool_worker.work_data x = WORK_STRUCT_NO_POOL := by
      simp [ex_pool_worker, ex_freezable, ex_one_pwq, State.work_data]
      rfl
    rw [e]
    decide
  · show aligned_pwq 256
    decide
  · show (0 : Int) ≤ 0 ∧ (0 : Int) < 16
    decide

theorem Reachable_ex_assignable : Reachable ex_assignable :=
  reachable_state_after 1 ex_pool_worker ex_task 0 32 1000
    ⟨_, Init_ex_pool_worker, Relation.ReflTransGen.refl⟩ (by decide) (by decide) (by decide)

theorem Reachable_ex_two_workers : Reachable ex_two_workers :=
  (((Reachable.step ⟨_, Init_ex_pool_worker, Relation.ReflTransGen.refl⟩
    (Step.attach ex_pool_worker 17 64 (by decide) (by decide))).step
    (Step.env _ .wq_saved_max_active _ rfl)).step (Step.adjust _ 256))

set_option maxRecDepth 100000 in
theorem Reachable_ex_running : Reachable ex_running :=
  ((reachable_state_after 1 ex_two_workers ex_task 0 32 1000 Reachable_ex_two_workers
    (by decide) (by decide) (by decide)).step
    (Step.assign _ 16 1000 (by decide) (by decide) (by decide) (by decide))).step
    (Step.start _ 16 1000 (by decide) (by decide) (by decide))

set_option maxRecDepth 100000 in
theorem Reachable_ex_requeued_running : Reachable ex_requeued_running :=
  reachable_state_after 1 ex_running ex_task 0 32 1000 Reachable_ex_running
    (by decide) (by decide) (by decide)

set_option maxRecDepth 100000 in
theorem ex_requeued_running_facts :
    ex_requeued_running.worker_current_work 17 = 0 ∧
    ex_requeued_running.worker_current_work 16 = 1000 ∧
    ex_requeued_running.work_entry 1000 =
      some (list_head.worklist (ex_requeued_running.worker_pool 17)) ∧
    (assign_work ex_requeued_running 1000 17).1 = false := by
  refine ⟨by decide, by decide, by decide, by decide⟩

/-! ## The functions that are sequences of steps -/

theorem reachable_prep_pwqs_loop (l : List Nat) (s : State) (wq : Nat) (fc wc : Int)
    (wait : Bool) (h : Reachable s) (hwc : wc < 16) :
    Reachable (flush_workqueue_prep_pwqs_loop l s wq fc wc wait).2 := by
  induction l generalizing s wait with
  | nil => exact h
  | cons p l ih =>
    unfold flush_workqueue_prep_pwqs_loop
    exact ih _ _ (h.step (Step.prep s wq p fc wc wait hwc))

/-- The function `flush_workqueue_prep_pwqs`, called with a work colour below
`WORK_NR_COLORS`, leads from a reachable state to a reachable state. -/
theorem reachable_flush_workqueue_prep_pwqs (s : State) (wq : Nat) (fc wc : Int)
    (h : Reachable s) (hwc : wc < 16) : Reachable (flush_workqueue_prep_pwqs s wq fc wc).2 := by
  unfold flush_workqueue_prep_pwqs
  dsimp only
  split_ifs
  · unfold complete_flusher
    exact (Reachable.step (reachable_prep_pwqs_loop _ _ wq fc wc false
      (h.step (Step.env s .wq_nr_pwqs_to_flush _ rfl)) hwc)
      (Step.env _ .wq_nr_pwqs_to_flush _ rfl)).step (Step.env _ .flusher_done _ rfl)
  · exact Reachable.step (reachable_prep_pwqs_loop _ _ wq fc wc false
      (h.step (Step.env s .wq_nr_pwqs_to_flush _ rfl)) hwc)
      (Step.env _ .wq_nr_pwqs_to_flush _ rfl)
  · exact reachable_prep_pwqs_loop _ _ wq fc wc false h hwc

/-- The function `link_pwq`, for a workqueue whose work colour is in range, leads from a
reachable state to a reachable state: it is a `link_color` step, an `adjust` step and a write
to `wq->pwqs`. -/
theorem reachable_link_pwq (s : State) (pwq : Nat) (h : Reachable s)
    (h0 : 0 ≤ s.wq_work_color (s.pwq_wq pwq)) (h1 : s.wq_work_color (s.pwq_wq pwq) < 16) :
    Reachable (link_pwq s pwq) := by
  unfold link_pwq
  dsimp only
  split_ifs
  · exact h
  · exact ((h.step (Step.link_color s pwq h0 h1)).step (Step.adjust _ pwq)).step
      (Step.env _ .wq_pwqs _ rfl)

/-- The function `install_unbound_pwq`, for an aligned pool_workqueue of a workqueue whose
work colour is in range, leads from a reachable state to a reachable state. -/
theorem reachable_install_unbound_pwq (s : State) (wq cpu pwq : Nat) (h : Reachable s)
    (h0 : 0 ≤ s.wq_work_color (s.pwq_wq pwq)) (h1 : s.wq_work_color (s.pwq_wq pwq) < 16)
    (hp : aligned_pwq pwq) : Reachable (install_unbound_pwq s wq cpu pwq).2 :=
  (reachable_link_pwq s pwq h h0 h1).step (Step.install (link_pwq s pwq) wq cpu pwq hp)

/-- A flusher that advances the work colour of the pool_workqueue 256 leads from the
reachable state `ex_backlog` to the reachable state `ex_recolored`. -/
theorem Reachable_ex_recolored : Reachable ex_recolored :=
  Reachable_ex_backlog.step (Step.prep ex_backlog 32 256 0 1 false (by decide))

/-- C9: for a worker `k` that is not executing and a work item on the worklist of its pool,
in a reachable state, `assign_work` returns false exactly when a worker in `busy_hash` of
the pool has `current_work` equal to the work item and `current_func` equal to its function;
then the work item and its linked successors are appended to the `scheduled` list of such
a worker and the `scheduled` list of `k` is unchanged; otherwise they are appended to the
`scheduled` list of `k` and the result is true.  In every reachable state no two workers of
one pool execute the same work item with the same function. -/
theorem assign_work_contract (s : State) (k work : Nat) (h : Reachable s)
    (hk : s.worker_current_work k = 0)
    (hw : s.work_entry work = some (list_head.worklist (s.worker_pool k))) :
    ((assign_work s work k).1 = false ↔
      ∃ c ∈ s.pool_busy_hash (s.worker_pool k),
        s.worker_current_work c = work ∧ s.worker_current_func c = s.work_func work) ∧
    ((assign_work s work k).1 = false →
      ∃ c ∈ s.pool_busy_hash (s.worker_pool k),
        s.worker_current_work c = work ∧ s.worker_current_func c = s.work_func work ∧
        (assign_work s work k).2.1.lists (list_head.scheduled c) =
          s.lists (list_head.scheduled c) ++ linked_run s.work_data
            (list_from work (s.lists (list_head.worklist (s.worker_pool k)))) ∧
        (assign_work s work k).2.1.lists (list_head.scheduled k) =
          s.lists (list_head.scheduled k)) ∧
    ((assign_work s work k).1 = true →
      (assign_work s work k).2.1.lists (list_head.scheduled k) =
        s.lists (list_head.scheduled k) ++ linked_run s.work_data
          (list_from work (s.lists (list_head.worklist (s.worker_pool k))))) ∧
    (∀ k1 k2, s.worker_current_work k1 ≠ 0 → s.worker_pool k1 = s.worker_pool k2 →
      s.worker_current_work k1 = s.worker_current_work k2 →
      s.worker_current_func k1 = s.worker_current_func k2 → k1 = k2) := by
  have hi := reachable_inv s h
  have hb : 0 ∉ s.pool_busy_hash (s.worker_pool k) := hi.e.not_busy_zero _
  obtain ⟨f1, f2⟩ := find_worker_executing_work_spec s (s.worker_pool k) work hb
  have hw0 : work ≠ 0 := hi.l.entry_ne_zero work (by
    rw [show (core s).entry work = _ from hw]; simp)
  have hspec : ∀ hd, list_head.worklist (s.worker_pool k) ≠ hd →
      ∀ g, (move_linked_works s work hd).1.lists g =
        if g = hd then s.lists hd ++ linked_run s.work_data
          (list_from work (s.lists (list_head.worklist (s.worker_pool k))))
        else if g = list_head.worklist (s.worker_pool k) then
          list_before work (s.lists (list_head.worklist (s.worker_pool k))) ++
            (list_from work (s.lists (list_head.worklist (s.worker_pool k)))).drop
              (linked_run s.work_data
                (list_from work (s.lists (list_head.worklist (s.worker_pool k))))).length
        else s.lists g := by
    intro hd hne
    exact (move_linked_works_spec s work _ hd hw hne ((hi.l.mem_entry _ work).2 hw)
      (hi.l.nodup _) (fun x hx => (hi.l.mem_entry _ x).1 hx)).1
  refine ⟨?_, ?_, ?_, ?_⟩
  · have f1b : find_worker_executing_work s (s.worker_pool k) work ≠ 0 ↔
        ∃ c ∈ s.pool_busy_hash (s.worker_pool k),
          s.worker_current_work c = work ∧ s.worker_current_func c = s.work_func work := f1
    rw [← f1b]
    unfold assign_work
    split_ifs with hc
    · simp [hc]
    · simp [hc]
  · intro hr
    have hc : find_worker_executing_work s (s.worker_pool k) work ≠ 0 := by
      unfold assign_work at hr
      split_ifs at hr with hc
      exact hc
    obtain ⟨g1, g2⟩ := f2 hc
    have hck : find_worker_executing_work s (s.worker_pool k) work ≠ k := by
      intro e
      rw [e] at g2
      exact hw0 (g2.1.symm.trans hk)
    refine ⟨_, g1, g2.1, g2.2, ?_, ?_⟩
    · unfold assign_work
      rw [if_pos hc]
      simp only []
      rw [hspec _ (by simp), if_pos rfl]
    · unfold assign_work
      rw [if_pos hc]
      simp only []
      rw [hspec _ (by simp), if_neg (by simpa using Ne.symm hck), if_neg (by simp)]
  · intro hr
    have hc : ¬ find_worker_executing_work s (s.worker_pool k) work ≠ 0 := by
      unfold assign_work at hr
      split_ifs at hr with hc
      exact hc
    unfold assign_work
    rw [if_neg hc]
    simp only []
    rw [hspec _ (by simp), if_pos rfl]
  · intro k1 k2 h1 h2 h3 h4
    exact hi.x.uniq k1 k2 h1 h3 h4 h2

set_option maxRecDepth 100000 in
/-- C9 (witness): in `ex_assignable` the worker 16 takes the work item 1000 from the worklist
and the result is true; in `ex_requeued_running` the worker 16 executes the work item 1000,
which was queued again, and `assign_work` by the worker 17 returns false and appends it to
the `scheduled` list of the worker 16. -/
theorem assign_work_contract_witness :
    (Reachable ex_assignable ∧ ex_assignable.worker_current_work 16 = 0 ∧
    ex_assignable.work_entry 1000 = some (list_head.worklist (ex_assignable.worker_pool 16)) ∧
    ((assign_work ex_assignable 1000 16).1 = true →
      (assign_work ex_assignable 1000 16).2.1.lists (list_head.scheduled 16) =
        ex_assignable.lists (list_head.scheduled 16) ++ linked_run ex_assignable.work_data
          (list_from 1000 (ex_assignable.lists
            (list_head.worklist (ex_assignable.worker_pool 16))))) ∧
    (assign_work ex_assignable 1000 16).1 = true) ∧
    Reachable ex_requeued_running ∧ ex_requeued_running.worker_current_work 17 = 0 ∧
    ex_requeued_running.work_entry 1000 =
      some (list_head.worklist (ex_requeued_running.worker_pool 17)) ∧
    (assign_work ex_requeued_running 1000 17).1 = false ∧
    ∃ c ∈ ex_requeued_running.pool_busy_hash (ex_requeued_running.worker_pool 17),
      ex_requeued_running.worker_current_work c = 1000 ∧
      ex_requeued_running.worker_current_func c = ex_requeued_running.work_func 1000 ∧
      (assign_work ex_requeued_running 1000 17).2.1.lists (list_head.scheduled c) =
        ex_requeued_running.lists (list_head.scheduled c) ++
          linked_run ex_requeued_running.work_data
            (list_from 1000 (ex_requeued_running.lists
              (list_head.worklist (ex_requeued_running.worker_pool 17)))) ∧
      (assign_work ex_requeued_running 1000 17).2.1.lists (list_head.scheduled 17) =
        ex_requeued_running.lists (list_head.scheduled 17) :=
  ⟨⟨Reachable_ex_assignable, by decide, by decide,
    (assign_work_contract ex_assignable 16 1000 Reachable_ex_assignable (by decide)
      (by decide)).2.2.1, by decide⟩,
    Reachable_ex_requeued_running, ex_requeued_running_facts.1, ex_requeued_running_facts.2.2.1,
    ex_requeued_running_facts.2.2.2,
    (assign_work_contract ex_requeued_running 17 1000 Reachable_ex_requeued_running
      ex_requeued_running_facts.1 ex_requeued_running_facts.2.2.1).2.1
      ex_requeued_running_facts.2.2.2⟩

/-! ## The in-flight equation -/

theorem insert_wq_barrier_entry_other (s : State) (pwq barr target worker x : Nat)
    (hx : x ≠ barr) :
    (insert_wq_barrier s pwq barr target worker).work_entry x = s.work_entry x := by
  unfold insert_wq_barrier
  simp only []
  split_ifs <;>
    simp [insert_work, list_add_tail, INIT_WORK_ONSTACK, __set_bit, set_work_pwq, set_work_data,
      get_pwq, State.work_entry, hx]

theorem start_flush_work_entry_other (s : State) (work barr x : Nat) (hx : x ≠ barr) :
    (start_flush_work s work barr).2.work_entry x = s.work_entry x := by
  unfold start_flush_work
  split_ifs
  all_goals
    first
    | rfl
    | (dsimp only; exact insert_wq_barrier_entry_other s _ barr work _ x hx)

theorem Reachable_ex_flushed : Reachable ex_flushed :=
  Reachable_ex_backlog.step (Step.flush ex_backlog 1001 2000 (by decide) (by decide)
    (fun k => by rw [ex_backlog_idle k]; decide) (by decide))

theorem ex_flushed_idle : ∀ k, ex_flushed.worker_current_work k = 0 := fun _ => rfl

theorem ex_flushed_entries :
    ∀ x, ex_flushed.work_entry x ≠ none → x ∈ ({1000, 1001, 2000} : Finset Nat) := by
  intro x hx
  by_contra hne
  simp only [Finset.mem_insert, Finset.mem_singleton, not_or] at hne
  have hb := ex_backlog_entries x (by
    rw [← start_flush_work_entry_other ex_backlog 1001 2000 x hne.2.2]
    exact hx)
  simp [hne.1, hne.2.1] at hb

/-- C4, the claimed equation fails: in the reachable state `ex_flushed` the work item 1000
is active, the work item 1001 waits on `inactive_works` of the pool_workqueue 256 and the
barrier 2000 of `flush_work` is linked behind it on `inactive_works`.  The sum of
`nr_in_flight` is 3, while `nr_active` is 1, `inactive_works` has the length 2 and one
barrier belongs to the pool_workqueue. -/
theorem in_flight_sum_linked_barrier :
    Reachable ex_flushed ∧
    (∀ x, ex_flushed.work_entry x ≠ none → x ∈ ({1000, 1001, 2000} : Finset Nat)) ∧
    (∀ k, ex_flushed.worker_current_work k ≠ 0 → k ∈ (∅ : Finset Nat)) ∧
    (core ex_flushed).in_flight_sum 256 = 3 ∧
    ex_flushed.pwq_nr_active 256 = 1 ∧
    ex_flushed.lists (list_head.inactive_works 256) = [1001, 2000] ∧
    (core ex_flushed).barrier_count 256 {1000, 1001, 2000} ∅ = 1 ∧
    (core ex_flushed).in_flight_sum 256 ≠ ex_flushed.pwq_nr_active 256 +
      ((ex_flushed.lists (list_head.inactive_works 256)).length : Int) +
      ((core ex_flushed).barrier_count 256 {1000, 1001, 2000} ∅ : Int) := by
  have hK : ∀ k, ex_flushed.worker_current_work k ≠ 0 → k ∈ (∅ : Finset Nat) :=
    fun k hk => absurd (ex_flushed_idle k) hk
  have hf := (reachable_inv ex_flushed Reachable_ex_flushed).f 256 {1000, 1001, 2000} ∅
    ex_flushed_entries hK
  have e1 : ex_flushed.pwq_nr_active 256 = 1 := by decide
  have e2 : ex_flushed.lists (list_head.inactive_works 256) = [1001, 2000] := by decide
  have e3 : (core ex_flushed).barrier_count 256 {1000, 1001, 2000} ∅ = 1 := by decide
  have e4 : (core ex_flushed).inactive_count 256 = 1 := by
    unfold Core.inactive_count
    rw [show (core ex_flushed).lists (list_head.inactive_works 256) = [1001, 2000] from e2]
    decide
  have e5 : (core ex_flushed).in_flight_sum 256 = 3 := by
    rw [hf, show (core ex_flushed).nr_active 256 = 1 from e1, e3, e4]
    rfl
  refine ⟨Reachable_ex_flushed, ex_flushed_entries, hK, e5, e1, e2, e3, ?_⟩
  rw [e5, e1, e2, e3]
  decide

/-- C4: in every reachable state and for every pool_workqueue `p`, the sum of
`nr_in_flight[c]` over all colours equals `nr_active`, plus the number of work items on
`inactive_works` that are not barriers, plus the number of barriers that belong to `p`,
linked on a list or being executed.  The barriers are counted in finite sets `D` and `K`
that contain every linked work item and every executing worker. -/
theorem in_flight_accounting (s : State) (h : Reachable s) (p : Nat) (D K : Finset Nat)
    (hD : ∀ x, s.work_entry x ≠ none → x ∈ D)
    (hK : ∀ k, s.worker_current_work k ≠ 0 → k ∈ K) :
    (core s).in_flight_sum p = s.pwq_nr_active p + ((core s).inactive_count p : Int) +
      ((core s).barrier_count p D K : Int) :=
  (reachable_inv s h).f p D K hD hK

theorem in_flight_accounting_witness :
    Reachable ex_flushed ∧
    (core ex_flushed).in_flight_sum 256 = ex_flushed.pwq_nr_active 256 +
      ((core ex_flushed).inactive_count 256 : Int) +
      ((core ex_flushed).barrier_count 256 {1000, 1001, 2000} ∅ : Int) :=
  ⟨Reachable_ex_flushed, in_flight_accounting ex_flushed Reachable_ex_flushed 256
    {1000, 1001, 2000} ∅ ex_flushed_entries (fun k hk => absurd (ex_flushed_idle k) hk)⟩

/-! ## nr_active and max_active -/

theorem Reachable_ex_freezing : Reachable (ex_backlog.set .workqueue_freezing true) :=
  Reachable_ex_backlog.step (Step.env ex_backlog .workqueue_freezing true rfl)

theorem Reachable_ex_frozen : Reachable ex_frozen :=
  Reachable_ex_freezing.step (Step.adjust _ 256)

/-- C6, the claimed bound fails: `ex_frozen` is the reachable state right after
`pwq_adjust_max_active` ran on the pool_workqueue 256 of a freezable workqueue while
`workqueue_freezing` is set.  It set `max_active` to 0 while the work item 1000 is still
active, so `nr_active` is 1 and exceeds `max_active`. -/
theorem nr_active_exceeds_max_active_frozen :
    Reachable ex_frozen ∧
    ex_frozen = pwq_adjust_max_active (ex_backlog.set .workqueue_freezing true) 256 ∧
    ex_frozen.pwq_nr_active 256 = 1 ∧ ex_frozen.pwq_max_active 256 = 0 ∧
    ¬ ex_frozen.pwq_nr_active 256 ≤ ex_frozen.pwq_max_active 256 :=
  ⟨Reachable_ex_frozen, rfl, by decide, by decide, by decide⟩

/-- C6: no step from a reachable state lets `nr_active` of a pool_workqueue grow beyond
`max_active`: after the step `nr_active` is at most its value before the step or at most
`max_active`.  So `nr_active ≤ max_active` is preserved by every step that does not lower
`max_active`. -/
theorem nr_active_step_bound (s s2 : State) (h : Reachable s) (hs : Step s s2) (p : Nat) :
    s2.pwq_nr_active p ≤ max (s.pwq_nr_active p) (s2.pwq_max_active p) ∧
    (s.pwq_nr_active p ≤ s.pwq_max_active p → s.pwq_max_active p ≤ s2.pwq_max_active p →
      s2.pwq_nr_active p ≤ s2.pwq_max_active p) := by
  have hb := step_bounded s s2 (reachable_inv s h) hs p
  refine ⟨hb, ?_⟩
  intro h1 h2
  rcases le_max_iff.1 hb with h3 | h3
  · exact le_trans h3 (le_trans h1 h2)
  · exact h3

theorem nr_active_step_bound_witness :
    Reachable (ex_backlog.set .workqueue_freezing true) ∧
    Step (ex_backlog.set .workqueue_freezing true) ex_frozen ∧
    ex_frozen.pwq_nr_active 256 ≤
      max ((ex_backlog.set .workqueue_freezing true).pwq_nr_active 256)
        (ex_frozen.pwq_max_active 256) :=
  ⟨Reachable_ex_freezing, Step.adjust _ 256,
    (nr_active_step_bound _ ex_frozen Reachable_ex_freezing (Step.adjust _ 256) 256).1⟩

/-! ## The balance of a pool under the operations on the view -/

theorem countP_erase_mem (p : Nat → Bool) (l : List Nat) (k : Nat) (hk : k ∈ l) :
    (l.countP p : Int) = ((l.erase k).countP p : Int) + (if p k = true then 1 else 0) := by
  have h := (List.perm_cons_erase hk).countP_eq p
  rw [h, List.countP_cons]
  split_ifs <;> simp

theorem balance_leave (v : PoolView) (k P : Nat) :
    (v.leave k).balance P = v.balance P - (if P = v.wpool k then 1 else 0) := by
  unfold PoolView.balance PoolView.busy_count PoolView.leave
  by_cases h : P = v.wpool k
  · subst h; simp; omega
  · simp [h]

theorem balance_enter (v : PoolView) (k P : Nat) :
    (v.enter k).balance P = v.balance P + (if P = v.wpool k then 1 else 0) := by
  unfold PoolView.balance PoolView.busy_count PoolView.enter
  by_cases h : P = v.wpool k
  · subst h; simp; omega
  · simp [h]

theorem balance_start (v : PoolView) (k P : Nat) :
    (v.start k).balance P =
      v.balance P + (if P = v.wpool k ∧ v.rescuer k = false then 1 else 0) := by
  unfold PoolView.balance PoolView.busy_count PoolView.start
  by_cases h : P = v.wpool k
  · subst h
    by_cases hr : v.rescuer k = false
    · simp [hr]; omega
    · simp [hr]
  · simp [h]

theorem balance_finish (v : PoolView) (k P : Nat) (hk : k ∈ v.busy (v.wpool k)) :
    (v.finish k).balance P =
      v.balance P - (if P = v.wpool k ∧ v.rescuer k = false then 1 else 0) := by
  unfold PoolView.balance PoolView.busy_count PoolView.finish
  by_cases h : P = v.wpool k
  · subst h
    have hc := countP_erase_mem (fun k => !v.rescuer k) _ k hk
    by_cases hr : v.rescuer k = false
    · simp [hr] at hc ⊢; omega
    · simp [hr] at hc ⊢; omega
  · simp [h]

theorem balance_manage_begin (v : PoolView) (k P : Nat) (h0 : v.manager (v.wpool k) = 0)
    (hk : k ≠ 0) :
    (v.manage_begin k).balance P = v.balance P + (if P = v.wpool k then 1 else 0) := by
  unfold PoolView.balance PoolView.busy_count PoolView.manage_begin
  by_cases h : P = v.wpool k
  · subst h; simp [h0, hk]; omega
  · simp [h]

theorem balance_manage_end (v : PoolView) (k P : Nat) (h0 : v.manager (v.wpool k) ≠ 0) :
    (v.manage_end k).balance P = v.balance P - (if P = v.wpool k then 1 else 0) := by
  unfold PoolView.balance PoolView.busy_count PoolView.manage_end
  by_cases h : P = v.wpool k
  · subst h; simp [h0]; omega
  · simp [h]

theorem balance_count (v : PoolView) (Q P : Nat) :
    (v.count Q).balance P = v.balance P - (if P = Q then 1 else 0) := by
  unfold PoolView.balance PoolView.busy_count PoolView.count
  by_cases h : P = Q
  · subst h; simp; omega
  · simp [h]

theorem balance_dying (v : PoolView) (k P : Nat) : (v.dying k).balance P = v.balance P := by
  unfold PoolView.balance PoolView.busy_count PoolView.dying
  by_cases h : P = v.wpool k
  · subst h; simp; omega
  · simp [h]

theorem balance_attach (v : PoolView) (k Q P : Nat) :
    (v.attach k Q).balance P = v.balance P := rfl

theorem balance_mark (v : PoolView) (Q P : Nat) : (v.mark Q).balance P = v.balance P := rfl

theorem countP_congr_of_not_mem (p q : Nat → Bool) (l : List Nat) (k : Nat) (hk : k ∉ l)
    (h : ∀ x, x ≠ k → q x = p x) : l.countP q = l.countP p := by
  apply List.countP_congr
  intro x hx
  have : x ≠ k := fun e => hk (e ▸ hx)
  rw [h x this]

theorem balance_alloc (v : PoolView) (k P : Nat) (hk : ∀ Q, k ∉ v.busy Q) :
    (v.alloc k).balance P = v.balance P := by
  unfold PoolView.balance PoolView.busy_count PoolView.alloc
  simp only []
  rw [countP_congr_of_not_mem (fun x => !v.rescuer x) _ (v.busy P) k (hk P)]
  intro x hx
  simp [Function.update_noteq hx]

theorem balance_eq_zero_iff (v : PoolView) (P : Nat) :
    v.balance P = 0 ↔ v.nr_workers P = v.nr_idle P + (v.busy_count P : Int) +
      (if v.manager P ≠ 0 then 1 else 0) := by
  unfold PoolView.balance
  constructor <;> intro h <;> omega

/-! ## The states of the workers under the operations on the view -/

theorem InvQ_leave (v : PoolView) (k : Nat) (hq : InvQ v) (hd : v.die k = false) :
    InvQ (v.leave k) := by
  constructor
  · intro P x hx
    show Function.update v.idle k false x = false
    by_cases e : x = k
    · rw [e, Function.update_same]
    · rw [Function.update_noteq e]; exact hq.busy_not_idle P x hx
  · exact hq.busy_nodup
  · exact hq.busy_pool
  · intro P hP
    obtain ⟨m1, m2, m3, m4, m5, m6⟩ := hq.mgr P hP
    refine ⟨m1, ?_, m3, ?_, m5, m6⟩
    · show Function.update v.idle k false (v.manager P) = false
      by_cases e : v.manager P = k
      · rw [e, Function.update_same]
      · rw [Function.update_noteq e]; exact m2
    · show Function.update v.link k link_state.unlinked (v.manager P) = _
      by_cases e : v.manager P = k
      · rw [e, Function.update_same]
      · rw [Function.update_noteq e]; exact m4
  · intro x hx
    show Function.update v.idle k false x = true
    have hx2 : v.die x = true := hx
    have e : x ≠ k := by
      intro e
      rw [e, hd] at hx2
      exact absurd hx2 (by simp)
    rw [Function.update_noteq e]
    exact hq.die_idle x hx2
  · intro x hx
    show Function.update v.idle k false x = false
    by_cases e : x = k
    · rw [e, Function.update_same]
    · rw [Function.update_noteq e]; exact hq.resc_not_idle x hx

theorem InvQ_enter (v : PoolView) (k : Nat) (hq : InvQ v) (hb : ∀ P, k ∉ v.busy P)
    (hm : ∀ P, v.manager P ≠ 0 → v.manager P ≠ k) (hr : v.rescuer k = false) :
    InvQ (v.enter k) := by
  constructor
  · intro P x hx
    show Function.update v.idle k true x = false
    have e : x ≠ k := fun e => hb P (e ▸ hx)
    rw [Function.update_noteq e]
    exact hq.busy_not_idle P x hx
  · exact hq.busy_nodup
  · exact hq.busy_pool
  · intro P hP
    obtain ⟨m1, m2, m3, m4, m5, m6⟩ := hq.mgr P hP
    have e := hm P hP
    refine ⟨m1, ?_, m3, ?_, m5, m6⟩
    · show Function.update v.idle k true (v.manager P) = false
      rw [Function.update_noteq e]; exact m2
    · show Function.update v.link k link_state.idle_list (v.manager P) = _
      rw [Function.update_noteq e]; exact m4
  · intro x hx
    show Function.update v.idle k true x = true
    by_cases e : x = k
    · rw [e, Function.update_same]
    · rw [Function.update_noteq e]; exact hq.die_idle x hx
  · intro x hx
    show Function.update v.idle k true x = false
    have hx2 : v.rescuer x = true := hx
    have e : x ≠ k := by
      intro e
      rw [e, hr] at hx2
      exact absurd hx2 (by simp)
    rw [Function.update_noteq e]
    exact hq.resc_not_idle x hx2

theorem mem_update_cons (f : Nat → List Nat) (Q k P x : Nat)
    (h : x ∈ Function.update f Q (k :: f Q) P) : (x = k ∧ P = Q) ∨ x ∈ f P := by
  by_cases e : P = Q
  · subst e
    rw [Function.update_same] at h
    rcases List.mem_cons.1 h with h | h
    · exact Or.inl ⟨h, rfl⟩
    · exact Or.inr h
  · rw [Function.update_noteq e] at h
    exact Or.inr h

theorem InvQ_start (v : PoolView) (k : Nat) (hq : InvQ v) (hi : v.idle k = false)
    (hb : k ∉ v.busy (v.wpool k)) (hm : ∀ P, v.manager P ≠ 0 → v.manager P ≠ k) :
    InvQ (v.start k) := by
  constructor
  · intro P x hx
    rcases mem_update_cons v.busy _ k P x hx with ⟨e, _⟩ | h
    · rw [e]; exact hi
    · exact hq.busy_not_idle P x h
  · intro P
    show (Function.update v.busy (v.wpool k) (k :: v.busy (v.wpool k)) P).Nodup
    by_cases e : P = v.wpool k
    · subst e
      rw [Function.update_same]
      exact List.nodup_cons.2 ⟨hb, hq.busy_nodup _⟩
    · rw [Function.update_noteq e]
      exact hq.busy_nodup P
  · intro P x hx
    rcases mem_update_cons v.busy _ k P x hx with ⟨e, e2⟩ | h
    · rw [e, e2]; rfl
    · exact hq.busy_pool P x h
  · intro P hP
    obtain ⟨m1, m2, m3, m4, m5, m6⟩ := hq.mgr P hP
    have e := hm P hP
    refine ⟨m1, m2, m3, ?_, ?_, m6⟩
    · show Function.update v.link k link_state.busy_hash (v.manager P) = _
      rw [Function.update_noteq e]; exact m4
    · intro hx
      rcases mem_update_cons v.busy _ k P _ hx with ⟨e1, _⟩ | h
      · exact e e1
      · exact m5 h
  · exact hq.die_idle
  · exact hq.resc_not_idle

theorem mem_update_erase (f : Nat → List Nat) (Q k P x : Nat)
    (h : x ∈ Function.update f Q ((f Q).erase k) P) : x ∈ f P := by
  by_cases e : P = Q
  · subst e
    rw [Function.update_same] at h
    exact List.mem_of_mem_erase h
  · rw [Function.update_noteq e] at h
    exact h

theorem InvQ_finish (v : PoolView) (k : Nat) (hq : InvQ v) : InvQ (v.finish k) := by
  constructor
  · intro P x hx
    exact hq.busy_not_idle P x (mem_update_erase v.busy _ k P x hx)
  · intro P
    show (Function.update v.busy (v.wpool k) ((v.busy (v.wpool k)).erase k) P).Nodup
    by_cases e : P = v.wpool k
    · subst e
      rw [Function.update_same]
      exact (hq.busy_nodup _).erase k
    · rw [Function.update_noteq e]
      exact hq.busy_nodup P
  · intro P x hx
    exact hq.busy_pool P x (mem_update_erase v.busy _ k P x hx)
  · intro P hP
    obtain ⟨m1, m2, m3, m4, m5, m6⟩ := hq.mgr P hP
    refine ⟨m1, m2, m3, ?_, ?_, m6⟩
    · show Function.update v.link k link_state.unlinked (v.manager P) = _
      by_cases e : v.manager P = k
      · rw [e, Function.update_same]
      · rw [Function.update_noteq e]; exact m4
    · intro hx
      exact m5 (mem_update_erase v.busy _ k P _ hx)
  · exact hq.die_idle
  · exact hq.resc_not_idle

/-- After `finish` the worker is hashed on no pool. -/
theorem finish_not_busy (v : PoolView) (k : Nat) (hq : InvQ v) :
    ∀ P, k ∉ (v.finish k).busy P := by
  intro P hx
  have h1 := mem_update_erase v.busy _ k P k hx
  have h2 := hq.busy_pool P k h1
  subst h2
  have : k ∈ (v.busy (v.wpool k)).erase k := by
    have := hx
    simp only [PoolView.finish, Function.update_same] at this
    exact this
  exact (List.Nodup.not_mem_erase (hq.busy_nodup _)) this

theorem InvQ_manage_begin (v : PoolView) (k : Nat) (hq : InvQ v) (hi : v.idle k = false)
    (hr : v.rescuer k = false) (hl : v.link k = link_state.unlinked)
    (hb : k ∉ v.busy (v.wpool k)) : InvQ (v.manage_begin k) := by
  constructor
  · exact hq.busy_not_idle
  · exact hq.busy_nodup
  · exact hq.busy_pool
  · intro P
    show Function.update v.manager (v.wpool k) k P ≠ 0 →
      Function.update v.mgr_active (v.wpool k) true P = true ∧
      v.idle (Function.update v.manager (v.wpool k) k P) = false ∧
      v.rescuer (Function.update v.manager (v.wpool k) k P) = false ∧
      v.link (Function.update v.manager (v.wpool k) k P) = link_state.unlinked ∧
      Function.update v.manager (v.wpool k) k P ∉ v.busy P ∧
      v.wpool (Function.update v.manager (v.wpool k) k P) = P
    by_cases e : P = v.wpool k
    · subst e
      rw [Function.update_same, Function.update_same]
      exact fun _ => ⟨rfl, hi, hr, hl, hb, rfl⟩
    · rw [Function.update_noteq e, Function.update_noteq e]
      exact hq.mgr P
  · exact hq.die_idle
  · exact hq.resc_not_idle

theorem InvQ_manage_end (v : PoolView) (k : Nat) (hq : InvQ v) : InvQ (v.manage_end k) := by
  constructor
  · exact hq.busy_not_idle
  · exact hq.busy_nodup
  · exact hq.busy_pool
  · intro P
    show Function.update v.manager (v.wpool k) 0 P ≠ 0 →
      Function.update v.mgr_active (v.wpool k) false P = true ∧
      v.idle (Function.update v.manager (v.wpool k) 0 P) = false ∧
      v.rescuer (Function.update v.manager (v.wpool k) 0 P) = false ∧
      v.link (Function.update v.manager (v.wpool k) 0 P) = link_state.unlinked ∧
      Function.update v.manager (v.wpool k) 0 P ∉ v.busy P ∧
      v.wpool (Function.update v.manager (v.wpool k) 0 P) = P
    by_cases e : P = v.wpool k
    · subst e
      rw [Function.update_same]
      exact fun h => absurd rfl h
    · rw [Function.update_noteq e, Function.update_noteq e]
      exact hq.mgr P
  · exact hq.die_idle
  · exact hq.resc_not_idle

theorem InvQ_attach (v : PoolView) (k Q : Nat) (hq : InvQ v) (hb : ∀ P, k ∉ v.busy P)
    (hm : ∀ P, v.manager P ≠ 0 → v.manager P ≠ k) : InvQ (v.attach k Q) := by
  constructor
  · exact hq.busy_not_idle
  · exact hq.busy_nodup
  · intro P x hx
    show Function.update v.wpool k Q x = P
    have e : x ≠ k := fun e => hb P (e ▸ hx)
    rw [Function.update_noteq e]
    exact hq.busy_pool P x hx
  · intro P hP
    obtain ⟨m1, m2, m3, m4, m5, m6⟩ := hq.mgr P hP
    refine ⟨m1, m2, m3, m4, m5, ?_⟩
    show Function.update v.wpool k Q (v.manager P) = P
    rw [Function.update_noteq (hm P hP)]
    exact m6
  · exact hq.die_idle
  · exact hq.resc_not_idle

theorem InvQ_alloc (v : PoolView) (k : Nat) (hq : InvQ v) (hb : ∀ P, k ∉ v.busy P)
    (hm : ∀ P, v.manager P ≠ 0 → v.manager P ≠ k) : InvQ (v.alloc k) := by
  constructor
  · intro P x hx
    show Function.update v.idle k false x = false
    have e : x ≠ k := fun e => hb P (e ▸ hx)
    rw [Function.update_noteq e]
    exact hq.busy_not_idle P x hx
  · exact hq.busy_nodup
  · intro P x hx
    show Function.update v.wpool k 0 x = P
    have e : x ≠ k := fun e => hb P (e ▸ hx)
    rw [Function.update_noteq e]
    exact hq.busy_pool P x hx
  · intro P hP
    obtain ⟨m1, m2, m3, m4, m5, m6⟩ := hq.mgr P hP
    have e := hm P hP
    refine ⟨m1, ?_, ?_, ?_, m5, ?_⟩
    · show Function.update v.idle k false (v.manager P) = false
      rw [Function.update_noteq e]; exact m2
    · show Function.update v.rescuer k false (v.manager P) = false
      rw [Function.update_noteq e]; exact m3
    · show Function.update v.link k link_state.unlinked (v.manager P) = _
      rw [Function.update_noteq e]; exact m4
    · show Function.update v.wpool k 0 (v.manager P) = P
      rw [Function.update_noteq e]; exact m6
  · intro x hx
    have hx2 : Function.update v.die k false x = true := hx
    show Function.update v.idle k false x = true
    have e : x ≠ k := by
      intro e
      rw [e, Function.update_same] at hx2
      exact absurd hx2 (by simp)
    rw [Function.update_noteq e] at hx2 ⊢
    exact hq.die_idle x hx2
  · intro x hx
    have hx2 : Function.update v.rescuer k false x = true := hx
    show Function.update v.idle k false x = false
    have e : x ≠ k := by
      intro e
      rw [e, Function.update_same] at hx2
      exact absurd hx2 (by simp)
    rw [Function.update_noteq e] at hx2 ⊢
    exact hq.resc_not_idle x hx2

theorem InvQ_count (v : PoolView) (Q : Nat) (hq : InvQ v) : InvQ (v.count Q) :=
  ⟨hq.busy_not_idle, hq.busy_nodup, hq.busy_pool, hq.mgr, hq.die_idle, hq.resc_not_idle⟩

theorem InvQ_dying (v : PoolView) (k : Nat) (hq : InvQ v) (hi : v.idle k = true) :
    InvQ (v.dying k) := by
  constructor
  · exact hq.busy_not_idle
  · exact hq.busy_nodup
  · exact hq.busy_pool
  · intro P hP
    obtain ⟨m1, m2, m3, m4, m5, m6⟩ := hq.mgr P hP
    refine ⟨m1, m2, m3, ?_, m5, m6⟩
    show Function.update v.link k link_state.cull_list (v.manager P) = _
    have e : v.manager P ≠ k := by
      intro e
      rw [e, hi] at m2
      exact absurd m2 (by simp)
    rw [Function.update_noteq e]
    exact m4
  · intro x hx
    have hx2 : Function.update v.die k true x = true := hx
    by_cases e : x = k
    · rw [e]; exact hi
    · rw [Function.update_noteq e] at hx2
      exact hq.die_idle x hx2
  · exact hq.resc_not_idle

theorem InvQ_mark (v : PoolView) (Q : Nat) (hq : InvQ v) : InvQ (v.mark Q) := by
  constructor
  · exact hq.busy_not_idle
  · exact hq.busy_nodup
  · exact hq.busy_pool
  · intro P hP
    obtain ⟨m1, m2, m3, m4, m5, m6⟩ := hq.mgr P hP
    refine ⟨?_, m2, m3, m4, m5, m6⟩
    show Function.update v.mgr_active Q true P = true
    by_cases e : P = Q
    · rw [e, Function.update_same]
    · rw [Function.update_noteq e]; exact m1
  · exact hq.die_idle
  · exact hq.resc_not_idle

/-- An idle worker is hashed on no pool and manages no pool. -/
theorem InvQ.idle_free {v : PoolView} (hq : InvQ v) (k : Nat) (hi : v.idle k = true) :
    (∀ P, k ∉ v.busy P) ∧ (∀ P, v.manager P ≠ 0 → v.manager P ≠ k) := by
  constructor
  · intro P hx
    have := hq.busy_not_idle P k hx
    rw [hi] at this
    exact absurd this (by simp)
  · intro P hP e
    have := (hq.mgr P hP).2.1
    rw [e, hi] at this
    exact absurd this (by simp)

/-- A rescuer manages no pool. -/
theorem InvQ.rescuer_free {v : PoolView} (hq : InvQ v) (k : Nat) (hr : v.rescuer k = true) :
    ∀ P, v.manager P ≠ 0 → v.manager P ≠ k := by
  intro P hP e
  have := (hq.mgr P hP).2.2.1
  rw [e, hr] at this
  exact absurd this (by simp)

/-- A worker that is not hashed on its own pool is hashed on no pool. -/
theorem InvQ.not_busy {v : PoolView} (hq : InvQ v) (k : Nat) (hb : k ∉ v.busy (v.wpool k)) :
    ∀ P, k ∉ v.busy P := by
  intro P hx
  have := hq.busy_pool P k hx
  rw [← this] at hx
  exact hb hx

/-! ## The view after the functions of the worker management -/

theorem bit_or (f m i : Nat) :
    decide ((f ||| m) &&& (1 <<< i) ≠ 0) = (decide (f &&& (1 <<< i) ≠ 0) || m.testBit i) := by
  rw [Bool.eq_iff_iff]
  simp only [decide_eq_true_eq, Bool.or_eq_true]
  rw [and_bit_ne_zero, and_bit_ne_zero, Nat.testBit_or, Bool.or_eq_true]

theorem bit_andn (f m i : Nat) (hi : i < 64) :
    decide ((f &&& ulong_not m) &&& (1 <<< i) ≠ 0) =
      (decide (f &&& (1 <<< i) ≠ 0) && !m.testBit i) := by
  rw [Bool.eq_iff_iff]
  simp only [decide_eq_true_eq, Bool.and_eq_true]
  rw [and_bit_ne_zero, and_bit_ne_zero, Nat.testBit_and, testBit_ulong_not, Bool.and_eq_true]
  simp [hi]

/-- The decoded flags after the flag word of the worker `k` is replaced by `f`. -/
theorem flags_update (g : Nat → Nat) (k f i : Nat) :
    (fun x => decide (Function.update g k f x &&& (1 <<< i) ≠ 0)) =
      Function.update (fun x => decide (g x &&& (1 <<< i) ≠ 0)) k
        (decide (f &&& (1 <<< i) ≠ 0)) :=
  bit_update g k f (1 <<< i)

/-- The flags `WORKER_IDLE` and `WORKER_DIE` do not change when only other bits of the
flag word of `k` change. -/
theorem flags_update_same (g : Nat → Nat) (k f i : Nat)
    (h : decide (f &&& (1 <<< i) ≠ 0) = decide (g k &&& (1 <<< i) ≠ 0)) :
    (fun x => decide (Function.update g k f x &&& (1 <<< i) ≠ 0)) =
      (fun x => decide (g x &&& (1 <<< i) ≠ 0)) := by
  rw [flags_update, h]
  exact Function.update_eq_self k _

theorem pview_of_fields (s2 : State) (v : PoolView)
    (h1 : s2.pool_nr_workers = v.nr_workers) (h2 : s2.pool_nr_idle = v.nr_idle)
    (h3 : s2.pool_busy_hash = v.busy)
    (h4 : (fun P => decide (s2.pool_flags P &&& (1 <<< 0) ≠ 0)) = v.mgr_active)
    (h5 : s2.pool_manager = v.manager)
    (h6 : (fun k => decide (s2.worker_flags k &&& (1 <<< 2) ≠ 0)) = v.idle)
    (h7 : (fun k => decide (s2.worker_flags k &&& (1 <<< 1) ≠ 0)) = v.die)
    (h8 : s2.worker_pool = v.wpool)
    (h9 : (fun k => decide (s2.worker_rescue_wq k ≠ 0)) = v.rescuer)
    (h10 : s2.worker_link = v.link) : pview s2 = v :=
  PoolView.ext h1 h2 h3 h4 h5 h6 h7 h8 h9 h10

theorem worker_clr_flags_flags (s : State) (k f : Nat) :
    (worker_clr_flags s k f).worker_flags =
      Function.update s.worker_flags k (s.worker_flags k &&& ulong_not f) := by
  unfold worker_clr_flags
  simp only []
  split_ifs <;> simp [State.worker_flags]

theorem worker_set_flags_flags (s : State) (k f : Nat) :
    (worker_set_flags s k f).worker_flags =
      Function.update s.worker_flags k (s.worker_flags k ||| f) := by
  unfold worker_set_flags
  simp only []
  split_ifs <;> simp [State.worker_flags]

theorem worker_leave_idle_frame (s : State) (k : Nat) (g : Field)
    (h1 : g ≠ .worker_flags) (h2 : g ≠ .pool_nr_running) (h3 : g ≠ .pool_nr_idle)
    (h4 : g ≠ .pool_idle_list) (h5 : g ≠ .worker_link) : worker_leave_idle s k g = s g := by
  unfold worker_leave_idle
  simp only []
  split_ifs <;> simp [h1, h2, h3, h4, h5]

theorem worker_leave_idle_fields (s : State) (k : Nat)
    (hi : s.worker_flags k &&& WORKER_IDLE ≠ 0) :
    (worker_leave_idle s k).worker_flags =
      Function.update s.worker_flags k (s.worker_flags k &&& ulong_not WORKER_IDLE) ∧
    (worker_leave_idle s k).pool_nr_idle =
      Function.update s.pool_nr_idle (s.worker_pool k) (s.pool_nr_idle (s.worker_pool k) - 1) ∧
    (worker_leave_idle s k).worker_link =
      Function.update s.worker_link k link_state.unlinked := by
  have hf := worker_clr_flags_flags s k WORKER_IDLE
  refine ⟨?_, ?_, ?_⟩
  · rw [← hf]
    simp [worker_leave_idle, hi, State.worker_flags]
  · simp [worker_leave_idle, hi, State.pool_nr_idle, State.worker_pool]
  · simp [worker_leave_idle, hi, State.worker_link]

theorem pview_worker_leave_idle (s : State) (k : Nat)
    (hi : s.worker_flags k &&& WORKER_IDLE ≠ 0) :
    pview (worker_leave_idle s k) = (pview s).leave k := by
  obtain ⟨f1, f2, f3⟩ := worker_leave_idle_fields s k hi
  have fr := worker_leave_idle_frame s k
  apply pview_of_fields
  · exact fr .pool_nr_workers (by simp) (by simp) (by simp) (by simp) (by simp)
  · exact f2
  · exact fr .pool_busy_hash (by simp) (by simp) (by simp) (by simp) (by simp)
  · rw [show (worker_leave_idle s k).pool_flags = s.pool_flags from
      fr .pool_flags (by simp) (by simp) (by simp) (by simp) (by simp)]
    rfl
  · exact fr .pool_manager (by simp) (by simp) (by simp) (by simp) (by simp)
  · rw [f1, flags_update, bit_andn _ _ _ (by decide)]
    have : (WORKER_IDLE).testBit 2 = true := by decide
    rw [this]
    simp only [Bool.not_true, Bool.and_false]
    rfl
  · rw [f1]
    apply flags_update_same
    rw [bit_andn _ _ _ (by decide)]
    have : (WORKER_IDLE).testBit 1 = false := by decide
    rw [this]
    simp
  · exact fr .worker_pool (by simp) (by simp) (by simp) (by simp) (by simp)
  · rw [show (worker_leave_idle s k).worker_rescue_wq = s.worker_rescue_wq from
      fr .worker_rescue_wq (by simp) (by simp) (by simp) (by simp) (by simp)]
    rfl
  · exact f3

theorem worker_enter_idle_frame (s : State) (k : Nat) (g : Field)
    (h1 : g ≠ .worker_flags) (h2 : g ≠ .pool_nr_idle) (h3 : g ≠ .worker_last_active)
    (h4 : g ≠ .pool_idle_list) (h5 : g ≠ .worker_link) (h6 : g ≠ .pool_idle_timer_pending)
    (h7 : g ≠ .pool_idle_timer_expires) : worker_enter_idle s k g = s g := by
  unfold worker_enter_idle
  simp only []
  split_ifs <;> simp [h1, h2, h3, h4, h5, h6, h7]

theorem worker_enter_idle_fields (s : State) (k : Nat)
    (hi : s.worker_flags k &&& WORKER_IDLE = 0) (hl : s.worker_link k = link_state.unlinked) :
    (worker_enter_idle s k).worker_flags =
      Function.update s.worker_flags k (s.worker_flags k ||| WORKER_IDLE) ∧
    (worker_enter_idle s k).pool_nr_idle =
      Function.update s.pool_nr_idle (s.worker_pool k) (s.pool_nr_idle (s.worker_pool k) + 1) ∧
    (worker_enter_idle s k).worker_link =
      Function.update s.worker_link k link_state.idle_list := by
  have hc : ¬ (s.worker_flags k &&& WORKER_IDLE ≠ 0 ∨
      s.worker_link k ≠ link_state.unlinked) := by
    rw [hi, hl]; simp
  refine ⟨?_, ?_, ?_⟩
  · unfold worker_enter_idle
    simp only []
    rw [if_neg hc]
    split_ifs <;> simp [State.worker_flags]
  · unfold worker_enter_idle
    simp only []
    rw [if_neg hc]
    split_ifs <;> simp [State.pool_nr_idle, State.worker_pool]
  · unfold worker_enter_idle
    simp only []
    rw [if_neg hc]
    split_ifs <;> simp [State.worker_link]

theorem pview_worker_enter_idle (s : State) (k : Nat)
    (hi : s.worker_flags k &&& WORKER_IDLE = 0) (hl : s.worker_link k = link_state.unlinked) :
    pview (worker_enter_idle s k) = (pview s).enter k := by
  obtain ⟨f1, f2, f3⟩ := worker_enter_idle_fields s k hi hl
  have fr := worker_enter_idle_frame s k
  apply pview_of_fields
  · exact fr .pool_nr_workers (by simp) (by simp) (by simp) (by simp) (by simp) (by simp)
      (by simp)
  · exact f2
  · exact fr .pool_busy_hash (by simp) (by simp) (by simp) (by simp) (by simp) (by simp)
      (by simp)
  · rw [show (worker_enter_idle s k).pool_flags = s.pool_flags from
      fr .pool_flags (by simp) (by simp) (by simp) (by simp) (by simp) (by simp) (by simp)]
    rfl
  · exact fr .pool_manager (by simp) (by simp) (by simp) (by simp) (by simp) (by simp)
      (by simp)
  · rw [f1, flags_update, bit_or]
    have : (WORKER_IDLE).testBit 2 = true := by decide
    rw [this]
    simp only [Bool.or_true]
    rfl
  · rw [f1]
    apply flags_update_same
    rw [bit_or]
    have : (WORKER_IDLE).testBit 1 = false := by decide
    rw [this]
    simp
  · exact fr .worker_pool (by simp) (by simp) (by simp) (by simp) (by simp) (by simp) (by simp)
  · rw [show (worker_enter_idle s k).worker_rescue_wq = s.worker_rescue_wq from
      fr .worker_rescue_wq (by simp) (by simp) (by simp) (by simp) (by simp) (by simp)
        (by simp)]
    rfl
  · exact f3

/-- The view after a flag word changed in bits other than `WORKER_IDLE`, `WORKER_DIE`. -/
theorem pview_flags_other (s s2 : State) (k f : Nat)
    (hfr : ∀ g, g ≠ .worker_flags → g ≠ .pool_nr_running → s2 g = s g)
    (hf : s2.worker_flags = Function.update s.worker_flags k f)
    (h2 : decide (f &&& (1 <<< 2) ≠ 0) = decide (s.worker_flags k &&& (1 <<< 2) ≠ 0))
    (h1 : decide (f &&& (1 <<< 1) ≠ 0) = decide (s.worker_flags k &&& (1 <<< 1) ≠ 0)) :
    pview s2 = pview s := by
  apply pview_of_fields
  · exact hfr .pool_nr_workers (by simp) (by simp)
  · exact hfr .pool_nr_idle (by simp) (by simp)
  · exact hfr .pool_busy_hash (by simp) (by simp)
  · rw [show s2.pool_flags = s.pool_flags from hfr .pool_flags (by simp) (by simp)]
    rfl
  · exact hfr .pool_manager (by simp) (by simp)
  · rw [hf]
    exact flags_update_same _ _ _ _ h2
  · rw [hf]
    exact flags_update_same _ _ _ _ h1
  · exact hfr .worker_pool (by simp) (by simp)
  · rw [show s2.worker_rescue_wq = s.worker_rescue_wq from
      hfr .worker_rescue_wq (by simp) (by simp)]
    rfl
  · exact hfr .worker_link (by simp) (by simp)

theorem pview_worker_set_flags (s : State) (k f : Nat) (h2 : f.testBit 2 = false)
    (h1 : f.testBit 1 = false) : pview (worker_set_flags s k f) = pview s := by
  refine pview_flags_other s _ k _ ?_ (worker_set_flags_flags s k f) ?_ ?_
  · intro g g1 g2
    exact worker_set_flags_frame s k f g g2 g1
  · rw [bit_or, h2]; simp
  · rw [bit_or, h1]; simp

theorem pview_worker_clr_flags (s : State) (k f : Nat) (h2 : f.testBit 2 = false)
    (h1 : f.testBit 1 = false) : pview (worker_clr_flags s k f) = pview s := by
  refine pview_flags_other s _ k _ ?_ (worker_clr_flags_flags s k f) ?_ ?_
  · intro g g1 g2
    exact worker_clr_flags_frame s k f g g2 g1
  · rw [bit_andn _ _ _ (by decide), h2]; simp
  · rw [bit_andn _ _ _ (by decide), h1]; simp

/-- The view depends on the fields of the worker accounting only. -/
theorem pview_congr (s s2 : State)
    (h : ∀ g, g = .pool_nr_workers ∨ g = .pool_nr_idle ∨ g = .pool_busy_hash ∨
      g = .pool_flags ∨ g = .pool_manager ∨ g = .worker_flags ∨ g = .worker_pool ∨
      g = .worker_rescue_wq ∨ g = .worker_link → s2 g = s g) : pview s2 = pview s := by
  have h1 := h .pool_nr_workers (by simp)
  have h2 := h .pool_nr_idle (by simp)
  have h3 := h .pool_busy_hash (by simp)
  have h4 := h .pool_flags (by simp)
  have h5 := h .pool_manager (by simp)
  have h6 := h .worker_flags (by simp)
  have h7 := h .worker_pool (by simp)
  have h8 := h .worker_rescue_wq (by simp)
  have h9 := h .worker_link (by simp)
  unfold pview
  simp only [State.pool_nr_workers, State.pool_nr_idle, State.pool_busy_hash, State.pool_flags,
    State.pool_manager, State.worker_flags, State.worker_pool, State.worker_rescue_wq,
    State.worker_link, h1, h2, h3, h4, h5, h6, h7, h8, h9]

theorem process_one_work_begin_pool_fields (s : State) (k w : Nat) :
    (process_one_work_begin s k w).pool_busy_hash = Function.update s.pool_busy_hash
      (s.worker_pool k) (k :: s.pool_busy_hash (s.worker_pool k)) ∧
    (process_one_work_begin s k w).worker_link =
      Function.update s.worker_link k link_state.busy_hash ∧
    ((process_one_work_begin s k w).worker_flags = s.worker_flags ∨
      (process_one_work_begin s k w).worker_flags =
        Function.update s.worker_flags k (s.worker_flags k ||| WORKER_CPU_INTENSIVE)) := by
  refine ⟨?_, ?_, ?_⟩
  · unfold process_one_work_begin
    simp only []
    split_ifs <;>
      simp [State.pool_busy_hash, list_del_init, set_work_pool_and_clear_pending,
        State.worker_pool]
  · unfold process_one_work_begin
    simp only []
    split_ifs <;>
      simp [State.worker_link, list_del_init, set_work_pool_and_clear_pending]
  · have e : ∀ (u : State) (P x : Nat) (id : Int) (p : Nat) (v : Nat → Nat → Nat),
        ((set_work_pool_and_clear_pending (kick_pool u P).2 x id).set .pwq_stats v).worker_flags =
          u.worker_flags := by
      intro u P x id p v
      simp [State.worker_flags, set_work_pool_and_clear_pending]
    have e3 : ∀ (u : State), (list_del_init u w).worker_flags = u.worker_flags := by
      intro u
      simp [State.worker_flags, list_del_init]
    unfold process_one_work_begin
    simp only []
    split_ifs
    · right
      rw [e _ _ _ _ 0, worker_set_flags_flags, e3]
      rfl
    · left
      rw [e _ _ _ _ 0, e3]
      rfl

theorem pview_process_one_work_begin (s : State) (k w : Nat) :
    pview (process_one_work_begin s k w) = (pview s).start k := by
  obtain ⟨f1, f2, f3⟩ := process_one_work_begin_pool_fields s k w
  have fr : ∀ g, g ≠ .pool_busy_hash → g ≠ .worker_link → g ≠ .worker_current_work →
      g ≠ .worker_current_func → g ≠ .worker_current_pwq → g ≠ .worker_current_color →
      g ≠ .worker_frame_pwq → g ≠ .worker_frame_work_data → g ≠ .lists → g ≠ .work_entry →
      g ≠ .pool_nr_running → g ≠ .worker_flags → g ≠ .worker_task_state →
      g ≠ .worker_task_wake_cpu → g ≠ .pwq_stats → g ≠ .work_data →
      process_one_work_begin s k w g = s g := process_one_work_begin_frame s k w
  have hfl : ∀ i, i = 1 ∨ i = 2 →
      (fun x => decide ((process_one_work_begin s k w).worker_flags x &&& (1 <<< i) ≠ 0)) =
        (fun x => decide (s.worker_flags x &&& (1 <<< i) ≠ 0)) := by
    intro i hi
    rcases f3 with f3 | f3
    · rw [f3]
    · rw [f3]
      apply flags_update_same
      rw [bit_or]
      have : (WORKER_CPU_INTENSIVE).testBit i = false := by
        rcases hi with hi | hi <;> subst hi <;> decide
      rw [this]
      simp
  apply pview_of_fields
  · exact fr .pool_nr_workers (by simp) (by simp) (by simp) (by simp) (by simp) (by simp)
      (by simp) (by simp) (by simp) (by simp) (by simp) (by simp) (by simp) (by simp) (by simp)
      (by simp)
  · exact fr .pool_nr_idle (by simp) (by simp) (by simp) (by simp) (by simp) (by simp)
      (by simp) (by simp) (by simp) (by simp) (by simp) (by simp) (by simp) (by simp) (by simp)
      (by simp)
  · exact f1
  · rw [show (process_one_work_begin s k w).pool_flags = s.pool_flags from
      fr .pool_flags (by simp) (by simp) (by simp) (by simp) (by simp) (by simp)
      (by simp) (by simp) (by simp) (by simp) (by simp) (by simp) (by simp) (by simp) (by simp)
      (by simp)]
    rfl
  · exact fr .pool_manager (by simp) (by simp) (by simp) (by simp) (by simp) (by simp)
      (by simp) (by simp) (by simp) (by simp) (by simp) (by simp) (by simp) (by simp) (by simp)
      (by simp)
  · exact hfl 2 (Or.inr rfl)
  · exact hfl 1 (Or.inl rfl)
  · exact fr .worker_pool (by simp) (by simp) (by simp) (by simp) (by simp) (by simp)
      (by simp) (by simp) (by simp) (by simp) (by simp) (by simp) (by simp) (by simp) (by simp)
      (by simp)
  · rw [show (process_one_work_begin s k w).worker_rescue_wq = s.worker_rescue_wq from
      fr .worker_rescue_wq (by simp) (by simp) (by simp) (by simp) (by simp) (by simp)
      (by simp) (by simp) (by simp) (by simp) (by simp) (by simp) (by simp) (by simp) (by simp)
      (by simp)]
    rfl
  · exact f2

theorem process_one_work_end_pool_fields (s : State) (k : Nat) :
    (process_one_work_end s k).pool_busy_hash = Function.update s.pool_busy_hash
      (s.worker_pool k) ((s.pool_busy_hash (s.worker_pool k)).erase k) ∧
    (process_one_work_end s k).worker_link =
      Function.update s.worker_link k link_state.unlinked ∧
    (process_one_work_end s k).worker_flags =
      Function.update s.worker_flags k (s.worker_flags k &&& ulong_not WORKER_CPU_INTENSIVE) := by
  have e : ∀ (u : State) (p d : Nat) (g : Field), g ≠ .pool_watchdog_ts → g ≠ .lists →
      g ≠ .work_entry → g ≠ .work_data → g ≠ .pwq_nr_active → g ≠ .pwq_nr_in_flight →
      g ≠ .pwq_flush_color → g ≠ .wq_nr_pwqs_to_flush → g ≠ .flusher_done → g ≠ .pwq_refcnt →
      g ≠ .pwq_release_work → pwq_dec_nr_in_flight u p d g = u g := pwq_dec_nr_in_flight_frame
  have c1 : ∀ (u : State) (f : Nat), (worker_clr_flags u k f).pool_busy_hash = u.pool_busy_hash :=
    fun u f => worker_clr_flags_frame u k f .pool_busy_hash (by simp) (by simp)
  have c2 : ∀ (u : State) (f : Nat), (worker_clr_flags u k f).worker_link = u.worker_link :=
    fun u f => worker_clr_flags_frame u k f .worker_link (by simp) (by simp)
  have c3 : ∀ (u : State) (f : Nat), (worker_clr_flags u k f).worker_pool = u.worker_pool :=
    fun u f => worker_clr_flags_frame u k f .worker_pool (by simp) (by simp)
  refine ⟨?_, ?_, ?_⟩
  · unfold process_one_work_end
    simp only []
    rw [show ∀ u p d, (pwq_dec_nr_in_flight u p d).pool_busy_hash = u.pool_busy_hash from
      fun u p d => e u p d .pool_busy_hash (by simp) (by simp) (by simp) (by simp) (by simp)
        (by simp) (by simp) (by simp) (by simp) (by simp) (by simp)]
    simp only [State.pool_busy_hash, State.set_same, State.set_other, ne_eq, reduceCtorEq,
      not_false_eq_true]
    have := c1 (s.set .pwq_stats (Function.update s.pwq_stats (s.worker_frame_pwq k)
      (Function.update (s.pwq_stats (s.worker_frame_pwq k)) PWQ_STAT_COMPLETED
        (s.pwq_stats (s.worker_frame_pwq k) PWQ_STAT_COMPLETED + 1)))) WORKER_CPU_INTENSIVE
    simp only [State.pool_busy_hash, State.set_other, ne_eq, reduceCtorEq,
      not_false_eq_true] at this
    rw [this]
  · unfold process_one_work_end
    simp only []
    rw [show ∀ u p d, (pwq_dec_nr_in_flight u p d).worker_link = u.worker_link from
      fun u p d => e u p d .worker_link (by simp) (by simp) (by simp) (by simp) (by simp)
        (by simp) (by simp) (by simp) (by simp) (by simp) (by simp)]
    simp only [State.worker_link, State.set_same, State.set_other, ne_eq, reduceCtorEq,
      not_false_eq_true]
    have := c2 (s.set .pwq_stats (Function.update s.pwq_stats (s.worker_frame_pwq k)
      (Function.update (s.pwq_stats (s.worker_frame_pwq k)) PWQ_STAT_COMPLETED
        (s.pwq_stats (s.worker_frame_pwq k) PWQ_STAT_COMPLETED + 1)))) WORKER_CPU_INTENSIVE
    simp only [State.worker_link, State.set_other, ne_eq, reduceCtorEq,
      not_false_eq_true] at this
    rw [this]
  · unfold process_one_work_end
    simp only []
    rw [show ∀ u p d, (pwq_dec_nr_in_flight u p d).worker_flags = u.worker_flags from
      fun u p d => e u p d .worker_flags (by simp) (by simp) (by simp) (by simp) (by simp)
        (by simp) (by simp) (by simp) (by simp) (by simp) (by simp)]
    have := worker_clr_flags_flags (s.set .pwq_stats (Function.update s.pwq_stats
      (s.worker_frame_pwq k) (Function.update (s.pwq_stats (s.worker_frame_pwq k))
        PWQ_STAT_COMPLETED (s.pwq_stats (s.worker_frame_pwq k) PWQ_STAT_COMPLETED + 1))))
      k WORKER_CPU_INTENSIVE
    simp only [State.worker_flags, State.set_same, State.set_other, ne_eq, reduceCtorEq,
      not_false_eq_true] at this ⊢
    rw [this]

theorem pview_process_one_work_end (s : State) (k : Nat) :
    pview (process_one_work_end s k) = (pview s).finish k := by
  obtain ⟨f1, f2, f3⟩ := process_one_work_end_pool_fields s k
  have fr : ∀ g, g ≠ .pool_busy_hash → g ≠ .worker_link → g ≠ .worker_current_work →
      g ≠ .worker_current_func → g ≠ .worker_current_pwq → g ≠ .worker_current_color →
      g ≠ .worker_last_func → g ≠ .pwq_stats → g ≠ .pool_nr_running → g ≠ .worker_flags →
      g ≠ .pool_watchdog_ts → g ≠ .lists → g ≠ .work_entry → g ≠ .work_data →
      g ≠ .pwq_nr_active → g ≠ .pwq_nr_in_flight → g ≠ .pwq_flush_color →
      g ≠ .wq_nr_pwqs_to_flush → g ≠ .flusher_done → g ≠ .pwq_refcnt →
      g ≠ .pwq_release_work → process_one_work_end s k g = s g := process_one_work_end_frame s k
  apply pview_of_fields
  · exact fr .pool_nr_workers (by simp) (by simp) (by simp) (by simp) (by simp) (by simp)
      (by simp) (by simp) (by simp) (by simp) (by simp) (by simp) (by simp) (by simp) (by simp)
      (by simp) (by simp) (by simp) (by simp) (by simp) (by simp)
  · exact fr .pool_nr_idle (by simp) (by simp) (by simp) (by simp) (by simp) (by simp)
      (by simp) (by simp) (by simp) (by simp) (by simp) (by simp) (by simp) (by simp) (by simp)
      (by simp) (by simp) (by simp) (by simp) (by simp) (by simp)
  · exact f1
  · rw [show (process_one_work_end s k).pool_flags = s.pool_flags from
      fr .pool_flags (by simp) (by simp) (by simp) (by simp) (by simp) (by simp)
      (by simp) (by simp) (by simp) (by simp) (by simp) (by simp) (by simp) (by simp) (by simp)
      (by simp) (by simp) (by simp) (by simp) (by simp) (by simp)]
    rfl
  · exact fr .pool_manager (by simp) (by simp) (by simp) (by simp) (by simp) (by simp)
      (by simp) (by simp) (by simp) (by simp) (by simp) (by simp) (by simp) (by simp) (by simp)
      (by simp) (by simp) (by simp) (by simp) (by simp) (by simp)
  · rw [f3]
    apply flags_update_same
    rw [bit_andn _ _ _ (by decide)]
    have : (WORKER_CPU_INTENSIVE).testBit 2 = false := by decide
    rw [this]
    simp
  · rw [f3]
    apply flags_update_same
    rw [bit_andn _ _ _ (by decide)]
    have : (WORKER_CPU_INTENSIVE).testBit 1 = false := by decide
    rw [this]
    simp
  · exact fr .worker_pool (by simp) (by simp) (by simp) (by simp) (by simp) (by simp)
      (by simp) (by simp) (by simp) (by simp) (by simp) (by simp) (by simp) (by simp) (by simp)
      (by simp) (by simp) (by simp) (by simp) (by simp) (by simp)
  · rw [show (process_one_work_end s k).worker_rescue_wq = s.worker_rescue_wq from
      fr .worker_rescue_wq (by simp) (by simp) (by simp) (by simp) (by simp) (by simp)
      (by simp) (by simp) (by simp) (by simp) (by simp) (by simp) (by simp) (by simp) (by simp)
      (by simp) (by simp) (by simp) (by simp) (by simp) (by simp)]
    rfl
  · exact f2

theorem pview_manage_workers_begin (s : State) (k : Nat)
    (h : (manage_workers_begin s k).1 = true) :
    pview (manage_workers_begin s k).2 = (pview s).manage_begin k ∧
    s.pool_flags (s.worker_pool k) &&& POOL_MANAGER_ACTIVE = 0 := by
  unfold manage_workers_begin at h ⊢
  simp only [] at h ⊢
  by_cases hc : s.pool_flags (s.worker_pool k) &&& POOL_MANAGER_ACTIVE ≠ 0
  · rw [if_pos hc] at h
    simp at h
  · rw [if_neg hc]
    refine ⟨?_, not_not.1 hc⟩
    apply pview_of_fields
    · rfl
    · rfl
    · rfl
    · show (fun P => decide (Function.update s.pool_flags (s.worker_pool k)
        (s.pool_flags (s.worker_pool k) ||| POOL_MANAGER_ACTIVE) P &&& (1 <<< 0) ≠ 0)) = _
      rw [flags_update, bit_or]
      have : (POOL_MANAGER_ACTIVE).testBit 0 = true := by decide
      rw [this]
      simp only [Bool.or_true]
      rfl
    · rfl
    · rfl
    · rfl
    · rfl
    · rfl
    · rfl

theorem pview_manage_workers_end (s : State) (k : Nat) :
    pview (manage_workers_end s k) = (pview s).manage_end k := by
  apply pview_of_fields
  · rfl
  · rfl
  · rfl
  · show (fun P => decide (Function.update s.pool_flags (s.worker_pool k)
      (s.pool_flags (s.worker_pool k) &&& ulong_not POOL_MANAGER_ACTIVE) P &&& (1 <<< 0) ≠ 0)) = _
    rw [flags_update, bit_andn _ _ _ (by decide)]
    have : (POOL_MANAGER_ACTIVE).testBit 0 = true := by decide
    rw [this]
    simp only [Bool.not_true, Bool.and_false]
    rfl
  · rfl
  · rfl
  · rfl
  · rfl
  · rfl
  · rfl

theorem pview_worker_attach_to_pool (s : State) (k P : Nat) :
    pview (worker_attach_to_pool s k P) = (pview s).attach k P := by
  have hf : (worker_attach_to_pool s k P).worker_flags = s.worker_flags ∨
      (worker_attach_to_pool s k P).worker_flags =
        Function.update s.worker_flags k (s.worker_flags k ||| WORKER_UNBOUND) := by
    unfold worker_attach_to_pool
    split_ifs
    · right; rfl
    · left; rfl
  have hfl : ∀ i, i = 1 ∨ i = 2 →
      (fun x => decide ((worker_attach_to_pool s k P).worker_flags x &&& (1 <<< i) ≠ 0)) =
        (fun x => decide (s.worker_flags x &&& (1 <<< i) ≠ 0)) := by
    intro i hi
    rcases hf with f3 | f3
    · rw [f3]
    · rw [f3]
      apply flags_update_same
      rw [bit_or]
      have : (WORKER_UNBOUND).testBit i = false := by
        rcases hi with hi | hi <;> subst hi <;> decide
      rw [this]
      simp
  have fr : ∀ g, g ≠ .worker_flags → g ≠ .pool_workers → g ≠ .worker_pool →
      worker_attach_to_pool s k P g = s g := by
    intro g g1 g2 g3
    unfold worker_attach_to_pool
    split_ifs <;> simp [g1, g2, g3]
  apply pview_of_fields
  · exact fr .pool_nr_workers (by simp) (by simp) (by simp)
  · exact fr .pool_nr_idle (by simp) (by simp) (by simp)
  · exact fr .pool_busy_hash (by simp) (by simp) (by simp)
  · rw [show (worker_attach_to_pool s k P).pool_flags = s.pool_flags from
      fr .pool_flags (by simp) (by simp) (by simp)]
    rfl
  · exact fr .pool_manager (by simp) (by simp) (by simp)
  · exact hfl 2 (Or.inr rfl)
  · exact hfl 1 (Or.inl rfl)
  · unfold worker_attach_to_pool
    split_ifs <;> simp [State.worker_pool] <;> rfl
  · rw [show (worker_attach_to_pool s k P).worker_rescue_wq = s.worker_rescue_wq from
      fr .worker_rescue_wq (by simp) (by simp) (by simp)]
    rfl
  · exact fr .worker_link (by simp) (by simp) (by simp)

theorem pview_worker_detach_from_pool (s : State) (k : Nat) :
    pview (worker_detach_from_pool s k) = (pview s).attach k 0 := by
  have hfl : ∀ i, i = 1 ∨ i = 2 →
      (fun x => decide ((worker_detach_from_pool s k).worker_flags x &&& (1 <<< i) ≠ 0)) =
        (fun x => decide (s.worker_flags x &&& (1 <<< i) ≠ 0)) := by
    intro i hi
    show (fun x => decide (Function.update s.worker_flags k
      (s.worker_flags k &&& ulong_not (WORKER_UNBOUND ||| WORKER_REBOUND)) x &&& (1 <<< i) ≠ 0)) = _
    apply flags_update_same
    rw [bit_andn _ _ _ (by rcases hi with hi | hi <;> subst hi <;> decide)]
    have : (WORKER_UNBOUND ||| WORKER_REBOUND).testBit i = false := by
      rcases hi with hi | hi <;> subst hi <;> decide
    rw [this, Bool.not_false, Bool.and_true]
  apply pview_of_fields
  · rfl
  · rfl
  · rfl
  · rfl
  · rfl
  · exact hfl 2 (Or.inr rfl)
  · exact hfl 1 (Or.inl rfl)
  · rfl
  · rfl
  · rfl

theorem pview_worker_enter_idle_of_view (u : State) (k : Nat) (hi : (pview u).idle k = false)
    (hl : (pview u).link k = link_state.unlinked) :
    pview (worker_enter_idle u k) = (pview u).enter k :=
  pview_worker_enter_idle u k (not_not.1 (of_decide_eq_false hi)) hl

theorem pview_worker_leave_idle_of_view (s : State) (k : Nat) (hi : (pview s).idle k = true) :
    pview (worker_leave_idle s k) = (pview s).leave k :=
  pview_worker_leave_idle s k (of_decide_eq_true hi)

theorem rescuer_update (g : Nat → Nat) (k : Nat) :
    (fun x => decide (Function.update g k 0 x ≠ 0)) =
      Function.update (fun x => decide (g x ≠ 0)) k false := by
  funext y
  by_cases h : y = k
  · subst h; simp
  · simp [h]

theorem pview_alloc_worker (s : State) (k : Nat) :
    pview (alloc_worker s k) = (pview s).alloc k := by
  apply pview_of_fields
  · rfl
  · rfl
  · rfl
  · rfl
  · rfl
  · show (fun x => decide (Function.update s.worker_flags k WORKER_PREP x &&& (1 <<< 2) ≠ 0)) = _
    rw [flags_update]
    rfl
  · show (fun x => decide (Function.update s.worker_flags k WORKER_PREP x &&& (1 <<< 1) ≠ 0)) = _
    rw [flags_update]
    rfl
  · rfl
  · show (fun x => decide (Function.update s.worker_rescue_wq k 0 x ≠ 0)) = _
    rw [rescuer_update]
    rfl
  · rfl

theorem pview_set_nr_workers (s : State) (v : Nat → Int) :
    pview (s.set .pool_nr_workers v) = { pview s with nr_workers := v } := rfl

theorem pview_create_worker (s : State) (P k : Nat) :
    pview (create_worker s P k) = ((((pview s).alloc k).attach k P).count P).enter k := by
  have e1 : pview (worker_attach_to_pool (alloc_worker s k) k P) =
      ((pview s).alloc k).attach k P := by
    rw [pview_worker_attach_to_pool, pview_alloc_worker]
  have hp : (worker_attach_to_pool (alloc_worker s k) k P).worker_pool k = P := by
    have := congrArg (fun v => v.wpool k) e1
    simp only [PoolView.attach, Function.update_same] at this
    exact this
  have e2 : pview ((worker_attach_to_pool (alloc_worker s k) k P).set .pool_nr_workers
      (Function.update (worker_attach_to_pool (alloc_worker s k) k P).pool_nr_workers
        ((worker_attach_to_pool (alloc_worker s k) k P).worker_pool k)
        ((worker_attach_to_pool (alloc_worker s k) k P).pool_nr_workers
          ((worker_attach_to_pool (alloc_worker s k) k P).worker_pool k) + 1))) =
      (((pview s).alloc k).attach k P).count P := by
    rw [pview_set_nr_workers, hp]
    have f1 : (worker_attach_to_pool (alloc_worker s k) k P).pool_nr_workers =
        (((pview s).alloc k).attach k P).nr_workers := congrArg PoolView.nr_workers e1
    rw [f1, e1]
    rfl
  unfold create_worker
  simp only []
  have hk : ∀ (u : State) (Q w : Nat), pview (wake_up_process (kick_pool u Q).2 w) = pview u := by
    intro u Q w
    apply pview_congr
    intro g hg
    have g1 : g ≠ .worker_task_state := by rcases hg with h | h | h | h | h | h | h | h | h <;> simp [h]
    have g2 : g ≠ .worker_task_wake_cpu := by rcases hg with h | h | h | h | h | h | h | h | h <;> simp [h]
    have g3 : g ≠ .pwq_stats := by rcases hg with h | h | h | h | h | h | h | h | h <;> simp [h]
    simp [wake_up_process, g1, g2, g3]
  rw [hk, pview_worker_enter_idle_of_view _ k (by rw [e2]; simp [PoolView.count, PoolView.attach, PoolView.alloc])
    (by rw [e2]; simp [PoolView.count, PoolView.attach, PoolView.alloc]), e2]

theorem pview_set_worker_dying (s : State) (k : Nat) :
    pview (set_worker_dying s k) = pview s ∨
    ((pview s).idle k = true ∧ pview (set_worker_dying s k) = (pview s).dying k) := by
  unfold set_worker_dying
  simp only []
  split_ifs with hc
  · left; rfl
  · right
    have hi : s.worker_flags k &&& WORKER_IDLE ≠ 0 := by
      intro h
      exact hc (Or.inr (Or.inr h))
    refine ⟨decide_eq_true hi, ?_⟩
    apply pview_of_fields
    · rfl
    · rfl
    · rfl
    · rfl
    · rfl
    · show (fun x => decide (Function.update s.worker_flags k (s.worker_flags k ||| WORKER_DIE) x
        &&& (1 <<< 2) ≠ 0)) = _
      apply flags_update_same
      rw [bit_or]
      have : (WORKER_DIE).testBit 2 = false := by decide
      rw [this, Bool.or_false]
    · show (fun x => decide (Function.update s.worker_flags k (s.worker_flags k ||| WORKER_DIE) x
        &&& (1 <<< 1) ≠ 0)) = _
      rw [flags_update, bit_or]
      have : (WORKER_DIE).testBit 1 = true := by decide
      rw [this, Bool.or_true]
      rfl
    · rfl
    · rfl
    · rfl

/-! ## The regions of the worker accounting preserve the invariant -/

theorem InvP.balance_zero {v : PoolView} (h : InvP v) (P : Nat) : v.balance P = 0 :=
  (balance_eq_zero_iff v P).2 (h.bal P)

theorem InvP_of_balance (v : PoolView) (hq : InvQ v) (hb : ∀ P, v.balance P = 0) : InvP v :=
  ⟨hq, fun P => (balance_eq_zero_iff v P).1 (hb P)⟩

/-- The manager of a pool is not hashed anywhere and manages no other pool. -/
theorem InvQ.manager_free {v : PoolView} (hq : InvQ v) (k : Nat) (hk : k ≠ 0)
    (hm : v.manager (v.wpool k) = k) :
    v.idle k = false ∧ v.rescuer k = false ∧ v.link k = link_state.unlinked ∧
    (∀ P, k ∉ v.busy P) ∧ (∀ P, P ≠ v.wpool k → v.manager P ≠ 0 → v.manager P ≠ k) := by
  have h0 : v.manager (v.wpool k) ≠ 0 := by rw [hm]; exact hk
  obtain ⟨_, m2, m3, m4, m5, _⟩ := hq.mgr _ h0
  rw [hm] at m2 m3 m4 m5
  refine ⟨m2, m3, m4, hq.not_busy k m5, ?_⟩
  intro P hP h1 e
  have := (hq.mgr P h1).2.2.2.2.2
  rw [e] at this
  exact hP this.symm

/-- A hashed worker manages no pool. -/
theorem InvQ.busy_free {v : PoolView} (hq : InvQ v) (k : Nat) (hb : k ∈ v.busy (v.wpool k)) :
    ∀ P, v.manager P ≠ 0 → v.manager P ≠ k := by
  intro P hP e
  obtain ⟨_, _, _, _, m5, m6⟩ := hq.mgr P hP
  rw [e] at m5 m6
  rw [m6] at hb
  exact m5 hb

theorem InvP_wake_sleep (v : PoolView) (k : Nat) (h : InvP v) (hi : v.idle k = true)
    (hd : v.die k = false) (hr : v.rescuer k = false) : InvP ((v.leave k).enter k) := by
  obtain ⟨f1, f2⟩ := h.q.idle_free k hi
  apply InvP_of_balance
  · exact InvQ_enter _ k (InvQ_leave v k h.q hd) f1 f2 hr
  · intro P
    rw [balance_enter, balance_leave, h.balance_zero]
    show (0 : Int) - (if P = v.wpool k then 1 else 0) + (if P = v.wpool k then 1 else 0) = 0
    omega

theorem InvP_wake_exec (v : PoolView) (k : Nat) (h : InvP v) (hi : v.idle k = true)
    (hd : v.die k = false) (hr : v.rescuer k = false) : InvP ((v.leave k).start k) := by
  obtain ⟨f1, f2⟩ := h.q.idle_free k hi
  apply InvP_of_balance
  · exact InvQ_start _ k (InvQ_leave v k h.q hd) (by simp [PoolView.leave]) (f1 _) f2
  · intro P
    rw [balance_start, balance_leave, h.balance_zero]
    show (0 : Int) - (if P = v.wpool k then 1 else 0) +
      (if P = v.wpool k ∧ v.rescuer k = false then 1 else 0) = 0
    rw [hr]
    simp

theorem InvP_wake_manage (v : PoolView) (k : Nat) (h : InvP v) (hk : k ≠ 0)
    (hi : v.idle k = true) (hd : v.die k = false) (hr : v.rescuer k = false)
    (hm : v.mgr_active (v.wpool k) = false) : InvP ((v.leave k).manage_begin k) := by
  obtain ⟨f1, f2⟩ := h.q.idle_free k hi
  have h0 : v.manager (v.wpool k) = 0 := by
    by_contra hne
    have := (h.q.mgr _ hne).1
    rw [hm] at this
    exact absurd this (by simp)
  apply InvP_of_balance
  · exact InvQ_manage_begin _ k (InvQ_leave v k h.q hd) (by simp [PoolView.leave]) hr
      (by simp [PoolView.leave]) (f1 _)
  · intro P
    rw [balance_manage_begin (v.leave k) k P h0 hk, balance_leave, h.balance_zero]
    show (0 : Int) - (if P = v.wpool k then 1 else 0) + (if P = v.wpool k then 1 else 0) = 0
    omega

theorem manage_end_manager (v : PoolView) (k : Nat) (hq : InvQ v) (hk : k ≠ 0)
    (hm : v.manager (v.wpool k) = k) :
    ∀ P, (v.manage_end k).manager P ≠ 0 → (v.manage_end k).manager P ≠ k := by
  obtain ⟨_, _, _, _, m5⟩ := hq.manager_free k hk hm
  intro P
  show Function.update v.manager (v.wpool k) 0 P ≠ 0 → Function.update v.manager (v.wpool k) 0 P ≠ k
  by_cases e : P = v.wpool k
  · rw [e, Function.update_same]
    exact fun h => absurd rfl h
  · rw [Function.update_noteq e]
    exact m5 P e

theorem InvP_manage_sleep (v : PoolView) (k : Nat) (h : InvP v) (hk : k ≠ 0)
    (hm : v.manager (v.wpool k) = k) : InvP ((v.manage_end k).enter k) := by
  obtain ⟨m1, m2, m3, m4, _⟩ := h.q.manager_free k hk hm
  apply InvP_of_balance
  · exact InvQ_enter _ k (InvQ_manage_end v k h.q) m4 (manage_end_manager v k h.q hk hm) m2
  · intro P
    rw [balance_enter, balance_manage_end _ k P (by rw [hm]; exact hk), h.balance_zero]
    show (0 : Int) - (if P = v.wpool k then 1 else 0) + (if P = v.wpool k then 1 else 0) = 0
    omega

theorem InvP_manage_exec (v : PoolView) (k : Nat) (h : InvP v) (hk : k ≠ 0)
    (hm : v.manager (v.wpool k) = k) : InvP ((v.manage_end k).start k) := by
  obtain ⟨m1, m2, m3, m4, _⟩ := h.q.manager_free k hk hm
  apply InvP_of_balance
  · exact InvQ_start _ k (InvQ_manage_end v k h.q) m1 (m4 _) (manage_end_manager v k h.q hk hm)
  · intro P
    rw [balance_start, balance_manage_end _ k P (by rw [hm]; exact hk), h.balance_zero]
    show (0 : Int) - (if P = v.wpool k then 1 else 0) +
      (if P = v.wpool k ∧ v.rescuer k = false then 1 else 0) = 0
    rw [m2]
    simp

theorem InvP_exec_exec (v : PoolView) (k : Nat) (h : InvP v) (hb : k ∈ v.busy (v.wpool k)) :
    InvP ((v.finish k).start k) := by
  apply InvP_of_balance
  · exact InvQ_start _ k (InvQ_finish v k h.q) (h.q.busy_not_idle _ k hb)
      (finish_not_busy v k h.q _) (h.q.busy_free k hb)
  · intro P
    rw [balance_start, balance_finish _ k P hb, h.balance_zero]
    show (0 : Int) - (if P = v.wpool k ∧ v.rescuer k = false then 1 else 0) +
      (if P = v.wpool k ∧ v.rescuer k = false then 1 else 0) = 0
    omega

theorem InvP_exec_sleep (v : PoolView) (k : Nat) (h : InvP v) (hr : v.rescuer k = false)
    (hb : k ∈ v.busy (v.wpool k)) : InvP ((v.finish k).enter k) := by
  apply InvP_of_balance
  · exact InvQ_enter _ k (InvQ_finish v k h.q) (finish_not_busy v k h.q) (h.q.busy_free k hb) hr
  · intro P
    rw [balance_enter, balance_finish _ k P hb, h.balance_zero]
    show (0 : Int) - (if P = v.wpool k ∧ v.rescuer k = false then 1 else 0) +
      (if P = v.wpool k then 1 else 0) = 0
    rw [hr]
    simp

theorem InvP_rescue_begin (v : PoolView) (k : Nat) (h : InvP v) (hr : v.rescuer k = true)
    (hb : k ∉ v.busy (v.wpool k)) : InvP (v.start k) := by
  apply InvP_of_balance
  · exact InvQ_start _ k h.q (h.q.resc_not_idle k hr) hb (h.q.rescuer_free k hr)
  · intro P
    rw [balance_start, h.balance_zero, hr]
    simp

theorem InvP_rescue_end (v : PoolView) (k : Nat) (h : InvP v) (hr : v.rescuer k = true)
    (hb : k ∈ v.busy (v.wpool k)) : InvP (v.finish k) := by
  apply InvP_of_balance
  · exact InvQ_finish v k h.q
  · intro P
    rw [balance_finish _ k P hb, h.balance_zero, hr]
    simp

theorem InvP_create (v : PoolView) (Q k : Nat) (h : InvP v) (hb : ∀ P, k ∉ v.busy P)
    (hm : ∀ P, v.manager P ≠ k) : InvP ((((v.alloc k).attach k Q).count Q).enter k) := by
  have hm2 : ∀ P, v.manager P ≠ 0 → v.manager P ≠ k := fun P _ => hm P
  apply InvP_of_balance
  · exact InvQ_enter _ k (InvQ_count _ Q (InvQ_attach _ k Q (InvQ_alloc v k h.q hb hm2) hb hm2))
      hb hm2 (by simp [PoolView.count, PoolView.attach, PoolView.alloc])
  · intro P
    rw [balance_enter, balance_count, balance_attach, balance_alloc v k P hb, h.balance_zero]
    show (0 : Int) - (if P = Q then 1 else 0) +
      (if P = Function.update (Function.update v.wpool k 0) k Q k then 1 else 0) = 0
    rw [Function.update_same]
    omega

theorem InvP_attach (v : PoolView) (k Q : Nat) (h : InvP v) (hb : ∀ P, k ∉ v.busy P)
    (hm : ∀ P, v.manager P ≠ 0 → v.manager P ≠ k) : InvP (v.attach k Q) := by
  apply InvP_of_balance
  · exact InvQ_attach v k Q h.q hb hm
  · intro P
    rw [balance_attach, h.balance_zero]

theorem InvP_dying (v : PoolView) (k : Nat) (h : InvP v) (hi : v.idle k = true) :
    InvP (v.dying k) := by
  apply InvP_of_balance
  · exact InvQ_dying v k h.q hi
  · intro P
    rw [balance_dying, h.balance_zero]

theorem InvP_mark (v : PoolView) (Q : Nat) (h : InvP v) : InvP (v.mark Q) := by
  apply InvP_of_balance
  · exact InvQ_mark v Q h.q
  · intro P
    rw [balance_mark, h.balance_zero]

/-! ## The worker accounting in every reachable state -/

theorem InvP_init (s : State) (h : PoolInit s) : InvP (pview s) := by
  obtain ⟨h1, h2, h3, h4, h5, h6⟩ := h
  have hb : ∀ P, (pview s).busy P = [] := h3
  have hm : ∀ P, (pview s).manager P = 0 := h4
  have hi : ∀ k, (pview s).idle k = false := fun k => decide_eq_false (not_not.2 (h5 k))
  have hd : ∀ k, (pview s).die k = false := fun k => decide_eq_false (not_not.2 (h6 k))
  refine ⟨⟨?_, ?_, ?_, ?_, ?_, ?_⟩, ?_⟩
  · intro P k hk
    exact hi k
  · intro P
    rw [hb]
    exact List.nodup_nil
  · intro P k hk
    rw [hb] at hk
    exact absurd hk (List.not_mem_nil _)
  · intro P hP
    exact absurd (hm P) hP
  · intro k hk
    rw [hd] at hk
    exact absurd hk (by simp)
  · intro k _
    exact hi k
  · intro P
    show s.pool_nr_workers P = s.pool_nr_idle P + ((pview s).busy_count P : Int) +
      (if (pview s).manager P ≠ 0 then 1 else 0)
    unfold PoolView.busy_count
    rw [hb, hm, h1, h2]
    simp

theorem InvP_set_worker_dying (s : State) (k : Nat) (h : InvP (pview s)) :
    InvP (pview (set_worker_dying s k)) := by
  rcases pview_set_worker_dying s k with e | ⟨hi, e⟩
  · rw [e]; exact h
  · rw [e]; exact InvP_dying _ k h hi

theorem InvP_put_unbound_pool_loop (fuel : Nat) (s : State) (P : Nat) (h : InvP (pview s)) :
    InvP (pview (put_unbound_pool_loop fuel s P)) := by
  induction fuel generalizing s with
  | zero => exact h
  | succ n ih =>
    unfold put_unbound_pool_loop
    split_ifs
    · exact h
    · exact ih _ (InvP_set_worker_dying s _ h)

theorem pview_set_manager_active (s : State) (P : Nat) :
    pview (s.set .pool_flags (Function.update s.pool_flags P
      (s.pool_flags P ||| POOL_MANAGER_ACTIVE))) = (pview s).mark P := by
  apply pview_of_fields
  · rfl
  · rfl
  · rfl
  · show (fun Q => decide (Function.update s.pool_flags P
      (s.pool_flags P ||| POOL_MANAGER_ACTIVE) Q &&& (1 <<< 0) ≠ 0)) = _
    rw [flags_update, bit_or]
    have : (POOL_MANAGER_ACTIVE).testBit 0 = true := by decide
    rw [this, Bool.or_true]
    rfl
  · rfl
  · rfl
  · rfl
  · rfl
  · rfl
  · rfl

theorem InvP_put_unbound_pool_locked (s : State) (P : Nat) (h : InvP (pview s)) :
    InvP (pview (put_unbound_pool_locked s P)) := by
  unfold put_unbound_pool_locked
  apply InvP_put_unbound_pool_loop
  rw [pview_set_manager_active]
  exact InvP_mark _ P h

/-- Every step of the worker accounting preserves the invariant. -/
theorem InvP_step (s s2 : State) (hi : InvP (pview s)) (h : PoolStep s s2) :
    InvP (pview s2) := by
  cases h with
  | other s2 hu => rw [hu]; exact hi
  | create pool worker hw hb hm =>
    rw [pview_create_worker]
    exact InvP_create _ pool worker hi hb hm
  | attach worker pool hr hb =>
    rw [pview_worker_attach_to_pool]
    exact InvP_attach _ worker pool hi (hi.q.not_busy worker hb)
      (hi.q.rescuer_free worker (decide_eq_true hr))
  | detach worker hc =>
    rw [pview_worker_detach_from_pool]
    rcases hc with ⟨hr, hb⟩ | hd
    · exact InvP_attach _ worker 0 hi (hi.q.not_busy worker hb)
        (hi.q.rescuer_free worker (decide_eq_true hr))
    · have hidle := hi.q.die_idle worker (decide_eq_true hd)
      obtain ⟨f1, f2⟩ := hi.q.idle_free worker hidle
      exact InvP_attach _ worker 0 hi f1 f2
  | wake_sleep u worker hr hidle hd hu =>
    rw [pview_worker_leave_idle s worker hidle] at hu
    rw [pview_worker_enter_idle_of_view u worker (by rw [hu]; simp [PoolView.leave])
      (by rw [hu]; simp [PoolView.leave]), hu]
    exact InvP_wake_sleep _ worker hi (decide_eq_true hidle) (decide_eq_false (not_not.2 hd))
      (decide_eq_false (not_not.2 hr))
  | wake_exec u worker work hr hidle hd hu =>
    rw [pview_worker_leave_idle s worker hidle] at hu
    rw [pview_process_one_work_begin, hu]
    exact InvP_wake_exec _ worker hi (decide_eq_true hidle) (decide_eq_false (not_not.2 hd))
      (decide_eq_false (not_not.2 hr))
  | wake_manage u worker hw hr hidle hd hu hm =>
    rw [pview_worker_leave_idle s worker hidle] at hu
    obtain ⟨e, hfl⟩ := pview_manage_workers_begin u worker hm
    rw [e, hu]
    have hp : u.worker_pool worker = s.worker_pool worker :=
      congrArg (fun v => v.wpool worker) hu
    have hma : (pview s).mgr_active ((pview s).wpool worker) = false := by
      have := congrArg (fun v => v.mgr_active (s.worker_pool worker)) hu
      simp only [PoolView.leave] at this
      show (pview s).mgr_active (s.worker_pool worker) = false
      rw [← this]
      show decide (u.pool_flags (s.worker_pool worker) &&& POOL_MANAGER_ACTIVE ≠ 0) = false
      rw [← hp]
      exact decide_eq_false (not_not.2 hfl)
    exact InvP_wake_manage _ worker hi hw (decide_eq_true hidle)
      (decide_eq_false (not_not.2 hd)) (decide_eq_false (not_not.2 hr)) hma
  | manage_sleep u worker hw hm hu =>
    rw [pview_manage_workers_end] at hu
    obtain ⟨m1, m2, m3, _⟩ := hi.q.manager_free worker hw hm
    rw [pview_worker_enter_idle_of_view u worker (by rw [hu]; exact m1)
      (by rw [hu]; exact m3), hu]
    exact InvP_manage_sleep _ worker hi hw hm
  | manage_exec u worker work hw hm hu =>
    rw [pview_manage_workers_end] at hu
    rw [pview_process_one_work_begin, hu]
    exact InvP_manage_exec _ worker hi hw hm
  | exec_exec u worker work hb hu =>
    rw [pview_process_one_work_end] at hu
    rw [pview_process_one_work_begin, hu]
    exact InvP_exec_exec _ worker hi hb
  | exec_sleep u worker hr hb hu =>
    rw [pview_process_one_work_end] at hu
    rw [pview_worker_enter_idle_of_view u worker
      (by rw [hu]; exact hi.q.busy_not_idle _ worker hb)
      (by rw [hu]; simp [PoolView.finish]), hu]
    exact InvP_exec_sleep _ worker hi (decide_eq_false (not_not.2 hr)) hb
  | rescue_begin worker work hr hb =>
    rw [pview_process_one_work_begin]
    exact InvP_rescue_begin _ worker hi (decide_eq_true hr) hb
  | rescue_end worker hr hb =>
    rw [pview_process_one_work_end]
    exact InvP_rescue_end _ worker hi (decide_eq_true hr) hb
  | dying worker => exact InvP_set_worker_dying s worker hi
  | put_unbound pool _ => exact InvP_put_unbound_pool_locked s pool hi

theorem pool_reachable_inv (s : State) (h : PoolReachable s) : InvP (pview s) := by
  obtain ⟨s0, h0, hs⟩ := h
  induction hs with
  | refl => exact InvP_init s0 h0
  | tail _ hstep ih => exact InvP_step _ _ ih hstep

theorem PoolReachable.pool_step {s s2 : State} (h : PoolReachable s) (hs : PoolStep s s2) :
    PoolReachable s2 := by
  obtain ⟨s0, h0, h1⟩ := h
  exact ⟨s0, h0, Relation.ReflTransGen.tail h1 hs⟩

theorem PoolInit_ex_rescuer : PoolInit ex_rescuer := by
  refine ⟨fun _ => rfl, fun _ => rfl, fun _ => rfl, fun _ => rfl, fun _ => ?_, fun _ => ?_⟩
  · show WORKER_PREP &&& WORKER_IDLE = 0
    decide
  · show WORKER_PREP &&& WORKER_DIE = 0
    decide

theorem PoolInit_boot : PoolInit State.boot := by
  refine ⟨fun _ => rfl, fun _ => rfl, fun _ => rfl, fun _ => rfl, fun _ => ?_, fun _ => ?_⟩
  · show WORKER_PREP &&& WORKER_IDLE = 0
    decide
  · show WORKER_PREP &&& WORKER_DIE = 0
    decide

/-- C7 (counterexample): the equation of the specification fails at two points where the
pool lock is released.  A rescuer that starts a work item of pool 0 is hashed in `busy_hash`
although `nr_workers` never counted it: after `process_one_work` hashed the rescuer,
`nr_workers` and `nr_idle` are 0 and `busy_hash` has one worker.  And the locked region of
`put_unbound_pool` sets `POOL_MANAGER_ACTIVE` without a manager: afterwards `nr_workers` and
`nr_idle` are 0, `busy_hash` is empty and the flag is set. -/
theorem pool_balance_fails_for_rescuer_and_put_unbound_pool :
    (PoolReachable (process_one_work_begin ex_rescuer 1 5) ∧
      ex_rescuer.worker_rescue_wq 1 ≠ 0 ∧
      (process_one_work_begin ex_rescuer 1 5).pool_nr_workers 0 = 0 ∧
      (process_one_work_begin ex_rescuer 1 5).pool_nr_idle 0 = 0 ∧
      (process_one_work_begin ex_rescuer 1 5).pool_busy_hash 0 = [1] ∧
      (process_one_work_begin ex_rescuer 1 5).pool_flags 0 &&& POOL_MANAGER_ACTIVE = 0 ∧
      ¬ pool_balanced (process_one_work_begin ex_rescuer 1 5) 0) ∧
    (PoolReachable (put_unbound_pool_locked State.boot 0) ∧
      (put_unbound_pool_locked State.boot 0).pool_nr_workers 0 = 0 ∧
      (put_unbound_pool_locked State.boot 0).pool_nr_idle 0 = 0 ∧
      (put_unbound_pool_locked State.boot 0).pool_busy_hash 0 = [] ∧
      (put_unbound_pool_locked State.boot 0).pool_flags 0 &&& POOL_MANAGER_ACTIVE ≠ 0 ∧
      ¬ pool_balanced (put_unbound_pool_locked State.boot 0) 0) := by
  have hv := pview_process_one_work_begin ex_rescuer 1 5
  have h1 : (process_one_work_begin ex_rescuer 1 5).pool_nr_workers 0 = 0 :=
    congrArg (fun v => v.nr_workers 0) hv
  have h2 : (process_one_work_begin ex_rescuer 1 5).pool_nr_idle 0 = 0 :=
    congrArg (fun v => v.nr_idle 0) hv
  have h3 : (process_one_work_begin ex_rescuer 1 5).pool_busy_hash 0 = [1] :=
    congrArg (fun v => v.busy 0) hv
  have h4 : decide ((process_one_work_begin ex_rescuer 1 5).pool_flags 0 &&&
      POOL_MANAGER_ACTIVE ≠ 0) = false :=
    congrArg (fun v => v.mgr_active 0) hv
  have h4 := not_not.1 (of_decide_eq_false h4)
  have e : put_unbound_pool_locked State.boot 0 =
      State.boot.set .pool_flags (Function.update State.boot.pool_flags 0
        (State.boot.pool_flags 0 ||| POOL_MANAGER_ACTIVE)) := rfl
  have g4 : (put_unbound_pool_locked State.boot 0).pool_flags 0 &&& POOL_MANAGER_ACTIVE ≠ 0 := by
    rw [e]
    show Function.update State.boot.pool_flags 0 (State.boot.pool_flags 0 |||
      POOL_MANAGER_ACTIVE) 0 &&& POOL_MANAGER_ACTIVE ≠ 0
    rw [Function.update_same]
    decide
  refine ⟨⟨?_, by decide, h1, h2, h3, h4, ?_⟩, ⟨?_, rfl, rfl, rfl, g4, ?_⟩⟩
  · exact PoolReachable.pool_step ⟨_, PoolInit_ex_rescuer, Relation.ReflTransGen.refl⟩
      (PoolStep.rescue_begin ex_rescuer 1 5 (by decide) (List.not_mem_nil 1))
  · unfold pool_balanced
    rw [h1, h2, h3, if_neg (not_not.2 h4)]
    decide
  · exact PoolReachable.pool_step ⟨_, PoolInit_boot, Relation.ReflTransGen.refl⟩
      (PoolStep.put_unbound State.boot 0 (by decide))
  · unfold pool_balanced
    rw [if_pos g4]
    show ¬ ((0 : Int) = 0 + (([] : List Nat).length : Int) + 1)
    decide

/-- C7 (amended): in every state that the regions between taking and releasing the pool
lock reach from a state without workers (`create_worker`, the paths of `worker_thread`
through `worker_leave_idle`, `worker_enter_idle`, `manage_workers` and `process_one_work`,
a rescuer attaching, executing and detaching, `set_worker_dying` and the locked region of
`put_unbound_pool`), every pool satisfies: `nr_workers` is `nr_idle`, plus the number of
workers hashed in `busy_hash` that are not rescuers, plus 1 if the pool has a manager
(`pool->manager` is set).  When no rescuer is hashed on the pool and `POOL_MANAGER_ACTIVE`
is set exactly when the pool has a manager, this is the equation
`nr_workers = nr_idle + |busy_hash| + (MANAGER_ACTIVE ? 1 : 0)`. -/
theorem pool_worker_accounting (s : State) (h : PoolReachable s) (P : Nat) :
    s.pool_nr_workers P = s.pool_nr_idle P +
        (((s.pool_busy_hash P).countP (fun k => decide (s.worker_rescue_wq k = 0)) : Nat) : Int) +
        (if s.pool_manager P ≠ 0 then 1 else 0) ∧
    ((∀ k ∈ s.pool_busy_hash P, s.worker_rescue_wq k = 0) →
      (s.pool_flags P &&& POOL_MANAGER_ACTIVE ≠ 0 ↔ s.pool_manager P ≠ 0) →
      pool_balanced s P) := by
  have hb : s.pool_nr_workers P = s.pool_nr_idle P + ((pview s).busy_count P : Int) +
      (if s.pool_manager P ≠ 0 then 1 else 0) := (pool_reachable_inv s h).bal P
  have hc : (pview s).busy_count P =
      (s.pool_busy_hash P).countP (fun k => decide (s.worker_rescue_wq k = 0)) := by
    unfold PoolView.busy_count
    apply List.countP_congr
    intro k _
    show (!decide (s.worker_rescue_wq k ≠ 0)) = true ↔ decide (s.worker_rescue_wq k = 0) = true
    by_cases hk : s.worker_rescue_wq k = 0 <;> simp [hk]
  rw [hc] at hb
  refine ⟨hb, fun hr hm => ?_⟩
  unfold pool_balanced
  have hl : (s.pool_busy_hash P).countP (fun k => decide (s.worker_rescue_wq k = 0)) =
      (s.pool_busy_hash P).length := by
    rw [List.countP_eq_length]
    intro k hk
    exact decide_eq_true (hr k hk)
  rw [hl] at hb
  refine hb.trans ?_
  by_cases hmm : s.pool_manager P ≠ 0
  · rw [if_pos hmm, if_pos (hm.2 hmm)]
  · rw [if_neg hmm, if_neg (fun hf => hmm (hm.1 hf))]

theorem pool_worker_accounting_witness :
    (process_one_work_begin ex_rescuer 1 5).pool_nr_workers 0 =
      (process_one_work_begin ex_rescuer 1 5).pool_nr_idle 0 +
        ((((process_one_work_begin ex_rescuer 1 5).pool_busy_hash 0).countP
          (fun k => decide ((process_one_work_begin ex_rescuer 1 5).worker_rescue_wq k = 0)) :
            Nat) : Int) +
        (if (process_one_work_begin ex_rescuer 1 5).pool_manager 0 ≠ 0 then 1 else 0) :=
  (pool_worker_accounting (process_one_work_begin ex_rescuer 1 5)
    (PoolReachable.pool_step ⟨_, PoolInit_ex_rescuer, Relation.ReflTransGen.refl⟩
      (PoolStep.rescue_begin ex_rescuer 1 5 (by decide) (List.not_mem_nil 1))) 0).1

/-! ## Stealing a queued work item -/

theorem offq_pool_id (id : Int) (f : Nat) (h0 : 0 ≤ id) (h1 : id < 2 ^ 31) (hf : f < 32) :
    to_int (((to_ulong id <<< WORK_OFFQ_POOL_SHIFT) % 2 ^ BITS_PER_LONG ||| f) >>>
      WORK_OFFQ_POOL_SHIFT) = id := by
  obtain ⟨n, rfl⟩ := Int.eq_ofNat_of_zero_le h0
  have hn : n < 2 ^ 31 := by exact_mod_cast h1
  have e1 : to_ulong (n : Int) = n := by
    unfold to_ulong
    have : ((n : Int) % 2 ^ BITS_PER_LONG) = (n : Int) :=
      Int.emod_eq_of_lt h0 (by show (n : Int) < 2 ^ 64; omega)
    rw [this, Int.toNat_ofNat]
  rw [e1]
  show to_int (((n <<< 5) % 2 ^ 64 ||| f) >>> 5) = (n : Int)
  have e2 : (n <<< 5) % 2 ^ 64 = n <<< 5 := by
    rw [Nat.shiftLeft_eq]
    exact Nat.mod_eq_of_lt (by omega)
  rw [e2]
  have e3 : (n <<< 5 ||| f) >>> 5 = n := by
    apply Nat.eq_of_testBit_eq
    intro i
    rw [Nat.testBit_shiftRight, Nat.testBit_or, Nat.testBit_shiftLeft,
      testBit_lt f 5 (by simpa using hf) (5 + i) (by omega)]
    simp
  rw [e3]
  unfold to_int
  have e4 : n % 2 ^ 32 = n := Nat.mod_eq_of_lt (by omega)
  rw [e4, if_pos hn]

theorem offq_word_bits (v : Nat) :
    ((v <<< WORK_OFFQ_POOL_SHIFT) % 2 ^ BITS_PER_LONG ||| WORK_STRUCT_PENDING) &&&
        WORK_STRUCT_PENDING ≠ 0 ∧
    ((v <<< WORK_OFFQ_POOL_SHIFT) % 2 ^ BITS_PER_LONG ||| WORK_STRUCT_PENDING) &&&
        WORK_STRUCT_INACTIVE = 0 ∧
    ((v <<< WORK_OFFQ_POOL_SHIFT) % 2 ^ BITS_PER_LONG ||| WORK_STRUCT_PENDING) &&&
        WORK_STRUCT_PWQ = 0 ∧
    ((v <<< WORK_OFFQ_POOL_SHIFT) % 2 ^ BITS_PER_LONG ||| WORK_STRUCT_PENDING) &&&
        WORK_STRUCT_LINKED = 0 ∧
    ((v <<< WORK_OFFQ_POOL_SHIFT) % 2 ^ BITS_PER_LONG ||| WORK_STRUCT_PENDING) &&&
        WORK_OFFQ_CANCELING = 0 := by
  refine ⟨?_, ?_, ?_, ?_, ?_⟩
  · show _ &&& (1 <<< 0) ≠ 0
    rw [and_bit_ne_zero, Nat.testBit_or]
    simp +decide
  · show _ &&& (1 <<< 1) = 0
    rw [and_bit_eq_zero, Nat.testBit_or, Nat.testBit_mod_two_pow, Nat.testBit_shiftLeft]
    simp +decide
  · show _ &&& (1 <<< 2) = 0
    rw [and_bit_eq_zero, Nat.testBit_or, Nat.testBit_mod_two_pow, Nat.testBit_shiftLeft]
    simp +decide
  · show _ &&& (1 <<< 3) = 0
    rw [and_bit_eq_zero, Nat.testBit_or, Nat.testBit_mod_two_pow, Nat.testBit_shiftLeft]
    simp +decide
  · show _ &&& (1 <<< 4) = 0
    rw [and_bit_eq_zero, Nat.testBit_or, Nat.testBit_mod_two_pow, Nat.testBit_shiftLeft]
    simp +decide

theorem linked_run_congr (d d2 : Nat → Nat) (l : List Nat)
    (h : ∀ y ∈ l, d2 y &&& WORK_STRUCT_LINKED = d y &&& WORK_STRUCT_LINKED) :
    linked_run d2 l = linked_run d l := by
  induction l with
  | nil => rfl
  | cons a l ih =>
    unfold linked_run
    rw [h a (List.mem_cons_self _ _), ih (fun y hy => h y (List.mem_cons_of_mem _ hy))]

theorem list_del_init_fields (s : State) (work : Nat) (H : list_head)
    (hH : s.work_entry work = some H) :
    (list_del_init s work).lists = Function.update s.lists H ((s.lists H).erase work) ∧
    (list_del_init s work).work_entry = Function.update s.work_entry work none := by
  unfold list_del_init
  rw [hH]
  exact ⟨rfl, rfl⟩

/-- The block of `try_to_grab_pending` after the activation: the stolen work item `work`
is active and linked on the list `H`. -/
theorem steal_active_fields (s2 : State) (work pwq : Nat) (id : Int) (hi : InvC (core s2))
    (H : list_head) (hH : s2.work_entry work = some H)
    (hHi : ∀ p, H ≠ list_head.inactive_works p)
    (hia : s2.work_data work &&& WORK_STRUCT_INACTIVE = 0) :
    (set_work_pool_and_keep_pending (pwq_dec_nr_in_flight (list_del_init s2 work) pwq
        (work_data_bits (list_del_init s2 work) work)) work id).work_entry work = none ∧
    (set_work_pool_and_keep_pending (pwq_dec_nr_in_flight (list_del_init s2 work) pwq
        (work_data_bits (list_del_init s2 work) work)) work id).pwq_nr_in_flight =
      Function.update s2.pwq_nr_in_flight pwq (Function.update (s2.pwq_nr_in_flight pwq)
        (get_work_color (s2.work_data work))
        (s2.pwq_nr_in_flight pwq (get_work_color (s2.work_data work)) - 1)) ∧
    (set_work_pool_and_keep_pending (pwq_dec_nr_in_flight (list_del_init s2 work) pwq
        (work_data_bits (list_del_init s2 work) work)) work id).work_data work =
      ((to_ulong id <<< WORK_OFFQ_POOL_SHIFT) % 2 ^ BITS_PER_LONG ||| WORK_STRUCT_PENDING) ∧
    ((s2.lists (list_head.inactive_works pwq) = [] ∨
        ¬ (s2.pwq_nr_active pwq - 1 < s2.pwq_max_active pwq)) →
      (set_work_pool_and_keep_pending (pwq_dec_nr_in_flight (list_del_init s2 work) pwq
          (work_data_bits (list_del_init s2 work) work)) work id).pwq_nr_active pwq =
        s2.pwq_nr_active pwq - 1 ∧
      (set_work_pool_and_keep_pending (pwq_dec_nr_in_flight (list_del_init s2 work) pwq
          (work_data_bits (list_del_init s2 work) work)) work id).lists
            (list_head.inactive_works pwq) = s2.lists (list_head.inactive_works pwq)) ∧
    (∀ x l, s2.lists (list_head.inactive_works pwq) = x :: l →
      s2.pwq_nr_active pwq - 1 < s2.pwq_max_active pwq →
      (set_work_pool_and_keep_pending (pwq_dec_nr_in_flight (list_del_init s2 work) pwq
          (work_data_bits (list_del_init s2 work) work)) work id).pwq_nr_active pwq =
        s2.pwq_nr_active pwq ∧
      (set_work_pool_and_keep_pending (pwq_dec_nr_in_flight (list_del_init s2 work) pwq
          (work_data_bits (list_del_init s2 work) work)) work id).work_entry x =
        some (list_head.worklist (s2.pwq_pool pwq)) ∧
      x ∈ (set_work_pool_and_keep_pending (pwq_dec_nr_in_flight (list_del_init s2 work) pwq
          (work_data_bits (list_del_init s2 work) work)) work id).lists
            (list_head.worklist (s2.pwq_pool pwq)) ∧
      (set_work_pool_and_keep_pending (pwq_dec_nr_in_flight (list_del_init s2 work) pwq
          (work_data_bits (list_del_init s2 work) work)) work id).work_data x &&&
            WORK_STRUCT_INACTIVE = 0 ∧
      (set_work_pool_and_keep_pending (pwq_dec_nr_in_flight (list_del_init s2 work) pwq
          (work_data_bits (list_del_init s2 work) work)) work id).lists
            (list_head.inactive_works pwq) =
        (x :: l).drop (linked_run s2.work_data (x :: l)).length) := by
  have ed : work_data_bits (list_del_init s2 work) work = s2.work_data work := rfl
  rw [ed]
  obtain ⟨hl3, he3⟩ := list_del_init_fields s2 work H hH
  generalize hs3 : list_del_init s2 work = s3 at hl3 he3
  have hd3 : s3.work_data = s2.work_data := by rw [← hs3]; rfl
  have hn3 : s3.pwq_nr_active = s2.pwq_nr_active := by rw [← hs3]; rfl
  have hm3 : s3.pwq_max_active = s2.pwq_max_active := by rw [← hs3]; rfl
  have hf3 : s3.pwq_nr_in_flight = s2.pwq_nr_in_flight := by rw [← hs3]; rfl
  have hp3 : s3.pwq_pool = s2.pwq_pool := by rw [← hs3]; rfl
  have hI3 : s3.lists (list_head.inactive_works pwq) = s2.lists (list_head.inactive_works pwq) := by
    rw [hl3, Function.update_noteq (hHi pwq).symm]
  obtain ⟨v1, v2, v3, v4, v5⟩ := pwq_dec_nr_in_flight_views s3 pwq (s2.work_data work)
  -- the fields of the final state in terms of the state after `pwq_dec_nr_in_flight`
  have f1 : ∀ u : State, (set_work_pool_and_keep_pending u work id).work_entry = u.work_entry :=
    fun u => rfl
  have f2 : ∀ u : State, (set_work_pool_and_keep_pending u work id).lists = u.lists :=
    fun u => rfl
  have f3 : ∀ u : State, (set_work_pool_and_keep_pending u work id).pwq_nr_active =
      u.pwq_nr_active := fun u => rfl
  have f4 : ∀ u : State, (set_work_pool_and_keep_pending u work id).pwq_nr_in_flight =
      u.pwq_nr_in_flight := fun u => rfl
  have f5 : ∀ u : State, (set_work_pool_and_keep_pending u work id).work_data =
      Function.update u.work_data work
        ((to_ulong id <<< WORK_OFFQ_POOL_SHIFT) % 2 ^ BITS_PER_LONG ||| WORK_STRUCT_PENDING) :=
    fun u => rfl
  rw [f1, f2, f3, f4, f5, v1, v2, v3, v4, v5, hf3]
  have hwI : work ∉ s2.lists (list_head.inactive_works pwq) := by
    intro hm
    have := (hi.l.mem_entry _ work).1 hm
    rw [show (core s2).entry work = s2.work_entry work from rfl, hH] at this
    exact hHi pwq (Option.some.inj this)
  by_cases hc : s3.lists (list_head.inactive_works pwq) ≠ [] ∧
      s3.pwq_nr_active pwq - 1 < s3.pwq_max_active pwq
  · cases hL : s3.lists (list_head.inactive_works pwq) with
    | nil => exact absurd hL hc.1
    | cons x l =>
      rw [pwq_dec_nr_active_promote s3 pwq _ x l hia hL hc.2]
      have hL2 : s2.lists (list_head.inactive_works pwq) = x :: l := by rw [← hI3, hL]
      have hx2 : s2.work_entry x = some (list_head.inactive_works pwq) :=
        (hi.l.mem_entry _ x).1 (by rw [show (core s2).lists = s2.lists from rfl, hL2]; simp)
      have hxw : x ≠ work := by
        rintro rfl
        exact hwI (by rw [hL2]; simp)
      have hbit : s2.work_data x &&& WORK_STRUCT_PWQ ≠ 0 :=
        of_decide_eq_true ((hi.l.has_pwq x).2
          (by rw [show (core s2).entry x = s2.work_entry x from rfl, hx2]; simp))
      have hpw : work_struct_pwq (s2.work_data x) = pwq := (hi.l.typ_inactive pwq x hx2).1
      generalize hs3p : s3.set .pwq_nr_active (Function.update s3.pwq_nr_active pwq
        (s3.pwq_nr_active pwq - 1)) = s3p
      have q1 : s3p.lists = s3.lists := by rw [← hs3p]; rfl
      have q2 : s3p.work_entry = s3.work_entry := by rw [← hs3p]; rfl
      have q3 : s3p.work_data = s2.work_data := by rw [← hs3p]; exact hd3
      have q4 : s3p.pwq_pool = s2.pwq_pool := by rw [← hs3p]; exact hp3
      have q5 : s3p.pwq_nr_active pwq = s2.pwq_nr_active pwq - 1 := by
        rw [← hs3p, ← hn3]
        show Function.update s3.pwq_nr_active pwq (s3.pwq_nr_active pwq - 1) pwq = _
        rw [Function.update_same]
      have hpx : get_work_pwq s3p x = pwq := by
        unfold get_work_pwq work_data_bits
        rw [q3, if_pos hbit, hpw]
      have hex : s3p.work_entry x = some (list_head.inactive_works pwq) := by
        rw [q2, he3, Function.update_noteq hxw, hx2]
      obtain ⟨a1, a2, a3, a4⟩ := pwq_activate_inactive_work_spec s3p x
        (list_head.inactive_works pwq) hex (by simp) (by rw [q1, hL]; simp)
        (by rw [q1, hI3]; exact hi.l.nodup _)
        (by
          intro y hy
          rw [q1, hI3] at hy
          have hyw : y ≠ work := fun e => hwI (e ▸ hy)
          rw [q2, he3, Function.update_noteq hyw]
          exact (hi.l.mem_entry _ y).1 hy)
      rw [hpx, q1, hL, list_from_head, list_before_head, q3, q4] at a1
      rw [hpx, q1, hL, list_from_head, q3, q4] at a2
      rw [hpx, q5] at a4
      rw [q3] at a3
      have hsub : ∀ y, y ∈ linked_run s2.work_data (x :: l) → y ∈ x :: l := by
        intro y hy
        have := run_of_prefix (fun z => decide (s2.work_data z &&& WORK_STRUCT_LINKED ≠ 0)) (x :: l)
        rw [← linked_run_eq_run_of] at this
        rw [← this]
        exact List.mem_append_left _ hy
      refine ⟨?_, rfl, by rw [Function.update_same], ?_, ?_⟩
      · rw [a2, if_neg (fun hm => hwI (hL2 ▸ hsub work hm)), q2, he3, Function.update_same]
      · intro hno
        rcases hno with h | h
        · rw [hL2] at h
          exact absurd h (by simp)
        · rw [hn3, hm3] at hc
          exact absurd hc.2 h
      · intro x2 l2 hL3 _
        rw [hL2] at hL3
        obtain ⟨rfl, rfl⟩ := List.cons.inj hL3
        refine ⟨?_, ?_, ?_, ?_, ?_⟩
        · rw [a4, Function.update_same]
          ring
        · rw [a2, if_pos (linked_run_head_mem _ _ _)]
        · rw [a1, if_pos rfl]
          exact List.mem_append_right _ (linked_run_head_mem _ _ _)
        · rw [Function.update_noteq hxw, a3, Function.update_same]
          exact (clear_inactive_views _).1
        · rw [a1, if_neg (by simp), if_pos rfl]
          rfl
  · rw [pwq_dec_nr_active_keep s3 pwq _ hia hc]
    refine ⟨?_, rfl, by rw [Function.update_same], ?_, ?_⟩
    · show s3.work_entry work = none
      rw [he3, Function.update_same]
    · intro _
      refine ⟨?_, hI3⟩
      show Function.update s3.pwq_nr_active pwq (s3.pwq_nr_active pwq - 1) pwq = _
      rw [Function.update_same, hn3]
    · intro x l hL hcap
      exfalso
      apply hc
      rw [hI3, hL, hn3, hm3]
      exact ⟨by simp, hcap⟩


/-- C11: when `try_to_grab_pending` takes the list path for a work item that is pending and
queued on a pool_workqueue `pwq` of a pool (it is not a barrier, the timer path is not
taken), it returns 1; the work item, which was linked on a list, is linked on no list
afterwards; `nr_in_flight` of `pwq` for the colour of the work item is decremented by one
and no other `nr_in_flight` changes; the data word is exactly the id of the pool shifted
by `WORK_OFFQ_POOL_SHIFT` with PENDING: PENDING is set, the PWQ tag, INACTIVE, LINKED and
CANCELING are clear and the word decodes to the pool id.  The `nr_active` slot the work
item held (none when it was INACTIVE) is released, and exactly when `inactive_works`
without the stolen item and the barriers linked to it is non-empty and the remaining
`nr_active` is below `max_active`, the first inactive item is promoted: it is moved to the
pool worklist, loses INACTIVE and takes the slot. -/
theorem try_to_grab_pending_steal_contract (s : State) (work : Nat) (is_dwork : Bool)
    (hr : Reachable s) (hnb : s.work_func work ≠ wq_barrier_func)
    (ht : ¬ (is_dwork = true ∧ s.dwork_timer_pending work = true))
    (hp : work_pending s work = true)
    (hq : get_work_pool s work ≠ 0 ∧ get_work_pwq s work ≠ 0 ∧
      s.pwq_pool (get_work_pwq s work) = get_work_pool s work) :
    let r := try_to_grab_pending s work is_dwork
    let pwq := get_work_pwq s work
    let pool := s.pwq_pool pwq
    let a : Int := if s.work_data work &&& WORK_STRUCT_INACTIVE = 0 then 1 else 0
    let I0 : List Nat :=
      if s.work_data work &&& WORK_STRUCT_INACTIVE = 0 then
        s.lists (list_head.inactive_works pwq)
      else
        list_before work (s.lists (list_head.inactive_works pwq)) ++
          (list_from work (s.lists (list_head.inactive_works pwq))).drop
            (linked_run s.work_data
              (list_from work (s.lists (list_head.inactive_works pwq)))).length
    r.1 = 1 ∧
    (∃ H, s.work_entry work = some H ∧ work ∈ s.lists H) ∧
    (r.2.work_entry work = none ∧ ∀ h, work ∉ r.2.lists h) ∧
    (∀ p c, r.2.pwq_nr_in_flight p c = s.pwq_nr_in_flight p c -
      if p = pwq ∧ c = get_work_color (s.work_data work) then 1 else 0) ∧
    r.2.work_data work =
      ((to_ulong (s.pool_id pool) <<< WORK_OFFQ_POOL_SHIFT) % 2 ^ BITS_PER_LONG |||
        WORK_STRUCT_PENDING) ∧
    (work_pending r.2 work = true ∧ r.2.work_data work &&& WORK_STRUCT_PWQ = 0 ∧
      r.2.work_data work &&& WORK_STRUCT_INACTIVE = 0 ∧
      r.2.work_data work &&& WORK_STRUCT_LINKED = 0 ∧
      r.2.work_data work &&& WORK_OFFQ_CANCELING = 0) ∧
    (0 ≤ s.pool_id pool → s.pool_id pool < 2 ^ 31 → get_work_pool_id r.2 work = s.pool_id pool) ∧
    ((I0 = [] ∨ ¬ (s.pwq_nr_active pwq - a < s.pwq_max_active pwq)) →
      r.2.pwq_nr_active pwq = s.pwq_nr_active pwq - a ∧
      r.2.lists (list_head.inactive_works pwq) = I0) ∧
    (∀ x l, I0 = x :: l → s.pwq_nr_active pwq - a < s.pwq_max_active pwq →
      r.2.pwq_nr_active pwq = s.pwq_nr_active pwq - a + 1 ∧
      r.2.work_entry x = some (list_head.worklist pool) ∧
      x ∈ r.2.lists (list_head.worklist pool) ∧
      r.2.work_data x &&& WORK_STRUCT_INACTIVE = 0 ∧
      r.2.lists (list_head.inactive_works pwq) =
        (x :: l).drop (linked_run s.work_data (x :: l)).length) := by
  have hi := reachable_inv s hr
  have hbit0 : (work_data_bits s work).testBit 0 = true := (work_pending_iff s work).1 hp
  have hs1 : (test_and_set_bit_pending s work).2 = s := test_and_set_bit_pending_of_set s work hbit0
  have hold : (test_and_set_bit_pending s work).1 = true := hbit0
  obtain ⟨hpb, hpw⟩ := get_work_pwq_ne_zero s work hq.2.1
  have heq : try_to_grab_pending s work is_dwork =
      (1, try_to_grab_pending_steal s work (get_work_pool s work) (get_work_pwq s work)) := by
    unfold try_to_grab_pending
    rw [if_neg ht, if_neg (by simp [hold])]
    simp only [hs1]
    rw [if_pos hq]
  simp only []
  rw [heq, ← hq.2.2]
  simp only []
  generalize hpq : get_work_pwq s work = pwq at hpw hq ⊢
  obtain ⟨H, hH⟩ := linked_of_pwq_bit s hi work hpb
  have hmem : work ∈ s.lists H := (hi.l.mem_entry H work).2 hH
  -- the final state for a state `s2` after the activation
  have hfin : ∀ s2 : State, s2.pool_id = s.pool_id →
      set_work_pool_and_keep_pending (pwq_dec_nr_in_flight (list_del_init s2 work) pwq
        (work_data_bits (list_del_init s2 work) work)) work
        ((pwq_dec_nr_in_flight (list_del_init s2 work) pwq
          (work_data_bits (list_del_init s2 work) work)).pool_id (s.pwq_pool pwq)) =
      set_work_pool_and_keep_pending (pwq_dec_nr_in_flight (list_del_init s2 work) pwq
        (work_data_bits (list_del_init s2 work) work)) work (s.pool_id (s.pwq_pool pwq)) := by
    intro s2 h2
    have : (pwq_dec_nr_in_flight (list_del_init s2 work) pwq
        (work_data_bits (list_del_init s2 work) work)).pool_id = s2.pool_id := by
      show pwq_dec_nr_in_flight _ _ _ .pool_id = s2 .pool_id
      simp
    rw [this, h2]
  obtain ⟨w1, w2, w3, w4, w5⟩ := offq_word_bits (to_ulong (s.pool_id (s.pwq_pool pwq)))
  by_cases hia : s.work_data work &&& WORK_STRUCT_INACTIVE = 0
  · have hHi : ∀ p, H ≠ list_head.inactive_works p := by
      intro p e
      rw [e] at hH
      have := (hi.l.typ_inactive p work hH).2
      exact absurd hia (of_decide_eq_true this)
    have hst : try_to_grab_pending_steal s work (s.pwq_pool pwq) pwq =
        set_work_pool_and_keep_pending (pwq_dec_nr_in_flight (list_del_init s work) pwq
          (work_data_bits (list_del_init s work) work)) work (s.pool_id (s.pwq_pool pwq)) := by
      unfold try_to_grab_pending_steal
      simp only []
      have hia1 : ¬ (work_data_bits s work &&& WORK_STRUCT_INACTIVE ≠ 0) := not_not.2 hia
      rw [if_neg hia1]
      exact hfin s rfl
    obtain ⟨b1, b2, b3, b4, b5⟩ := steal_active_fields s work pwq (s.pool_id (s.pwq_pool pwq))
      hi H hH hHi hia
    have hI := (InvC_steal s work pwq (s.pool_id (s.pwq_pool pwq)) hi H hH hHi hia hpw.symm hnb).1
    rw [← hst] at b1 b2 b3 b4 b5 hI
    simp only [if_pos hia]
    refine ⟨trivial, ⟨H, hH, hmem⟩, ⟨b1, fun h => hI.l.not_mem work b1 h⟩, ?_, b3, ?_, ?_, ?_, ?_⟩
    · intro p c
      rw [b2]
      by_cases hp1 : p = pwq
      · subst hp1
        by_cases hc1 : c = get_work_color (s.work_data work)
        · subst hc1; simp
        · simp [hc1]
      · simp [hp1]
    · refine ⟨?_, ?_, ?_, ?_, ?_⟩
      · unfold work_pending work_data_bits
        rw [b3]
        exact decide_eq_true w1
      · rw [b3]; exact w3
      · rw [b3]; exact w2
      · rw [b3]; exact w4
      · rw [b3]; exact w5
    · intro h0 h1
      unfold get_work_pool_id work_data_bits
      rw [b3, if_neg (not_not.2 w3)]
      exact offq_pool_id _ _ h0 h1 (by decide)
    · exact b4
    · intro x l hL hcap
      obtain ⟨c1, c2, c3, c4, c5⟩ := b5 x l hL hcap
      exact ⟨by rw [c1]; ring, c2, c3, c4, c5⟩
  · have hin : (core s).inact work = true := decide_eq_true hia
    obtain ⟨p, rfl⟩ : ∃ p, H = list_head.inactive_works p := by
      cases H with
      | worklist P =>
        have := (hi.l.typ_worklist P work hH).2 hnb
        rw [hin] at this
        exact absurd this (by simp)
      | inactive_works p => exact ⟨p, rfl⟩
      | scheduled k =>
        have := (hi.l.typ_scheduled k work hH).2 hnb
        rw [hin] at this
        exact absurd this (by simp)
    have hpp : pwq = p := by
      rw [hpw]
      exact (hi.l.typ_inactive p work hH).1
    subst hpp
    have hgw : get_work_pwq s work = pwq := hpq
    obtain ⟨a1, a2, a3, a4⟩ := pwq_activate_inactive_work_spec s work
      (list_head.inactive_works pwq) hH (by simp) hmem (hi.l.nodup _)
      (fun y hy => (hi.l.mem_entry _ y).1 hy)
    rw [hgw] at a1 a2 a4
    generalize hs2 : pwq_activate_inactive_work s work = s2 at a1 a2 a3 a4
    have hi2 : InvC (core s2) := by
      rw [← hs2]
      exact InvC_activate_state s hi work pwq hH hnb
    have hpid : s2.pool_id = s.pool_id := by
      rw [← hs2]
      show pwq_activate_inactive_work _ _ .pool_id = s .pool_id
      simp
    have hst : try_to_grab_pending_steal s work (s.pwq_pool pwq) pwq =
        set_work_pool_and_keep_pending (pwq_dec_nr_in_flight (list_del_init s2 work) pwq
          (work_data_bits (list_del_init s2 work) work)) work (s.pool_id (s.pwq_pool pwq)) := by
      unfold try_to_grab_pending_steal
      simp only []
      have hia1 : work_data_bits s work &&& WORK_STRUCT_INACTIVE ≠ 0 := hia
      rw [if_pos hia1, hs2]
      exact hfin s2 hpid
    have hH2 : s2.work_entry work = some (list_head.worklist (s.pwq_pool pwq)) := by
      rw [a2, if_pos]
      obtain ⟨_, _, sp3⟩ := hi.l.split work _ hH
      rw [show (core s).lists = s.lists from rfl] at sp3
      rw [sp3]
      exact linked_run_head_mem _ _ _
    have hd2 : s2.work_data work = s.work_data work &&& ulong_not (1 <<< WORK_STRUCT_INACTIVE_BIT) := by
      rw [a3, Function.update_same]
    obtain ⟨ci1, _, ci3, _, ci5, ci6⟩ := clear_inactive_views (s.work_data work)
    have hia2 : s2.work_data work &&& WORK_STRUCT_INACTIVE = 0 := by rw [hd2]; exact ci1
    have hpw2 : work_struct_pwq (s2.work_data work) = pwq := by
      rw [hd2, clear_inactive_pwq]
      exact hpw.symm
    have hnb2 : s2.work_func work ≠ wq_barrier_func := by
      rw [← hs2]
      show pwq_activate_inactive_work _ _ .work_func work ≠ _
      simpa using hnb
    obtain ⟨b1, b2, b3, b4, b5⟩ := steal_active_fields s2 work pwq (s.pool_id (s.pwq_pool pwq))
      hi2 _ hH2 (by simp) hia2
    have hI := (InvC_steal s2 work pwq (s.pool_id (s.pwq_pool pwq)) hi2 _ hH2 (by simp) hia2
      hpw2 hnb2).1
    rw [← hst] at b1 b2 b3 b4 b5 hI
    have hnf : s2.pwq_nr_in_flight = s.pwq_nr_in_flight := by
      rw [← hs2]
      show pwq_activate_inactive_work _ _ .pwq_nr_in_flight = s .pwq_nr_in_flight
      simp
    have hmx : s2.pwq_max_active = s.pwq_max_active := by
      rw [← hs2]
      show pwq_activate_inactive_work _ _ .pwq_max_active = s .pwq_max_active
      simp
    have hpl : s2.pwq_pool = s.pwq_pool := by
      rw [← hs2]
      show pwq_activate_inactive_work _ _ .pwq_pool = s .pwq_pool
      simp
    have hna : s2.pwq_nr_active pwq - 1 = s.pwq_nr_active pwq := by
      rw [a4, Function.update_same]
      ring
    have hcol : get_work_color (s2.work_data work) = get_work_color (s.work_data work) := by
      rw [hd2]; exact ci6
    have hI2 : s2.lists (list_head.inactive_works pwq) =
        list_before work (s.lists (list_head.inactive_works pwq)) ++
          (list_from work (s.lists (list_head.inactive_works pwq))).drop
            (linked_run s.work_data
              (list_from work (s.lists (list_head.inactive_works pwq)))).length := by
      rw [a1, if_neg (by simp), if_pos rfl]
    have hrun : ∀ l, linked_run s2.work_data l = linked_run s.work_data l := by
      intro l
      apply linked_run_congr
      intro y _
      rw [a3]
      by_cases hy : y = work
      · subst hy
        rw [Function.update_same]
        exact ci3
      · rw [Function.update_noteq hy]
    rw [hnf, hcol] at b2
    rw [hna, hmx, hI2] at b4 b5
    rw [hpl] at b5
    simp only [if_neg hia, sub_zero]
    refine ⟨trivial, ⟨_, hH, hmem⟩, ⟨b1, fun h => hI.l.not_mem work b1 h⟩, ?_, b3, ?_, ?_, ?_, ?_⟩
    · intro p c
      rw [b2]
      by_cases hp1 : p = pwq
      · subst hp1
        by_cases hc1 : c = get_work_color (s.work_data work)
        · subst hc1; simp
        · simp [hc1]
      · simp [hp1]
    · refine ⟨?_, ?_, ?_, ?_, ?_⟩
      · unfold work_pending work_data_bits
        rw [b3]
        exact decide_eq_true w1
      · rw [b3]; exact w3
      · rw [b3]; exact w2
      · rw [b3]; exact w4
      · rw [b3]; exact w5
    · intro h0 h1
      unfold get_work_pool_id work_data_bits
      rw [b3, if_neg (not_not.2 w3)]
      exact offq_pool_id _ _ h0 h1 (by decide)
    · intro hno
      obtain ⟨c1, c2⟩ := b4 hno
      exact ⟨c1, c2⟩
    · intro x l hL hcap
      obtain ⟨c1, c2, c3, c4, c5⟩ := b5 x l hL hcap
      rw [hrun] at c5
      refine ⟨?_, c2, c3, c4, c5⟩
      rw [c1, a4, Function.update_same]

set_option maxRecDepth 100000 in
theorem try_to_grab_pending_steal_contract_witness :
    ((ex_backlog.work_func 1000 ≠ wq_barrier_func ∧ work_pending ex_backlog 1000 = true ∧
      get_work_pwq ex_backlog 1000 = 256 ∧ get_work_pool ex_backlog 1000 = 64 ∧
      ex_backlog.lists (list_head.inactive_works 256) = [1001]) ∧
    (try_to_grab_pending ex_backlog 1000 false).1 = 1 ∧
    (try_to_grab_pending ex_backlog 1000 false).2.work_entry 1000 = none ∧
    (try_to_grab_pending ex_backlog 1000 false).2.work_data 1001 &&& WORK_STRUCT_INACTIVE = 0) ∧
    Reachable ex_recolored ∧ ex_recolored.pwq_work_color 256 = 1 ∧
    get_work_color (ex_recolored.work_data 1000) = 0 ∧
    (try_to_grab_pending ex_recolored 1000 false).1 = 1 ∧
    (try_to_grab_pending ex_recolored 1000 false).2.pwq_nr_in_flight 256 0 =
      ex_recolored.pwq_nr_in_flight 256 0 - 1 ∧
    (try_to_grab_pending ex_recolored 1000 false).2.pwq_nr_in_flight 256 1 =
      ex_recolored.pwq_nr_in_flight 256 1 := by
  have h := try_to_grab_pending_steal_contract ex_backlog 1000 false Reachable_ex_backlog
    (by decide) (by decide) (by decide) (by decide)
  have h2 := try_to_grab_pending_steal_contract ex_recolored 1000 false Reachable_ex_recolored
    (by decide) (by decide) (by decide) (by decide)
  exact ⟨⟨by decide, h.1, h.2.2.1.1,
    (h.2.2.2.2.2.2.2.2 1001 [] (by decide) (by decide)).2.2.2.1⟩,
    Reachable_ex_recolored, by decide, by decide, h2.1,
    (h2.2.2.2.1 256 0).trans (by decide), (h2.2.2.2.1 256 1).trans (by decide)⟩

/-! ## Queueing on a draining workqueue -/

/-- Counterexample to C20 as stated: on the draining workqueue 32 the caller `ex_task`, which
is not a worker, queues the idle work item 1000.  `__queue_work` links it nowhere, but
`queue_work_on` reports true and the work item is left pending. -/
theorem queue_work_on_draining_reports_true :
    ex_draining.wq_flags 32 &&& (__WQ_DESTROYING ||| __WQ_DRAINING) ≠ 0 ∧
    is_chained_work ex_draining ex_task 32 = false ∧
    work_pending ex_draining 1000 = false ∧
    ∃ s', queue_work_on 1 ex_draining ex_task 0 32 1000 = some (true, s') ∧
      work_pending s' 1000 = true ∧ s'.work_entry 1000 = none := by
  refine ⟨by decide, by decide, by decide, (test_and_set_bit_pending ex_draining 1000).2, by rfl,
    by decide, by decide⟩

/-- C20 (amended): for a workqueue with `__WQ_DRAINING` or `__WQ_DESTROYING` set and a caller
that is not a worker executing a work item of that workqueue, `__queue_work` returns with
the state unchanged: the work is linked on no list and no `nr_in_flight`, `nr_active` or
`refcnt` changes.  It does not clear PENDING: `queue_work_on` on an idle work item sets
PENDING, changes nothing but the data word of the work item, and reports true; the work
item is left pending and unlinked, and a following `queue_work_on` reports false and changes
nothing.  `queue_work_on` reports false only when PENDING was already set. -/
theorem __queue_work_draining_rejected (fuel : Nat) (s : State) (t : task_ctx)
    (cpu wq work : Nat)
    (hd : s.wq_flags wq &&& (__WQ_DESTROYING ||| __WQ_DRAINING) ≠ 0)
    (hc : is_chained_work s t wq = false) :
    __queue_work fuel s t cpu wq work = some s ∧
    (work_pending s work = false →
      queue_work_on fuel s t cpu wq work = some (true, (test_and_set_bit_pending s work).2) ∧
      work_pending (test_and_set_bit_pending s work).2 work = true ∧
      (test_and_set_bit_pending s work).2.work_entry = s.work_entry ∧
      (test_and_set_bit_pending s work).2.lists = s.lists ∧
      (test_and_set_bit_pending s work).2.pwq_nr_in_flight = s.pwq_nr_in_flight ∧
      (test_and_set_bit_pending s work).2.pwq_nr_active = s.pwq_nr_active ∧
      (test_and_set_bit_pending s work).2.pwq_refcnt = s.pwq_refcnt ∧
      (∀ y, y ≠ work → (test_and_set_bit_pending s work).2.work_data y = s.work_data y) ∧
      queue_work_on fuel (test_and_set_bit_pending s work).2 t cpu wq work =
        some (false, (test_and_set_bit_pending s work).2)) ∧
    (work_pending s work = true → queue_work_on fuel s t cpu wq work = some (false, s)) := by
  have h1 : ∀ u : State, u.wq_flags = s.wq_flags → is_chained_work u t wq = false →
      __queue_work fuel u t cpu wq work = some u := by
    intro u hu hcu
    unfold __queue_work
    rw [if_pos ⟨by rw [hu]; exact hd, hcu⟩]
  have hset : work_pending (test_and_set_bit_pending s work).2 work = true :=
    work_pending_test_and_set s work
  have hbit : (work_data_bits (test_and_set_bit_pending s work).2 work).testBit 0 = true :=
    (work_pending_iff _ work).1 hset
  refine ⟨h1 s rfl hc, ?_, ?_⟩
  · intro hp
    have hold : (test_and_set_bit_pending s work).1 = false := by
      have := (work_pending_iff s work).not.1 (by rw [hp]; simp)
      exact Bool.eq_false_iff.2 this
    refine ⟨?_, hset, rfl, rfl, rfl, rfl, rfl, ?_, ?_⟩
    · unfold queue_work_on
      rw [if_pos hold, h1 (test_and_set_bit_pending s work).2 rfl hc]
      rfl
    · intro y hy
      show Function.update s.work_data work _ y = s.work_data y
      rw [Function.update_noteq hy]
    · unfold queue_work_on
      have hold2 : (test_and_set_bit_pending (test_and_set_bit_pending s work).2 work).1 = true :=
        hbit
      rw [if_neg (by rw [hold2]; simp), test_and_set_bit_pending_of_set _ work hbit]
  · intro hp
    have hb : (work_data_bits s work).testBit 0 = true := (work_pending_iff s work).1 hp
    have hold : (test_and_set_bit_pending s work).1 = true := hb
    unfold queue_work_on
    rw [if_neg (by rw [hold]; simp), test_and_set_bit_pending_of_set s work hb]

theorem __queue_work_draining_rejected_witness :
    (ex_draining.wq_flags 32 &&& (__WQ_DESTROYING ||| __WQ_DRAINING) ≠ 0 ∧
      is_chained_work ex_draining ex_task 32 = false) ∧
    __queue_work 1 ex_draining ex_task 0 32 1000 = some ex_draining :=
  ⟨⟨by decide, by decide⟩,
    (__queue_work_draining_rejected 1 ex_draining ex_task 0 32 1000 (by decide) (by decide)).1⟩

/-! ## The contract of `insert_wq_barrier` -/

theorem linked_bit_iff (g f : Nat) (hg : g.testBit 3 = f.testBit 3) :
    (g &&& WORK_STRUCT_LINKED = 0 ↔ f &&& WORK_STRUCT_LINKED = 0) := by
  show (g &&& (1 <<< 3) = 0 ↔ f &&& (1 <<< 3) = 0)
  rw [and_bit_eq_zero, and_bit_eq_zero, hg]

/-- C18: `insert_wq_barrier` for a barrier that is linked nowhere and an aligned
pool_workqueue `pwq`.  The barrier gets the function `wq_barrier_func` and a data word that
points to `pwq` with PENDING and INACTIVE.  If no worker is given and the target is linked on
the list `H`, the barrier is linked on `H` right after the target, its colour is the colour
of the target, it has LINKED exactly when the target had it before, and LINKED is set on
the target, whose other bits are unchanged; `nr_in_flight` of `pwq` for that colour grows by
one.  If the worker `worker` is given, the barrier becomes the first item of the `scheduled`
list of the worker, its colour is `current_color` of the worker, LINKED is clear, and
`nr_in_flight` of `pwq` for that colour grows by one.  In both cases no other list, no other
data word, no other `nr_in_flight` counter and no `nr_active` changes. -/
theorem insert_wq_barrier_contract (s : State) (pwq barr target worker : Nat)
    (hb : s.work_entry barr = none) (hal : aligned_pwq pwq) :
    (worker = 0 → ∀ H, s.work_entry target = some H → (s.lists H).Nodup →
      (∀ x, x ∈ s.lists H ↔ s.work_entry x = some H) →
      (∃ pre post, s.lists H = pre ++ target :: post ∧
        (insert_wq_barrier s pwq barr target worker).lists H = pre ++ target :: barr :: post) ∧
      (∀ h, h ≠ H → (insert_wq_barrier s pwq barr target worker).lists h = s.lists h) ∧
      (insert_wq_barrier s pwq barr target worker).work_entry barr = some H ∧
      (insert_wq_barrier s pwq barr target worker).work_func barr = wq_barrier_func ∧
      (insert_wq_barrier s pwq barr target worker).work_data barr &&& WORK_STRUCT_INACTIVE ≠ 0 ∧
      work_pending (insert_wq_barrier s pwq barr target worker) barr = true ∧
      get_work_pwq (insert_wq_barrier s pwq barr target worker) barr = pwq ∧
      get_work_color ((insert_wq_barrier s pwq barr target worker).work_data barr) =
        get_work_color (s.work_data target) ∧
      ((insert_wq_barrier s pwq barr target worker).work_data barr &&& WORK_STRUCT_LINKED = 0 ↔
        s.work_data target &&& WORK_STRUCT_LINKED = 0) ∧
      (insert_wq_barrier s pwq barr target worker).work_data target =
        s.work_data target ||| WORK_STRUCT_LINKED ∧
      (insert_wq_barrier s pwq barr target worker).work_data target &&& WORK_STRUCT_LINKED ≠ 0 ∧
      (∀ y, y ≠ barr → y ≠ target →
        (insert_wq_barrier s pwq barr target worker).work_data y = s.work_data y) ∧
      (∀ p c, (insert_wq_barrier s pwq barr target worker).pwq_nr_in_flight p c =
        s.pwq_nr_in_flight p c +
          if p = pwq ∧ c = get_work_color (s.work_data target) then 1 else 0)) ∧
    (worker ≠ 0 → 0 ≤ s.worker_current_color worker → s.worker_current_color worker < 16 →
      (∀ x, x ∈ s.lists (list_head.scheduled worker) ↔
        s.work_entry x = some (list_head.scheduled worker)) →
      (insert_wq_barrier s pwq barr target worker).lists (list_head.scheduled worker) =
        barr :: s.lists (list_head.scheduled worker) ∧
      (∀ h, h ≠ list_head.scheduled worker →
        (insert_wq_barrier s pwq barr target worker).lists h = s.lists h) ∧
      (insert_wq_barrier s pwq barr target worker).work_entry barr =
        some (list_head.scheduled worker) ∧
      (insert_wq_barrier s pwq barr target worker).work_func barr = wq_barrier_func ∧
      (insert_wq_barrier s pwq barr target worker).work_data barr &&& WORK_STRUCT_INACTIVE ≠ 0 ∧
      work_pending (insert_wq_barrier s pwq barr target worker) barr = true ∧
      get_work_pwq (insert_wq_barrier s pwq barr target worker) barr = pwq ∧
      get_work_color ((insert_wq_barrier s pwq barr target worker).work_data barr) =
        s.worker_current_color worker ∧
      (insert_wq_barrier s pwq barr target worker).work_data barr &&& WORK_STRUCT_LINKED = 0 ∧
      (∀ y, y ≠ barr →
        (insert_wq_barrier s pwq barr target worker).work_data y = s.work_data y) ∧
      (∀ p c, (insert_wq_barrier s pwq barr target worker).pwq_nr_in_flight p c =
        s.pwq_nr_in_flight p c +
          if p = pwq ∧ c = s.worker_current_color worker then 1 else 0)) ∧
    (insert_wq_barrier s pwq barr target worker).pwq_nr_active = s.pwq_nr_active ∧
    (∀ y, y ≠ barr → (insert_wq_barrier s pwq barr target worker).work_entry y =
      s.work_entry y) := by
  have hcnt : ∀ (f : Nat → Int → Int) (col : Int) (p : Nat) (c : Int),
      Function.update f pwq (Function.update (f pwq) col (f pwq col + 1)) p c =
        f p c + if p = pwq ∧ c = col then 1 else 0 := by
    intro f col p c
    by_cases hp1 : p = pwq
    · subst hp1
      by_cases hc1 : c = col
      · subst hc1; simp
      · simp [hc1]
    · simp [hp1]
  refine ⟨?_, ?_, ?_, ?_⟩
  · rintro rfl H ht hnd hmem
    have hbt : barr ≠ target := by
      intro e; rw [e] at hb; rw [hb] at ht; exact absurd ht (by simp)
    obtain ⟨v1, v2, v3, v4, v5⟩ := insert_wq_barrier_after_fields s pwq barr target H hbt hb ht
      hnd hmem
    obtain ⟨c0, c1⟩ := get_work_color_lt (s.work_data target)
    obtain ⟨f1, f2, f3⟩ := barrier_flags_views (s.work_data target) _ c0 c1
    obtain ⟨w1, w2, w3, w4, w5, w6⟩ := queued_word_views pwq _ hal.1 hal.2 f1
    obtain ⟨sp1, _, _⟩ := nodup_split target (s.lists H) ((hmem target).2 ht)
    have hbd : (insert_wq_barrier s pwq barr target 0).work_data barr =
        (pwq ||| (WORK_STRUCT_PENDING ||| WORK_STRUCT_PWQ |||
          (WORK_STRUCT_INACTIVE ||| (s.work_data target &&& WORK_STRUCT_LINKED) |||
            work_color_to_flags (get_work_color (s.work_data target))))) := by
      rw [v2, Function.update_same]
    refine ⟨⟨_, _, sp1, by rw [v4, Function.update_same]⟩, ?_, by rw [v3, Function.update_same],
      by rw [v1, Function.update_same], ?_, ?_, ?_, ?_, ?_, ?_, ?_, ?_, ?_⟩
    · intro h hh
      rw [v4, Function.update_noteq hh]
    · rw [hbd]
      intro e
      rw [w4.1 e] at f2
      exact absurd f2 (by simp)
    · unfold work_pending work_data_bits
      rw [hbd]
      exact decide_eq_true w3
    · unfold get_work_pwq work_data_bits
      rw [hbd, if_pos w2, w1]
    · rw [hbd, w6]
      have hg : WORK_STRUCT_INACTIVE ||| (s.work_data target &&& WORK_STRUCT_LINKED) < 16 := by
        apply Nat.or_lt_two_pow (n := 4) (by decide)
        exact lt_of_le_of_lt Nat.and_le_right (by decide)
      exact get_work_color_flags _ _ hg c0 c1
    · rw [hbd, w5, f3]
      show (s.work_data target).testBit 3 = false ↔ s.work_data target &&& (1 <<< 3) = 0
      rw [and_bit_eq_zero]
    · rw [v2, Function.update_noteq hbt.symm, Function.update_same]
    · rw [v2, Function.update_noteq hbt.symm, Function.update_same]
      exact (or_linked_views _).2.2.2.2
    · intro y hy1 hy2
      rw [v2, Function.update_noteq hy1, Function.update_noteq hy2]
    · intro p c
      rw [v5]
      exact hcnt _ _ p c
  · intro hk c0 c1 hmem
    have e0 : insert_wq_barrier s pwq barr target worker = insert_wq_barrier s pwq barr 0 worker := by
      unfold insert_wq_barrier
      simp only []
      rw [if_pos hk, if_pos hk]
    rw [e0]
    obtain ⟨v1, v2, v3, v4, v5⟩ := insert_wq_barrier_front_fields s pwq barr worker hk hb hmem
    obtain ⟨f1, f2, f3⟩ := barrier_flags_views_front (s.worker_current_color worker) c0 c1
    obtain ⟨w1, w2, w3, w4, w5, w6⟩ := queued_word_views pwq _ hal.1 hal.2 f1
    have hbd : (insert_wq_barrier s pwq barr 0 worker).work_data barr =
        (pwq ||| (WORK_STRUCT_PENDING ||| WORK_STRUCT_PWQ |||
          (WORK_STRUCT_INACTIVE ||| work_color_to_flags (s.worker_current_color worker)))) := by
      rw [v2, Function.update_same]
    refine ⟨by rw [v4, Function.update_same], ?_, by rw [v3, Function.update_same],
      by rw [v1, Function.update_same], ?_, ?_, ?_, ?_, ?_, ?_, ?_⟩
    · intro h hh
      rw [v4, Function.update_noteq hh]
    · rw [hbd]
      intro e
      rw [w4.1 e] at f2
      exact absurd f2 (by simp)
    · unfold work_pending work_data_bits
      rw [hbd]
      exact decide_eq_true w3
    · unfold get_work_pwq work_data_bits
      rw [hbd, if_pos w2, w1]
    · rw [hbd, w6]
      exact get_work_color_flags _ _ (by decide) c0 c1
    · rw [hbd]
      exact w5.2 f3
    · intro y hy
      rw [v2, Function.update_noteq hy]
    · intro p c
      rw [v5]
      exact hcnt _ _ p c
  · show insert_wq_barrier _ _ _ _ _ .pwq_nr_active = s .pwq_nr_active
    simp
  · intro y hy
    by_cases hk : worker = 0
    · subst hk
      unfold insert_wq_barrier
      simp [insert_work, list_add_tail, INIT_WORK_ONSTACK, __set_bit, State.work_entry, hy]
    · unfold insert_wq_barrier
      simp [hk, insert_work, list_add_tail, INIT_WORK_ONSTACK, __set_bit, State.work_entry, hy]

theorem insert_wq_barrier_contract_witness :
    (ex_backlog.work_entry 2000 = none ∧ aligned_pwq 256 ∧
      ex_backlog.work_entry 1000 = some (list_head.worklist 64)) ∧
    (insert_wq_barrier ex_backlog 256 2000 1000 0).work_entry 2000 =
      some (list_head.worklist 64) ∧
    get_work_color ((insert_wq_barrier ex_backlog 256 2000 1000 0).work_data 2000) =
      get_work_color (ex_backlog.work_data 1000) ∧
    (insert_wq_barrier ex_backlog 256 2000 1000 0).pwq_nr_active = ex_backlog.pwq_nr_active := by
  have h := insert_wq_barrier_contract ex_backlog 256 2000 1000 0 (by decide) (by decide)
  have hA := h.1 rfl (list_head.worklist 64) (by decide) (by decide)
    ((reachable_inv ex_backlog Reachable_ex_backlog).l.mem_entry (list_head.worklist 64))
  exact ⟨by decide, hA.2.2.1, hA.2.2.2.2.2.2.2.1, h.2.2.1⟩

/-! ## The contract of `flush_workqueue_prep_pwqs` -/

theorem flush_workqueue_prep_pwq_frame (s : State) (wq pwq : Nat) (fc wc : Int) (wait : Bool)
    (g : Field) (h1 : g ≠ .pwq_flush_color) (h2 : g ≠ .wq_nr_pwqs_to_flush)
    (h3 : g ≠ .pwq_work_color) : (flush_workqueue_prep_pwq s wq pwq fc wc wait).2 g = s g := by
  unfold flush_workqueue_prep_pwq
  dsimp only
  split_ifs <;> simp [h1, h2, h3]

theorem flush_workqueue_prep_pwq_fields (s : State) (wq pwq : Nat) (fc wc : Int) (wait : Bool) :
    (flush_workqueue_prep_pwq s wq pwq fc wc wait).1 =
      (wait || decide (fc ≥ 0 ∧ s.pwq_nr_in_flight pwq fc ≠ 0)) ∧
    (flush_workqueue_prep_pwq s wq pwq fc wc wait).2.pwq_flush_color =
      (if fc ≥ 0 ∧ s.pwq_nr_in_flight pwq fc ≠ 0 then Function.update s.pwq_flush_color pwq fc
        else s.pwq_flush_color) ∧
    (flush_workqueue_prep_pwq s wq pwq fc wc wait).2.wq_nr_pwqs_to_flush =
      (if fc ≥ 0 ∧ s.pwq_nr_in_flight pwq fc ≠ 0 then
        Function.update s.wq_nr_pwqs_to_flush wq (s.wq_nr_pwqs_to_flush wq + 1)
        else s.wq_nr_pwqs_to_flush) ∧
    (flush_workqueue_prep_pwq s wq pwq fc wc wait).2.pwq_work_color =
      (if wc ≥ 0 then Function.update s.pwq_work_color pwq wc else s.pwq_work_color) := by
  unfold flush_workqueue_prep_pwq
  dsimp only
  by_cases h1 : fc ≥ 0 ∧ s.pwq_nr_in_flight pwq fc ≠ 0 <;> by_cases h2 : wc ≥ 0 <;>
    simp [h1, h2, State.pwq_flush_color, State.wq_nr_pwqs_to_flush, State.pwq_work_color]

theorem flush_workqueue_prep_pwqs_loop_frame (l : List Nat) (s : State) (wq : Nat) (fc wc : Int)
    (wait : Bool) (g : Field) (h1 : g ≠ .pwq_flush_color) (h2 : g ≠ .wq_nr_pwqs_to_flush)
    (h3 : g ≠ .pwq_work_color) :
    (flush_workqueue_prep_pwqs_loop l s wq fc wc wait).2 g = s g := by
  induction l generalizing s wait with
  | nil => rfl
  | cons p l ih =>
    unfold flush_workqueue_prep_pwqs_loop
    rw [ih, flush_workqueue_prep_pwq_frame s wq p fc wc wait g h1 h2 h3]

/-- The loop of `flush_workqueue_prep_pwqs` over the list `l`. -/
theorem flush_workqueue_prep_pwqs_loop_fields (l : List Nat) (s : State) (wq : Nat) (fc wc : Int)
    (wait : Bool) :
    (flush_workqueue_prep_pwqs_loop l s wq fc wc wait).1 =
      (wait || decide (fc ≥ 0 ∧ l.countP (fun p => decide (s.pwq_nr_in_flight p fc ≠ 0)) ≠ 0)) ∧
    (∀ p, (flush_workqueue_prep_pwqs_loop l s wq fc wc wait).2.pwq_flush_color p =
      if p ∈ l ∧ fc ≥ 0 ∧ s.pwq_nr_in_flight p fc ≠ 0 then fc else s.pwq_flush_color p) ∧
    (∀ q, (flush_workqueue_prep_pwqs_loop l s wq fc wc wait).2.wq_nr_pwqs_to_flush q =
      s.wq_nr_pwqs_to_flush q + if q = wq ∧ fc ≥ 0 then
        (l.countP (fun p => decide (s.pwq_nr_in_flight p fc ≠ 0)) : Int) else 0) ∧
    (∀ p, (flush_workqueue_prep_pwqs_loop l s wq fc wc wait).2.pwq_work_color p =
      if p ∈ l ∧ wc ≥ 0 then wc else s.pwq_work_color p) := by
  induction l generalizing s wait with
  | nil =>
    unfold flush_workqueue_prep_pwqs_loop
    simp
  | cons a l ih =>
    unfold flush_workqueue_prep_pwqs_loop
    obtain ⟨f1, f2, f3, f4⟩ := flush_workqueue_prep_pwq_fields s wq a fc wc wait
    have hnf : (flush_workqueue_prep_pwq s wq a fc wc wait).2.pwq_nr_in_flight =
        s.pwq_nr_in_flight :=
      flush_workqueue_prep_pwq_frame s wq a fc wc wait .pwq_nr_in_flight (by simp) (by simp)
        (by simp)
    obtain ⟨i1, i2, i3, i4⟩ := ih (flush_workqueue_prep_pwq s wq a fc wc wait).2
      (flush_workqueue_prep_pwq s wq a fc wc wait).1
    rw [hnf] at i1 i2 i3
    refine ⟨?_, ?_, ?_, ?_⟩
    · rw [i1, f1, List.countP_cons]
      by_cases h0 : fc ≥ 0 <;> by_cases h1 : s.pwq_nr_in_flight a fc ≠ 0 <;>
        simp [h0, h1]
    · intro p
      rw [i2 p, f2]
      by_cases hp : p = a
      · subst hp
        by_cases h1 : fc ≥ 0 ∧ s.pwq_nr_in_flight p fc ≠ 0
        · simp [h1]
        · simp [h1]
      · by_cases h1 : fc ≥ 0 ∧ s.pwq_nr_in_flight a fc ≠ 0
        · simp [h1, hp, Function.update_noteq hp]
        · simp [h1, hp]
    · intro q
      rw [i3 q, f3, List.countP_cons]
      by_cases hq : q = wq
      · subst hq
        by_cases h0 : fc ≥ 0
        · by_cases h1 : s.pwq_nr_in_flight a fc ≠ 0
          · simp [h0, h1]
            ring
          · simp [h0, h1]
        · simp [h0]
      · by_cases h1 : fc ≥ 0 ∧ s.pwq_nr_in_flight a fc ≠ 0
        · simp [h1, hq, Function.update_noteq hq]
        · simp [h1, hq]
    · intro p
      rw [i4 p, f4]
      by_cases hp : p = a
      · subst hp
        by_cases h2 : wc ≥ 0
        · simp [h2]
        · simp [h2]
      · by_cases h2 : wc ≥ 0
        · simp [h2, hp, Function.update_noteq hp]
        · simp [h2, hp]

theorem flush_workqueue_prep_pwqs_frame (s : State) (wq : Nat) (fc wc : Int) (g : Field)
    (h1 : g ≠ .pwq_flush_color) (h2 : g ≠ .wq_nr_pwqs_to_flush) (h3 : g ≠ .pwq_work_color)
    (h4 : g ≠ .flusher_done) : (flush_workqueue_prep_pwqs s wq fc wc).2 g = s g := by
  unfold flush_workqueue_prep_pwqs
  dsimp only
  split_ifs <;>
    simp [h1, h2, h3, h4, flush_workqueue_prep_pwqs_loop_frame, complete_flusher]

/-- The effect of `flush_workqueue_prep_pwqs` on the flush fields. -/
theorem flush_workqueue_prep_pwqs_fields (s : State) (wq : Nat) (fc wc : Int) :
    (flush_workqueue_prep_pwqs s wq fc wc).1 = decide (fc ≥ 0 ∧
      (s.wq_pwqs wq).countP (fun p => decide (s.pwq_nr_in_flight p fc ≠ 0)) ≠ 0) ∧
    (∀ p, (flush_workqueue_prep_pwqs s wq fc wc).2.pwq_flush_color p =
      if p ∈ s.wq_pwqs wq ∧ fc ≥ 0 ∧ s.pwq_nr_in_flight p fc ≠ 0 then fc
      else s.pwq_flush_color p) ∧
    (∀ q, (flush_workqueue_prep_pwqs s wq fc wc).2.wq_nr_pwqs_to_flush q =
      if q = wq ∧ fc ≥ 0 then
        ((s.wq_pwqs wq).countP (fun p => decide (s.pwq_nr_in_flight p fc ≠ 0)) : Int)
      else s.wq_nr_pwqs_to_flush q) ∧
    (∀ p, (flush_workqueue_prep_pwqs s wq fc wc).2.pwq_work_color p =
      if p ∈ s.wq_pwqs wq ∧ wc ≥ 0 then wc else s.pwq_work_color p) ∧
    (∀ f, (flush_workqueue_prep_pwqs s wq fc wc).2.flusher_done f =
      s.flusher_done f + if f = s.wq_first_flusher wq ∧ fc ≥ 0 ∧
        (s.wq_pwqs wq).countP (fun p => decide (s.pwq_nr_in_flight p fc ≠ 0)) = 0 then 1
      else 0) := by
  by_cases h0 : fc ≥ 0
  · generalize hs1 : s.set .wq_nr_pwqs_to_flush (Function.update s.wq_nr_pwqs_to_flush wq 1) = s1
    have e1 : s1.wq_pwqs = s.wq_pwqs := by rw [← hs1]; rfl
    have e2 : s1.pwq_nr_in_flight = s.pwq_nr_in_flight := by rw [← hs1]; rfl
    have e3 : s1.pwq_flush_color = s.pwq_flush_color := by rw [← hs1]; rfl
    have e4 : s1.pwq_work_color = s.pwq_work_color := by rw [← hs1]; rfl
    have e5 : s1.wq_nr_pwqs_to_flush = Function.update s.wq_nr_pwqs_to_flush wq 1 := by
      rw [← hs1]; rfl
    have e6 : s1.flusher_done = s.flusher_done := by rw [← hs1]; rfl
    have e7 : s1.wq_first_flusher = s.wq_first_flusher := by rw [← hs1]; rfl
    obtain ⟨l1, l2, l3, l4⟩ := flush_workqueue_prep_pwqs_loop_fields (s.wq_pwqs wq) s1 wq fc wc false
    rw [e2] at l1 l2 l3
    rw [e3] at l2
    rw [e4] at l4
    rw [e5] at l3
    have l5 : (flush_workqueue_prep_pwqs_loop (s.wq_pwqs wq) s1 wq fc wc false).2.flusher_done =
        s.flusher_done := by
      rw [← e6]
      exact flush_workqueue_prep_pwqs_loop_frame _ s1 wq fc wc false .flusher_done (by simp)
        (by simp) (by simp)
    have l6 : (flush_workqueue_prep_pwqs_loop (s.wq_pwqs wq) s1 wq fc wc false).2.wq_first_flusher =
        s.wq_first_flusher := by
      rw [← e7]
      exact flush_workqueue_prep_pwqs_loop_frame _ s1 wq fc wc false .wq_first_flusher (by simp)
        (by simp) (by simp)
    generalize hr : flush_workqueue_prep_pwqs_loop (s.wq_pwqs wq) s1 wq fc wc false = r
      at l1 l2 l3 l4 l5 l6
    have hdef : flush_workqueue_prep_pwqs s wq fc wc =
        if (r.2.wq_nr_pwqs_to_flush wq - 1 = 0) then
          (r.1, complete_flusher (r.2.set .wq_nr_pwqs_to_flush
            (Function.update r.2.wq_nr_pwqs_to_flush wq (r.2.wq_nr_pwqs_to_flush wq - 1)))
            (r.2.wq_first_flusher wq))
        else (r.1, (r.2.set .wq_nr_pwqs_to_flush
            (Function.update r.2.wq_nr_pwqs_to_flush wq (r.2.wq_nr_pwqs_to_flush wq - 1)))) := by
      unfold flush_workqueue_prep_pwqs
      simp only [if_pos h0, hs1, e1, hr]
      simp [State.wq_nr_pwqs_to_flush, State.wq_first_flusher]
    have hcnt : r.2.wq_nr_pwqs_to_flush wq - 1 =
        ((s.wq_pwqs wq).countP (fun p => decide (s.pwq_nr_in_flight p fc ≠ 0)) : Int) := by
      rw [l3 wq]
      simp [h0]
    rw [hdef]
    by_cases hz : (s.wq_pwqs wq).countP (fun p => decide (s.pwq_nr_in_flight p fc ≠ 0)) = 0
    · have hz2 : r.2.wq_nr_pwqs_to_flush wq - 1 = 0 := by rw [hcnt, hz]; rfl
      rw [if_pos hz2]
      refine ⟨?_, ?_, ?_, ?_, ?_⟩
      · show r.1 = _
        rw [l1]
        simp [h0, hz]
      · intro p
        show r.2.pwq_flush_color p = _
        exact l2 p
      · intro q
        show Function.update r.2.wq_nr_pwqs_to_flush wq (r.2.wq_nr_pwqs_to_flush wq - 1) q = _
        by_cases hq : q = wq
        · subst hq
          rw [Function.update_same, hcnt]
          simp [h0]
        · rw [Function.update_noteq hq, l3 q]
          simp [hq, Function.update_noteq hq]
      · intro p
        show r.2.pwq_work_color p = _
        exact l4 p
      · intro f
        show Function.update r.2.flusher_done (r.2.wq_first_flusher wq)
          (r.2.flusher_done (r.2.wq_first_flusher wq) + 1) f = _
        rw [l5, l6]
        by_cases hf : f = s.wq_first_flusher wq
        · rw [hf, Function.update_same, if_pos ⟨rfl, h0, hz⟩]
        · rw [Function.update_noteq hf, if_neg (fun h => hf h.1), add_zero]
    · have hz2 : ¬ (r.2.wq_nr_pwqs_to_flush wq - 1 = 0) := by
        rw [hcnt]
        exact_mod_cast hz
      rw [if_neg hz2]
      refine ⟨?_, ?_, ?_, ?_, ?_⟩
      · show r.1 = _
        rw [l1]
        simp [h0, hz]
      · intro p
        show r.2.pwq_flush_color p = _
        exact l2 p
      · intro q
        show Function.update r.2.wq_nr_pwqs_to_flush wq (r.2.wq_nr_pwqs_to_flush wq - 1) q = _
        by_cases hq : q = wq
        · subst hq
          rw [Function.update_same, hcnt]
          simp [h0]
        · rw [Function.update_noteq hq, l3 q]
          simp [hq, Function.update_noteq hq]
      · intro p
        show r.2.pwq_work_color p = _
        exact l4 p
      · intro f
        show r.2.flusher_done f = _
        rw [l5, if_neg (fun h => hz h.2.2), add_zero]
  · obtain ⟨l1, l2, l3, l4⟩ := flush_workqueue_prep_pwqs_loop_fields (s.wq_pwqs wq) s wq fc wc false
    have l5 := flush_workqueue_prep_pwqs_loop_frame (s.wq_pwqs wq) s wq fc wc false .flusher_done
      (by simp) (by simp) (by simp)
    have hdef : flush_workqueue_prep_pwqs s wq fc wc =
        flush_workqueue_prep_pwqs_loop (s.wq_pwqs wq) s wq fc wc false := by
      unfold flush_workqueue_prep_pwqs
      simp only [if_neg h0]
    rw [hdef]
    refine ⟨?_, ?_, ?_, ?_, ?_⟩
    · rw [l1]
      simp [h0]
    · exact l2
    · intro q
      rw [l3 q]
      simp [h0]
    · exact l4
    · intro f
      show (flush_workqueue_prep_pwqs_loop (s.wq_pwqs wq) s wq fc wc false).2 .flusher_done f = _
      rw [l5]
      simp [h0]

/-- C16: for a workqueue whose pool_workqueues all have `flush_color` -1 and hold no negative
`nr_in_flight`, and a target colour `c ≥ 0`, `flush_workqueue_prep_pwqs` sets `flush_color`
to `c` on exactly the pool_workqueues of the workqueue with `nr_in_flight[c] > 0` and leaves
the others at -1; `nr_pwqs_to_flush` ends as the number of pool_workqueues it marked; the
result is true exactly when that number is not zero; when it is zero the first flusher is
completed (its `done` is incremented), otherwise no completion is signalled.  With a
negative target colour no `flush_color`, `nr_pwqs_to_flush` or completion changes and the
result is false.  A non-negative `work_color` argument is stored in every pool_workqueue of
the workqueue, a negative one changes no `work_color`; no `nr_in_flight` changes. -/
theorem flush_workqueue_prep_pwqs_contract (s : State) (wq : Nat) (c work_color : Int) :
    (0 ≤ c → (∀ p ∈ s.wq_pwqs wq, s.pwq_flush_color p = -1) →
      (∀ p ∈ s.wq_pwqs wq, 0 ≤ s.pwq_nr_in_flight p c) →
      (∀ p ∈ s.wq_pwqs wq, (flush_workqueue_prep_pwqs s wq c work_color).2.pwq_flush_color p =
        if 0 < s.pwq_nr_in_flight p c then c else -1) ∧
      (∀ p, p ∉ s.wq_pwqs wq →
        (flush_workqueue_prep_pwqs s wq c work_color).2.pwq_flush_color p =
          s.pwq_flush_color p) ∧
      (flush_workqueue_prep_pwqs s wq c work_color).2.wq_nr_pwqs_to_flush wq =
        (((s.wq_pwqs wq).countP (fun p => decide (0 < s.pwq_nr_in_flight p c)) : Nat) : Int) ∧
      ((flush_workqueue_prep_pwqs s wq c work_color).1 = true ↔
        (s.wq_pwqs wq).countP (fun p => decide (0 < s.pwq_nr_in_flight p c)) ≠ 0) ∧
      ((s.wq_pwqs wq).countP (fun p => decide (0 < s.pwq_nr_in_flight p c)) = 0 →
        (flush_workqueue_prep_pwqs s wq c work_color).2.flusher_done (s.wq_first_flusher wq) =
          s.flusher_done (s.wq_first_flusher wq) + 1) ∧
      (∀ f, f ≠ s.wq_first_flusher wq ∨
          (s.wq_pwqs wq).countP (fun p => decide (0 < s.pwq_nr_in_flight p c)) ≠ 0 →
        (flush_workqueue_prep_pwqs s wq c work_color).2.flusher_done f = s.flusher_done f)) ∧
    (c < 0 → (flush_workqueue_prep_pwqs s wq c work_color).1 = false ∧
      (flush_workqueue_prep_pwqs s wq c work_color).2.pwq_flush_color = s.pwq_flush_color ∧
      (flush_workqueue_prep_pwqs s wq c work_color).2.wq_nr_pwqs_to_flush =
        s.wq_nr_pwqs_to_flush ∧
      (flush_workqueue_prep_pwqs s wq c work_color).2.flusher_done = s.flusher_done) ∧
    (∀ p, (flush_workqueue_prep_pwqs s wq c work_color).2.pwq_work_color p =
      if p ∈ s.wq_pwqs wq ∧ 0 ≤ work_color then work_color else s.pwq_work_color p) ∧
    (flush_workqueue_prep_pwqs s wq c work_color).2.pwq_nr_in_flight = s.pwq_nr_in_flight := by
  obtain ⟨f1, f2, f3, f4, f5⟩ := flush_workqueue_prep_pwqs_fields s wq c work_color
  refine ⟨?_, ?_, f4, ?_⟩
  · intro h0 hfc hnn
    have hcp : (s.wq_pwqs wq).countP (fun p => decide (s.pwq_nr_in_flight p c ≠ 0)) =
        (s.wq_pwqs wq).countP (fun p => decide (0 < s.pwq_nr_in_flight p c)) := by
      apply List.countP_congr
      intro p hp
      have := hnn p hp
      simp only [decide_eq_true_eq]
      omega
    rw [hcp] at f1 f3 f5
    refine ⟨?_, ?_, ?_, ?_, ?_, ?_⟩
    · intro p hp
      rw [f2 p, hfc p hp]
      have := hnn p hp
      by_cases hpos : 0 < s.pwq_nr_in_flight p c
      · rw [if_pos hpos, if_pos ⟨hp, h0, by omega⟩]
      · rw [if_neg hpos, if_neg (fun h => h.2.2 (by omega))]
    · intro p hp
      rw [f2 p, if_neg (fun h => hp h.1)]
    · rw [f3 wq, if_pos ⟨rfl, h0⟩]
    · rw [f1]
      simp [h0]
    · intro hz
      rw [f5, if_pos ⟨rfl, h0, hz⟩]
    · intro f hf
      rw [f5, if_neg, add_zero]
      rintro ⟨a1, _, a3⟩
      rcases hf with hf | hf
      · exact hf a1
      · exact hf a3
  · intro hneg
    have hn : ¬ c ≥ 0 := by omega
    refine ⟨?_, ?_, ?_, ?_⟩
    · rw [f1]
      simp [hn]
    · funext p
      rw [f2 p, if_neg (fun h => hn h.2.1)]
    · funext q
      rw [f3 q, if_neg (fun h => hn h.2)]
    · funext f
      rw [f5 f, if_neg (fun h => hn h.2.1), add_zero]
  · exact flush_workqueue_prep_pwqs_frame s wq c work_color .pwq_nr_in_flight (by simp) (by simp)
      (by simp) (by simp)

theorem flush_workqueue_prep_pwqs_contract_witness :
    ((0 : Int) ≤ 0 ∧ (∀ p ∈ ex_flushable.wq_pwqs 32, ex_flushable.pwq_flush_color p = -1) ∧
      ex_flushable.pwq_nr_in_flight 256 0 = 2) ∧
    (flush_workqueue_prep_pwqs ex_flushable 32 0 1).2.pwq_flush_color 256 = 0 ∧
    (flush_workqueue_prep_pwqs ex_flushable 32 0 1).2.wq_nr_pwqs_to_flush 32 = 1 := by
  have h := (flush_workqueue_prep_pwqs_contract ex_flushable 32 0 1).1 (by decide) (by decide)
    (by decide)
  refine ⟨by decide, ?_, ?_⟩
  · have := h.1 256 (by decide)
    rw [this]
    decide
  · rw [h.2.2.1]
    decide

/-! ## The start-to-wait phase of `__flush_workqueue` -/

theorem work_next_color_ne (c : Int) : work_next_color c ≠ c := by
  unfold work_next_color
  show Int.tmod (c + 1) 16 ≠ c
  intro h
  have h1 := Int.tmod_add_tdiv (c + 1) 16
  rcases le_or_lt 0 (c + 1) with hc | hc
  · have := Int.tmod_lt_of_pos (c + 1) (by decide : (0 : Int) < 16)
    have h2 := Int.tmod_nonneg 16 hc
    rw [Int.tmod_eq_emod hc (by decide)] at h
    omega
  · obtain ⟨m, hm⟩ := Int.eq_negSucc_of_lt_zero hc
    rw [hm] at h
    have h2 : Int.tmod (Int.negSucc m) 16 = -(((m + 1) % 16 : Nat) : Int) := rfl
    rw [h2] at h
    rw [Int.negSucc_eq] at hm
    omega

theorem work_next_color_range (c : Int) (h : 0 ≤ c) :
    0 ≤ work_next_color c ∧ work_next_color c < 16 := by
  unfold work_next_color
  show 0 ≤ Int.tmod (c + 1) 16 ∧ Int.tmod (c + 1) 16 < 16
  rw [Int.tmod_eq_emod (by omega) (by decide)]
  omega

theorem start_full (s : State) (wq flusher : Nat)
    (h : work_next_color (s.wq_work_color wq) = s.wq_flush_color wq) :
    __flush_workqueue_start s wq flusher =
      (true, ((init_flusher s flusher).set .wq_flusher_overflow
        (Function.update s.wq_flusher_overflow wq (s.wq_flusher_overflow wq ++ [flusher])))) := by
  unfold __flush_workqueue_start
  simp only []
  have h2 : ¬ (work_next_color ((init_flusher s flusher).wq_work_color wq) ≠
      (init_flusher s flusher).wq_flush_color wq) := not_not.2 h
  rw [if_neg h2]
  rfl

/-- The state in which `__flush_workqueue` calls `flush_workqueue_prep_pwqs` as the first
flusher. -/
theorem start_first (s : State) (wq flusher : Nat)
    (h : work_next_color (s.wq_work_color wq) ≠ s.wq_flush_color wq)
    (hf : s.wq_first_flusher wq = 0) :
    ∃ s2 : State,
      s2.flusher_flush_color = Function.update
        (Function.update s.flusher_flush_color flusher (-1)) flusher (s.wq_work_color wq) ∧
      s2.flusher_done = Function.update s.flusher_done flusher 0 ∧
      s2.wq_work_color = Function.update s.wq_work_color wq
        (work_next_color (s.wq_work_color wq)) ∧
      s2.wq_first_flusher = Function.update s.wq_first_flusher wq flusher ∧
      (∀ g, g ≠ .flusher_flush_color → g ≠ .flusher_done → g ≠ .wq_work_color →
        g ≠ .wq_first_flusher → s2 g = s g) ∧
      __flush_workqueue_start s wq flusher =
        if (flush_workqueue_prep_pwqs s2 wq (s.wq_flush_color wq)
            (s2.wq_work_color wq)).1 = false then
          (false, ((flush_workqueue_prep_pwqs s2 wq (s.wq_flush_color wq)
              (s2.wq_work_color wq)).2
            |>.set .wq_flush_color (Function.update
                (flush_workqueue_prep_pwqs s2 wq (s.wq_flush_color wq)
                  (s2.wq_work_color wq)).2.wq_flush_color wq
                (work_next_color (s.wq_work_color wq)))
            |>.set .wq_first_flusher (Function.update
                (flush_workqueue_prep_pwqs s2 wq (s.wq_flush_color wq)
                  (s2.wq_work_color wq)).2.wq_first_flusher wq 0)))
        else (true, (flush_workqueue_prep_pwqs s2 wq (s.wq_flush_color wq)
            (s2.wq_work_color wq)).2) := by
  refine ⟨(((init_flusher s flusher)
      |>.set .flusher_flush_color (Function.update (init_flusher s flusher).flusher_flush_color
          flusher ((init_flusher s flusher).wq_work_color wq))
      |>.set .wq_work_color (Function.update (init_flusher s flusher).wq_work_color wq
          (work_next_color ((init_flusher s flusher).wq_work_color wq)))).set .wq_first_flusher
        (Function.update s.wq_first_flusher wq flusher)), rfl, rfl, rfl, rfl, ?_, ?_⟩
  · intro g h1 h2 h3 h4
    simp [init_flusher, h1, h2, h3, h4]
  · unfold __flush_workqueue_start
    simp only []
    have h2 : work_next_color ((init_flusher s flusher).wq_work_color wq) ≠
        (init_flusher s flusher).wq_flush_color wq := h
    rw [if_pos h2]
    have h3 : ((init_flusher s flusher
      |>.set .flusher_flush_color (Function.update (init_flusher s flusher).flusher_flush_color
          flusher ((init_flusher s flusher).wq_work_color wq))
      |>.set .wq_work_color (Function.update (init_flusher s flusher).wq_work_color wq
          (work_next_color ((init_flusher s flusher).wq_work_color wq))))).wq_first_flusher wq
        = 0 := hf
    rw [if_pos h3]
    rfl

/-- The state in which `__flush_workqueue` calls `flush_workqueue_prep_pwqs` after it was
appended to `flusher_queue`. -/
theorem start_queued (s : State) (wq flusher : Nat)
    (h : work_next_color (s.wq_work_color wq) ≠ s.wq_flush_color wq)
    (hf : s.wq_first_flusher wq ≠ 0) :
    ∃ s2 : State,
      s2.flusher_flush_color = Function.update
        (Function.update s.flusher_flush_color flusher (-1)) flusher (s.wq_work_color wq) ∧
      s2.flusher_done = Function.update s.flusher_done flusher 0 ∧
      s2.wq_work_color = Function.update s.wq_work_color wq
        (work_next_color (s.wq_work_color wq)) ∧
      s2.wq_flusher_queue = Function.update s.wq_flusher_queue wq
        (s.wq_flusher_queue wq ++ [flusher]) ∧
      (∀ g, g ≠ .flusher_flush_color → g ≠ .flusher_done → g ≠ .wq_work_color →
        g ≠ .wq_flusher_queue → s2 g = s g) ∧
      __flush_workqueue_start s wq flusher =
        (true, (flush_workqueue_prep_pwqs s2 wq (-1) (s2.wq_work_color wq)).2) := by
  refine ⟨(((init_flusher s flusher)
      |>.set .flusher_flush_color (Function.update (init_flusher s flusher).flusher_flush_color
          flusher ((init_flusher s flusher).wq_work_color wq))
      |>.set .wq_work_color (Function.update (init_flusher s flusher).wq_work_color wq
          (work_next_color ((init_flusher s flusher).wq_work_color wq)))).set .wq_flusher_queue
        (Function.update s.wq_flusher_queue wq (s.wq_flusher_queue wq ++ [flusher]))),
      rfl, rfl, rfl, rfl, ?_, ?_⟩
  · intro g h1 h2 h3 h4
    simp [init_flusher, h1, h2, h3, h4]
  · unfold __flush_workqueue_start
    simp only []
    have h2 : work_next_color ((init_flusher s flusher).wq_work_color wq) ≠
        (init_flusher s flusher).wq_flush_color wq := h
    rw [if_pos h2]
    have h3 : ¬ ((init_flusher s flusher
      |>.set .flusher_flush_color (Function.update (init_flusher s flusher).flusher_flush_color
          flusher ((init_flusher s flusher).wq_work_color wq))
      |>.set .wq_work_color (Function.update (init_flusher s flusher).wq_work_color wq
          (work_next_color ((init_flusher s flusher).wq_work_color wq))))).wq_first_flusher wq
        = 0 := hf
    rw [if_neg h3]
    rfl

/-- C15: the start-to-wait phase of `__flush_workqueue` on a workqueue with valid colours.  If
the colour space is not full (`work_next_color(wq->work_color) != wq->flush_color`) the
`flush_color` of the flusher is the old `wq->work_color`, and `wq->work_color` and the
`work_color` of every pool_workqueue of the workqueue advance to the next colour; the
overflow list is unchanged.  If there was no first flusher the flusher is not queued: it is
the first flusher and waits when something of the flush colour is in flight, and otherwise
it is completed at once, `first_flusher` is NULL again and `wq->flush_color` advances.  If
there was a first flusher it stays, the flusher is appended to the tail of `flusher_queue`
and waits, and no `flush_color` changes.  If the colour space is full the flusher is
appended to the tail of `flusher_overflow` and waits, and no colour, `first_flusher` or
`flusher_queue` changes. -/
theorem __flush_workqueue_start_contract (s : State) (wq flusher : Nat)
    (hw : 0 ≤ s.wq_work_color wq) (hc : 0 ≤ s.wq_flush_color wq) :
    (work_next_color (s.wq_work_color wq) ≠ s.wq_flush_color wq →
      (__flush_workqueue_start s wq flusher).2.flusher_flush_color flusher =
        s.wq_work_color wq ∧
      (__flush_workqueue_start s wq flusher).2.wq_work_color wq =
        work_next_color (s.wq_work_color wq) ∧
      (∀ p ∈ s.wq_pwqs wq, (__flush_workqueue_start s wq flusher).2.pwq_work_color p =
        work_next_color (s.wq_work_color wq)) ∧
      (__flush_workqueue_start s wq flusher).2.wq_flusher_overflow =
        s.wq_flusher_overflow ∧
      (s.wq_first_flusher wq = 0 →
        (__flush_workqueue_start s wq flusher).2.wq_flusher_queue = s.wq_flusher_queue ∧
        ((__flush_workqueue_start s wq flusher).1 = true ↔
          ∃ p ∈ s.wq_pwqs wq, s.pwq_nr_in_flight p (s.wq_flush_color wq) ≠ 0) ∧
        ((__flush_workqueue_start s wq flusher).1 = true →
          (__flush_workqueue_start s wq flusher).2.wq_first_flusher wq = flusher ∧
          (__flush_workqueue_start s wq flusher).2.wq_flush_color wq = s.wq_flush_color wq ∧
          (__flush_workqueue_start s wq flusher).2.flusher_done flusher = 0) ∧
        ((__flush_workqueue_start s wq flusher).1 = false →
          (__flush_workqueue_start s wq flusher).2.wq_first_flusher wq = 0 ∧
          (__flush_workqueue_start s wq flusher).2.wq_flush_color wq =
            work_next_color (s.wq_work_color wq) ∧
          (__flush_workqueue_start s wq flusher).2.flusher_done flusher = 1)) ∧
      (s.wq_first_flusher wq ≠ 0 →
        (__flush_workqueue_start s wq flusher).1 = true ∧
        (__flush_workqueue_start s wq flusher).2.wq_first_flusher = s.wq_first_flusher ∧
        (__flush_workqueue_start s wq flusher).2.wq_flusher_queue wq =
          s.wq_flusher_queue wq ++ [flusher] ∧
        (__flush_workqueue_start s wq flusher).2.wq_flush_color = s.wq_flush_color ∧
        (__flush_workqueue_start s wq flusher).2.pwq_flush_color = s.pwq_flush_color)) ∧
    (work_next_color (s.wq_work_color wq) = s.wq_flush_color wq →
      (__flush_workqueue_start s wq flusher).1 = true ∧
      (__flush_workqueue_start s wq flusher).2.wq_flusher_overflow wq =
        s.wq_flusher_overflow wq ++ [flusher] ∧
      (__flush_workqueue_start s wq flusher).2.flusher_flush_color flusher = -1 ∧
      (__flush_workqueue_start s wq flusher).2.wq_work_color = s.wq_work_color ∧
      (__flush_workqueue_start s wq flusher).2.wq_flush_color = s.wq_flush_color ∧
      (__flush_workqueue_start s wq flusher).2.pwq_work_color = s.pwq_work_color ∧
      (__flush_workqueue_start s wq flusher).2.pwq_flush_color = s.pwq_flush_color ∧
      (__flush_workqueue_start s wq flusher).2.wq_first_flusher = s.wq_first_flusher ∧
      (__flush_workqueue_start s wq flusher).2.wq_flusher_queue = s.wq_flusher_queue) := by
  obtain ⟨n0, n1⟩ := work_next_color_range _ hw
  refine ⟨?_, ?_⟩
  · intro hnf
    by_cases hf : s.wq_first_flusher wq = 0
    · obtain ⟨s2, a1, a2, a3, a4, a5, a6⟩ := start_first s wq flusher hnf hf
      have b1 : s2.wq_pwqs = s.wq_pwqs := a5 .wq_pwqs (by simp) (by simp) (by simp) (by simp)
      have b2 : s2.pwq_nr_in_flight = s.pwq_nr_in_flight :=
        a5 .pwq_nr_in_flight (by simp) (by simp) (by simp) (by simp)
      have b3 : s2.pwq_flush_color = s.pwq_flush_color :=
        a5 .pwq_flush_color (by simp) (by simp) (by simp) (by simp)
      have b4 : s2.pwq_work_color = s.pwq_work_color :=
        a5 .pwq_work_color (by simp) (by simp) (by simp) (by simp)
      have b5 : s2.wq_flush_color = s.wq_flush_color :=
        a5 .wq_flush_color (by simp) (by simp) (by simp) (by simp)
      have b6 : s2.wq_flusher_queue = s.wq_flusher_queue :=
        a5 .wq_flusher_queue (by simp) (by simp) (by simp) (by simp)
      have b7 : s2.wq_flusher_overflow = s.wq_flusher_overflow :=
        a5 .wq_flusher_overflow (by simp) (by simp) (by simp) (by simp)
      have b8 : s2.wq_work_color wq = work_next_color (s.wq_work_color wq) := by
        rw [a3, Function.update_same]
      have b9 : s2.wq_first_flusher wq = flusher := by rw [a4, Function.update_same]
      obtain ⟨p1, p2, p3, p4, p5⟩ := flush_workqueue_prep_pwqs_fields s2 wq (s.wq_flush_color wq)
        (s2.wq_work_color wq)
      have pf := flush_workqueue_prep_pwqs_frame s2 wq (s.wq_flush_color wq) (s2.wq_work_color wq)
      rw [b1, b2] at p1 p5
      rw [b1] at p4
      rw [b9] at p5
      have hcnt : ((s.wq_pwqs wq).countP (fun p => decide (s.pwq_nr_in_flight p
          (s.wq_flush_color wq) ≠ 0)) ≠ 0) ↔
          ∃ p ∈ s.wq_pwqs wq, s.pwq_nr_in_flight p (s.wq_flush_color wq) ≠ 0 := by
        rw [Ne, List.countP_eq_zero]
        simp
      generalize hr : flush_workqueue_prep_pwqs s2 wq (s.wq_flush_color wq) (s2.wq_work_color wq)
        = r at a6 p1 p2 p3 p4 p5 pf
      rw [b8] at p4
      have g1 : r.2.flusher_flush_color = s2.flusher_flush_color :=
        pf .flusher_flush_color (by simp) (by simp) (by simp) (by simp)
      have g2 : r.2.wq_work_color = s2.wq_work_color :=
        pf .wq_work_color (by simp) (by simp) (by simp) (by simp)
      have g3 : r.2.wq_flusher_overflow = s2.wq_flusher_overflow :=
        pf .wq_flusher_overflow (by simp) (by simp) (by simp) (by simp)
      have g4 : r.2.wq_flusher_queue = s2.wq_flusher_queue :=
        pf .wq_flusher_queue (by simp) (by simp) (by simp) (by simp)
      have g5 : r.2.wq_first_flusher = s2.wq_first_flusher :=
        pf .wq_first_flusher (by simp) (by simp) (by simp) (by simp)
      have g6 : r.2.wq_flush_color = s2.wq_flush_color :=
        pf .wq_flush_color (by simp) (by simp) (by simp) (by simp)
      have hd0 : s2.flusher_done flusher = 0 := by rw [a2, Function.update_same]
      by_cases hwait : r.1 = false
      · rw [a6, if_pos hwait]
        have hz : (s.wq_pwqs wq).countP (fun p => decide (s.pwq_nr_in_flight p
            (s.wq_flush_color wq) ≠ 0)) = 0 := by
          by_contra hne
          rw [p1] at hwait
          simp only [decide_eq_false_iff_not] at hwait
          exact hwait ⟨hc, hne⟩
        refine ⟨?_, ?_, ?_, ?_, fun _ => ⟨?_, ?_, ?_, ?_⟩, fun h => absurd hf h⟩
        · show r.2.flusher_flush_color flusher = _
          rw [g1, a1, Function.update_same]
        · show r.2.wq_work_color wq = _
          rw [g2, b8]
        · intro p hp
          show r.2.pwq_work_color p = _
          rw [p4 p, if_pos ⟨hp, n0⟩]
        · show r.2.wq_flusher_overflow = _
          rw [g3, b7]
        · show r.2.wq_flusher_queue = _
          rw [g4, b6]
        · exact ⟨fun h => absurd h (by simp), fun h => absurd hz (hcnt.2 h)⟩
        · intro h
          exact absurd h (by simp)
        · intro _
          refine ⟨?_, ?_, ?_⟩
          · show Function.update r.2.wq_first_flusher wq 0 wq = 0
            rw [Function.update_same]
          · show Function.update r.2.wq_flush_color wq _ wq = _
            rw [Function.update_same]
          · show r.2.flusher_done flusher = 1
            rw [p5, if_pos ⟨rfl, hc, hz⟩, hd0]
      · rw [a6, if_neg hwait]
        have hwt : r.1 = true := by
          cases h : r.1
          · exact absurd h hwait
          · rfl
        have hnz : (s.wq_pwqs wq).countP (fun p => decide (s.pwq_nr_in_flight p
            (s.wq_flush_color wq) ≠ 0)) ≠ 0 := by
          rw [p1] at hwt
          exact (of_decide_eq_true hwt).2
        refine ⟨?_, ?_, ?_, ?_, fun _ => ⟨?_, ?_, ?_, ?_⟩, fun h => absurd hf h⟩
        · show r.2.flusher_flush_color flusher = _
          rw [g1, a1, Function.update_same]
        · show r.2.wq_work_color wq = _
          rw [g2, b8]
        · intro p hp
          show r.2.pwq_work_color p = _
          rw [p4 p, if_pos ⟨hp, n0⟩]
        · show r.2.wq_flusher_overflow = _
          rw [g3, b7]
        · show r.2.wq_flusher_queue = _
          rw [g4, b6]
        · exact ⟨fun _ => hcnt.1 hnz, fun _ => rfl⟩
        · intro _
          refine ⟨?_, ?_, ?_⟩
          · show r.2.wq_first_flusher wq = flusher
            rw [g5, b9]
          · show r.2.wq_flush_color wq = _
            rw [g6, b5]
          · show r.2.flusher_done flusher = 0
            rw [p5, if_neg (fun h => hnz h.2.2), hd0]
        · intro h
          exact absurd h (by simp)
    · obtain ⟨s2, a1, a2, a3, a4, a5, a6⟩ := start_queued s wq flusher hnf hf
      have b1 : s2.wq_pwqs = s.wq_pwqs := a5 .wq_pwqs (by simp) (by simp) (by simp) (by simp)
      have b3 : s2.pwq_flush_color = s.pwq_flush_color :=
        a5 .pwq_flush_color (by simp) (by simp) (by simp) (by simp)
      have b5 : s2.wq_flush_color = s.wq_flush_color :=
        a5 .wq_flush_color (by simp) (by simp) (by simp) (by simp)
      have b6 : s2.wq_first_flusher = s.wq_first_flusher :=
        a5 .wq_first_flusher (by simp) (by simp) (by simp) (by simp)
      have b7 : s2.wq_flusher_overflow = s.wq_flusher_overflow :=
        a5 .wq_flusher_overflow (by simp) (by simp) (by simp) (by simp)
      have b8 : s2.wq_work_color wq = work_next_color (s.wq_work_color wq) := by
        rw [a3, Function.update_same]
      obtain ⟨p1, p2, p3, p4, p5⟩ := flush_workqueue_prep_pwqs_fields s2 wq (-1)
        (s2.wq_work_color wq)
      have pf := flush_workqueue_prep_pwqs_frame s2 wq (-1) (s2.wq_work_color wq)
      rw [b1] at p4
      rw [a6]
      generalize hr : flush_workqueue_prep_pwqs s2 wq (-1) (s2.wq_work_color wq)
        = r at p1 p2 p3 p4 p5 pf ⊢
      rw [b8] at p4
      have g1 : r.2.flusher_flush_color = s2.flusher_flush_color :=
        pf .flusher_flush_color (by simp) (by simp) (by simp) (by simp)
      have g2 : r.2.wq_work_color = s2.wq_work_color :=
        pf .wq_work_color (by simp) (by simp) (by simp) (by simp)
      have g3 : r.2.wq_flusher_overflow = s2.wq_flusher_overflow :=
        pf .wq_flusher_overflow (by simp) (by simp) (by simp) (by simp)
      have g4 : r.2.wq_flusher_queue = s2.wq_flusher_queue :=
        pf .wq_flusher_queue (by simp) (by simp) (by simp) (by simp)
      have g5 : r.2.wq_first_flusher = s2.wq_first_flusher :=
        pf .wq_first_flusher (by simp) (by simp) (by simp) (by simp)
      have g6 : r.2.wq_flush_color = s2.wq_flush_color :=
        pf .wq_flush_color (by simp) (by simp) (by simp) (by simp)
      refine ⟨?_, ?_, ?_, ?_, fun h => absurd h hf, fun _ => ⟨rfl, ?_, ?_, ?_, ?_⟩⟩
      · show r.2.flusher_flush_color flusher = _
        rw [g1, a1, Function.update_same]
      · show r.2.wq_work_color wq = _
        rw [g2, b8]
      · intro p hp
        show r.2.pwq_work_color p = _
        rw [p4 p, if_pos ⟨hp, n0⟩]
      · show r.2.wq_flusher_overflow = _
        rw [g3, b7]
      · show r.2.wq_first_flusher = _
        rw [g5, b6]
      · show r.2.wq_flusher_queue wq = _
        rw [g4, a4, Function.update_same]
      · show r.2.wq_flush_color = _
        rw [g6, b5]
      · funext p
        show r.2.pwq_flush_color p = _
        rw [p2 p, if_neg (fun h => absurd h.2.1 (by decide)), b3]
  · intro hfull
    rw [start_full s wq flusher hfull]
    refine ⟨rfl, ?_, ?_, rfl, rfl, rfl, rfl, rfl, rfl⟩
    · show Function.update s.wq_flusher_overflow wq _ wq = _
      rw [Function.update_same]
    · show Function.update s.flusher_flush_color flusher (-1) flusher = -1
      rw [Function.update_same]

theorem __flush_workqueue_start_contract_witness :
    ((0 : Int) ≤ ex_flushable.wq_work_color 32 ∧ (0 : Int) ≤ ex_flushable.wq_flush_color 32 ∧
      work_next_color (ex_flushable.wq_work_color 32) ≠ ex_flushable.wq_flush_color 32 ∧
      ex_flushable.wq_first_flusher 32 = 0) ∧
    (__flush_workqueue_start ex_flushable 32 5000).2.flusher_flush_color 5000 =
      ex_flushable.wq_work_color 32 ∧
    (__flush_workqueue_start ex_flushable 32 5000).2.wq_work_color 32 =
      work_next_color (ex_flushable.wq_work_color 32) ∧
    (__flush_workqueue_start ex_flushable 32 5000).1 = true := by
  have h := (__flush_workqueue_start_contract ex_flushable 32 5000 (by decide) (by decide)).1
    (by decide)
  exact ⟨by decide, h.1, h.2.1, (h.2.2.2.2.1 (by decide)).2.1.2 ⟨256, by decide, by decide⟩⟩

/-- One flush of a workqueue on which nothing is in flight. -/
theorem start_idle (s : State) (wq flusher : Nat) (h : flush_idle s wq) :
    (__flush_workqueue_start s wq flusher).1 = false ∧
    (__flush_workqueue_start s wq flusher).2.wq_first_flusher wq = 0 ∧
    (__flush_workqueue_start s wq flusher).2.wq_flusher_queue wq = [] ∧
    (__flush_workqueue_start s wq flusher).2.wq_flusher_overflow wq = [] ∧
    (__flush_workqueue_start s wq flusher).2.wq_flush_color wq =
      work_next_color (s.wq_work_color wq) ∧
    (__flush_workqueue_start s wq flusher).2.wq_work_color wq =
      work_next_color (s.wq_work_color wq) ∧
    (∀ p ∈ s.wq_pwqs wq, (__flush_workqueue_start s wq flusher).2.pwq_work_color p =
      work_next_color (s.wq_work_color wq)) ∧
    (__flush_workqueue_start s wq flusher).2.wq_pwqs = s.wq_pwqs ∧
    (__flush_workqueue_start s wq flusher).2.pwq_nr_in_flight = s.pwq_nr_in_flight := by
  obtain ⟨h1, h2, h3, h4, h5, h6⟩ := h
  have hnf : work_next_color (s.wq_work_color wq) ≠ s.wq_flush_color wq := by
    rw [h4]
    exact work_next_color_ne _
  obtain ⟨n0, n1⟩ := work_next_color_range _ h5
  obtain ⟨s2, a1, a2, a3, a4, a5, a6⟩ := start_first s wq flusher hnf h1
  have b1 : s2.wq_pwqs = s.wq_pwqs := a5 .wq_pwqs (by simp) (by simp) (by simp) (by simp)
  have b2 : s2.pwq_nr_in_flight = s.pwq_nr_in_flight :=
    a5 .pwq_nr_in_flight (by simp) (by simp) (by simp) (by simp)
  have b6 : s2.wq_flusher_queue = s.wq_flusher_queue :=
    a5 .wq_flusher_queue (by simp) (by simp) (by simp) (by simp)
  have b7 : s2.wq_flusher_overflow = s.wq_flusher_overflow :=
    a5 .wq_flusher_overflow (by simp) (by simp) (by simp) (by simp)
  have b8 : s2.wq_work_color wq = work_next_color (s.wq_work_color wq) := by
    rw [a3, Function.update_same]
  obtain ⟨p1, p2, p3, p4, p5⟩ := flush_workqueue_prep_pwqs_fields s2 wq (s.wq_flush_color wq)
    (s2.wq_work_color wq)
  have pf := flush_workqueue_prep_pwqs_frame s2 wq (s.wq_flush_color wq) (s2.wq_work_color wq)
  rw [b1, b2] at p1
  rw [b1] at p4
  have hz : (s.wq_pwqs wq).countP (fun p => decide (s.pwq_nr_in_flight p
      (s.wq_flush_color wq) ≠ 0)) = 0 := by
    rw [List.countP_eq_zero]
    intro p hp
    simp [h6 p hp]
  generalize hr : flush_workqueue_prep_pwqs s2 wq (s.wq_flush_color wq) (s2.wq_work_color wq)
    = r at a6 p1 p2 p3 p4 p5 pf
  rw [b8] at p4
  have hwait : r.1 = false := by
    rw [p1]
    exact decide_eq_false (fun hh => hh.2 hz)
  rw [a6, if_pos hwait]
  refine ⟨rfl, ?_, ?_, ?_, ?_, ?_, ?_, ?_, ?_⟩
  · show Function.update r.2.wq_first_flusher wq 0 wq = 0
    rw [Function.update_same]
  · show r.2.wq_flusher_queue wq = []
    have : r.2.wq_flusher_queue = s2.wq_flusher_queue :=
      pf .wq_flusher_queue (by simp) (by simp) (by simp) (by simp)
    rw [this, b6, h2]
  · show r.2.wq_flusher_overflow wq = []
    have : r.2.wq_flusher_overflow = s2.wq_flusher_overflow :=
      pf .wq_flusher_overflow (by simp) (by simp) (by simp) (by simp)
    rw [this, b7, h3]
  · show Function.update r.2.wq_flush_color wq _ wq = _
    rw [Function.update_same]
  · show r.2.wq_work_color wq = _
    have : r.2.wq_work_color = s2.wq_work_color :=
      pf .wq_work_color (by simp) (by simp) (by simp) (by simp)
    rw [this, b8]
  · intro p hp
    show r.2.pwq_work_color p = _
    rw [p4 p, if_pos ⟨hp, n0⟩]
  · show r.2.wq_pwqs = _
    have : r.2.wq_pwqs = s2.wq_pwqs := pf .wq_pwqs (by simp) (by simp) (by simp) (by simp)
    rw [this, b1]
  · show r.2.pwq_nr_in_flight = _
    have : r.2.pwq_nr_in_flight = s2.pwq_nr_in_flight :=
      pf .pwq_nr_in_flight (by simp) (by simp) (by simp) (by simp)
    rw [this, b2]

theorem start_idle_again (s : State) (wq flusher : Nat) (h : flush_idle s wq) :
    flush_idle (__flush_workqueue_start s wq flusher).2 wq := by
  obtain ⟨c1, c2, c3, c4, c5, c6, c7, c8, c9⟩ := start_idle s wq flusher h
  refine ⟨c2, c3, c4, by rw [c5, c6], ?_, ?_⟩
  · rw [c6]
    exact (work_next_color_range _ h.2.2.2.2.1).1
  · intro p hp c
    rw [c8] at hp
    rw [c9]
    exact h.2.2.2.2.2 p hp c

/-- C17: on a workqueue with no first flusher, empty flusher lists, `flush_color` equal to a
valid `work_color` and no item in flight on any of its pool_workqueues, the start phase of
`__flush_workqueue` leaves through `out_unlock` without waiting; afterwards `first_flusher`
is NULL, both flusher lists are empty, and `wq->flush_color`, `wq->work_color` and the
`work_color` of every pool_workqueue of the workqueue are the colour after the old
`work_color`.  The workqueue is then in the same condition again, so any number `n` of
successive flushes all return without waiting, and `work_color` has advanced `n` times. -/
theorem flush_idle_workqueue (s : State) (wq : Nat) (h : flush_idle s wq) :
    (∀ flusher,
      (__flush_workqueue_start s wq flusher).1 = false ∧
      (__flush_workqueue_start s wq flusher).2.wq_first_flusher wq = 0 ∧
      (__flush_workqueue_start s wq flusher).2.wq_flusher_queue wq = [] ∧
      (__flush_workqueue_start s wq flusher).2.wq_flusher_overflow wq = [] ∧
      (__flush_workqueue_start s wq flusher).2.wq_flush_color wq =
        work_next_color (s.wq_work_color wq) ∧
      (__flush_workqueue_start s wq flusher).2.wq_work_color wq =
        work_next_color (s.wq_work_color wq) ∧
      (∀ p ∈ s.wq_pwqs wq, (__flush_workqueue_start s wq flusher).2.pwq_work_color p =
        work_next_color (s.wq_work_color wq))) ∧
    (∀ (fl : Nat → Nat) (n : Nat), ∃ sn, flush_repeatedly wq fl n s = some sn ∧
      flush_idle sn wq ∧ sn.wq_work_color wq = (work_next_color^[n]) (s.wq_work_color wq)) := by
  refine ⟨?_, ?_⟩
  · intro flusher
    obtain ⟨c1, c2, c3, c4, c5, c6, c7, _, _⟩ := start_idle s wq flusher h
    exact ⟨c1, c2, c3, c4, c5, c6, c7⟩
  · intro fl n
    induction n with
    | zero => exact ⟨s, rfl, h, rfl⟩
    | succ n ih =>
      obtain ⟨sn, e1, e2, e3⟩ := ih
      obtain ⟨c1, _, _, _, _, c6, _⟩ := start_idle sn wq (fl n) e2
      refine ⟨(__flush_workqueue_start sn wq (fl n)).2, ?_, start_idle_again sn wq (fl n) e2, ?_⟩
      · unfold flush_repeatedly
        rw [e1]
        simp only []
        rw [if_pos c1]
      · rw [c6, e3, Function.iterate_succ_apply']

theorem flush_idle_workqueue_witness :
    flush_idle ex_empty_wq 32 ∧
    ∃ sn, flush_repeatedly 32 (fun i => 5000 + i) 20 ex_empty_wq = some sn ∧
      flush_idle sn 32 ∧
      sn.wq_work_color 32 = (work_next_color^[20]) (ex_empty_wq.wq_work_color 32) :=
  ⟨⟨rfl, rfl, rfl, rfl, by decide, fun _ _ _ => rfl⟩,
    (flush_idle_workqueue ex_empty_wq 32 ⟨rfl, rfl, rfl, rfl, by decide, fun _ _ _ => rfl⟩).2
      (fun i => 5000 + i) 20⟩

/-! ## Modifying a delayed work item -/

/-- The outcomes of `try_to_grab_pending`. -/
theorem try_to_grab_pending_cases (s : State) (work : Nat) (is_dwork : Bool) :
    (is_dwork = true ∧ s.dwork_timer_pending work = true →
      try_to_grab_pending s work is_dwork = (1, del_timer s work)) ∧
    (¬ (is_dwork = true ∧ s.dwork_timer_pending work = true) → work_pending s work = false →
      try_to_grab_pending s work is_dwork = (0, (test_and_set_bit_pending s work).2)) ∧
    (¬ (is_dwork = true ∧ s.dwork_timer_pending work = true) → work_pending s work = true →
      (get_work_pool s work ≠ 0 ∧ get_work_pwq s work ≠ 0 ∧
        s.pwq_pool (get_work_pwq s work) = get_work_pool s work) →
      try_to_grab_pending s work is_dwork =
        (1, try_to_grab_pending_steal s work (get_work_pool s work) (get_work_pwq s work))) ∧
    (¬ (is_dwork = true ∧ s.dwork_timer_pending work = true) → work_pending s work = true →
      ¬ (get_work_pool s work ≠ 0 ∧ get_work_pwq s work ≠ 0 ∧
        s.pwq_pool (get_work_pwq s work) = get_work_pool s work) →
      try_to_grab_pending s work is_dwork =
        (if work_is_canceling s work = true then -ENOENT else -EAGAIN, s)) := by
  refine ⟨?_, ?_, ?_, ?_⟩
  · intro ht
    unfold try_to_grab_pending
    rw [if_pos ht]
  · intro ht hp
    have hbit : (work_data_bits s work).testBit 0 = false := (work_pending_false_iff s work).1 hp
    have hold : (test_and_set_bit_pending s work).1 = false := hbit
    unfold try_to_grab_pending
    rw [if_neg ht, if_pos hold]
  · intro ht hp hq
    have hbit : (work_data_bits s work).testBit 0 = true := (work_pending_iff s work).1 hp
    have hs1 : (test_and_set_bit_pending s work).2 = s := test_and_set_bit_pending_of_set s work hbit
    have hold : (test_and_set_bit_pending s work).1 = true := hbit
    unfold try_to_grab_pending
    rw [if_neg ht, if_neg (by simp [hold])]
    simp only [hs1]
    rw [if_pos hq]
  · intro ht hp hq
    have hbit : (work_data_bits s work).testBit 0 = true := (work_pending_iff s work).1 hp
    have hs1 : (test_and_set_bit_pending s work).2 = s := test_and_set_bit_pending_of_set s work hbit
    have hold : (test_and_set_bit_pending s work).1 = true := hbit
    unfold try_to_grab_pending
    rw [if_neg ht, if_neg (by simp [hold])]
    simp only [hs1]
    rw [if_neg hq]
    by_cases hcan : work_is_canceling s work = true
    · rw [if_pos hcan, if_pos hcan]
    · rw [if_neg hcan, if_neg hcan]

/-- Counterexample to C13 as stated: the delayed work item 1000 is being cancelled by another
task (PENDING and CANCELING are set, no timer is pending, the work is on no list).
`mod_delayed_work_on` returns true although it neither modified the timer nor queued the
work: the state is unchanged. -/
theorem mod_delayed_work_on_canceling_returns_true :
    work_pending ex_canceling 1000 = true ∧ work_is_canceling ex_canceling 1000 = true ∧
    ex_canceling.dwork_timer_pending 1000 = false ∧
    mod_delayed_work_on 1 ex_canceling ex_task 0 32 1000 10 = some (true, ex_canceling) ∧
    ex_canceling.work_entry 1000 = none := by
  have h := (try_to_grab_pending_cases ex_canceling 1000 true).2.2.2 (by decide) (by decide)
    (by decide)
  have hc : work_is_canceling ex_canceling 1000 = true := by decide
  rw [if_pos hc] at h
  refine ⟨by decide, hc, rfl, ?_, rfl⟩
  unfold mod_delayed_work_on
  rw [h]
  rfl

theorem queue_delayed_work_timer (fuel : Nat) (u : State) (t : task_ctx)
    (cpu wq dwork delay : Nat) (hd : delay ≠ 0) :
    ∃ s', __queue_delayed_work fuel u t cpu wq dwork delay = some s' ∧
      s'.dwork_timer_pending dwork = true ∧
      s'.dwork_timer_expires dwork = (u.jiffies + delay) % 2 ^ BITS_PER_LONG ∧
      s'.dwork_wq dwork = wq ∧ s'.dwork_cpu dwork = cpu ∧
      s'.work_data = u.work_data ∧ s'.work_entry = u.work_entry ∧ s'.lists = u.lists := by
  unfold __queue_delayed_work
  rw [if_neg hd]
  refine ⟨_, rfl, ?_, ?_, ?_, ?_, rfl, rfl, rfl⟩
  · show Function.update u.dwork_timer_pending dwork true dwork = true
    rw [Function.update_same]
  · show Function.update u.dwork_timer_expires dwork _ dwork = _
    rw [Function.update_same]
  · show Function.update u.dwork_wq dwork wq dwork = wq
    rw [Function.update_same]
  · show Function.update u.dwork_cpu dwork cpu dwork = cpu
    rw [Function.update_same]

theorem try_to_grab_pending_jiffies (s : State) (work : Nat) (is_dwork : Bool) :
    (try_to_grab_pending s work is_dwork).2.jiffies = s.jiffies := by
  obtain ⟨c1, c2, c3, c4⟩ := try_to_grab_pending_cases s work is_dwork
  by_cases ht : is_dwork = true ∧ s.dwork_timer_pending work = true
  · rw [c1 ht]
    rfl
  · by_cases hp : work_pending s work = true
    · by_cases hq : get_work_pool s work ≠ 0 ∧ get_work_pwq s work ≠ 0 ∧
          s.pwq_pool (get_work_pwq s work) = get_work_pool s work
      · rw [c3 ht hp hq]
        exact try_to_grab_pending_steal_frame s work (get_work_pool s work) (get_work_pwq s work)
          .jiffies (by simp) (by simp) (by simp) (by simp) (by simp) (by simp) (by simp) (by simp)
          (by simp) (by simp) (by simp)
      · rw [c4 ht hp hq]
    · have hpf : work_pending s work = false := by
        cases h : work_pending s work
        · rfl
        · exact absurd h hp
      rw [c2 ht hpf]
      rfl

theorem mod_delayed_work_on_eq (fuel : Nat) (s : State) (t : task_ctx)
    (cpu wq dwork delay : Nat) (v : Int) (u : State)
    (h : try_to_grab_pending s dwork true = (v, u)) :
    mod_delayed_work_on fuel s t cpu wq dwork delay =
      if v = -EAGAIN then none
      else if v ≥ 0 then
        (__queue_delayed_work fuel u t cpu wq dwork delay).map (fun s1 => (decide (v ≠ 0), s1))
      else some (decide (v ≠ 0), u) := by
  unfold mod_delayed_work_on
  rw [h]

theorem mod_delayed_work_on_zero (fuel : Nat) (s : State) (t : task_ctx)
    (cpu wq dwork delay : Nat) (u : State) (h : try_to_grab_pending s dwork true = (0, u)) :
    mod_delayed_work_on fuel s t cpu wq dwork delay =
      (__queue_delayed_work fuel u t cpu wq dwork delay).map (fun s1 => (false, s1)) := by
  rw [mod_delayed_work_on_eq fuel s t cpu wq dwork delay 0 u h,
    if_neg (by decide : ¬ ((0 : Int) = -EAGAIN)), if_pos (by decide : (0 : Int) ≥ 0)]
  rfl

theorem mod_delayed_work_on_one (fuel : Nat) (s : State) (t : task_ctx)
    (cpu wq dwork delay : Nat) (u : State) (h : try_to_grab_pending s dwork true = (1, u)) :
    mod_delayed_work_on fuel s t cpu wq dwork delay =
      (__queue_delayed_work fuel u t cpu wq dwork delay).map (fun s1 => (true, s1)) := by
  rw [mod_delayed_work_on_eq fuel s t cpu wq dwork delay 1 u h,
    if_neg (by decide : ¬ ((1 : Int) = -EAGAIN)), if_pos (by decide : (1 : Int) ≥ 0)]
  rfl

theorem mod_delayed_work_on_enoent (fuel : Nat) (s : State) (t : task_ctx)
    (cpu wq dwork delay : Nat) (u : State) (h : try_to_grab_pending s dwork true = (-ENOENT, u)) :
    mod_delayed_work_on fuel s t cpu wq dwork delay = some (true, u) := by
  rw [mod_delayed_work_on_eq fuel s t cpu wq dwork delay (-ENOENT) u h,
    if_neg (by decide : ¬ ((-ENOENT : Int) = -EAGAIN)),
    if_neg (by decide : ¬ ((-ENOENT : Int) ≥ 0))]
  rfl

theorem mod_delayed_work_on_eagain (fuel : Nat) (s : State) (t : task_ctx)
    (cpu wq dwork delay : Nat) (u : State) (h : try_to_grab_pending s dwork true = (-EAGAIN, u)) :
    mod_delayed_work_on fuel s t cpu wq dwork delay = none := by
  rw [mod_delayed_work_on_eq fuel s t cpu wq dwork delay (-EAGAIN) u h, if_pos rfl]

/-- C13 (amended): `mod_delayed_work_on` on the delayed work item `dwork`.  When the work is
idle (no pending timer, PENDING clear) it does what `queue_delayed_work_on` does and returns
false where that returns true.  Whenever it returns, the result is false exactly when the
work was idle, and true exactly when the timer was pending or PENDING was set.  When the
timer was pending or the work was queued, and `delay` is not zero, it returns true with the
timer pending and set to expire at `jiffies + delay` for the given workqueue and CPU; with
`delay` zero the work is handed to `__queue_work` at once.  When the work is pending because
another task is cancelling it (CANCELING is set), it returns true and changes nothing: the
timer is not modified and the work is not queued.  When PENDING is set and the work is
neither queued nor being cancelled, `try_to_grab_pending` keeps returning `-EAGAIN` and the
function does not return until another task has queued or released the work. -/
theorem mod_delayed_work_on_contract (fuel : Nat) (s : State) (t : task_ctx)
    (cpu wq dwork delay : Nat) :
    (s.dwork_timer_pending dwork = false → work_pending s dwork = false →
      mod_delayed_work_on fuel s t cpu wq dwork delay =
        (queue_delayed_work_on fuel s t cpu wq dwork delay).map (fun r => (false, r.2)) ∧
      ∀ r, queue_delayed_work_on fuel s t cpu wq dwork delay = some r → r.1 = true) ∧
    (∀ r, mod_delayed_work_on fuel s t cpu wq dwork delay = some r →
      (r.1 = false ↔ s.dwork_timer_pending dwork = false ∧ work_pending s dwork = false) ∧
      (r.1 = true ↔ s.dwork_timer_pending dwork = true ∨ work_pending s dwork = true)) ∧
    (s.dwork_timer_pending dwork = true ∨
        (work_pending s dwork = true ∧ get_work_pool s dwork ≠ 0 ∧ get_work_pwq s dwork ≠ 0 ∧
          s.pwq_pool (get_work_pwq s dwork) = get_work_pool s dwork) →
      (delay ≠ 0 → ∃ s', mod_delayed_work_on fuel s t cpu wq dwork delay = some (true, s') ∧
        s'.dwork_timer_pending dwork = true ∧
        s'.dwork_timer_expires dwork = (s.jiffies + delay) % 2 ^ BITS_PER_LONG ∧
        s'.dwork_wq dwork = wq ∧ s'.dwork_cpu dwork = cpu ∧
        s'.work_data = (try_to_grab_pending s dwork true).2.work_data ∧
        s'.work_entry = (try_to_grab_pending s dwork true).2.work_entry ∧
        s'.lists = (try_to_grab_pending s dwork true).2.lists) ∧
      (delay = 0 → mod_delayed_work_on fuel s t cpu wq dwork delay =
        (__queue_work fuel (try_to_grab_pending s dwork true).2 t cpu wq dwork).map
          (fun s1 => (true, s1)))) ∧
    (s.dwork_timer_pending dwork = false → work_pending s dwork = true →
      ¬ (get_work_pool s dwork ≠ 0 ∧ get_work_pwq s dwork ≠ 0 ∧
        s.pwq_pool (get_work_pwq s dwork) = get_work_pool s dwork) →
      (work_is_canceling s dwork = true →
        mod_delayed_work_on fuel s t cpu wq dwork delay = some (true, s)) ∧
      (work_is_canceling s dwork = false →
        mod_delayed_work_on fuel s t cpu wq dwork delay = none)) := by
  obtain ⟨c1, c2, c3, c4⟩ := try_to_grab_pending_cases s dwork true
  have hgrab1 : (s.dwork_timer_pending dwork = true ∨
        (work_pending s dwork = true ∧ get_work_pool s dwork ≠ 0 ∧ get_work_pwq s dwork ≠ 0 ∧
          s.pwq_pool (get_work_pwq s dwork) = get_work_pool s dwork)) →
      ∃ u, try_to_grab_pending s dwork true = (1, u) := by
    intro h
    by_cases ht : s.dwork_timer_pending dwork = true
    · exact ⟨_, c1 ⟨rfl, ht⟩⟩
    · rcases h with h | h
      · exact absurd h ht
      · exact ⟨_, c3 (fun hh => ht hh.2) h.1 h.2⟩
  have hsome : ∀ (b : Bool) (u : State) (r : Bool × State),
      (__queue_delayed_work fuel u t cpu wq dwork delay).map (fun s1 => (b, s1)) = some r →
      r.1 = b := by
    intro b u r hr
    cases hq : __queue_delayed_work fuel u t cpu wq dwork delay with
    | none => rw [hq] at hr; simp at hr
    | some s1 =>
      rw [hq] at hr
      simp only [Option.map_some', Option.some.injEq] at hr
      rw [← hr]
  refine ⟨?_, ?_, ?_, ?_⟩
  · intro ht hp
    have ht2 : ¬ (true = true ∧ s.dwork_timer_pending dwork = true) := by
      rw [ht]; simp
    have hg := c2 ht2 hp
    have hbit : (work_data_bits s dwork).testBit 0 = false := (work_pending_false_iff s dwork).1 hp
    have hold : (test_and_set_bit_pending s dwork).1 = false := hbit
    have hq : queue_delayed_work_on fuel s t cpu wq dwork delay =
        (__queue_delayed_work fuel (test_and_set_bit_pending s dwork).2 t cpu wq dwork delay).map
          (fun s1 => (true, s1)) := by
      unfold queue_delayed_work_on
      rw [if_pos hold]
    refine ⟨?_, ?_⟩
    · rw [mod_delayed_work_on_zero fuel s t cpu wq dwork delay _ hg, hq]
      cases __queue_delayed_work fuel (test_and_set_bit_pending s dwork).2 t cpu wq dwork delay <;>
        rfl
    · intro r hr
      rw [hq] at hr
      exact hsome true _ r hr
  · intro r hr
    by_cases ht : s.dwork_timer_pending dwork = true
    · obtain ⟨u, h1⟩ := hgrab1 (Or.inl ht)
      rw [mod_delayed_work_on_one fuel s t cpu wq dwork delay u h1] at hr
      rw [hsome true u r hr]
      simp [ht]
    · have ht2 : ¬ (true = true ∧ s.dwork_timer_pending dwork = true) := fun h => ht h.2
      have htf : s.dwork_timer_pending dwork = false := by
        cases h : s.dwork_timer_pending dwork
        · rfl
        · exact absurd h ht
      by_cases hp : work_pending s dwork = true
      · by_cases hq : get_work_pool s dwork ≠ 0 ∧ get_work_pwq s dwork ≠ 0 ∧
            s.pwq_pool (get_work_pwq s dwork) = get_work_pool s dwork
        · obtain ⟨u, h1⟩ := hgrab1 (Or.inr ⟨hp, hq⟩)
          rw [mod_delayed_work_on_one fuel s t cpu wq dwork delay u h1] at hr
          rw [hsome true u r hr]
          simp [hp]
        · have hg := c4 ht2 hp hq
          by_cases hcan : work_is_canceling s dwork = true
          · rw [if_pos hcan] at hg
            rw [mod_delayed_work_on_enoent fuel s t cpu wq dwork delay s hg] at hr
            simp only [Option.some.injEq] at hr
            rw [← hr]
            simp [hp]
          · rw [if_neg hcan] at hg
            rw [mod_delayed_work_on_eagain fuel s t cpu wq dwork delay s hg] at hr
            exact absurd hr (by simp)
      · have hpf : work_pending s dwork = false := by
          cases h : work_pending s dwork
          · rfl
          · exact absurd h hp
        have hg := c2 ht2 hpf
        rw [mod_delayed_work_on_zero fuel s t cpu wq dwork delay _ hg] at hr
        rw [hsome false _ r hr]
        simp [htf, hpf]
  · intro h
    obtain ⟨u, h1⟩ := hgrab1 h
    have hu : (try_to_grab_pending s dwork true).2 = u := by rw [h1]
    rw [hu]
    refine ⟨?_, ?_⟩
    · intro hd
      obtain ⟨s', e1, e2, e3, e4, e5, e6, e7, e8⟩ := queue_delayed_work_timer fuel
        u t cpu wq dwork delay hd
      refine ⟨s', ?_, e2, ?_, e4, e5, e6, e7, e8⟩
      · rw [mod_delayed_work_on_one fuel s t cpu wq dwork delay u h1, e1]
        rfl
      · rw [e3, ← hu, try_to_grab_pending_jiffies]
    · intro hd
      rw [mod_delayed_work_on_one fuel s t cpu wq dwork delay u h1]
      unfold __queue_delayed_work
      rw [if_pos hd]
  · intro ht hp hq
    have ht2 : ¬ (true = true ∧ s.dwork_timer_pending dwork = true) := by
      rw [ht]; simp
    have hg := c4 ht2 hp hq
    refine ⟨?_, ?_⟩
    · intro hcan
      rw [if_pos hcan] at hg
      exact mod_delayed_work_on_enoent fuel s t cpu wq dwork delay s hg
    · intro hcan
      rw [if_neg (by rw [hcan]; simp)] at hg
      exact mod_delayed_work_on_eagain fuel s t cpu wq dwork delay s hg

theorem mod_delayed_work_on_contract_witness :
    (ex_on_timer.dwork_timer_pending 1000 = true ∧ (20 : Nat) ≠ 0) ∧
    ∃ s', mod_delayed_work_on 1 ex_on_timer ex_task 0 32 1000 20 = some (true, s') ∧
      s'.dwork_timer_pending 1000 = true ∧
      s'.dwork_timer_expires 1000 = (ex_on_timer.jiffies + 20) % 2 ^ BITS_PER_LONG := by
  obtain ⟨s', h1, h2, h3, _⟩ := ((mod_delayed_work_on_contract 1 ex_on_timer ex_task 0 32 1000
    20).2.2.1 (Or.inl (by decide))).1 (by decide)
  exact ⟨⟨by decide, by decide⟩, s', h1, h2, h3⟩

/-! ## Cancelling a work item -/

theorem no_pool_word :
    (WORK_STRUCT_NO_POOL ||| 0 = WORK_STRUCT_NO_POOL) ∧
    WORK_STRUCT_NO_POOL &&& WORK_STRUCT_PENDING = 0 ∧
    WORK_STRUCT_NO_POOL &&& WORK_STRUCT_PWQ = 0 ∧
    WORK_STRUCT_NO_POOL &&& WORK_OFFQ_CANCELING = 0 ∧
    to_int (WORK_STRUCT_NO_POOL >>> WORK_OFFQ_POOL_SHIFT) = (WORK_OFFQ_POOL_NONE : Int) ∧
    (WORK_STRUCT_NO_POOL ||| (1 <<< WORK_STRUCT_PENDING_BIT)) &&& WORK_STRUCT_PWQ = 0 ∧
    to_int ((WORK_STRUCT_NO_POOL ||| (1 <<< WORK_STRUCT_PENDING_BIT)) >>> WORK_OFFQ_POOL_SHIFT) =
      (WORK_OFFQ_POOL_NONE : Int) := by
  decide

theorem clear_work_data_fields (u : State) (work : Nat) :
    (clear_work_data u work).work_data = Function.update u.work_data work WORK_STRUCT_NO_POOL ∧
    (∀ g, g ≠ .work_data → clear_work_data u work g = u g) := by
  refine ⟨?_, ?_⟩
  · show Function.update u.work_data work (WORK_STRUCT_NO_POOL ||| 0) = _
    rw [no_pool_word.1]
  · intro g hg
    unfold clear_work_data
    simp [hg]

/-- A work item whose data word is `WORK_STRUCT_NO_POOL` is queued by `queue_work_on` on the
pool_workqueue installed for the chosen CPU. -/
theorem __queue_work_target_no_pool (s : State) (t : task_ctx) (cpu wq work : Nat)
    (h : get_work_pool s work = 0) :
    ∃ c, __queue_work_target s t cpu wq work = s.wq_cpu_pwq wq c := by
  rw [__queue_work_target_eq]
  unfold __queue_work_pwq
  simp only []
  rw [if_neg (fun hh => hh.1 h)]
  exact ⟨_, rfl⟩

/-- The state after `clear_work_data` on an unlinked work item, and what a following
`queue_work_on` does with the work item. -/
theorem after_clear_work_data (u : State) (work : Nat) (hu : Reachable u) (hw : work ≠ 0)
    (hnb : u.work_func work ≠ wq_barrier_func) (he : u.work_entry work = none) :
    Reachable (clear_work_data u work) ∧ work_cancelled (clear_work_data u work) work ∧
    requeue_ok (clear_work_data u work) work := by
  obtain ⟨d1, d2⟩ := clear_work_data_fields u work
  obtain ⟨n1, n2, n3, n4, n5, n6, n7⟩ := no_pool_word
  have hr2 : Reachable (clear_work_data u work) := hu.step (Step.release_clear u work he)
  have hi2 := reachable_inv _ hr2
  have hent : (clear_work_data u work).work_entry work = none := by
    show clear_work_data u work .work_entry work = none
    rw [d2 .work_entry (by simp)]
    exact he
  have hdat : (clear_work_data u work).work_data work = WORK_STRUCT_NO_POOL := by
    rw [d1, Function.update_same]
  have hpend : work_pending (clear_work_data u work) work = false := by
    unfold work_pending work_data_bits
    rw [hdat]
    exact decide_eq_false (not_not.2 n2)
  have hfn : (clear_work_data u work).work_func = u.work_func := d2 .work_func (by simp)
  generalize hs : clear_work_data u work = s at d1 d2 hr2 hi2 hent hdat hpend hfn
  refine ⟨hr2, ⟨hent, fun h => hi2.l.not_mem work hent h, hdat, hpend, ?_,
    by rw [hdat]; exact n3, ?_⟩, ?_⟩
  · unfold work_is_canceling work_data_bits
    rw [hdat]
    exact decide_eq_false (fun hh => hh.2 n4)
  · unfold get_work_pool work_data_bits
    rw [hdat, if_neg (not_not.2 n3), if_pos n5]
  · intro fuel t cpu wq
    have hbit := (work_pending_false_iff s work).1 hpend
    have h1 : (test_and_set_bit_pending s work).1 = false := hbit
    refine ⟨?_, ?_⟩
    · intro r hr
      unfold queue_work_on at hr
      rw [if_pos h1] at hr
      cases hq : __queue_work fuel (test_and_set_bit_pending s work).2 t cpu wq work with
      | none => rw [hq] at hr; simp at hr
      | some s1 =>
        rw [hq] at hr
        simp only [Option.map_some', Option.some.injEq] at hr
        rw [← hr]
        exact ⟨rfl, work_pending___queue_work fuel _ t cpu wq work
          (work_pending_test_and_set s work) s1 hq⟩
    · intro hguard href
      have hguard1 : ¬ ((test_and_set_bit_pending s work).2.wq_flags wq &&&
          (__WQ_DESTROYING ||| __WQ_DRAINING) ≠ 0 ∧
          is_chained_work (test_and_set_bit_pending s work).2 t wq = false) := hguard
      have href1 : (test_and_set_bit_pending s work).2.pwq_refcnt
          (__queue_work_target (test_and_set_bit_pending s work).2 t cpu wq work) ≠ 0 := by
        have : (test_and_set_bit_pending s work).2.pwq_refcnt = s.pwq_refcnt := rfl
        rw [this]
        omega
      have hq := __queue_work_first_round fuel _ t cpu wq work hguard1 href1
      have hgp : get_work_pool (test_and_set_bit_pending s work).2 work = 0 := by
        unfold get_work_pool work_data_bits
        have : (test_and_set_bit_pending s work).2.work_data work =
            WORK_STRUCT_NO_POOL ||| (1 <<< WORK_STRUCT_PENDING_BIT) := by
          show Function.update s.work_data work _ work = _
          rw [Function.update_same]
          show s.work_data work ||| _ = _
          rw [hdat]
        rw [this, if_neg (not_not.2 n6), if_pos n7]
      obtain ⟨c, hc⟩ := __queue_work_target_no_pool (test_and_set_bit_pending s work).2 t cpu wq
        work hgp
      have hc2 : __queue_work_target (test_and_set_bit_pending s work).2 t cpu wq work =
          s.wq_cpu_pwq wq c := hc
      have hal : aligned_pwq (s.wq_cpu_pwq wq c) := hi2.e.cpu_pwq_ok wq c
      have hcol : 0 ≤ s.pwq_work_color (s.wq_cpu_pwq wq c) ∧
          s.pwq_work_color (s.wq_cpu_pwq wq c) < 16 := hi2.e.color_ok (s.wq_cpu_pwq wq c)
      obtain ⟨_, _, _, v4, v5, v6, v7⟩ := __queue_work_insert_views s
        (__queue_work_cpu (test_and_set_bit_pending s work).2 t cpu wq).2
        (s.wq_cpu_pwq wq c) work
        (fun g hg hg2 => by simp [hg, hg2]) hent hal.1 hal.2 hcol.1 hcol.2
      rw [hc2] at hq
      have hqw : queue_work_on (fuel + 1) s t cpu wq work =
          some (true, __queue_work_insert
            (__queue_work_cpu (test_and_set_bit_pending s work).2 t cpu wq).2
            (s.wq_cpu_pwq wq c) work) := by
        unfold queue_work_on
        rw [if_pos h1, hq]
        rfl
      have hr3 := reachable_queue_work_on (fuel + 1) s t cpu wq work _ hr2 hw
        (by rw [hfn]; exact hnb) hqw
      have hi3 := reachable_inv _ hr3
      have hlinked : ∀ H, (__queue_work_insert
            (__queue_work_cpu (test_and_set_bit_pending s work).2 t cpu wq).2
            (s.wq_cpu_pwq wq c) work).work_entry work = some H →
          ((__queue_work_insert
            (__queue_work_cpu (test_and_set_bit_pending s work).2 t cpu wq).2
            (s.wq_cpu_pwq wq c) work).lists H).count work = 1 ∧
          ∀ h, h ≠ H → work ∉ (__queue_work_insert
            (__queue_work_cpu (test_and_set_bit_pending s work).2 t cpu wq).2
            (s.wq_cpu_pwq wq c) work).lists h := by
        intro H hH
        refine ⟨?_, ?_⟩
        · exact List.count_eq_one_of_mem (hi3.l.nodup H) ((hi3.l.mem_entry H work).2 hH)
        · intro h hh hm
          have h5 := (hi3.l.mem_entry h work).1 hm
          exact hh (Option.some.inj (h5.symm.trans hH))
      by_cases hact : s.pwq_nr_active (s.wq_cpu_pwq wq c) < s.pwq_max_active (s.wq_cpu_pwq wq c)
      · obtain ⟨a1, a2, _⟩ := v6 hact
        obtain ⟨l1, l2⟩ := hlinked _ a2
        exact ⟨_, _, hqw, v5, a2, l1, l2, c, Or.inl rfl⟩
      · obtain ⟨a1, a2, _⟩ := v7 hact
        obtain ⟨l1, l2⟩ := hlinked _ a2
        exact ⟨_, _, hqw, v5, a2, l1, l2, c, Or.inr rfl⟩

theorem canceling_word (v : Nat) :
    ((v <<< WORK_OFFQ_POOL_SHIFT) % 2 ^ BITS_PER_LONG ||| WORK_OFFQ_CANCELING |||
      WORK_STRUCT_PENDING) &&& WORK_STRUCT_PWQ = 0 := by
  rw [Nat.lor_assoc]
  exact offq_no_pwq v _ (by decide)

theorem steal_word (s : State) (work pool pwq : Nat) :
    (try_to_grab_pending_steal s work pool pwq).work_data work &&& WORK_STRUCT_PWQ = 0 := by
  have h : ∀ (u : State) (id : Int),
      (set_work_pool_and_keep_pending u work id).work_data work &&& WORK_STRUCT_PWQ = 0 := by
    intro u id
    show Function.update u.work_data work _ work &&& _ = 0
    rw [Function.update_same]
    exact offq_no_pwq _ _ (by decide)
  unfold try_to_grab_pending_steal
  simp only []
  exact h _ _

/-- The state in which `__cancel_work_timer` calls `__flush_work`, for a work item in a
stable state. -/
theorem cancel_grab (s : State) (work : Nat) (is_dwork : Bool) (hr : Reachable s)
    (hnb : s.work_func work ≠ wq_barrier_func) (hst : stable_work s work is_dwork) :
    ((try_to_grab_pending s work is_dwork).1 = 0 ∨ (try_to_grab_pending s work is_dwork).1 = 1) ∧
    ((try_to_grab_pending s work is_dwork).1 = 1 ↔
      ((is_dwork = true ∧ s.dwork_timer_pending work = true) ∨ work_pending s work = true)) ∧
    Reachable (mark_work_canceling (try_to_grab_pending s work is_dwork).2 work) ∧
    (mark_work_canceling (try_to_grab_pending s work is_dwork).2 work).work_entry work = none ∧
    get_work_pwq (mark_work_canceling (try_to_grab_pending s work is_dwork).2 work) work = 0 ∧
    work_is_canceling (mark_work_canceling (try_to_grab_pending s work is_dwork).2 work) work
      = true ∧
    work_pending (mark_work_canceling (try_to_grab_pending s work is_dwork).2 work) work
      = true ∧
    (is_dwork = true →
      (mark_work_canceling (try_to_grab_pending s work is_dwork).2 work).dwork_timer_pending work
        = false) := by
  have hi := reachable_inv s hr
  obtain ⟨c1, c2, c3, c4⟩ := try_to_grab_pending_cases s work is_dwork
  have hr1 : Reachable (try_to_grab_pending s work is_dwork).2 :=
    hr.step (Step.grab s work is_dwork hnb)
  have hi1 := reachable_inv _ hr1
  have hcases : ((try_to_grab_pending s work is_dwork).1 = 0 ∨
        (try_to_grab_pending s work is_dwork).1 = 1) ∧
      ((try_to_grab_pending s work is_dwork).1 = 1 ↔
        ((is_dwork = true ∧ s.dwork_timer_pending work = true) ∨ work_pending s work = true)) ∧
      (try_to_grab_pending s work is_dwork).2.work_entry work = none ∧
      (is_dwork = true →
        (try_to_grab_pending s work is_dwork).2.dwork_timer_pending work = false) := by
    rcases hst with ⟨h1, h2, h3⟩ | ⟨h1, h2⟩ | ⟨h1, h2, h3⟩
    · rw [c1 ⟨h1, h2⟩]
      refine ⟨Or.inr rfl, ⟨fun _ => Or.inl ⟨h1, h2⟩, fun _ => rfl⟩, h3, fun _ => ?_⟩
      show Function.update s.dwork_timer_pending work false work = false
      rw [Function.update_same]
    · rw [c2 h1 h2]
      refine ⟨Or.inl rfl, ⟨fun h => absurd (show (0 : Int) = 1 from h) (by decide), ?_⟩, ?_,
        fun hd => ?_⟩
      · rintro (h | h)
        · exact absurd h h1
        · rw [h2] at h
          exact absurd h (by simp)
      · by_contra hne
        have hp := hi.l.pending work hne
        have hp2 : work_pending s work = true := hp
        rw [h2] at hp2
        exact absurd hp2 (by simp)
      · show s.dwork_timer_pending work = false
        cases h : s.dwork_timer_pending work
        · rfl
        · exact absurd ⟨hd, h⟩ h1
    · have hg := c3 h1 h2 h3
      refine ⟨Or.inr (by rw [hg]), ⟨fun _ => Or.inr h2, fun _ => by rw [hg]⟩, ?_, fun hd => ?_⟩
      · by_contra hne
        have hb := (hi1.l.has_pwq work).2 hne
        have hb2 : (try_to_grab_pending s work is_dwork).2.work_data work &&& WORK_STRUCT_PWQ ≠ 0 :=
          of_decide_eq_true hb
        apply hb2
        rw [hg]
        exact steal_word s work _ _
      · rw [hg]
        have : (try_to_grab_pending_steal s work (get_work_pool s work)
            (get_work_pwq s work)).dwork_timer_pending = s.dwork_timer_pending :=
          try_to_grab_pending_steal_frame s work (get_work_pool s work) (get_work_pwq s work)
            .dwork_timer_pending (by simp) (by simp)
            (by simp) (by simp) (by simp) (by simp) (by simp) (by simp) (by simp) (by simp)
            (by simp)
        show (try_to_grab_pending_steal s work (get_work_pool s work)
            (get_work_pwq s work)).dwork_timer_pending work = false
        rw [this]
        cases h : s.dwork_timer_pending work
        · rfl
        · exact absurd ⟨hd, h⟩ h1
  obtain ⟨k1, k2, k3, k4⟩ := hcases
  generalize hu : (try_to_grab_pending s work is_dwork).2 = u at hr1 hi1 k3 k4
  have hdat : (mark_work_canceling u work).work_data work =
      ((to_ulong (get_work_pool_id u work) <<< WORK_OFFQ_POOL_SHIFT) % 2 ^ BITS_PER_LONG |||
        WORK_OFFQ_CANCELING ||| WORK_STRUCT_PENDING) := by
    show Function.update u.work_data work _ work = _
    rw [Function.update_same]
  have hpwq0 := canceling_word (to_ulong (get_work_pool_id u work))
  refine ⟨k1, k2, hr1.step (Step.canceling u work k3), k3, ?_, ?_, ?_, k4⟩
  · unfold get_work_pwq work_data_bits
    rw [hdat, if_neg (not_not.2 hpwq0)]
  · unfold work_is_canceling work_data_bits
    rw [hdat]
    refine decide_eq_true ⟨hpwq0, ?_⟩
    show _ &&& (1 <<< 4) ≠ 0
    rw [and_bit_ne_zero, Nat.testBit_or, Nat.testBit_or]
    simp +decide
  · unfold work_pending work_data_bits
    rw [hdat]
    refine decide_eq_true ?_
    show _ &&& (1 <<< 0) ≠ 0
    rw [and_bit_ne_zero, Nat.testBit_or]
    simp +decide

theorem find_worker_executing_work_none (s : State) (pool work : Nat)
    (h : ∀ k, s.worker_current_work k ≠ work) : find_worker_executing_work s pool work = 0 := by
  unfold find_worker_executing_work
  have : (s.pool_busy_hash pool).find? (fun k => decide (s.worker_current_work k = work ∧
      s.worker_current_func k = s.work_func work)) = none := by
    rw [List.find?_eq_none]
    intro k _
    simp [h k]
  rw [this]
  rfl

theorem start_flush_work_not_executing (s : State) (work barr : Nat)
    (hp : get_work_pwq s work = 0) (h : ∀ k, s.worker_current_work k ≠ work) :
    start_flush_work s work barr = (false, s) := by
  unfold start_flush_work
  split_ifs with h1 h2 h3 h4
  · rfl
  · exact absurd hp h2
  · exact absurd hp h2
  · rfl
  · exact absurd (find_worker_executing_work_none s _ work h) h4

/-- Counterexample to C12 as stated: `cancel_work_sync` on the idle work item 1000 returns
false and leaves it idle with no pool; the following `queue_work_on` on the draining
workqueue 32 by a task that is not one of its workers returns true, but the work item is
not scheduled: it is pending and linked on no list. -/
theorem cancel_work_sync_then_queue_on_draining :
    (cancel_work_sync ex_draining 1000 true 2000).map Prod.fst = some false ∧
    ex_cancelled.work_data 1000 = WORK_STRUCT_NO_POOL ∧ ex_cancelled.work_entry 1000 = none ∧
    ex_cancelled.wq_flags 32 &&& (__WQ_DESTROYING ||| __WQ_DRAINING) ≠ 0 ∧
    (queue_work_on 1 ex_cancelled ex_task 0 32 1000).map Prod.fst = some true ∧
    work_pending ex_cancelled_requeued 1000 = true ∧
    ex_cancelled_requeued.work_entry 1000 = none ∧
    ∀ h, ex_cancelled_requeued.lists h = [] := by
  refine ⟨by decide, by decide, by decide, by decide, by decide, by decide, by decide, ?_⟩
  intro h
  rfl

/-! ## The ledger of a state -/

theorem acc_item (s : State) (x : Nat) :
    (acc s).item x = item_of (s.work_entry x) (s.work_data x) (s.work_func x) := rfl

theorem acc_run (s : State) (k : Nat) :
    (acc s).run k = run_of_worker (s.worker_current_work k) (s.worker_frame_pwq k)
      (s.worker_frame_work_data k) (s.worker_current_pwq k) (s.worker_current_color k) := rfl

theorem acc_inactive (s : State) (p : Nat) :
    (acc s).inactive p = s.lists (list_head.inactive_works p) := rfl

theorem ledger_ne (g f : Field) (hg : Field.ledger g = true) (hf : Field.ledger f = false) :
    g ≠ f := by
  intro e
  rw [e, hf] at hg
  exact absurd hg (by simp)

/-- The flush fields depend on the fields of the ledger only. -/
theorem fview_congr (s s2 : State) (h : ∀ g, Field.ledger g = true → s2 g = s g) :
    fview s2 = fview s := by
  have h1 := h .pwq_flush_color rfl
  have h2 := h .wq_nr_pwqs_to_flush rfl
  have h3 := h .flusher_done rfl
  have h4 := h .flusher_flush_color rfl
  have h5 := h .wq_work_color rfl
  have h6 := h .wq_flush_color rfl
  have h7 := h .wq_first_flusher rfl
  have h8 := h .wq_flusher_queue rfl
  have h9 := h .wq_flusher_overflow rfl
  have h10 := h .wq_pwqs rfl
  have h11 := h .pwq_wq rfl
  unfold fview
  simp only [h1, h2, h3, h4, h5, h6, h7, h8, h9, h10, h11]

/-- The ledger depends on the fields of the ledger only. -/
theorem acc_congr (s s2 : State) (h : ∀ g, Field.ledger g = true → s2 g = s g) :
    acc s2 = acc s := by
  have h1 := h .work_data rfl
  have h2 := h .work_entry rfl
  have h3 := h .work_func rfl
  have h4 := h .lists rfl
  have h6 := h .pwq_work_color rfl
  have h7 := h .pwq_nr_in_flight rfl
  have h8 := h .pwq_nr_active rfl
  have h9 := h .pwq_max_active rfl
  have h10 := h .worker_current_work rfl
  have h12 := h .worker_current_pwq rfl
  have h13 := h .worker_current_color rfl
  have h15 := h .worker_frame_pwq rfl
  have h16 := h .worker_frame_work_data rfl
  unfold acc
  rw [fview_congr s s2 h]
  unfold core colr fcol Acc.of
  simp only [h1, h2, h3, h4, h6, h7, h8, h9, h10, h12, h13, h15, h16]

/-- The ledger after a write to a field that it does not read. -/
theorem acc_set_other (s : State) (f : Field) (v : f.type) (hf : Field.ledger f = false) :
    acc (s.set f v) = acc s := by
  apply acc_congr
  intro g hg
  have : g ≠ f := ledger_ne g f hg hf
  simp [this]

/-- The ledger of a state given field by field. -/
theorem acc_eq (s2 : State) (a : Acc)
    (h1 : ∀ p, s2.lists (list_head.inactive_works p) = a.inactive p)
    (h2 : ∀ x, item_of (s2.work_entry x) (s2.work_data x) (s2.work_func x) = a.item x)
    (h3 : ∀ k, run_of_worker (s2.worker_current_work k) (s2.worker_frame_pwq k)
      (s2.worker_frame_work_data k) (s2.worker_current_pwq k) (s2.worker_current_color k) =
        a.run k)
    (h4 : s2.pwq_nr_active = a.nr_active) (h5 : s2.pwq_nr_in_flight = a.nr_in_flight)
    (h6 : s2.pwq_max_active = a.max_active) (h7 : s2.pwq_work_color = a.work_color)
    (h8 : fview s2 = a.fv) : acc s2 = a := by
  apply Acc.ext
  · funext p; exact h1 p
  · funext x; exact h2 x
  · funext k; exact h3 k
  · exact h4
  · exact h5
  · exact h6
  · exact h7
  · exact h8

/-- The record of an unlinked work item does not depend on its data word. -/
theorem item_of_none (d f : Nat) : item_of none d f = none := rfl

/-- The ledger after the data word of the work item `x` was rewritten, if `x` is not
linked or the new word has the same pool_workqueue, colour and INACTIVE bit. -/
theorem acc_set_data (s : State) (x d : Nat)
    (h : s.work_entry x ≠ none → work_struct_pwq d = work_struct_pwq (s.work_data x) ∧
      get_work_color d = get_work_color (s.work_data x) ∧
      (d &&& WORK_STRUCT_INACTIVE ≠ 0 ↔ s.work_data x &&& WORK_STRUCT_INACTIVE ≠ 0)) :
    acc (s.set .work_data (Function.update s.work_data x d)) = acc s := by
  apply acc_eq
  · intro p; rfl
  · intro y
    show item_of (s.work_entry y) (Function.update s.work_data x d y) (s.work_func y) = _
    rw [acc_item]
    by_cases hy : y = x
    · subst hy
      rw [Function.update_same]
      by_cases he : s.work_entry y = none
      · rw [he]; rfl
      · obtain ⟨a1, a2, a3⟩ := h he
        unfold item_of
        rw [if_neg he, if_neg he, a1, a2]
        simp only [a3]
    · rw [Function.update_noteq hy]
  · intro k; rfl
  · rfl
  · rfl
  · rfl
  · rfl
  · rfl

theorem acc_claim (s : State) (work : Nat) : acc (test_and_set_bit_pending s work).2 = acc s := by
  apply acc_set_data
  intro _
  refine ⟨?_, ?_, ?_⟩
  · show (_ ||| _) &&& WORK_STRUCT_WQ_DATA_MASK = _ &&& WORK_STRUCT_WQ_DATA_MASK
    apply Nat.eq_of_testBit_eq
    intro i
    simp only [Nat.testBit_and, Nat.testBit_or, work_data_bits]
    by_cases hi : i = 0
    · subst hi
      simp +decide
    · have : (1 <<< WORK_STRUCT_PENDING_BIT).testBit i = false := by
        rw [testBit_one_shl]
        exact decide_eq_false (fun h => hi h.symm)
      rw [this, Bool.or_false]
  · rw [get_work_color_eq, get_work_color_eq, color_nat_or]
    simp +decide [work_data_bits]
  · simp only [work_data_bits, ne_eq, and_bit_eq_zero, Nat.testBit_or]
    simp +decide

theorem acc_offq (s : State) (work d : Nat) (hl : s.work_entry work = none) :
    acc (s.set .work_data (Function.update s.work_data work d)) = acc s :=
  acc_set_data s work d (fun h => absurd hl h)

theorem acc_release_clear (s : State) (work : Nat) (hl : s.work_entry work = none) :
    acc (clear_work_data s work) = acc s := acc_offq s work _ hl

theorem acc_release_pool (s : State) (work : Nat) (hl : s.work_entry work = none) :
    acc (set_work_pool_and_clear_pending s work (get_work_pool_id s work)) = acc s :=
  acc_offq s work _ hl

theorem acc_canceling (s : State) (work : Nat) (hl : s.work_entry work = none) :
    acc (mark_work_canceling s work) = acc s := acc_offq s work _ hl

/-- The ledger after a write to a field outside the accounting view: only the flush fields
can have changed. -/
theorem acc_env (s : State) (f : Field) (v : f.type) (hf : Field.external f = true) :
    acc (s.set f v) = { acc s with fv := fview (s.set f v) } := by
  unfold acc
  rw [core_set_external s f v hf]
  have hd : (s.set f v).work_data = s.work_data := by
    have : (Field.work_data : Field) ≠ f := external_ne _ _ rfl hf
    simp [State.work_data, this]
  have hw : (s.set f v).worker_frame_work_data = s.worker_frame_work_data := by
    have : (Field.worker_frame_work_data : Field) ≠ f := external_ne _ _ rfl hf
    simp [State.worker_frame_work_data, this]
  have e1 : colr (s.set f v) = colr s := by
    funext x
    unfold colr
    rw [hd]
  have e2 : fcol (s.set f v) = fcol s := by
    funext x
    unfold fcol
    rw [hw]
  rw [e1, e2]
  rfl

/-- The records of the work items after the entry, the data word and the function of the
work item `w` were rewritten. -/
theorem item_update (s s2 : State) (w : Nat) (e : Option list_head) (d f : Nat)
    (h1 : s2.work_entry = Function.update s.work_entry w e)
    (h2 : s2.work_data = Function.update s.work_data w d)
    (h3 : s2.work_func = Function.update s.work_func w f) (x : Nat) :
    item_of (s2.work_entry x) (s2.work_data x) (s2.work_func x) =
      Function.update (acc s).item w (item_of e d f) x := by
  rw [h1, h2, h3]
  by_cases hx : x = w
  · subst hx
    simp only [Function.update_same]
  · simp only [Function.update_noteq hx]
    rfl

/-- The part of the ledger that a step leaves alone if it writes to the lists, the entries,
the data words, the work functions, `nr_active` and `nr_in_flight` only. -/
theorem acc_rest (s s2 : State)
    (h : ∀ g, Field.ledger g = true → g ≠ .lists → g ≠ .work_entry → g ≠ .work_data →
      g ≠ .work_func → g ≠ .pwq_nr_active → g ≠ .pwq_nr_in_flight → s2 g = s g) :
    (∀ k, run_of_worker (s2.worker_current_work k) (s2.worker_frame_pwq k)
      (s2.worker_frame_work_data k) (s2.worker_current_pwq k) (s2.worker_current_color k) =
        (acc s).run k) ∧
    s2.pwq_max_active = (acc s).max_active ∧ s2.pwq_work_color = (acc s).work_color ∧
    fview s2 = (acc s).fv := by
  have h6 := h .pwq_work_color rfl (by decide) (by decide) (by decide) (by decide) (by decide)
    (by decide)
  have h9 := h .pwq_max_active rfl (by decide) (by decide) (by decide) (by decide) (by decide)
    (by decide)
  have h10 := h .worker_current_work rfl (by decide) (by decide) (by decide) (by decide)
    (by decide) (by decide)
  have h12 := h .worker_current_pwq rfl (by decide) (by decide) (by decide) (by decide)
    (by decide) (by decide)
  have h13 := h .worker_current_color rfl (by decide) (by decide) (by decide) (by decide)
    (by decide) (by decide)
  have h15 := h .worker_frame_pwq rfl (by decide) (by decide) (by decide) (by decide)
    (by decide) (by decide)
  have h16 := h .worker_frame_work_data rfl (by decide) (by decide) (by decide) (by decide)
    (by decide) (by decide)
  have f1 := h .pwq_flush_color rfl (by decide) (by decide) (by decide) (by decide) (by decide)
    (by decide)
  have f2 := h .wq_nr_pwqs_to_flush rfl (by decide) (by decide) (by decide) (by decide)
    (by decide) (by decide)
  have f3 := h .flusher_done rfl (by decide) (by decide) (by decide) (by decide) (by decide)
    (by decide)
  have f4 := h .flusher_flush_color rfl (by decide) (by decide) (by decide) (by decide)
    (by decide) (by decide)
  have f5 := h .wq_work_color rfl (by decide) (by decide) (by decide) (by decide) (by decide)
    (by decide)
  have f6 := h .wq_flush_color rfl (by decide) (by decide) (by decide) (by decide) (by decide)
    (by decide)
  have f7 := h .wq_first_flusher rfl (by decide) (by decide) (by decide) (by decide)
    (by decide) (by decide)
  have f8 := h .wq_flusher_queue rfl (by decide) (by decide) (by decide) (by decide)
    (by decide) (by decide)
  have f9 := h .wq_flusher_overflow rfl (by decide) (by decide) (by decide) (by decide)
    (by decide) (by decide)
  have f10 := h .wq_pwqs rfl (by decide) (by decide) (by decide) (by decide) (by decide)
    (by decide)
  have f11 := h .pwq_wq rfl (by decide) (by decide) (by decide) (by decide) (by decide)
    (by decide)
  refine ⟨?_, h9, h6, ?_⟩
  · intro k
    rw [acc_run]
    simp only [State.worker_current_work, State.worker_frame_pwq, State.worker_frame_work_data,
      State.worker_current_pwq, State.worker_current_color, h10, h12, h13, h15, h16]
  · show fview s2 = fview s
    unfold fview
    simp only [State.pwq_flush_color, State.wq_nr_pwqs_to_flush, State.flusher_done,
      State.flusher_flush_color, State.wq_work_color, State.wq_flush_color,
      State.wq_first_flusher, State.wq_flusher_queue, State.wq_flusher_overflow, State.wq_pwqs,
      State.pwq_wq, f1, f2, f3, f4, f5, f6, f7, f8, f9, f10, f11]

/-! ## The step `queue` -/

theorem acc___queue_work_insert (s : State) (pwq work : Nat)
    (hentry : s.work_entry work = none) (hnb : s.work_func work ≠ wq_barrier_func)
    (hal : aligned_pwq pwq)
    (hc0 : 0 ≤ s.pwq_work_color pwq) (hc1 : s.pwq_work_color pwq < 16) :
    acc (__queue_work_insert s pwq work) = (acc s).enqueue work pwq := by
  obtain ⟨v1, _, v3, v4⟩ := __queue_work_insert_spec s pwq work hentry
  have hfr : ∀ g, Field.ledger g = true → g ≠ .lists → g ≠ .work_entry → g ≠ .work_data →
      g ≠ .work_func → g ≠ .pwq_nr_active → g ≠ .pwq_nr_in_flight →
      __queue_work_insert s pwq work g = s g := by
    intro g hg h2 h3 h4 _ h5 h6
    exact __queue_work_insert_frame s pwq work g (ledger_ne g _ hg rfl) h2 h3 h4 h5 h6
      (ledger_ne g _ hg rfl) (ledger_ne g _ hg rfl) (ledger_ne g _ hg rfl)
      (ledger_ne g _ hg rfl)
  have hf : (__queue_work_insert s pwq work).work_func =
      Function.update s.work_func work (s.work_func work) := by
    rw [Function.update_eq_self]
    exact __queue_work_insert_frame s pwq work .work_func (by simp) (by simp) (by simp) (by simp)
      (by simp) (by simp) (by simp) (by simp) (by simp) (by simp)
  obtain ⟨r1, r2, r3, r4⟩ := acc_rest s _ hfr
  have hb : decide (s.work_func work = wq_barrier_func) = false := decide_eq_false hnb
  have hcol : get_work_color (work_color_to_flags (s.pwq_work_color pwq)) =
      s.pwq_work_color pwq := by
    have := get_work_color_flags 0 _ (by decide) hc0 hc1
    simpa using this
  by_cases hact : s.pwq_nr_active pwq < s.pwq_max_active pwq
  · obtain ⟨a1, a2, a3, a4⟩ := v3 hact
    obtain ⟨f1, f2, f3⟩ := flags_active_views _ hc0 hc1
    obtain ⟨w1, w2, w3, w4, w5, w6⟩ := queued_word_views pwq _ hal.1 hal.2 f1
    have e : (acc s).enqueue work pwq =
        { (acc s).add_nif pwq ((acc s).work_color pwq) 1 with
          item := Function.update (acc s).item work
            (some ⟨pwq, (acc s).work_color pwq, false, false⟩)
          nr_active := Function.update (acc s).nr_active pwq ((acc s).nr_active pwq + 1) } := by
      unfold Acc.enqueue
      rw [if_pos (show (acc s).nr_active pwq < (acc s).max_active pwq from hact)]
    rw [e]
    apply acc_eq
    · intro p
      rw [a2]
      show _ = s.lists _
      rw [Function.update_noteq (by simp)]
    · intro x
      rw [item_update s _ work _ _ _ a3 a4 hf]
      unfold item_of
      rw [if_neg (by simp), w1, w6, hb, hcol, decide_eq_false (by rw [not_not]; exact w4.2 f2)]
      rfl
    · exact r1
    · exact a1
    · exact v1
    · exact r2
    · exact r3
    · exact r4
  · obtain ⟨a1, a2, a3, a4⟩ := v4 hact
    obtain ⟨f1, f2, f3⟩ := flags_inactive_views _ hc0 hc1
    obtain ⟨w1, w2, w3, w4, w5, w6⟩ := queued_word_views pwq _ hal.1 hal.2 f1
    have hcol2 : get_work_color (work_color_to_flags (s.pwq_work_color pwq) |||
        WORK_STRUCT_INACTIVE) = s.pwq_work_color pwq := by
      rw [Nat.lor_comm]
      exact get_work_color_flags _ _ (by decide) hc0 hc1
    have e : (acc s).enqueue work pwq =
        { (acc s).add_nif pwq ((acc s).work_color pwq) 1 with
          inactive := Function.update (acc s).inactive pwq ((acc s).inactive pwq ++ [work])
          item := Function.update (acc s).item work
            (some ⟨pwq, (acc s).work_color pwq, true, false⟩) } := by
      unfold Acc.enqueue
      rw [if_neg (show ¬ (acc s).nr_active pwq < (acc s).max_active pwq from hact)]
    rw [e]
    apply acc_eq
    · intro p
      rw [a2]
      show _ = Function.update (fun p => s.lists (list_head.inactive_works p)) pwq _ p
      by_cases hp : p = pwq
      · subst hp
        simp only [Function.update_same]
        rfl
      · rw [Function.update_noteq hp, Function.update_noteq (by simpa using hp)]
    · intro x
      rw [item_update s _ work _ _ _ a3 a4 hf]
      unfold item_of
      rw [if_neg (by simp), w1, w6, hb, hcol2,
        decide_eq_true (by intro e; rw [w4.1 e] at f2; exact absurd f2 (by simp))]
      rfl
    · exact r1
    · exact a1
    · exact v1
    · exact r2
    · exact r3
    · exact r4

theorem acc___queue_work_cpu (s : State) (t : task_ctx) (c wq : Nat) :
    acc (__queue_work_cpu s t c wq).2 = acc s :=
  acc_congr _ _ (fun g hg => __queue_work_cpu_frame s t c wq g (ledger_ne g _ hg rfl))

theorem acc___queue_work_retry (fuel : Nat) (s : State) (t : task_ctx) (cpu wq work : Nat)
    (s2 : State) (hi : InvC (core s)) (hent : s.work_entry work = none)
    (hnb : s.work_func work ≠ wq_barrier_func)
    (h : __queue_work_retry fuel s t cpu wq work = some s2) :
    ∃ pwq, acc s2 = (acc s).enqueue work pwq := by
  induction fuel generalizing s with
  | zero => simp [__queue_work_retry] at h
  | succ n ih =>
    have hc : core (__queue_work_cpu s t cpu wq).2 = core s := core___queue_work_cpu s t cpu wq
    have ha : acc (__queue_work_cpu s t cpu wq).2 = acc s := acc___queue_work_cpu s t cpu wq
    have hi1 : InvC (core (__queue_work_cpu s t cpu wq).2) := by rw [hc]; exact hi
    have hent1 : (__queue_work_cpu s t cpu wq).2.work_entry work = none := by
      have := congrArg Core.entry hc
      exact (congrFun this work).trans hent
    have hnb1 : (__queue_work_cpu s t cpu wq).2.work_func work ≠ wq_barrier_func := by
      have := congrArg Core.func hc
      rw [show (__queue_work_cpu s t cpu wq).2.work_func work = s.work_func work from
        congrFun this work]
      exact hnb
    unfold __queue_work_retry at h
    split_ifs at h with hcond
    · obtain ⟨pwq, he⟩ := ih _ hi1 hent1 hnb1 h
      exact ⟨pwq, by rw [he, ha]⟩
    · have hs2 := Option.some.inj h
      refine ⟨__queue_work_target s t cpu wq work, ?_⟩
      have e1 : (__queue_work_cpu s t cpu wq).2.pwq_work_color = s.pwq_work_color :=
        congrArg Core.work_color hc
      have hcol := hi.e.color_ok (__queue_work_target s t cpu wq work)
      have := acc___queue_work_insert (__queue_work_cpu s t cpu wq).2
        (__queue_work_target s t cpu wq work) work hent1 hnb1
        (__queue_work_pwq_aligned _ hi1 _ wq work) (by rw [e1]; exact hcol.1)
        (by rw [e1]; exact hcol.2)
      rw [← hs2, this, ha]

/-- The ledger after `__queue_work`: unchanged when the workqueue refuses the work item,
else the work item is queued for some pool_workqueue. -/
theorem acc___queue_work (fuel : Nat) (s : State) (t : task_ctx) (cpu wq work : Nat)
    (s2 : State) (hi : InvC (core s)) (hent : s.work_entry work = none)
    (hnb : s.work_func work ≠ wq_barrier_func)
    (h : __queue_work fuel s t cpu wq work = some s2) :
    acc s2 = acc s ∨ ∃ pwq, acc s2 = (acc s).enqueue work pwq := by
  unfold __queue_work at h
  split_ifs at h
  · left
    rw [← Option.some.inj h]
  · right
    exact acc___queue_work_retry fuel s t cpu wq work s2 hi hent hnb h

/-! ## The step `flush` -/

/-- The record of a work item depends on the pool_workqueue, the colour and the INACTIVE
bit of its data word only. -/
theorem item_of_congr (e : Option list_head) (d d2 f : Nat)
    (h1 : work_struct_pwq d2 = work_struct_pwq d) (h2 : get_work_color d2 = get_work_color d)
    (h3 : d2 &&& WORK_STRUCT_INACTIVE = d &&& WORK_STRUCT_INACTIVE) :
    item_of e d2 f = item_of e d f := by
  unfold item_of
  rw [h1, h2, h3]

theorem color_or_linked (d : Nat) :
    get_work_color (d ||| (1 <<< WORK_STRUCT_LINKED_BIT)) = get_work_color d := by
  rw [get_work_color_eq, get_work_color_eq, color_nat_or]
  have : (1 <<< WORK_STRUCT_LINKED_BIT >>> 4) &&& 15 = 0 := by decide
  rw [this, Nat.or_zero]

theorem acc_insert_wq_barrier_after (s : State) (hi : InvC (core s)) (barr target : Nat)
    (H : list_head) (hb : s.work_entry barr = none) (ht : s.work_entry target = some H) :
    acc (insert_wq_barrier s (work_struct_pwq (s.work_data target)) barr target 0) =
      (acc s).add_barrier barr target (work_struct_pwq (s.work_data target))
        (get_work_color (s.work_data target)) := by
  have hbt : barr ≠ target := by
    intro e; rw [e] at hb; rw [hb] at ht; exact absurd ht (by simp)
  obtain ⟨v1, v2, v3, v4, v5⟩ := insert_wq_barrier_after_fields s
    (work_struct_pwq (s.work_data target)) barr target H hbt hb ht (hi.l.nodup H)
    (hi.l.mem_entry H)
  obtain ⟨c0, c1⟩ := get_work_color_lt (s.work_data target)
  obtain ⟨f1, f2, f3⟩ := barrier_flags_views (s.work_data target) _ c0 c1
  have hal : aligned_pwq (work_struct_pwq (s.work_data target)) :=
    work_struct_pwq_aligned _
  obtain ⟨w1, w2, w3, w4, w5, w6⟩ := queued_word_views _ _ hal.1 hal.2 f1
  have hfr : ∀ g, Field.ledger g = true → g ≠ .lists → g ≠ .work_entry → g ≠ .work_data →
      g ≠ .work_func → g ≠ .pwq_nr_active → g ≠ .pwq_nr_in_flight →
      insert_wq_barrier s (work_struct_pwq (s.work_data target)) barr target 0 g = s g := by
    intro g hg h2 h3 h4 h5 _ h6
    exact insert_wq_barrier_frame s _ barr target 0 g h4 h3 h5 h2 h6 (ledger_ne g _ hg rfl)
  obtain ⟨r1, r2, r3, r4⟩ := acc_rest s _ hfr
  have hna : (insert_wq_barrier s (work_struct_pwq (s.work_data target)) barr target 0).pwq_nr_active
      = s.pwq_nr_active :=
    insert_wq_barrier_frame s _ barr target 0 .pwq_nr_active (by simp) (by simp) (by simp)
      (by simp) (by simp) (by simp)
  have hcol : get_work_color (WORK_STRUCT_INACTIVE ||| (s.work_data target &&& WORK_STRUCT_LINKED)
      ||| work_color_to_flags (get_work_color (s.work_data target))) =
      get_work_color (s.work_data target) := by
    apply get_work_color_flags _ _ _ c0 c1
    have : s.work_data target &&& WORK_STRUCT_LINKED ≤ WORK_STRUCT_LINKED := Nat.and_le_right
    have h2 : WORK_STRUCT_INACTIVE ||| (s.work_data target &&& WORK_STRUCT_LINKED) < 2 ^ 4 :=
      Nat.or_lt_two_pow (by decide) (lt_of_le_of_lt this (by decide))
    exact h2
  unfold Acc.add_barrier
  apply acc_eq
  · intro p
    rw [v4]
    show _ = if target ∈ s.lists (list_head.inactive_works p) then
      list_before target (s.lists (list_head.inactive_works p)) ++
        target :: barr :: (list_from target (s.lists (list_head.inactive_works p))).drop 1
      else s.lists (list_head.inactive_works p)
    by_cases hp : H = list_head.inactive_works p
    · subst hp
      rw [Function.update_same]
      exact (if_pos ((hi.l.mem_entry _ target).2 ht)).symm
    · rw [Function.update_noteq (Ne.symm hp), if_neg]
      intro hm
      have := (hi.l.mem_entry _ target).1 hm
      rw [show (core s).entry target = s.work_entry target from rfl, ht] at this
      exact hp (Option.some.inj this)
  · intro x
    rw [v1, v2, v3]
    show _ = Function.update (acc s).item barr _ x
    by_cases hx : x = barr
    · subst hx
      simp only [Function.update_same]
      unfold item_of
      rw [if_neg (by simp), w1, w6, hcol,
        decide_eq_true (by intro e; rw [w4.1 e] at f2; exact absurd f2 (by simp))]
      simp
    · simp only [Function.update_noteq hx]
      rw [acc_item]
      by_cases hxt : x = target
      · subst hxt
        rw [Function.update_same]
        obtain ⟨o1, _, _, o4, _⟩ := or_linked_views (s.work_data x)
        exact item_of_congr _ _ _ _ o1 (color_or_linked _) o4
      · rw [Function.update_noteq hxt]
  · exact r1
  · exact hna
  · exact v5
  · exact r2
  · exact r3
  · exact r4

theorem acc_insert_wq_barrier_front (s : State) (hi : InvC (core s)) (barr k : Nat)
    (hk : s.worker_current_work k ≠ 0) (hb : s.work_entry barr = none) :
    acc (insert_wq_barrier s (s.worker_current_pwq k) barr 0 k) =
      (acc s).add_barrier_front barr (s.worker_current_pwq k) (s.worker_current_color k) := by
  have hk0 : k ≠ 0 := by
    intro e; rw [e] at hk; exact hk hi.e.idle0
  obtain ⟨v1, v2, v3, v4, v5⟩ := insert_wq_barrier_front_fields s (s.worker_current_pwq k) barr k
    hk0 hb (hi.l.mem_entry _)
  obtain ⟨c0, c1⟩ := hi.e.exec_color k hk
  obtain ⟨f1, f2, f3⟩ := barrier_flags_views_front (s.worker_current_color k) c0 c1
  have hal : aligned_pwq (s.worker_current_pwq k) := (hi.e.exec_pwq k hk).2.2
  obtain ⟨w1, w2, w3, w4, w5, w6⟩ := queued_word_views _ _ hal.1 hal.2 f1
  have hfr : ∀ g, Field.ledger g = true → g ≠ .lists → g ≠ .work_entry → g ≠ .work_data →
      g ≠ .work_func → g ≠ .pwq_nr_active → g ≠ .pwq_nr_in_flight →
      insert_wq_barrier s (s.worker_current_pwq k) barr 0 k g = s g := by
    intro g hg h2 h3 h4 h5 _ h6
    exact insert_wq_barrier_frame s _ barr 0 k g h4 h3 h5 h2 h6 (ledger_ne g _ hg rfl)
  obtain ⟨r1, r2, r3, r4⟩ := acc_rest s _ hfr
  have hna : (insert_wq_barrier s (s.worker_current_pwq k) barr 0 k).pwq_nr_active
      = s.pwq_nr_active :=
    insert_wq_barrier_frame s _ barr 0 k .pwq_nr_active (by simp) (by simp) (by simp)
      (by simp) (by simp) (by simp)
  have hcol : get_work_color (WORK_STRUCT_INACTIVE |||
      work_color_to_flags (s.worker_current_color k)) = s.worker_current_color k :=
    get_work_color_flags _ _ (by decide) c0 c1
  unfold Acc.add_barrier_front
  apply acc_eq
  · intro p
    rw [v4]
    show _ = s.lists _
    rw [Function.update_noteq (by simp)]
  · intro x
    have v1b : (insert_wq_barrier s (s.worker_current_pwq k) barr 0 k).work_func =
        Function.update s.work_func barr wq_barrier_func := v1
    rw [item_update s _ barr _ _ _ v3 v2 v1b]
    show _ = Function.update (acc s).item barr _ x
    unfold item_of
    rw [if_neg (by simp), w1, w6, hcol,
      decide_eq_true (by intro e; rw [w4.1 e] at f2; exact absurd f2 (by simp))]
    simp
  · exact r1
  · exact hna
  · exact v5
  · exact r2
  · exact r3
  · exact r4

/-! ## Activation of an inactive work item in the ledger -/

theorem list_from_of_mem (w : Nat) (l : List Nat) (h : w ∈ l) :
    list_from w l = w :: (list_from w l).drop 1 := by
  induction l with
  | nil => simp at h
  | cons x l ih =>
    by_cases hx : x = w
    · subst hx
      rw [list_from_head]
      rfl
    · have hm : w ∈ l := by
        rcases List.mem_cons.1 h with e | e
        · exact absurd e.symm hx
        · exact e
      have e : list_from w (x :: l) = list_from w l := by
        unfold list_from
        rw [List.dropWhile_cons_of_pos (by simpa using hx)]
      rw [e]
      exact ih hm

theorem list_from_subset (w : Nat) (l : List Nat) : ∀ y ∈ list_from w l, y ∈ l := by
  intro y hy
  have := list_before_from w l
  rw [← this]
  exact List.mem_append_right _ hy

/-- After the run of linked items that starts a chain come the items behind its barriers. -/
theorem drop_run_of (lk b : Nat → Bool) (w : Nat) (T : List Nat)
    (h1 : (w :: T).Chain' (fun x y => lk x = true → b y = true))
    (h2 : (w :: T).Chain' (fun x y => b y = true → lk x = true))
    (h3 : ∀ z, (w :: T).getLast? = some z → lk z = false) :
    (w :: T).drop (run_of lk (w :: T)).length = T.dropWhile b := by
  induction T generalizing w with
  | nil =>
    have : lk w = false := h3 w rfl
    simp [run_of, this]
  | cons y T ih =>
    rw [List.chain'_cons] at h1 h2
    by_cases hw : lk w = false
    · have hb : b y = false := by
        by_contra hb
        have := h2.1 (by simpa using hb)
        rw [hw] at this
        exact absurd this (by simp)
      simp [run_of, hw, hb]
    · have hw1 : lk w = true := by simpa using hw
      have hb : b y = true := h1.1 hw1
      have h3b : ∀ z, (y :: T).getLast? = some z → lk z = false := by
        intro z hz
        apply h3 z
        rw [List.getLast?_cons_cons]
        exact hz
      have := ih y h1.2 h2.2 h3b
      simp only [run_of, hw1, Bool.true_eq_false, if_false, List.length_cons,
        List.drop_succ_cons]
      rw [List.dropWhile_cons_of_pos hb]
      exact this

theorem dropWhile_congr_mem (p q : Nat → Bool) (l : List Nat) (h : ∀ y ∈ l, p y = q y) :
    l.dropWhile p = l.dropWhile q := by
  induction l with
  | nil => rfl
  | cons x l ih =>
    have hx := h x (List.mem_cons_self _ _)
    by_cases hp : p x = true
    · rw [List.dropWhile_cons_of_pos hp, List.dropWhile_cons_of_pos (hx ▸ hp)]
      exact ih (fun y hy => h y (List.mem_cons_of_mem _ hy))
    · rw [List.dropWhile_cons_of_neg hp, List.dropWhile_cons_of_neg (hx ▸ hp)]

theorem item_of_some (h h2 : list_head) (d f : Nat) :
    item_of (some h) d f = item_of (some h2) d f := rfl

theorem is_barrier_linked (u : State) (y : Nat) (h : u.work_entry y ≠ none) :
    (acc u).is_barrier y = decide (u.work_func y = wq_barrier_func) := by
  unfold Acc.is_barrier
  rw [acc_item]
  unfold item_of
  rw [if_neg h]

/-- The items that `pwq_activate_inactive_work` leaves on `inactive_works`. -/
theorem drop_linked_run (u : State) (p w : Nat) (hok : InactiveOk u p)
    (hw : w ∈ u.lists (list_head.inactive_works p)) :
    (list_from w (u.lists (list_head.inactive_works p))).drop
      (linked_run u.work_data (list_from w (u.lists (list_head.inactive_works p)))).length =
    ((list_from w (u.lists (list_head.inactive_works p))).drop 1).dropWhile (acc u).is_barrier := by
  have hF := list_from_of_mem w _ hw
  generalize hT : (list_from w (u.lists (list_head.inactive_works p))).drop 1 = T at hF
  have hL := list_before_from w (u.lists (list_head.inactive_works p))
  rw [hF] at hL
  have c1 : (w :: T).Chain' (fun x y => decide (u.work_data x &&& WORK_STRUCT_LINKED ≠ 0) = true →
      decide (u.work_func y = wq_barrier_func) = true) := by
    have := hok.chain.1
    rw [← hL] at this
    have := (List.chain'_append.1 this).2.1
    exact this.imp (fun {a b} h hh => decide_eq_true (h hh))
  have c2 : (w :: T).Chain' (fun x y => decide (u.work_func y = wq_barrier_func) = true →
      decide (u.work_data x &&& WORK_STRUCT_LINKED ≠ 0) = true) := by
    have := hok.ichain.1
    rw [← hL] at this
    have := (List.chain'_append.1 this).2.1
    exact this.imp (fun {a b} h hh => h (of_decide_eq_true hh))
  have c3 : ∀ z, (w :: T).getLast? = some z →
      decide (u.work_data z &&& WORK_STRUCT_LINKED ≠ 0) = false := by
    intro z hz
    apply hok.chain.2 z
    rw [← hL, List.getLast?_append_of_ne_nil _ (by simp)]
    exact hz
  rw [hF, linked_run_eq_run_of, drop_run_of _ _ w T c1 c2 c3]
  apply dropWhile_congr_mem
  intro y hy
  rw [is_barrier_linked]
  have hm : y ∈ u.lists (list_head.inactive_works p) := by
    rw [← hL]
    exact List.mem_append_right _ (List.mem_cons_of_mem _ hy)
  rw [hok.entry y hm]
  simp

theorem acc_activate (u : State) (w p : Nat) (hok : InactiveOk u p)
    (hw : w ∈ u.lists (list_head.inactive_works p)) :
    acc (pwq_activate_inactive_work u w) = (acc u).activate w p := by
  have he := hok.entry w hw
  obtain ⟨hp1, hp2⟩ := hok.pwq w hw
  have hg : get_work_pwq u w = p := by
    unfold get_work_pwq work_data_bits
    rw [if_pos hp1, hp2]
  obtain ⟨v1, v2, v3, v4⟩ := pwq_activate_inactive_work_spec u w _ he (by simp) hw hok.nodup
    hok.entry
  rw [hg] at v1 v2 v4
  have hfr : ∀ g, Field.ledger g = true → g ≠ .lists → g ≠ .work_entry → g ≠ .work_data →
      g ≠ .work_func → g ≠ .pwq_nr_active → g ≠ .pwq_nr_in_flight →
      pwq_activate_inactive_work u w g = u g := by
    intro g hg h2 h3 h4 _ h5 _
    exact pwq_activate_inactive_work_frame u w g (ledger_ne g _ hg rfl) h2 h3 h4 h5
  obtain ⟨r1, r2, r3, r4⟩ := acc_rest u _ hfr
  have hf : (pwq_activate_inactive_work u w).work_func = u.work_func :=
    pwq_activate_inactive_work_frame u w .work_func (by simp) (by simp) (by simp) (by simp)
      (by simp)
  have hn : (pwq_activate_inactive_work u w).pwq_nr_in_flight = u.pwq_nr_in_flight :=
    pwq_activate_inactive_work_frame u w .pwq_nr_in_flight (by simp) (by simp) (by simp)
      (by simp) (by simp)
  unfold Acc.activate
  apply acc_eq
  · intro q
    rw [v1]
    show _ = Function.update (fun q => u.lists (list_head.inactive_works q)) p _ q
    rw [if_neg (by simp)]
    by_cases hq : q = p
    · subst hq
      rw [if_pos rfl, Function.update_same, drop_linked_run u q w hok hw]
      rfl
    · rw [if_neg (by simpa using hq), Function.update_noteq hq]
  · intro x
    rw [v2, v3, hf]
    show _ = Function.update (acc u).item w _ x
    by_cases hx : x = w
    · subst hx
      rw [Function.update_same, Function.update_same, acc_item, he]
      have hr : x ∈ linked_run u.work_data (list_from x (u.lists (list_head.inactive_works p))) := by
        rw [list_from_of_mem x _ hw]
        exact linked_run_head_mem _ _ _
      rw [if_pos hr]
      obtain ⟨c1, _, _, _, _, c6⟩ := clear_inactive_views (u.work_data x)
      unfold item_of
      rw [if_neg (by simp), if_neg (by simp), clear_inactive_pwq, c6, c1]
      simp
    · rw [Function.update_noteq hx, Function.update_noteq hx, acc_item]
      split_ifs with hr
      · have hm := list_from_subset w _ x (linked_run_subset _ _ x hr)
        rw [hok.entry x hm]
        rfl
      · rfl
  · exact r1
  · rw [v4]; rfl
  · exact hn
  · exact r2
  · exact r3
  · exact r4

/-! ## The ledger after `pwq_dec_nr_in_flight` -/

theorem acc_set_nr_active (s : State) (v : Nat → Int) :
    acc (s.set .pwq_nr_active v) = { acc s with nr_active := v } := rfl

theorem acc_set_nr_in_flight (s : State) (v : Nat → Int → Int) :
    acc (s.set .pwq_nr_in_flight v) = { acc s with nr_in_flight := v } := rfl

theorem acc_put_pwq (s : State) (p : Nat) : acc (put_pwq s p) = acc s :=
  acc_congr _ _ (fun g hg => put_pwq_frame s p g (ledger_ne g _ hg rfl) (ledger_ne g _ hg rfl))

theorem acc_kick_pool (s : State) (p : Nat) : acc (kick_pool s p).2 = acc s :=
  acc_congr _ _ (fun g hg => kick_pool_frame s p g (ledger_ne g _ hg rfl)
    (ledger_ne g _ hg rfl) (ledger_ne g _ hg rfl))

theorem acc_worker_set_flags (s : State) (k f : Nat) : acc (worker_set_flags s k f) = acc s :=
  acc_congr _ _ (fun g hg => worker_set_flags_frame s k f g (ledger_ne g _ hg rfl)
    (ledger_ne g _ hg rfl))

theorem acc_worker_clr_flags (s : State) (k f : Nat) : acc (worker_clr_flags s k f) = acc s :=
  acc_congr _ _ (fun g hg => worker_clr_flags_frame s k f g (ledger_ne g _ hg rfl)
    (ledger_ne g _ hg rfl))

theorem acc_del_timer (s : State) (w : Nat) : acc (del_timer s w) = acc s :=
  acc_congr _ _ (fun g hg => del_timer_frame s w g (ledger_ne g _ hg rfl))

theorem fview_pwq_flush_tip (s : State) (p : Nat) (c : Int) :
    fview (pwq_flush_tip s p c) = (fview s).tip p c (s.pwq_nr_in_flight p c) := by
  unfold pwq_flush_tip FlushView.tip
  by_cases h1 : s.pwq_flush_color p ≠ c
  · rw [if_pos h1, if_pos (show (fview s).pwq_flush_color p ≠ c from h1)]
  rw [if_neg h1, if_neg (show ¬ (fview s).pwq_flush_color p ≠ c from h1)]
  by_cases h2 : s.pwq_nr_in_flight p c ≠ 0
  · rw [if_pos h2, if_pos h2]
  rw [if_neg h2, if_neg h2]
  simp only []
  by_cases h3 : s.wq_nr_pwqs_to_flush (s.pwq_wq p) - 1 = 0
  · rw [if_pos (show (fview s).nr_pwqs_to_flush ((fview s).pwq_wq p) - 1 = 0 from h3), if_pos]
    · rfl
    · simpa [State.set, State.wq_nr_pwqs_to_flush, State.pwq_wq] using h3
  · rw [if_neg (show ¬ (fview s).nr_pwqs_to_flush ((fview s).pwq_wq p) - 1 = 0 from h3), if_neg]
    · rfl
    · simpa [State.set, State.wq_nr_pwqs_to_flush, State.pwq_wq] using h3

theorem acc_pwq_flush_tip (s : State) (p : Nat) (c : Int) :
    acc (pwq_flush_tip s p c) = (acc s).tip p c := by
  have hc : core (pwq_flush_tip s p c) = core s := core_pwq_flush_tip s p c
  have hd : (pwq_flush_tip s p c).work_data = s.work_data :=
    pwq_flush_tip_frame s p c .work_data (by simp) (by simp) (by simp)
  have hw : (pwq_flush_tip s p c).worker_frame_work_data = s.worker_frame_work_data :=
    pwq_flush_tip_frame s p c .worker_frame_work_data (by simp) (by simp) (by simp)
  unfold acc
  rw [hc, fview_pwq_flush_tip]
  have e1 : colr (pwq_flush_tip s p c) = colr s := by
    funext x; unfold colr; rw [hd]
  have e2 : fcol (pwq_flush_tip s p c) = fcol s := by
    funext x; unfold fcol; rw [hw]
  rw [e1, e2]
  rfl

theorem InactiveOk_congr (u u2 : State) (p : Nat) (h : InactiveOk u p)
    (h1 : u2.lists = u.lists) (h2 : u2.work_entry = u.work_entry)
    (h3 : u2.work_data = u.work_data) (h4 : u2.work_func = u.work_func) : InactiveOk u2 p := by
  obtain ⟨a1, a2, a3, a4, a5⟩ := h
  constructor <;> simp only [h1, h2, h3, h4] <;> assumption

theorem acc_pwq_dec_nr_active (u : State) (p d : Nat) (hok : InactiveOk u p)
    (hd : d &&& WORK_STRUCT_INACTIVE = 0) :
    acc (pwq_dec_nr_active u p d) =
      ({ acc u with
        nr_active := Function.update (acc u).nr_active p ((acc u).nr_active p - 1) }).settle p := by
  have hok2 : InactiveOk (u.set .pwq_nr_active
      (Function.update u.pwq_nr_active p (u.pwq_nr_active p - 1))) p :=
    InactiveOk_congr u _ p hok rfl rfl rfl rfl
  unfold Acc.settle
  by_cases hc : u.lists (list_head.inactive_works p) ≠ [] ∧
      u.pwq_nr_active p - 1 < u.pwq_max_active p
  · cases hL : u.lists (list_head.inactive_works p) with
    | nil => exact absurd hL hc.1
    | cons x l =>
      rw [pwq_dec_nr_active_promote u p d x l hd hL hc.2]
      have hm : x ∈ (u.set .pwq_nr_active
          (Function.update u.pwq_nr_active p (u.pwq_nr_active p - 1))).lists
            (list_head.inactive_works p) := by
        show x ∈ u.lists _
        rw [hL]
        exact List.mem_cons_self _ _
      rw [acc_activate _ x p hok2 hm, acc_set_nr_active, if_pos]
      · have : (acc u).inactive p = x :: l := hL
        simp only [this, List.headD_cons]
        rfl
      · refine ⟨?_, ?_⟩
        · show u.lists (list_head.inactive_works p) ≠ []
          exact hc.1
        · show Function.update u.pwq_nr_active p (u.pwq_nr_active p - 1) p < u.pwq_max_active p
          rw [Function.update_same]
          exact hc.2
  · rw [pwq_dec_nr_active_keep u p d hd hc, acc_set_nr_active, if_neg]
    · rfl
    · intro hh
      apply hc
      refine ⟨hh.1, ?_⟩
      have := hh.2
      simp only [Function.update_same] at this
      exact this

/-- The ledger after `pwq_dec_nr_in_flight`. -/
theorem acc_dec (u : State) (p d : Nat) (hok : InactiveOk u p) :
    acc (pwq_dec_nr_in_flight u p d) =
      (acc u).dec p (get_work_color d) (decide (d &&& WORK_STRUCT_INACTIVE ≠ 0)) := by
  unfold pwq_dec_nr_in_flight Acc.dec
  simp only []
  rw [acc_put_pwq, acc_pwq_flush_tip, acc_set_nr_in_flight]
  have e1 : (pwq_dec_nr_active u p d).pwq_nr_in_flight =
      (acc (pwq_dec_nr_active u p d)).nr_in_flight := rfl
  by_cases hd : d &&& WORK_STRUCT_INACTIVE = 0
  · rw [if_neg (by simp [hd]), e1, acc_pwq_dec_nr_active u p d hok hd]
    rfl
  · rw [if_pos (by simp [hd]), e1, pwq_dec_nr_active_idle u p d hd]
    rfl

/-! ## The steps `assign`, `start` and `finish` in the ledger -/

/-- The flush fields after a step that writes to none of them. -/
theorem fview_frame (s s2 : State)
    (h : ∀ g, Field.ledger g = true → g ≠ .work_data → g ≠ .work_entry → g ≠ .work_func →
      g ≠ .lists → g ≠ .pwq_work_color → g ≠ .pwq_nr_in_flight → g ≠ .pwq_nr_active →
      g ≠ .pwq_max_active → g ≠ .worker_current_work → g ≠ .worker_current_pwq →
      g ≠ .worker_current_color → g ≠ .worker_frame_pwq → g ≠ .worker_frame_work_data →
      s2 g = s g) : fview s2 = fview s := by
  have f1 := h .pwq_flush_color rfl (by decide) (by decide) (by decide) (by decide) (by decide)
    (by decide) (by decide) (by decide) (by decide) (by decide) (by decide) (by decide)
    (by decide)
  have f2 := h .wq_nr_pwqs_to_flush rfl (by decide) (by decide) (by decide) (by decide)
    (by decide) (by decide) (by decide) (by decide) (by decide) (by decide) (by decide)
    (by decide) (by decide)
  have f3 := h .flusher_done rfl (by decide) (by decide) (by decide) (by decide) (by decide)
    (by decide) (by decide) (by decide) (by decide) (by decide) (by decide) (by decide)
    (by decide)
  have f4 := h .flusher_flush_color rfl (by decide) (by decide) (by decide) (by decide)
    (by decide) (by decide) (by decide) (by decide) (by decide) (by decide) (by decide)
    (by decide) (by decide)
  have f5 := h .wq_work_color rfl (by decide) (by decide) (by decide) (by decide) (by decide)
    (by decide) (by decide) (by decide) (by decide) (by decide) (by decide) (by decide)
    (by decide)
  have f6 := h .wq_flush_color rfl (by decide) (by decide) (by decide) (by decide) (by decide)
    (by decide) (by decide) (by decide) (by decide) (by decide) (by decide) (by decide)
    (by decide)
  have f7 := h .wq_first_flusher rfl (by decide) (by decide) (by decide) (by decide)
    (by decide) (by decide) (by decide) (by decide) (by decide) (by decide) (by decide)
    (by decide) (by decide)
  have f8 := h .wq_flusher_queue rfl (by decide) (by decide) (by decide) (by decide)
    (by decide) (by decide) (by decide) (by decide) (by decide) (by decide) (by decide)
    (by decide) (by decide)
  have f9 := h .wq_flusher_overflow rfl (by decide) (by decide) (by decide) (by decide)
    (by decide) (by decide) (by decide) (by decide) (by decide) (by decide) (by decide)
    (by decide) (by decide)
  have f10 := h .wq_pwqs rfl (by decide) (by decide) (by decide) (by decide) (by decide)
    (by decide) (by decide) (by decide) (by decide) (by decide) (by decide) (by decide)
    (by decide)
  have f11 := h .pwq_wq rfl (by decide) (by decide) (by decide) (by decide) (by decide)
    (by decide) (by decide) (by decide) (by decide) (by decide) (by decide) (by decide)
    (by decide)
  unfold fview
  simp only [State.pwq_flush_color, State.wq_nr_pwqs_to_flush, State.flusher_done,
    State.flusher_flush_color, State.wq_work_color, State.wq_flush_color,
    State.wq_first_flusher, State.wq_flusher_queue, State.wq_flusher_overflow, State.wq_pwqs,
    State.pwq_wq, f1, f2, f3, f4, f5, f6, f7, f8, f9, f10, f11]

theorem InactiveOk_of_inv (u : State) (hi : InvL (core u)) (p : Nat) : InactiveOk u p := by
  constructor
  · exact hi.nodup _
  · intro y hy
    exact (hi.mem_entry _ y).1 hy
  · intro y hy
    have he : (core u).entry y = some (list_head.inactive_works p) := (hi.mem_entry _ y).1 hy
    refine ⟨?_, (hi.typ_inactive p y he).1⟩
    exact of_decide_eq_true ((hi.has_pwq y).2 (by rw [he]; simp))
  · exact hi.chain _
  · exact hi.ichain p

theorem acc_move_linked_works (s : State) (hi : InvL (core s)) (w : Nat) (h0 hd : list_head)
    (he : s.work_entry w = some h0) (hne : h0 ≠ hd) (h1 : ∀ p, h0 ≠ list_head.inactive_works p)
    (h2 : ∀ p, hd ≠ list_head.inactive_works p) :
    acc (move_linked_works s w hd).1 = acc s := by
  have hm : w ∈ s.lists h0 := (hi.mem_entry _ w).2 he
  obtain ⟨v1, v2, v3⟩ := move_linked_works_spec s w h0 hd he hne hm (hi.nodup h0)
    (fun x hx => (hi.mem_entry _ x).1 hx)
  have hfr : ∀ g, Field.ledger g = true → g ≠ .lists → g ≠ .work_entry → g ≠ .work_data →
      g ≠ .work_func → g ≠ .pwq_nr_active → g ≠ .pwq_nr_in_flight →
      (move_linked_works s w hd).1 g = s g := by
    intro g _ h2 h3 _ _ _ _
    exact move_linked_works_frame s w hd g h2 h3
  obtain ⟨r1, r2, r3, r4⟩ := acc_rest s _ hfr
  have hf : (move_linked_works s w hd).1.work_func = s.work_func :=
    move_linked_works_frame s w hd .work_func (by simp) (by simp)
  have hna : (move_linked_works s w hd).1.pwq_nr_active = s.pwq_nr_active :=
    move_linked_works_frame s w hd .pwq_nr_active (by simp) (by simp)
  have hnf : (move_linked_works s w hd).1.pwq_nr_in_flight = s.pwq_nr_in_flight :=
    move_linked_works_frame s w hd .pwq_nr_in_flight (by simp) (by simp)
  apply acc_eq
  · intro p
    rw [v1, if_neg (Ne.symm (h2 p)), if_neg (Ne.symm (h1 p))]
    rfl
  · intro x
    rw [v2, v3, hf, acc_item]
    split_ifs with hr
    · have hx := list_from_subset w _ x (linked_run_subset _ _ x hr)
      rw [show s.work_entry x = some h0 from (hi.mem_entry _ x).1 hx]
      rfl
    · rfl
  · exact r1
  · exact hna
  · exact hnf
  · exact r2
  · exact r3
  · exact r4

theorem acc_assign (s : State) (k work : Nat) (hi : InvC (core s))
    (hw : s.work_entry work = some (list_head.worklist (s.worker_pool k))) :
    acc (assign_work s work k).2.1 = acc s := by
  unfold assign_work
  split_ifs with hc
  · exact acc_move_linked_works s hi.l work _ _ hw (by simp) (by simp) (by simp)
  · exact acc_move_linked_works s hi.l work _ _ hw (by simp) (by simp) (by simp)

theorem item_of_linked (s : State) (w : Nat) (h : s.work_entry w ≠ none) :
    (acc s).item w = some ⟨work_struct_pwq (s.work_data w), get_work_color (s.work_data w),
      decide (s.work_data w &&& WORK_STRUCT_INACTIVE ≠ 0),
      decide (s.work_func w = wq_barrier_func)⟩ := by
  rw [acc_item]
  unfold item_of
  rw [if_neg h]

theorem run_of_executing (s : State) (k : Nat) (h : s.worker_current_work k ≠ 0) :
    (acc s).run k = some ⟨s.worker_current_work k, s.worker_frame_pwq k,
      get_work_color (s.worker_frame_work_data k),
      decide (s.worker_frame_work_data k &&& WORK_STRUCT_INACTIVE ≠ 0),
      s.worker_current_pwq k, s.worker_current_color k⟩ := by
  rw [acc_run]
  unfold run_of_worker
  rw [if_neg h]

theorem run_of_idle (s : State) (k : Nat) (h : s.worker_current_work k = 0) :
    (acc s).run k = none := by
  rw [acc_run]
  unfold run_of_worker
  rw [if_pos h]

theorem acc_start (s : State) (k w : Nat) (hi : InvC (core s))
    (hh : (s.lists (list_head.scheduled k)).head? = some w) :
    acc (process_one_work_begin s k w) = (acc s).start k w
      ⟨work_struct_pwq (s.work_data w), get_work_color (s.work_data w),
        decide (s.work_data w &&& WORK_STRUCT_INACTIVE ≠ 0),
        decide (s.work_func w = wq_barrier_func)⟩ := by
  obtain ⟨rest, hL⟩ : ∃ rest, s.lists (list_head.scheduled k) = w :: rest := by
    cases hl : s.lists (list_head.scheduled k) with
    | nil => rw [hl] at hh; simp at hh
    | cons a l =>
      rw [hl] at hh
      simp at hh
      exact ⟨l, by rw [hh]⟩
  have hw : s.work_entry w = some (list_head.scheduled k) :=
    (hi.l.mem_entry _ w).1 (by
      show w ∈ s.lists _
      rw [hL]; simp)
  have hw0 : w ≠ 0 := hi.l.entry_ne_zero w (by rw [show (core s).entry w = _ from hw]; simp)
  have hp : s.work_data w &&& WORK_STRUCT_PWQ ≠ 0 :=
    of_decide_eq_true ((hi.l.has_pwq w).2 (by rw [show (core s).entry w = _ from hw]; simp))
  have hpw : get_work_pwq s w = work_struct_pwq (s.work_data w) := by
    unfold get_work_pwq work_data_bits
    rw [if_pos hp]
  obtain ⟨v1, v2, v3, v4, v5, v6, v7, v8, v9, v10⟩ := process_one_work_begin_fields s k w rest hw hL
  rw [hpw] at v7 v9
  have hfr : ∀ g, Field.ledger g = true → g ≠ .work_data → g ≠ .work_entry → g ≠ .work_func →
      g ≠ .lists → g ≠ .pwq_work_color → g ≠ .pwq_nr_in_flight → g ≠ .pwq_nr_active →
      g ≠ .pwq_max_active → g ≠ .worker_current_work → g ≠ .worker_current_pwq →
      g ≠ .worker_current_color → g ≠ .worker_frame_pwq → g ≠ .worker_frame_work_data →
      process_one_work_begin s k w g = s g := by
    intro g hg h1 h2 _ h4 _ _ _ _ h9 h10 h11 h12 h13
    exact process_one_work_begin_frame s k w g (ledger_ne g _ hg rfl) (ledger_ne g _ hg rfl) h9
      (ledger_ne g _ hg rfl) h10 h11 h12 h13 h4 h2 (ledger_ne g _ hg rfl)
      (ledger_ne g _ hg rfl) (ledger_ne g _ hg rfl) (ledger_ne g _ hg rfl)
      (ledger_ne g _ hg rfl) h1
  have hf : (process_one_work_begin s k w).work_func = s.work_func :=
    process_one_work_begin_frame s k w .work_func (by simp) (by simp) (by simp) (by simp)
      (by simp) (by simp) (by simp) (by simp) (by simp) (by simp) (by simp) (by simp) (by simp)
      (by simp) (by simp) (by simp)
  have hna : (process_one_work_begin s k w).pwq_nr_active = s.pwq_nr_active :=
    process_one_work_begin_frame s k w .pwq_nr_active (by simp) (by simp) (by simp) (by simp)
      (by simp) (by simp) (by simp) (by simp) (by simp) (by simp) (by simp) (by simp) (by simp)
      (by simp) (by simp) (by simp)
  have hnf : (process_one_work_begin s k w).pwq_nr_in_flight = s.pwq_nr_in_flight :=
    process_one_work_begin_frame s k w .pwq_nr_in_flight (by simp) (by simp) (by simp) (by simp)
      (by simp) (by simp) (by simp) (by simp) (by simp) (by simp) (by simp) (by simp) (by simp)
      (by simp) (by simp) (by simp)
  have hmx : (process_one_work_begin s k w).pwq_max_active = s.pwq_max_active :=
    process_one_work_begin_frame s k w .pwq_max_active (by simp) (by simp) (by simp) (by simp)
      (by simp) (by simp) (by simp) (by simp) (by simp) (by simp) (by simp) (by simp) (by simp)
      (by simp) (by simp) (by simp)
  have hwc : (process_one_work_begin s k w).pwq_work_color = s.pwq_work_color :=
    process_one_work_begin_frame s k w .pwq_work_color (by simp) (by simp) (by simp) (by simp)
      (by simp) (by simp) (by simp) (by simp) (by simp) (by simp) (by simp) (by simp) (by simp)
      (by simp) (by simp) (by simp)
  unfold Acc.start
  apply acc_eq
  · intro p
    rw [v1]
    show _ = s.lists _
    rw [Function.update_noteq (by simp)]
  · intro x
    have hf2 : (process_one_work_begin s k w).work_func =
        Function.update s.work_func w (s.work_func w) := by
      rw [Function.update_eq_self]; exact hf
    rw [item_update s _ w _ _ _ v2 v3 hf2]
    rfl
  · intro j
    rw [v5, v7, v8, v9, v10]
    show _ = Function.update (acc s).run k _ j
    by_cases hj : j = k
    · subst hj
      simp only [Function.update_same]
      unfold run_of_worker
      rw [if_neg hw0]
    · simp only [Function.update_noteq hj]
      rfl
  · exact hna
  · exact hnf
  · exact hmx
  · exact hwc
  · exact fview_frame s _ hfr

/-- The function `process_one_work_end` gives up the in-flight count in a state that
differs from the entry state in the fields of the worker. -/
theorem process_one_work_end_split (s : State) (k : Nat) :
    ∃ s3, process_one_work_end s k =
        pwq_dec_nr_in_flight s3 (s.worker_frame_pwq k) (s.worker_frame_work_data k) ∧
      (∀ g, g ≠ .pwq_stats → g ≠ .worker_flags → g ≠ .pool_nr_running → g ≠ .worker_last_func →
        g ≠ .pool_busy_hash → g ≠ .worker_link → g ≠ .worker_current_work →
        g ≠ .worker_current_func → g ≠ .worker_current_pwq → g ≠ .worker_current_color →
        s3 g = s g) ∧
      s3.worker_current_work = Function.update s.worker_current_work k 0 ∧
      s3.worker_current_pwq = Function.update s.worker_current_pwq k 0 ∧
      s3.worker_current_color = Function.update s.worker_current_color k INT_MAX := by
  refine ⟨_, rfl, ?_, ?_, ?_, ?_⟩
  · intro g h1 h2 h3 h4 h5 h6 h7 h8 h9 h10
    simp only [State.set, Function.update_noteq h10, Function.update_noteq h9,
      Function.update_noteq h8, Function.update_noteq h7, Function.update_noteq h6,
      Function.update_noteq h5, Function.update_noteq h4]
    rw [worker_clr_flags_frame _ _ _ g h3 h2]
    simp only [State.set, Function.update_noteq h1]
  · have e1 : ∀ u : State, (worker_clr_flags u k WORKER_CPU_INTENSIVE).worker_current_work =
        u.worker_current_work :=
      fun u => worker_clr_flags_frame u k _ .worker_current_work (by simp) (by simp)
    simp [State.set, State.worker_current_work] at e1 ⊢
  · have e1 : ∀ u : State, (worker_clr_flags u k WORKER_CPU_INTENSIVE).worker_current_pwq =
        u.worker_current_pwq :=
      fun u => worker_clr_flags_frame u k _ .worker_current_pwq (by simp) (by simp)
    simp [State.set, State.worker_current_pwq] at e1 ⊢
  · have e1 : ∀ u : State, (worker_clr_flags u k WORKER_CPU_INTENSIVE).worker_current_color =
        u.worker_current_color :=
      fun u => worker_clr_flags_frame u k _ .worker_current_color (by simp) (by simp)
    simp [State.set, State.worker_current_color] at e1 ⊢

theorem acc_finish (s : State) (k : Nat) (hi : InvC (core s)) :
    acc (process_one_work_end s k) =
      ({ acc s with run := Function.update (acc s).run k none }).dec (s.worker_frame_pwq k)
        (get_work_color (s.worker_frame_work_data k))
        (decide (s.worker_frame_work_data k &&& WORK_STRUCT_INACTIVE ≠ 0)) := by
  obtain ⟨s3, e, hfr, w1, w2, w3⟩ := process_one_work_end_split s k
  have g1 : s3.lists = s.lists := hfr .lists (by simp) (by simp) (by simp) (by simp) (by simp)
    (by simp) (by simp) (by simp) (by simp) (by simp)
  have g2 : s3.work_entry = s.work_entry := hfr .work_entry (by simp) (by simp) (by simp)
    (by simp) (by simp) (by simp) (by simp) (by simp) (by simp) (by simp)
  have g3 : s3.work_data = s.work_data := hfr .work_data (by simp) (by simp) (by simp)
    (by simp) (by simp) (by simp) (by simp) (by simp) (by simp) (by simp)
  have g4 : s3.work_func = s.work_func := hfr .work_func (by simp) (by simp) (by simp)
    (by simp) (by simp) (by simp) (by simp) (by simp) (by simp) (by simp)
  have g5 : s3.pwq_nr_active = s.pwq_nr_active := hfr .pwq_nr_active (by simp) (by simp)
    (by simp) (by simp) (by simp) (by simp) (by simp) (by simp) (by simp) (by simp)
  have g6 : s3.pwq_nr_in_flight = s.pwq_nr_in_flight := hfr .pwq_nr_in_flight (by simp)
    (by simp) (by simp) (by simp) (by simp) (by simp) (by simp) (by simp) (by simp) (by simp)
  have g7 : s3.pwq_max_active = s.pwq_max_active := hfr .pwq_max_active (by simp) (by simp)
    (by simp) (by simp) (by simp) (by simp) (by simp) (by simp) (by simp) (by simp)
  have g8 : s3.pwq_work_color = s.pwq_work_color := hfr .pwq_work_color (by simp) (by simp)
    (by simp) (by simp) (by simp) (by simp) (by simp) (by simp) (by simp) (by simp)
  have g9 : s3.worker_frame_pwq = s.worker_frame_pwq := hfr .worker_frame_pwq (by simp)
    (by simp) (by simp) (by simp) (by simp) (by simp) (by simp) (by simp) (by simp) (by simp)
  have g10 : s3.worker_frame_work_data = s.worker_frame_work_data :=
    hfr .worker_frame_work_data (by simp) (by simp) (by simp) (by simp) (by simp) (by simp)
      (by simp) (by simp) (by simp) (by simp)
  have h3 : acc s3 = { acc s with run := Function.update (acc s).run k none } := by
    apply acc_eq
    · intro p; rw [g1]; rfl
    · intro x; rw [g2, g3, g4]; rfl
    · intro j
      rw [w1, w2, w3, g9, g10]
      show _ = Function.update (acc s).run k none j
      by_cases hj : j = k
      · subst hj
        simp only [Function.update_same]
        rfl
      · simp only [Function.update_noteq hj]
        rfl
    · exact g5
    · exact g6
    · exact g7
    · exact g8
    · apply fview_frame
      intro g hg _ _ _ _ _ _ _ _ a9 a10 a11 _ _
      exact hfr g (ledger_ne g _ hg rfl) (ledger_ne g _ hg rfl) (ledger_ne g _ hg rfl)
        (ledger_ne g _ hg rfl) (ledger_ne g _ hg rfl) (ledger_ne g _ hg rfl) a9
        (ledger_ne g _ hg rfl) a10 a11
  have hok : InactiveOk s3 (s.worker_frame_pwq k) :=
    InactiveOk_congr s s3 _ (InactiveOk_of_inv s hi.l _) g1 g2 g3 g4
  rw [e, acc_dec s3 _ _ hok, h3]

/-! ## The steps `adjust` and `grab` in the ledger -/

theorem acc_set_max_active (s : State) (v : Nat → Int) :
    acc (s.set .pwq_max_active v) = { acc s with max_active := v } := rfl

theorem acc_activate_first (u : State) (p : Nat) (hi : InvL (core u))
    (hc : list_empty u (list_head.inactive_works p) = false ∧
      u.pwq_nr_active p < u.pwq_max_active p) :
    acc (pwq_activate_first_inactive u p) = (acc u).settle p := by
  have hne : u.lists (list_head.inactive_works p) ≠ [] := by
    intro e
    have := hc.1
    rw [list_empty, e] at this
    simp at this
  unfold pwq_activate_first_inactive Acc.settle
  rw [if_neg hne, if_pos ⟨hne, hc.2⟩]
  apply acc_activate u _ p (InactiveOk_of_inv u hi p)
  cases hL : u.lists (list_head.inactive_works p) with
  | nil => exact absurd hL hne
  | cons x l => simp

theorem settle_of_not (a : Acc) (p : Nat)
    (h : ¬ (a.inactive p ≠ [] ∧ a.nr_active p < a.max_active p)) : a.settle p = a := by
  unfold Acc.settle
  rw [if_neg h]

theorem acc_adjust_loop (fuel : Nat) (u : State) (p : Nat) (hi : InvC (core u)) :
    acc (pwq_adjust_max_active_loop fuel u p) = (fun a => Acc.settle a p)^[fuel] (acc u) := by
  induction fuel generalizing u with
  | zero => rfl
  | succ n ih =>
    unfold pwq_adjust_max_active_loop
    split_ifs with hc
    · rw [ih _ (InvC_activate_first u p hi), acc_activate_first u p hi.l hc]
      rfl
    · have hfix : (acc u).settle p = acc u := by
        apply settle_of_not
        intro hh
        apply hc
        refine ⟨?_, hh.2⟩
        have h1 : u.lists (list_head.inactive_works p) ≠ [] := hh.1
        rw [list_empty]
        cases hL : u.lists (list_head.inactive_works p) with
        | nil => exact absurd hL h1
        | cons x l => rfl
      exact (@Function.iterate_fixed _ (fun a => Acc.settle a p) _ hfix (n + 1)).symm

theorem adjust_iterate (a : Acc) (p : Nat) (m : Int) (n : Nat) :
    a.adjust p m n = (fun a => Acc.settle a p)^[n]
      { a with max_active := Function.update a.max_active p m } := by
  induction n with
  | zero => rfl
  | succ n ih =>
    rw [Function.iterate_succ_apply', ← ih]
    rfl

theorem acc_adjust (s : State) (p : Nat) (hi : InvC (core s)) :
    ∃ m n, acc (pwq_adjust_max_active s p) = (acc s).adjust p m n := by
  unfold pwq_adjust_max_active
  simp only []
  split_ifs
  · refine ⟨s.pwq_max_active p, 0, ?_⟩
    have e : ∀ v, v = (acc s).max_active →
        acc s = { acc s with max_active := v } := by
      intro v hv
      rw [hv]
    exact e _ (Function.update_eq_self p s.pwq_max_active)
  · have h1 : InvC (core (s.set .pwq_max_active (Function.update s.pwq_max_active p
        (s.wq_saved_max_active (s.pwq_wq p))))) := by
      rw [core_set_max_active]
      exact InvC_max_active _ hi _
    refine ⟨s.wq_saved_max_active (s.pwq_wq p), ((s.set .pwq_max_active
      (Function.update s.pwq_max_active p (s.wq_saved_max_active (s.pwq_wq p)))).lists
        (list_head.inactive_works p)).length, ?_⟩
    rw [acc_kick_pool, acc_adjust_loop _ _ _ h1, adjust_iterate, acc_set_max_active]
    rfl
  · exact ⟨0, 0, rfl⟩

theorem dec_item_none (a : Acc) (p : Nat) (c : Int) (ia : Bool) (w : Nat)
    (h : a.item w = none) : (a.dec p c ia).item w = none := by
  have hs : ∀ b : Acc, b.item w = none → (b.settle p).item w = none := by
    intro b hb
    unfold Acc.settle
    split_ifs
    · show Function.update b.item _ _ w = none
      by_cases hx : w = (b.inactive p).headD 0
      · rw [← hx, Function.update_same, hb]
        rfl
      · rw [Function.update_noteq hx, hb]
    · exact hb
  unfold Acc.dec
  split_ifs
  · exact h
  · exact hs _ h

theorem entry_of_item_none (s : State) (w : Nat) (h : (acc s).item w = none) :
    s.work_entry w = none := by
  rw [acc_item] at h
  unfold item_of at h
  by_contra hc
  rw [if_neg hc] at h
  exact absurd h (by simp)

theorem InactiveOk_agree (u u2 : State) (p : Nat) (h : InactiveOk u p)
    (h1 : u2.lists (list_head.inactive_works p) = u.lists (list_head.inactive_works p))
    (h2 : ∀ y ∈ u.lists (list_head.inactive_works p), u2.work_entry y = u.work_entry y)
    (h3 : u2.work_data = u.work_data) (h4 : u2.work_func = u.work_func) : InactiveOk u2 p := by
  obtain ⟨a1, a2, a3, a4, a5⟩ := h
  constructor
  · rw [h1]; exact a1
  · intro y hy
    rw [h1] at hy
    rw [h2 y hy]
    exact a2 y hy
  · intro y hy
    rw [h1] at hy
    rw [h3]
    exact a3 y hy
  · rw [h1, h3, h4]; exact a4
  · rw [h1, h3, h4]; exact a5

theorem acc_list_del_init (s : State) (work : Nat) (H : list_head)
    (hH : s.work_entry work = some H) (hHi : ∀ p, H ≠ list_head.inactive_works p) :
    acc (list_del_init s work) =
      { acc s with item := Function.update (acc s).item work none } := by
  obtain ⟨v1, v2⟩ := list_del_init_fields s work H hH
  have hd : (list_del_init s work).work_data = Function.update s.work_data work
      (s.work_data work) := by
    rw [Function.update_eq_self]
    exact list_del_init_frame s work .work_data (by simp) (by simp)
  have hf : (list_del_init s work).work_func = Function.update s.work_func work
      (s.work_func work) := by
    rw [Function.update_eq_self]
    exact list_del_init_frame s work .work_func (by simp) (by simp)
  have hfr : ∀ g, Field.ledger g = true → g ≠ .lists → g ≠ .work_entry → g ≠ .work_data →
      g ≠ .work_func → g ≠ .pwq_nr_active → g ≠ .pwq_nr_in_flight →
      list_del_init s work g = s g := by
    intro g _ h2 h3 _ _ _ _
    exact list_del_init_frame s work g h2 h3
  obtain ⟨r1, r2, r3, r4⟩ := acc_rest s _ hfr
  apply acc_eq
  · intro p
    rw [v1, Function.update_noteq (Ne.symm (hHi p))]
    rfl
  · intro x
    rw [item_update s _ work _ _ _ v2 hd hf]
    rfl
  · exact r1
  · exact list_del_init_frame s work .pwq_nr_active (by simp) (by simp)
  · exact list_del_init_frame s work .pwq_nr_in_flight (by simp) (by simp)
  · exact r2
  · exact r3
  · exact r4

/-- The ledger after the steal block of `try_to_grab_pending`. -/
theorem acc_steal (s : State) (work pool : Nat) (hi : InvC (core s))
    (hnb : s.work_func work ≠ wq_barrier_func)
    (hp : s.work_data work &&& WORK_STRUCT_PWQ ≠ 0) :
    acc (try_to_grab_pending_steal s work pool (work_struct_pwq (s.work_data work))) =
      (acc s).steal work ⟨work_struct_pwq (s.work_data work), get_work_color (s.work_data work),
        decide (s.work_data work &&& WORK_STRUCT_INACTIVE ≠ 0), false⟩ := by
  obtain ⟨H, hH⟩ := linked_of_pwq_bit s hi work hp
  obtain ⟨s2, e2, i2, ⟨H2, hH2, hHi⟩, hia, hq, hb, _, _⟩ := steal_activate s work hi hnb hp
  have ha2 : acc s2 = if decide (s.work_data work &&& WORK_STRUCT_INACTIVE ≠ 0) = true then
      (acc s).activate work (work_struct_pwq (s.work_data work)) else acc s := by
    by_cases hin : s.work_data work &&& WORK_STRUCT_INACTIVE ≠ 0
    · rw [if_pos (decide_eq_true hin), e2,
        if_pos (show work_data_bits s work &&& WORK_STRUCT_INACTIVE ≠ 0 from hin)]
      have hH3 : s.work_entry work =
          some (list_head.inactive_works (work_struct_pwq (s.work_data work))) := by
        have hin2 : (core s).inact work = true := decide_eq_true hin
        cases H with
        | worklist P =>
          have := (hi.l.typ_worklist P work hH).2 hnb
          rw [hin2] at this
          exact absurd this (by simp)
        | inactive_works p =>
          rw [hH, (hi.l.typ_inactive p work hH).1.symm]
          rfl
        | scheduled k =>
          have := (hi.l.typ_scheduled k work hH).2 hnb
          rw [hin2] at this
          exact absurd this (by simp)
      exact acc_activate s work _ (InactiveOk_of_inv s hi.l _) ((hi.l.mem_entry _ work).2 hH3)
    · rw [if_neg (by simpa using hin), e2,
        if_neg (show ¬ work_data_bits s work &&& WORK_STRUCT_INACTIVE ≠ 0 from hin)]
  have hcol : get_work_color (s2.work_data work) = get_work_color (s.work_data work) := by
    have h1 := congrFun (congrArg Acc.item ha2) work
    rw [item_of_linked s2 work (by rw [hH2]; simp)] at h1
    split_ifs at h1
    · have : ((acc s).activate work (work_struct_pwq (s.work_data work))).item work =
          ((acc s).item work).map (fun it => { it with inact := false }) := by
        show Function.update _ _ _ _ = _
        rw [Function.update_same]
      rw [this, item_of_linked s work (by rw [hH]; simp)] at h1
      exact congrArg Item.color (Option.some.inj h1)
    · rw [item_of_linked s work (by rw [hH]; simp)] at h1
      exact congrArg Item.color (Option.some.inj h1)
  have h3 := acc_list_del_init s2 work H2 hH2 hHi
  obtain ⟨v1, v2⟩ := list_del_init_fields s2 work H2 hH2
  have hok3 : InactiveOk (list_del_init s2 work) (work_struct_pwq (s.work_data work)) := by
    apply InactiveOk_agree s2 _ _ (InactiveOk_of_inv s2 i2.l _)
    · rw [v1, Function.update_noteq (Ne.symm (hHi _))]
    · intro y hy
      rw [v2]
      have hy2 : s2.work_entry y = some (list_head.inactive_works
          (work_struct_pwq (s.work_data work))) := (i2.l.mem_entry _ y).1 hy
      have : y ≠ work := by
        intro e
        rw [e, hH2] at hy2
        exact hHi _ (Option.some.inj hy2)
      rw [Function.update_noteq this]
    · exact list_del_init_frame s2 work .work_data (by simp) (by simp)
    · exact list_del_init_frame s2 work .work_func (by simp) (by simp)
  have hd : work_data_bits (list_del_init s2 work) work = s2.work_data work := rfl
  have h4 := acc_dec (list_del_init s2 work) (work_struct_pwq (s.work_data work))
    (s2.work_data work) hok3
  rw [hcol, decide_eq_false (by rw [not_not]; exact hia), h3] at h4
  have hnone : (pwq_dec_nr_in_flight (list_del_init s2 work)
      (work_struct_pwq (s.work_data work)) (s2.work_data work)).work_entry work = none := by
    apply entry_of_item_none
    rw [h4]
    apply dec_item_none
    show Function.update _ _ _ _ = _
    rw [Function.update_same]
  unfold try_to_grab_pending_steal
  simp only []
  rw [← e2, hd]
  have := acc_offq _ work ((to_ulong ((pwq_dec_nr_in_flight (list_del_init s2 work)
      (work_struct_pwq (s.work_data work)) (s2.work_data work)).pool_id pool) <<<
        WORK_OFFQ_POOL_SHIFT) % 2 ^ BITS_PER_LONG ||| WORK_STRUCT_PENDING) hnone
  show acc (set_work_pool_and_keep_pending _ work _) = _
  unfold set_work_pool_and_keep_pending set_work_data
  rw [this, h4, ha2]
  rfl

/-- The ledger after `try_to_grab_pending` on a work item that is not a barrier: unchanged,
or the work item was stolen. -/
theorem acc_grab (s : State) (work : Nat) (is_dwork : Bool) (hi : InvC (core s))
    (hnb : s.work_func work ≠ wq_barrier_func) :
    acc (try_to_grab_pending s work is_dwork).2 = acc s ∨
    ∃ it, (acc s).item work = some it ∧ it.barrier = false ∧
      acc (try_to_grab_pending s work is_dwork).2 = (acc s).steal work it := by
  have h1 := InvC_claim s work hi
  have a1 := acc_claim s work
  have hf : (test_and_set_bit_pending s work).2.work_func work ≠ wq_barrier_func := hnb
  unfold try_to_grab_pending
  by_cases c1 : is_dwork = true ∧ s.dwork_timer_pending work = true
  · rw [if_pos c1, acc_del_timer]; exact Or.inl rfl
  rw [if_neg c1]
  by_cases c2 : (test_and_set_bit_pending s work).1 = false
  · rw [if_pos c2]; exact Or.inl a1
  rw [if_neg c2]
  simp only []
  by_cases c3 : get_work_pool (test_and_set_bit_pending s work).2 work ≠ 0 ∧
      get_work_pwq (test_and_set_bit_pending s work).2 work ≠ 0 ∧
      (test_and_set_bit_pending s work).2.pwq_pool
        (get_work_pwq (test_and_set_bit_pending s work).2 work) =
        get_work_pool (test_and_set_bit_pending s work).2 work
  · rw [if_pos c3]
    right
    obtain ⟨hp, hpw⟩ := get_work_pwq_ne_zero _ work c3.2.1
    obtain ⟨H, hH⟩ := linked_of_pwq_bit _ h1 work hp
    refine ⟨⟨work_struct_pwq ((test_and_set_bit_pending s work).2.work_data work),
      get_work_color ((test_and_set_bit_pending s work).2.work_data work),
      decide ((test_and_set_bit_pending s work).2.work_data work &&& WORK_STRUCT_INACTIVE ≠ 0),
      false⟩, ?_, rfl, ?_⟩
    · rw [← a1, item_of_linked _ work (by rw [hH]; simp), decide_eq_false hf]
    · show acc (try_to_grab_pending_steal _ work _ _) = _
      rw [hpw, acc_steal _ work _ h1 hf hp, a1]
  · rw [if_neg c3]
    left
    split_ifs <;> exact a1

/-! ## Every step of the system is a step of the ledger -/

theorem item_of_unlinked (s : State) (w : Nat) (h : s.work_entry w = none) :
    (acc s).item w = none := by
  rw [acc_item, h]
  rfl

theorem acc_flush (s : State) (work barr : Nat) (hi : InvC (core s)) (hb0 : barr ≠ 0)
    (hb : s.work_entry barr = none) : AStep (acc s) (acc (start_flush_work s work barr).2) := by
  unfold start_flush_work
  split_ifs with h1 h2 h3 h4
  · exact AStep.quiet _
  · exact AStep.quiet _
  · obtain ⟨hp, he⟩ := get_work_pwq_ne_zero s work h2
    obtain ⟨H, hH⟩ := linked_of_pwq_bit s hi work hp
    show AStep _ (acc (insert_wq_barrier s (get_work_pwq s work) barr work 0))
    rw [he, acc_insert_wq_barrier_after s hi barr work H hb hH]
    exact AStep.barrier_after (acc s) barr work _ hb0 (item_of_unlinked s barr hb)
      (item_of_linked s work (by rw [hH]; simp))
  · exact AStep.quiet _
  · have hb2 : 0 ∉ s.pool_busy_hash (get_work_pool s work) := hi.e.not_busy_zero _
    have := (find_worker_executing_work_spec s (get_work_pool s work) work hb2).2 h4
    have hk := ((hi.e.busy_mem _ _).1 this.1).1
    show AStep _ (acc (insert_wq_barrier s _ barr work _))
    have hwork : insert_wq_barrier s
        (s.worker_current_pwq (find_worker_executing_work s (get_work_pool s work) work)) barr
        work (find_worker_executing_work s (get_work_pool s work) work) =
        insert_wq_barrier s
        (s.worker_current_pwq (find_worker_executing_work s (get_work_pool s work) work)) barr
        0 (find_worker_executing_work s (get_work_pool s work) work) := by
      unfold insert_wq_barrier
      rw [if_pos h4, if_pos h4]
    rw [hwork, acc_insert_wq_barrier_front s hi barr _ hk hb]
    exact AStep.barrier_front (acc s) barr _ _ hb0 (item_of_unlinked s barr hb)
      (run_of_executing s _ hk)

/-- The ledger after a write to the work colours, the pools of the workers and the installed
pool_workqueues, and to fields outside the accounting view. -/
theorem acc_config (s s2 : State)
    (h : ∀ g, Field.external g = false → g ≠ .pwq_work_color → g ≠ .worker_pool →
      g ≠ .wq_cpu_pwq → s2 g = s g) :
    acc s2 = { acc s with work_color := s2.pwq_work_color, fv := fview s2 } := by
  unfold acc
  rw [core_config s s2 h]
  have hd : s2.work_data = s.work_data := h .work_data rfl (by decide) (by decide) (by decide)
  have hw : s2.worker_frame_work_data = s.worker_frame_work_data :=
    h .worker_frame_work_data rfl (by decide) (by decide) (by decide)
  have e1 : colr s2 = colr s := by
    funext x
    unfold colr
    rw [hd]
  have e2 : fcol s2 = fcol s := by
    funext x
    unfold fcol
    rw [hw]
  rw [e1, e2]
  rfl

/-- A write to the work colours, the pools of idle workers and the installed
pool_workqueues is a step of the ledger. -/
theorem astep_config (s s2 : State)
    (h : ∀ g, Field.external g = false → g ≠ .pwq_work_color → g ≠ .worker_pool →
      g ≠ .wq_cpu_pwq → s2 g = s g)
    (hm : ∀ p, 0 ≤ s2.pwq_work_color p ∧ s2.pwq_work_color p < 16) :
    AStep (acc s) (acc s2) := by
  rw [acc_config s s2 h]
  exact AStep.color (acc s) _ _ hm

/-- Every step of the system is a step of the ledger. -/
theorem step_acc (s s2 : State) (hi : InvC (core s)) (h : Step s s2) :
    AStep (acc s) (acc s2) := by
  cases h with
  | claim work => rw [acc_claim]; exact AStep.quiet _
  | queue fuel t cpu wq work _ h0 hnb _ hent h =>
    rcases acc___queue_work fuel s t cpu wq work s2 hi hent hnb h with e | ⟨pwq, e⟩
    · rw [e]; exact AStep.quiet _
    · rw [e]; exact AStep.queue (acc s) work pwq h0 (item_of_unlinked s work hent)
  | flush work barr hb0 hb hfresh _ => exact acc_flush s work barr hi hb0 hb
  | grab work is_dwork hnb =>
    rcases acc_grab s work is_dwork hi hnb with e | ⟨it, e1, e2, e3⟩
    · rw [e]; exact AStep.quiet _
    · rw [e3]; exact AStep.steal (acc s) work it e1 e2
  | release_clear work hl => rw [acc_release_clear s work hl]; exact AStep.quiet _
  | release_pool work hl => rw [acc_release_pool s work hl]; exact AStep.quiet _
  | canceling work hl => rw [acc_canceling s work hl]; exact AStep.quiet _
  | assign k work _ _ hw hA => rw [acc_assign s k work hi hw]; exact AStep.quiet _
  | start k work hk0 hk hh =>
    rw [acc_start s k work hi hh]
    have hw : s.work_entry work = some (list_head.scheduled k) :=
      (hi.l.mem_entry _ work).1 (List.mem_of_mem_head? hh)
    refine AStep.start (acc s) k work _ hk0 (run_of_idle s k hk)
      (item_of_linked s work (by rw [hw]; simp)) ?_
    intro p hm
    have := (hi.l.mem_entry _ work).1 hm
    rw [show (core s).entry work = s.work_entry work from rfl, hw] at this
    exact absurd this (by simp)
  | finish k hk =>
    rw [acc_finish s k hi]
    exact AStep.finish (acc s) k _ (run_of_executing s k hk)
  | adjust pwq =>
    obtain ⟨m, n, e⟩ := acc_adjust s pwq hi
    rw [e]
    exact AStep.adjust (acc s) pwq m n
  | prep wq pwq fc wc wait hwc =>
    exact astep_config s _ (fun g hg hc _ _ => prep_config s wq pwq fc wc wait g hg hc)
      (prep_color_ok s wq pwq fc wc wait hwc hi.e.color_ok)
  | link_color pwq h0 h1 =>
    exact astep_config s _ (fun g _ hc _ _ => State.set_other s _ g _ hc)
      (InvC_link_color s pwq hi h0 h1).e.color_ok
  | install wq cpu pwq hp =>
    exact astep_config s _ (fun g _ _ _ hc => State.set_other s _ g _ hc)
      (InvC_install s wq cpu pwq hi hp).e.color_ok
  | attach worker pool hk hl =>
    exact astep_config s _ (fun g hg _ hc _ => attach_config s worker pool g hg hc)
      (InvC_attach s worker pool hi hk hl).e.color_ok
  | detach worker hk hl =>
    exact astep_config s _ (fun g hg _ hc _ => detach_config s worker g hg hc)
      (InvC_detach s worker hi hk hl).e.color_ok
  | env f v hf =>
    rw [acc_env s f v hf]
    exact AStep.env (acc s) _

/-- The invariant of the accounting view types the ledger. -/
theorem typed_of_inv (s : State) (hi : InvC (core s)) : Typed (acc s) := by
  constructor
  · intro p
    exact hi.l.nodup _
  · intro p x hx
    have he : s.work_entry x = some (list_head.inactive_works p) := (hi.l.mem_entry _ x).1 hx
    obtain ⟨t1, t2⟩ := hi.l.typ_inactive p x he
    exact ⟨_, item_of_linked s x (by rw [he]; simp), t1, t2⟩
  · intro x it hx h1 h2
    have hl : s.work_entry x ≠ none := by
      intro e
      rw [item_of_unlinked s x e] at hx
      exact absurd hx (by simp)
    rw [item_of_linked s x hl] at hx
    have hx := Option.some.inj hx
    have e1 : it.pwq = work_struct_pwq (s.work_data x) := by rw [← hx]
    have e2 : (core s).inact x = true := by
      rw [← hx] at h1
      exact h1
    have e3 : s.work_func x ≠ wq_barrier_func := by
      rw [← hx] at h2
      exact of_decide_eq_false h2
    cases hH : s.work_entry x with
    | none => exact absurd hH hl
    | some H =>
      cases H with
      | worklist P =>
        have := (hi.l.typ_worklist P x hH).2 e3
        rw [e2] at this
        exact absurd this (by simp)
      | inactive_works p =>
        have := (hi.l.typ_inactive p x hH).1
        rw [e1, show work_struct_pwq (s.work_data x) = p from this]
        exact (hi.l.mem_entry _ x).2 hH
      | scheduled k =>
        have := (hi.l.typ_scheduled k x hH).2 e3
        rw [e2] at this
        exact absurd this (by simp)
  · intro x it hx hb
    have hl : s.work_entry x ≠ none := by
      intro e
      rw [item_of_unlinked s x e] at hx
      exact absurd hx (by simp)
    rw [item_of_linked s x hl] at hx
    have hx := Option.some.inj hx
    rw [← hx] at hb ⊢
    exact hi.l.barrier_inact x hl (of_decide_eq_true hb)
  · intro p x l hL
    have hx : x ∈ s.lists (list_head.inactive_works p) := by
      rw [show s.lists (list_head.inactive_works p) = x :: l from hL]
      exact List.mem_cons_self _ _
    have he : s.work_entry x = some (list_head.inactive_works p) := (hi.l.mem_entry _ x).1 hx
    rw [is_barrier_linked s x (by rw [he]; simp)]
    exact decide_eq_false ((hi.l.ichain p).2 x (by
      rw [show (core s).lists (list_head.inactive_works p) = x :: l from hL]; rfl))
  · exact item_of_unlinked s 0 hi.l.nonzero
  · exact run_of_idle s 0 hi.e.idle0
  · intro x it hx
    have hl : s.work_entry x ≠ none := by
      intro e
      rw [item_of_unlinked s x e] at hx
      exact absurd hx (by simp)
    rw [item_of_linked s x hl] at hx
    rw [← Option.some.inj hx]
    exact get_work_color_lt _
  · exact hi.e.color_ok
  · intro k r hr
    have hk : s.worker_current_work k ≠ 0 := by
      intro e
      rw [run_of_idle s k e] at hr
      exact absurd hr (by simp)
    rw [run_of_executing s k hk] at hr
    rw [← Option.some.inj hr]
    exact (hi.e.exec_pwq k hk).1.symm
  · intro k r hr
    have hk : s.worker_current_work k ≠ 0 := by
      intro e
      rw [run_of_idle s k e] at hr
      exact absurd hr (by simp)
    rw [run_of_executing s k hk] at hr
    rw [← Option.some.inj hr]
    exact hi.e.exec_color k hk

/-! ## What the order on a pool_workqueue depends on -/

theorem AtP.refl (a : Acc) (p : Nat) : AtP a a p :=
  ⟨rfl, rfl, Iff.rfl, rfl, fun _ => Iff.rfl, fun _ => Iff.rfl⟩

theorem AtP.trans {a a2 a3 : Acc} {p : Nat} (h1 : AtP a a2 p) (h2 : AtP a2 a3 p) : AtP a a3 p :=
  ⟨h2.max.trans h1.max, h2.nr.trans h1.nr, h2.empty.trans h1.empty, h2.fifo.trans h1.fifo,
    fun y => (h2.item y).trans (h1.item y), fun k => (h2.run k).trans (h1.run k)⟩

theorem FInv_keep (a a2 : Acc) (p : Nat) (q : List Nat) (f r : Option Nat) (h : AtP a a2 p)
    (hi : FInv a p q f r) : FInv a2 p q f r := by
  obtain ⟨i1, i2, i3, i4, i5, i6, i7⟩ := hi
  refine ⟨h.max.trans i1, fun y => (h.item y).trans (i2 y), fun k => (h.run k).trans (i3 k),
    by rw [h.nr]; exact i4, by rw [h.nr]; exact i5, ?_, by rw [h.fifo]; exact i7⟩
  intro hne
  rw [h.nr]
  exact i6 (fun e => hne (h.empty.2 e))

theorem fifo_congr (a a2 : Acc) (p : Nat) (h1 : a2.inactive p = a.inactive p)
    (h2 : ∀ y ∈ a.inactive p, a2.item y = a.item y) : a2.fifo p = a.fifo p := by
  unfold Acc.fifo
  rw [h1]
  apply List.filter_congr
  intro y hy
  unfold Acc.is_barrier
  rw [h2 y hy]

/-- Two ledgers agree at `p` if they differ only in items and workers that do not matter
to `p`. -/
theorem AtP_of (a a2 : Acc) (p : Nat) (h1 : a2.max_active p = a.max_active p)
    (h2 : a2.nr_active p = a.nr_active p) (h3 : a2.inactive p = a.inactive p)
    (h4 : ∀ y, a2.item y = a.item y ∨
      (y ∉ a.inactive p ∧ ¬ a2.active_item p y ∧ ¬ a.active_item p y))
    (h5 : ∀ k, a2.run k = a.run k ∨ (¬ a2.active_run p k ∧ ¬ a.active_run p k)) :
    AtP a a2 p := by
  refine ⟨h1, h2, by rw [h3], ?_, ?_, ?_⟩
  · apply fifo_congr a a2 p h3
    intro y hy
    rcases h4 y with e | ⟨e, _, _⟩
    · exact e
    · exact absurd hy e
  · intro y
    rcases h4 y with e | ⟨_, e1, e2⟩
    · unfold Acc.active_item
      rw [e]
    · exact ⟨fun h => absurd h e1, fun h => absurd h e2⟩
  · intro k
    rcases h5 k with e | ⟨e1, e2⟩
    · unfold Acc.active_run
      rw [e]
    · exact ⟨fun h => absurd h e1, fun h => absurd h e2⟩

theorem waits_iff (a : Acc) (p x : Nat) :
    a.waits p x = true ↔ ∃ it, a.item x = some it ∧ it.pwq = p ∧ it.barrier = false := by
  unfold Acc.waits
  cases h : a.item x with
  | none => simp
  | some it => simp

theorem active_waits (a : Acc) (t : Typed a) (p y : Nat) (h : a.active_item p y) :
    a.waits p y = true := by
  obtain ⟨it, h1, h2, h3⟩ := h
  rw [waits_iff]
  refine ⟨it, h1, h2, ?_⟩
  by_contra hb
  have := t.barrier_inact y it h1 (by simpa using hb)
  rw [h3] at this
  exact absurd this (by simp)

theorem mem_fifo (a : Acc) (p y : Nat) :
    y ∈ a.fifo p ↔ y ∈ a.inactive p ∧ a.is_barrier y = false := by
  unfold Acc.fifo
  rw [List.mem_filter]
  simp

theorem is_barrier_of_item (a : Acc) (y : Nat) (it : Item) (h : a.item y = some it) :
    a.is_barrier y = it.barrier := by
  unfold Acc.is_barrier
  rw [h]

theorem fifo_waits (a : Acc) (t : Typed a) (p y : Nat) (h : y ∈ a.fifo p) :
    a.waits p y = true := by
  rw [mem_fifo] at h
  obtain ⟨it, h1, h2, _⟩ := t.on_inactive p y h.1
  rw [waits_iff]
  refine ⟨it, h1, h2, ?_⟩
  rw [← is_barrier_of_item a y it h1]
  exact h.2

theorem FInv.mem_waits {a : Acc} {p : Nat} {q : List Nat} {f r : Option Nat}
    (hi : FInv a p q f r) (t : Typed a) : ∀ y ∈ q, a.waits p y = true := by
  intro y hy
  rw [hi.order, List.mem_append] at hy
  rcases hy with hy | hy
  · have : f = some y := by
      cases f with
      | none => simp at hy
      | some x =>
        simp at hy
        rw [hy]
    exact active_waits a t p y ((hi.front_iff y).2 this)
  · exact fifo_waits a t p y hy

theorem FInv.filter_self {a : Acc} {p : Nat} {q : List Nat} {f r : Option Nat}
    (hi : FInv a p q f r) (t : Typed a) : q.filter (a.waits p) = q :=
  List.filter_eq_self.2 (hi.mem_waits t)

/-- Every waiting item of `p` is in the list. -/
theorem FInv.waits_mem {a : Acc} {p : Nat} {q : List Nat} {f r : Option Nat}
    (hi : FInv a p q f r) (t : Typed a) (y : Nat) (h : a.waits p y = true) : y ∈ q := by
  rw [waits_iff] at h
  obtain ⟨it, h1, h2, h3⟩ := h
  rw [hi.order, List.mem_append]
  by_cases hia : it.inact = true
  · right
    rw [mem_fifo, is_barrier_of_item a y it h1]
    have := t.inactive_on y it h1 hia h3
    rw [h2] at this
    exact ⟨this, h3⟩
  · left
    have := (hi.front_iff y).1 ⟨it, h1, h2, by simpa using hia⟩
    rw [this]
    simp

theorem FInv.nodup {a : Acc} {p : Nat} {q : List Nat} {f r : Option Nat}
    (hi : FInv a p q f r) (t : Typed a) : q.Nodup := by
  rw [hi.order]
  have hn : (a.fifo p).Nodup := (t.nodup p).filter _
  cases f with
  | none => simpa using hn
  | some x =>
    simp only [Option.toList_some, List.singleton_append, List.nodup_cons]
    refine ⟨?_, hn⟩
    intro hx
    rw [mem_fifo] at hx
    obtain ⟨it, h1, _, h3⟩ := t.on_inactive p x hx.1
    obtain ⟨it2, e1, _, e3⟩ := (hi.front_iff x).2 rfl
    rw [h1] at e1
    rw [Option.some.inj e1, e3] at h3
    exact absurd h3 (by simp)

/-! ## The activation of the first inactive item in the ledger -/

theorem Typed.lists {a : Acc} (t : Typed a) : ListsTyped a := by
  intro p y hy it hit
  obtain ⟨it2, h1, h2, _⟩ := t.on_inactive p y hy
  rw [h1] at hit
  rw [← Option.some.inj hit]
  exact h2

theorem settle_spec (b : Acc) (p : Nat) :
    (b.settle p = b ∧ ¬ (b.inactive p ≠ [] ∧ b.nr_active p < b.max_active p)) ∨
    ∃ x l, b.inactive p = x :: l ∧ b.nr_active p < b.max_active p ∧
      b.settle p = { b with
        inactive := Function.update b.inactive p (l.dropWhile b.is_barrier)
        item := Function.update b.item x ((b.item x).map (fun it => { it with inact := false }))
        nr_active := Function.update b.nr_active p (b.nr_active p + 1) } := by
  unfold Acc.settle
  by_cases hc : b.inactive p ≠ [] ∧ b.nr_active p < b.max_active p
  · right
    rw [if_pos hc]
    cases hL : b.inactive p with
    | nil => exact absurd hL hc.1
    | cons x l =>
      refine ⟨x, l, rfl, hc.2, ?_⟩
      unfold Acc.activate
      rw [hL, List.headD_cons, list_before_head, list_from_head]
      rfl
  · left
    rw [if_neg hc]
    exact ⟨rfl, hc⟩

theorem settle_full (b : Acc) (p : Nat) (h : b.max_active p ≤ b.nr_active p) :
    b.settle p = b := by
  unfold Acc.settle
  rw [if_neg]
  intro hc
  exact absurd hc.2 (not_lt.2 h)

theorem is_barrier_map (b : Acc) (x : Nat) (f : Item → Item) (hf : ∀ it, (f it).barrier = it.barrier)
    (y : Nat) (c : Acc) (hc : c.item = Function.update b.item x ((b.item x).map f)) :
    c.is_barrier y = b.is_barrier y := by
  unfold Acc.is_barrier
  rw [hc]
  by_cases hy : y = x
  · subst hy
    rw [Function.update_same]
    cases b.item y with
    | none => rfl
    | some it => exact hf it
  · rw [Function.update_noteq hy]

theorem filter_dropWhile_not (b : Nat → Bool) (l : List Nat) :
    (l.dropWhile b).filter (fun x => !b x) = l.filter (fun x => !b x) := by
  induction l with
  | nil => rfl
  | cons x l ih =>
    by_cases hx : b x = true
    · rw [List.dropWhile_cons_of_pos hx, ih, List.filter_cons_of_neg (by simp [hx])]
    · rw [List.dropWhile_cons_of_neg hx]

/-- The activation of the first inactive item of another pool_workqueue does not matter
to `p`. -/
theorem settle_other (b : Acc) (p p2 : Nat) (hp : p2 ≠ p) (ht : ListsTyped b) :
    AtP b (b.settle p2) p := by
  rcases settle_spec b p2 with ⟨e, _⟩ | ⟨x, l, hL, _, e⟩
  · rw [e]; exact AtP.refl b p
  · rw [e]
    have hx : x ∈ b.inactive p2 := by rw [hL]; exact List.mem_cons_self _ _
    apply AtP_of
    · rfl
    · show Function.update b.nr_active p2 _ p = _
      rw [Function.update_noteq (Ne.symm hp)]
    · show Function.update b.inactive p2 _ p = _
      rw [Function.update_noteq (Ne.symm hp)]
    · intro y
      show Function.update b.item x _ y = b.item y ∨ _
      by_cases hy : y = x
      · subst hy
        rw [Function.update_same]
        cases hi : b.item y with
        | none => left; rfl
        | some it =>
          right
          have h1 := ht p2 y hx it hi
          refine ⟨?_, ?_, ?_⟩
          · intro hm
            exact hp ((ht p y hm it hi).symm.trans h1).symm
          · rintro ⟨it2, e1, e2, _⟩
            show False
            have e1 : (Function.update b.item y _ y) = some it2 := e1
            rw [Function.update_same] at e1
            have e1b : some ({ it with inact := false } : Item) = some it2 := e1
            rw [← Option.some.inj e1b] at e2
            exact hp (h1.symm.trans e2)
          · rintro ⟨it2, e1, e2, _⟩
            rw [hi] at e1
            rw [← Option.some.inj e1] at e2
            exact hp (h1.symm.trans e2)
      · left
        rw [Function.update_noteq hy]
    · intro k
      left
      rfl

theorem settle_lists (b : Acc) (p2 : Nat) (ht : ListsTyped b) : ListsTyped (b.settle p2) := by
  rcases settle_spec b p2 with ⟨e, _⟩ | ⟨x, l, hL, _, e⟩
  · rw [e]; exact ht
  · rw [e]
    intro p y hy it hit
    have hy2 : y ∈ b.inactive p := by
      have hy : y ∈ Function.update b.inactive p2 (l.dropWhile b.is_barrier) p := hy
      by_cases hp : p = p2
      · subst hp
        rw [Function.update_same] at hy
        rw [hL]
        exact List.mem_cons_of_mem _ ((List.dropWhile_sublist _).subset hy)
      · rw [Function.update_noteq hp] at hy
        exact hy
    have hit : Function.update b.item x ((b.item x).map (fun it => { it with inact := false })) y
        = some it := hit
    by_cases hyx : y = x
    · subst hyx
      rw [Function.update_same] at hit
      cases hi : b.item y with
      | none => rw [hi] at hit; exact absurd hit (by simp)
      | some it0 =>
        rw [hi] at hit
        have := Option.some.inj hit
        rw [← this]
        exact ht p y hy2 it0 hi
    · rw [Function.update_noteq hyx] at hit
      exact ht p y hy2 it hit

/-- With no active item and no active worker on `p`, and `nr_active` zero, the activation of
the first inactive item establishes the invariant of the order. -/
theorem settle_vacant (b : Acc) (p : Nat) (hmax : b.max_active p = 1)
    (hnr : b.nr_active p = 0) (hitem : ∀ y, ¬ b.active_item p y)
    (hrun : ∀ k, ¬ b.active_run p k)
    (hhead : ∀ x l, b.inactive p = x :: l →
      ∃ it, b.item x = some it ∧ it.pwq = p ∧ it.barrier = false) :
    ∃ f, FInv (b.settle p) p (b.fifo p) f none := by
  rcases settle_spec b p with ⟨e, hc⟩ | ⟨x, l, hL, _, e⟩
  · have hemp : b.inactive p = [] := by
      by_contra hne
      exact hc ⟨hne, by rw [hnr, hmax]; decide⟩
    rw [e]
    refine ⟨none, hmax, ?_, ?_, ?_, ?_, ?_, ?_⟩
    · intro y
      exact ⟨fun h => absurd h (hitem y), fun h => absurd h (by simp)⟩
    · intro k
      exact ⟨fun h => absurd h (hrun k), fun h => absurd h (by simp)⟩
    · rw [hnr]; rfl
    · rw [hnr]; decide
    · intro hne
      exact absurd hemp hne
    · rfl
  · obtain ⟨it, h1, h2, h3⟩ := hhead x l hL
    rw [e]
    refine ⟨some x, hmax, ?_, ?_, ?_, ?_, ?_, ?_⟩
    · intro y
      constructor
      · rintro ⟨it2, e1, e2, e3⟩
        have e1 : Function.update b.item x _ y = some it2 := e1
        by_cases hy : y = x
        · rw [hy]
        · rw [Function.update_noteq hy] at e1
          exact absurd ⟨it2, e1, e2, e3⟩ (hitem y)
      · intro hy
        have hy := Option.some.inj hy
        subst hy
        refine ⟨{ it with inact := false }, ?_, h2, rfl⟩
        show Function.update b.item x _ x = _
        rw [Function.update_same, h1]
        rfl
    · intro k
      exact ⟨fun h => absurd h (hrun k), fun h => absurd h (by simp)⟩
    · show Function.update b.nr_active p _ p = _
      rw [Function.update_same, hnr]
      rfl
    · show Function.update b.nr_active p _ p ≤ 1
      rw [Function.update_same, hnr]
      decide
    · intro _
      show Function.update b.nr_active p _ p = 1
      rw [Function.update_same, hnr]
      rfl
    · have hb : b.is_barrier x = false := by
        rw [is_barrier_of_item b x it h1, h3]
      have e1 : b.fifo p = x :: l.filter (fun y => !b.is_barrier y) := by
        unfold Acc.fifo
        rw [hL, List.filter_cons_of_pos (by simp [hb])]
      rw [e1]
      have key : ∀ c : Acc, c.item = Function.update b.item x
          ((b.item x).map (fun it => { it with inact := false })) →
          c.inactive p = l.dropWhile b.is_barrier →
          c.fifo p = l.filter (fun y => !b.is_barrier y) := by
        intro c hc1 hc2
        unfold Acc.fifo
        have e3 : (fun y => !c.is_barrier y) = (fun y => !b.is_barrier y) :=
          funext (fun y => by
            rw [is_barrier_map b x (fun it => { it with inact := false }) (fun _ => rfl) y c hc1])
        rw [hc2, e3, filter_dropWhile_not]
      rw [key _ rfl (Function.update_same _ _ _)]
      rfl

/-! ## The steps `queue` and `flush` and the order on a pool_workqueue -/

theorem not_mem_inactive_of_none (a : Acc) (t : Typed a) (x : Nat) (h : a.item x = none)
    (p : Nat) : x ∉ a.inactive p := by
  intro hm
  obtain ⟨it, h1, _⟩ := t.on_inactive p x hm
  rw [h] at h1
  exact absurd h1 (by simp)

theorem not_active_of_none (a : Acc) (x : Nat) (h : a.item x = none) (p : Nat) :
    ¬ a.active_item p x := by
  rintro ⟨it, h1, _⟩
  rw [h] at h1
  exact absurd h1 (by simp)

theorem enqueue_other (a : Acc) (t : Typed a) (p p2 x : Nat) (hp : p2 ≠ p)
    (hx : a.item x = none) : AtP a (a.enqueue x p2) p := by
  unfold Acc.enqueue
  split_ifs with hc
  · apply AtP_of
    · rfl
    · show Function.update a.nr_active p2 _ p = _
      rw [Function.update_noteq (Ne.symm hp)]
    · rfl
    · intro y
      show Function.update a.item x _ y = a.item y ∨ _
      by_cases hy : y = x
      · subst hy
        right
        refine ⟨not_mem_inactive_of_none a t y hx p, ?_, not_active_of_none a y hx p⟩
        rintro ⟨it, e1, e2, _⟩
        have e1 : Function.update a.item y _ y = some it := e1
        rw [Function.update_same] at e1
        rw [← Option.some.inj e1] at e2
        exact hp e2
      · left
        rw [Function.update_noteq hy]
    · intro k
      left
      rfl
  · apply AtP_of
    · rfl
    · rfl
    · show Function.update a.inactive p2 _ p = _
      rw [Function.update_noteq (Ne.symm hp)]
    · intro y
      show Function.update a.item x _ y = a.item y ∨ _
      by_cases hy : y = x
      · subst hy
        right
        refine ⟨not_mem_inactive_of_none a t y hx p, ?_, not_active_of_none a y hx p⟩
        rintro ⟨it, e1, e2, _⟩
        have e1 : Function.update a.item y _ y = some it := e1
        rw [Function.update_same] at e1
        rw [← Option.some.inj e1] at e2
        exact hp e2
      · left
        rw [Function.update_noteq hy]
    · intro k
      left
      rfl

theorem FInv.nr_nonneg {a : Acc} {p : Nat} {q : List Nat} {f r : Option Nat}
    (hi : FInv a p q f r) : 0 ≤ a.nr_active p := by
  rw [hi.count]
  positivity

theorem FInv.idle {a : Acc} {p : Nat} {q : List Nat} {f r : Option Nat}
    (hi : FInv a p q f r) (h : a.nr_active p = 0) : f = none ∧ r = none ∧ a.inactive p = [] := by
  have hc := hi.count
  rw [h] at hc
  refine ⟨?_, ?_, ?_⟩
  · cases f with
    | none => rfl
    | some x =>
      simp at hc
      have : (0 : Int) ≤ (r.toList.length : Int) := by positivity
      omega
  · cases r with
    | none => rfl
    | some x =>
      simp at hc
      have : (0 : Int) ≤ (f.toList.length : Int) := by positivity
      omega
  · by_contra hne
    have := hi.backlog hne
    rw [h] at this
    exact absurd this (by decide)

theorem FInv.front_alone {a : Acc} {p : Nat} {q : List Nat} {f r : Option Nat}
    (hi : FInv a p q f r) (x : Nat) (h : f = some x) : r = none ∧ a.nr_active p = 1 := by
  have hc := hi.count
  have hl := hi.le_one
  rw [h] at hc
  cases r with
  | none => simp at hc; exact ⟨rfl, hc⟩
  | some k => simp at hc; omega

theorem FInv.runner_alone {a : Acc} {p : Nat} {q : List Nat} {f r : Option Nat}
    (hi : FInv a p q f r) (k : Nat) (h : r = some k) : f = none ∧ a.nr_active p = 1 := by
  have hc := hi.count
  have hl := hi.le_one
  rw [h] at hc
  cases f with
  | none => simp at hc; exact ⟨rfl, hc⟩
  | some k => simp at hc; omega

/-- An enqueue on `p` appends the work item to the list of the order. -/
theorem enqueue_same (a : Acc) (t : Typed a) (p x : Nat) (q : List Nat) (f r : Option Nat)
    (hi : FInv a p q f r) (hx : a.item x = none) :
    ∃ f2, FInv (a.enqueue x p) p (q ++ [x]) f2 r := by
  have hnn := hi.nr_nonneg
  unfold Acc.enqueue
  split_ifs with hc
  · rw [hi.max] at hc
    have h0 : a.nr_active p = 0 := by omega
    obtain ⟨hf, hr, hL⟩ := hi.idle h0
    subst hf
    subst hr
    refine ⟨some x, hi.max, ?_, ?_, ?_, ?_, ?_, ?_⟩
    · intro y
      constructor
      · rintro ⟨it, e1, e2, e3⟩
        have e1 : Function.update a.item x _ y = some it := e1
        by_cases hy : y = x
        · rw [hy]
        · rw [Function.update_noteq hy] at e1
          exact absurd ((hi.front_iff y).1 ⟨it, e1, e2, e3⟩) (by simp)
      · intro hy
        have hy := Option.some.inj hy
        subst hy
        refine ⟨⟨p, a.work_color p, false, false⟩, ?_, rfl, rfl⟩
        show Function.update a.item x _ x = _
        rw [Function.update_same]
    · exact hi.runner_iff
    · show Function.update a.nr_active p _ p = _
      rw [Function.update_same, h0]
      rfl
    · show Function.update a.nr_active p _ p ≤ 1
      rw [Function.update_same, h0]
      decide
    · intro _
      show Function.update a.nr_active p _ p = 1
      rw [Function.update_same, h0]
      rfl
    · rw [hi.order]
      show _ = [x] ++ List.filter _ (a.inactive p)
      unfold Acc.fifo
      rw [hL]
      rfl
  · rw [hi.max] at hc
    have h1 : a.nr_active p = 1 := le_antisymm hi.le_one (not_lt.1 hc)
    have hxL : x ∉ a.inactive p := not_mem_inactive_of_none a t x hx p
    refine ⟨f, hi.max, ?_, hi.runner_iff, hi.count, hi.le_one, fun _ => h1, ?_⟩
    · intro y
      rw [← hi.front_iff y]
      by_cases hy : y = x
      · subst hy
        constructor
        · rintro ⟨it, e1, _, e3⟩
          have e1 : Function.update a.item y _ y = some it := e1
          rw [Function.update_same] at e1
          rw [← Option.some.inj e1] at e3
          exact absurd e3 (by simp)
        · intro h
          exact absurd h (not_active_of_none a y hx p)
      · unfold Acc.active_item
        show (∃ it, Function.update a.item x _ y = some it ∧ _) ↔ _
        rw [Function.update_noteq hy]
    · rw [hi.order, List.append_assoc]
      congr 1
      have key : ∀ c : Acc, c.item = Function.update a.item x
          (some ⟨p, a.work_color p, true, false⟩) → c.inactive p = a.inactive p ++ [x] →
          c.fifo p = a.fifo p ++ [x] := by
        intro c hc1 hc2
        unfold Acc.fifo
        rw [hc2, List.filter_append]
        congr 1
        · apply List.filter_congr
          intro y hy
          have : y ≠ x := fun e => hxL (e ▸ hy)
          unfold Acc.is_barrier
          rw [hc1, Function.update_noteq this]
        · have : c.is_barrier x = false := by
            unfold Acc.is_barrier
            rw [hc1, Function.update_same]
          simp [this]
      exact (key _ rfl (Function.update_same _ _ _)).symm

theorem add_barrier_front_atp (a : Acc) (t : Typed a) (p b q : Nat) (c : Int)
    (hb : a.item b = none) : AtP a (a.add_barrier_front b q c) p := by
  unfold Acc.add_barrier_front
  apply AtP_of
  · rfl
  · rfl
  · rfl
  · intro y
    show Function.update a.item b _ y = a.item y ∨ _
    by_cases hy : y = b
    · subst hy
      right
      refine ⟨not_mem_inactive_of_none a t y hb p, ?_, not_active_of_none a y hb p⟩
      rintro ⟨it, e1, _, e3⟩
      have e1 : Function.update a.item y _ y = some it := e1
      rw [Function.update_same] at e1
      rw [← Option.some.inj e1] at e3
      exact absurd e3 (by simp)
    · left
      rw [Function.update_noteq hy]
  · intro k
    left
    rfl

theorem add_barrier_atp (a : Acc) (t : Typed a) (p b tg q : Nat) (c : Int)
    (hb : a.item b = none) : AtP a (a.add_barrier b tg q c) p := by
  have hbL : b ∉ a.inactive p := not_mem_inactive_of_none a t b hb p
  have hitem : (a.add_barrier b tg q c).item = Function.update a.item b
      (some ⟨q, c, true, true⟩) := rfl
  have hbar : ∀ y, y ≠ b → (a.add_barrier b tg q c).is_barrier y = a.is_barrier y := by
    intro y hy
    unfold Acc.is_barrier
    rw [hitem, Function.update_noteq hy]
  have hbb : (a.add_barrier b tg q c).is_barrier b = true := by
    unfold Acc.is_barrier
    rw [hitem, Function.update_same]
  have hin : (a.add_barrier b tg q c).inactive p =
      if tg ∈ a.inactive p then
        list_before tg (a.inactive p) ++ tg :: b :: (list_from tg (a.inactive p)).drop 1
      else a.inactive p := rfl
  refine ⟨rfl, rfl, ?_, ?_, ?_, fun k => Iff.rfl⟩
  · rw [hin]
    split_ifs with hm
    · constructor
      · intro h
        simp at h
      · intro h
        rw [h] at hm
        simp at hm
    · exact Iff.rfl
  · unfold Acc.fifo
    rw [hin]
    split_ifs with hm
    · have hL := list_before_from tg (a.inactive p)
      rw [list_from_of_mem tg _ hm] at hL
      have hf : List.filter (fun x => !(a.add_barrier b tg q c).is_barrier x)
          (list_before tg (a.inactive p) ++
            tg :: b :: (list_from tg (a.inactive p)).drop 1) =
          List.filter (fun x => !(a.add_barrier b tg q c).is_barrier x)
          (list_before tg (a.inactive p) ++ tg :: (list_from tg (a.inactive p)).drop 1) := by
        simp only [List.filter_append, List.filter_cons, hbb, Bool.not_true, Bool.false_eq_true,
          if_false]
      rw [hf, hL]
      apply List.filter_congr
      intro y hy
      rw [hbar y (fun e => hbL (e ▸ hy))]
    · apply List.filter_congr
      intro y hy
      rw [hbar y (fun e => hbL (e ▸ hy))]
  · intro y
    by_cases hy : y = b
    · subst hy
      constructor
      · rintro ⟨it, e1, _, e3⟩
        rw [hitem, Function.update_same] at e1
        rw [← Option.some.inj e1] at e3
        exact absurd e3 (by simp)
      · intro h
        exact absurd h (not_active_of_none a y hb p)
    · unfold Acc.active_item
      rw [hitem, Function.update_noteq hy]

/-! ## The steps `start` and `finish` and the order on a pool_workqueue -/

theorem nif_tip_atp (b : Acc) (p p2 : Nat) (c : Int) (d : Int) :
    AtP b ((b.add_nif p2 c d).tip p2 c) p :=
  ⟨rfl, rfl, Iff.rfl, rfl, fun _ => Iff.rfl, fun _ => Iff.rfl⟩

theorem start_other (a : Acc) (p k w : Nat) (it : Item)
    (hk : a.run k = none) (hw : a.item w = some it) (hL : ∀ p, w ∉ a.inactive p)
    (hn : ¬ (it.pwq = p ∧ it.inact = false)) : AtP a (a.start k w it) p := by
  unfold Acc.start
  apply AtP_of
  · rfl
  · rfl
  · rfl
  · intro y
    show Function.update a.item w none y = a.item y ∨ _
    by_cases hy : y = w
    · subst hy
      right
      refine ⟨hL p, ?_, ?_⟩
      · rintro ⟨it2, e1, _⟩
        have e1 : Function.update a.item y none y = some it2 := e1
        rw [Function.update_same] at e1
        exact absurd e1 (by simp)
      · rintro ⟨it2, e1, e2, e3⟩
        rw [hw] at e1
        rw [← Option.some.inj e1] at e2 e3
        exact hn ⟨e2, e3⟩
    · left
      rw [Function.update_noteq hy]
  · intro j
    show Function.update a.run k _ j = a.run j ∨ _
    by_cases hj : j = k
    · subst hj
      right
      constructor
      · rintro ⟨r, e1, e2, e3⟩
        have e1 : Function.update a.run j _ j = some r := e1
        rw [Function.update_same] at e1
        rw [← Option.some.inj e1] at e2 e3
        exact hn ⟨e2, e3⟩
      · rintro ⟨r, e1, _⟩
        rw [hk] at e1
        exact absurd e1 (by simp)
    · left
      rw [Function.update_noteq hj]

/-- The worker that claims the active queued item of `p` takes the head of the order. -/
theorem start_same (a : Acc) (p k w : Nat) (it : Item) (q : List Nat)
    (f r : Option Nat) (hi : FInv a p q f r)
    (hk : a.run k = none) (hw : a.item w = some it) (hL : ∀ p, w ∉ a.inactive p)
    (h1 : it.pwq = p) (h2 : it.inact = false) :
    q = w :: a.fifo p ∧ FInv (a.start k w it) p (a.fifo p) none (some k) := by
  have hf : f = some w := (hi.front_iff w).1 ⟨it, hw, h1, h2⟩
  obtain ⟨hr, hnr⟩ := hi.front_alone w hf
  subst hf
  subst hr
  refine ⟨hi.order, hi.max, ?_, ?_, ?_, hi.le_one, fun _ => hnr, ?_⟩
  · intro y
    constructor
    · rintro ⟨it2, e1, e2, e3⟩
      have e1 : Function.update a.item w none y = some it2 := e1
      by_cases hy : y = w
      · subst hy
        rw [Function.update_same] at e1
        exact absurd e1 (by simp)
      · rw [Function.update_noteq hy] at e1
        have := (hi.front_iff y).1 ⟨it2, e1, e2, e3⟩
        exact absurd (Option.some.inj this).symm hy
    · intro h
      exact absurd h (by simp)
  · intro j
    constructor
    · rintro ⟨r, e1, e2, e3⟩
      have e1 : Function.update a.run k _ j = some r := e1
      by_cases hj : j = k
      · rw [hj]
      · rw [Function.update_noteq hj] at e1
        exact absurd ((hi.runner_iff j).1 ⟨r, e1, e2, e3⟩) (by simp)
    · intro hj
      have hj := Option.some.inj hj
      subst hj
      refine ⟨⟨w, it.pwq, it.color, it.inact, it.pwq, it.color⟩, ?_, h1, h2⟩
      show Function.update a.run k _ k = _
      rw [Function.update_same]
  · show a.nr_active p = _
    rw [hnr]
    rfl
  · show a.fifo p = [] ++ Acc.fifo _ p
    rw [List.nil_append]
    symm
    apply fifo_congr
    · rfl
    · intro y hy
      show Function.update a.item w none y = _
      have hyw : y ≠ w := by
        intro e
        rw [e] at hy
        exact hL p hy
      rw [Function.update_noteq hyw]

theorem finish_other (a : Acc) (t : Typed a) (p k : Nat) (r0 : Run) (hk : a.run k = some r0)
    (hn : ¬ (r0.pwq = p ∧ r0.inact = false)) : AtP a (a.finish k r0) p := by
  have h1 : ∀ v : Nat → Int, v p = a.nr_active p →
      AtP a { a with run := Function.update a.run k none, nr_active := v } p := by
    intro v hv
    apply AtP_of
    · rfl
    · exact hv
    · rfl
    · intro y
      left
      rfl
    · intro j
      show Function.update a.run k none j = a.run j ∨ _
      by_cases hj : j = k
      · subst hj
        right
        constructor
        · rintro ⟨r, e1, _⟩
          have e1 : Function.update a.run j none j = some r := e1
          rw [Function.update_same] at e1
          exact absurd e1 (by simp)
        · rintro ⟨r, e1, e2, e3⟩
          rw [hk] at e1
          rw [← Option.some.inj e1] at e2 e3
          exact hn ⟨e2, e3⟩
      · left
        rw [Function.update_noteq hj]
  unfold Acc.finish Acc.dec
  split_ifs with hia
  · exact (h1 a.nr_active rfl).trans (nif_tip_atp _ p _ _ _)
  · have hp : r0.pwq ≠ p := fun e => hn ⟨e, by simpa using hia⟩
    have h2 := h1 (Function.update a.nr_active r0.pwq (a.nr_active r0.pwq - 1))
      (Function.update_noteq (Ne.symm hp) _ _)
    have h3 : ListsTyped { a with
        run := Function.update a.run k none
        nr_active := Function.update a.nr_active r0.pwq (a.nr_active r0.pwq - 1) } := t.lists
    exact (h2.trans (settle_other _ p r0.pwq hp h3)).trans (nif_tip_atp _ p _ _ _)

/-- When the worker that executes the active item of `p` finishes, the first inactive item
is activated and becomes the head of the order. -/
theorem finish_same (a : Acc) (t : Typed a) (p k : Nat) (r0 : Run) (q : List Nat)
    (f r : Option Nat) (hi : FInv a p q f r) (hk : a.run k = some r0)
    (h1 : r0.pwq = p) (h2 : r0.inact = false) :
    ∃ f2, FInv (a.finish k r0) p q f2 none := by
  have hr : r = some k := (hi.runner_iff k).1 ⟨r0, hk, h1, h2⟩
  obtain ⟨hf, hnr⟩ := hi.runner_alone k hr
  subst hf
  subst hr
  subst h1
  have hq : q = a.fifo r0.pwq := hi.order
  unfold Acc.finish Acc.dec
  rw [if_neg (by simp [h2])]
  obtain ⟨f2, hv⟩ := settle_vacant { a with
      run := Function.update a.run k none
      nr_active := Function.update a.nr_active r0.pwq (a.nr_active r0.pwq - 1) } r0.pwq hi.max
    (by
      show Function.update a.nr_active r0.pwq _ r0.pwq = 0
      rw [Function.update_same, hnr]
      rfl)
    (by
      intro y hy
      exact absurd ((hi.front_iff y).1 hy) (by simp))
    (by
      rintro j ⟨r, e1, e2, e3⟩
      have e1 : Function.update a.run k none j = some r := e1
      by_cases hj : j = k
      · subst hj
        rw [Function.update_same] at e1
        exact absurd e1 (by simp)
      · rw [Function.update_noteq hj] at e1
        have := (hi.runner_iff j).1 ⟨r, e1, e2, e3⟩
        exact hj (Option.some.inj this).symm)
    (by
      intro x l hL
      obtain ⟨it, e1, e2, _⟩ := t.on_inactive r0.pwq x (by
        show x ∈ a.inactive r0.pwq
        rw [show a.inactive r0.pwq = x :: l from hL]
        exact List.mem_cons_self _ _)
      refine ⟨it, e1, e2, ?_⟩
      rw [← is_barrier_of_item a x it e1]
      exact t.head r0.pwq x l hL)
  refine ⟨f2, ?_⟩
  rw [hq]
  exact FInv_keep _ _ _ _ _ _ (nif_tip_atp _ _ _ _ _) hv

/-! ## The steps `grab` and `adjust` and the order on a pool_workqueue -/

theorem settle_noop (b : Acc) (p : Nat) (q : List Nat) (f r : Option Nat)
    (hi : FInv b p q f r) : b.settle p = b := by
  unfold Acc.settle
  rw [if_neg]
  rintro ⟨h1, h2⟩
  rw [hi.backlog h1, hi.max] at h2
  exact absurd h2 (by decide)

theorem settle_max (b : Acc) (p : Nat) : (b.settle p).max_active = b.max_active := by
  rcases settle_spec b p with ⟨e, _⟩ | ⟨x, l, _, _, e⟩
  · rw [e]
  · rw [e]

theorem adjust_max (a : Acc) (p : Nat) (m : Int) (n : Nat) :
    (a.adjust p m n).max_active = Function.update a.max_active p m := by
  induction n with
  | zero => rfl
  | succ n ih =>
    show ((a.adjust p m n).settle p).max_active = _
    rw [settle_max, ih]

theorem adjust_lists (a : Acc) (ht : ListsTyped a) (p : Nat) (m : Int) (n : Nat) :
    ListsTyped (a.adjust p m n) := by
  induction n with
  | zero => exact ht
  | succ n ih => exact settle_lists _ p ih

/-- The step `adjust` does not matter to the order on `p` as long as `max_active` of `p`
stays 1. -/
theorem adjust_atp (a : Acc) (t : Typed a) (p : Nat) (q : List Nat) (f r : Option Nat)
    (hi : FInv a p q f r) (p2 : Nat) (m : Int) (n : Nat)
    (hmax : (a.adjust p2 m n).max_active p = 1) : AtP a (a.adjust p2 m n) p := by
  rw [adjust_max] at hmax
  induction n with
  | zero =>
    apply AtP_of
    · show Function.update a.max_active p2 m p = _
      rw [hmax, hi.max]
    · rfl
    · rfl
    · intro y; left; rfl
    · intro k; left; rfl
  | succ n ih =>
    show AtP a ((a.adjust p2 m n).settle p2) p
    by_cases hp : p2 = p
    · subst hp
      rw [settle_noop _ p2 q f r (FInv_keep _ _ _ _ _ _ ih hi)]
      exact ih
    · exact ih.trans (settle_other _ p p2 hp (adjust_lists a t.lists p2 m n))

theorem steal_other (a : Acc) (t : Typed a) (p w : Nat) (it : Item)
    (hw : a.item w = some it) (hb : it.barrier = false) (hp : it.pwq ≠ p) :
    AtP a (a.steal w it) p := by
  have hwL : w ∉ a.inactive p := by
    intro hm
    exact hp (t.lists p w hm it hw)
  have hna : ¬ a.active_item p w := by
    rintro ⟨it2, e1, e2, _⟩
    rw [hw] at e1
    rw [← Option.some.inj e1] at e2
    exact hp e2
  have key : ∀ b : Acc, b.max_active = a.max_active → b.inactive p = a.inactive p →
      b.run = a.run → b.nr_active p = a.nr_active p → b.item = Function.update a.item w none →
      ListsTyped b → AtP a (((b.settle it.pwq).add_nif it.pwq it.color (-1)).tip it.pwq
        it.color) p := by
    intro b h1 h2 h3 h4 h5 h6
    have hab : AtP a b p := by
      apply AtP_of
      · rw [h1]
      · exact h4
      · exact h2
      · intro y
        rw [h5]
        by_cases hy : y = w
        · subst hy
          right
          refine ⟨hwL, ?_, hna⟩
          rintro ⟨it2, e1, _⟩
          rw [h5, Function.update_same] at e1
          exact absurd e1 (by simp)
        · left
          rw [Function.update_noteq hy]
      · intro k
        left
        rw [h3]
    exact (hab.trans (settle_other b p it.pwq hp h6)).trans (nif_tip_atp _ p _ _ _)
  unfold Acc.steal Acc.dec
  rw [if_neg (by simp)]
  by_cases hia : it.inact = true
  · simp only [if_pos hia]
    apply key
    · rfl
    · show Function.update a.inactive it.pwq _ p = _
      rw [Function.update_noteq (Ne.symm hp)]
    · rfl
    · show Function.update (Function.update a.nr_active it.pwq _) it.pwq _ p = _
      rw [Function.update_noteq (Ne.symm hp), Function.update_noteq (Ne.symm hp)]
    · show Function.update (Function.update a.item w _) w none = _
      rw [Function.update_idem]
    · intro p3 y hy it3 hit
      have hit : Function.update (Function.update a.item w _) w none y = some it3 := hit
      rw [Function.update_idem] at hit
      have hy : y ∈ Function.update a.inactive it.pwq _ p3 := hy
      have hyw : y ≠ w := by
        intro e
        rw [e, Function.update_same] at hit
        exact absurd hit (by simp)
      rw [Function.update_noteq hyw] at hit
      by_cases h3 : p3 = it.pwq
      · subst h3
        rw [Function.update_same] at hy
        have hL := list_before_from w (a.inactive it.pwq)
        apply t.lists it.pwq y _ it3 hit
        rw [← hL]
        rcases List.mem_append.1 hy with h | h
        · exact List.mem_append_left _ h
        · exact List.mem_append_right _
            ((List.drop_sublist 1 _).subset ((List.dropWhile_sublist _).subset h))
      · rw [Function.update_noteq h3] at hy
        exact t.lists p3 y hy it3 hit
  · simp only [if_neg hia]
    apply key
    · rfl
    · rfl
    · rfl
    · show Function.update a.nr_active it.pwq _ p = _
      rw [Function.update_noteq (Ne.symm hp)]
    · rfl
    · intro p3 y hy it3 hit
      have hit : Function.update a.item w none y = some it3 := hit
      have hyw : y ≠ w := by
        intro e
        rw [e, Function.update_same] at hit
        exact absurd hit (by simp)
      rw [Function.update_noteq hyw] at hit
      exact t.lists p3 y hy it3 hit

/-- When the active queued item of `p` is stolen, the first inactive item is activated and
becomes the head of the order. -/
theorem steal_front (a : Acc) (t : Typed a) (p w : Nat) (it : Item) (q : List Nat)
    (f r : Option Nat) (hi : FInv a p q f r) (hw : a.item w = some it)
    (h1 : it.pwq = p) (h2 : it.inact = false) :
    q = w :: a.fifo p ∧ ∃ f2, FInv (a.steal w it) p (a.fifo p) f2 none := by
  have hf : f = some w := (hi.front_iff w).1 ⟨it, hw, h1, h2⟩
  obtain ⟨hr, hnr⟩ := hi.front_alone w hf
  subst hf
  subst hr
  subst h1
  refine ⟨hi.order, ?_⟩
  have hwL : w ∉ a.inactive it.pwq := by
    intro hm
    obtain ⟨it2, e1, _, e3⟩ := t.on_inactive it.pwq w hm
    rw [hw] at e1
    rw [← Option.some.inj e1, h2] at e3
    exact absurd e3 (by simp)
  unfold Acc.steal Acc.dec
  rw [if_neg (by simp)]
  simp only [if_neg (show ¬ it.inact = true by simp [h2])]
  obtain ⟨f2, hv⟩ := settle_vacant { a with
      item := Function.update a.item w none
      nr_active := Function.update a.nr_active it.pwq (a.nr_active it.pwq - 1) } it.pwq hi.max
    (by
      show Function.update a.nr_active it.pwq _ it.pwq = 0
      rw [Function.update_same, hnr]
      rfl)
    (by
      rintro y ⟨it2, e1, e2, e3⟩
      have e1 : Function.update a.item w none y = some it2 := e1
      by_cases hy : y = w
      · rw [hy, Function.update_same] at e1
        exact absurd e1 (by simp)
      · rw [Function.update_noteq hy] at e1
        have := (hi.front_iff y).1 ⟨it2, e1, e2, e3⟩
        exact hy (Option.some.inj this).symm)
    (by
      intro j hj
      exact absurd ((hi.runner_iff j).1 hj) (by simp))
    (by
      intro x l hL
      have hx : x ∈ a.inactive it.pwq := by
        rw [show a.inactive it.pwq = x :: l from hL]
        exact List.mem_cons_self _ _
      obtain ⟨it2, e1, e2, _⟩ := t.on_inactive it.pwq x hx
      have hxw : x ≠ w := fun e => hwL (e ▸ hx)
      refine ⟨it2, ?_, e2, ?_⟩
      · show Function.update a.item w none x = _
        rw [Function.update_noteq hxw]
        exact e1
      · rw [← is_barrier_of_item a x it2 e1]
        exact t.head it.pwq x l hL)
  refine ⟨f2, ?_⟩
  have hfi : Acc.fifo { a with
      item := Function.update a.item w none
      nr_active := Function.update a.nr_active it.pwq (a.nr_active it.pwq - 1) } it.pwq =
      a.fifo it.pwq := by
    apply fifo_congr
    · rfl
    · intro y hy
      have hyw : y ≠ w := fun e => hwL (e ▸ hy)
      show Function.update a.item w none y = _
      rw [Function.update_noteq hyw]
  rw [hfi] at hv
  exact FInv_keep _ _ _ _ _ _ (nif_tip_atp _ _ _ _ _) hv

/-- When an inactive item of `p` is stolen, it leaves the order and nothing else changes. -/
theorem steal_inactive (a : Acc) (t : Typed a) (p w : Nat) (it : Item) (q : List Nat)
    (f r : Option Nat) (hi : FInv a p q f r) (hw : a.item w = some it)
    (hb : it.barrier = false) (h1 : it.pwq = p) (h2 : it.inact = true) :
    ∃ X Y, a.fifo p = X ++ w :: Y ∧ FInv (a.steal w it) p (f.toList ++ (X ++ Y)) f r := by
  subst h1
  have hwL : w ∈ a.inactive it.pwq := t.inactive_on w it hw h2 hb
  have hnr : a.nr_active it.pwq = 1 := hi.backlog (List.ne_nil_of_mem hwL)
  have hL := list_before_from w (a.inactive it.pwq)
  rw [list_from_of_mem w _ hwL] at hL
  generalize hpre : list_before w (a.inactive it.pwq) = pre at hL
  generalize hrest : (list_from w (a.inactive it.pwq)).drop 1 = rest at hL
  have hnd := t.nodup it.pwq
  rw [← hL] at hnd
  have hw1 : w ∉ pre := by
    intro h
    have := List.disjoint_of_nodup_append hnd h
    exact this (List.mem_cons_self _ _)
  have hw2 : w ∉ rest := by
    have := (List.nodup_append.1 hnd).2.1
    exact (List.nodup_cons.1 this).1
  have hwb : a.is_barrier w = false := by
    rw [is_barrier_of_item a w it hw, hb]
  refine ⟨pre.filter (fun y => !a.is_barrier y), rest.filter (fun y => !a.is_barrier y), ?_, ?_⟩
  · unfold Acc.fifo
    rw [← hL, List.filter_append, List.filter_cons_of_pos (by simp [hwb])]
  unfold Acc.steal Acc.dec
  rw [if_neg (by simp)]
  simp only [if_pos h2]
  have hb1 : ∀ b : Acc, b.max_active = a.max_active → b.inactive it.pwq =
      pre ++ rest.dropWhile a.is_barrier → b.run = a.run → b.nr_active it.pwq = 1 →
      b.item = Function.update a.item w none →
      FInv (((b.settle it.pwq).add_nif it.pwq it.color (-1)).tip it.pwq it.color) it.pwq
        (f.toList ++ (pre.filter (fun y => !a.is_barrier y) ++
          rest.filter (fun y => !a.is_barrier y))) f r := by
    intro b e1 e2 e3 e4 e5
    have hs : b.settle it.pwq = b := by
      apply settle_full
      rw [e1, hi.max, e4]
    rw [hs]
    apply FInv_keep b _ _ _ _ _ (nif_tip_atp _ _ _ _ _)
    have hbar : ∀ y, y ≠ w → b.is_barrier y = a.is_barrier y := by
      intro y hy
      unfold Acc.is_barrier
      rw [e5, Function.update_noteq hy]
    refine ⟨by rw [e1]; exact hi.max, ?_, ?_, by rw [e4, ← hnr]; exact hi.count,
      by rw [e4], fun _ => e4, ?_⟩
    · intro y
      rw [← hi.front_iff y]
      by_cases hy : y = w
      · subst hy
        constructor
        · rintro ⟨it2, c1, _⟩
          rw [e5, Function.update_same] at c1
          exact absurd c1 (by simp)
        · rintro ⟨it2, c1, _, c3⟩
          rw [hw] at c1
          rw [← Option.some.inj c1, h2] at c3
          exact absurd c3 (by simp)
      · unfold Acc.active_item
        rw [e5, Function.update_noteq hy]
    · intro k
      rw [← hi.runner_iff k]
      unfold Acc.active_run
      rw [e3]
    · congr 1
      unfold Acc.fifo
      rw [e2, List.filter_append]
      congr 1
      · apply List.filter_congr
        intro y hy
        rw [hbar y (fun e => hw1 (e ▸ hy))]
      · have : List.filter (fun x => !b.is_barrier x) (rest.dropWhile a.is_barrier) =
            List.filter (fun x => !a.is_barrier x) (rest.dropWhile a.is_barrier) := by
          apply List.filter_congr
          intro y hy
          have hy2 : y ∈ rest := (List.dropWhile_sublist _).subset hy
          rw [hbar y (fun e => hw2 (e ▸ hy2))]
        rw [this, filter_dropWhile_not]
  apply hb1
  · rfl
  · show Function.update a.inactive it.pwq _ it.pwq = _
    rw [Function.update_same, hpre, hrest]
  · rfl
  · show Function.update (Function.update a.nr_active it.pwq _) it.pwq _ it.pwq = 1
    rw [Function.update_same]
    show Function.update a.nr_active it.pwq _ it.pwq - 1 = 1
    rw [Function.update_same, hnr]
    rfl
  · show Function.update (Function.update a.item w _) w none = _
    rw [Function.update_idem]

/-! ## Every step of the ledger keeps the order on a pool_workqueue -/

theorem sublist_filter_mem (q R : List Nat) (hs : R.Sublist q) (hq : q.Nodup) :
    q.filter (fun y => decide (y ∈ R)) = R := by
  induction hs with
  | slnil => rfl
  | cons x h ih =>
    rename_i l1 l2
    have hx : x ∉ l2 := (List.nodup_cons.1 hq).1
    rw [List.filter_cons_of_neg (by simpa using fun h2 => hx (h.subset h2))]
    exact ih (List.nodup_cons.1 hq).2
  | cons₂ x h ih =>
    rename_i l1 l2
    have hx : x ∉ l2 := (List.nodup_cons.1 hq).1
    rw [List.filter_cons_of_pos (by simp)]
    have e : l2.filter (fun y => decide (y ∈ x :: l1)) =
        l2.filter (fun y => decide (y ∈ l1)) := by
      apply List.filter_congr
      intro y hy
      have hyx : y ≠ x := fun e => hx (e ▸ hy)
      simp [hyx]
    rw [e, ih (List.nodup_cons.1 hq).2]

theorem fifo_head (a : Acc) (t : Typed a) (p x : Nat) (l : List Nat)
    (h : a.fifo p = x :: l) : (a.inactive p).head? = some x := by
  unfold Acc.fifo at h
  cases hl : a.inactive p with
  | nil => rw [hl] at h; simp at h
  | cons x0 l0 =>
    rw [hl, List.filter_cons_of_pos (by simp [t.head p x0 l0 hl])] at h
    rw [List.head?_cons, (List.cons.inj h).1]

theorem inactive_not_active (a : Acc) (t : Typed a) (p x : Nat) (h : x ∈ a.inactive p) :
    ¬ a.active_item p x := by
  rintro ⟨it, e1, _, e3⟩
  obtain ⟨it2, c1, _, c3⟩ := t.on_inactive p x h
  rw [e1] at c1
  rw [Option.some.inj c1, c3] at e3
  exact absurd e3 (by simp)

theorem enqueue_item_ne (a : Acc) (x p y : Nat) (h : y ≠ x) :
    (a.enqueue x p).item y = a.item y := by
  unfold Acc.enqueue
  split_ifs
  · show Function.update a.item x _ y = _
    rw [Function.update_noteq h]
  · show Function.update a.item x _ y = _
    rw [Function.update_noteq h]

/-- An order that is a sublist of the order before: no item was queued for `p`, and the new
order is what is left of the old one. -/
theorem order_sub (a a2 : Acc) (t : Typed a) (t2 : Typed a2) (p : Nat) (q R : List Nat)
    (f r f2 r2 : Option Nat) (hi : FInv a p q f r) (hi2 : FInv a2 p R f2 r2)
    (hs : R.Sublist q) :
    (∀ x, a2.waits p x = true → a.waits p x = true) ∧ q.filter (a2.waits p) = R := by
  constructor
  · intro x hx
    exact hi.mem_waits t x (hs.subset (hi2.waits_mem t2 x hx))
  · rw [← sublist_filter_mem q R hs (hi.nodup t)]
    apply List.filter_congr
    intro y _
    by_cases hy : y ∈ R
    · rw [hi2.mem_waits t2 y hy, decide_eq_true hy]
    · rw [decide_eq_false hy]
      cases hw : a2.waits p y with
      | false => rfl
      | true => exact absurd (hi2.waits_mem t2 y hw) hy

/-- An order that is the order before with `x` appended: `x` was queued for `p`, and
nothing else changed. -/
theorem order_app (a a2 : Acc) (t : Typed a) (t2 : Typed a2) (p x : Nat) (q : List Nat)
    (f r f2 r2 : Option Nat) (hi : FInv a p q f r) (hi2 : FInv a2 p (q ++ [x]) f2 r2)
    (hx : a.item x = none) :
    a.waits p x = false ∧ a2.waits p x = true ∧
    ∀ y, a2.waits p y = true → a.waits p y = false → y = x := by
  refine ⟨?_, hi2.mem_waits t2 x (by simp), ?_⟩
  · unfold Acc.waits
    rw [hx]
  · intro y hy hn
    have := hi2.waits_mem t2 y hy
    rcases List.mem_append.1 this with h | h
    · rw [hi.mem_waits t y h] at hn
      exact absurd hn (by simp)
    · simpa using h

/-- A step of the ledger that keeps `max_active` of `p` at 1 keeps the invariant of the
order: the new order is a sublist of the old one or the old one with one newly queued item
appended.  When the step activates an item of `inactive_works` of `p`, the item is the first of
the list, and the holder of the `nr_active` slot has left: no item of `p` that was active is
still queued, and no worker executes an active item of `p`. -/
theorem order_step (a a2 : Acc) (h : AStep a a2) (t : Typed a) (t2 : Typed a2) (p : Nat)
    (q : List Nat) (f r : Option Nat) (hi : FInv a p q f r) (hmax : a2.max_active p = 1) :
    ∃ R f2 r2, FInv a2 p R f2 r2 ∧
      (R.Sublist q ∨ ∃ x, a.item x = none ∧ R = q ++ [x]) ∧
      ∀ x, x ∈ a.inactive p → a2.active_item p x →
        (a.inactive p).head? = some x ∧
        ((∃ y, a.active_item p y) ∨ ∃ k, a.active_run p k) ∧
        (∀ y, a.active_item p y → a2.waits p y = false) ∧ ∀ k, ¬ a2.active_run p k := by
  have atp : ∀ b, AtP a b p → ∃ R f2 r2, FInv b p R f2 r2 ∧
      (R.Sublist q ∨ ∃ x, a.item x = none ∧ R = q ++ [x]) ∧
      ∀ x, x ∈ a.inactive p → b.active_item p x →
        (a.inactive p).head? = some x ∧
        ((∃ y, a.active_item p y) ∨ ∃ k, a.active_run p k) ∧
        (∀ y, a.active_item p y → b.waits p y = false) ∧ ∀ k, ¬ b.active_run p k := by
    intro b hb
    refine ⟨q, f, r, FInv_keep _ _ _ _ _ _ hb hi, Or.inl (List.Sublist.refl _), ?_⟩
    intro x hx hx2
    exact absurd ((hb.item x).1 hx2) (inactive_not_active a t p x hx)
  have holder : a.inactive p ≠ [] → (∃ y, a.active_item p y) ∨ ∃ k, a.active_run p k := by
    intro hne
    have h1 := hi.backlog hne
    cases hf : f with
    | some y => exact Or.inl ⟨y, (hi.front_iff y).2 hf⟩
    | none =>
      cases hr : r with
      | some k => exact Or.inr ⟨k, (hi.runner_iff k).2 hr⟩
      | none =>
        have := hi.count
        rw [h1, hf, hr] at this
        simp at this
  cases h with
  | quiet => exact atp _ (AtP.refl a p)
  | env v =>
    apply atp
    exact AtP_of _ _ _ rfl rfl rfl (fun _ => Or.inl rfl) (fun _ => Or.inl rfl)
  | color m v hm =>
    apply atp
    exact AtP_of _ _ _ rfl rfl rfl (fun _ => Or.inl rfl) (fun _ => Or.inl rfl)
  | queue x p2 hx0 hx =>
    by_cases hp : p2 = p
    · subst hp
      obtain ⟨f2, h2⟩ := enqueue_same a t p2 x q f r hi hx
      refine ⟨q ++ [x], f2, r, h2, Or.inr ⟨x, hx, rfl⟩, ?_⟩
      intro y hy hy2
      have hyx : y ≠ x := by
        intro e
        rw [e] at hy
        exact not_mem_inactive_of_none a t x hx p2 hy
      exfalso
      apply inactive_not_active a t p2 y hy
      obtain ⟨it, e1, e2, e3⟩ := hy2
      rw [enqueue_item_ne a x p2 y hyx] at e1
      exact ⟨it, e1, e2, e3⟩
    · exact atp _ (enqueue_other a t p p2 x hp hx)
  | barrier_after b tg it hb0 hb ht => exact atp _ (add_barrier_atp a t p b tg _ _ hb)
  | barrier_front b k r0 hb0 hb hk => exact atp _ (add_barrier_front_atp a t p b _ _ hb)
  | start k w it hk0 hk hw hL =>
    by_cases hc : it.pwq = p ∧ it.inact = false
    · obtain ⟨e, h2⟩ := start_same a p k w it q f r hi hk hw hL hc.1 hc.2
      refine ⟨a.fifo p, none, some k, h2, Or.inl ?_, ?_⟩
      · rw [e]
        exact List.sublist_cons_self _ _
      · intro x _ hx2
        exact absurd ((h2.front_iff x).1 hx2) (by simp)
    · exact atp _ (start_other a p k w it hk hw hL hc)
  | finish k r0 hk =>
    by_cases hc : r0.pwq = p ∧ r0.inact = false
    · obtain ⟨f2, h2⟩ := finish_same a t p k r0 q f r hi hk hc.1 hc.2
      have hr : r = some k := (hi.runner_iff k).1 ⟨r0, hk, hc.1, hc.2⟩
      obtain ⟨hf, _⟩ := hi.runner_alone k hr
      refine ⟨q, f2, none, h2, Or.inl (List.Sublist.refl _), ?_⟩
      intro x hx hx2
      have e2 := (h2.front_iff x).1 hx2
      have o1 := hi.order
      have o2 := h2.order
      rw [hf] at o1
      rw [e2, o1] at o2
      refine ⟨fifo_head a t p x _ o2, holder (List.ne_nil_of_mem hx), ?_, ?_⟩
      · intro y hy
        have := (hi.front_iff y).1 hy
        rw [hf] at this
        exact absurd this (by simp)
      · intro j hj
        exact absurd ((h2.runner_iff j).1 hj) (by simp)
    · exact atp _ (finish_other a t p k r0 hk hc)
  | steal w it hw hb =>
    by_cases hp : it.pwq = p
    · by_cases hia : it.inact = true
      · obtain ⟨X, Y, e, h2⟩ := steal_inactive a t p w it q f r hi hw hb hp hia
        refine ⟨_, f, r, h2, Or.inl ?_, ?_⟩
        · rw [hi.order, e]
          exact List.Sublist.append (List.Sublist.refl _)
            (List.Sublist.append (List.Sublist.refl _) (List.sublist_cons_self _ _))
        · intro x hx hx2
          exact absurd ((hi.front_iff x).2 ((h2.front_iff x).1 hx2))
            (inactive_not_active a t p x hx)
      · have hia : it.inact = false := by simpa using hia
        obtain ⟨e, f2, h2⟩ := steal_front a t p w it q f r hi hw hp hia
        refine ⟨a.fifo p, f2, none, h2, Or.inl ?_, ?_⟩
        · rw [e]
          exact List.sublist_cons_self _ _
        · intro x hx hx2
          have e2 := (h2.front_iff x).1 hx2
          have o2 := h2.order
          rw [e2] at o2
          refine ⟨fifo_head a t p x _ o2, holder (List.ne_nil_of_mem hx), ?_, ?_⟩
          · intro y hy
            have hyf := (hi.front_iff y).1 hy
            have hwf := (hi.front_iff w).1 ⟨it, hw, hp, hia⟩
            rw [hwf] at hyf
            have hyw : y = w := (Option.some.inj hyf).symm
            subst hyw
            cases hwt : (a.steal y it).waits p y with
            | false => rfl
            | true =>
              have hm := h2.waits_mem t2 y hwt
              have hn := hi.nodup t
              rw [e] at hn
              exact absurd hm (List.nodup_cons.1 hn).1
          · intro j hj
            exact absurd ((h2.runner_iff j).1 hj) (by simp)
    · exact atp _ (steal_other a t p w it hw hb hp)
  | adjust p2 m n => exact atp _ (adjust_atp a t p q f r hi p2 m n hmax)

/-! ## The order on a pool_workqueue in the states of a run -/

theorem get_work_pwq_linked (s : State) (hi : InvC (core s)) (x : Nat)
    (h : s.work_entry x ≠ none) : get_work_pwq s x = work_struct_pwq (s.work_data x) := by
  have h1 : (core s).has_pwq x = true := (hi.l.has_pwq x).2 h
  have h2 : s.work_data x &&& WORK_STRUCT_PWQ ≠ 0 := of_decide_eq_true h1
  unfold get_work_pwq work_data_bits
  rw [if_pos h2]

theorem waiting_acc (s : State) (hi : InvC (core s)) (p x : Nat) :
    waiting s p x = (acc s).waits p x := by
  unfold waiting Acc.waits
  by_cases he : s.work_entry x = none
  · rw [item_of_unlinked s x he]
    simp [he]
  · rw [item_of_linked s x he, get_work_pwq_linked s hi x he]
    simp [he]

theorem active_queued_acc (s : State) (hi : InvC (core s)) (p x : Nat) :
    active_queued s p x ↔ (acc s).active_item p x := by
  unfold active_queued Acc.active_item
  by_cases he : s.work_entry x = none
  · rw [item_of_unlinked s x he]
    simp [he]
  · rw [item_of_linked s x he, get_work_pwq_linked s hi x he]
    simp [he]

theorem active_running_acc (s : State) (p k : Nat) :
    active_running s p k ↔ (acc s).active_run p k := by
  unfold active_running Acc.active_run
  by_cases he : s.worker_current_work k = 0
  · rw [run_of_idle s k he]
    simp [he]
  · rw [run_of_executing s k he]
    simp [he]

theorem fifo_acc (s : State) (hi : InvC (core s)) (p : Nat) :
    (acc s).fifo p = (s.lists (list_head.inactive_works p)).filter
      (fun x => decide (s.work_func x ≠ wq_barrier_func)) := by
  unfold Acc.fifo
  rw [acc_inactive]
  apply List.filter_congr
  intro y hy
  have he : s.work_entry y ≠ none := by
    have e : s.work_entry y = some (list_head.inactive_works p) := (hi.l.mem_entry _ y).1 hy
    rw [e]
    simp
  rw [is_barrier_linked s y he]
  simp

theorem FInv_init (s : State) (h : Init s) (p : Nat) (hm : s.pwq_max_active p = 1) :
    FInv (acc s) p [] none none := by
  obtain ⟨h1, h2, _, _, h5, _, h7, _, _⟩ := h
  have e0 : (acc s).nr_active p = 0 := h5 p
  have e1 : (acc s).inactive p = [] := h1 _
  refine ⟨hm, ?_, ?_, ?_, ?_, ?_, ?_⟩
  · intro y
    constructor
    · rintro ⟨it, c1, _⟩
      rw [item_of_unlinked s y (h2 y)] at c1
      exact absurd c1 (by simp)
    · intro c
      exact absurd c (by simp)
  · intro k
    constructor
    · rintro ⟨r, c1, _⟩
      rw [run_of_idle s k (h7 k)] at c1
      exact absurd c1 (by simp)
    · intro c
      exact absurd c (by simp)
  · rw [e0]
    rfl
  · rw [e0]
    decide
  · intro c
    exact absurd e1 c
  · unfold Acc.fifo
    rw [e1]
    rfl

/-- A step of the system that keeps `max_active` of `p` at 1 keeps the invariant of the
order; either no work item is newly queued for `p` and the new order is what is left of the
old one, or one work item is newly queued and is appended. -/
theorem order_step_state (s s2 : State) (p : Nat) (q : List Nat) (f r : Option Nat)
    (hr : Reachable s) (hi : FInv (acc s) p q f r) (hs : Step s s2)
    (hm : s2.pwq_max_active p = 1) :
    ∃ R f2 r2, FInv (acc s2) p R f2 r2 ∧
      (((∀ x, waiting s2 p x = true → waiting s p x = true) ∧
          q.filter (waiting s2 p) = R) ∨
        ∃ x, waiting s p x = false ∧ waiting s2 p x = true ∧ R = q ++ [x]) := by
  have i1 := reachable_inv s hr
  have i2 := reachable_inv s2 (hr.step hs)
  have t1 := typed_of_inv s i1
  have t2 := typed_of_inv s2 i2
  obtain ⟨R, f2, r2, h2, hd, _⟩ :=
    order_step (acc s) (acc s2) (step_acc s s2 i1 hs) t1 t2 p q f r hi hm
  have w1 : waiting s p = (acc s).waits p := funext (waiting_acc s i1 p)
  have w2 : waiting s2 p = (acc s2).waits p := funext (waiting_acc s2 i2 p)
  refine ⟨R, f2, r2, h2, ?_⟩
  rw [w1, w2]
  rcases hd with hsub | ⟨x, hx, e⟩
  · exact Or.inl (order_sub _ _ t1 t2 p q R f r f2 r2 hi h2 hsub)
  · subst e
    obtain ⟨c1, c2, _⟩ := order_app _ _ t1 t2 p x q f r f2 r2 hi h2 hx
    exact Or.inr ⟨x, c1, c2, rfl⟩

theorem fifo_run_inv (p : Nat) (s : State) (q : List Nat) (h : FifoRun p s q) :
    Reachable s ∧ ∃ f r, FInv (acc s) p q f r := by
  induction h with
  | init s h0 hm => exact ⟨⟨s, h0, Relation.ReflTransGen.refl⟩, none, none, FInv_init s h0 p hm⟩
  | enqueue s s2 q work _ hs hm hw1 hw2 ih =>
    obtain ⟨hr, f, r, hi⟩ := ih
    refine ⟨hr.step hs, ?_⟩
    obtain ⟨R, f2, r2, h2, hd⟩ := order_step_state s s2 p q f r hr hi hs hm
    rcases hd with ⟨hmono, _⟩ | ⟨x, c1, c2, e⟩
    · rw [hmono work hw2] at hw1
      exact absurd hw1 (by simp)
    · have i1 := reachable_inv s hr
      have i2 := reachable_inv s2 (hr.step hs)
      have hm2 : work ∈ R := by
        apply h2.waits_mem (typed_of_inv s2 i2)
        rw [← waiting_acc s2 i2]
        exact hw2
      rw [e] at hm2
      rcases List.mem_append.1 hm2 with hq | hq
      · have := hi.mem_waits (typed_of_inv s i1) work hq
        rw [← waiting_acc s i1, hw1] at this
        exact absurd this (by simp)
      · have hx : work = x := by simpa using hq
        rw [hx]
        rw [e] at h2
        exact ⟨f2, r2, h2⟩
  | other s s2 q _ hs hm hmono ih =>
    obtain ⟨hr, f, r, hi⟩ := ih
    refine ⟨hr.step hs, ?_⟩
    obtain ⟨R, f2, r2, h2, hd⟩ := order_step_state s s2 p q f r hr hi hs hm
    rcases hd with ⟨_, e⟩ | ⟨x, c1, c2, _⟩
    · rw [e]
      exact ⟨f2, r2, h2⟩
    · rw [hmono x c2] at c1
      exact absurd c1 (by simp)

/-- Every step that keeps `max_active` of `p` at 1 continues a run. -/
theorem fifo_run_step (p : Nat) (s : State) (q : List Nat) (h : FifoRun p s q) (s2 : State)
    (hs : Step s s2) (hm : s2.pwq_max_active p = 1) :
    ((∀ x, waiting s2 p x = true → waiting s p x = true) ∧
        FifoRun p s2 (q.filter (waiting s2 p))) ∨
      ∃ x, waiting s p x = false ∧ waiting s2 p x = true ∧ FifoRun p s2 (q ++ [x]) := by
  obtain ⟨hr, f, r, hi⟩ := fifo_run_inv p s q h
  obtain ⟨R, f2, r2, _, hd⟩ := order_step_state s s2 p q f r hr hi hs hm
  rcases hd with ⟨hmono, _⟩ | ⟨x, c1, c2, _⟩
  · exact Or.inl ⟨hmono, FifoRun.other s s2 q h hs hm hmono⟩
  · exact Or.inr ⟨x, c1, c2, FifoRun.enqueue s s2 q x h hs hm c1 c2⟩

/-! ## The claim on the order of execution with `max_active` 1 -/

/-- Where `__queue_work_retry` links the work item: at the tail of the worklist of the pool
when `nr_active` is below `max_active`, else at the tail of `inactive_works`. -/
theorem __queue_work_retry_tail (fuel : Nat) (s : State) (t : task_ctx) (cpu wq work : Nat)
    (s2 : State) (hi : InvC (core s)) (hent : s.work_entry work = none)
    (h : __queue_work_retry fuel s t cpu wq work = some s2) :
    ∃ pwq, get_work_pwq s2 work = pwq ∧
      ((s.pwq_nr_active pwq < s.pwq_max_active pwq ∧
          s2.lists (list_head.worklist (s.pwq_pool pwq)) =
            s.lists (list_head.worklist (s.pwq_pool pwq)) ++ [work] ∧
          s2.lists (list_head.inactive_works pwq) = s.lists (list_head.inactive_works pwq)) ∨
        (¬ s.pwq_nr_active pwq < s.pwq_max_active pwq ∧
          s2.lists (list_head.inactive_works pwq) =
            s.lists (list_head.inactive_works pwq) ++ [work] ∧
          s2.lists (list_head.worklist (s.pwq_pool pwq)) =
            s.lists (list_head.worklist (s.pwq_pool pwq)))) := by
  induction fuel generalizing s with
  | zero => simp [__queue_work_retry] at h
  | succ n ih =>
    have hc : core (__queue_work_cpu s t cpu wq).2 = core s := core___queue_work_cpu s t cpu wq
    have hi1 : InvC (core (__queue_work_cpu s t cpu wq).2) := by rw [hc]; exact hi
    have e1 : (__queue_work_cpu s t cpu wq).2.work_entry = s.work_entry :=
      __queue_work_cpu_frame s t cpu wq .work_entry (by decide)
    have e2 : (__queue_work_cpu s t cpu wq).2.lists = s.lists :=
      __queue_work_cpu_frame s t cpu wq .lists (by decide)
    have e3 : (__queue_work_cpu s t cpu wq).2.pwq_nr_active = s.pwq_nr_active :=
      __queue_work_cpu_frame s t cpu wq .pwq_nr_active (by decide)
    have e4 : (__queue_work_cpu s t cpu wq).2.pwq_max_active = s.pwq_max_active :=
      __queue_work_cpu_frame s t cpu wq .pwq_max_active (by decide)
    have e5 : (__queue_work_cpu s t cpu wq).2.pwq_pool = s.pwq_pool :=
      __queue_work_cpu_frame s t cpu wq .pwq_pool (by decide)
    unfold __queue_work_retry at h
    split_ifs at h with hcond
    · obtain ⟨pwq, c1, c2⟩ := ih _ hi1 (by rw [e1]; exact hent) h
      rw [e2, e3, e4, e5] at c2
      exact ⟨pwq, c1, c2⟩
    · have hs2 := Option.some.inj h
      have hal := __queue_work_pwq_aligned _ hi1 (__queue_work_cpu s t cpu wq).1 wq work
      have hcol := hi.e.color_ok (__queue_work_target s t cpu wq work)
      obtain ⟨_, _, _, v4, _, v6, v7⟩ := __queue_work_insert_views s
        (__queue_work_cpu s t cpu wq).2 (__queue_work_target s t cpu wq work) work
        (fun g hg _ => __queue_work_cpu_frame s t cpu wq g hg) hent hal.1 hal.2 hcol.1 hcol.2
      rw [hs2] at v4 v6 v7
      refine ⟨_, v4, ?_⟩
      by_cases hlt : s.pwq_nr_active (__queue_work_target s t cpu wq work) <
          s.pwq_max_active (__queue_work_target s t cpu wq work)
      · obtain ⟨a1, _, _, _, a5⟩ := v6 hlt
        exact Or.inl ⟨hlt, a1, a5⟩
      · obtain ⟨a1, _, _, _, a5⟩ := v7 hlt
        exact Or.inr ⟨hlt, a1, a5⟩

/-- When a step that keeps `max_active` of `p` at 1 activates an item of `inactive_works`
of `p`, the item is the first of the list and the holder of the `nr_active` slot has left. -/
theorem promotion_state (s s2 : State) (p : Nat) (q : List Nat) (f r : Option Nat)
    (hr : Reachable s) (hi : FInv (acc s) p q f r) (hs : Step s s2)
    (hm : s2.pwq_max_active p = 1) (x : Nat)
    (hx : x ∈ s.lists (list_head.inactive_works p)) (hx2 : active_queued s2 p x) :
    (s.lists (list_head.inactive_works p)).head? = some x ∧
    ((∃ y, active_queued s p y) ∨ ∃ k, active_running s p k) ∧
    (∀ y, active_queued s p y → waiting s2 p y = false) ∧ ∀ k, ¬ active_running s2 p k := by
  have i1 := reachable_inv s hr
  have i2 := reachable_inv s2 (hr.step hs)
  obtain ⟨_, _, _, _, _, hp⟩ := order_step (acc s) (acc s2) (step_acc s s2 i1 hs)
    (typed_of_inv s i1) (typed_of_inv s2 i2) p q f r hi hm
  obtain ⟨c1, c2, c3, c4⟩ := hp x hx ((active_queued_acc s2 i2 p x).1 hx2)
  refine ⟨c1, ?_, ?_, ?_⟩
  · rcases c2 with ⟨y, hy⟩ | ⟨k, hk⟩
    · exact Or.inl ⟨y, (active_queued_acc s i1 p y).2 hy⟩
    · exact Or.inr ⟨k, (active_running_acc s p k).2 hk⟩
  · intro y hy
    rw [waiting_acc s2 i2]
    exact c3 y ((active_queued_acc s i1 p y).1 hy)
  · intro k hk
    exact c4 k ((active_running_acc s2 p k).1 hk)

/-- The work item that a worker starts is the head of the order. -/
theorem start_state (s : State) (p : Nat) (q : List Nat) (h : FifoRun p s q) (k w : Nat)
    (hk0 : k ≠ 0) (hk : s.worker_current_work k = 0)
    (hh : (s.lists (list_head.scheduled k)).head? = some w) (hw : waiting s p w = true) :
    q.head? = some w ∧ FifoRun p (process_one_work_begin s k w) q.tail := by
  obtain ⟨hr, f, r, hi⟩ := fifo_run_inv p s q h
  have i1 := reachable_inv s hr
  have hs : Step s (process_one_work_begin s k w) := Step.start s k w hk0 hk hh
  have i2 := reachable_inv _ (hr.step hs)
  have hmem : w ∈ s.lists (list_head.scheduled k) := List.mem_of_mem_head? hh
  have he : s.work_entry w = some (list_head.scheduled k) := (i1.l.mem_entry _ w).1 hmem
  have hne : s.work_entry w ≠ none := by rw [he]; simp
  obtain ⟨_, hpwq, hnb⟩ := of_decide_eq_true hw
  have hin : decide (s.work_data w &&& WORK_STRUCT_INACTIVE ≠ 0) = false :=
    (i1.l.typ_scheduled k w he).2 hnb
  rw [get_work_pwq_linked s i1 w hne] at hpwq
  have hL : ∀ p2, w ∉ (acc s).inactive p2 := by
    intro p2 hc
    have : s.work_entry w = some (list_head.inactive_works p2) := (i1.l.mem_entry _ w).1 hc
    rw [he] at this
    exact absurd this (by simp)
  obtain ⟨e, h2⟩ := start_same (acc s) p k w _ q f r hi (run_of_idle s k hk)
    (item_of_linked s w hne) hL hpwq hin
  rw [← acc_start s k w i1 hh] at h2
  have hm : (process_one_work_begin s k w).pwq_max_active p = 1 := h2.max
  obtain ⟨hmono, hf⟩ := order_sub _ _ (typed_of_inv s i1) (typed_of_inv _ i2) p q _ f r _ _
    hi h2 (by rw [e]; exact List.sublist_cons_self _ _)
  have w1 : waiting s p = (acc s).waits p := funext (waiting_acc s i1 p)
  have w2 : waiting (process_one_work_begin s k w) p =
      (acc (process_one_work_begin s k w)).waits p := funext (waiting_acc _ i2 p)
  rw [← w1, ← w2] at hmono
  rw [← w2] at hf
  have hrun := FifoRun.other s _ q h hs hm hmono
  rw [hf] at hrun
  rw [e]
  exact ⟨rfl, hrun⟩

/-- The first statement of the loop body of `worker_thread` is the step `assign` on the
first work item of the worklist. -/
theorem worker_thread_assign_head (s : State) (hi : InvC (core s)) (k x : Nat) (l : List Nat)
    (hk0 : k ≠ 0) (hk : s.worker_current_work k = 0)
    (hl : s.lists (list_head.worklist (s.worker_pool k)) = x :: l) :
    worker_thread_assign s k = assign_work s x k ∧ Step s (worker_thread_assign s k).2.1 := by
  have e : worker_thread_assign s k = assign_work s x k := by
    unfold worker_thread_assign
    rw [hl]
    rfl
  refine ⟨e, ?_⟩
  rw [e]
  apply Step.assign s k x hk0 hk
  · apply (hi.l.mem_entry _ x).1
    show x ∈ s.lists (list_head.worklist (s.worker_pool k))
    rw [hl]
    exact List.mem_cons_self _ _
  · intro y hy
    rw [hl] at hy
    simp [list_before] at hy

/-- C19 (amended): on a pool_workqueue `p` whose `max_active` is 1 in every state of the
run, work items begin execution in exactly the order of their successful enqueues.  With `q`
the list of the enqueues on `p` that are still queued, in the order in which they were made:
at most one work item of `p` is active (queued and not INACTIVE, or being executed having
been started active), and `nr_active` counts it; `q` has no duplicates and holds exactly the
queued work items of `p` that are not barriers; `q` is the active queued item, if any,
followed by the work items of `inactive_works` in list order; the work item a worker starts
is the head of `q`, and the run goes on with the tail; every step that keeps `max_active`
at 1 either appends one newly queued work item to `q` or only removes items from it;
`__queue_work` links the work item at the tail of the worklist or of `inactive_works`; a
step activates an item of `inactive_works` only if it is the first of the list and the
holder of the `nr_active` slot has left, by completing or by being stolen while queued; and
the worker takes the first work item of the worklist. -/
theorem fifo_execution_order (p : Nat) (s : State) (q : List Nat) (h : FifoRun p s q) :
    (∃ front runner : Option Nat,
      (∀ y, active_queued s p y ↔ front = some y) ∧
      (∀ k, active_running s p k ↔ runner = some k) ∧
      s.pwq_nr_active p = (front.toList.length : Int) + (runner.toList.length : Int) ∧
      s.pwq_nr_active p ≤ 1 ∧
      q = front.toList ++ (s.lists (list_head.inactive_works p)).filter
        (fun x => decide (s.work_func x ≠ wq_barrier_func))) ∧
    q.Nodup ∧ (∀ x, x ∈ q ↔ waiting s p x = true) ∧
    (∀ k w, k ≠ 0 → s.worker_current_work k = 0 →
      (s.lists (list_head.scheduled k)).head? = some w → waiting s p w = true →
      q.head? = some w ∧ FifoRun p (process_one_work_begin s k w) q.tail) ∧
    (∀ s2, Step s s2 → s2.pwq_max_active p = 1 →
      ((∀ x, waiting s2 p x = true → waiting s p x = true) ∧
          FifoRun p s2 (q.filter (waiting s2 p))) ∨
        ∃ x, waiting s p x = false ∧ waiting s2 p x = true ∧ FifoRun p s2 (q ++ [x])) ∧
    (∀ fuel t cpu wq work s2, s.work_entry work = none →
      __queue_work fuel s t cpu wq work = some s2 → waiting s2 p work = true →
      (s.pwq_nr_active p < s.pwq_max_active p ∧
          s2.lists (list_head.worklist (s.pwq_pool p)) =
            s.lists (list_head.worklist (s.pwq_pool p)) ++ [work] ∧
          s2.lists (list_head.inactive_works p) = s.lists (list_head.inactive_works p)) ∨
        (¬ s.pwq_nr_active p < s.pwq_max_active p ∧
          s2.lists (list_head.inactive_works p) =
            s.lists (list_head.inactive_works p) ++ [work] ∧
          s2.lists (list_head.worklist (s.pwq_pool p)) =
            s.lists (list_head.worklist (s.pwq_pool p)))) ∧
    (∀ s2 x, Step s s2 → s2.pwq_max_active p = 1 →
      x ∈ s.lists (list_head.inactive_works p) → active_queued s2 p x →
      (s.lists (list_head.inactive_works p)).head? = some x ∧
      ((∃ y, active_queued s p y) ∨ ∃ k, active_running s p k) ∧
      (∀ y, active_queued s p y → waiting s2 p y = false) ∧
      ∀ k, ¬ active_running s2 p k) ∧
    (∀ k x l, k ≠ 0 → s.worker_current_work k = 0 →
      s.lists (list_head.worklist (s.worker_pool k)) = x :: l →
      worker_thread_assign s k = assign_work s x k ∧
        Step s (worker_thread_assign s k).2.1) := by
  obtain ⟨hr, f, r, hi⟩ := fifo_run_inv p s q h
  have i1 := reachable_inv s hr
  have t1 := typed_of_inv s i1
  refine ⟨⟨f, r, ?_, ?_, hi.count, hi.le_one, ?_⟩, hi.nodup t1, ?_, ?_, ?_, ?_, ?_, ?_⟩
  · intro y
    rw [active_queued_acc s i1]
    exact hi.front_iff y
  · intro k
    rw [active_running_acc]
    exact hi.runner_iff k
  · rw [← fifo_acc s i1]
    exact hi.order
  · intro x
    rw [waiting_acc s i1]
    exact ⟨hi.mem_waits t1 x, hi.waits_mem t1 x⟩
  · intro k w hk0 hk hh hw
    exact start_state s p q h k w hk0 hk hh hw
  · intro s2 hs hm
    exact fifo_run_step p s q h s2 hs hm
  · intro fuel t cpu wq work s2 hent hq hw
    obtain ⟨hne, hpwq, _⟩ := of_decide_eq_true hw
    unfold __queue_work at hq
    split_ifs at hq
    · rw [← Option.some.inj hq] at hne
      exact absurd hent hne
    · obtain ⟨pwq, c1, c2⟩ := __queue_work_retry_tail fuel s t cpu wq work s2 i1 hent hq
      rw [hpwq] at c1
      rw [← c1] at c2
      exact c2
  · intro s2 x hs hm hx hx2
    exact promotion_state s s2 p q f r hr hi hs hm x hx hx2
  · intro k x l hk0 hk hl
    exact worker_thread_assign_head s i1 k x l hk0 hk hl

/-! ## The order on the pool_workqueue 256 of the example states -/

theorem waiting_claim (s : State) (hr : Reachable s) (w p x : Nat) :
    waiting (test_and_set_bit_pending s w).2 p x = waiting s p x := by
  rw [waiting_acc _ (reachable_inv _ (hr.step (Step.claim s w))),
    waiting_acc s (reachable_inv s hr), acc_claim]

theorem FifoRun_ex_first_queued : FifoRun 256 ex_first_queued [1000] :=
  FifoRun.enqueue (test_and_set_bit_pending ex_freezable 1000).2 ex_first_queued [] 1000
    (FifoRun.other ex_freezable _ [] (FifoRun.init _ Init_ex_freezable rfl)
      (Step.claim ex_freezable 1000) rfl
      (fun x hx => by
        rw [waiting_claim ex_freezable ⟨_, Init_ex_freezable, Relation.ReflTransGen.refl⟩] at hx
        exact hx))
    (Step.queue _ 1 ex_task 0 32 1000 ex_first_queued (by decide) (by decide)
      (work_pending_test_and_set _ _) rfl rfl)
    rfl (by decide) (by decide)

theorem FifoRun_ex_backlog : FifoRun 256 ex_backlog [1000, 1001] :=
  FifoRun.enqueue (test_and_set_bit_pending ex_first_queued 1001).2 ex_backlog [1000] 1001
    (FifoRun.other ex_first_queued _ [1000] FifoRun_ex_first_queued
      (Step.claim ex_first_queued 1001) rfl
      (fun x hx => by
        rw [waiting_claim ex_first_queued (fifo_run_inv _ _ _ FifoRun_ex_first_queued).1] at hx
        exact hx))
    (Step.queue _ 1 ex_task 0 32 1001 ex_backlog (by decide) (by decide)
      (work_pending_test_and_set _ _) rfl rfl)
    rfl (by decide) (by decide)

theorem fifo_execution_order_witness :
    FifoRun 256 ex_backlog [1000, 1001] ∧
    ((∃ front runner : Option Nat,
      (∀ y, active_queued ex_backlog 256 y ↔ front = some y) ∧
      (∀ k, active_running ex_backlog 256 k ↔ runner = some k) ∧
      ex_backlog.pwq_nr_active 256 =
        (front.toList.length : Int) + (runner.toList.length : Int) ∧
      ex_backlog.pwq_nr_active 256 ≤ 1 ∧
      [1000, 1001] = front.toList ++ (ex_backlog.lists (list_head.inactive_works 256)).filter
        (fun x => decide (ex_backlog.work_func x ≠ wq_barrier_func))) ∧
    [1000, 1001].Nodup ∧ (∀ x, x ∈ [1000, 1001] ↔ waiting ex_backlog 256 x = true) ∧
    (∀ k w, k ≠ 0 → ex_backlog.worker_current_work k = 0 →
      (ex_backlog.lists (list_head.scheduled k)).head? = some w →
      waiting ex_backlog 256 w = true →
      [1000, 1001].head? = some w ∧
        FifoRun 256 (process_one_work_begin ex_backlog k w) [1000, 1001].tail) ∧
    (∀ s2, Step ex_backlog s2 → s2.pwq_max_active 256 = 1 →
      ((∀ x, waiting s2 256 x = true → waiting ex_backlog 256 x = true) ∧
          FifoRun 256 s2 ([1000, 1001].filter (waiting s2 256))) ∨
        ∃ x, waiting ex_backlog 256 x = false ∧ waiting s2 256 x = true ∧
          FifoRun 256 s2 ([1000, 1001] ++ [x])) ∧
    (∀ fuel t cpu wq work s2, ex_backlog.work_entry work = none →
      __queue_work fuel ex_backlog t cpu wq work = some s2 → waiting s2 256 work = true →
      (ex_backlog.pwq_nr_active 256 < ex_backlog.pwq_max_active 256 ∧
          s2.lists (list_head.worklist (ex_backlog.pwq_pool 256)) =
            ex_backlog.lists (list_head.worklist (ex_backlog.pwq_pool 256)) ++ [work] ∧
          s2.lists (list_head.inactive_works 256) =
            ex_backlog.lists (list_head.inactive_works 256)) ∨
        (¬ ex_backlog.pwq_nr_active 256 < ex_backlog.pwq_max_active 256 ∧
          s2.lists (list_head.inactive_works 256) =
            ex_backlog.lists (list_head.inactive_works 256) ++ [work] ∧
          s2.lists (list_head.worklist (ex_backlog.pwq_pool 256)) =
            ex_backlog.lists (list_head.worklist (ex_backlog.pwq_pool 256)))) ∧
    (∀ s2 x, Step ex_backlog s2 → s2.pwq_max_active 256 = 1 →
      x ∈ ex_backlog.lists (list_head.inactive_works 256) → active_queued s2 256 x →
      (ex_backlog.lists (list_head.inactive_works 256)).head? = some x ∧
      ((∃ y, active_queued ex_backlog 256 y) ∨ ∃ k, active_running ex_backlog 256 k) ∧
      (∀ y, active_queued ex_backlog 256 y → waiting s2 256 y = false) ∧
      ∀ k, ¬ active_running s2 256 k) ∧
    (∀ k x l, k ≠ 0 → ex_backlog.worker_current_work k = 0 →
      ex_backlog.lists (list_head.worklist (ex_backlog.worker_pool k)) = x :: l →
      worker_thread_assign ex_backlog k = assign_work ex_backlog x k ∧
        Step ex_backlog (worker_thread_assign ex_backlog k).2.1)) :=
  ⟨FifoRun_ex_backlog, fifo_execution_order 256 ex_backlog [1000, 1001] FifoRun_ex_backlog⟩

/-- C19, as stated: on the pool_workqueue 256 of `ex_backlog`, whose `max_active` is 1,
the work item 1000 is active on the worklist and 1001 waits on `inactive_works`, and no
worker executes a work item.  The step `try_to_grab_pending` on 1000 takes 1001 from the
head of `inactive_works` and activates it on the worklist of the pool 64, although no
running item completes: no worker executes a work item before or after the step. -/
theorem promotion_without_completion :
    FifoRun 256 ex_backlog [1000, 1001] ∧
    (∀ k, ex_backlog.worker_current_work k = 0) ∧
    Step ex_backlog ex_backlog_stolen ∧
    ex_backlog_stolen.pwq_max_active 256 = 1 ∧
    ex_backlog.lists (list_head.inactive_works 256) = [1001] ∧
    ex_backlog_stolen.lists (list_head.inactive_works 256) = [] ∧
    ex_backlog_stolen.lists (list_head.worklist 64) = [1001] ∧
    active_queued ex_backlog_stolen 256 1001 ∧
    (∀ k, ex_backlog_stolen.worker_current_work k = 0) ∧
    ¬ (∀ s2 x, Step ex_backlog s2 → s2.pwq_max_active 256 = 1 →
        x ∈ ex_backlog.lists (list_head.inactive_works 256) → active_queued s2 256 x →
        ∃ k, ex_backlog.worker_current_work k ≠ 0 ∧ s2.worker_current_work k = 0) := by
  have hs : Step ex_backlog ex_backlog_stolen := Step.grab ex_backlog 1000 false (by decide)
  have ha : active_queued ex_backlog_stolen 256 1001 := by
    unfold active_queued
    decide
  refine ⟨FifoRun_ex_backlog, fun _ => rfl, hs, by decide, by decide, by decide, by decide,
    ha, fun _ => rfl, ?_⟩
  intro hall
  obtain ⟨k, hk, _⟩ := hall ex_backlog_stolen 1001 hs (by decide) (by decide) ha
  exact hk rfl

/-! ## The threshold of `too_many_workers` -/

/-- C23: `too_many_workers` holds exactly when the idle count `nr_idle` (the idle workers,
plus one if a manager is active) is above two and `(nr_idle - 2) * MAX_IDLE_WORKERS_RATIO`
is at least `nr_busy = nr_workers - nr_idle`.  For `nr_busy >= 0` this is the case whenever
`nr_idle - 2 > nr_busy / 4`, and otherwise only on the boundary `nr_busy = 4 * (nr_idle - 2)`
with `nr_idle > 2`; in terms of a quotient it says that `nr_idle - 2` is positive and at
least `nr_busy / 4` rounded up. -/
theorem too_many_workers_threshold (s : State) (pool : Nat) :
    (too_many_workers_nr_idle s pool = s.pool_nr_idle pool +
      (if s.pool_flags pool &&& POOL_MANAGER_ACTIVE ≠ 0 then 1 else 0)) ∧
    (too_many_workers s pool = true ↔
      too_many_workers_nr_idle s pool > 2 ∧
      s.pool_nr_workers pool - too_many_workers_nr_idle s pool ≤
        (too_many_workers_nr_idle s pool - 2) * 4) ∧
    (0 ≤ s.pool_nr_workers pool - too_many_workers_nr_idle s pool →
      too_many_workers_nr_idle s pool - 2 >
        Int.tdiv (s.pool_nr_workers pool - too_many_workers_nr_idle s pool) 4 →
      too_many_workers s pool = true) ∧
    (0 ≤ s.pool_nr_workers pool - too_many_workers_nr_idle s pool →
      too_many_workers s pool = true →
      ¬ (too_many_workers_nr_idle s pool - 2 >
        Int.tdiv (s.pool_nr_workers pool - too_many_workers_nr_idle s pool) 4) →
      too_many_workers_nr_idle s pool > 2 ∧
      s.pool_nr_workers pool - too_many_workers_nr_idle s pool =
        4 * (too_many_workers_nr_idle s pool - 2)) ∧
    (too_many_workers s pool = true ↔
      0 < too_many_workers_nr_idle s pool - 2 ∧
      (s.pool_nr_workers pool - too_many_workers_nr_idle s pool + 3) / 4 ≤
        too_many_workers_nr_idle s pool - 2) := by
  have hiff : too_many_workers s pool = true ↔
      too_many_workers_nr_idle s pool > 2 ∧
      s.pool_nr_workers pool - too_many_workers_nr_idle s pool ≤
        (too_many_workers_nr_idle s pool - 2) * 4 := by
    unfold too_many_workers
    rw [decide_eq_true_eq]
  refine ⟨rfl, hiff, ?_, ?_, ?_⟩
  · intro h0 h1
    rw [Int.tdiv_eq_ediv h0 (by decide)] at h1
    rw [hiff]
    omega
  · intro h0 h1 h2
    rw [Int.tdiv_eq_ediv h0 (by decide)] at h2
    rw [hiff] at h1
    omega
  · rw [hiff]
    omega

/-- C23 (witness): in the boot state with seven workers of which three are idle. -/
theorem too_many_workers_threshold_witness :
    too_many_workers ex_idle_boundary 0 = true ↔
      too_many_workers_nr_idle ex_idle_boundary 0 > 2 ∧
      ex_idle_boundary.pool_nr_workers 0 - too_many_workers_nr_idle ex_idle_boundary 0 ≤
        (too_many_workers_nr_idle ex_idle_boundary 0 - 2) * 4 :=
  (too_many_workers_threshold ex_idle_boundary 0).2.1

/-- C23 (counterexample): with seven workers, three of them idle and no manager,
`too_many_workers` holds although `nr_idle - 2 = 1` is not above `nr_busy / 4 = 1`. -/
theorem too_many_workers_on_the_boundary :
    ex_idle_boundary.pool_nr_workers 0 = 7 ∧ ex_idle_boundary.pool_nr_idle 0 = 3 ∧
    ex_idle_boundary.pool_flags 0 &&& POOL_MANAGER_ACTIVE = 0 ∧
    too_many_workers ex_idle_boundary 0 = true ∧
    ¬ (too_many_workers_nr_idle ex_idle_boundary 0 - 2 >
      Int.tdiv (ex_idle_boundary.pool_nr_workers 0 - too_many_workers_nr_idle ex_idle_boundary 0)
        4) := by
  decide

/-! ## `nr_running` and the flags of `WORKER_NOT_RUNNING` -/

theorem or_and_eq_zero (a b m : Nat) : (a ||| b) &&& m = 0 ↔ a &&& m = 0 ∧ b &&& m = 0 := by
  constructor
  · intro h
    constructor
    · apply Nat.eq_of_testBit_eq
      intro i
      have := congrArg (fun x => x.testBit i) h
      simp only [Nat.testBit_and, Nat.testBit_or, Nat.zero_testBit] at this ⊢
      cases ha : a.testBit i <;> cases hm : m.testBit i <;> simp_all
    · apply Nat.eq_of_testBit_eq
      intro i
      have := congrArg (fun x => x.testBit i) h
      simp only [Nat.testBit_and, Nat.testBit_or, Nat.zero_testBit] at this ⊢
      cases hb : b.testBit i <;> cases hm : m.testBit i <;> simp_all
  · intro h
    apply Nat.eq_of_testBit_eq
    intro i
    have h1 := congrArg (fun x => x.testBit i) h.1
    have h2 := congrArg (fun x => x.testBit i) h.2
    simp only [Nat.testBit_and, Nat.testBit_or, Nat.zero_testBit] at h1 h2 ⊢
    cases ha : a.testBit i <;> cases hb : b.testBit i <;> cases hm : m.testBit i <;> simp_all

theorem andn_and_of_disjoint (a f m : Nat) (hm : m < 2 ^ 64) (hf : f &&& m = 0) :
    (a &&& ulong_not f) &&& m = a &&& m := by
  apply Nat.eq_of_testBit_eq
  intro i
  have h1 := congrArg (fun x => x.testBit i) hf
  simp only [Nat.testBit_and, Nat.zero_testBit] at h1
  rw [Nat.testBit_and, Nat.testBit_and, Nat.testBit_and, testBit_ulong_not]
  by_cases hi : i < 64
  · cases ha : a.testBit i <;> cases hb : f.testBit i <;> cases hc : m.testBit i <;> simp_all
  · have := testBit_lt m 64 hm i (by omega)
    rw [this]
    simp

theorem andn_and_sub (a f m : Nat) (h : a &&& m = 0) : (a &&& ulong_not f) &&& m = 0 := by
  apply Nat.eq_of_testBit_eq
  intro i
  have h1 := congrArg (fun x => x.testBit i) h
  simp only [Nat.testBit_and, Nat.zero_testBit] at h1 ⊢
  cases ha : a.testBit i <;> cases hc : m.testBit i <;> simp_all

theorem worker_set_flags_nr_running (s : State) (k f : Nat) :
    (worker_set_flags s k f).pool_nr_running =
      if f &&& WORKER_NOT_RUNNING ≠ 0 ∧ s.worker_flags k &&& WORKER_NOT_RUNNING = 0 then
        Function.update s.pool_nr_running (s.worker_pool k)
          (s.pool_nr_running (s.worker_pool k) - 1)
      else s.pool_nr_running := by
  unfold worker_set_flags
  simp only []
  split_ifs <;> simp [State.pool_nr_running, State.worker_pool]

theorem worker_clr_flags_nr_running (s : State) (k f : Nat) :
    (worker_clr_flags s k f).pool_nr_running =
      if f &&& WORKER_NOT_RUNNING ≠ 0 ∧ s.worker_flags k &&& WORKER_NOT_RUNNING ≠ 0 ∧
          (s.worker_flags k &&& ulong_not f) &&& WORKER_NOT_RUNNING = 0 then
        Function.update s.pool_nr_running (s.worker_pool k)
          (s.pool_nr_running (s.worker_pool k) + 1)
      else s.pool_nr_running := by
  unfold worker_clr_flags
  simp only []
  split_ifs <;> simp_all [State.pool_nr_running, State.worker_pool, State.worker_flags]

/-- C26: `worker_set_flags` and `worker_clr_flags` on a worker `k` of the pool
`s.worker_pool k`.  `worker_set_flags` ors the flags in and decrements `nr_running` of the
pool by one exactly when the worker goes from no `WORKER_NOT_RUNNING` flag to some;
`worker_clr_flags` clears the flags and increments `nr_running` by one exactly when the
worker goes from some `WORKER_NOT_RUNNING` flag to none; in every other case, and for every
other pool, `nr_running` is unchanged.  Both keep `nr_running` minus one-if-the-worker-has-
no-`WORKER_NOT_RUNNING`-flag.  A worker that has `WORKER_PREP` set keeps it and changes no
`nr_running` when `WORKER_CPU_INTENSIVE` is set and cleared, in particular in the two locked
regions of `process_one_work`. -/
theorem worker_flags_keep_running_balance (s : State) (k f work : Nat) :
    ((worker_set_flags s k f).worker_flags k = s.worker_flags k ||| f ∧
      (worker_set_flags s k f).pool_nr_running (s.worker_pool k) =
        s.pool_nr_running (s.worker_pool k) -
          (if s.worker_flags k &&& WORKER_NOT_RUNNING = 0 ∧
              (worker_set_flags s k f).worker_flags k &&& WORKER_NOT_RUNNING ≠ 0 then 1 else 0) ∧
      (∀ P, P ≠ s.worker_pool k →
        (worker_set_flags s k f).pool_nr_running P = s.pool_nr_running P) ∧
      (worker_set_flags s k f).pool_nr_running (s.worker_pool k) -
          (if (worker_set_flags s k f).worker_flags k &&& WORKER_NOT_RUNNING = 0 then 1 else 0) =
        s.pool_nr_running (s.worker_pool k) -
          (if s.worker_flags k &&& WORKER_NOT_RUNNING = 0 then 1 else 0)) ∧
    ((worker_clr_flags s k f).worker_flags k = s.worker_flags k &&& ulong_not f ∧
      (worker_clr_flags s k f).pool_nr_running (s.worker_pool k) =
        s.pool_nr_running (s.worker_pool k) +
          (if s.worker_flags k &&& WORKER_NOT_RUNNING ≠ 0 ∧
              (worker_clr_flags s k f).worker_flags k &&& WORKER_NOT_RUNNING = 0 then 1 else 0) ∧
      (∀ P, P ≠ s.worker_pool k →
        (worker_clr_flags s k f).pool_nr_running P = s.pool_nr_running P) ∧
      (worker_clr_flags s k f).pool_nr_running (s.worker_pool k) -
          (if (worker_clr_flags s k f).worker_flags k &&& WORKER_NOT_RUNNING = 0 then 1 else 0) =
        s.pool_nr_running (s.worker_pool k) -
          (if s.worker_flags k &&& WORKER_NOT_RUNNING = 0 then 1 else 0)) ∧
    (s.worker_flags k &&& WORKER_PREP ≠ 0 →
      (worker_set_flags s k WORKER_CPU_INTENSIVE).pool_nr_running = s.pool_nr_running ∧
      (worker_set_flags s k WORKER_CPU_INTENSIVE).worker_flags k &&& WORKER_PREP ≠ 0 ∧
      (worker_clr_flags s k WORKER_CPU_INTENSIVE).pool_nr_running = s.pool_nr_running ∧
      (worker_clr_flags s k WORKER_CPU_INTENSIVE).worker_flags k &&& WORKER_PREP ≠ 0 ∧
      (process_one_work_begin s k work).pool_nr_running = s.pool_nr_running ∧
      (process_one_work_begin s k work).worker_flags k &&& WORKER_PREP ≠ 0 ∧
      (process_one_work_end s k).pool_nr_running = s.pool_nr_running ∧
      (process_one_work_end s k).worker_flags k &&& WORKER_PREP ≠ 0) := by
  have hmask : WORKER_NOT_RUNNING < 2 ^ 64 := by decide
  have hset : (worker_set_flags s k f).worker_flags k = s.worker_flags k ||| f := by
    rw [worker_set_flags_flags, Function.update_same]
  have hclr : (worker_clr_flags s k f).worker_flags k = s.worker_flags k &&& ulong_not f := by
    rw [worker_clr_flags_flags, Function.update_same]
  have hprep : ∀ x : Nat, x &&& WORKER_PREP ≠ 0 → x &&& WORKER_NOT_RUNNING ≠ 0 := by
    intro x hx c
    apply hx
    apply Nat.eq_of_testBit_eq
    intro i
    have h1 := congrArg (fun y => y.testBit i) c
    simp only [Nat.testBit_and, Nat.zero_testBit] at h1 ⊢
    by_cases hi : i = 3
    · subst hi
      have : (WORKER_NOT_RUNNING).testBit 3 = true := by decide
      rw [this] at h1
      simp_all
    · have : (WORKER_PREP).testBit i = false := by
        show (1 <<< 3).testBit i = false
        rw [testBit_one_shl]
        simp
        omega
      rw [this]
      simp
  have hprep_or : ∀ x y : Nat, x &&& WORKER_PREP ≠ 0 → (x ||| y) &&& WORKER_PREP ≠ 0 := by
    intro x y hx c
    exact hx ((or_and_eq_zero x y _).1 c).1
  have hprep_andn : ∀ x : Nat, x &&& WORKER_PREP ≠ 0 →
      (x &&& ulong_not WORKER_CPU_INTENSIVE) &&& WORKER_PREP ≠ 0 := by
    intro x hx
    rw [andn_and_of_disjoint x _ _ (by decide) (by decide)]
    exact hx
  refine ⟨⟨hset, ?_, ?_, ?_⟩, ⟨hclr, ?_, ?_, ?_⟩, ?_⟩
  · rw [hset, worker_set_flags_nr_running]
    by_cases c1 : s.worker_flags k &&& WORKER_NOT_RUNNING = 0
    · by_cases c2 : f &&& WORKER_NOT_RUNNING = 0
      · have c3 := (or_and_eq_zero (s.worker_flags k) f _).2 ⟨c1, c2⟩
        rw [if_neg (fun c => c.1 c2), if_neg (fun c => c.2 c3)]
        simp
      · have c3 : (s.worker_flags k ||| f) &&& WORKER_NOT_RUNNING ≠ 0 :=
          fun c => c2 ((or_and_eq_zero _ _ _).1 c).2
        rw [if_pos ⟨c2, c1⟩, if_pos ⟨c1, c3⟩, Function.update_same]
    · rw [if_neg (fun c => c1 c.2), if_neg (fun c => c1 c.1)]
      simp
  · intro P hP
    rw [worker_set_flags_nr_running]
    split_ifs
    · exact Function.update_noteq hP _ _
    · rfl
  · rw [hset, worker_set_flags_nr_running]
    by_cases c1 : s.worker_flags k &&& WORKER_NOT_RUNNING = 0
    · by_cases c2 : f &&& WORKER_NOT_RUNNING = 0
      · have c3 := (or_and_eq_zero (s.worker_flags k) f _).2 ⟨c1, c2⟩
        rw [if_neg (fun c => c.1 c2), if_pos c3, if_pos c1]
      · have c3 : (s.worker_flags k ||| f) &&& WORKER_NOT_RUNNING ≠ 0 :=
          fun c => c2 ((or_and_eq_zero _ _ _).1 c).2
        rw [if_pos ⟨c2, c1⟩, if_neg c3, if_pos c1, Function.update_same]
        ring
    · have c3 : (s.worker_flags k ||| f) &&& WORKER_NOT_RUNNING ≠ 0 :=
        fun c => c1 ((or_and_eq_zero _ _ _).1 c).1
      rw [if_neg (fun c => c1 c.2), if_neg c3, if_neg c1]
  · rw [hclr, worker_clr_flags_nr_running]
    by_cases c1 : s.worker_flags k &&& WORKER_NOT_RUNNING = 0
    · rw [if_neg (fun c => c.2.1 c1), if_neg (fun c => c.1 c1)]
      simp
    · by_cases c3 : (s.worker_flags k &&& ulong_not f) &&& WORKER_NOT_RUNNING = 0
      · have c2 : f &&& WORKER_NOT_RUNNING ≠ 0 := by
          intro c
          rw [andn_and_of_disjoint _ _ _ hmask c] at c3
          exact c1 c3
        rw [if_pos ⟨c2, c1, c3⟩, if_pos ⟨c1, c3⟩, Function.update_same]
      · rw [if_neg (fun c => c3 c.2.2), if_neg (fun c => c3 c.2)]
        simp
  · intro P hP
    rw [worker_clr_flags_nr_running]
    split_ifs
    · exact Function.update_noteq hP _ _
    · rfl
  · rw [hclr, worker_clr_flags_nr_running]
    by_cases c1 : s.worker_flags k &&& WORKER_NOT_RUNNING = 0
    · have c3 := andn_and_sub (s.worker_flags k) f _ c1
      rw [if_neg (fun c => c.2.1 c1), if_pos c3, if_pos c1]
    · by_cases c3 : (s.worker_flags k &&& ulong_not f) &&& WORKER_NOT_RUNNING = 0
      · have c2 : f &&& WORKER_NOT_RUNNING ≠ 0 := by
          intro c
          rw [andn_and_of_disjoint _ _ _ hmask c] at c3
          exact c1 c3
        rw [if_pos ⟨c2, c1, c3⟩, if_pos c3, if_neg c1, Function.update_same]
        ring
      · rw [if_neg (fun c => c3 c.2.2), if_neg c3, if_neg c1]
  · intro hp
    have hnr := hprep _ hp
    have e1 : (worker_set_flags s k WORKER_CPU_INTENSIVE).pool_nr_running = s.pool_nr_running := by
      rw [worker_set_flags_nr_running, if_neg (fun c => hnr c.2)]
    have e2 : (worker_clr_flags s k WORKER_CPU_INTENSIVE).pool_nr_running = s.pool_nr_running := by
      rw [worker_clr_flags_nr_running, if_neg]
      intro c
      exact hprep _ (hprep_andn _ hp) c.2.2
    have e3 : (worker_set_flags s k WORKER_CPU_INTENSIVE).worker_flags k &&& WORKER_PREP ≠ 0 := by
      rw [worker_set_flags_flags, Function.update_same]
      exact hprep_or _ _ hp
    have e4 : (worker_clr_flags s k WORKER_CPU_INTENSIVE).worker_flags k &&& WORKER_PREP ≠ 0 := by
      rw [worker_clr_flags_flags, Function.update_same]
      exact hprep_andn _ hp
    refine ⟨e1, e3, e2, e4, ?_, ?_, ?_, ?_⟩
    · unfold process_one_work_begin
      simp only []
      split_ifs
      · simp only [State.pool_nr_running, set_work_pool_and_clear_pending_frame,
          State.set_other, kick_pool_frame, ne_eq, reduceCtorEq, not_false_eq_true]
        rw [show worker_set_flags _ k WORKER_CPU_INTENSIVE Field.pool_nr_running =
          (worker_set_flags _ k WORKER_CPU_INTENSIVE).pool_nr_running from rfl,
          worker_set_flags_nr_running, if_neg]
        · simp [State.pool_nr_running]
        · intro c
          apply hprep _ _ c.2
          simpa [State.worker_flags] using hp
      · simp [State.pool_nr_running]
    · unfold process_one_work_begin
      simp only []
      split_ifs
      · simp only [State.worker_flags, set_work_pool_and_clear_pending_frame,
          State.set_other, kick_pool_frame, ne_eq, reduceCtorEq, not_false_eq_true]
        rw [show worker_set_flags _ k WORKER_CPU_INTENSIVE Field.worker_flags =
          (worker_set_flags _ k WORKER_CPU_INTENSIVE).worker_flags from rfl,
          worker_set_flags_flags, Function.update_same]
        apply hprep_or
        simpa [State.worker_flags] using hp
      · simpa [State.worker_flags] using hp
    · unfold process_one_work_end
      simp only [State.pool_nr_running, pwq_dec_nr_in_flight_frame, State.set_other, ne_eq,
        reduceCtorEq, not_false_eq_true]
      rw [show worker_clr_flags _ k WORKER_CPU_INTENSIVE Field.pool_nr_running =
        (worker_clr_flags _ k WORKER_CPU_INTENSIVE).pool_nr_running from rfl,
        worker_clr_flags_nr_running, if_neg]
      · simp [State.pool_nr_running]
      · intro c
        apply hprep _ _ c.2.2
        apply hprep_andn
        simpa [State.worker_flags] using hp
    · unfold process_one_work_end
      simp only [State.worker_flags, pwq_dec_nr_in_flight_frame, State.set_other, ne_eq,
        reduceCtorEq, not_false_eq_true]
      rw [show worker_clr_flags _ k WORKER_CPU_INTENSIVE Field.worker_flags =
        (worker_clr_flags _ k WORKER_CPU_INTENSIVE).worker_flags from rfl,
        worker_clr_flags_flags, Function.update_same]
      apply hprep_andn
      simpa [State.worker_flags] using hp

/-- C26 (witness): a rescuer of the boot state, whose flags are `WORKER_PREP`. -/
theorem worker_flags_keep_running_balance_witness :
    State.boot.worker_flags 1 &&& WORKER_PREP ≠ 0 ∧
    (worker_clr_flags (worker_set_flags State.boot 1 WORKER_CPU_INTENSIVE) 1
      WORKER_CPU_INTENSIVE).pool_nr_running = State.boot.pool_nr_running :=
  ⟨by decide, by
    have h1 := ((worker_flags_keep_running_balance State.boot 1 0 0).2.2 (by decide)).1
    have h2 := ((worker_flags_keep_running_balance
      (worker_set_flags State.boot 1 WORKER_CPU_INTENSIVE) 1 0 0).2.2
        ((worker_flags_keep_running_balance State.boot 1 0 0).2.2 (by decide)).2.1).2.2.1
    rw [h2, h1]⟩

/-! ## A busy worker goes to sleep -/

theorem kick_pool_ret (u : State) (P : Nat) :
    (kick_pool u P).1 = true ↔
      u.lists (list_head.worklist P) ≠ [] ∧ u.pool_nr_running P = 0 ∧
        first_idle_worker u P ≠ 0 := by
  unfold kick_pool need_more_worker list_empty
  by_cases h1 : u.lists (list_head.worklist P) = []
  · simp [h1]
  · by_cases h2 : u.pool_nr_running P = 0
    · by_cases h3 : first_idle_worker u P = 0
      · simp [h1, h2, h3]
      · simp [h1, h2, h3]
    · simp [h1, h2]

theorem kick_pool_task (u : State) (P k : Nat) :
    (kick_pool u P).2.worker_task_state k =
      if (kick_pool u P).1 = true ∧ k = first_idle_worker u P then task_state.TASK_RUNNING
      else u.worker_task_state k := by
  unfold kick_pool
  by_cases h : need_more_worker u P = false ∨ first_idle_worker u P = 0
  · rw [if_pos h]
    simp
  · rw [if_neg h]
    by_cases hk : k = first_idle_worker u P
    · simp [wake_up_process, State.worker_task_state, hk]
    · simp [wake_up_process, State.worker_task_state, hk]

theorem kick_pool_repatriate_stats (u : State) (P k p i : Nat) (hi : i ≠ PWQ_STAT_REPATRIATED) :
    (kick_pool_repatriate u P k).pwq_stats p i = u.pwq_stats p i := by
  unfold kick_pool_repatriate
  simp only []
  split_ifs
  · simp only [State.pwq_stats, State.set_same]
    by_cases hp : p = get_work_pwq u ((u.lists (list_head.worklist P)).headD 0)
    · rw [hp, Function.update_same, Function.update_noteq hi]
    · rw [Function.update_noteq hp]
  · rfl
  · rfl

theorem kick_pool_stats (u : State) (P p i : Nat) (hi : i ≠ PWQ_STAT_REPATRIATED) :
    (kick_pool u P).2.pwq_stats p i = u.pwq_stats p i := by
  unfold kick_pool
  split_ifs
  · rfl
  · show wake_up_process (kick_pool_repatriate u P (first_idle_worker u P))
      (first_idle_worker u P) Field.pwq_stats p i = _
    rw [wake_up_process_frame _ _ _ (by simp)]
    exact kick_pool_repatriate_stats u P _ p i hi

theorem first_idle_worker_ne_zero (u : State) (P : Nat) (h0 : 0 ∉ u.pool_idle_list P) :
    first_idle_worker u P ≠ 0 ↔ u.pool_idle_list P ≠ [] := by
  unfold first_idle_worker
  cases h : u.pool_idle_list P with
  | nil => simp
  | cons a l =>
    rw [h] at h0
    simp only [List.headD_cons, ne_eq, not_false_eq_true, iff_true, reduceCtorEq]
    intro c
    rw [c] at h0
    simp at h0

/-- The state in which `wq_worker_sleeping` calls `kick_pool`. -/
theorem wq_worker_sleeping_frame (s : State) (k : Nat) (g : Field)
    (h1 : g ≠ .worker_sleeping) (h2 : g ≠ .pool_nr_running) (h3 : g ≠ .worker_task_state)
    (h4 : g ≠ .worker_task_wake_cpu) (h5 : g ≠ .pwq_stats) : wq_worker_sleeping s k g = s g := by
  unfold wq_worker_sleeping
  simp only []
  split_ifs <;> simp [h1, h2, h3, h4, h5]

theorem wq_worker_sleeping_task (s : State) (k : Nat)
    (hf : s.worker_flags k &&& WORKER_NOT_RUNNING = 0) (hs : s.worker_sleeping k = 0) :
    (wq_worker_sleeping s k).worker_task_state =
      (kick_pool ((s.set .worker_sleeping (Function.update s.worker_sleeping k 1)).set
        .pool_nr_running (Function.update s.pool_nr_running (s.worker_pool k)
          (s.pool_nr_running (s.worker_pool k) - 1))) (s.worker_pool k)).2.worker_task_state := by
  unfold wq_worker_sleeping
  simp only []
  rw [if_neg (by rw [hf]; simp), if_neg (by rw [hs]; simp)]
  have e : (s.set .worker_sleeping (Function.update s.worker_sleeping k 1)).worker_flags k &&&
      WORKER_NOT_RUNNING = 0 := by
    simpa [State.worker_flags] using hf
  rw [if_neg (by rw [e]; simp)]
  split_ifs <;> simp [State.worker_task_state, State.pool_nr_running]

theorem wq_worker_sleeping_nr_running (s : State) (k : Nat)
    (hf : s.worker_flags k &&& WORKER_NOT_RUNNING = 0) (hs : s.worker_sleeping k = 0) :
    (wq_worker_sleeping s k).pool_nr_running =
      Function.update s.pool_nr_running (s.worker_pool k)
        (s.pool_nr_running (s.worker_pool k) - 1) ∧
    (wq_worker_sleeping s k).worker_sleeping = Function.update s.worker_sleeping k 1 := by
  unfold wq_worker_sleeping
  simp only []
  rw [if_neg (by rw [hf]; simp), if_neg (by rw [hs]; simp)]
  have e : (s.set .worker_sleeping (Function.update s.worker_sleeping k 1)).worker_flags k &&&
      WORKER_NOT_RUNNING = 0 := by
    simpa [State.worker_flags] using hf
  rw [if_neg (by rw [e]; simp)]
  constructor
  · split_ifs <;> simp [State.pool_nr_running, State.worker_pool]
  · split_ifs <;> simp [State.worker_sleeping]

/-- C25: `wq_worker_sleeping` changes nothing for a worker that has a flag of
`WORKER_NOT_RUNNING` or whose `sleeping` mark is set.  For a worker without such a flag
and with the mark clear it sets the mark, decrements `nr_running` of the pool of the worker
by one, leaves `nr_running` of every other pool alone, and calls `kick_pool`, after which a
task is newly `TASK_RUNNING` only if it is the task of the first worker of the idle list
and the worklist of the pool is not empty, `nr_running` is now zero and
`first_idle_worker` is not `NULL`; under these three conditions that task is
`TASK_RUNNING`.  Apart from the mark, `nr_running`, the state of that task, its `wake_cpu`
and the statistics of the pool_workqueues no field changes.  `kick_pool` returns true
under the same three conditions, wakes the first worker of the idle list, and writes
nothing but the state of the woken task, its `wake_cpu` and, of the statistics, the
count `PWQ_STAT_REPATRIATED`: it changes no counter of a pool or of a pool_workqueue
other than that statistic, and no list. -/
theorem wq_worker_sleeping_contract (s : State) (k : Nat) :
    ((s.worker_flags k &&& WORKER_NOT_RUNNING ≠ 0 ∨ s.worker_sleeping k ≠ 0) →
      wq_worker_sleeping s k = s) ∧
    (s.worker_flags k &&& WORKER_NOT_RUNNING = 0 → s.worker_sleeping k = 0 →
      (wq_worker_sleeping s k).pool_nr_running (s.worker_pool k) =
        s.pool_nr_running (s.worker_pool k) - 1 ∧
      (∀ P, P ≠ s.worker_pool k →
        (wq_worker_sleeping s k).pool_nr_running P = s.pool_nr_running P) ∧
      (wq_worker_sleeping s k).worker_sleeping k = 1 ∧
      (∀ j, (wq_worker_sleeping s k).worker_task_state j =
        if (s.lists (list_head.worklist (s.worker_pool k)) ≠ [] ∧
            s.pool_nr_running (s.worker_pool k) - 1 = 0 ∧
            first_idle_worker s (s.worker_pool k) ≠ 0) ∧
            j = first_idle_worker s (s.worker_pool k) then task_state.TASK_RUNNING
        else s.worker_task_state j) ∧
      (∀ g : Field, g ≠ .worker_sleeping → g ≠ .pool_nr_running → g ≠ .worker_task_state →
        g ≠ .worker_task_wake_cpu → g ≠ .pwq_stats → wq_worker_sleeping s k g = s g)) ∧
    (∀ (u : State) (P : Nat),
      ((kick_pool u P).1 = true ↔
        u.lists (list_head.worklist P) ≠ [] ∧ u.pool_nr_running P = 0 ∧
          first_idle_worker u P ≠ 0) ∧
      first_idle_worker u P = (u.pool_idle_list P).headD 0 ∧
      (0 ∉ u.pool_idle_list P → (first_idle_worker u P ≠ 0 ↔ u.pool_idle_list P ≠ [])) ∧
      (∀ j, (kick_pool u P).2.worker_task_state j =
        if (kick_pool u P).1 = true ∧ j = first_idle_worker u P then task_state.TASK_RUNNING
        else u.worker_task_state j) ∧
      (∀ g : Field, g ≠ .worker_task_state → g ≠ .worker_task_wake_cpu → g ≠ .pwq_stats →
        (kick_pool u P).2 g = u g) ∧
      (∀ p i, i ≠ PWQ_STAT_REPATRIATED → (kick_pool u P).2.pwq_stats p i = u.pwq_stats p i)) := by
  refine ⟨?_, ?_, ?_⟩
  · intro h
    unfold wq_worker_sleeping
    simp only []
    rcases h with h | h
    · rw [if_pos h]
    · by_cases c : s.worker_flags k &&& WORKER_NOT_RUNNING ≠ 0
      · rw [if_pos c]
      · rw [if_neg c, if_pos h]
  · intro hf hs
    obtain ⟨e1, e2⟩ := wq_worker_sleeping_nr_running s k hf hs
    refine ⟨by rw [e1, Function.update_same], ?_, by rw [e2, Function.update_same], ?_,
      wq_worker_sleeping_frame s k⟩
    · intro P hP
      rw [e1, Function.update_noteq hP]
    · intro j
      rw [wq_worker_sleeping_task s k hf hs, kick_pool_task]
      apply if_congr _ rfl rfl
      rw [kick_pool_ret]
      simp [State.lists, State.pool_nr_running, first_idle_worker, State.pool_idle_list]
  · intro u P
    exact ⟨kick_pool_ret u P, rfl, first_idle_worker_ne_zero u P, kick_pool_task u P,
      kick_pool_frame u P, kick_pool_stats u P⟩

/-- C25 (witness): the busy worker 17 of the pool 64 goes to sleep while the work item
1000 waits and the worker 16 is idle. -/
theorem wq_worker_sleeping_contract_witness :
    ex_repatriate.worker_flags 17 &&& WORKER_NOT_RUNNING = 0 ∧
    ex_repatriate.worker_sleeping 17 = 0 ∧
    (wq_worker_sleeping ex_repatriate 17).pool_nr_running (ex_repatriate.worker_pool 17) =
      ex_repatriate.pool_nr_running (ex_repatriate.worker_pool 17) - 1 :=
  ⟨by decide, by decide,
    ((wq_worker_sleeping_contract ex_repatriate 17).2.1 (by decide) (by decide)).1⟩

/-- C25 (counterexample): `kick_pool` changes a counter.  In the pool 64 the work item 1000
of the pool_workqueue 256 waits, no worker is running and the idle worker 16 last ran on
CPU 0, outside the pod of the pool: `kick_pool` returns true and the count
`stats[PWQ_STAT_REPATRIATED]` of the pool_workqueue 256 goes from 0 to 1. -/
theorem kick_pool_counts_repatriation :
    (kick_pool (ex_repatriate.set .pool_nr_running (fun _ => 0)) 64).1 = true ∧
    (ex_repatriate.set .pool_nr_running (fun _ => 0)).pwq_stats 256 PWQ_STAT_REPATRIATED = 0 ∧
    (kick_pool (ex_repatriate.set .pool_nr_running (fun _ => 0)) 64).2.pwq_stats 256
      PWQ_STAT_REPATRIATED = 1 := by
  decide

/-! ## Unbinding and rebinding the workers of a pool -/

/-- The flags after a loop that rewrites the flags of every worker of the list `L` with an
idempotent function. -/
theorem foldl_worker_flags (f : Nat → Nat) (hf : ∀ x, f (f x) = f x) (L : List Nat) (s : State) :
    L.foldl (fun u worker =>
      (u.set .worker_flags (Function.update u.worker_flags worker (f (u.worker_flags worker))))) s =
    s.set .worker_flags (fun w => if w ∈ L then f (s.worker_flags w) else s.worker_flags w) := by
  induction L generalizing s with
  | nil =>
    simp only [List.foldl_nil, List.not_mem_nil, if_false]
    exact (State.set_self s _).symm
  | cons a L ih =>
    rw [List.foldl_cons, ih]
    funext g
    by_cases hg : g = Field.worker_flags
    · subst hg
      simp only [State.set_same, State.worker_flags]
      funext w
      by_cases hw : w = a
      · subst hw
        simp only [Function.update_same, List.mem_cons, true_or, if_true]
        split_ifs
        · exact hf _
        · rfl
      · simp only [Function.update_noteq hw, List.mem_cons, hw, false_or]
    · simp [hg]

theorem or_idem (m : Nat) : ∀ x : Nat, (x ||| m) ||| m = x ||| m := by
  intro x
  rw [Nat.lor_assoc, Nat.or_self]

theorem rebound_idem : ∀ x : Nat,
    (((x ||| WORKER_REBOUND) &&& ulong_not WORKER_UNBOUND) ||| WORKER_REBOUND) &&&
      ulong_not WORKER_UNBOUND = (x ||| WORKER_REBOUND) &&& ulong_not WORKER_UNBOUND := by
  intro x
  apply Nat.eq_of_testBit_eq
  intro i
  simp only [Nat.testBit_and, Nat.testBit_or, testBit_ulong_not]
  cases x.testBit i <;> cases (WORKER_REBOUND).testBit i <;> cases (WORKER_UNBOUND).testBit i <;>
    cases decide (i < 64) <;> rfl

theorem or_and_self_mask (x m : Nat) : (x ||| m) &&& m = m := by
  apply Nat.eq_of_testBit_eq
  intro i
  simp only [Nat.testBit_and, Nat.testBit_or]
  cases x.testBit i <;> cases m.testBit i <;> rfl

theorem or_and_mono (x y m : Nat) (h : x &&& m ≠ 0) : (x ||| y) &&& m ≠ 0 :=
  fun c => h ((or_and_eq_zero x y m).1 c).1

theorem unbind_workers_pool_fields (s : State) (pool : Nat) :
    (unbind_workers_pool s pool).worker_flags =
      (fun w => if w ∈ s.pool_workers pool then s.worker_flags w ||| WORKER_UNBOUND
        else s.worker_flags w) ∧
    (unbind_workers_pool s pool).pool_flags =
      Function.update s.pool_flags pool (s.pool_flags pool ||| POOL_DISASSOCIATED) ∧
    (unbind_workers_pool s pool).pool_nr_running = Function.update s.pool_nr_running pool 0 ∧
    (unbind_workers_pool s pool).pool_workers = s.pool_workers := by
  unfold unbind_workers_pool
  simp only []
  have e := foldl_worker_flags (fun x => x ||| WORKER_UNBOUND) (or_idem WORKER_UNBOUND)
    (s.pool_workers pool) s
  simp only [] at e
  rw [e]
  refine ⟨?_, ?_, ?_, ?_⟩
  · simp [State.worker_flags, State.pool_workers]
  · simp [State.pool_flags]
  · simp [State.pool_nr_running]
  · simp [State.pool_workers]

theorem unbind_workers_cons (s : State) (a : Nat) (L : List Nat) :
    unbind_workers s (a :: L) = unbind_workers (unbind_workers_pool s a) L := rfl

theorem unbind_workers_keeps (pools : List Nat) (s : State) :
    (unbind_workers s pools).pool_workers = s.pool_workers ∧
    (∀ w, s.worker_flags w &&& WORKER_UNBOUND ≠ 0 →
      (unbind_workers s pools).worker_flags w &&& WORKER_UNBOUND ≠ 0) ∧
    (∀ P, s.pool_flags P &&& POOL_DISASSOCIATED ≠ 0 →
      (unbind_workers s pools).pool_flags P &&& POOL_DISASSOCIATED ≠ 0) ∧
    (∀ P, s.pool_nr_running P = 0 → (unbind_workers s pools).pool_nr_running P = 0) := by
  induction pools generalizing s with
  | nil => exact ⟨rfl, fun _ h => h, fun _ h => h, fun _ h => h⟩
  | cons a L ih =>
    obtain ⟨f1, f2, f3, f4⟩ := unbind_workers_pool_fields s a
    obtain ⟨i1, i2, i3, i4⟩ := ih (unbind_workers_pool s a)
    rw [unbind_workers_cons]
    refine ⟨by rw [i1, f4], ?_, ?_, ?_⟩
    · intro w hw
      apply i2
      rw [f1]
      show (if w ∈ s.pool_workers a then _ else _) &&& WORKER_UNBOUND ≠ 0
      split_ifs
      · exact or_and_mono _ _ _ hw
      · exact hw
    · intro P hP
      apply i3
      rw [f2]
      by_cases c : P = a
      · rw [c, Function.update_same]
        rw [c] at hP
        exact or_and_mono _ _ _ hP
      · rw [Function.update_noteq c]
        exact hP
    · intro P hP
      apply i4
      rw [f3]
      by_cases c : P = a
      · rw [c, Function.update_same]
      · rw [Function.update_noteq c]
        exact hP

theorem unbind_workers_sets (pools : List Nat) (s : State) :
    ∀ P ∈ pools, (unbind_workers s pools).pool_flags P &&& POOL_DISASSOCIATED ≠ 0 ∧
      (unbind_workers s pools).pool_nr_running P = 0 ∧
      ∀ w ∈ s.pool_workers P, (unbind_workers s pools).worker_flags w &&& WORKER_UNBOUND ≠ 0 := by
  induction pools generalizing s with
  | nil =>
    intro P hP
    simp at hP
  | cons a L ih =>
    intro P hP
    obtain ⟨f1, f2, f3, f4⟩ := unbind_workers_pool_fields s a
    obtain ⟨i1, i2, i3, i4⟩ := unbind_workers_keeps L (unbind_workers_pool s a)
    rw [unbind_workers_cons]
    by_cases c : P = a
    · subst c
      refine ⟨?_, ?_, ?_⟩
      · apply i3
        rw [f2, Function.update_same, or_and_self_mask]
        decide
      · apply i4
        rw [f3, Function.update_same]
      · intro w hw
        apply i2
        rw [f1]
        show (if w ∈ s.pool_workers P then _ else _) &&& WORKER_UNBOUND ≠ 0
        rw [if_pos hw, or_and_self_mask]
        decide
    · have hPL : P ∈ L := by
        rcases List.mem_cons.1 hP with h | h
        · exact absurd h c
        · exact h
      have := ih (unbind_workers_pool s a) P hPL
      rw [f4] at this
      exact this

theorem rebind_workers_fields (s : State) (pool : Nat) :
    (rebind_workers s pool).worker_flags =
      (fun w => if w ∈ s.pool_workers pool then
        (s.worker_flags w ||| WORKER_REBOUND) &&& ulong_not WORKER_UNBOUND
        else s.worker_flags w) ∧
    (rebind_workers s pool).pool_flags =
      Function.update s.pool_flags pool (s.pool_flags pool &&& ulong_not POOL_DISASSOCIATED) ∧
    (∀ g : Field, g ≠ .worker_flags → g ≠ .pool_flags → rebind_workers s pool g = s g) := by
  unfold rebind_workers
  simp only []
  have e := foldl_worker_flags (fun x => (x ||| WORKER_REBOUND) &&& ulong_not WORKER_UNBOUND)
    rebound_idem
    ((s.set .pool_flags (Function.update s.pool_flags pool
      (s.pool_flags pool &&& ulong_not POOL_DISASSOCIATED))).pool_workers pool)
    (s.set .pool_flags (Function.update s.pool_flags pool
      (s.pool_flags pool &&& ulong_not POOL_DISASSOCIATED)))
  simp only [] at e
  rw [e]
  refine ⟨?_, ?_, ?_⟩
  · simp [State.worker_flags, State.pool_workers]
  · simp [State.pool_flags]
  · intro g h1 h2
    simp [h1, h2]

theorem wq_worker_running_nr_running (u : State) (k : Nat)
    (h : u.worker_flags k &&& WORKER_NOT_RUNNING ≠ 0) :
    (wq_worker_running u k).pool_nr_running = u.pool_nr_running ∧
    (wq_worker_running u k).worker_flags = u.worker_flags := by
  unfold wq_worker_running
  simp only []
  split_ifs <;> simp [State.pool_nr_running, State.worker_flags]

theorem unbound_not_running (x : Nat) (h : x &&& (WORKER_UNBOUND ||| WORKER_REBOUND) ≠ 0) :
    x &&& WORKER_NOT_RUNNING ≠ 0 := by
  intro c
  apply h
  apply Nat.eq_of_testBit_eq
  intro i
  have h1 := congrArg (fun y => y.testBit i) c
  simp only [Nat.testBit_and, Nat.zero_testBit] at h1 ⊢
  by_cases h7 : i = 7
  · subst h7
    have : (WORKER_NOT_RUNNING).testBit 7 = true := by decide
    rw [this] at h1
    simp_all
  · by_cases h8 : i = 8
    · subst h8
      have : (WORKER_NOT_RUNNING).testBit 8 = true := by decide
      rw [this] at h1
      simp_all
    · have : (WORKER_UNBOUND ||| WORKER_REBOUND).testBit i = false := by
        show ((1 <<< 7) ||| (1 <<< 8)).testBit i = false
        rw [Nat.testBit_or, testBit_one_shl, testBit_one_shl]
        simp
        omega
      rw [this]
      simp

/-- C27: `unbind_workers` leaves every pool of the CPU with `POOL_DISASSOCIATED` set,
`nr_running` zero and `WORKER_UNBOUND` set on every attached worker.  `rebind_workers`
sets `WORKER_REBOUND` and clears `WORKER_UNBOUND` on every attached worker (a worker that
had `WORKER_UNBOUND` among them), leaves every other flag of the worker as it was, so that
the worker still has a flag of `WORKER_NOT_RUNNING`, clears `POOL_DISASSOCIATED` and
changes nothing else, in particular no `nr_running`.  For a worker that has
`WORKER_UNBOUND` or `WORKER_REBOUND` set, `worker_set_flags`, `worker_clr_flags` of
`WORKER_PREP` and `wq_worker_running` change no `nr_running` and the worker keeps that
flag: an `nr_running` of zero stays zero. -/
theorem unbind_rebind_workers_contract (s : State) (cpu_worker_pools : List Nat)
    (pool k f : Nat) :
    (∀ P ∈ cpu_worker_pools,
      (unbind_workers s cpu_worker_pools).pool_flags P &&& POOL_DISASSOCIATED ≠ 0 ∧
      (unbind_workers s cpu_worker_pools).pool_nr_running P = 0 ∧
      ∀ w ∈ (unbind_workers s cpu_worker_pools).pool_workers P,
        (unbind_workers s cpu_worker_pools).worker_flags w &&& WORKER_UNBOUND ≠ 0) ∧
    (∀ w ∈ s.pool_workers pool,
      (rebind_workers s pool).worker_flags w &&& WORKER_REBOUND ≠ 0 ∧
      (rebind_workers s pool).worker_flags w &&& WORKER_UNBOUND = 0 ∧
      (∀ i, i < 64 → i ≠ 7 → i ≠ 8 →
        ((rebind_workers s pool).worker_flags w).testBit i = (s.worker_flags w).testBit i) ∧
      (rebind_workers s pool).worker_flags w &&& WORKER_NOT_RUNNING ≠ 0) ∧
    (∀ w, w ∉ s.pool_workers pool → (rebind_workers s pool).worker_flags w = s.worker_flags w) ∧
    (rebind_workers s pool).pool_nr_running = s.pool_nr_running ∧
    (rebind_workers s pool).pool_flags pool &&& POOL_DISASSOCIATED = 0 ∧
    (∀ g : Field, g ≠ .worker_flags → g ≠ .pool_flags → rebind_workers s pool g = s g) ∧
    (s.worker_flags k &&& (WORKER_UNBOUND ||| WORKER_REBOUND) ≠ 0 →
      (worker_set_flags s k f).pool_nr_running = s.pool_nr_running ∧
      (worker_set_flags s k f).worker_flags k &&& (WORKER_UNBOUND ||| WORKER_REBOUND) ≠ 0 ∧
      (worker_clr_flags s k WORKER_PREP).pool_nr_running = s.pool_nr_running ∧
      (worker_clr_flags s k WORKER_PREP).worker_flags k &&&
        (WORKER_UNBOUND ||| WORKER_REBOUND) ≠ 0 ∧
      (wq_worker_running s k).pool_nr_running = s.pool_nr_running ∧
      (wq_worker_running s k).worker_flags = s.worker_flags) := by
  obtain ⟨r1, r2, r3⟩ := rebind_workers_fields s pool
  refine ⟨?_, ?_, ?_, ?_, ?_, r3, ?_⟩
  · intro P hP
    obtain ⟨a1, a2, a3⟩ := unbind_workers_sets cpu_worker_pools s P hP
    refine ⟨a1, a2, ?_⟩
    rw [(unbind_workers_keeps cpu_worker_pools s).1]
    exact a3
  · intro w hw
    have e : (rebind_workers s pool).worker_flags w =
        (s.worker_flags w ||| WORKER_REBOUND) &&& ulong_not WORKER_UNBOUND := by
      rw [r1]
      exact if_pos hw
    rw [e]
    have h8 : ((s.worker_flags w ||| WORKER_REBOUND) &&& ulong_not WORKER_UNBOUND).testBit 8
        = true := by
      rw [Nat.testBit_and, Nat.testBit_or, testBit_ulong_not]
      have : (WORKER_REBOUND).testBit 8 = true := by decide
      have : (WORKER_UNBOUND).testBit 8 = false := by decide
      simp [*]
    have h7 : ((s.worker_flags w ||| WORKER_REBOUND) &&& ulong_not WORKER_UNBOUND).testBit 7
        = false := by
      rw [Nat.testBit_and, Nat.testBit_or, testBit_ulong_not]
      have : (WORKER_UNBOUND).testBit 7 = true := by decide
      simp [*]
    have hre : ((s.worker_flags w ||| WORKER_REBOUND) &&& ulong_not WORKER_UNBOUND) &&&
        WORKER_REBOUND ≠ 0 := (and_bit_ne_zero _ 8).2 h8
    refine ⟨hre, (and_bit_eq_zero _ 7).2 h7, ?_, ?_⟩
    · intro i hi i7 i8
      rw [Nat.testBit_and, Nat.testBit_or, testBit_ulong_not]
      have e1 : (WORKER_REBOUND).testBit i = false := by
        show (1 <<< 8).testBit i = false
        rw [testBit_one_shl]
        simp
        omega
      have e2 : (WORKER_UNBOUND).testBit i = false := by
        show (1 <<< 7).testBit i = false
        rw [testBit_one_shl]
        simp
        omega
      rw [e1, e2]
      simp [hi]
    · apply unbound_not_running
      intro c
      apply hre
      have := (or_and_eq_zero (WORKER_UNBOUND) (WORKER_REBOUND)
        ((s.worker_flags w ||| WORKER_REBOUND) &&& ulong_not WORKER_UNBOUND))
      rw [Nat.land_comm] at c
      have c2 := (this.1 c).2
      rw [Nat.land_comm] at c2
      exact c2
  · intro w hw
    rw [r1]
    exact if_neg hw
  · exact r3 .pool_nr_running (by simp) (by simp)
  · rw [r2, Function.update_same]
    apply (and_bit_eq_zero _ 2).2
    rw [Nat.testBit_and, testBit_ulong_not]
    have : (POOL_DISASSOCIATED).testBit 2 = true := by decide
    simp [this]
  · intro hk
    have hnr := unbound_not_running _ hk
    have hde : WORKER_PREP &&& (WORKER_UNBOUND ||| WORKER_REBOUND) = 0 := by decide
    have hkeep : (s.worker_flags k &&& ulong_not WORKER_PREP) &&&
        (WORKER_UNBOUND ||| WORKER_REBOUND) ≠ 0 := by
      rw [andn_and_of_disjoint _ _ _ (by decide) hde]
      exact hk
    refine ⟨?_, ?_, ?_, ?_, (wq_worker_running_nr_running s k hnr).1,
      (wq_worker_running_nr_running s k hnr).2⟩
    · rw [worker_set_flags_nr_running, if_neg (fun c => hnr c.2)]
    · rw [worker_set_flags_flags, Function.update_same]
      exact or_and_mono _ _ _ hk
    · rw [worker_clr_flags_nr_running, if_neg]
      intro c
      exact unbound_not_running _ hkeep c.2.2
    · rw [worker_clr_flags_flags, Function.update_same]
      exact hkeep

/-- C27 (witness): the CPU of the pool 64, with the workers 16 and 17, goes offline and
comes back. -/
theorem unbind_rebind_workers_contract_witness :
    64 ∈ [64] ∧ 17 ∈ (unbind_workers ex_online_pool [64]).pool_workers 64 ∧
    (unbind_workers ex_online_pool [64]).pool_nr_running 64 = 0 ∧
    (rebind_workers (unbind_workers ex_online_pool [64]) 64).worker_flags 17 &&&
      WORKER_NOT_RUNNING ≠ 0 :=
  ⟨by decide, by decide,
    ((unbind_rebind_workers_contract ex_online_pool [64] 64 0 0).1 64 (by decide)).2.1,
    ((unbind_rebind_workers_contract (unbind_workers ex_online_pool [64]) [] 64 0 0).2.1 17
      (by decide)).2.2.2⟩

/-! ## The manager of a pool -/

/-- Outside the call site of `worker_thread`: in the pool 64 nothing is queued, the only
worker 17 is busy and no worker is idle.  When `manage_workers` is called there and
`create_worker` fails, `maybe_create_worker` returns at once because
`need_to_create_worker` is false, and `manage_workers` returns true with `nr_idle` 0. -/
theorem manage_workers_returns_without_idle_worker :
    ex_no_idle.worker_pool 17 = 64 ∧
    ex_no_idle.pool_flags 64 &&& POOL_MANAGER_ACTIVE = 0 ∧
    ex_no_idle.lists (list_head.worklist 64) = [] ∧ ex_no_idle.pool_nr_idle 64 = 0 ∧
    (maybe_create_worker [none] (manage_workers_begin ex_no_idle 17).2 64).isSome = true ∧
    (manage_workers [none] ex_no_idle 17).map (fun r =>
      (r.1, need_to_create_worker r.2 64, r.2.pool_nr_idle 64, may_start_working r.2 64)) =
      some (true, false, 0, false) := by
  decide

/-! ## Culling idle workers -/

theorem set_worker_dying_frame (s : State) (k : Nat) (g : Field)
    (h1 : g ≠ .pool_nr_workers) (h2 : g ≠ .pool_nr_idle) (h3 : g ≠ .worker_flags)
    (h4 : g ≠ .pool_idle_list) (h5 : g ≠ .worker_link) (h6 : g ≠ .pool_workers)
    (h7 : g ≠ .pool_dying_workers) : set_worker_dying s k g = s g := by
  unfold set_worker_dying
  split_ifs <;> simp [h1, h2, h3, h4, h5, h6, h7]

theorem set_worker_dying_fields (s : State) (k : Nat)
    (h1 : s.worker_current_work k = 0) (h2 : s.lists (list_head.scheduled k) = [])
    (h3 : s.worker_flags k &&& WORKER_IDLE ≠ 0) :
    (set_worker_dying s k).pool_nr_workers =
      Function.update s.pool_nr_workers (s.worker_pool k) (s.pool_nr_workers (s.worker_pool k) - 1) ∧
    (set_worker_dying s k).pool_nr_idle =
      Function.update s.pool_nr_idle (s.worker_pool k) (s.pool_nr_idle (s.worker_pool k) - 1) ∧
    (set_worker_dying s k).worker_flags =
      Function.update s.worker_flags k (s.worker_flags k ||| WORKER_DIE) ∧
    (set_worker_dying s k).pool_idle_list =
      Function.update s.pool_idle_list (s.worker_pool k)
        ((s.pool_idle_list (s.worker_pool k)).erase k) := by
  unfold set_worker_dying
  simp only []
  rw [if_neg (by rw [h1, h2]; simp [h3])]
  simp [State.pool_nr_workers, State.pool_nr_idle, State.worker_flags, State.pool_idle_list,
    State.worker_pool]

theorem too_many_workers_iff (s : State) (pool : Nat) :
    too_many_workers s pool = true ↔
      too_many_workers_nr_idle s pool > 2 ∧
      s.pool_nr_workers pool - too_many_workers_nr_idle s pool ≤
        (too_many_workers_nr_idle s pool - 2) * 4 := by
  simp [too_many_workers, MAX_IDLE_WORKERS_RATIO]

theorem too_many_workers_nr_idle_le (s : State) (pool : Nat) :
    too_many_workers_nr_idle s pool ≤ s.pool_nr_idle pool + 1 ∧
    s.pool_nr_idle pool ≤ too_many_workers_nr_idle s pool := by
  unfold too_many_workers_nr_idle
  split_ifs <;> omega

theorem too_many_workers_nr_idle_congr (s s2 : State) (pool : Nat) (d : Int)
    (h1 : s2.pool_flags = s.pool_flags) (h2 : s2.pool_nr_idle pool = s.pool_nr_idle pool - d) :
    too_many_workers_nr_idle s2 pool = too_many_workers_nr_idle s pool - d := by
  unfold too_many_workers_nr_idle
  rw [h1, h2]
  omega

theorem idle_cull_fn_loop_culled : ∀ (fuel : Nat) (s : State) (pool : Nat) (cl : List Nat),
    IdleOk s pool → (s.pool_idle_list pool).length < fuel →
    ∃ keep culled s2, idle_cull_fn_loop fuel s pool cl = some (s2, culled ++ cl) ∧
      Culled s pool keep culled s2 := by
  intro fuel
  induction fuel with
  | zero => intro s pool cl _ hf; omega
  | succ n ih =>
    intro s pool cl hok hf
    rw [idle_cull_fn_loop]
    by_cases ht : too_many_workers s pool = true
    · rw [if_pos ht]
      have hI := (too_many_workers_iff s pool).1 ht
      have hle := too_many_workers_nr_idle_le s pool
      have hc := hok.count
      have hne : s.pool_idle_list pool ≠ [] := by
        intro e
        rw [e] at hc
        simp at hc
        omega
      obtain ⟨L0, w, hL⟩ : ∃ L0 w, s.pool_idle_list pool = L0 ++ [w] := by
        rcases List.eq_nil_or_concat (s.pool_idle_list pool) with e | ⟨L0, w, e⟩
        · exact absurd e hne
        · exact ⟨L0, w, by rw [e]; simp⟩
      have hlast : (s.pool_idle_list pool).getLastD 0 = w := by rw [hL]; simp
      rw [hlast]
      have hnd : (L0 ++ [w]).Nodup := hL ▸ hok.nodup
      have hw0 : w ∉ L0 := by
        intro hm
        have := (List.nodup_append.1 hnd).2.2
        exact this hm (by simp)
      by_cases hb : time_before s.jiffies (s.worker_last_active w + IDLE_WORKER_TIMEOUT s) = true
      · rw [if_pos hb]
        refine ⟨L0 ++ [w], [], _, rfl, ?_⟩
        refine
          { split := by rw [hL]; simp
            list := by simpa using hL
            nr_idle := by simp
            nr_workers := by simp
            flags := by intro x; simp
            expired := by intro x hx; simp at hx
            many := by intro i hi; simp at hi
            stop := Or.inr ⟨w, by simp, hb, by simp, by simp⟩
            pool_flags := by simp
            jiffies := by simp
            hz := by simp
            last_active := by simp
            others := by intro p hp; simp }
      · rw [if_neg hb]
        have hw := hok.idle w (by rw [hL]; simp)
        rw [if_neg (by rw [hw.2.2.1, hw.2.2.2]; simp [hw.2.1])]
        obtain ⟨f1, f2, f3, f4⟩ := set_worker_dying_fields s w hw.2.2.1 hw.2.2.2 hw.2.1
        rw [hw.1] at f1 f2 f4
        have fr : ∀ g : Field, g ≠ .pool_nr_workers → g ≠ .pool_nr_idle → g ≠ .worker_flags →
            g ≠ .pool_idle_list → g ≠ .worker_link → g ≠ .pool_workers →
            g ≠ .pool_dying_workers → set_worker_dying s w g = s g :=
          fun g => set_worker_dying_frame s w g
        have e_pf : (set_worker_dying s w).pool_flags = s.pool_flags :=
          fr _ (by simp) (by simp) (by simp) (by simp) (by simp) (by simp) (by simp)
        have e_j : (set_worker_dying s w).jiffies = s.jiffies :=
          fr _ (by simp) (by simp) (by simp) (by simp) (by simp) (by simp) (by simp)
        have e_hz : (set_worker_dying s w).HZ = s.HZ :=
          fr _ (by simp) (by simp) (by simp) (by simp) (by simp) (by simp) (by simp)
        have e_la : (set_worker_dying s w).worker_last_active = s.worker_last_active :=
          fr _ (by simp) (by simp) (by simp) (by simp) (by simp) (by simp) (by simp)
        have e_wp : (set_worker_dying s w).worker_pool = s.worker_pool :=
          fr _ (by simp) (by simp) (by simp) (by simp) (by simp) (by simp) (by simp)
        have e_cw : (set_worker_dying s w).worker_current_work = s.worker_current_work :=
          fr _ (by simp) (by simp) (by simp) (by simp) (by simp) (by simp) (by simp)
        have e_ls : (set_worker_dying s w).lists = s.lists :=
          fr _ (by simp) (by simp) (by simp) (by simp) (by simp) (by simp) (by simp)
        have e_list : (set_worker_dying s w).pool_idle_list pool = L0 := by
          rw [f4, Function.update_same, hL, List.erase_append_right _ hw0]
          simp
        have e_ni : (set_worker_dying s w).pool_nr_idle pool = s.pool_nr_idle pool - 1 := by
          rw [f2, Function.update_same]
        have e_nw : (set_worker_dying s w).pool_nr_workers pool = s.pool_nr_workers pool - 1 := by
          rw [f1, Function.update_same]
        have e_I := too_many_workers_nr_idle_congr s _ pool 1 e_pf e_ni
        have hok1 : IdleOk (set_worker_dying s w) pool :=
          { nodup := by rw [e_list]; exact (List.nodup_append.1 hnd).1
            idle := by
              intro x hx
              rw [e_list] at hx
              have hxw : x ≠ w := fun e => hw0 (e ▸ hx)
              have h0 := hok.idle x (by rw [hL]; simp [hx])
              rw [e_wp, e_cw, e_ls, f3, Function.update_noteq hxw]
              exact h0
            count := by
              rw [e_ni, e_list, hc, hL]
              simp }
        obtain ⟨keep, culled, s2, e, c⟩ := ih (set_worker_dying s w) pool (w :: cl) hok1
          (by rw [e_list]; rw [hL] at hf; simp at hf; omega)
        have hsplit : L0 = keep ++ culled := by rw [← e_list]; exact c.split
        have hwc : w ∉ culled := fun hm => hw0 (by rw [hsplit]; simp [hm])
        refine ⟨keep, culled ++ [w], s2, by rw [e]; simp, ?_⟩
        refine
          { split := by rw [hL, hsplit]; simp
            list := c.list
            nr_idle := by rw [c.nr_idle, e_ni]; simp; omega
            nr_workers := by rw [c.nr_workers, e_nw]; simp; omega
            flags := by
              intro x
              rw [c.flags x, f3]
              by_cases hx : x ∈ culled
              · have hxw : x ≠ w := fun e => hwc (e ▸ hx)
                rw [if_pos hx, if_pos (by simp [hx]), Function.update_noteq hxw]
              · rw [if_neg hx]
                by_cases hxw : x = w
                · rw [hxw, Function.update_same, if_pos (by simp)]
                · rw [Function.update_noteq hxw, if_neg (by simp [hx, hxw])]
            expired := by
              intro x hx
              rcases List.mem_append.1 hx with hx | hx
              · have := c.expired x hx
                rw [e_j, e_la, IDLE_WORKER_TIMEOUT, e_hz] at this
                exact this
              · simp only [List.mem_singleton] at hx
                rw [hx]
                simpa using hb
            many := by
              intro i hi
              rcases i with _ | j
              · simpa using hI
              · have := c.many j (by simp at hi; omega)
                rw [e_I, e_nw] at this
                push_cast
                constructor
                · omega
                · omega
            stop := by
              rcases c.stop with h | ⟨x, h1, h2, h3, h4⟩
              · exact Or.inl h
              · refine Or.inr ⟨x, h1, ?_, h3, ?_⟩
                · rw [e_j, e_la, IDLE_WORKER_TIMEOUT, e_hz] at h2
                  exact h2
                · rw [e_la, IDLE_WORKER_TIMEOUT, e_hz] at h4
                  exact h4
            pool_flags := c.pool_flags.trans e_pf
            jiffies := c.jiffies.trans e_j
            hz := c.hz.trans e_hz
            last_active := c.last_active.trans e_la
            others := by
              intro p hp
              obtain ⟨a1, a2, a3⟩ := c.others p hp
              rw [a1, a2, a3, f4, f2, f1, Function.update_noteq hp, Function.update_noteq hp,
                Function.update_noteq hp]
              exact ⟨rfl, rfl, rfl⟩ }
    · rw [if_neg ht]
      refine ⟨s.pool_idle_list pool, [], s, rfl, ?_⟩
      refine
        { split := by simp
          list := rfl
          nr_idle := by simp
          nr_workers := by simp
          flags := by intro x; simp
          expired := by intro x hx; simp at hx
          many := by intro i hi; simp at hi
          stop := Or.inl (by simpa using ht)
          pool_flags := rfl
          jiffies := rfl
          hz := rfl
          last_active := rfl
          others := by intro p hp; exact ⟨rfl, rfl, rfl⟩ }

theorem wake_dying_workers_frame (cl : List Nat) (s : State) (g : Field)
    (h1 : g ≠ .worker_link) (h2 : g ≠ .worker_task_state) : wake_dying_workers s cl g = s g := by
  induction cl generalizing s with
  | nil => rfl
  | cons a l ih =>
    unfold wake_dying_workers at ih ⊢
    rw [List.foldl_cons, ih]
    simp [h1, h2]

theorem time_before_iff (a b : Nat) (ha : a < 2 ^ 63) (hb : b < 2 ^ 63) :
    time_before a b = true ↔ a < b := by
  unfold time_before
  rw [decide_eq_true_eq]
  omega

/-- C24: in a pool whose idle list holds idle workers of the pool, each once and counted by
`nr_idle`, `idle_cull_fn` returns once its loop may run one round more than the idle list is
long.  The workers it marks `WORKER_DIE` are exactly a suffix `culled` of the idle list, which
it takes off the list, and no other worker has its flags changed; every marked worker had an
expired timeout when the function was entered, and the worker marked after `i` others was
marked while `too_many_workers` held, that is with `nr_idle - i > 2` and
`nr_busy ≤ (nr_idle - i - 2) * 4` for the `nr_idle` that counts an active manager; the loop
stops when `too_many_workers` fails or at a last worker whose timeout has not expired, for
which it arms the idle timer; `nr_workers` and `nr_idle` go down by the number of marked
workers, and when a worker was marked at least two idle workers are left, an active manager
counted.  When the idle list is ordered most recently idled first and the times do not wrap,
the marked workers have been idle for `IDLE_WORKER_TIMEOUT` or more and, when the loop
stopped at a worker, no worker left on the list has. -/
theorem idle_cull_fn_culls_expired_tail (s : State) (pool fuel : Nat)
    (hok : IdleOk s pool) (hfuel : (s.pool_idle_list pool).length < fuel) :
    ∃ keep culled s2,
      idle_cull_fn fuel s pool = some (s2, culled) ∧
      s.pool_idle_list pool = keep ++ culled ∧
      s2.pool_idle_list pool = keep ∧
      (∀ w, s2.worker_flags w =
        if w ∈ culled then s.worker_flags w ||| WORKER_DIE else s.worker_flags w) ∧
      (∀ w ∈ culled,
        time_before s.jiffies (s.worker_last_active w + IDLE_WORKER_TIMEOUT s) = false) ∧
      (∀ i : Nat, i < culled.length →
        too_many_workers_nr_idle s pool - (i : Int) > 2 ∧
        s.pool_nr_workers pool - too_many_workers_nr_idle s pool ≤
          (too_many_workers_nr_idle s pool - (i : Int) - 2) * 4) ∧
      (too_many_workers s2 pool = false ∨
        ∃ w, keep.getLast? = some w ∧
          time_before s.jiffies (s.worker_last_active w + IDLE_WORKER_TIMEOUT s) = true ∧
          s2.pool_idle_timer_pending pool = true ∧
          s2.pool_idle_timer_expires pool = s.worker_last_active w + IDLE_WORKER_TIMEOUT s) ∧
      s2.pool_nr_workers pool = s.pool_nr_workers pool - (culled.length : Int) ∧
      s2.pool_nr_idle pool = s.pool_nr_idle pool - (culled.length : Int) ∧
      (culled ≠ [] → 2 ≤ too_many_workers_nr_idle s2 pool) ∧
      (s.jiffies < 2 ^ 63 →
        (∀ w ∈ s.pool_idle_list pool,
          s.worker_last_active w + IDLE_WORKER_TIMEOUT s < 2 ^ 63) →
        (s.pool_idle_list pool).Pairwise
          (fun a b => s.worker_last_active b ≤ s.worker_last_active a) →
        (∀ w ∈ culled, s.worker_last_active w + IDLE_WORKER_TIMEOUT s ≤ s.jiffies) ∧
        (too_many_workers s2 pool = false ∨
          ∀ w ∈ keep, s.jiffies < s.worker_last_active w + IDLE_WORKER_TIMEOUT s)) := by
  obtain ⟨keep, culled, s2, e, c⟩ := idle_cull_fn_loop_culled fuel s pool [] hok hfuel
  rw [List.append_nil] at e
  have fr : ∀ g : Field, g ≠ .worker_link → g ≠ .worker_task_state →
      wake_dying_workers s2 culled g = s2 g := fun g => wake_dying_workers_frame culled s2 g
  have e_il : (wake_dying_workers s2 culled).pool_idle_list = s2.pool_idle_list :=
    fr _ (by simp) (by simp)
  have e_wf : (wake_dying_workers s2 culled).worker_flags = s2.worker_flags :=
    fr _ (by simp) (by simp)
  have e_nw : (wake_dying_workers s2 culled).pool_nr_workers = s2.pool_nr_workers :=
    fr _ (by simp) (by simp)
  have e_ni : (wake_dying_workers s2 culled).pool_nr_idle = s2.pool_nr_idle :=
    fr _ (by simp) (by simp)
  have e_pf : (wake_dying_workers s2 culled).pool_flags = s2.pool_flags :=
    fr _ (by simp) (by simp)
  have e_tp : (wake_dying_workers s2 culled).pool_idle_timer_pending =
      s2.pool_idle_timer_pending := fr _ (by simp) (by simp)
  have e_te : (wake_dying_workers s2 culled).pool_idle_timer_expires =
      s2.pool_idle_timer_expires := fr _ (by simp) (by simp)
  have e_I : too_many_workers_nr_idle (wake_dying_workers s2 culled) pool =
      too_many_workers_nr_idle s2 pool := by
    unfold too_many_workers_nr_idle
    rw [e_ni, e_pf]
  have e_tm : too_many_workers (wake_dying_workers s2 culled) pool = too_many_workers s2 pool := by
    unfold too_many_workers
    rw [e_I, e_nw]
  have hI2 := too_many_workers_nr_idle_congr s s2 pool _ c.pool_flags c.nr_idle
  have hstop : too_many_workers (wake_dying_workers s2 culled) pool = false ∨
      ∃ w, keep.getLast? = some w ∧
        time_before s.jiffies (s.worker_last_active w + IDLE_WORKER_TIMEOUT s) = true ∧
        (wake_dying_workers s2 culled).pool_idle_timer_pending pool = true ∧
        (wake_dying_workers s2 culled).pool_idle_timer_expires pool =
          s.worker_last_active w + IDLE_WORKER_TIMEOUT s := by
    rw [e_tm, e_tp, e_te]
    exact c.stop
  refine ⟨keep, culled, wake_dying_workers s2 culled, ?_, c.split, ?_, ?_, c.expired, c.many,
    hstop, ?_, ?_, ?_, ?_⟩
  · unfold idle_cull_fn
    rw [e]
  · rw [e_il]; exact c.list
  · rw [e_wf]; exact c.flags
  · rw [e_nw]; exact c.nr_workers
  · rw [e_ni]; exact c.nr_idle
  · intro hne
    rw [e_I, hI2]
    have hpos : 0 < culled.length := List.length_pos.2 hne
    have := (c.many (culled.length - 1) (by omega)).1
    omega
  · intro hj hla hord
    have hex : ∀ w ∈ culled, s.worker_last_active w + IDLE_WORKER_TIMEOUT s ≤ s.jiffies := by
      intro w hw
      have h1 := c.expired w hw
      have h2 := time_before_iff s.jiffies _ hj (hla w (by rw [c.split]; simp [hw]))
      by_contra hlt
      rw [h2.2 (by omega)] at h1
      exact Bool.noConfusion h1
    refine ⟨hex, ?_⟩
    rcases hstop with h | ⟨w, h1, h2, _, _⟩
    · exact Or.inl h
    · right
      intro x hx
      obtain ⟨k0, hk0⟩ : ∃ k0, keep = k0 ++ [w] := by
        rcases List.eq_nil_or_concat keep with e0 | ⟨k0, y, e0⟩
        · rw [e0] at h1; simp at h1
        · rw [e0] at h1
          simp at h1
          exact ⟨k0, by rw [e0, h1]; simp⟩
      have hwk : w ∈ keep := by rw [hk0]; simp
      have h3 := (time_before_iff s.jiffies _ hj (hla w (by rw [c.split]; simp [hwk]))).1 h2
      by_cases hxw : x = w
      · rw [hxw]; exact h3
      · have hk : keep.Pairwise (fun a b => s.worker_last_active b ≤ s.worker_last_active a) := by
          rw [c.split] at hord
          exact (List.pairwise_append.1 hord).1
        rw [hk0] at hk hx
        have hx0 : x ∈ k0 := by
          rcases List.mem_append.1 hx with h | h
          · exact h
          · simp only [List.mem_singleton] at h
            exact absurd h hxw
        have := (List.pairwise_append.1 hk).2.2 x hx0 w (by simp)
        omega

theorem ex_idle_pool_ok : IdleOk ex_idle_pool 64 :=
  { nodup := by decide
    idle := by decide
    count := by decide }

/-- C24 (witness): the pool 64 with the idle workers 16 to 20, whose loop may run six
rounds. -/
theorem idle_cull_fn_culls_expired_tail_witness :
    IdleOk ex_idle_pool 64 ∧ (ex_idle_pool.pool_idle_list 64).length < 6 ∧
    ∃ keep culled s2,
      idle_cull_fn 6 ex_idle_pool 64 = some (s2, culled) ∧
      ex_idle_pool.pool_idle_list 64 = keep ++ culled ∧
      s2.pool_idle_list 64 = keep :=
  ⟨ex_idle_pool_ok, by decide, by
    obtain ⟨k, c, s2, h1, h2, h3, _⟩ :=
      idle_cull_fn_culls_expired_tail ex_idle_pool 64 6 ex_idle_pool_ok (by decide)
    exact ⟨k, c, s2, h1, h2, h3⟩⟩

/-! ## References held by in-flight items -/

theorem sum_range_update (f : Int → Int) (c v : Int) (h0 : 0 ≤ c) (h1 : c < 16) :
    ((List.range 16).map (fun k : Nat => Function.update f c v (k : Int))).sum =
      ((List.range 16).map (fun k : Nat => f (k : Int))).sum + (v - f c) := by
  obtain ⟨n, rfl⟩ := Int.eq_ofNat_of_zero_le h0
  have hn : n < 16 := by omega
  interval_cases n <;> simp [List.range_succ, Function.update_apply] <;> omega

theorem nr_in_flight_sum_update (s s2 : State) (pwq : Nat) (c v : Int) (h0 : 0 ≤ c)
    (h1 : c < 16)
    (e : s2.pwq_nr_in_flight = Function.update s.pwq_nr_in_flight pwq
      (Function.update (s.pwq_nr_in_flight pwq) c v)) (p : Nat) :
    nr_in_flight_sum s2 p =
      nr_in_flight_sum s p + (if p = pwq then v - s.pwq_nr_in_flight pwq c else 0) := by
  unfold nr_in_flight_sum
  rw [e]
  by_cases hp : p = pwq
  · rw [hp, if_pos rfl, Function.update_same]
    exact sum_range_update _ c v h0 h1
  · rw [if_neg hp, Function.update_noteq hp]
    simp

theorem pwq_slack_both (s s2 : State) (pwq : Nat) (c d : Int) (h0 : 0 ≤ c) (h1 : c < 16)
    (e1 : s2.pwq_nr_in_flight = Function.update s.pwq_nr_in_flight pwq
      (Function.update (s.pwq_nr_in_flight pwq) c (s.pwq_nr_in_flight pwq c + d)))
    (e2 : s2.pwq_refcnt = Function.update s.pwq_refcnt pwq (s.pwq_refcnt pwq + d)) (p : Nat) :
    pwq_slack s2 p = pwq_slack s p := by
  unfold pwq_slack
  rw [nr_in_flight_sum_update s s2 pwq c _ h0 h1 e1 p, e2]
  by_cases hp : p = pwq
  · rw [hp, if_pos rfl, Function.update_same]
    omega
  · rw [if_neg hp, Function.update_noteq hp]
    omega

theorem pwq_slack_congr (s s2 : State) (e1 : s2.pwq_nr_in_flight = s.pwq_nr_in_flight)
    (e2 : s2.pwq_refcnt = s.pwq_refcnt) (p : Nat) : pwq_slack s2 p = pwq_slack s p := by
  unfold pwq_slack nr_in_flight_sum
  rw [e1, e2]

theorem put_pwq_refcnt (s : State) (pwq : Nat) :
    (put_pwq s pwq).pwq_refcnt = Function.update s.pwq_refcnt pwq (s.pwq_refcnt pwq - 1) := by
  unfold put_pwq
  split_ifs <;> simp [State.pwq_refcnt]

theorem put_pwq_release_work (s : State) (pwq : Nat) :
    (put_pwq s pwq).pwq_release_work =
      if s.pwq_refcnt pwq - 1 = 0 then Function.update s.pwq_release_work pwq true
      else s.pwq_release_work := by
  unfold put_pwq
  split_ifs <;> simp_all [State.pwq_release_work]

theorem pwq_dec_nr_in_flight_counts (s : State) (pwq data : Nat) :
    (pwq_dec_nr_in_flight s pwq data).pwq_refcnt =
      Function.update s.pwq_refcnt pwq (s.pwq_refcnt pwq - 1) ∧
    (pwq_dec_nr_in_flight s pwq data).pwq_nr_in_flight =
      Function.update s.pwq_nr_in_flight pwq
        (Function.update (s.pwq_nr_in_flight pwq) (get_work_color data)
          (s.pwq_nr_in_flight pwq (get_work_color data) - 1)) ∧
    (pwq_dec_nr_in_flight s pwq data).pwq_release_work =
      if s.pwq_refcnt pwq - 1 = 0 then Function.update s.pwq_release_work pwq true
      else s.pwq_release_work := by
  unfold pwq_dec_nr_in_flight
  simp only []
  have a1 : (pwq_dec_nr_active s pwq data).pwq_nr_in_flight = s.pwq_nr_in_flight :=
    pwq_dec_nr_active_frame s pwq data _ (by simp) (by simp) (by simp) (by simp) (by simp)
  have a2 : (pwq_dec_nr_active s pwq data).pwq_refcnt = s.pwq_refcnt :=
    pwq_dec_nr_active_frame s pwq data _ (by simp) (by simp) (by simp) (by simp) (by simp)
  have a3 : (pwq_dec_nr_active s pwq data).pwq_release_work = s.pwq_release_work :=
    pwq_dec_nr_active_frame s pwq data _ (by simp) (by simp) (by simp) (by simp) (by simp)
  rw [put_pwq_refcnt, put_pwq_release_work]
  simp [State.pwq_refcnt, State.pwq_nr_in_flight, State.pwq_release_work] at a1 a2 a3 ⊢

theorem pwq_dec_nr_in_flight_slack (s : State) (pwq data p : Nat) :
    pwq_slack (pwq_dec_nr_in_flight s pwq data) p = pwq_slack s p := by
  obtain ⟨e1, e2, _⟩ := pwq_dec_nr_in_flight_counts s pwq data
  obtain ⟨c0, c1⟩ := get_work_color_lt data
  exact pwq_slack_both s _ pwq (get_work_color data) (-1) c0 c1 e2 e1 p

theorem insert_work_nr_in_flight (s : State) (p w : Nat) (n : list_node) (f : Nat) :
    (insert_work s p w n f).pwq_nr_in_flight = s.pwq_nr_in_flight :=
  insert_work_frame s p w n f _ (by simp) (by simp) (by simp) (by simp)

theorem __queue_work_insert_slack (s : State) (pwq work p : Nat)
    (h0 : 0 ≤ s.pwq_work_color pwq) (h1 : s.pwq_work_color pwq < 16) :
    pwq_slack (__queue_work_insert s pwq work) p = pwq_slack s p := by
  by_cases he : s.work_entry work = none
  · obtain ⟨e1, e2, _⟩ := __queue_work_insert_spec s pwq work he
    exact pwq_slack_both s _ pwq (s.pwq_work_color pwq) 1 h0 h1 e1 e2 p
  · have : __queue_work_insert s pwq work = s := by
      unfold __queue_work_insert
      rw [if_pos]
      simp [list_empty_entry]
      cases h : s.work_entry work
      · exact absurd h he
      · simp
    rw [this]

theorem insert_wq_barrier_slack (s : State) (pwq barr target worker p : Nat)
    (h : worker ≠ 0 →
      0 ≤ s.worker_current_color worker ∧ s.worker_current_color worker < 16) :
    pwq_slack (insert_wq_barrier s pwq barr target worker) p = pwq_slack s p := by
  have b1 : (__set_bit (INIT_WORK_ONSTACK s barr wq_barrier_func) WORK_STRUCT_PENDING_BIT
      barr).pwq_nr_in_flight = s.pwq_nr_in_flight := by simp [__set_bit]
  have b2 : (__set_bit (INIT_WORK_ONSTACK s barr wq_barrier_func) WORK_STRUCT_PENDING_BIT
      barr).pwq_refcnt = s.pwq_refcnt := by simp [__set_bit]
  have b3 : (__set_bit (INIT_WORK_ONSTACK s barr wq_barrier_func) WORK_STRUCT_PENDING_BIT
      barr).worker_current_color = s.worker_current_color := by simp [__set_bit]
  unfold insert_wq_barrier
  simp only []
  by_cases hw : worker ≠ 0
  · rw [if_pos hw]
    obtain ⟨c0, c1⟩ := h hw
    refine pwq_slack_both s _ pwq (s.worker_current_color worker) 1 c0 c1 ?_ ?_ p
    · rw [insert_work_nr_in_flight, b3]
      simp [State.pwq_nr_in_flight] at b1 ⊢
    · rw [insert_work_refcnt]
      simp [State.pwq_refcnt] at b2 ⊢
  · rw [if_neg hw]
    obtain ⟨c0, c1⟩ := get_work_color_lt (work_data_bits
      (__set_bit (INIT_WORK_ONSTACK s barr wq_barrier_func) WORK_STRUCT_PENDING_BIT barr) target)
    refine pwq_slack_both s _ pwq _ 1 c0 c1 ?_ ?_ p
    · rw [insert_work_nr_in_flight]
      simp [State.pwq_nr_in_flight, __set_bit] at b1 ⊢
    · rw [insert_work_refcnt]
      simp [State.pwq_refcnt, __set_bit] at b2 ⊢

theorem try_to_grab_pending_steal_slack (s : State) (work pool pwq p : Nat) :
    pwq_slack (try_to_grab_pending_steal s work pool pwq) p = pwq_slack s p := by
  have h2 : ∀ u : State, pwq_slack
      (if work_data_bits u work &&& WORK_STRUCT_INACTIVE ≠ 0 then
        pwq_activate_inactive_work u work else u) p = pwq_slack u p := by
    intro u
    split_ifs
    · exact pwq_slack_congr u (pwq_activate_inactive_work u work) (by simp) (by simp) p
    · rfl
  have h3 : ∀ u : State, pwq_slack (list_del_init u work) p = pwq_slack u p := fun u =>
    pwq_slack_congr u (list_del_init u work) (by simp [list_del_init]) (by simp [list_del_init]) p
  have h4 : ∀ (u : State) (i : Int),
      pwq_slack (set_work_pool_and_keep_pending u work i) p = pwq_slack u p := fun u i =>
    pwq_slack_congr u (set_work_pool_and_keep_pending u work i)
      (by simp [set_work_pool_and_keep_pending]) (by simp [set_work_pool_and_keep_pending]) p
  unfold try_to_grab_pending_steal
  simp only []
  rw [h4, pwq_dec_nr_in_flight_slack, h3, h2]

theorem process_one_work_end_slack (s : State) (worker p : Nat) :
    pwq_slack (process_one_work_end s worker) p = pwq_slack s p := by
  unfold process_one_work_end
  simp only []
  rw [pwq_dec_nr_in_flight_slack]
  unfold pwq_slack nr_in_flight_sum
  simp

theorem nr_in_flight_sum_pos (s : State) (pwq : Nat)
    (h0 : ∀ c : Nat, c < 16 → 0 ≤ s.pwq_nr_in_flight pwq (c : Int))
    (h1 : ∃ c : Nat, c < 16 ∧ s.pwq_nr_in_flight pwq (c : Int) ≠ 0) :
    1 ≤ nr_in_flight_sum s pwq := by
  obtain ⟨c, hc, hne⟩ := h1
  unfold nr_in_flight_sum
  have a0 := h0 0 (by decide)
  have a1 := h0 1 (by decide)
  have a2 := h0 2 (by decide)
  have a3 := h0 3 (by decide)
  have a4 := h0 4 (by decide)
  have a5 := h0 5 (by decide)
  have a6 := h0 6 (by decide)
  have a7 := h0 7 (by decide)
  have a8 := h0 8 (by decide)
  have a9 := h0 9 (by decide)
  have a10 := h0 10 (by decide)
  have a11 := h0 11 (by decide)
  have a12 := h0 12 (by decide)
  have a13 := h0 13 (by decide)
  have a14 := h0 14 (by decide)
  have a15 := h0 15 (by decide)
  simp [List.range_succ] at a0 a1 a2 a3 a4 a5 a6 a7 a8 a9 a10 a11 a12 a13 a14 a15 ⊢
  interval_cases c <;> simp at hne <;> omega

/-- C30: `insert_work` adds one to `refcnt` of the pool_workqueue and leaves the
`nr_in_flight` counters alone, and `pwq_dec_nr_in_flight` takes one from `refcnt` and one
from the counter of the colour of the item; so `refcnt` minus the sum of the `nr_in_flight`
counters of any pool_workqueue is the same after the queueing part of `__queue_work` (with a
valid `work_color`), after `insert_wq_barrier` (behind a running item with a valid colour, or
behind a queued item), after a steal by `try_to_grab_pending` and after the end of
`process_one_work`.  Hence, where that difference is not negative and no counter is, a
pool_workqueue with a non-zero counter has a positive `refcnt`; a `put_pwq` of a reference
that no in-flight item accounts for leaves `refcnt` non-zero and schedules no release, and so
does `pwq_dec_nr_in_flight` when a counter is non-zero after it.  `put_pwq` takes one from
`refcnt` and queues the release work exactly when the new `refcnt` is zero. -/
theorem in_flight_items_pin_pwq (s : State) (pwq work barr target worker pool data extra : Nat)
    (head : list_node) :
    ((insert_work s pwq work head extra).pwq_refcnt =
        Function.update s.pwq_refcnt pwq (s.pwq_refcnt pwq + 1) ∧
      (insert_work s pwq work head extra).pwq_nr_in_flight = s.pwq_nr_in_flight) ∧
    ((pwq_dec_nr_in_flight s pwq data).pwq_refcnt =
        Function.update s.pwq_refcnt pwq (s.pwq_refcnt pwq - 1) ∧
      (pwq_dec_nr_in_flight s pwq data).pwq_nr_in_flight =
        Function.update s.pwq_nr_in_flight pwq
          (Function.update (s.pwq_nr_in_flight pwq) (get_work_color data)
            (s.pwq_nr_in_flight pwq (get_work_color data) - 1))) ∧
    (0 ≤ s.pwq_work_color pwq ∧ s.pwq_work_color pwq < 16 →
      ∀ p, pwq_slack (__queue_work_insert s pwq work) p = pwq_slack s p) ∧
    ((worker ≠ 0 →
        0 ≤ s.worker_current_color worker ∧ s.worker_current_color worker < 16) →
      ∀ p, pwq_slack (insert_wq_barrier s pwq barr target worker) p = pwq_slack s p) ∧
    (∀ p, pwq_slack (try_to_grab_pending_steal s work pool pwq) p = pwq_slack s p) ∧
    (∀ p, pwq_slack (process_one_work_end s worker) p = pwq_slack s p) ∧
    ((∀ c : Nat, c < 16 → 0 ≤ s.pwq_nr_in_flight pwq (c : Int)) →
      (∃ c : Nat, c < 16 ∧ s.pwq_nr_in_flight pwq (c : Int) ≠ 0) →
      (0 ≤ pwq_slack s pwq → 0 < s.pwq_refcnt pwq) ∧
      (1 ≤ pwq_slack s pwq →
        (put_pwq s pwq).pwq_refcnt pwq ≠ 0 ∧
        (put_pwq s pwq).pwq_release_work = s.pwq_release_work)) ∧
    (0 ≤ pwq_slack s pwq →
      (∀ c : Nat, c < 16 → 0 ≤ (pwq_dec_nr_in_flight s pwq data).pwq_nr_in_flight pwq (c : Int)) →
      (∃ c : Nat, c < 16 ∧ (pwq_dec_nr_in_flight s pwq data).pwq_nr_in_flight pwq (c : Int) ≠ 0) →
      (pwq_dec_nr_in_flight s pwq data).pwq_refcnt pwq ≠ 0 ∧
      (pwq_dec_nr_in_flight s pwq data).pwq_release_work = s.pwq_release_work) ∧
    ((put_pwq s pwq).pwq_refcnt = Function.update s.pwq_refcnt pwq (s.pwq_refcnt pwq - 1) ∧
      (put_pwq s pwq).pwq_release_work =
        if (put_pwq s pwq).pwq_refcnt pwq = 0 then Function.update s.pwq_release_work pwq true
        else s.pwq_release_work) := by
  obtain ⟨d1, d2, d3⟩ := pwq_dec_nr_in_flight_counts s pwq data
  refine ⟨⟨insert_work_refcnt s pwq work head extra, insert_work_nr_in_flight s pwq work head extra⟩,
    ⟨d1, d2⟩, ?_, ?_, ?_, ?_, ?_, ?_, ?_⟩
  · intro h p
    exact __queue_work_insert_slack s pwq work p h.1 h.2
  · intro h p
    exact insert_wq_barrier_slack s pwq barr target worker p h
  · intro p
    exact try_to_grab_pending_steal_slack s work pool pwq p
  · intro p
    exact process_one_work_end_slack s worker p
  · intro h0 h1
    have hs := nr_in_flight_sum_pos s pwq h0 h1
    unfold pwq_slack
    refine ⟨fun h => by omega, fun h => ?_⟩
    rw [put_pwq_refcnt, put_pwq_release_work, Function.update_same, if_neg (by omega)]
    exact ⟨by omega, rfl⟩
  · intro h h0 h1
    have hs := nr_in_flight_sum_pos (pwq_dec_nr_in_flight s pwq data) pwq h0 h1
    have hk := pwq_dec_nr_in_flight_slack s pwq data pwq
    unfold pwq_slack at hk h
    rw [d1, Function.update_same] at hk
    rw [d1, d3, Function.update_same, if_neg (by omega)]
    exact ⟨by omega, rfl⟩
  · rw [put_pwq_refcnt, put_pwq_release_work, Function.update_same]
    exact ⟨rfl, rfl⟩

/-- C30 (witness): the pool_workqueue 256 holds the base reference and two in-flight items;
the reference that is put is the base reference. -/
theorem in_flight_items_pin_pwq_witness :
    (∀ c : Nat, c < 16 → 0 ≤ ex_pinned.pwq_nr_in_flight 256 (c : Int)) ∧
    (∃ c : Nat, c < 16 ∧ ex_pinned.pwq_nr_in_flight 256 (c : Int) ≠ 0) ∧
    1 ≤ pwq_slack ex_pinned 256 ∧
    (put_pwq ex_pinned 256).pwq_refcnt 256 ≠ 0 ∧
    (put_pwq ex_pinned 256).pwq_release_work = ex_pinned.pwq_release_work :=
  ⟨by decide, ⟨3, by decide, by decide⟩, by decide,
    ((in_flight_items_pin_pwq ex_pinned 256 0 0 0 0 0 0 0 (list_node.item 0)).2.2.2.2.2.2.1
      (by decide) ⟨3, by decide, by decide⟩).2 (by decide)⟩

/-! ## Inactive items and the capacity of a pool_workqueue -/

theorem card_filter_imp (f f2 : Nat → Bool) (D : Finset Nat)
    (h : ∀ x, f2 x = true → f x = true) :
    (D.filter (fun x => f2 x = true)).card ≤ (D.filter (fun x => f x = true)).card := by
  apply Finset.card_le_card
  intro x hx
  rw [Finset.mem_filter] at hx ⊢
  exact ⟨hx.1, h x hx.2⟩

theorem card_filter_add_one (f f2 : Nat → Bool) (D : Finset Nat) (w : Nat)
    (h : ∀ x, x ≠ w → f2 x = true → f x = true) :
    (D.filter (fun x => f2 x = true)).card ≤ (D.filter (fun x => f x = true)).card + 1 := by
  have hs : D.filter (fun x => f2 x = true) ⊆ insert w (D.filter (fun x => f x = true)) := by
    intro x hx
    rw [Finset.mem_filter] at hx
    rw [Finset.mem_insert, Finset.mem_filter]
    by_cases hxw : x = w
    · exact Or.inl hxw
    · exact Or.inr ⟨hx.1, h x hxw hx.2⟩
  exact (Finset.card_le_card hs).trans (Finset.card_insert_le _ _)

theorem card_filter_remove (f f2 : Nat → Bool) (D : Finset Nat) (w : Nat)
    (hw : f w = true) (hw2 : f2 w = false)
    (h : ∀ x, x ≠ w → f2 x = true → f x = true) :
    (D.filter (fun x => f2 x = true)).card + 1 ≤
      ((insert w D).filter (fun x => f x = true)).card := by
  have hs : insert w (D.filter (fun x => f2 x = true)) ⊆
      (insert w D).filter (fun x => f x = true) := by
    intro x hx
    rw [Finset.mem_insert, Finset.mem_filter] at hx
    rw [Finset.mem_filter, Finset.mem_insert]
    rcases hx with e | ⟨hx, hf⟩
    · rw [e]; exact ⟨Or.inl rfl, hw⟩
    · have hxw : x ≠ w := by
        intro e
        rw [e, hw2] at hf
        exact Bool.noConfusion hf
      exact ⟨Or.inr hx, h x hxw hf⟩
  have hn : w ∉ D.filter (fun x => f2 x = true) := by
    intro hm
    rw [Finset.mem_filter, hw2] at hm
    exact Bool.noConfusion hm.2
  rw [← Finset.card_insert_of_not_mem hn]
  exact Finset.card_le_card hs

/-- The slots of a ledger whose items and workers hold no more than those of another. -/
theorem slots_le (a a2 : Acc) (p : Nat) (D K : Finset Nat)
    (h1 : ∀ x, a2.holds_item p x = true → a.holds_item p x = true)
    (h2 : ∀ k, a2.holds_run p k = true → a.holds_run p k = true) :
    a2.slots p D K ≤ a.slots p D K :=
  Nat.add_le_add (card_filter_imp _ _ D h1) (card_filter_imp _ _ K h2)

theorem slots_item_add (a a2 : Acc) (p : Nat) (D K : Finset Nat) (w : Nat)
    (h1 : ∀ x, x ≠ w → a2.holds_item p x = true → a.holds_item p x = true)
    (h2 : ∀ k, a2.holds_run p k = true → a.holds_run p k = true) :
    a2.slots p D K ≤ a.slots p D K + 1 := by
  have := card_filter_add_one (a.holds_item p) (a2.holds_item p) D w h1
  have := card_filter_imp (a.holds_run p) (a2.holds_run p) K h2
  unfold Acc.slots
  omega

theorem slots_item_remove (a a2 : Acc) (p : Nat) (D K : Finset Nat) (w : Nat)
    (hw : a.holds_item p w = true) (hw2 : a2.holds_item p w = false)
    (h1 : ∀ x, x ≠ w → a2.holds_item p x = true → a.holds_item p x = true)
    (h2 : ∀ k, a2.holds_run p k = true → a.holds_run p k = true) :
    a2.slots p D K + 1 ≤ a.slots p (insert w D) K := by
  have := card_filter_remove (a.holds_item p) (a2.holds_item p) D w hw hw2 h1
  have := card_filter_imp (a.holds_run p) (a2.holds_run p) K h2
  unfold Acc.slots
  omega

theorem slots_run_remove (a a2 : Acc) (p : Nat) (D K : Finset Nat) (k : Nat)
    (hk : a.holds_run p k = true) (hk2 : a2.holds_run p k = false)
    (h1 : ∀ x, a2.holds_item p x = true → a.holds_item p x = true)
    (h2 : ∀ j, j ≠ k → a2.holds_run p j = true → a.holds_run p j = true) :
    a2.slots p D K + 1 ≤ a.slots p D (insert k K) := by
  have := card_filter_remove (a.holds_run p) (a2.holds_run p) K k hk hk2 h2
  have := card_filter_imp (a.holds_item p) (a2.holds_item p) D h1
  unfold Acc.slots
  omega

theorem slots_start (a a2 : Acc) (p : Nat) (D K : Finset Nat) (w k : Nat)
    (hw : a.holds_item p w = true) (hw2 : a2.holds_item p w = false)
    (h1 : ∀ x, x ≠ w → a2.holds_item p x = true → a.holds_item p x = true)
    (h2 : ∀ j, j ≠ k → a2.holds_run p j = true → a.holds_run p j = true) :
    a2.slots p D K ≤ a.slots p (insert w D) K := by
  have := card_filter_remove (a.holds_item p) (a2.holds_item p) D w hw hw2 h1
  have := card_filter_add_one (a.holds_run p) (a2.holds_run p) K k h2
  unfold Acc.slots
  omega

theorem holds_item_update (a : Acc) (p w : Nat) (v : Option Item) (f : Nat → Option Item)
    (hf : f = Function.update a.item w v) (b : Acc) (hb : b.item = f) (x : Nat) (hx : x ≠ w) :
    b.holds_item p x = a.holds_item p x := by
  unfold Acc.holds_item
  rw [hb, hf, Function.update_noteq hx]

theorem holds_run_update (a : Acc) (p k : Nat) (v : Option Run) (b : Acc)
    (hb : b.run = Function.update a.run k v) (j : Nat) (hj : j ≠ k) :
    b.holds_run p j = a.holds_run p j := by
  unfold Acc.holds_run
  rw [hb, Function.update_noteq hj]

/-- The slots depend on the items and the workers only. -/
theorem slots_congr (a b : Acc) (h1 : b.item = a.item) (h2 : b.run = a.run) (p : Nat)
    (D K : Finset Nat) : b.slots p D K = a.slots p D K := by
  unfold Acc.slots Acc.holds_item Acc.holds_run
  rw [h1, h2]

theorem SlotsCounted_congr (a b : Acc) (h1 : b.item = a.item) (h2 : b.run = a.run)
    (h3 : b.nr_active = a.nr_active) (h : SlotsCounted a) : SlotsCounted b := by
  intro p D K
  rw [slots_congr a b h1 h2, h3]
  exact h p D K

/-- One round of activation keeps the slots counted. -/
theorem settle_counted (b : Acc) (p2 : Nat) (ht : ListsTyped b) (h : SlotsCounted b) :
    SlotsCounted (b.settle p2) := by
  rcases settle_spec b p2 with ⟨e, _⟩ | ⟨x, l, hL, _, e⟩
  · rw [e]; exact h
  · rw [e]
    intro p D K
    have hx : x ∈ b.inactive p2 := by rw [hL]; exact List.mem_cons_self _ _
    have hrun : ∀ k, Acc.holds_run { b with
        inactive := Function.update b.inactive p2 (l.dropWhile b.is_barrier)
        item := Function.update b.item x ((b.item x).map (fun it => { it with inact := false }))
        nr_active := Function.update b.nr_active p2 (b.nr_active p2 + 1) } p k = true →
        b.holds_run p k = true := fun k hk => hk
    have hitem : ∀ y, y ≠ x → Acc.holds_item { b with
        inactive := Function.update b.inactive p2 (l.dropWhile b.is_barrier)
        item := Function.update b.item x ((b.item x).map (fun it => { it with inact := false }))
        nr_active := Function.update b.nr_active p2 (b.nr_active p2 + 1) } p y = true →
        b.holds_item p y = true := by
      intro y hy hh
      rw [holds_item_update b p x _ _ rfl _ rfl y hy] at hh
      exact hh
    by_cases hp : p = p2
    · subst hp
      have := slots_item_add b _ p D K x hitem hrun
      have := h p D K
      show _ ≤ Function.update b.nr_active p _ p
      rw [Function.update_same]
      omega
    · have hxp : Acc.holds_item { b with
          inactive := Function.update b.inactive p2 (l.dropWhile b.is_barrier)
          item := Function.update b.item x ((b.item x).map (fun it => { it with inact := false }))
          nr_active := Function.update b.nr_active p2 (b.nr_active p2 + 1) } p x = false := by
        unfold Acc.holds_item
        show (match Function.update b.item x _ x with
          | some it => decide (it.pwq = p) && !it.inact
          | none => false) = false
        rw [Function.update_same]
        cases hi : b.item x with
        | none => rfl
        | some it =>
          have := ht p2 x hx it hi
          show (decide (it.pwq = p) && _) = false
          rw [this]
          simp [Ne.symm hp]
      have hle := slots_le b _ p D K (fun y hy => by
        by_cases hyx : y = x
        · rw [hyx, hxp] at hy; exact Bool.noConfusion hy
        · exact hitem y hyx hy) hrun
      have := h p D K
      show _ ≤ Function.update b.nr_active p2 _ p
      rw [Function.update_noteq hp]
      omega

theorem dec_counted_inact (b : Acc) (p : Nat) (c : Int) (h : SlotsCounted b) :
    SlotsCounted (b.dec p c true) := by
  unfold Acc.dec
  rw [if_pos rfl]
  exact SlotsCounted_congr b _ rfl rfl rfl h

/-- The accounting of `pwq_dec_nr_in_flight` for an item that held a slot: the slot is
given up, and a round of activation follows. -/
theorem dec_counted (b : Acc) (p : Nat) (c : Int) (ht : ListsTyped b)
    (h1 : ∀ D K, (b.slots p D K : Int) + 1 ≤ b.nr_active p)
    (h2 : ∀ p2, p2 ≠ p → ∀ D K, (b.slots p2 D K : Int) ≤ b.nr_active p2) :
    SlotsCounted (b.dec p c false) := by
  unfold Acc.dec
  rw [if_neg (by simp)]
  have hb : SlotsCounted { b with nr_active := Function.update b.nr_active p (b.nr_active p - 1) } := by
    intro p2 D K
    show (b.slots p2 D K : Int) ≤ Function.update b.nr_active p (b.nr_active p - 1) p2
    by_cases hp : p2 = p
    · rw [hp, Function.update_same]
      have := h1 D K
      omega
    · rw [Function.update_noteq hp]
      exact h2 p2 hp D K
  have hs := settle_counted _ p (show ListsTyped
    { b with nr_active := Function.update b.nr_active p (b.nr_active p - 1) } from ht) hb
  exact SlotsCounted_congr _ _ rfl rfl rfl hs

theorem adjust_counted (a : Acc) (ht : ListsTyped a) (h : SlotsCounted a) (p : Nat) (m : Int)
    (n : Nat) : SlotsCounted (a.adjust p m n) := by
  induction n with
  | zero => exact SlotsCounted_congr a _ rfl rfl rfl h
  | succ n ih => exact settle_counted _ p (adjust_lists a ht p m n) ih

theorem holds_item_none (a : Acc) (p x : Nat) (h : a.item x = none) :
    a.holds_item p x = false := by
  unfold Acc.holds_item
  rw [h]

theorem holds_item_some (a : Acc) (p x : Nat) (it : Item) (h : a.item x = some it) :
    a.holds_item p x = (decide (it.pwq = p) && !it.inact) := by
  unfold Acc.holds_item
  rw [h]

theorem holds_run_none (a : Acc) (p k : Nat) (h : a.run k = none) :
    a.holds_run p k = false := by
  unfold Acc.holds_run
  rw [h]

theorem holds_run_some (a : Acc) (p k : Nat) (r : Run) (h : a.run k = some r) :
    a.holds_run p k = (decide (r.pwq = p) && !r.inact) := by
  unfold Acc.holds_run
  rw [h]

theorem holds_run_congr (a b : Acc) (h2 : b.run = a.run) (p k : Nat) :
    b.holds_run p k = a.holds_run p k := by
  unfold Acc.holds_run
  rw [h2]

theorem add_item_counted (a b : Acc) (x q : Nat) (it : Item) (hq : it.pwq = q)
    (h1 : b.item = Function.update a.item x (some it)) (h2 : b.run = a.run)
    (h3 : b.nr_active = Function.update a.nr_active q (a.nr_active q + 1))
    (h : SlotsCounted a) : SlotsCounted b := by
  intro p D K
  have hitem : ∀ y, y ≠ x → b.holds_item p y = true → a.holds_item p y = true := by
    intro y hy hh
    rw [holds_item_update a p x _ _ rfl b h1 y hy] at hh
    exact hh
  have hrun : ∀ k, b.holds_run p k = true → a.holds_run p k = true := by
    intro k hk
    rw [holds_run_congr a b h2] at hk
    exact hk
  rw [h3]
  by_cases hp : p = q
  · rw [hp, Function.update_same]
    have := slots_item_add a b q D K x (hp ▸ hitem) (hp ▸ hrun)
    have := h q D K
    omega
  · rw [Function.update_noteq hp]
    have hle := slots_le a b p D K (fun y hy => by
      by_cases hyx : y = x
      · rw [hyx, holds_item_some b p x it (by rw [h1, Function.update_same]), hq] at hy
        simp [Ne.symm hp] at hy
      · exact hitem y hyx hy) hrun
    have := h p D K
    omega

theorem add_item_inact_counted (a b : Acc) (x : Nat) (it : Item) (hit : it.inact = true)
    (h1 : b.item = Function.update a.item x (some it)) (h2 : b.run = a.run)
    (h3 : b.nr_active = a.nr_active) (h : SlotsCounted a) : SlotsCounted b := by
  intro p D K
  have hle := slots_le a b p D K (fun y hy => by
    by_cases hyx : y = x
    · rw [hyx, holds_item_some b p x it (by rw [h1, Function.update_same]), hit] at hy
      simp at hy
    · rw [holds_item_update a p x _ _ rfl b h1 y hyx] at hy
      exact hy) (fun k hk => by
    unfold Acc.holds_run at hk ⊢
    rw [h2] at hk
    exact hk)
  have := h p D K
  rw [h3]
  omega

theorem enqueue_counted (a : Acc) (x q : Nat) (h : SlotsCounted a) :
    SlotsCounted (a.enqueue x q) := by
  unfold Acc.enqueue
  split_ifs with hc
  · exact add_item_counted a _ x q ⟨q, a.work_color q, false, false⟩ rfl rfl rfl rfl h
  · exact add_item_inact_counted a _ x ⟨q, a.work_color q, true, false⟩ rfl rfl rfl rfl h

theorem remove_item_le (a b : Acc) (w : Nat) (h1 : b.item = Function.update a.item w none)
    (h2 : b.run = a.run) (p : Nat) (D K : Finset Nat) : b.slots p D K ≤ a.slots p D K :=
  slots_le a b p D K (fun y hy => by
    by_cases hyx : y = w
    · rw [hyx, holds_item_none b p w (by rw [h1, Function.update_same])] at hy
      exact Bool.noConfusion hy
    · rw [holds_item_update a p w _ _ rfl b h1 y hyx] at hy
      exact hy) (fun k hk => by
    rw [holds_run_congr a b h2] at hk
    exact hk)

theorem remove_run_le (a b : Acc) (k : Nat) (h1 : b.item = a.item)
    (h2 : b.run = Function.update a.run k none) (p : Nat) (D K : Finset Nat) :
    b.slots p D K ≤ a.slots p D K :=
  slots_le a b p D K (fun y hy => by
    unfold Acc.holds_item at hy ⊢
    rw [h1] at hy
    exact hy) (fun j hj => by
    by_cases hjk : j = k
    · rw [hjk, holds_run_none b p k (by rw [h2, Function.update_same])] at hj
      exact Bool.noConfusion hj
    · rw [holds_run_update a p k _ b h2 j hjk] at hj
      exact hj)

theorem start_counted (a : Acc) (k w : Nat) (it : Item)
    (hi : a.item w = some it) (h : SlotsCounted a) : SlotsCounted (a.start k w it) := by
  intro p D K
  have hitem : ∀ y, y ≠ w → (a.start k w it).holds_item p y = true →
      a.holds_item p y = true := by
    intro y hy hh
    rw [holds_item_update a p w none _ rfl (a.start k w it) rfl y hy] at hh
    exact hh
  have hrun : ∀ j, j ≠ k → (a.start k w it).holds_run p j = true →
      a.holds_run p j = true := by
    intro j hj hh
    rw [holds_run_update a p k _ (a.start k w it) rfl j hj] at hh
    exact hh
  have hw2 : (a.start k w it).holds_item p w = false :=
    holds_item_none _ p w (by show Function.update a.item w none w = none; rw [Function.update_same])
  have hk2 : (a.start k w it).holds_run p k = (decide (it.pwq = p) && !it.inact) :=
    holds_run_some _ p k _ (by show Function.update a.run k _ k = _; rw [Function.update_same])
  show _ ≤ a.nr_active p
  by_cases hh : a.holds_item p w = true
  · have := slots_start a (a.start k w it) p D K w k hh hw2 hitem hrun
    have := h p (insert w D) K
    omega
  · have hle := slots_le a (a.start k w it) p D K (fun y hy => by
      by_cases hyw : y = w
      · rw [hyw, hw2] at hy; exact Bool.noConfusion hy
      · exact hitem y hyw hy) (fun j hj => by
      by_cases hjk : j = k
      · rw [hjk, hk2, ← holds_item_some a p w it hi] at hj
        exact absurd hj hh
      · exact hrun j hjk hj)
    have := h p D K
    omega

theorem finish_counted (a : Acc) (k : Nat) (r : Run) (hr : a.run k = some r)
    (ht : ListsTyped a) (h : SlotsCounted a) : SlotsCounted (a.finish k r) := by
  unfold Acc.finish
  have hle := remove_run_le a { a with run := Function.update a.run k none } k rfl rfl
  cases hia : r.inact with
  | true =>
    refine dec_counted_inact { a with run := Function.update a.run k none } r.pwq r.color ?_
    intro p D K
    have := hle p D K
    have := h p D K
    show _ ≤ a.nr_active p
    omega
  | false =>
    refine dec_counted { a with run := Function.update a.run k none } r.pwq r.color
      (show ListsTyped { a with run := Function.update a.run k none } from ht) ?_ ?_
    · intro D K
      have := slots_run_remove a { a with run := Function.update a.run k none } r.pwq D K k
        (by rw [holds_run_some a r.pwq k r hr, hia]; simp)
        (holds_run_none _ _ k (by show Function.update a.run k none k = none
                                  rw [Function.update_same]))
        (fun y hy => hy)
        (fun j hj hh => by
          rw [holds_run_update a r.pwq k _ _ rfl j hj] at hh
          exact hh)
      have := h r.pwq D (insert k K)
      show _ ≤ a.nr_active r.pwq
      omega
    · intro p2 _ D K
      have := hle p2 D K
      have := h p2 D K
      show _ ≤ a.nr_active p2
      omega

theorem lists_typed_sub (a b : Acc) (ht : ListsTyped a)
    (h1 : ∀ p y, y ∈ b.inactive p → y ∈ a.inactive p)
    (h2 : ∀ y it, b.item y = some it → a.item y = some it) : ListsTyped b :=
  fun p y hy it hit => ht p y (h1 p y hy) it (h2 y it hit)

theorem activate_inactive_subset (a : Acc) (w q p y : Nat)
    (hy : y ∈ (a.activate w q).inactive p) : y ∈ a.inactive p := by
  have hy : y ∈ Function.update a.inactive q
      (list_before w (a.inactive q) ++
        ((list_from w (a.inactive q)).drop 1).dropWhile a.is_barrier) p := hy
  by_cases hp : p = q
  · subst hp
    rw [Function.update_same] at hy
    have hL := list_before_from w (a.inactive p)
    rw [← hL]
    rcases List.mem_append.1 hy with h | h
    · exact List.mem_append_left _ h
    · exact List.mem_append_right _
        ((List.drop_sublist 1 _).subset ((List.dropWhile_sublist _).subset h))
  · rw [Function.update_noteq hp] at hy
    exact hy

theorem item_of_removed (f : Nat → Option Item) (w y : Nat) (it : Item)
    (h : Function.update f w none y = some it) : f y = some it := by
  by_cases hyw : y = w
  · rw [hyw, Function.update_same] at h
    exact absurd h (by simp)
  · rw [Function.update_noteq hyw] at h
    exact h

theorem steal_counted (a : Acc) (w : Nat) (it : Item) (hw : a.item w = some it)
    (ht : ListsTyped a) (h : SlotsCounted a) : SlotsCounted (a.steal w it) := by
  unfold Acc.steal
  by_cases hia : it.inact = true
  · simp only [if_pos hia]
    have hitem : Function.update (a.activate w it.pwq).item w none =
        Function.update a.item w none := by
      show Function.update (Function.update a.item w _) w none = _
      rw [Function.update_idem]
    have hle := remove_item_le a
      { a.activate w it.pwq with item := Function.update (a.activate w it.pwq).item w none }
      w hitem rfl
    refine dec_counted
      { a.activate w it.pwq with item := Function.update (a.activate w it.pwq).item w none }
      it.pwq it.color ?_ ?_ ?_
    · apply lists_typed_sub a _ ht
      · intro p y hy
        exact activate_inactive_subset a w it.pwq p y hy
      · intro y it2 hy
        have hy : Function.update (a.activate w it.pwq).item w none y = some it2 := hy
        rw [hitem] at hy
        exact item_of_removed a.item w y it2 hy
    · intro D K
      have := hle it.pwq D K
      have := h it.pwq D K
      show _ ≤ Function.update a.nr_active it.pwq (a.nr_active it.pwq + 1) it.pwq
      rw [Function.update_same]
      omega
    · intro p2 hp2 D K
      have := hle p2 D K
      have := h p2 D K
      show _ ≤ Function.update a.nr_active it.pwq (a.nr_active it.pwq + 1) p2
      rw [Function.update_noteq hp2]
      omega
  · simp only [if_neg hia]
    have hle := remove_item_le a { a with item := Function.update a.item w none } w rfl rfl
    refine dec_counted { a with item := Function.update a.item w none } it.pwq it.color ?_ ?_ ?_
    · apply lists_typed_sub a _ ht
      · intro p y hy
        exact hy
      · intro y it2 hy
        exact item_of_removed a.item w y it2 hy
    · intro D K
      have := slots_item_remove a { a with item := Function.update a.item w none } it.pwq D K w
        (by rw [holds_item_some a it.pwq w it hw]; simpa using hia)
        (holds_item_none _ _ w (by show Function.update a.item w none w = none
                                   rw [Function.update_same]))
        (fun y hy hh => by
          rw [holds_item_update a it.pwq w _ _ rfl _ rfl y hy] at hh
          exact hh)
        (fun k hk => hk)
      have := h it.pwq (insert w D) K
      show _ ≤ a.nr_active it.pwq
      omega
    · intro p2 _ D K
      have := hle p2 D K
      have := h p2 D K
      show _ ≤ a.nr_active p2
      omega

/-- Every step of the ledger keeps the slots counted. -/
theorem astep_counted (a a2 : Acc) (hs : AStep a a2) (ht : ListsTyped a)
    (h : SlotsCounted a) : SlotsCounted a2 := by
  cases hs with
  | quiet => exact h
  | env v => exact SlotsCounted_congr a _ rfl rfl rfl h
  | color m v hm => exact SlotsCounted_congr a _ rfl rfl rfl h
  | queue x q _ _ => exact enqueue_counted a x q h
  | barrier_after b t it _ _ _ =>
    exact add_item_inact_counted a _ b ⟨it.pwq, it.color, true, true⟩ rfl rfl rfl rfl h
  | barrier_front b k r _ _ _ =>
    exact add_item_inact_counted a _ b ⟨r.cur_pwq, r.cur_color, true, true⟩ rfl rfl rfl rfl h
  | start k w it _ _ hi _ => exact start_counted a k w it hi h
  | finish k r hr => exact finish_counted a k r hr ht h
  | steal w it hw _ => exact steal_counted a w it hw ht h
  | adjust p m n => exact adjust_counted a ht h p m n

/-! ### No room while work items wait -/

theorem settle_backlog_noop (b : Acc) (p : Nat)
    (h : b.inactive p ≠ [] → b.max_active p ≤ b.nr_active p) : b.settle p = b := by
  unfold Acc.settle
  rw [if_neg]
  rintro ⟨h1, h2⟩
  have := h h1
  omega

theorem dec_backlog (b : Acc) (p : Nat) (c : Int) (ia : Bool) (h : b.backlog_full) :
    (b.dec p c ia).backlog_full := by
  unfold Acc.dec
  cases ia with
  | true =>
    rw [if_pos rfl]
    exact h
  | false =>
    rw [if_neg (by simp)]
    rcases settle_spec { b with nr_active := Function.update b.nr_active p (b.nr_active p - 1) }
      p with ⟨e, hn⟩ | ⟨x, l, hL, hlt, e⟩
    · rw [e]
      intro p2 hne
      have hne : b.inactive p2 ≠ [] := hne
      show b.max_active p2 ≤ Function.update b.nr_active p (b.nr_active p - 1) p2
      by_cases hp : p2 = p
      · rw [hp, Function.update_same]
        have hn : ¬ (b.inactive p ≠ [] ∧
            Function.update b.nr_active p (b.nr_active p - 1) p < b.max_active p) := hn
        rw [Function.update_same] at hn
        rw [hp] at hne
        by_contra hc
        exact hn ⟨hne, by omega⟩
      · rw [Function.update_noteq hp]
        exact h p2 hne
    · rw [e]
      have hL : b.inactive p = x :: l := hL
      intro p2 hne
      have hne : Function.update b.inactive p (l.dropWhile (Acc.is_barrier
        { b with nr_active := Function.update b.nr_active p (b.nr_active p - 1) })) p2 ≠ [] := hne
      show b.max_active p2 ≤ Function.update (Function.update b.nr_active p (b.nr_active p - 1)) p
        (Function.update b.nr_active p (b.nr_active p - 1) p + 1) p2
      by_cases hp : p2 = p
      · rw [hp, Function.update_same, Function.update_same]
        have := h p (by rw [hL]; simp)
        omega
      · rw [Function.update_noteq hp, Function.update_noteq hp]
        rw [Function.update_noteq hp] at hne
        exact h p2 hne

theorem enqueue_backlog (a : Acc) (x q : Nat) (h : a.backlog_full) :
    (a.enqueue x q).backlog_full := by
  unfold Acc.enqueue
  split_ifs with hc
  · intro p hne
    have hne : a.inactive p ≠ [] := hne
    show a.max_active p ≤ Function.update a.nr_active q (a.nr_active q + 1) p
    have := h p hne
    by_cases hp : p = q
    · rw [hp, Function.update_same]
      rw [hp] at this
      omega
    · rw [Function.update_noteq hp]
      exact this
  · intro p hne
    have hne : Function.update a.inactive q (a.inactive q ++ [x]) p ≠ [] := hne
    show a.max_active p ≤ a.nr_active p
    by_cases hp : p = q
    · rw [hp]
      omega
    · rw [Function.update_noteq hp] at hne
      exact h p hne

theorem steal_backlog (a : Acc) (w : Nat) (it : Item) (h : a.backlog_full) :
    (a.steal w it).backlog_full := by
  unfold Acc.steal
  apply dec_backlog
  by_cases hia : it.inact = true
  · simp only [if_pos hia]
    intro p hne
    have hne : (a.activate w it.pwq).inactive p ≠ [] := hne
    have hne2 : a.inactive p ≠ [] := by
      intro e
      cases hL : (a.activate w it.pwq).inactive p with
      | nil => exact hne hL
      | cons y l =>
        have := activate_inactive_subset a w it.pwq p y (by rw [hL]; simp)
        rw [e] at this
        simp at this
    have := h p hne2
    show a.max_active p ≤ Function.update a.nr_active it.pwq (a.nr_active it.pwq + 1) p
    by_cases hp : p = it.pwq
    · rw [hp, Function.update_same]
      rw [hp] at this
      omega
    · rw [Function.update_noteq hp]
      exact this
  · simp only [if_neg hia]
    exact h

theorem adjust_same (a : Acc) (p : Nat) (m : Int) (n : Nat)
    (hm : (a.adjust p m n).max_active = a.max_active) (h : a.backlog_full) :
    a.adjust p m n = a := by
  rw [adjust_max] at hm
  induction n with
  | zero =>
    show ({ a with max_active := Function.update a.max_active p m } : Acc) = a
    rw [hm]
  | succ n ih =>
    show (a.adjust p m n).settle p = a
    rw [ih]
    exact settle_backlog_noop a p (h p)

/-- A step of the ledger that leaves every `max_active` alone keeps the pool_workqueues with
waiting work items full. -/
theorem astep_backlog (a a2 : Acc) (hs : AStep a a2) (hm : a2.max_active = a.max_active)
    (h : a.backlog_full) : a2.backlog_full := by
  cases hs with
  | quiet => exact h
  | env v => exact h
  | color m v hm => exact h
  | queue x q _ _ => exact enqueue_backlog a x q h
  | barrier_after b t it _ _ _ =>
    intro p hne
    have hne : (if t ∈ a.inactive p then
        list_before t (a.inactive p) ++ t :: b :: (list_from t (a.inactive p)).drop 1
      else a.inactive p) ≠ [] := hne
    apply h p
    intro e
    rw [e] at hne
    simp at hne
  | barrier_front b k r _ _ _ => exact h
  | start k w it _ _ hi _ => exact h
  | finish k r hr =>
    unfold Acc.finish
    apply dec_backlog
    exact h
  | steal w it hw _ => exact steal_backlog a w it h
  | adjust p m n =>
    rw [adjust_same a p m n hm h]
    exact h

/-! ### The steps of the system -/

theorem enqueue_max (a : Acc) (x q : Nat) : (a.enqueue x q).max_active = a.max_active := by
  unfold Acc.enqueue
  split_ifs <;> rfl

/-- Only `pwq_adjust_max_active` writes `max_active`. -/
theorem step_max_active (s s2 : State) (hi : InvC (core s)) (h : Step s s2) :
    s2.pwq_max_active = s.pwq_max_active ∨ ∃ p, s2 = pwq_adjust_max_active s p := by
  cases h with
  | claim work => exact Or.inl rfl
  | queue fuel t cpu wq work _ h0 hnb _ hent h =>
    left
    rcases acc___queue_work fuel s t cpu wq work s2 hi hent hnb h with e | ⟨pwq, e⟩
    · exact congrArg Acc.max_active e
    · have := congrArg Acc.max_active e
      rw [enqueue_max] at this
      exact this
  | flush work barr hb0 hb hfresh _ =>
    left
    unfold start_flush_work
    split_ifs <;> simp [State.pwq_max_active]
  | grab work is_dwork hnb =>
    left
    unfold try_to_grab_pending
    dsimp only
    split_ifs <;> simp [State.pwq_max_active, test_and_set_bit_pending]
  | release_clear work hl => left; simp [State.pwq_max_active, clear_work_data]
  | release_pool work hl =>
    left; simp [State.pwq_max_active, set_work_pool_and_clear_pending]
  | canceling work hl => left; simp [State.pwq_max_active, mark_work_canceling]
  | assign k work _ _ hw hA =>
    left
    unfold assign_work
    split_ifs <;> simp [State.pwq_max_active]
  | start k work hk0 hk hh => left; simp [State.pwq_max_active]
  | finish k hk => left; simp [State.pwq_max_active]
  | adjust pwq => exact Or.inr ⟨pwq, rfl⟩
  | prep wq pwq fc wc wait hwc =>
    exact Or.inl (prep_config s wq pwq fc wc wait .pwq_max_active rfl (by decide))
  | link_color pwq h0 h1 => exact Or.inl rfl
  | install wq cpu pwq hp => exact Or.inl rfl
  | attach worker pool hk hl =>
    exact Or.inl (attach_config s worker pool .pwq_max_active rfl (by decide))
  | detach worker hk hl =>
    exact Or.inl (detach_config s worker .pwq_max_active rfl (by decide))
  | env f v hf =>
    left
    have hne : Field.pwq_max_active ≠ f := by
      intro e
      rw [← e] at hf
      exact Bool.noConfusion hf
    exact State.set_other s f _ v hne

/-- The ledger after `pwq_adjust_max_active`: unchanged, or `max_active` is set to the saved
value and the activation runs as many rounds as `inactive_works` is long, or `max_active` is
set to 0. -/
theorem acc_adjust_cases (s : State) (p : Nat) (hi : InvC (core s)) :
    acc (pwq_adjust_max_active s p) = acc s ∨
    (∃ m, acc (pwq_adjust_max_active s p) =
      (fun a => Acc.settle a p)^[((acc s).inactive p).length]
        { acc s with max_active := Function.update (acc s).max_active p m }) ∨
    acc (pwq_adjust_max_active s p) =
      { acc s with max_active := Function.update (acc s).max_active p 0 } := by
  unfold pwq_adjust_max_active
  simp only []
  split_ifs
  · exact Or.inl rfl
  · have h1 : InvC (core (s.set .pwq_max_active (Function.update s.pwq_max_active p
        (s.wq_saved_max_active (s.pwq_wq p))))) := by
      rw [core_set_max_active]
      exact InvC_max_active _ hi _
    right; left
    refine ⟨s.wq_saved_max_active (s.pwq_wq p), ?_⟩
    rw [acc_kick_pool, acc_adjust_loop _ _ _ h1, acc_set_max_active]
    rfl
  · exact Or.inr (Or.inr rfl)

theorem iterate_settle_backlog (p : Nat) : ∀ (n : Nat) (b : Acc),
    (b.inactive p).length ≤ n →
    (∀ p2, p2 ≠ p → b.inactive p2 ≠ [] → b.max_active p2 ≤ b.nr_active p2) →
    Acc.backlog_full ((fun a => Acc.settle a p)^[n] b) := by
  intro n
  induction n with
  | zero =>
    intro b hl ho p2 hne
    have hne : b.inactive p2 ≠ [] := hne
    show b.max_active p2 ≤ b.nr_active p2
    by_cases hp : p2 = p
    · rw [hp] at hne
      have : b.inactive p = [] := List.eq_nil_of_length_eq_zero (by omega)
      exact absurd this hne
    · exact ho p2 hp hne
  | succ n ih =>
    intro b hl ho
    rw [Function.iterate_succ_apply]
    rcases settle_spec b p with ⟨e, hn⟩ | ⟨x, l, hL, hlt, e⟩
    · rw [e]
      have hfix : (fun a => Acc.settle a p)^[n] b = b := @Function.iterate_fixed _ (fun a => Acc.settle a p) _ e n
      rw [hfix]
      intro p2 hne
      by_cases hp : p2 = p
      · rw [hp] at hne ⊢
        by_contra hc
        exact hn ⟨hne, by omega⟩
      · exact ho p2 hp hne
    · apply ih
      · rw [e]
        show (Function.update b.inactive p (l.dropWhile b.is_barrier) p).length ≤ n
        rw [Function.update_same]
        have h1 := (List.dropWhile_sublist b.is_barrier (l := l)).length_le
        rw [hL] at hl
        simp at hl
        omega
      · rw [e]
        intro p2 hp hne
        have hne : Function.update b.inactive p (l.dropWhile b.is_barrier) p2 ≠ [] := hne
        rw [Function.update_noteq hp] at hne
        show b.max_active p2 ≤ Function.update b.nr_active p (b.nr_active p + 1) p2
        rw [Function.update_noteq hp]
        exact ho p2 hp hne

theorem adjust_backlog (s : State) (p : Nat) (hi : InvC (core s))
    (hc : SlotsCounted (acc s)) (h : (acc s).backlog_full) :
    (acc (pwq_adjust_max_active s p)).backlog_full := by
  rcases acc_adjust_cases s p hi with e | ⟨m, e⟩ | e
  · rw [e]; exact h
  · rw [e]
    refine iterate_settle_backlog p _
      { acc s with max_active := Function.update (acc s).max_active p m } (le_refl _) ?_
    intro p2 hp hne
    show Function.update (acc s).max_active p m p2 ≤ _
    rw [Function.update_noteq hp]
    exact h p2 hne
  · rw [e]
    intro p2 hne
    have hne : (acc s).inactive p2 ≠ [] := hne
    show Function.update (acc s).max_active p 0 p2 ≤ (acc s).nr_active p2
    by_cases hp : p2 = p
    · rw [hp, Function.update_same]
      have := hc p ∅ ∅
      have h0 : (0 : Int) ≤ (((acc s).slots p ∅ ∅ : Nat) : Int) := Int.natCast_nonneg _
      omega
    · rw [Function.update_noteq hp]
      exact h p2 hne

theorem init_counted (s : State) (h : Init s) :
    SlotsCounted (acc s) ∧ (acc s).backlog_full := by
  obtain ⟨h1, h2, _, _, h5, _, h7, _, _⟩ := h
  constructor
  · intro p D K
    have e1 : (acc s).slots p D K = 0 := by
      unfold Acc.slots
      have a1 : D.filter (fun x => (acc s).holds_item p x = true) = ∅ := by
        apply Finset.filter_false_of_mem
        intro x _
        rw [holds_item_none _ p x (item_of_unlinked s x (h2 x))]
        simp
      have a2 : K.filter (fun k => (acc s).holds_run p k = true) = ∅ := by
        apply Finset.filter_false_of_mem
        intro k _
        rw [holds_run_none _ p k (run_of_idle s k (h7 k))]
        simp
      rw [a1, a2]
      rfl
    rw [e1]
    show (0 : Int) ≤ s.pwq_nr_active p
    rw [h5 p]
  · intro p hne
    exact absurd (h1 _) hne

theorem steps_counted (s0 s : State) (h0 : Init s0) (hs : Relation.ReflTransGen Step s0 s) :
    SlotsCounted (acc s) ∧ (acc s).backlog_full := by
  induction hs with
  | refl => exact init_counted s0 h0
  | tail hpre hstep ih =>
    rename_i b c
    have hi : InvC (core b) := InvC_steps s0 b (InvC_init s0 h0) hpre
    have ha := step_acc b c hi hstep
    have ht := (typed_of_inv b hi).lists
    refine ⟨astep_counted _ _ ha ht ih.1, ?_⟩
    rcases step_max_active b c hi hstep with e | ⟨p, e⟩
    · exact astep_backlog _ _ ha e ih.2
    · rw [e]
      exact adjust_backlog b p hi ih.1 ih.2

/-- C29: in every reachable state, so at the end of `__queue_work`, of `process_one_work`
(whose last call is `pwq_dec_nr_in_flight`), of a steal by `try_to_grab_pending` and of
`pwq_adjust_max_active`, a pool_workqueue whose `inactive_works` list is not empty has
`nr_active` at or above `max_active`. -/
theorem no_inactive_item_held_back (s : State) (h : Reachable s) (p : Nat)
    (hne : s.lists (list_head.inactive_works p) ≠ []) :
    s.pwq_max_active p ≤ s.pwq_nr_active p := by
  obtain ⟨s0, h0, hs⟩ := h
  exact (steps_counted s0 s h0 hs).2 p hne

/-- C29 (witness): in `ex_backlog` the work item 1001 waits on `inactive_works` of the
pool_workqueue 256. -/
theorem no_inactive_item_held_back_witness :
    Reachable ex_backlog ∧ ex_backlog.lists (list_head.inactive_works 256) ≠ [] ∧
    ex_backlog.pwq_max_active 256 ≤ ex_backlog.pwq_nr_active 256 :=
  ⟨Reachable_ex_backlog, by decide,
    no_inactive_item_held_back ex_backlog Reachable_ex_backlog 256 (by decide)⟩

/-! ## Unbound pools -/

theorem cpumask_equal_iff (n : Nat) (a b : Nat → Bool) :
    cpumask_equal n a b = true ↔ ∀ c, c < n → a c = b c := by
  unfold cpumask_equal
  rw [List.all_eq_true]
  constructor
  · intro h c hc
    have := h c (List.mem_range.2 hc)
    simpa using this
  · intro h c hc
    have := h c (List.mem_range.1 hc)
    simpa using this

theorem cpumask_eq_of_equal (n : Nat) (a b : Nat → Bool) (h : cpumask_equal n a b = true)
    (ha : cpumask_tail_clear n a) (hb : cpumask_tail_clear n b) : a = b := by
  funext c
  by_cases hc : c < n
  · exact (cpumask_equal_iff n a b).1 h c hc
  · rw [ha c (by omega), hb c (by omega)]

theorem wqattrs_equal_iff (n : Nat) (a b : workqueue_attrs) :
    wqattrs_equal n a b = true ↔
      a.nice = b.nice ∧ cpumask_equal n a.cpumask b.cpumask = true ∧
      cpumask_equal n a.pod_cpumask b.pod_cpumask = true ∧ a.affn_strict = b.affn_strict := by
  unfold wqattrs_equal
  split_ifs <;> simp_all

theorem wqattrs_equal_refl (n : Nat) (a : workqueue_attrs) : wqattrs_equal n a a = true := by
  rw [wqattrs_equal_iff]
  refine ⟨rfl, ?_, ?_, rfl⟩ <;> rw [cpumask_equal_iff] <;> intro c _ <;> rfl

theorem wqattrs_equal_symm (n : Nat) (a b : workqueue_attrs) (h : wqattrs_equal n a b = true) :
    wqattrs_equal n b a = true := by
  rw [wqattrs_equal_iff] at h ⊢
  obtain ⟨h1, h2, h3, h4⟩ := h
  rw [cpumask_equal_iff] at h2 h3 ⊢
  refine ⟨h1.symm, fun c hc => (h2 c hc).symm, ?_, h4.symm⟩
  rw [cpumask_equal_iff]
  exact fun c hc => (h3 c hc).symm

theorem wqattrs_equal_trans (n : Nat) (a b c : workqueue_attrs)
    (h : wqattrs_equal n a b = true) (h2 : wqattrs_equal n b c = true) :
    wqattrs_equal n a c = true := by
  rw [wqattrs_equal_iff] at h h2 ⊢
  obtain ⟨a1, a2, a3, a4⟩ := h
  obtain ⟨b1, b2, b3, b4⟩ := h2
  rw [cpumask_equal_iff] at a2 a3 b2 b3
  refine ⟨a1.trans b1, ?_, ?_, a4.trans b4⟩
  · rw [cpumask_equal_iff]
    exact fun x hx => (a2 x hx).trans (b2 x hx)
  · rw [cpumask_equal_iff]
    exact fun x hx => (a3 x hx).trans (b3 x hx)

/-- Equal attributes with clear unused bits have the same hash. -/
theorem wqattrs_hash_eq (H : hash_lib) (n : Nat) (a b : workqueue_attrs)
    (h : wqattrs_equal n a b = true) (ha : attrs_tail_clear n a) (hb : attrs_tail_clear n b) :
    wqattrs_hash H n a = wqattrs_hash H n b := by
  rw [wqattrs_equal_iff] at h
  obtain ⟨h1, h2, h3, h4⟩ := h
  have e1 := cpumask_eq_of_equal n _ _ h2 ha.1 hb.1
  have e2 := cpumask_eq_of_equal n _ _ h3 ha.2 hb.2
  unfold wqattrs_hash
  rw [h1, e1, e2, h4]

theorem clear_copy_equal (n : Nat) (a : workqueue_attrs) :
    wqattrs_equal n (wqattrs_clear_for_pool (copy_workqueue_attrs a)) a = true := by
  rw [wqattrs_equal_iff]
  refine ⟨rfl, ?_, ?_, rfl⟩ <;> rw [cpumask_equal_iff] <;> intro c _ <;> rfl

theorem clear_copy_tail (n : Nat) (a : workqueue_attrs) (h : attrs_tail_clear n a) :
    attrs_tail_clear n (wqattrs_clear_for_pool (copy_workqueue_attrs a)) := h

theorem clear_copy_hash (H : hash_lib) (n : Nat) (a : workqueue_attrs) :
    wqattrs_hash H n (wqattrs_clear_for_pool (copy_workqueue_attrs a)) = wqattrs_hash H n a :=
  rfl

/-- A well formed table depends on the buckets, on `nr_cpumask_bits` and on the attributes of
the pools on the table only. -/
theorem TableOk_congr (H : hash_lib) (u v : UnboundState) (h : TableOk H u)
    (h1 : v.unbound_pool_hash = u.unbound_pool_hash) (h2 : v.nr_cpumask_bits = u.nr_cpumask_bits)
    (h3 : ∀ p, u.hashed p → v.s.pool_attrs p = u.s.pool_attrs p) : TableOk H v := by
  have hh : ∀ p, v.hashed p → u.hashed p := by
    intro p ⟨b, hb⟩
    exact ⟨b, by rw [← h1]; exact hb⟩
  constructor
  · intro b p hp
    rw [h1] at hp
    rw [h2, h3 p ⟨b, hp⟩]
    exact h.bucket b p hp
  · intro b
    rw [h1]
    exact h.nodup b
  · intro p hp
    rw [h2, h3 p (hh p hp)]
    exact h.tail p (hh p hp)
  · intro p q hp hq he
    rw [h2, h3 p (hh p hp), h3 q (hh q hq)] at he
    exact h.distinct p q (hh p hp) (hh q hq) he

/-- Taking a pool off the table keeps the table well formed. -/
theorem TableOk_erase (H : hash_lib) (u v : UnboundState) (pool : Nat) (h : TableOk H u)
    (h1 : v.unbound_pool_hash = fun b => (u.unbound_pool_hash b).erase pool)
    (h2 : v.nr_cpumask_bits = u.nr_cpumask_bits)
    (h3 : v.s.pool_attrs = u.s.pool_attrs) : TableOk H v := by
  have hm : ∀ b p, p ∈ v.unbound_pool_hash b → p ∈ u.unbound_pool_hash b := by
    intro b p hp
    rw [h1] at hp
    exact List.mem_of_mem_erase hp
  have hh : ∀ p, v.hashed p → u.hashed p := fun p ⟨b, hb⟩ => ⟨b, hm b p hb⟩
  constructor
  · intro b p hp
    rw [h2, h3]
    exact h.bucket b p (hm b p hp)
  · intro b
    rw [h1]
    exact (h.nodup b).erase pool
  · intro p hp
    rw [h2, h3]
    exact h.tail p (hh p hp)
  · intro p q hp hq he
    rw [h2, h3] at he
    exact h.distinct p q (hh p hp) (hh q hq) he

theorem put_unbound_pool_loop_frame (fuel : Nat) (s : State) (pool : Nat) (g : Field)
    (h1 : g ≠ .pool_nr_workers) (h2 : g ≠ .pool_nr_idle) (h3 : g ≠ .worker_flags)
    (h4 : g ≠ .pool_idle_list) (h5 : g ≠ .worker_link) (h6 : g ≠ .pool_workers)
    (h7 : g ≠ .pool_dying_workers) : put_unbound_pool_loop fuel s pool g = s g := by
  induction fuel generalizing s with
  | zero => rfl
  | succ n ih =>
    unfold put_unbound_pool_loop
    split_ifs
    · rfl
    · rw [ih, set_worker_dying_frame s _ g h1 h2 h3 h4 h5 h6 h7]

theorem put_unbound_pool_locked_attrs (s : State) (pool : Nat) :
    (put_unbound_pool_locked s pool).pool_attrs = s.pool_attrs := by
  unfold put_unbound_pool_locked
  show put_unbound_pool_loop _ _ pool Field.pool_attrs = _
  rw [put_unbound_pool_loop_frame _ _ _ _ (by simp) (by simp) (by simp) (by simp) (by simp)
    (by simp) (by simp)]
  simp

/-- The function `put_unbound_pool` leaves `nr_cpumask_bits` and the attributes of the pools
alone, and the table is as before or without the pool. -/
theorem put_unbound_pool_table (u : UnboundState) (pool : Nat) (u2 : UnboundState)
    (h : put_unbound_pool u pool = some u2) :
    u2.nr_cpumask_bits = u.nr_cpumask_bits ∧ u2.s.pool_attrs = u.s.pool_attrs ∧
    (u2.unbound_pool_hash = u.unbound_pool_hash ∨
      u2.unbound_pool_hash = fun b => (u.unbound_pool_hash b).erase pool) := by
  have key : ∀ (s3 : State) (cl : List Nat) (v : Nat → Bool),
      ((wake_dying_workers (put_unbound_pool_locked s3 pool) cl).set
        .pool_idle_timer_pending v).pool_attrs = s3.pool_attrs := by
    intro s3 cl v
    show (State.set _ _ _) Field.pool_attrs = _
    rw [State.set_other _ _ _ _ (by simp),
      wake_dying_workers_frame cl _ Field.pool_attrs (by simp) (by simp)]
    exact put_unbound_pool_locked_attrs s3 pool
  unfold put_unbound_pool at h
  simp only [] at h
  split_ifs at h with c1 c2 c3 c4 c5
  · rw [← Option.some.inj h]
    exact ⟨rfl, by simp [State.pool_attrs], Or.inl rfl⟩
  · rw [← Option.some.inj h]
    exact ⟨rfl, by simp [State.pool_attrs], Or.inl rfl⟩
  · rw [← Option.some.inj h]
    refine ⟨rfl, ?_, Or.inr rfl⟩
    dsimp only
    rw [key]
    simp [State.pool_attrs]
  · rw [← Option.some.inj h]
    refine ⟨rfl, ?_, Or.inr rfl⟩
    dsimp only
    rw [key]
    simp [State.pool_attrs]

theorem put_unbound_pool_table_ok (H : hash_lib) (u : UnboundState) (pool : Nat)
    (u2 : UnboundState) (hok : TableOk H u) (h : put_unbound_pool u pool = some u2) :
    TableOk H u2 := by
  obtain ⟨h1, h2, h3 | h3⟩ := put_unbound_pool_table u pool u2 h
  · exact TableOk_congr H u u2 hok h3 h1 (fun p _ => by rw [h2])
  · exact TableOk_erase H u u2 pool hok h3 h1 h2

theorem create_worker_keeps (s : State) (P k : Nat) :
    (create_worker s P k).pool_attrs = s.pool_attrs ∧
    (create_worker s P k).pool_refcnt = s.pool_refcnt := by
  unfold create_worker
  simp only []
  constructor
  · show wake_up_process _ _ Field.pool_attrs = _
    rw [wake_up_process_frame _ _ _ (by simp), kick_pool_frame _ _ _ (by simp) (by simp) (by simp),
      worker_enter_idle_frame _ _ _ (by simp) (by simp) (by simp) (by simp) (by simp) (by simp)
        (by simp)]
    unfold worker_attach_to_pool alloc_worker
    simp only []
    split_ifs <;> simp
  · show wake_up_process _ _ Field.pool_refcnt = _
    rw [wake_up_process_frame _ _ _ (by simp), kick_pool_frame _ _ _ (by simp) (by simp) (by simp),
      worker_enter_idle_frame _ _ _ (by simp) (by simp) (by simp) (by simp) (by simp) (by simp)
        (by simp)]
    unfold worker_attach_to_pool alloc_worker
    simp only []
    split_ifs <;> simp

/-- The lookup of `get_unbound_pool` finds the pool of the table with equal attributes. -/
theorem lookup_hit (H : hash_lib) (u : UnboundState) (attrs : workqueue_attrs) (p : Nat)
    (hok : TableOk H u) (ht : attrs_tail_clear u.nr_cpumask_bits attrs) (hp : u.hashed p)
    (he : wqattrs_equal u.nr_cpumask_bits (u.s.pool_attrs p) attrs = true) :
    (u.unbound_pool_hash (H.hash_min (wqattrs_hash H u.nr_cpumask_bits attrs))).find?
      (fun q => wqattrs_equal u.nr_cpumask_bits (u.s.pool_attrs q) attrs) = some p := by
  obtain ⟨b, hb⟩ := hp
  have hbk := hok.bucket b p hb
  rw [wqattrs_hash_eq H _ _ _ he (hok.tail p ⟨b, hb⟩) ht] at hbk
  rw [← hbk]
  cases hf : (u.unbound_pool_hash b).find?
      (fun q => wqattrs_equal u.nr_cpumask_bits (u.s.pool_attrs q) attrs) with
  | none =>
    have := List.find?_eq_none.1 hf p hb
    simp [he] at this
  | some q =>
    have hq := List.find?_some hf
    have hm := List.mem_of_find?_eq_some hf
    have := hok.distinct q p ⟨b, hm⟩ ⟨b, hb⟩
      (wqattrs_equal_trans _ _ _ _ hq (wqattrs_equal_symm _ _ _ he))
    rw [this]

/-- When the lookup of `get_unbound_pool` fails, no pool of the table has the attributes. -/
theorem lookup_miss (H : hash_lib) (u : UnboundState) (attrs : workqueue_attrs)
    (hok : TableOk H u) (ht : attrs_tail_clear u.nr_cpumask_bits attrs)
    (hf : (u.unbound_pool_hash (H.hash_min (wqattrs_hash H u.nr_cpumask_bits attrs))).find?
      (fun q => wqattrs_equal u.nr_cpumask_bits (u.s.pool_attrs q) attrs) = none)
    (p : Nat) (hp : u.hashed p) :
    wqattrs_equal u.nr_cpumask_bits (u.s.pool_attrs p) attrs = false := by
  by_contra hc
  have he : wqattrs_equal u.nr_cpumask_bits (u.s.pool_attrs p) attrs = true := by
    cases h : wqattrs_equal u.nr_cpumask_bits (u.s.pool_attrs p) attrs with
    | true => rfl
    | false => exact absurd h hc
  rw [lookup_hit H u attrs p hok ht hp he] at hf
  exact absurd hf (by simp)

theorem kzalloc_worker_pool_attrs (s : State) (pool : Nat) :
    (kzalloc_worker_pool s pool).pool_attrs = s.pool_attrs := by
  simp [kzalloc_worker_pool, State.pool_attrs]

theorem init_worker_pool_facts (u : UnboundState) (pool : Nat) (ok : Bool) :
    (init_worker_pool u pool ok).2.unbound_pool_hash = u.unbound_pool_hash ∧
    (init_worker_pool u pool ok).2.nr_cpumask_bits = u.nr_cpumask_bits ∧
    (∀ p, p ≠ pool → (init_worker_pool u pool ok).2.s.pool_attrs p = u.s.pool_attrs p) ∧
    (init_worker_pool u pool ok).2.s.pool_refcnt pool = 1 ∧
    ((init_worker_pool u pool ok).1 < 0 ↔ ok = false) := by
  unfold init_worker_pool
  simp only []
  cases ok with
  | false =>
    rw [if_pos rfl]
    refine ⟨rfl, rfl, ?_, ?_, ?_⟩
    · intro p _
      simp [State.pool_attrs]
    · simp [State.pool_refcnt]
    · simp
  | true =>
    rw [if_neg (by simp)]
    refine ⟨rfl, rfl, ?_, ?_, ?_⟩
    · intro p hp
      simp [State.pool_attrs, Function.update_noteq hp]
    · simp [State.pool_refcnt]
    · simp

theorem worker_pool_assign_id_keeps (s : State) (pool : Nat) (ret : Int) :
    (worker_pool_assign_id s pool ret).2.pool_attrs = s.pool_attrs ∧
    (worker_pool_assign_id s pool ret).2.pool_refcnt = s.pool_refcnt := by
  unfold worker_pool_assign_id
  split_ifs <;> simp [State.pool_attrs, State.pool_refcnt]

/-- A state with the table of `u` whose pools have the attributes they have in `u`, except
for a pool that is not on the table. -/
theorem TableOk_fresh (H : hash_lib) (u v : UnboundState) (pool : Nat) (h : TableOk H u)
    (hfresh : ¬ u.hashed pool)
    (h1 : v.unbound_pool_hash = u.unbound_pool_hash) (h2 : v.nr_cpumask_bits = u.nr_cpumask_bits)
    (h3 : ∀ p, p ≠ pool → v.s.pool_attrs p = u.s.pool_attrs p) : TableOk H v :=
  TableOk_congr H u v h h1 h2 (fun p hp => h3 p (fun e => hfresh (e ▸ hp)))

/-- A new pool with attributes that no pool of the table has is put on the bucket of their
hash. -/
theorem TableOk_insert (H : hash_lib) (u v : UnboundState) (pool : Nat) (attrs : workqueue_attrs)
    (h : TableOk H u) (hfresh : ¬ u.hashed pool)
    (ht : attrs_tail_clear u.nr_cpumask_bits attrs)
    (hmiss : ∀ p, u.hashed p →
      wqattrs_equal u.nr_cpumask_bits (u.s.pool_attrs p) attrs = false)
    (h1 : v.unbound_pool_hash = Function.update u.unbound_pool_hash
      (H.hash_min (wqattrs_hash H u.nr_cpumask_bits attrs))
      (pool :: u.unbound_pool_hash (H.hash_min (wqattrs_hash H u.nr_cpumask_bits attrs))))
    (h2 : v.nr_cpumask_bits = u.nr_cpumask_bits)
    (h3 : ∀ p, p ≠ pool → v.s.pool_attrs p = u.s.pool_attrs p)
    (h4 : v.s.pool_attrs pool = wqattrs_clear_for_pool (copy_workqueue_attrs attrs)) :
    TableOk H v := by
  have hm : ∀ b p, p ∈ v.unbound_pool_hash b →
      (p = pool ∧ b = H.hash_min (wqattrs_hash H u.nr_cpumask_bits attrs)) ∨
      (p ≠ pool ∧ p ∈ u.unbound_pool_hash b) := by
    intro b p hp
    rw [h1] at hp
    by_cases hb : b = H.hash_min (wqattrs_hash H u.nr_cpumask_bits attrs)
    · rw [hb, Function.update_same] at hp
      rcases List.mem_cons.1 hp with e | hm
      · exact Or.inl ⟨e, hb⟩
      · right
        refine ⟨fun e => hfresh ⟨_, e ▸ hm⟩, ?_⟩
        rw [hb]
        exact hm
    · rw [Function.update_noteq hb] at hp
      exact Or.inr ⟨fun e => hfresh ⟨b, e ▸ hp⟩, hp⟩
  have hh : ∀ p, v.hashed p → p = pool ∨ (p ≠ pool ∧ u.hashed p) := by
    intro p ⟨b, hb⟩
    rcases hm b p hb with ⟨e, _⟩ | ⟨e, h5⟩
    · exact Or.inl e
    · exact Or.inr ⟨e, b, h5⟩
  constructor
  · intro b p hp
    rw [h2]
    rcases hm b p hp with ⟨e, hb⟩ | ⟨e, h5⟩
    · rw [e, h4, clear_copy_hash]
      exact hb
    · rw [h3 p e]
      exact h.bucket b p h5
  · intro b
    rw [h1]
    by_cases hb : b = H.hash_min (wqattrs_hash H u.nr_cpumask_bits attrs)
    · rw [hb, Function.update_same]
      exact List.nodup_cons.2 ⟨fun hm2 => hfresh ⟨_, hm2⟩, h.nodup _⟩
    · rw [Function.update_noteq hb]
      exact h.nodup b
  · intro p hp
    rw [h2]
    rcases hh p hp with e | ⟨e, h5⟩
    · rw [e, h4]
      exact clear_copy_tail _ _ ht
    · rw [h3 p e]
      exact h.tail p h5
  · intro p q hp hq he
    rw [h2] at he
    rcases hh p hp with e | ⟨e, h5⟩
    · rcases hh q hq with e2 | ⟨e2, h6⟩
      · rw [e, e2]
      · rw [e, h4, h3 q e2] at he
        have := wqattrs_equal_trans _ _ _ _ (wqattrs_equal_symm _ _ _ he)
          (clear_copy_equal u.nr_cpumask_bits attrs)
        rw [hmiss q h6] at this
        exact absurd this (by simp)
    · rcases hh q hq with e2 | ⟨e2, h6⟩
      · rw [e2, h4, h3 p e] at he
        have := wqattrs_equal_trans _ _ _ _ he (clear_copy_equal u.nr_cpumask_bits attrs)
        rw [hmiss p h5] at this
        exact absurd this (by simp)
      · rw [h3 p e, h3 q e2] at he
        exact h.distinct p q h5 h6 he

theorem final_attrs (s1 : State) (pool : Nat) (id : Int) (worker : Nat) (v : Nat → Bool) :
    ((create_worker (worker_pool_assign_id s1 pool id).2 pool worker).set
      .pool_hashed v).pool_attrs = s1.pool_attrs ∧
    ((worker_pool_assign_id s1 pool id).2.set .pool_hashed v).pool_attrs = s1.pool_attrs ∧
    ((create_worker (worker_pool_assign_id s1 pool id).2 pool worker).set
      .pool_hashed v).pool_refcnt = s1.pool_refcnt ∧
    ((worker_pool_assign_id s1 pool id).2.set .pool_hashed v).pool_refcnt = s1.pool_refcnt := by
  refine ⟨?_, ?_, ?_, ?_⟩
  · show (State.set _ _ _) Field.pool_attrs = _
    rw [State.set_other _ _ _ _ (by simp)]
    exact (create_worker_keeps _ _ _).1.trans (worker_pool_assign_id_keeps _ _ _).1
  · show (State.set _ _ _) Field.pool_attrs = _
    rw [State.set_other _ _ _ _ (by simp)]
    exact (worker_pool_assign_id_keeps _ _ _).1
  · show (State.set _ _ _) Field.pool_refcnt = _
    rw [State.set_other _ _ _ _ (by simp)]
    exact (create_worker_keeps _ _ _).2.trans (worker_pool_assign_id_keeps _ _ _).2
  · show (State.set _ _ _) Field.pool_refcnt = _
    rw [State.set_other _ _ _ _ (by simp)]
    exact (worker_pool_assign_id_keeps _ _ _).2

theorem get_unbound_pool_table_ok (H : hash_lib) (u : UnboundState) (attrs : workqueue_attrs)
    (a : pool_alloc) (r : Nat × UnboundState) (hok : TableOk H u)
    (ht : attrs_tail_clear u.nr_cpumask_bits attrs) (hfresh : ¬ u.hashed a.pool)
    (h : get_unbound_pool H u attrs a = some r) : TableOk H r.2 := by
  obtain ⟨i1, i2, i3, _, _⟩ :=
    init_worker_pool_facts { u with s := kzalloc_worker_pool u.s a.pool } a.pool a.attrs_ok
  have i3b : ∀ p, p ≠ a.pool →
      (init_worker_pool { u with s := kzalloc_worker_pool u.s a.pool } a.pool a.attrs_ok).2.s.pool_attrs
        p = u.s.pool_attrs p := by
    intro p hp
    rw [i3 p hp]
    show (kzalloc_worker_pool u.s a.pool).pool_attrs p = _
    rw [kzalloc_worker_pool_attrs]
  unfold get_unbound_pool at h
  cases hf : (u.unbound_pool_hash (H.hash_min (wqattrs_hash H u.nr_cpumask_bits attrs))).find?
      (fun q => wqattrs_equal u.nr_cpumask_bits (u.s.pool_attrs q) attrs) with
  | some pool =>
    rw [hf] at h
    simp only [] at h
    rw [← Option.some.inj h]
    exact TableOk_congr H u _ hok rfl rfl (fun p _ => by simp [State.pool_attrs])
  | none =>
    rw [hf] at h
    simp only [] at h
    split_ifs at h with c0 c1 c2 c3
    · rw [← Option.some.inj h]
      exact hok
    · obtain ⟨u2, hu2, hr⟩ := Option.map_eq_some'.1 h
      rw [← hr]
      refine put_unbound_pool_table_ok H _ a.pool u2 ?_ hu2
      exact TableOk_fresh H u _ a.pool hok hfresh i1 i2 i3b
    · obtain ⟨u2, hu2, hr⟩ := Option.map_eq_some'.1 h
      rw [← hr]
      refine put_unbound_pool_table_ok H _ a.pool u2 ?_ hu2
      refine TableOk_fresh H u _ a.pool hok hfresh i1 i2 ?_
      intro p hp
      dsimp only
      rw [(worker_pool_assign_id_keeps _ _ _).1]
      simp only [State.pool_attrs, State.set_same, Function.update_noteq hp]
      exact i3b p hp
    · obtain ⟨u2, hu2, hr⟩ := Option.map_eq_some'.1 h
      rw [← hr]
      refine put_unbound_pool_table_ok H _ a.pool u2 ?_ hu2
      refine TableOk_fresh H u _ a.pool hok hfresh i1 i2 ?_
      intro p hp
      dsimp only
      rw [(worker_pool_assign_id_keeps _ _ _).1]
      simp only [State.pool_attrs, State.set_same, Function.update_noteq hp]
      exact i3b p hp
    · rw [← Option.some.inj h]
      refine TableOk_insert H u _ a.pool attrs hok hfresh ht
        (lookup_miss H u attrs hok ht hf) rfl i2 ?_ ?_
      · intro p hp
        dsimp only
        rw [(final_attrs _ _ _ _ _).1]
        simp only [State.pool_attrs, State.set_same, Function.update_noteq hp]
        exact i3b p hp
      · dsimp only
        rw [(final_attrs _ _ _ _ _).1]
        simp only [State.pool_attrs, State.set_same, Function.update_same]
    · rw [← Option.some.inj h]
      refine TableOk_insert H u _ a.pool attrs hok hfresh ht
        (lookup_miss H u attrs hok ht hf) rfl i2 ?_ ?_
      · intro p hp
        dsimp only
        rw [(final_attrs _ _ _ a.worker _).2.1]
        simp only [State.pool_attrs, State.set_same, Function.update_noteq hp]
        exact i3b p hp
      · dsimp only
        rw [(final_attrs _ _ _ a.worker _).2.1]
        simp only [State.pool_attrs, State.set_same, Function.update_same]

theorem worker_pool_assign_id_ok (s : State) (pool : Nat) (ret : Int) (h : 0 ≤ ret) :
    ¬ (worker_pool_assign_id s pool ret).1 < 0 := by
  unfold worker_pool_assign_id
  rw [if_pos h]
  simp

/-- When no pool of the table has the attributes and the allocations succeed,
`get_unbound_pool` returns the new pool, with `refcnt` 1, on the bucket of the hash of the
attributes and with the attributes. -/
theorem get_unbound_pool_new (H : hash_lib) (u : UnboundState) (attrs : workqueue_attrs)
    (a : pool_alloc)
    (hf : (u.unbound_pool_hash (H.hash_min (wqattrs_hash H u.nr_cpumask_bits attrs))).find?
      (fun q => wqattrs_equal u.nr_cpumask_bits (u.s.pool_attrs q) attrs) = none)
    (h0 : a.pool ≠ 0) (h1 : a.attrs_ok = true) (h2 : 0 ≤ a.id)
    (h3 : u.wq_online = true → a.worker ≠ 0) :
    ∃ v, get_unbound_pool H u attrs a = some (a.pool, v) ∧ v.s.pool_refcnt a.pool = 1 ∧
      v.unbound_pool_hash = Function.update u.unbound_pool_hash
        (H.hash_min (wqattrs_hash H u.nr_cpumask_bits attrs))
        (a.pool :: u.unbound_pool_hash (H.hash_min (wqattrs_hash H u.nr_cpumask_bits attrs))) ∧
      v.s.pool_attrs a.pool = wqattrs_clear_for_pool (copy_workqueue_attrs attrs) ∧
      v.nr_cpumask_bits = u.nr_cpumask_bits := by
  obtain ⟨_, i2, _, i4, i5⟩ :=
    init_worker_pool_facts { u with s := kzalloc_worker_pool u.s a.pool } a.pool a.attrs_ok
  have c1 : ¬ (init_worker_pool { u with s := kzalloc_worker_pool u.s a.pool } a.pool
      a.attrs_ok).1 < 0 := by
    rw [i5, h1]
    simp
  have c3 : ¬ (u.wq_online = true ∧ a.worker = 0) := fun c => h3 c.1 c.2
  unfold get_unbound_pool
  rw [hf]
  simp only []
  rw [if_neg h0, if_neg c1, if_neg (worker_pool_assign_id_ok _ _ _ h2), if_neg c3]
  refine ⟨_, rfl, ?_, rfl, ?_, i2⟩
  · dsimp only
    split_ifs
    · rw [(final_attrs _ _ _ _ _).2.2.1]
      simp only [State.pool_refcnt, State.set_other, ne_eq, reduceCtorEq, not_false_eq_true]
      exact i4
    · rw [(final_attrs _ _ _ a.worker _).2.2.2]
      simp only [State.pool_refcnt, State.set_other, ne_eq, reduceCtorEq, not_false_eq_true]
      exact i4
  · dsimp only
    split_ifs
    · rw [(final_attrs _ _ _ _ _).1]
      simp only [State.pool_attrs, State.set_same, Function.update_same]
    · rw [(final_attrs _ _ _ a.worker _).2.1]
      simp only [State.pool_attrs, State.set_same, Function.update_same]

theorem TableOk_empty (H : hash_lib) (u : UnboundState) (h : ∀ b, u.unbound_pool_hash b = []) :
    TableOk H u := by
  have hh : ∀ p, ¬ u.hashed p := by
    intro p ⟨b, hb⟩
    rw [h b] at hb
    simp at hb
  constructor
  · intro b p hp
    exact absurd ⟨b, hp⟩ (hh p)
  · intro b
    rw [h b]
    exact List.nodup_nil
  · intro p hp
    exact absurd hp (hh p)
  · intro p q hp
    exact absurd hp (hh p)

theorem reach_table_ok (H : hash_lib) (u : UnboundState) (h : UnboundReach H u) :
    TableOk H u := by
  induction h with
  | init u h => exact TableOk_empty H u h
  | get u attrs a r _ ht hfresh hg ih => exact get_unbound_pool_table_ok H u attrs a r ih ht hfresh hg
  | put u pool u2 _ hp ih => exact put_unbound_pool_table_ok H u pool u2 ih hp
  | other u v _ h1 h2 h3 ih => exact TableOk_congr H u v ih h1 h2 h3

theorem ex_attrs_tail : attrs_tail_clear 4 ex_attrs := by
  constructor <;> intro c hc <;> simp [ex_attrs] <;> omega

theorem ex_one_pool_spec :
    get_unbound_pool ex_hash ex_no_pool ex_attrs ex_pool_alloc = some (64, ex_one_pool) ∧
    ex_one_pool.s.pool_refcnt 64 = 1 ∧ ex_one_pool.hashed 64 ∧
    ex_one_pool.s.pool_attrs 64 = wqattrs_clear_for_pool (copy_workqueue_attrs ex_attrs) ∧
    ex_one_pool.nr_cpumask_bits = 4 := by
  obtain ⟨v, h1, h2, h3, h4, h5⟩ :=
    get_unbound_pool_new ex_hash ex_no_pool ex_attrs ex_pool_alloc
      rfl (by decide) rfl (by decide) (fun _ => by decide)
  have e : ex_one_pool = v := by
    unfold ex_one_pool
    rw [h1]
  rw [e]
  refine ⟨h1, h2, ⟨ex_hash.hash_min (wqattrs_hash ex_hash ex_no_pool.nr_cpumask_bits ex_attrs),
    ?_⟩, h4, h5⟩
  rw [h3, Function.update_same]
  exact List.mem_cons_self _ _

theorem ex_one_pool_reach : UnboundReach ex_hash ex_one_pool :=
  UnboundReach.get ex_no_pool ex_attrs ex_pool_alloc (64, ex_one_pool)
    (UnboundReach.init ex_no_pool (fun _ => rfl)) ex_attrs_tail
    (fun ⟨b, hb⟩ => by simp [ex_no_pool] at hb) ex_one_pool_spec.1

/-! ## The attributes that the callers pass to `get_unbound_pool` -/

theorem cpumask_and_tail (n : Nat) (a b : Nat → Bool) :
    cpumask_tail_clear n (cpumask_and n a b) := by
  intro c hc
  unfold cpumask_and
  have : ¬ c < n := by omega
  simp [this]

/-- After `wqattrs_actualize_cpumask` the cpumask has its unused bits clear when
`unbound_cpumask` has. -/
theorem wqattrs_actualize_cpumask_tail (n : Nat) (attrs : workqueue_attrs)
    (unbound_cpumask : Nat → Bool) (h : cpumask_tail_clear n unbound_cpumask) :
    cpumask_tail_clear n (wqattrs_actualize_cpumask n attrs unbound_cpumask).cpumask := by
  unfold wqattrs_actualize_cpumask
  split_ifs
  · exact h
  · exact cpumask_and_tail n _ _

/-- The attributes for the default pool_workqueue in `apply_wqattrs_prepare` have their
unused bits clear. -/
theorem apply_wqattrs_dfl_attrs_tail (u : UnboundState) (attrs : workqueue_attrs)
    (unbound_cpumask : Nat → Bool) (h : cpumask_tail_clear u.nr_cpumask_bits unbound_cpumask) :
    attrs_tail_clear u.nr_cpumask_bits (apply_wqattrs_dfl_attrs u attrs unbound_cpumask) :=
  ⟨wqattrs_actualize_cpumask_tail _ _ _ h, wqattrs_actualize_cpumask_tail _ _ _ h⟩

/-- After `wq_calc_pod_cpumask` both cpumasks have their unused bits clear when `cpumask`
had. -/
theorem wq_calc_pod_cpumask_tail (u : UnboundState) (attrs attrs2 : workqueue_attrs)
    (cpu : Nat) (cpu_going_down : Int)
    (h : cpumask_tail_clear u.nr_cpumask_bits attrs.cpumask)
    (hc : wq_calc_pod_cpumask u attrs cpu cpu_going_down = some attrs2) :
    attrs_tail_clear u.nr_cpumask_bits attrs2 ∧ attrs2.cpumask = attrs.cpumask := by
  unfold wq_calc_pod_cpumask at hc
  cases hp : wqattrs_pod_type u attrs with
  | none =>
    rw [hp] at hc
    cases hc
  | some pt =>
    rw [hp] at hc
    dsimp only at hc
    split_ifs at hc
    all_goals
      injection hc with hc
      rw [← hc]
      first
        | exact ⟨⟨h, h⟩, rfl⟩
        | exact ⟨⟨h, cpumask_and_tail _ _ _⟩, rfl⟩

/-- C22: in every state that the calls of `get_unbound_pool` and `put_unbound_pool` reach
from an empty hash table, for attributes as the callers pass them, whose cpumasks have the
unused bits clear: when `wqattrs_equal` holds between the attributes of a pool `p` of
`unbound_pool_hash` and `attrs`, `get_unbound_pool` returns `p` and the state differs in
`refcnt` of `p` only, which is one more, so no pool is created; no two pools of the table
have equal attributes, and the call of `get_unbound_pool` (with `kzalloc_node` returning
memory that is not a pool of the table) and the call of `put_unbound_pool` lead to such a
state again; when no pool of the table has the attributes and the allocations succeed, the
new pool is returned with `refcnt` 1 on the table; and `put_unbound_pool` changes `refcnt`
only unless the new `refcnt` is zero.  The last part is about the three calls of
`alloc_unbound_pwq`, the only caller of `get_unbound_pool`: the attributes are those of
`apply_wqattrs_prepare` for the default pool_workqueue, or the result of
`wq_calc_pod_cpumask` on attributes with the cpumask that `wqattrs_actualize_cpumask` left,
in `apply_wqattrs_prepare` and in `wq_update_pod`; their cpumasks have the unused bits
clear whenever `wq_unbound_cpumask` has, which is a copy of `cpu_possible_mask` restricted
by `cpumask_and`. -/
theorem get_unbound_pool_shares_equal_attrs (H : hash_lib) (u : UnboundState)
    (attrs : workqueue_attrs) (a : pool_alloc) (hr : UnboundReach H u)
    (ht : attrs_tail_clear u.nr_cpumask_bits attrs) :
    (∀ p, u.hashed p →
      wqattrs_equal u.nr_cpumask_bits (u.s.pool_attrs p) attrs = true →
      get_unbound_pool H u attrs a = some (p, { u with
        s := (u.s.set .pool_refcnt
          (Function.update u.s.pool_refcnt p (u.s.pool_refcnt p + 1))) })) ∧
    (∀ p q, u.hashed p → u.hashed q →
      wqattrs_equal u.nr_cpumask_bits (u.s.pool_attrs p) (u.s.pool_attrs q) = true → p = q) ∧
    (¬ u.hashed a.pool → ∀ r, get_unbound_pool H u attrs a = some r → UnboundReach H r.2) ∧
    (∀ pool u2, put_unbound_pool u pool = some u2 → UnboundReach H u2) ∧
    ((∀ p, u.hashed p →
        wqattrs_equal u.nr_cpumask_bits (u.s.pool_attrs p) attrs = false) →
      a.pool ≠ 0 → a.attrs_ok = true → 0 ≤ a.id → (u.wq_online = true → a.worker ≠ 0) →
      ∃ v, get_unbound_pool H u attrs a = some (a.pool, v) ∧ v.s.pool_refcnt a.pool = 1 ∧
        v.hashed a.pool) ∧
    (∀ pool, u.s.pool_refcnt pool - 1 ≠ 0 →
      put_unbound_pool u pool = some { u with
        s := (u.s.set .pool_refcnt
          (Function.update u.s.pool_refcnt pool (u.s.pool_refcnt pool - 1))) }) ∧
    (∀ (attrs0 : workqueue_attrs) (unbound_cpumask : Nat → Bool),
      cpumask_tail_clear u.nr_cpumask_bits unbound_cpumask →
      attrs_tail_clear u.nr_cpumask_bits (apply_wqattrs_dfl_attrs u attrs0 unbound_cpumask) ∧
      ∀ (attrs1 attrs2 : workqueue_attrs) (cpu : Nat) (cpu_going_down : Int),
        attrs1.cpumask = (wqattrs_actualize_cpumask u.nr_cpumask_bits
          (copy_workqueue_attrs attrs0) unbound_cpumask).cpumask →
        wq_calc_pod_cpumask u attrs1 cpu cpu_going_down = some attrs2 →
        attrs_tail_clear u.nr_cpumask_bits attrs2) := by
  have hok := reach_table_ok H u hr
  refine ⟨?_, hok.distinct, ?_, ?_, ?_, ?_, ?_⟩
  · intro p hp he
    unfold get_unbound_pool
    rw [lookup_hit H u attrs p hok ht hp he]
  · intro hfresh r hg
    exact UnboundReach.get u attrs a r hr ht hfresh hg
  · intro pool u2 hp
    exact UnboundReach.put u pool u2 hr hp
  · intro hmiss h0 h1 h2 h3
    have hf : (u.unbound_pool_hash (H.hash_min (wqattrs_hash H u.nr_cpumask_bits attrs))).find?
        (fun q => wqattrs_equal u.nr_cpumask_bits (u.s.pool_attrs q) attrs) = none := by
      rw [List.find?_eq_none]
      intro q hq
      rw [hmiss q ⟨_, hq⟩]
      simp
    obtain ⟨v, e1, e2, e3, _⟩ := get_unbound_pool_new H u attrs a hf h0 h1 h2 h3
    refine ⟨v, e1, e2, H.hash_min (wqattrs_hash H u.nr_cpumask_bits attrs), ?_⟩
    rw [e3, Function.update_same]
    exact List.mem_cons_self _ _
  · intro pool hne
    unfold put_unbound_pool
    simp only []
    rw [if_pos]
    simpa [State.pool_refcnt] using hne
  · intro attrs0 unbound_cpumask hu
    refine ⟨apply_wqattrs_dfl_attrs_tail u attrs0 unbound_cpumask hu, ?_⟩
    intro attrs1 attrs2 cpu d h1 h2
    apply (wq_calc_pod_cpumask_tail u attrs1 attrs2 cpu d ?_ h2).1
    rw [h1]
    exact wqattrs_actualize_cpumask_tail _ _ _ hu

/-- C22 (witness): the pool 64 was created for `ex_attrs`; a second call for the same
attributes returns it with `refcnt` 2. -/
theorem get_unbound_pool_shares_equal_attrs_witness :
    UnboundReach ex_hash ex_one_pool ∧ attrs_tail_clear ex_one_pool.nr_cpumask_bits ex_attrs ∧
    ex_one_pool.hashed 64 ∧
    get_unbound_pool ex_hash ex_one_pool ex_attrs ex_pool_alloc = some (64, { ex_one_pool with
      s := (ex_one_pool.s.set .pool_refcnt
        (Function.update ex_one_pool.s.pool_refcnt 64 (ex_one_pool.s.pool_refcnt 64 + 1))) }) :=
  have ht : attrs_tail_clear ex_one_pool.nr_cpumask_bits ex_attrs := by
    rw [ex_one_pool_spec.2.2.2.2]
    exact ex_attrs_tail
  ⟨ex_one_pool_reach, ht, ex_one_pool_spec.2.2.1,
    (get_unbound_pool_shares_equal_attrs ex_hash ex_one_pool ex_attrs ex_pool_alloc
      ex_one_pool_reach ht).1 64 ex_one_pool_spec.2.2.1 (by
        rw [ex_one_pool_spec.2.2.2.1]
        exact clear_copy_equal _ ex_attrs)⟩

theorem ex_stray_bucket :
    ex_hash.hash_min (wqattrs_hash ex_hash 4 ex_attrs) = 32 ∧
    ex_hash.hash_min (wqattrs_hash ex_hash 4 ex_attrs_stray) = 0 := by
  constructor <;> decide

/-- The unused bits matter: the table holds the pool 64, created for `ex_attrs`.  The
attributes `ex_attrs_stray` have a bit above `nr_cpumask_bits` set, which the cpumask
operations of the callers never leave.  They are equal to the attributes of the pool 64 by
`wqattrs_equal`, which compares the cpumasks below `nr_cpumask_bits`, but `wqattrs_hash`
hashes the whole unsigned long of the bitmap, so the lookup goes to another bucket:
`get_unbound_pool` creates the pool 128 with `refcnt` 1, and the table holds two pools with
equal attributes. -/
theorem get_unbound_pool_misses_equal_attrs :
    ex_one_pool.hashed 64 ∧
    wqattrs_equal ex_one_pool.nr_cpumask_bits (ex_one_pool.s.pool_attrs 64) ex_attrs_stray =
      true ∧
    ∃ v, get_unbound_pool ex_hash ex_one_pool ex_attrs_stray ex_pool_alloc2 = some (128, v) ∧
      v.s.pool_refcnt 128 = 1 ∧ v.hashed 64 ∧ v.hashed 128 ∧
      wqattrs_equal v.nr_cpumask_bits (ex_one_pool.s.pool_attrs 64) (v.s.pool_attrs 128) =
        true := by
  obtain ⟨w, h1, _, h3, _, _⟩ :=
    get_unbound_pool_new ex_hash ex_no_pool ex_attrs ex_pool_alloc
      rfl (by decide) rfl (by decide) (fun _ => by decide)
  have e : ex_one_pool = w := by
    unfold ex_one_pool
    rw [h1]
  obtain ⟨_, _, s3, s4, s5⟩ := ex_one_pool_spec
  have hb : ∀ b, ex_one_pool.unbound_pool_hash b = if b = 32 then [64] else [] := by
    intro b
    rw [e, h3]
    have e1 : ex_no_pool.nr_cpumask_bits = 4 := rfl
    rw [e1, ex_stray_bucket.1]
    by_cases c : b = 32
    · rw [c, Function.update_same, if_pos rfl]
      rfl
    · rw [Function.update_noteq c, if_neg c]
      rfl
  have heq : wqattrs_equal 4 (wqattrs_clear_for_pool (copy_workqueue_attrs ex_attrs))
      ex_attrs_stray = true := by
    rw [wqattrs_equal_iff]
    refine ⟨rfl, ?_, ?_, rfl⟩ <;> rw [cpumask_equal_iff] <;> intro c hc <;>
      simp [wqattrs_clear_for_pool, copy_workqueue_attrs, ex_attrs, ex_attrs_stray]
    omega
  have hf : (ex_one_pool.unbound_pool_hash
      (ex_hash.hash_min (wqattrs_hash ex_hash ex_one_pool.nr_cpumask_bits ex_attrs_stray))).find?
      (fun q => wqattrs_equal ex_one_pool.nr_cpumask_bits (ex_one_pool.s.pool_attrs q)
        ex_attrs_stray) = none := by
    rw [s5, ex_stray_bucket.2, hb 0, if_neg (by decide)]
    rfl
  obtain ⟨v, g1, g2, g3, g4, g5⟩ :=
    get_unbound_pool_new ex_hash ex_one_pool ex_attrs_stray ex_pool_alloc2 hf (by decide) rfl
      (by decide) (fun _ => by decide)
  rw [s5, ex_stray_bucket.2] at g3
  refine ⟨s3, by rw [s4, s5]; exact heq, v, g1, g2, ⟨32, ?_⟩, ⟨0, ?_⟩, ?_⟩
  · rw [g3, Function.update_noteq (by decide), hb 32, if_pos rfl]
    exact List.mem_cons_self _ _
  · rw [g3, Function.update_same]
    exact List.mem_cons_self _ _
  · have g6 : v.s.pool_attrs 128 = wqattrs_clear_for_pool (copy_workqueue_attrs ex_attrs_stray) :=
      g4
    rw [g5, s5, s4, g6]
    rw [wqattrs_equal_iff]
    refine ⟨rfl, ?_, ?_, rfl⟩ <;> rw [cpumask_equal_iff] <;> intro c hc <;>
      simp [wqattrs_clear_for_pool, copy_workqueue_attrs, ex_attrs, ex_attrs_stray]
    omega

/-! ## The pool_workqueues of an unbound workqueue -/

theorem State.set_set (s : State) (f : Field) (a b : f.type) : (s.set f a).set f b = s.set f b :=
  Function.update_idem a b s

/-- For ordered attributes the loop of `apply_wqattrs_prepare` maps every CPU it visits to
the default pool_workqueue and takes one reference on it per CPU. -/
theorem apply_wqattrs_prepare_loop_ordered (H : hash_lib) (allocs : Nat → pwq_alloc)
    (new_attrs : workqueue_attrs) (ho : new_attrs.ordered = true) :
    ∀ (cpus : List Nat) (u : UnboundState) (ctx : apply_wqattrs_ctx),
      apply_wqattrs_prepare_loop H allocs cpus u new_attrs ctx =
        some (true,
          { u with
            s := (u.s.set .pwq_refcnt (Function.update u.s.pwq_refcnt ctx.dfl_pwq
              (u.s.pwq_refcnt ctx.dfl_pwq + (cpus.length : Int)))) },
          new_attrs,
          { ctx with pwq_tbl := fun c => if c ∈ cpus then ctx.dfl_pwq else ctx.pwq_tbl c }) := by
  intro cpus
  induction cpus with
  | nil =>
    intro u ctx
    unfold apply_wqattrs_prepare_loop
    have e : (u.s.set .pwq_refcnt (Function.update u.s.pwq_refcnt ctx.dfl_pwq
        (u.s.pwq_refcnt ctx.dfl_pwq + ((([] : List Nat).length : Nat) : Int)))) = u.s := by
      simp only [List.length_nil, Nat.cast_zero, add_zero, Function.update_eq_self]
      exact State.set_self u.s _
    rw [e]
    simp
  | cons cpu cpus ih =>
    intro u ctx
    unfold apply_wqattrs_prepare_loop
    rw [if_pos ho, ih]
    simp only [State.set_set, State.pwq_refcnt, State.set_same, Function.update_same,
      Function.update_idem, List.length_cons, Nat.cast_add, Nat.cast_one]
    have e1 : u.s Field.pwq_refcnt ctx.dfl_pwq + 1 + (cpus.length : Int) =
        u.s Field.pwq_refcnt ctx.dfl_pwq + ((cpus.length : Int) + 1) := by omega
    have e2 : (fun c => if c ∈ cpus then ctx.dfl_pwq
        else Function.update ctx.pwq_tbl cpu ctx.dfl_pwq c) =
        fun c => if c ∈ cpu :: cpus then ctx.dfl_pwq else ctx.pwq_tbl c := by
      funext c
      by_cases h1 : c = cpu
      · subst h1
        simp
      · simp [h1, Function.update_noteq h1]
    rw [e1, e2]

theorem create_worker_wq (s : State) (P k : Nat) (g : Field)
    (hg : g = .wq_pwqs ∨ g = .nr_cpu_ids) : create_worker s P k g = s g := by
  unfold create_worker
  rcases hg with rfl | rfl
  · rw [wake_up_process_frame _ _ _ (by simp), kick_pool_frame _ _ _ (by simp) (by simp) (by simp),
      worker_enter_idle_frame _ _ _ (by simp) (by simp) (by simp) (by simp) (by simp) (by simp)
        (by simp)]
    unfold worker_attach_to_pool alloc_worker
    simp only []
    split_ifs <;> simp
  · rw [wake_up_process_frame _ _ _ (by simp), kick_pool_frame _ _ _ (by simp) (by simp) (by simp),
      worker_enter_idle_frame _ _ _ (by simp) (by simp) (by simp) (by simp) (by simp) (by simp)
        (by simp)]
    unfold worker_attach_to_pool alloc_worker
    simp only []
    split_ifs <;> simp

theorem init_worker_pool_wq (u : UnboundState) (pool : Nat) (ok : Bool) (g : Field)
    (hg : g = .wq_pwqs ∨ g = .nr_cpu_ids) :
    (init_worker_pool u pool ok).2.s g = u.s g ∧
    (init_worker_pool u pool ok).2.cpu_possible_mask = u.cpu_possible_mask := by
  unfold init_worker_pool
  simp only []
  rcases hg with rfl | rfl <;> split_ifs <;> exact ⟨by simp, rfl⟩

/-- On the paths of `get_unbound_pool` that return a pool, the list `pwqs` of the
workqueues, `nr_cpu_ids` and `cpu_possible_mask` stay as they are. -/
theorem get_unbound_pool_wq (H : hash_lib) (u : UnboundState) (attrs : workqueue_attrs)
    (a : pool_alloc) (r : Nat × UnboundState) (h : get_unbound_pool H u attrs a = some r)
    (hp : r.1 ≠ 0) (g : Field) (hg : g = .wq_pwqs ∨ g = .nr_cpu_ids) :
    r.2.s g = u.s g ∧ r.2.cpu_possible_mask = u.cpu_possible_mask := by
  have hk : kzalloc_worker_pool u.s a.pool g = u.s g := by
    unfold kzalloc_worker_pool
    rcases hg with rfl | rfl <;> simp
  obtain ⟨i1, i2⟩ :=
    init_worker_pool_wq { u with s := kzalloc_worker_pool u.s a.pool } a.pool a.attrs_ok g hg
  have hw : ∀ (s1 : State) (v : Nat → Bool),
      ((worker_pool_assign_id s1 a.pool a.id).2.set .pool_hashed v) g = s1 g ∧
      ((create_worker (worker_pool_assign_id s1 a.pool a.id).2 a.pool a.worker).set
        .pool_hashed v) g = s1 g := by
    intro s1 v
    have e : (worker_pool_assign_id s1 a.pool a.id).2 g = s1 g := by
      unfold worker_pool_assign_id
      rcases hg with rfl | rfl <;> split_ifs <;> simp
    constructor
    · rw [State.set_other _ _ _ _ (by rcases hg with rfl | rfl <;> simp), e]
    · rw [State.set_other _ _ _ _ (by rcases hg with rfl | rfl <;> simp),
        create_worker_wq _ _ _ g hg, e]
  have ha : ∀ (s1 : State) (v : Nat → workqueue_attrs), (s1.set .pool_attrs v) g = s1 g := by
    intro s1 v
    exact State.set_other _ _ _ _ (by rcases hg with rfl | rfl <;> simp)
  unfold get_unbound_pool at h
  cases hf : (u.unbound_pool_hash (H.hash_min (wqattrs_hash H u.nr_cpumask_bits attrs))).find?
      (fun q => wqattrs_equal u.nr_cpumask_bits (u.s.pool_attrs q) attrs) with
  | some pool =>
    rw [hf] at h
    simp only [] at h
    rw [← Option.some.inj h]
    refine ⟨?_, rfl⟩
    exact State.set_other _ _ _ _ (by rcases hg with rfl | rfl <;> simp)
  | none =>
    rw [hf] at h
    simp only [] at h
    split_ifs at h with c0 c1 c2 c3
    · rw [← Option.some.inj h] at hp
      exact absurd rfl hp
    · obtain ⟨u2, _, hr⟩ := Option.map_eq_some'.1 h
      rw [← hr] at hp
      exact absurd rfl hp
    · obtain ⟨u2, _, hr⟩ := Option.map_eq_some'.1 h
      rw [← hr] at hp
      exact absurd rfl hp
    · obtain ⟨u2, _, hr⟩ := Option.map_eq_some'.1 h
      rw [← hr] at hp
      exact absurd rfl hp
    · rw [← Option.some.inj h]
      refine ⟨?_, i2⟩
      dsimp only
      rw [(hw _ _).2, ha, i1]
      exact hk
    · rw [← Option.some.inj h]
      refine ⟨?_, i2⟩
      dsimp only
      rw [(hw _ _).1, ha, i1]
      exact hk

theorem init_pwq_facts (s : State) (pwq wq pool : Nat) (s2 : State)
    (h : init_pwq s pwq wq pool = some s2) :
    s2.pwq_refcnt pwq = 1 ∧ s2.pwq_wq pwq = wq ∧ s2.wq_pwqs = s.wq_pwqs ∧
    s2.nr_cpu_ids = s.nr_cpu_ids := by
  unfold init_pwq at h
  split_ifs at h
  rw [← Option.some.inj h]
  simp [State.pwq_refcnt, State.pwq_wq, State.wq_pwqs, State.nr_cpu_ids]

/-- A successful `alloc_unbound_pwq` returns the new pool_workqueue with `refcnt` 1 for the
workqueue. -/
theorem alloc_unbound_pwq_ok (H : hash_lib) (u : UnboundState) (wq : Nat)
    (attrs : workqueue_attrs) (a : pwq_alloc) (r : Nat × UnboundState)
    (h : alloc_unbound_pwq H u wq attrs a = some r) (hp : r.1 ≠ 0) :
    r.1 = a.pwq ∧ r.2.s.pwq_refcnt r.1 = 1 ∧ r.2.s.pwq_wq r.1 = wq ∧
    r.2.s.wq_pwqs = u.s.wq_pwqs ∧ possible_cpus r.2 = possible_cpus u := by
  unfold alloc_unbound_pwq at h
  cases hgp : get_unbound_pool H u attrs a.pool with
  | none =>
    rw [hgp] at h
    exact absurd h (by simp)
  | some r1 =>
    rw [hgp] at h
    simp only [] at h
    split_ifs at h with c0 c1
    · rw [← Option.some.inj h] at hp
      exact absurd rfl hp
    · obtain ⟨u2, _, hr⟩ := Option.map_eq_some'.1 h
      rw [← hr] at hp
      exact absurd rfl hp
    · obtain ⟨s2, hs2, hr⟩ := Option.map_eq_some'.1 h
      obtain ⟨f1, f2, f3, f4⟩ := init_pwq_facts _ _ _ _ _ hs2
      obtain ⟨g1, g2⟩ := get_unbound_pool_wq H u attrs a.pool r1 hgp c0 .wq_pwqs (Or.inl rfl)
      obtain ⟨g3, _⟩ := get_unbound_pool_wq H u attrs a.pool r1 hgp c0 .nr_cpu_ids (Or.inr rfl)
      rw [← hr]
      refine ⟨rfl, f1, f2, f3.trans g1, ?_⟩
      unfold possible_cpus
      dsimp only
      rw [f4, g2]
      have : r1.2.s.nr_cpu_ids = u.s.nr_cpu_ids := g3
      rw [this]

theorem apply_wqattrs_dfl_attrs_ordered (u : UnboundState) (attrs : workqueue_attrs)
    (m : Nat → Bool) : (apply_wqattrs_dfl_attrs u attrs m).ordered = attrs.ordered := by
  unfold apply_wqattrs_dfl_attrs wqattrs_actualize_cpumask
  split_ifs <;> rfl

/-- For ordered attributes and a successful allocation of the default pool_workqueue,
`apply_wqattrs_prepare` returns a context whose table maps every possible CPU to the default
pool_workqueue, and the state is that after the allocation with one more reference on the
default pool_workqueue per possible CPU. -/
theorem apply_wqattrs_prepare_ordered (H : hash_lib) (u : UnboundState) (wq : Nat)
    (attrs : workqueue_attrs) (m : Nat → Bool) (dfl : pwq_alloc) (allocs : Nat → pwq_alloc)
    (r : Nat × UnboundState)
    (hs : 0 ≤ attrs.affn_scope ∧ attrs.affn_scope < WQ_AFFN_NR_TYPES)
    (ho : attrs.ordered = true)
    (hd : alloc_unbound_pwq H u wq (apply_wqattrs_dfl_attrs u attrs m) dfl = some r)
    (hp : r.1 ≠ 0) :
    apply_wqattrs_prepare H u wq attrs m true true dfl allocs =
      some (0,
        { wq := wq
          attrs :=
            { copy_workqueue_attrs attrs with
              cpumask := cpumask_and u.nr_cpumask_bits attrs.cpumask u.cpu_possible_mask
              pod_cpumask := cpumask_and u.nr_cpumask_bits attrs.cpumask u.cpu_possible_mask }
          dfl_pwq := r.1
          pwq_tbl := fun c => if c ∈ possible_cpus u then r.1 else 0 },
        { r.2 with
          s := (r.2.s.set .pwq_refcnt (Function.update r.2.s.pwq_refcnt r.1
            (r.2.s.pwq_refcnt r.1 + ((possible_cpus u).length : Int)))) }) := by
  unfold apply_wqattrs_prepare
  simp only []
  rw [if_neg (by omega), if_neg (by simp), hd]
  simp only []
  rw [if_neg hp, apply_wqattrs_prepare_loop_ordered H allocs _
    ((apply_wqattrs_dfl_attrs_ordered u attrs m).trans ho)]

theorem link_pwq_facts (s : State) (p : Nat) :
    (link_pwq s p).pwq_wq = s.pwq_wq ∧ (link_pwq s p).wq_cpu_pwq = s.wq_cpu_pwq ∧
    (link_pwq s p).wq_dfl_pwq = s.wq_dfl_pwq ∧
    (link_pwq s p).wq_pwqs = (if p ∈ s.wq_pwqs (s.pwq_wq p) then s.wq_pwqs
      else Function.update s.wq_pwqs (s.pwq_wq p) (p :: s.wq_pwqs (s.pwq_wq p))) := by
  unfold link_pwq
  simp only []
  split_ifs with h
  · exact ⟨rfl, rfl, rfl, rfl⟩
  · refine ⟨?_, ?_, ?_, ?_⟩ <;>
      simp [State.pwq_wq, State.wq_cpu_pwq, State.wq_dfl_pwq, State.wq_pwqs]

theorem link_pwq_only (s : State) (wq p : Nat) (h : only_linked s wq p) :
    (link_pwq s p).wq_pwqs wq = [p] ∧ only_linked (link_pwq s p) wq p := by
  obtain ⟨f1, f2, f3, f4⟩ := link_pwq_facts s p
  obtain ⟨h1, h2⟩ := h
  have e : (link_pwq s p).wq_pwqs wq = [p] := by
    rw [f4, h1]
    rcases h2 with h2 | h2
    · rw [if_neg (by rw [h2]; simp), Function.update_same, h2]
    · rw [if_pos (by rw [h2]; simp), h2]
  exact ⟨e, by rw [only_linked, f1]; exact ⟨h1, Or.inr e⟩⟩

theorem install_unbound_pwq_only (s : State) (wq cpu p : Nat) (h : only_linked s wq p) :
    only_linked (install_unbound_pwq s wq cpu p).2 wq p ∧
    (install_unbound_pwq s wq cpu p).2.wq_pwqs wq = [p] ∧
    (install_unbound_pwq s wq cpu p).2.wq_cpu_pwq wq cpu = p ∧
    ∀ c, c ≠ cpu →
      (install_unbound_pwq s wq cpu p).2.wq_cpu_pwq wq c = s.wq_cpu_pwq wq c := by
  obtain ⟨f1, f2, f3, f4⟩ := link_pwq_facts s p
  obtain ⟨e, h2⟩ := link_pwq_only s wq p h
  unfold install_unbound_pwq
  simp only []
  have a1 : ((link_pwq s p).set .wq_cpu_pwq (Function.update (link_pwq s p).wq_cpu_pwq wq
      (Function.update ((link_pwq s p).wq_cpu_pwq wq) cpu p))).wq_pwqs = (link_pwq s p).wq_pwqs := by
    simp [State.wq_pwqs]
  have a2 : ((link_pwq s p).set .wq_cpu_pwq (Function.update (link_pwq s p).wq_cpu_pwq wq
      (Function.update ((link_pwq s p).wq_cpu_pwq wq) cpu p))).pwq_wq = (link_pwq s p).pwq_wq := by
    simp [State.pwq_wq]
  have a3 : ((link_pwq s p).set .wq_cpu_pwq (Function.update (link_pwq s p).wq_cpu_pwq wq
      (Function.update ((link_pwq s p).wq_cpu_pwq wq) cpu p))).wq_cpu_pwq =
      Function.update (link_pwq s p).wq_cpu_pwq wq
        (Function.update ((link_pwq s p).wq_cpu_pwq wq) cpu p) := by
    simp [State.wq_cpu_pwq]
  refine ⟨?_, ?_, ?_, ?_⟩
  · rw [only_linked, a1, a2]
    exact h2
  · rw [a1]
    exact e
  · rw [a3, Function.update_same, Function.update_same]
  · intro c hc
    rw [a3, Function.update_same, Function.update_noteq hc, f2]

theorem install_fold (wq p : Nat) (tbl0 : Nat → Nat) : ∀ (cpus : List Nat) (s : State)
    (tbl : Nat → Nat), only_linked s wq p → (∀ c ∈ cpus, tbl0 c = p) →
    only_linked (cpus.foldl (fun (r : State × (Nat → Nat)) cpu =>
      ((install_unbound_pwq r.1 wq cpu (tbl0 cpu)).2,
        Function.update r.2 cpu (install_unbound_pwq r.1 wq cpu (tbl0 cpu)).1)) (s, tbl)).1 wq p ∧
    ∀ c, (c ∈ cpus → (cpus.foldl (fun (r : State × (Nat → Nat)) cpu =>
      ((install_unbound_pwq r.1 wq cpu (tbl0 cpu)).2,
        Function.update r.2 cpu (install_unbound_pwq r.1 wq cpu (tbl0 cpu)).1))
        (s, tbl)).1.wq_cpu_pwq wq c = p) ∧
      (c ∉ cpus → (cpus.foldl (fun (r : State × (Nat → Nat)) cpu =>
      ((install_unbound_pwq r.1 wq cpu (tbl0 cpu)).2,
        Function.update r.2 cpu (install_unbound_pwq r.1 wq cpu (tbl0 cpu)).1))
        (s, tbl)).1.wq_cpu_pwq wq c = s.wq_cpu_pwq wq c) := by
  intro cpus
  induction cpus with
  | nil =>
    intro s tbl h _
    exact ⟨h, fun c => ⟨fun hc => absurd hc (by simp), fun _ => rfl⟩⟩
  | cons cpu cpus ih =>
    intro s tbl h ht
    rw [List.foldl_cons]
    have hcpu : tbl0 cpu = p := ht cpu (List.mem_cons_self _ _)
    obtain ⟨b1, _, b3, b4⟩ := install_unbound_pwq_only s wq cpu p h
    rw [hcpu]
    obtain ⟨j1, j2⟩ := ih (install_unbound_pwq s wq cpu p).2
      (Function.update tbl cpu (install_unbound_pwq s wq cpu p).1) b1
      (fun c hc => ht c (List.mem_cons_of_mem _ hc))
    refine ⟨j1, fun c => ⟨?_, ?_⟩⟩
    · intro hc
      by_cases hr : c ∈ cpus
      · exact (j2 c).1 hr
      · rw [(j2 c).2 hr]
        rcases List.mem_cons.1 hc with e | e
        · rw [e]; exact b3
        · exact absurd e hr
    · intro hc
      have h1 : c ≠ cpu := fun e => hc (e ▸ List.mem_cons_self _ _)
      have h2 : c ∉ cpus := fun e => hc (List.mem_cons_of_mem _ e)
      rw [(j2 c).2 h2]
      exact b4 c h1

/-- After `apply_wqattrs_commit` of a context whose table maps every possible CPU to the
default pool_workqueue, on a workqueue without pool_workqueues, the default pool_workqueue
is the only pool_workqueue of the workqueue and every possible CPU is mapped to it. -/
theorem apply_wqattrs_commit_single (u : UnboundState) (ctx : apply_wqattrs_ctx) (p : Nat)
    (hd : ctx.dfl_pwq = p) (ht : ∀ c ∈ possible_cpus u, ctx.pwq_tbl c = p)
    (h1 : u.s.pwq_wq p = ctx.wq) (h2 : u.s.wq_pwqs ctx.wq = []) :
    (apply_wqattrs_commit u ctx).1.s.wq_pwqs ctx.wq = [p] ∧
    (∀ c ∈ possible_cpus u, (apply_wqattrs_commit u ctx).1.s.wq_cpu_pwq ctx.wq c = p) ∧
    (apply_wqattrs_commit u ctx).1.s.wq_dfl_pwq ctx.wq = p := by
  obtain ⟨j1, j2⟩ := install_fold ctx.wq p ctx.pwq_tbl (possible_cpus u) u.s ctx.pwq_tbl
    ⟨h1, Or.inl h2⟩ ht
  obtain ⟨e, _⟩ := link_pwq_only _ ctx.wq p j1
  obtain ⟨f1, f2, f3, f4⟩ := link_pwq_facts ((possible_cpus u).foldl
    (fun (r : State × (Nat → Nat)) cpu =>
      ((install_unbound_pwq r.1 ctx.wq cpu (ctx.pwq_tbl cpu)).2,
        Function.update r.2 cpu (install_unbound_pwq r.1 ctx.wq cpu (ctx.pwq_tbl cpu)).1))
    (u.s, ctx.pwq_tbl)).1 p
  unfold apply_wqattrs_commit
  simp only []
  rw [hd]
  refine ⟨?_, ?_, ?_⟩
  · simp only [State.wq_pwqs, State.set_other, ne_eq, reduceCtorEq, not_false_eq_true]
    exact e
  · intro c hc
    simp only [State.wq_cpu_pwq, State.set_other, ne_eq, reduceCtorEq, not_false_eq_true]
    have := congrFun (congrFun f2 ctx.wq) c
    simp only [State.wq_cpu_pwq] at this
    rw [this]
    exact (j2 c).1 hc
  · simp [State.wq_dfl_pwq]

theorem alloc_workqueue_flags_ordered (flags : Nat) (pe : Bool)
    (h : flags &&& WQ_UNBOUND ≠ 0) :
    alloc_workqueue_flags flags 1 pe &&& __WQ_ORDERED ≠ 0 ∧
    alloc_workqueue_flags flags 1 pe &&& WQ_UNBOUND ≠ 0 := by
  have hb : flags.testBit 1 = true := by
    by_contra hc
    apply h
    apply Nat.eq_of_testBit_eq
    intro i
    rw [Nat.testBit_and]
    by_cases hi : i = 1
    · rw [hi]
      simp [hc]
    · have : (WQ_UNBOUND).testBit i = false := by
        show (1 <<< 1).testBit i = false
        rw [Nat.one_shiftLeft, Nat.testBit_two_pow]
        simp [Ne.symm hi]
      simp [this]
  have key : ∀ x : Nat, x.testBit 1 = true → x.testBit 17 = true →
      x &&& __WQ_ORDERED ≠ 0 ∧ x &&& WQ_UNBOUND ≠ 0 := by
    intro x h1 h17
    constructor
    · intro e
      have := congrArg (fun v => v.testBit 17) e
      simp only [Nat.testBit_and, h17, Nat.zero_testBit] at this
      revert this
      decide
    · intro e
      have := congrArg (fun v => v.testBit 1) e
      simp only [Nat.testBit_and, h1, Nat.zero_testBit] at this
      revert this
      decide
  have h17 : (__WQ_ORDERED).testBit 17 = true := by decide
  unfold alloc_workqueue_flags
  dsimp only
  rw [if_pos (⟨h, rfl⟩ : flags &&& WQ_UNBOUND ≠ 0 ∧ (1 : Int) = 1)]
  split_ifs
  · apply key
    · rw [Nat.testBit_or, Nat.testBit_or, hb]; rfl
    · rw [Nat.testBit_or, Nat.testBit_or, h17]
      simp
  · apply key
    · rw [Nat.testBit_or, hb]; rfl
    · rw [Nat.testBit_or, h17]
      simp

theorem alloc_unbound_pwq_new (H : hash_lib) (u : UnboundState) (wq : Nat)
    (attrs : workqueue_attrs) (a : pwq_alloc) (r1 : Nat × UnboundState)
    (hg : get_unbound_pool H u attrs a.pool = some r1) (h1 : r1.1 ≠ 0) (h2 : a.pwq ≠ 0)
    (h3 : a.pwq &&& WORK_STRUCT_FLAG_MASK = 0) :
    ∃ v, alloc_unbound_pwq H u wq attrs a = some (a.pwq, v) := by
  unfold alloc_unbound_pwq
  rw [hg]
  simp only []
  rw [if_neg h1, if_neg h2]
  unfold init_pwq
  rw [if_neg (by simp [h3])]
  exact ⟨_, rfl⟩

theorem ex_dfl_allocated_spec :
    alloc_unbound_pwq ex_hash ex_ordered_wq 32
      (apply_wqattrs_dfl_attrs ex_ordered_wq (alloc_and_link_pwqs_attrs ex_ordered_wq 32)
        ex_ordered_wq.s.wq_unbound_cpumask) ex_pwq_alloc = some (256, ex_dfl_allocated) := by
  obtain ⟨v1, h1, _⟩ := get_unbound_pool_new ex_hash ex_ordered_wq
    (apply_wqattrs_dfl_attrs ex_ordered_wq (alloc_and_link_pwqs_attrs ex_ordered_wq 32)
      ex_ordered_wq.s.wq_unbound_cpumask) ex_pool_alloc rfl (by decide) rfl (by decide)
    (fun _ => by decide)
  obtain ⟨v, hv⟩ := alloc_unbound_pwq_new ex_hash ex_ordered_wq 32 _ ex_pwq_alloc _ h1
    (show ex_pool_alloc.pool ≠ 0 by decide) (by decide) (by decide)
  have e : ex_dfl_allocated = v := by
    unfold ex_dfl_allocated
    rw [hv]
  rw [e]
  exact hv

/-- C21: when `apply_wqattrs_prepare` is called with ordered attributes and the allocations
of the context, of the attributes and of the default pool_workqueue succeed, it returns a
context that maps every possible CPU to the default pool_workqueue, and the state is that
after the one call of `alloc_unbound_pwq` with one more reference on the default
pool_workqueue per possible CPU, so `refcnt` is one plus the number of possible CPUs; after
`apply_wqattrs_commit` on a workqueue that had no pool_workqueue, the default pool_workqueue
is the only entry of the list `pwqs` of the workqueue, and it is the pool_workqueue of every
possible CPU and the default one.  `alloc_workqueue` sets `__WQ_ORDERED` for flags with
`WQ_UNBOUND` and `max_active` 1, and for a workqueue with `__WQ_ORDERED`
`alloc_and_link_pwqs` applies the attributes `ordered_wq_attrs`. -/
theorem ordered_wq_single_pwq (H : hash_lib) (u : UnboundState) (wq : Nat)
    (attrs : workqueue_attrs) (m : Nat → Bool) (dfl : pwq_alloc) (allocs : Nat → pwq_alloc)
    (r : Nat × UnboundState)
    (hs : 0 ≤ attrs.affn_scope ∧ attrs.affn_scope < WQ_AFFN_NR_TYPES)
    (ho : attrs.ordered = true)
    (hd : alloc_unbound_pwq H u wq (apply_wqattrs_dfl_attrs u attrs m) dfl = some r)
    (hp : r.1 ≠ 0) :
    (∃ ctx u2, apply_wqattrs_prepare H u wq attrs m true true dfl allocs = some (0, ctx, u2) ∧
      ctx.wq = wq ∧ ctx.dfl_pwq = r.1 ∧ (∀ c ∈ possible_cpus u, ctx.pwq_tbl c = r.1) ∧
      u2 = { r.2 with
        s := (r.2.s.set .pwq_refcnt (Function.update r.2.s.pwq_refcnt r.1
          (r.2.s.pwq_refcnt r.1 + ((possible_cpus u).length : Int)))) } ∧
      u2.s.pwq_refcnt r.1 = 1 + ((possible_cpus u).length : Int) ∧
      (u.s.wq_pwqs wq = [] →
        (apply_wqattrs_commit u2 ctx).1.s.wq_pwqs wq = [r.1] ∧
        (∀ c ∈ possible_cpus u, (apply_wqattrs_commit u2 ctx).1.s.wq_cpu_pwq wq c = r.1) ∧
        (apply_wqattrs_commit u2 ctx).1.s.wq_dfl_pwq wq = r.1)) ∧
    (∀ (flags : Nat) (pe : Bool), flags &&& WQ_UNBOUND ≠ 0 →
      alloc_workqueue_flags flags 1 pe &&& __WQ_ORDERED ≠ 0 ∧
      alloc_workqueue_flags flags 1 pe &&& WQ_UNBOUND ≠ 0) ∧
    (u.s.wq_flags wq &&& __WQ_ORDERED ≠ 0 →
      alloc_and_link_pwqs_attrs u wq =
        u.ordered_wq_attrs (if u.s.wq_flags wq &&& WQ_HIGHPRI ≠ 0 then 1 else 0) ∧
      alloc_and_link_pwqs_unbound H u wq true true dfl allocs =
        apply_workqueue_attrs_locked H u wq
          (u.ordered_wq_attrs (if u.s.wq_flags wq &&& WQ_HIGHPRI ≠ 0 then 1 else 0))
          true true dfl allocs) := by
  obtain ⟨a1, a2, a3, a4, a5⟩ := alloc_unbound_pwq_ok H u wq _ dfl r hd hp
  have hprep := apply_wqattrs_prepare_ordered H u wq attrs m dfl allocs r hs ho hd hp
  refine ⟨⟨_, _, hprep, rfl, rfl, ?_, rfl, ?_, ?_⟩, ?_, ?_⟩
  · intro c hc
    show (if c ∈ possible_cpus u then r.1 else 0) = r.1
    rw [if_pos hc]
  · have a2b : r.2.s Field.pwq_refcnt r.1 = 1 := a2
    simp only [State.pwq_refcnt, State.set_same, Function.update_same]
    rw [a2b]
  · intro hw
    have hpc : possible_cpus { r.2 with
        s := (r.2.s.set .pwq_refcnt (Function.update r.2.s.pwq_refcnt r.1
          (r.2.s.pwq_refcnt r.1 + ((possible_cpus u).length : Int)))) } = possible_cpus u := by
      rw [← a5]
      unfold possible_cpus
      simp [State.nr_cpu_ids]
    have := apply_wqattrs_commit_single
      { r.2 with
        s := (r.2.s.set .pwq_refcnt (Function.update r.2.s.pwq_refcnt r.1
          (r.2.s.pwq_refcnt r.1 + ((possible_cpus u).length : Int)))) }
      { wq := wq
        attrs :=
          { copy_workqueue_attrs attrs with
            cpumask := cpumask_and u.nr_cpumask_bits attrs.cpumask u.cpu_possible_mask
            pod_cpumask := cpumask_and u.nr_cpumask_bits attrs.cpumask u.cpu_possible_mask }
        dfl_pwq := r.1
        pwq_tbl := fun c => if c ∈ possible_cpus u then r.1 else 0 } r.1 rfl
      (by
        intro c hc
        rw [hpc] at hc
        show (if c ∈ possible_cpus u then r.1 else 0) = r.1
        rw [if_pos hc])
      (by
        simp only [State.pwq_wq, State.set_other, ne_eq, reduceCtorEq, not_false_eq_true]
        exact a3)
      (by
        simp only [State.wq_pwqs, State.set_other, ne_eq, reduceCtorEq, not_false_eq_true]
        have := congrFun a4 wq
        exact this.trans hw)
    rw [hpc] at this
    exact this
  · intro flags pe hf
    exact alloc_workqueue_flags_ordered flags pe hf
  · intro hf
    have e : alloc_and_link_pwqs_attrs u wq =
        u.ordered_wq_attrs (if u.s.wq_flags wq &&& WQ_HIGHPRI ≠ 0 then 1 else 0) := by
      unfold alloc_and_link_pwqs_attrs
      rw [if_pos hf]
    refine ⟨e, ?_⟩
    unfold alloc_and_link_pwqs_unbound
    rw [e]

/-- C21 (witness): the workqueue 32 of `ex_ordered_wq` was requested with `WQ_UNBOUND` and
`max_active` 1; the four possible CPUs are mapped to the pool_workqueue 256. -/
theorem ordered_wq_single_pwq_witness :
    (alloc_and_link_pwqs_attrs ex_ordered_wq 32).ordered = true ∧
    ∃ ctx u2,
      apply_wqattrs_prepare ex_hash ex_ordered_wq 32 (alloc_and_link_pwqs_attrs ex_ordered_wq 32)
        ex_ordered_wq.s.wq_unbound_cpumask true true ex_pwq_alloc (fun _ => ex_pwq_alloc) =
        some (0, ctx, u2) ∧
      ctx.dfl_pwq = 256 ∧ ∀ c ∈ possible_cpus ex_ordered_wq, ctx.pwq_tbl c = 256 := by
  refine ⟨by decide, ?_⟩
  obtain ⟨ctx, u2, h1, _, h3, h4, _⟩ :=
    (ordered_wq_single_pwq ex_hash ex_ordered_wq 32 (alloc_and_link_pwqs_attrs ex_ordered_wq 32)
      ex_ordered_wq.s.wq_unbound_cpumask ex_pwq_alloc (fun _ => ex_pwq_alloc)
      (256, ex_dfl_allocated) (by decide) (by decide) ex_dfl_allocated_spec (by decide)).1
  exact ⟨ctx, u2, h1, h3, h4⟩

/-! ## Colours, stairs and counts -/

theorem work_next_color_emod (c : Int) (h : 0 ≤ c) : work_next_color c = (c + 1) % 16 := by
  unfold work_next_color
  show Int.tmod (c + 1) 16 = (c + 1) % 16
  rw [Int.tmod_eq_emod (by omega) (by decide)]

theorem filter_length_same (L : List Nat) (q q2 : Nat → Bool) (h : ∀ x ∈ L, q2 x = q x) :
    (L.filter q2).length = (L.filter q).length := by
  rw [List.filter_congr h]

theorem InvK.item {l : LData} (h : InvK l) (x p : Nat) (c : Int)
    (hx : l.ikey x = some (p, c)) : 1 ≤ l.nif p c := by
  obtain ⟨D, K, hD, _, e⟩ := h.cover
  rw [e p c]
  have hm : x ∈ D.filter (fun x => l.ikey x = some (p, c)) :=
    Finset.mem_filter.2 ⟨hD x (by rw [hx]; simp), hx⟩
  have : 0 < (D.filter (fun x => l.ikey x = some (p, c))).card := Finset.card_pos.2 ⟨x, hm⟩
  omega

theorem InvK.run {l : LData} (h : InvK l) (k p : Nat) (c : Int)
    (hk : l.rk k = some (p, c)) : 1 ≤ l.nif p c := by
  obtain ⟨D, K, _, hK, e⟩ := h.cover
  rw [e p c]
  have hm : k ∈ K.filter (fun k => l.rk k = some (p, c)) :=
    Finset.mem_filter.2 ⟨hK k (by rw [hk]; simp), hk⟩
  have : 0 < (K.filter (fun k => l.rk k = some (p, c))).card := Finset.card_pos.2 ⟨k, hm⟩
  omega

theorem tip_ikey (l : LData) (p : Nat) (c : Int) : (l.tip p c).ikey = l.ikey := by
  unfold LData.tip
  split_ifs <;> rfl

theorem bias_le_one (pc : flush_pc) : pc.bias ≤ 1 := by
  unfold flush_pc.bias
  split_ifs <;> decide

theorem cdist_next_full (fc c : Int) (h1 : 0 ≤ fc ∧ fc < 16) (h2 : 0 ≤ c ∧ c < 16)
    (h : cdist fc c = 15) : cdist (work_next_color fc) (work_next_color c) = 15 := by
  rw [work_next_color_emod c h2.1, work_next_color_emod fc h1.1]
  unfold cdist at *
  omega

theorem map_update {α β : Type} (g : Nat → Option α) (x : Nat) (v : Option α) (f : α → β) :
    (fun y => (Function.update g x v y).map f) = Function.update (fun y => (g y).map f) x (v.map f) := by
  funext y
  by_cases h : y = x
  · rw [h, Function.update_same, Function.update_same]
  · rw [Function.update_noteq h, Function.update_noteq h]

theorem ldata_add_nif (a : Acc) (p : Nat) (c d : Int) :
    (a.add_nif p c d).ldata = a.ldata.add p c d := rfl

theorem ldata_tip (a : Acc) (p : Nat) (c : Int) : (a.tip p c).ldata = a.ldata.tip p c := by
  unfold Acc.tip FlushView.tip LData.tip
  by_cases h1 : a.fv.pwq_flush_color p ≠ c
  · rw [if_pos h1, if_pos (show a.ldata.pfc p ≠ c from h1)]
  rw [if_neg h1, if_neg (show ¬ a.ldata.pfc p ≠ c from h1)]
  by_cases h2 : a.nr_in_flight p c ≠ 0
  · rw [if_pos h2, if_pos (show a.ldata.nif p c ≠ 0 from h2)]
  rw [if_neg h2, if_neg (show ¬ a.ldata.nif p c ≠ 0 from h2)]
  by_cases h3 : a.fv.nr_pwqs_to_flush (a.fv.pwq_wq p) - 1 = 0
  · rw [if_pos h3, if_pos (show a.ldata.n (a.ldata.pwq_wq p) - 1 = 0 from h3)]
    rfl
  · rw [if_neg h3, if_neg (show ¬ a.ldata.n (a.ldata.pwq_wq p) - 1 = 0 from h3)]
    rfl

theorem ldata_activate (a : Acc) (w p : Nat) : (a.activate w p).ldata = a.ldata := by
  apply LData.ext <;> try rfl
  show (fun x => ((Function.update a.item w ((a.item w).map
    (fun it => { it with inact := false }))) x).map (fun it => (it.pwq, it.color))) =
      fun x => (a.item x).map (fun it => (it.pwq, it.color))
  rw [map_update]
  funext y
  by_cases h : y = w
  · rw [h, Function.update_same]
    cases a.item w <;> rfl
  · rw [Function.update_noteq h]

theorem ldata_settle (a : Acc) (p : Nat) : (a.settle p).ldata = a.ldata := by
  unfold Acc.settle
  split_ifs
  · exact ldata_activate a _ p
  · rfl

theorem ldata_adjust (a : Acc) (p : Nat) (m : Int) (n : Nat) :
    (a.adjust p m n).ldata = a.ldata := by
  induction n with
  | zero => rfl
  | succ n ih =>
    show ((a.adjust p m n).settle p).ldata = _
    rw [ldata_settle, ih]

theorem ldata_dec (a : Acc) (p : Nat) (c : Int) (ia : Bool) :
    (a.dec p c ia).ldata = (a.ldata.add p c (-1)).tip p c := by
  unfold Acc.dec
  split_ifs
  · rw [ldata_tip, ldata_add_nif]
  · rw [ldata_tip, ldata_add_nif, ldata_settle]
    rfl

theorem ldata_enqueue (a : Acc) (x q : Nat) :
    (a.enqueue x q).ldata =
      { a.ldata.add q (a.ldata.pwc q) 1 with
        ikey := Function.update a.ldata.ikey x (some (q, a.ldata.pwc q)) } := by
  unfold Acc.enqueue
  split_ifs
  · apply LData.ext <;> try rfl
    exact map_update a.item x _ _
  · apply LData.ext <;> try rfl
    exact map_update a.item x _ _

theorem ldata_start (a : Acc) (k w : Nat) (it : Item) :
    (a.start k w it).ldata =
      { a.ldata with
        ikey := Function.update a.ldata.ikey w none
        rkey := Function.update a.ldata.rkey k (some (w, it.pwq, it.color)) } := by
  apply LData.ext <;> try rfl
  · exact map_update a.item w _ _
  · exact map_update a.run k _ _

theorem ldata_steal (a : Acc) (w : Nat) (it : Item) :
    (a.steal w it).ldata =
      ((({ a.ldata with ikey := Function.update a.ldata.ikey w none } : LData).add
        it.pwq it.color (-1)).tip it.pwq it.color) := by
  unfold Acc.steal
  rw [ldata_dec]
  congr 2
  split_ifs
  · apply LData.ext <;> try rfl
    show (fun x => ((Function.update (a.activate w it.pwq).item w none) x).map
      (fun it => (it.pwq, it.color))) = _
    rw [map_update]
    have h := congrArg LData.ikey (ldata_activate a w it.pwq)
    have h2 : (fun y => ((a.activate w it.pwq).item y).map (fun it => (it.pwq, it.color))) =
        a.ldata.ikey := h
    rw [h2]
    rfl
  · apply LData.ext <;> try rfl
    exact map_update a.item w _ _

theorem ldata_wake (s : State) (wq f : Nat) :
    ldata (__flush_workqueue_wake s wq f).1 = ((ldata s).wake wq f).1 ∧
    (__flush_workqueue_wake s wq f).2 = ((ldata s).wake wq f).2 :=
  ⟨rfl, rfl⟩

theorem ikey_unlinked (s : State) (x : Nat) (h : s.work_entry x = none) :
    (ldata s).ikey x = none := by
  show ((acc s).item x).map _ = _
  rw [item_of_unlinked s x h]
  rfl

theorem FlushFrame_set (s0 s : State) (f : Field) (v : f.type) (hf : Field.external f = true)
    (h : FlushFrame s0 s) : FlushFrame s0 (s.set f v) := by
  intro g hg hc
  have : g ≠ f := external_ne g f hg hf
  rw [State.set_other _ _ _ _ this]
  exact h g hg hc

theorem ldata_link_color (s : State) (p : Nat) :
    ldata (link_pwq_color s p) = (ldata s).link_color p := rfl

theorem ldata_link_add (s : State) (p : Nat) :
    ldata (link_pwq_add s p) = (ldata s).link_add p := rfl

/-- The function `link_pwq` is its three statements in sequence. -/
theorem link_pwq_statements (s : State) (pwq : Nat) :
    link_pwq s pwq =
      if pwq ∈ s.wq_pwqs (s.pwq_wq pwq) then s
      else link_pwq_add (pwq_adjust_max_active (link_pwq_color s pwq) pwq) pwq := by
  unfold link_pwq link_pwq_add
  dsimp only
  split_ifs with c
  · rfl
  · have e : (pwq_adjust_max_active (link_pwq_color s pwq) pwq).pwq_wq = s.pwq_wq := by
      show pwq_adjust_max_active (link_pwq_color s pwq) pwq .pwq_wq = s .pwq_wq
      rw [pwq_adjust_max_active_frame _ _ _ (by decide) (by decide) (by decide) (by decide)
        (by decide) (by decide) (by decide) (by decide) (by decide)]
      rfl
    rw [e]
    rfl

theorem otherstep_step (work : Nat) (s s2 : State) (h : OtherStep work s s2) : Step s s2 := by
  cases h with
  | claim w => exact Step.claim s w
  | queue fuel t cpu wq w _ _ h0 hnb hp he h => exact Step.queue s fuel t cpu wq w s2 h0 hnb hp he h
  | flush w barr _ hb0 hb hf ht => exact Step.flush s w barr hb0 hb hf ht
  | grab w d hnb => exact Step.grab s w d hnb
  | release_clear w _ hl => exact Step.release_clear s w hl
  | release_pool w _ hl => exact Step.release_pool s w hl
  | canceling w _ hl => exact Step.canceling s w hl
  | assign k w hk0 hk hw hA => exact Step.assign s k w hk0 hk hw hA
  | start k w hk0 hk hh => exact Step.start s k w hk0 hk hh
  | finish k hk => exact Step.finish s k hk
  | adjust pwq => exact Step.adjust s pwq
  | prep wq pwq fc wc wait hwc => exact Step.prep s wq pwq fc wc wait hwc
  | link_color pwq h0 h1 => exact Step.link_color s pwq h0 h1
  | install wq cpu pwq hp => exact Step.install s wq cpu pwq hp
  | attach worker pool hk hl => exact Step.attach s worker pool hk hl
  | detach worker hk hl => exact Step.detach s worker hk hl
  | env f v hf _ => exact Step.env s f v hf

theorem entry_of_ikey_none (s : State) (x : Nat) (h : (ldata s).ikey x = none) :
    s.work_entry x = none := by
  apply entry_of_item_none
  have h2 : ((acc s).item x).map (fun it => (it.pwq, it.color)) = none := h
  cases hx : (acc s).item x with
  | none => rfl
  | some it =>
    rw [hx] at h2
    cases h2

/-- A work item that is not linked is not linked after `try_to_grab_pending` on any work
item. -/
theorem grab_entry_none (s : State) (w : Nat) (d : Bool) (x : Nat) (hi : InvC (core s))
    (hnb : s.work_func w ≠ wq_barrier_func) (hx : s.work_entry x = none) :
    (try_to_grab_pending s w d).2.work_entry x = none := by
  apply entry_of_ikey_none
  have h0 := ikey_unlinked s x hx
  rcases acc_grab s w d hi hnb with e | ⟨it, _, _, e⟩
  · show (acc _).ldata.ikey x = none
    rw [e]
    exact h0
  · show (acc _).ldata.ikey x = none
    rw [e, ldata_steal, tip_ikey]
    show Function.update (acc s).ldata.ikey w none x = none
    by_cases c : x = w
    · rw [c, Function.update_same]
    · rw [Function.update_noteq c]
      exact h0

/-- No step of another task links the work item. -/
theorem otherstep_entry (work : Nat) (s s2 : State) (hi : InvC (core s))
    (h : OtherStep work s s2) (hx : s.work_entry work = none) : s2.work_entry work = none := by
  have h0 := ikey_unlinked s work hx
  have same : acc s2 = acc s → s2.work_entry work = none := by
    intro e
    apply entry_of_ikey_none
    show (acc s2).ldata.ikey work = none
    rw [e]
    exact h0
  cases h with
  | claim w => exact same (acc_claim s w)
  | queue fuel t cpu wq w _ hne _ hnb _ he h =>
    rcases acc___queue_work fuel s t cpu wq w s2 hi he hnb h with e | ⟨pwq, e⟩
    · exact same e
    · apply entry_of_ikey_none
      show (acc s2).ldata.ikey work = none
      rw [e, ldata_enqueue]
      show Function.update (acc s).ldata.ikey w _ work = none
      rw [Function.update_noteq (Ne.symm hne)]
      exact h0
  | flush w barr hne _ _ _ _ =>
    rw [start_flush_work_entry_other s w barr work (Ne.symm hne)]
    exact hx
  | grab w d hnb => exact grab_entry_none s w d work hi hnb hx
  | release_clear w _ hl => exact same (acc_release_clear s w hl)
  | release_pool w _ hl => exact same (acc_release_pool s w hl)
  | canceling w _ hl => exact same (acc_canceling s w hl)
  | assign k w _ _ hw _ => exact same (acc_assign s k w hi hw)
  | start k w _ _ hh =>
    apply entry_of_ikey_none
    show (acc _).ldata.ikey work = none
    rw [acc_start s k w hi hh, ldata_start]
    show Function.update (acc s).ldata.ikey w none work = none
    by_cases c : work = w
    · rw [c, Function.update_same]
    · rw [Function.update_noteq c]
      exact h0
  | finish k _ =>
    apply entry_of_ikey_none
    show (acc _).ldata.ikey work = none
    rw [acc_finish s k hi, ldata_dec, tip_ikey]
    exact h0
  | adjust pwq =>
    obtain ⟨m, n, e⟩ := acc_adjust s pwq hi
    apply entry_of_ikey_none
    show (acc _).ldata.ikey work = none
    rw [e, ldata_adjust]
    exact h0
  | prep wq pwq fc wc wait _ =>
    rw [show (flush_workqueue_prep_pwq s wq pwq fc wc wait).2.work_entry = s.work_entry from
      prep_config s wq pwq fc wc wait .work_entry rfl (by decide)]
    exact hx
  | link_color pwq _ _ => exact hx
  | install wq cpu pwq _ => exact hx
  | attach worker pool _ _ =>
    rw [show (worker_attach_to_pool s worker pool).work_entry = s.work_entry from
      attach_config s worker pool .work_entry rfl (by decide)]
    exact hx
  | detach worker _ _ =>
    rw [show (worker_detach_from_pool s worker).work_entry = s.work_entry from
      detach_config s worker .work_entry rfl (by decide)]
    exact hx
  | env f v hf _ =>
    rw [show (s.set f v).work_entry = s.work_entry from
      State.set_other s f _ v (external_ne _ f rfl hf)]
    exact hx

theorem __queue_work_retry_frame (g : Field)
    (h1 : g ≠ .pool_watchdog_ts) (h2 : g ≠ .lists) (h3 : g ≠ .work_entry) (h4 : g ≠ .work_data)
    (h5 : g ≠ .pwq_nr_active) (h6 : g ≠ .pwq_nr_in_flight) (h7 : g ≠ .pwq_refcnt)
    (h8 : g ≠ .worker_task_state) (h9 : g ≠ .worker_task_wake_cpu) (h10 : g ≠ .pwq_stats)
    (h11 : g ≠ .wq_rr_cpu_last) (fuel : Nat) (s : State) (t : task_ctx) (cpu wq w : Nat)
    (s2 : State) (h : __queue_work_retry fuel s t cpu wq w = some s2) : s2 g = s g := by
  induction fuel generalizing s with
  | zero => simp [__queue_work_retry] at h
  | succ n ih =>
    unfold __queue_work_retry at h
    split_ifs at h
    · rw [ih _ h]
      exact __queue_work_cpu_frame s t cpu wq g h11
    · simp only [Option.some.injEq] at h
      rw [← h, __queue_work_insert_frame _ _ _ g h1 h2 h3 h4 h5 h6 h7 h8 h9 h10]
      exact __queue_work_cpu_frame s t cpu wq g h11

theorem __queue_work_frame (g : Field)
    (h1 : g ≠ .pool_watchdog_ts) (h2 : g ≠ .lists) (h3 : g ≠ .work_entry) (h4 : g ≠ .work_data)
    (h5 : g ≠ .pwq_nr_active) (h6 : g ≠ .pwq_nr_in_flight) (h7 : g ≠ .pwq_refcnt)
    (h8 : g ≠ .worker_task_state) (h9 : g ≠ .worker_task_wake_cpu) (h10 : g ≠ .pwq_stats)
    (h11 : g ≠ .wq_rr_cpu_last) (fuel : Nat) (s : State) (t : task_ctx) (cpu wq w : Nat)
    (s2 : State) (h : __queue_work fuel s t cpu wq w = some s2) : s2 g = s g := by
  unfold __queue_work at h
  split_ifs at h
  · simp only [Option.some.injEq] at h
    rw [h]
  · exact __queue_work_retry_frame g h1 h2 h3 h4 h5 h6 h7 h8 h9 h10 h11 fuel s t cpu wq w s2 h

theorem start_flush_work_func_other (s : State) (w barr x : Nat) (hx : x ≠ barr) :
    (start_flush_work s w barr).2.work_func x = s.work_func x := by
  unfold start_flush_work
  split_ifs
  all_goals
    first
    | rfl
    | (dsimp only
       unfold insert_wq_barrier
       dsimp only
       split_ifs <;>
         simp [insert_work, list_add_tail, INIT_WORK_ONSTACK, __set_bit, set_work_pwq,
           set_work_data, get_pwq, State.work_func, hx])

theorem start_flush_work_timer (s : State) (w barr : Nat) :
    (start_flush_work s w barr).2.dwork_timer_pending = s.dwork_timer_pending := by
  unfold start_flush_work
  split_ifs
  all_goals
    first
    | rfl
    | (dsimp only
       exact insert_wq_barrier_frame s _ barr w _ .dwork_timer_pending (by decide) (by decide)
         (by decide) (by decide) (by decide) (by decide))

theorem try_to_grab_pending_func (s : State) (w : Nat) (d : Bool) :
    (try_to_grab_pending s w d).2.work_func = s.work_func := by
  unfold try_to_grab_pending
  dsimp only
  split_ifs <;> simp [State.work_func, test_and_set_bit_pending]

theorem try_to_grab_pending_current_work (s : State) (w : Nat) (d : Bool) :
    (try_to_grab_pending s w d).2.worker_current_work = s.worker_current_work := by
  unfold try_to_grab_pending
  dsimp only
  split_ifs <;> simp [State.worker_current_work, test_and_set_bit_pending]

theorem try_to_grab_pending_timer (s : State) (w : Nat) (d : Bool) (x : Nat)
    (h : s.dwork_timer_pending x = false) :
    (try_to_grab_pending s w d).2.dwork_timer_pending x = false := by
  unfold try_to_grab_pending
  dsimp only
  split_ifs
  · show Function.update s.dwork_timer_pending w false x = false
    by_cases c : x = w
    · rw [c, Function.update_same]
    · rw [Function.update_noteq c]
      exact h
  all_goals
    simp [State.dwork_timer_pending, test_and_set_bit_pending]
    exact h

/-- No step of another task writes the function of the work item. -/
theorem otherstep_func (work : Nat) (s s2 : State) (h : OtherStep work s s2) :
    s2.work_func work = s.work_func work := by
  cases h with
  | claim w => rfl
  | queue fuel t cpu wq w _ _ _ _ _ _ h =>
    exact congrFun (__queue_work_frame .work_func (by decide) (by decide) (by decide) (by decide)
      (by decide) (by decide) (by decide) (by decide) (by decide) (by decide) (by decide)
      fuel s t cpu wq w s2 h) work
  | flush w barr hne _ _ _ _ => exact start_flush_work_func_other s w barr work (Ne.symm hne)
  | grab w d _ => rw [try_to_grab_pending_func]
  | release_clear w _ _ => rfl
  | release_pool w _ _ => rfl
  | canceling w _ _ => rfl
  | assign k w _ _ _ _ =>
    have : (assign_work s w k).2.1.work_func = s.work_func := by
      unfold assign_work
      split_ifs <;> simp [State.work_func]
    rw [this]
  | start k w _ _ _ =>
    have : (process_one_work_begin s k w).work_func = s.work_func := by
      simp [State.work_func]
    rw [this]
  | finish k _ =>
    have : (process_one_work_end s k).work_func = s.work_func := by
      simp [State.work_func]
    rw [this]
  | adjust pwq =>
    have : (pwq_adjust_max_active s pwq).work_func = s.work_func := by
      simp [State.work_func]
    rw [this]
  | prep wq pwq fc wc wait _ =>
    rw [show (flush_workqueue_prep_pwq s wq pwq fc wc wait).2.work_func = s.work_func from
      prep_config s wq pwq fc wc wait .work_func rfl (by decide)]
  | link_color pwq _ _ => rfl
  | install wq cpu pwq _ => rfl
  | attach worker pool _ _ =>
    rw [show (worker_attach_to_pool s worker pool).work_func = s.work_func from
      attach_config s worker pool .work_func rfl (by decide)]
  | detach worker _ _ =>
    rw [show (worker_detach_from_pool s worker).work_func = s.work_func from
      detach_config s worker .work_func rfl (by decide)]
  | env f v hf _ =>
    rw [show (s.set f v).work_func = s.work_func from
      State.set_other s f _ v (external_ne _ f rfl hf)]

/-- No step of another task starts the timer of the work item. -/
theorem otherstep_timer (work : Nat) (s s2 : State) (h : OtherStep work s s2)
    (hx : s.dwork_timer_pending work = false) : s2.dwork_timer_pending work = false := by
  cases h with
  | claim w => exact hx
  | queue fuel t cpu wq w _ _ _ _ _ _ h =>
    have e : s2.dwork_timer_pending = s.dwork_timer_pending :=
      __queue_work_frame .dwork_timer_pending (by decide) (by decide) (by decide)
        (by decide) (by decide) (by decide) (by decide) (by decide) (by decide) (by decide)
        (by decide) fuel s t cpu wq w s2 h
    rw [e]
    exact hx
  | flush w barr _ _ _ _ _ =>
    rw [start_flush_work_timer]
    exact hx
  | grab w d _ => exact try_to_grab_pending_timer s w d work hx
  | release_clear w _ _ => exact hx
  | release_pool w _ _ => exact hx
  | canceling w _ _ => exact hx
  | assign k w _ _ _ _ =>
    have : (assign_work s w k).2.1.dwork_timer_pending = s.dwork_timer_pending := by
      unfold assign_work
      split_ifs <;> simp [State.dwork_timer_pending]
    rw [this]
    exact hx
  | start k w _ _ _ =>
    have : (process_one_work_begin s k w).dwork_timer_pending = s.dwork_timer_pending := by
      simp [State.dwork_timer_pending]
    rw [this]
    exact hx
  | finish k _ =>
    have : (process_one_work_end s k).dwork_timer_pending = s.dwork_timer_pending := by
      simp [State.dwork_timer_pending]
    rw [this]
    exact hx
  | adjust pwq =>
    have : (pwq_adjust_max_active s pwq).dwork_timer_pending = s.dwork_timer_pending := by
      simp [State.dwork_timer_pending]
    rw [this]
    exact hx
  | prep wq pwq fc wc wait _ =>
    have : (flush_workqueue_prep_pwq s wq pwq fc wc wait).2.dwork_timer_pending =
        s.dwork_timer_pending := by
      unfold flush_workqueue_prep_pwq
      dsimp only
      split_ifs <;> simp [State.dwork_timer_pending]
    rw [this]
    exact hx
  | link_color pwq _ _ => exact hx
  | install wq cpu pwq _ => exact hx
  | attach worker pool _ _ =>
    have : (worker_attach_to_pool s worker pool).dwork_timer_pending =
        s.dwork_timer_pending := by
      unfold worker_attach_to_pool
      split_ifs <;> simp [State.dwork_timer_pending]
    rw [this]
    exact hx
  | detach worker _ _ =>
    have : (worker_detach_from_pool s worker).dwork_timer_pending =
        s.dwork_timer_pending := by
      unfold worker_detach_from_pool
      simp [State.dwork_timer_pending]
    rw [this]
    exact hx
  | env f v hf he =>
    rw [he]
    exact hx

theorem start_flush_work_false (s : State) (w barr : Nat)
    (h : (start_flush_work s w barr).1 = false) : (start_flush_work s w barr).2 = s := by
  unfold start_flush_work at h ⊢
  split_ifs at h ⊢ <;> first | rfl | (exact absurd h (by simp))

theorem __flush_work_start_false (s : State) (w barr : Nat) (online : Bool)
    (h : (__flush_work_start s w barr online).1 = false) :
    (__flush_work_start s w barr online).2 = s := by
  unfold __flush_work_start at h ⊢
  split_ifs at h ⊢
  all_goals first | rfl | exact start_flush_work_false s w barr h

theorem __flush_work_start_true (s : State) (w barr : Nat) (online : Bool)
    (h : (__flush_work_start s w barr online).1 = true) :
    __flush_work_start s w barr online = start_flush_work s w barr := by
  unfold __flush_work_start at h ⊢
  split_ifs at h ⊢
  all_goals first | rfl | exact absurd h (by simp)

/-- The states that the other tasks reach while the canceller sleeps: they are reachable, the
work item is not linked, its function is the same and its timer is not started. -/
theorem othersteps_keep (work : Nat) (s u : State) (h : Relation.ReflTransGen (OtherStep work) s u)
    (hr : Reachable s) (he : s.work_entry work = none) :
    Reachable u ∧ u.work_entry work = none ∧ u.work_func work = s.work_func work ∧
    (s.dwork_timer_pending work = false → u.dwork_timer_pending work = false) := by
  induction h with
  | refl => exact ⟨hr, he, rfl, fun h => h⟩
  | tail _ st ih =>
    obtain ⟨i1, i2, i3, i4⟩ := ih
    exact ⟨i1.step (otherstep_step work _ _ st),
      otherstep_entry work _ _ (reachable_inv _ i1) st i2,
      (otherstep_func work _ _ st).trans i3,
      fun h => otherstep_timer work _ _ st (i4 h)⟩

/-- C12 (amended): `__cancel_work_timer`, which `cancel_work_sync` and
`cancel_delayed_work_sync` call, on a work item that is not a barrier and is in a stable
state (waiting on its timer, idle, or queued) of a reachable state, with the barrier of
`__flush_work` on the stack of the caller (an address that is not in use).  The call returns
at once, or, when a worker is executing the work item, `__flush_work` inserts its barrier and
sleeps while the other tasks make steps, and the call goes on in a later state.  At every
return the return value is true exactly when the timer was pending or PENDING was set at the
call; the state is reachable; the work item is linked on no list and its data word is
`WORK_STRUCT_NO_POOL`: PENDING, CANCELING and the PWQ tag are clear and the word names no
pool; the timer of a delayed work item is not pending; and a following `queue_work_on`
returns true whenever it returns, and schedules the work item exactly once provided
`__queue_work` passes its draining test (the workqueue is neither draining nor being
destroyed, or the caller is a worker executing a work item of it) and the pool_workqueue it
decides on has a positive reference count.  The call returns at once when the workqueues
are not online or no worker is executing the work item. -/
theorem __cancel_work_timer_contract (s : State) (work : Nat) (is_dwork wq_online : Bool)
    (barr : Nat) (hr : Reachable s) (hw : work ≠ 0) (hnb : s.work_func work ≠ wq_barrier_func)
    (hst : stable_work s work is_dwork) (hb0 : barr ≠ 0) (hbw : barr ≠ work)
    (hbe : s.work_entry barr = none) (hbk : ∀ k, s.worker_current_work k ≠ barr) :
    (∀ r, cancel_returns s work is_dwork wq_online barr r →
      r.1 = decide ((is_dwork = true ∧ s.dwork_timer_pending work = true) ∨
        work_pending s work = true) ∧
      Reachable r.2 ∧ work_cancelled r.2 work ∧ requeue_ok r.2 work ∧
      (is_dwork = true → r.2.dwork_timer_pending work = false)) ∧
    ((wq_online = false ∨ ∀ k, s.worker_current_work k ≠ work) →
      ∃ r, __cancel_work_timer s work is_dwork wq_online barr = some r) ∧
    cancel_work_sync s work wq_online barr = __cancel_work_timer s work false wq_online barr ∧
    cancel_delayed_work_sync s work wq_online barr =
      __cancel_work_timer s work true wq_online barr := by
  obtain ⟨g1, g2, g3, g4, g5, g6, g7, g8⟩ := cancel_grab s work is_dwork hr hnb hst
  have hi := reachable_inv s hr
  have hge : ¬ (try_to_grab_pending s work is_dwork).1 < 0 := by
    rcases g1 with h | h <;> rw [h] <;> decide
  have hret : decide ((try_to_grab_pending s work is_dwork).1 ≠ 0) =
      decide ((is_dwork = true ∧ s.dwork_timer_pending work = true) ∨
        work_pending s work = true) := by
    rcases g1 with h | h
    · have hn : ¬ ((is_dwork = true ∧ s.dwork_timer_pending work = true) ∨
          work_pending s work = true) := fun hh => by
        have := g2.2 hh
        rw [h] at this
        exact absurd this (by decide)
      rw [h, decide_eq_false hn]
      rfl
    · rw [h, decide_eq_true (g2.1 h)]
      rfl
  have hfun : (mark_work_canceling (try_to_grab_pending s work is_dwork).2 work).work_func =
      s.work_func := by
    have e1 : ∀ u : State, (mark_work_canceling u work).work_func = u.work_func := fun u => rfl
    rw [e1, try_to_grab_pending_func]
  have hcur : (mark_work_canceling (try_to_grab_pending s work is_dwork).2 work).worker_current_work
      = s.worker_current_work := by
    have e1 : ∀ u : State, (mark_work_canceling u work).worker_current_work =
      u.worker_current_work := fun u => rfl
    rw [e1, try_to_grab_pending_current_work]
  have hbe1 : (mark_work_canceling (try_to_grab_pending s work is_dwork).2 work).work_entry barr
      = none := by
    have e1 : ∀ u : State, (mark_work_canceling u work).work_entry = u.work_entry := fun u => rfl
    rw [e1]
    exact grab_entry_none s work is_dwork barr hi hnb hbe
  generalize hu : mark_work_canceling (try_to_grab_pending s work is_dwork).2 work = u
    at g3 g4 g5 g6 g7 g8 hfun hcur hbe1
  have fin : ∀ v : State, Reachable v → v.work_entry work = none →
      v.work_func work = s.work_func work →
      (is_dwork = true → v.dwork_timer_pending work = false) →
      Reachable (clear_work_data v work) ∧ work_cancelled (clear_work_data v work) work ∧
      requeue_ok (clear_work_data v work) work ∧
      (is_dwork = true → (clear_work_data v work).dwork_timer_pending work = false) := by
    intro v v1 v2 v3 v4
    obtain ⟨k1, k2, k3⟩ := after_clear_work_data v work v1 hw (by rw [v3]; exact hnb) v2
    refine ⟨k1, k2, k3, fun hd => ?_⟩
    show clear_work_data v work .dwork_timer_pending work = false
    rw [(clear_work_data_fields v work).2 .dwork_timer_pending (by simp)]
    exact v4 hd
  refine ⟨?_, ?_, rfl, rfl⟩
  · intro r hcr
    cases hcr with
    | at_once _ h =>
      unfold __cancel_work_timer at h
      rw [if_neg hge] at h
      simp only [] at h
      rw [hu] at h
      by_cases hf : (if wq_online = true then __flush_work_start u work barr wq_online
          else (false, u)).1 = true
      · rw [if_pos hf] at h
        cases h
      · rw [if_neg hf] at h
        simp only [Option.some.injEq] at h
        have hf2 : (if wq_online = true then __flush_work_start u work barr wq_online
            else (false, u)).2 = u := by
          by_cases hon : wq_online = true
          · rw [if_pos hon] at hf ⊢
            exact __flush_work_start_false u work barr wq_online (by simpa using hf)
          · rw [if_neg hon]
        rw [hf2] at h
        rw [← h]
        exact ⟨hret, fin u g3 g4 (congrFun hfun work) g8⟩
    | waited v _ hon hf hsteps =>
      rw [hu] at hf hsteps
      have est := __flush_work_start_true u work barr wq_online hf
      rw [est] at hf hsteps
      have hrf : Reachable (start_flush_work u work barr).2 :=
        g3.step (Step.flush u work barr hb0 hbe1 (fun k => by rw [hcur]; exact hbk k) hf)
      have hef : (start_flush_work u work barr).2.work_entry work = none := by
        rw [start_flush_work_entry_other u work barr work (Ne.symm hbw)]
        exact g4
      obtain ⟨i1, i2, i3, i4⟩ := othersteps_keep work _ v hsteps hrf hef
      refine ⟨hret, fin v i1 i2 ?_ ?_⟩
      · rw [i3, start_flush_work_func_other u work barr work (Ne.symm hbw)]
        exact congrFun hfun work
      · intro hd
        apply i4
        rw [start_flush_work_timer]
        exact g8 hd
  · intro hcase
    have hflush : (if wq_online = true then __flush_work_start u work barr wq_online
        else (false, u)) = (false, u) := by
      by_cases hon : wq_online = true
      · rw [if_pos hon]
        rcases hcase with h | hex
        · rw [h] at hon
          cases hon
        · unfold __flush_work_start
          rw [if_neg (by rw [hon]; simp)]
          by_cases hf0 : u.work_func work = 0
          · rw [if_pos hf0]
          · rw [if_neg hf0]
            exact start_flush_work_not_executing u work barr g5 (by rw [hcur]; exact hex)
      · rw [if_neg hon]
    refine ⟨(decide ((try_to_grab_pending s work is_dwork).1 ≠ 0), clear_work_data u work), ?_⟩
    unfold __cancel_work_timer
    rw [if_neg hge]
    simp only []
    rw [hu, hflush]
    rfl

theorem Init_ex_pool_worker_id : Init ex_pool_worker_id := by
  refine ⟨fun _ => rfl, fun _ => rfl, fun x => ?_, fun _ _ => rfl, fun _ => rfl,
    fun _ => rfl, fun _ => rfl, fun _ _ => ?_, fun _ => ?_⟩
  · have e : ex_pool_worker_id.work_data x = WORK_STRUCT_NO_POOL := by
      simp [ex_pool_worker_id, ex_pool_worker, ex_freezable, ex_one_pwq, State.work_data]
      rfl
    rw [e]
    decide
  · show aligned_pwq 256
    decide
  · show (0 : Int) ≤ 0 ∧ (0 : Int) < 16
    decide

set_option maxRecDepth 100000 in
theorem Reachable_ex_executing : Reachable ex_executing :=
  ((reachable_state_after 1 ex_pool_worker_id ex_task 0 32 1000
    ⟨_, Init_ex_pool_worker_id, Relation.ReflTransGen.refl⟩
    (by decide) (by decide) (by decide)).step
    (Step.assign _ 16 1000 (by decide) (by decide) (by decide) (by decide))).step
    (Step.start _ 16 1000 (by decide) (by decide) (by decide))

set_option maxRecDepth 100000 in
theorem ex_executing_facts :
    ex_executing.worker_current_work 16 = 1000 ∧
    ex_executing.work_func 1000 ≠ wq_barrier_func ∧
    stable_work ex_executing 1000 false ∧
    ex_executing.work_entry 2000 = none ∧
    (__cancel_work_timer ex_executing 1000 false true 2000).isSome = false ∧
    ¬ (try_to_grab_pending ex_executing 1000 false).1 < 0 ∧
    (__flush_work_start
      (mark_work_canceling (try_to_grab_pending ex_executing 1000 false).2 1000)
      1000 2000 true).1 = true ∧
    ex_cancel_waiting.worker_current_work 16 ≠ 0 ∧
    ex_cancel_waiting.work_entry 2000 = some (list_head.scheduled 16) := by
  refine ⟨by decide, by decide, Or.inr (Or.inl ⟨by decide, by decide⟩), by decide, by decide,
    by decide, by decide, by decide, by decide⟩

set_option maxRecDepth 100000 in
theorem ex_executing_workers (k : Nat) : ex_executing.worker_current_work k ≠ 2000 := by
  have e : ex_executing.worker_current_work k =
      Function.update (fun _ => 0) 16 1000 k := rfl
  rw [e]
  by_cases c : k = 16
  · rw [c, Function.update_same]
    decide
  · rw [Function.update_noteq c]
    decide

set_option maxRecDepth 100000 in
/-- C12 (witness): `cancel_work_sync` on the queued work item 1000 of `ex_backlog` returns at
once with true; `cancel_work_sync` on the work item 1000 of `ex_executing`, which the worker
16 executes, sleeps in `__flush_work`, the worker finishes the work item, and the call
returns false in the state that follows. -/
theorem __cancel_work_timer_contract_witness :
    ((ex_backlog.work_func 1000 ≠ wq_barrier_func ∧ stable_work ex_backlog 1000 false ∧
      ex_backlog.work_entry 1000 = some (list_head.worklist 64)) ∧
    ∃ s2, __cancel_work_timer ex_backlog 1000 false true 2000 = some (true, s2) ∧
      Reachable s2 ∧ work_cancelled s2 1000 ∧ requeue_ok s2 1000) ∧
    (ex_executing.worker_current_work 16 = 1000 ∧ stable_work ex_executing 1000 false ∧
      (__cancel_work_timer ex_executing 1000 false true 2000).isSome = false) ∧
    ∃ r, cancel_returns ex_executing 1000 false true 2000 r ∧ r.1 = false ∧
      r.2 = clear_work_data ex_cancel_woken 1000 ∧ Reachable r.2 ∧
      work_cancelled r.2 1000 ∧ requeue_ok r.2 1000 := by
  have hst : stable_work ex_backlog 1000 false :=
    Or.inr (Or.inr ⟨by decide, by decide, by decide, by decide, by decide⟩)
  have h1 := __cancel_work_timer_contract ex_backlog 1000 false true 2000
    Reachable_ex_backlog (by decide) (by decide) hst (by decide) (by decide) (by decide)
    (fun k => by rw [ex_backlog_idle k]; decide)
  obtain ⟨f1, f2, f3, f4, f5, f6, f7, f8, f9⟩ := ex_executing_facts
  have h2 := __cancel_work_timer_contract ex_executing 1000 false true 2000
    Reachable_ex_executing (by decide) f2 f3 (by decide) (by decide) f4 ex_executing_workers
  obtain ⟨r, hr⟩ := h1.2.1 (Or.inr (fun k => by rw [ex_backlog_idle k]; decide))
  obtain ⟨a1, a2, a3, a4, _⟩ := h1.1 r (cancel_returns.at_once r hr)
  have a5 : r.1 = true := a1.trans (by decide)
  have hcr : cancel_returns ex_executing 1000 false true 2000
      (decide ((try_to_grab_pending ex_executing 1000 false).1 ≠ 0),
        clear_work_data ex_cancel_woken 1000) :=
    cancel_returns.waited ex_cancel_woken f6 rfl f7
      (Relation.ReflTransGen.single (OtherStep.finish ex_cancel_waiting 16 f8))
  obtain ⟨b1, b2, b3, b4, _⟩ := h2.1 _ hcr
  refine ⟨⟨⟨by decide, hst, by decide⟩, r.2, ?_, a2, a3, a4⟩, ⟨f1, f3, f5⟩, _, hcr,
    b1.trans (by decide), rfl, b2, b3, b4⟩
  rw [hr, ← a5]

end Workqueue
